import Mathlib

/-! # printemps: evaluation kernel, scoring and move generators

A shallow embedding of parts of the `printemps` metaheuristic solver (and of its
older sibling `cppmh`) together with proofs about them.

Conventions of the embedding.

* A pointer to a `Variable` is its address, a natural number (`std::uint64_t`
  after `reinterpret_cast`).  A pointer to a `Constraint` is the position of the
  constraint in the model, in the order in which `Model::evaluate` visits them.
* `T_Variable` is `ℤ`; `T_Expression` (and `double`) is `ℚ`: arithmetic is exact.
* `std::vector` is `List`; `std::unordered_map` is an association list whose
  keys are pairwise distinct, iterated in list order (the iteration order of an
  `unordered_map` is unspecified, and every statement below holds for each order).
* `std::uint_fast32_t` arithmetic is done in `ℕ`: the bucket count of a table is
  below `200 * size + 1`, so that it does not wrap for a map that fits in memory.
* A `while` loop whose termination depends on the data is a function with a
  fuel argument that returns `none` when the fuel is used up.  The fuel handed to
  the probe loops is the bucket count of the table: a probe that has made that
  many steps has seen every slot and will cycle forever, so that `none` stands
  for a call that does not return.
-/

namespace cppmh
namespace model

/-! ## `cppmh/model/fixed_size_hash_map.h` -/

namespace FixedSizeHashMapConstant

def DEFAULT_BUCKET_SIZE : Nat := 16

def LOAD_MARGIN : Nat := 100

end FixedSizeHashMapConstant

/-- The members of `FixedSizeHashMap<T_Key, T_Value>`; `T_Key` is a pointer. -/
structure FixedSizeHashMap (V : Type) where
  m_shift_size : Nat
  m_bucket_size : Nat
  m_mask : Nat
  m_keys : List Nat
  m_values : List V
  m_is_occupied : List Bool

namespace FixedSizeHashMap

variable {V : Type} [Zero V]

def compute_hash (self : FixedSizeHashMap V) (a_KEY : Nat) : Nat :=
  a_KEY >>> self.m_shift_size

def compute_index (self : FixedSizeHashMap V) (a_HASH : Nat) : Nat :=
  a_HASH &&& self.m_mask

/-- The loop `while (m_is_occupied[index]) index = (index + 1) & m_mask;` of
`insert`; the result is the index at which the loop is left. -/
def insert_probe (self : FixedSizeHashMap V) : Nat → Nat → Option Nat
  | 0, _ => none
  | fuel + 1, index =>
    if self.m_is_occupied.getD index false then
      insert_probe self fuel ((index + 1) &&& self.m_mask)
    else
      some index

def insert (self : FixedSizeHashMap V) (a_KEY : Nat) (a_VALUE : V) :
    Option (FixedSizeHashMap V) :=
  match self.insert_probe self.m_bucket_size (self.compute_hash a_KEY &&& self.m_mask) with
  | none => none
  | some index =>
    some { self with
      m_is_occupied := self.m_is_occupied.set index true
      m_keys := self.m_keys.set index a_KEY
      m_values := self.m_values.set index a_VALUE }

/-- The method `initialize` (the name is a keyword of Lean, hence the underscore). -/
def initialize_ : FixedSizeHashMap V :=
  { m_shift_size := 0
    m_bucket_size := FixedSizeHashMapConstant.DEFAULT_BUCKET_SIZE
    m_mask := FixedSizeHashMapConstant.DEFAULT_BUCKET_SIZE - 1
    m_keys := List.replicate FixedSizeHashMapConstant.DEFAULT_BUCKET_SIZE 0
    m_values := List.replicate FixedSizeHashMapConstant.DEFAULT_BUCKET_SIZE 0
    m_is_occupied := List.replicate FixedSizeHashMapConstant.DEFAULT_BUCKET_SIZE false }

/-- The loop `while (bucket_size < minimum_bucket_size) bucket_size <<= 1;` of
`setup`. -/
def setup_bucket_size (minimum_bucket_size : Nat) : Nat → Nat → Option Nat
  | 0, _ => none
  | fuel + 1, bucket_size =>
    if bucket_size < minimum_bucket_size then
      setup_bucket_size minimum_bucket_size fuel (bucket_size <<< 1)
    else
      some bucket_size

/-- The loop `for (const auto &item : a_UNORDERED_MAP) insert(item.first, item.second);`
of `setup`. -/
def setup_insert : List (Nat × V) → FixedSizeHashMap V → Option (FixedSizeHashMap V)
  | [], self => some self
  | item :: rest, self =>
    match self.insert item.1 item.2 with
    | none => none
    | some next => setup_insert rest next

/-- The method `setup`: every member is overwritten, so that the result does not
depend on the table the method is called on. -/
def setup (a_UNORDERED_MAP : List (Nat × V)) (a_KEY_SIZE : Nat) :
    Option (FixedSizeHashMap V) :=
  let minimum_bucket_size := a_UNORDERED_MAP.length * FixedSizeHashMapConstant.LOAD_MARGIN
  match setup_bucket_size minimum_bucket_size (minimum_bucket_size + 1) 1 with
  | none => none
  | some bucket_size =>
    setup_insert a_UNORDERED_MAP
      { m_shift_size := Nat.log2 a_KEY_SIZE
        m_bucket_size := bucket_size
        m_mask := bucket_size - 1
        m_keys := List.replicate bucket_size 0
        m_values := List.replicate bucket_size 0
        m_is_occupied := List.replicate bucket_size false }

/-- The loop `while (m_keys[index] != a_KEY) { ... }` of `at`, with the `return`
that follows it. -/
def at_probe (self : FixedSizeHashMap V) (a_KEY : Nat) : Nat → Nat → Option V
  | 0, _ => none
  | fuel + 1, index =>
    if self.m_keys.getD index 0 != a_KEY then
      if !self.m_is_occupied.getD index false then
        some 0
      else
        at_probe self a_KEY fuel ((index + 1) &&& self.m_mask)
    else
      some (self.m_values.getD index 0)

end FixedSizeHashMap

def FixedSizeHashMap.at {V : Type} [Zero V] (self : FixedSizeHashMap V) (a_KEY : Nat) :
    Option V :=
  let index := (a_KEY >>> self.m_shift_size) &&& self.m_mask
  if !self.m_is_occupied.getD index false then
    some 0
  else
    self.at_probe a_KEY self.m_bucket_size index

end model
end cppmh

namespace cppmh
namespace model
namespace FixedSizeHashMap

variable {V : Type} [Zero V]

/-- The slot that the probe sequence starting at `start` visits after `d` steps in
a table of `2 ^ p` buckets. -/
def slot (p start d : Nat) : Nat := (start + d) % 2 ^ p

/-- The first slot of the probe sequence of a key. -/
def home (self : FixedSizeHashMap V) (a_KEY : Nat) : Nat :=
  (a_KEY >>> self.m_shift_size) &&& self.m_mask

/-- The table has `2 ^ p` buckets and its three vectors have that length. -/
structure Shape (t : FixedSizeHashMap V) (p : Nat) : Prop where
  bucket : t.m_bucket_size = 2 ^ p
  mask : t.m_mask = 2 ^ p - 1
  keys : t.m_keys.length = 2 ^ p
  values : t.m_values.length = 2 ^ p
  occupied : t.m_is_occupied.length = 2 ^ p

/-- The table holds exactly the entries of `L`: every occupied slot stores an entry
of `L`, an unoccupied slot has the value zero, and every entry of `L` is found by
probing from its home slot through occupied slots that hold other keys. -/
structure Holds (t : FixedSizeHashMap V) (p : Nat) (L : List (Nat × V)) : Prop where
  shape : Shape t p
  stored : ∀ i, i < 2 ^ p → t.m_is_occupied.getD i false = true →
    ∃ kv ∈ L, t.m_keys.getD i 0 = kv.1 ∧ t.m_values.getD i 0 = kv.2
  blank : ∀ i, i < 2 ^ p → t.m_is_occupied.getD i false = false →
    t.m_values.getD i 0 = 0
  reach : ∀ kv ∈ L, ∃ d, d < 2 ^ p ∧
    t.m_is_occupied.getD (slot p (t.home kv.1) d) false = true ∧
    t.m_keys.getD (slot p (t.home kv.1) d) 0 = kv.1 ∧
    t.m_values.getD (slot p (t.home kv.1) d) 0 = kv.2 ∧
    ∀ e, e < d → t.m_is_occupied.getD (slot p (t.home kv.1) e) false = true ∧
      t.m_keys.getD (slot p (t.home kv.1) e) 0 ≠ kv.1
  count : t.m_is_occupied.count true = L.length

end FixedSizeHashMap
end model
end cppmh

namespace printemps

namespace constant

/-- Modelled from the spec: `constant::EPSILON_10` (`constant/constant.h` is not
among the sources); the spec gives the absolute epsilon of the mask path as
`10⁻¹⁰`. -/
def EPSILON_10 : ℚ := 1 / 10 ^ 10

/-- Modelled from the spec: `constant::EPSILON` (`constant/constant.h` is not
among the sources); the spec gives `EPSILON ≈ 10⁻⁸`. -/
def EPSILON : ℚ := 1 / 10 ^ 8

end constant

namespace model_component

/-- The enumeration of `variable_sense.h`. -/
inductive VariableSense where
  | Binary
  | Integer
  | Selection
  | Intermediate
  deriving DecidableEq, Repr

/-- A pointer to a constraint: the position of the constraint in the concatenation
of the `flat_indexed_constraints()` of the constraint proxies of the model. -/
abbrev ConstraintPtr := Nat

/-- Modelled from the spec: the members of `Variable<T_Variable, T_Expression>`
that the code under study reads (`variable.h` is not among the sources).  A
selection pointer is the position of the selection in `Model::m_selections`, and
the index bounds are `-1` when the variable has no related constraint in its
selection. -/
structure Variable where
  value : ℤ
  lower_bound : ℤ
  upper_bound : ℤ
  is_fixed : Bool
  sense : VariableSense
  is_objective_improvable : Bool
  is_feasibility_improvable : Bool
  objective_sensitivity : ℚ
  constraint_sensitivities : List (ConstraintPtr × ℚ)
  related_constraint_ptrs : List ConstraintPtr
  selection_ptr : Option Nat
  related_selection_constraint_ptr_index_min : ℤ
  related_selection_constraint_ptr_index_max : ℤ

/-- Modelled from the spec: the method `Variable::set_value`, which stores the new
value (`variable.h` is not among the sources). -/
def Variable.set_value (self : Variable) (a_VALUE : ℤ) : Variable :=
  { self with value := a_VALUE }

/-- The memory that holds the `Variable` objects, by address. -/
abbrev VariableHeap := Nat → Variable

end model_component

namespace neighborhood

/-- Modelled from the spec: the enumeration `MoveSense` (`move_sense.h` is not
among the sources); the spec lists the tags of a move. -/
inductive MoveSense where
  | Binary
  | Integer
  | Selection
  | Aggregation
  | Precedence
  | VariableBound
  | ExclusiveOr
  | ExclusiveNor
  | Chain
  | TwoFlip
  | UserDefined
  deriving DecidableEq, Repr

/-- Modelled from the spec: the members of `Move<T_Variable, T_Expression>` that
the code under study reads or writes (`move.h` is not among the sources).  An
alteration is a pair of a variable pointer and a new value. -/
structure Move where
  alterations : List (Nat × ℤ)
  sense : MoveSense
  related_constraint_ptrs : List model_component.ConstraintPtr
  is_univariable_move : Bool
  is_selection_move : Bool
  is_special_neighborhood_move : Bool
  is_available : Bool
  overlap_rate : ℚ
  deriving DecidableEq

end neighborhood

namespace model_component

open cppmh.model

/-- The bitwise complement `~x` of a `std::uint64_t`. -/
def complement64 (x : Nat) : Nat := (x ^^^ (2 ^ 64 - 1)) % 2 ^ 64

/-- The data members of `Expression<T_Variable, T_Expression>` (`expression.h`).
The class `utility::FixedSizeHashMap` of `printemps` is not among the sources; the
member is the class of `cppmh/model/fixed_size_hash_map.h`. -/
structure Expression where
  m_constant_value : ℚ
  m_value : ℚ
  m_is_enabled : Bool
  m_sensitivities : List (Nat × ℚ)
  m_fixed_sensitivities : FixedSizeHashMap ℚ
  m_plus_one_coefficient_mask : Nat
  m_minus_one_coefficient_mask : Nat
  m_has_effective_plus_one_coefficient_mask : Bool
  m_has_effective_minus_one_coefficient_mask : Bool

namespace Expression

/-- The method `initialize` (the members of the base class are left out). -/
def initialize_ : Expression :=
  { m_constant_value := 0
    m_value := 0
    m_is_enabled := true
    m_sensitivities := []
    m_fixed_sensitivities := FixedSizeHashMap.initialize_
    m_plus_one_coefficient_mask := 0
    m_minus_one_coefficient_mask := 0
    m_has_effective_plus_one_coefficient_mask := false
    m_has_effective_minus_one_coefficient_mask := false }

/-- The constructor from a sensitivity map and a constant, which `create_instance`
calls. -/
def create_instance (a_SENSITIVITIES : List (Nat × ℚ)) (a_CONSTANT_VALUE : ℚ) : Expression :=
  { initialize_ with
    m_sensitivities := a_SENSITIVITIES
    m_constant_value := a_CONSTANT_VALUE }

/-- The method `setup_fixed_sensitivities`; `sizeof_Variable` is
`sizeof(Variable<T_Variable, T_Expression>)`. -/
def setup_fixed_sensitivities (self : Expression) (sizeof_Variable : Nat) :
    Option Expression :=
  match FixedSizeHashMap.setup self.m_sensitivities sizeof_Variable with
  | none => none
  | some table => some { self with m_fixed_sensitivities := table }

/-- The first loop of `setup_mask`: the pair of the two masks before complement. -/
def setup_mask_collect (sensitivities : List (Nat × ℚ)) : Nat × Nat :=
  sensitivities.foldl
    (fun masks sensitivity =>
      let plus_one_coefficient_mask :=
        if ¬ (|sensitivity.2 - 1| < constant.EPSILON_10) then masks.1 ||| sensitivity.1
        else masks.1
      let minus_one_coefficient_mask :=
        if ¬ (|sensitivity.2 + 1| < constant.EPSILON_10) then masks.2 ||| sensitivity.1
        else masks.2
      (plus_one_coefficient_mask, minus_one_coefficient_mask))
    (0, 0)

/-- The second loop of `setup_mask`: the two numbers of fast computable
coefficients. -/
def setup_mask_count (sensitivities : List (Nat × ℚ)) (plus_mask minus_mask : Nat) :
    Nat × Nat :=
  sensitivities.foldl
    (fun numbers sensitivity =>
      let plus :=
        if |sensitivity.2 - 1| < constant.EPSILON_10 then
          if sensitivity.1 &&& plus_mask ≠ 0 then numbers.1 + 1 else numbers.1
        else numbers.1
      let minus :=
        if |sensitivity.2 + 1| < constant.EPSILON_10 then
          if sensitivity.1 &&& minus_mask ≠ 0 then numbers.2 + 1 else numbers.2
        else numbers.2
      (plus, minus))
    (0, 0)

def setup_mask (self : Expression) : Expression :=
  let masks := setup_mask_collect self.m_sensitivities
  let m_plus_one_coefficient_mask := complement64 masks.1
  let m_minus_one_coefficient_mask := complement64 masks.2
  let numbers := setup_mask_count self.m_sensitivities m_plus_one_coefficient_mask
    m_minus_one_coefficient_mask
  let number_of_variables := self.m_sensitivities.length
  { self with
    m_plus_one_coefficient_mask := m_plus_one_coefficient_mask
    m_minus_one_coefficient_mask := m_minus_one_coefficient_mask
    m_has_effective_plus_one_coefficient_mask :=
      decide (2 * numbers.1 ≥ number_of_variables)
    m_has_effective_minus_one_coefficient_mask :=
      decide (2 * numbers.2 ≥ number_of_variables) }

def constant_value (self : Expression) : ℚ := self.m_constant_value

/-- The method `evaluate(void)`. -/
def evaluate (self : Expression) (heap : VariableHeap) : ℚ :=
  self.m_sensitivities.foldl
    (fun value sensitivity => value + ((heap sensitivity.1).value : ℚ) * sensitivity.2)
    self.m_constant_value

/-- The loop over the alterations of `evaluate(const Move &)`. -/
def evaluate_move_loop (self : Expression) (heap : VariableHeap) :
    List (Nat × ℤ) → ℚ → Option ℚ
  | [], new_value => some new_value
  | alteration :: rest, new_value =>
    match self.m_fixed_sensitivities.at alteration.1 with
    | none => none
    | some sensitivity =>
      evaluate_move_loop self heap rest
        (new_value + sensitivity * ((alteration.2 - (heap alteration.1).value : ℤ) : ℚ))

/-- The method `evaluate(const Move &)`, compiled without `_MPS_SOLVER`. -/
def evaluate_move (self : Expression) (heap : VariableHeap) (a_MOVE : neighborhood.Move) :
    Option ℚ :=
  if a_MOVE.alterations.length = 0 then
    some (self.evaluate heap)
  else
    self.evaluate_move_loop heap a_MOVE.alterations self.m_value

def evaluate_with_mask (self : Expression) (heap : VariableHeap) (a_variable_ptr : Nat)
    (a_TARGET_VALUE : ℤ) : Option ℚ :=
  if self.m_has_effective_plus_one_coefficient_mask = true ∧
      a_variable_ptr &&& self.m_plus_one_coefficient_mask ≠ 0 then
    some (self.m_value + ((a_TARGET_VALUE - (heap a_variable_ptr).value : ℤ) : ℚ))
  else if self.m_has_effective_minus_one_coefficient_mask = true ∧
      a_variable_ptr &&& self.m_minus_one_coefficient_mask ≠ 0 then
    some (self.m_value - ((a_TARGET_VALUE - (heap a_variable_ptr).value : ℤ) : ℚ))
  else
    match self.m_fixed_sensitivities.at a_variable_ptr with
    | none => none
    | some sensitivity =>
      some (self.m_value +
        sensitivity * ((a_TARGET_VALUE - (heap a_variable_ptr).value : ℤ) : ℚ))

/-- The method `update(void)`. -/
def update (self : Expression) (heap : VariableHeap) : Expression :=
  { self with m_value := self.evaluate heap }

/-- The method `update(const Move &)`. -/
def update_move (self : Expression) (heap : VariableHeap) (a_MOVE : neighborhood.Move) :
    Option Expression :=
  match self.evaluate_move heap a_MOVE with
  | none => none
  | some value => some { self with m_value := value }

def value (self : Expression) : ℚ := self.m_value

/-- The coefficient of a variable in the sensitivity map, zero for a variable that
the map does not have. -/
def coefficient (self : Expression) (variable_ptr : Nat) : ℚ :=
  (self.m_sensitivities.lookup variable_ptr).getD 0

end Expression

/-- The variables after `set_value` has been called for every alteration, in the
order of the alterations. -/
def apply_alterations (heap : VariableHeap) : List (Nat × ℤ) → VariableHeap
  | [] => heap
  | alteration :: rest =>
    apply_alterations
      (fun ptr => if ptr = alteration.1 then (heap ptr).set_value alteration.2 else heap ptr)
      rest

end model_component
end printemps

namespace printemps

namespace utility

/-- Modelled from the spec: `utility::update_union_set(&s, t)`, which replaces `s`
by the union of `s` and `t` (`utility/utility.h` is not among the sources); a set
is a list without repetition. -/
def update_union_set {α : Type} [DecidableEq α] (s t : List α) : List α :=
  (s ++ t).dedup

end utility

/-- The call `v.resize(n)` of a `std::vector`, `value` being the value-initialized
element. -/
def resize {α : Type} (v : List α) (n : Nat) (value : α) : List α :=
  v.take n ++ List.replicate (n - v.length) value

namespace neighborhood

open model_component

/-- Modelled from the spec: a default-constructed `Move` (`move.h` is not among the
sources): its containers are empty; the setup functions below overwrite every other
member that they rely on. -/
def Move.empty : Move :=
  { alterations := []
    sense := MoveSense.UserDefined
    related_constraint_ptrs := []
    is_univariable_move := false
    is_selection_move := false
    is_special_neighborhood_move := false
    is_available := true
    overlap_rate := 0 }

/-- The assignment `move.alterations[index].second = value`. -/
def Move.set_alteration_value (self : Move) (index : Nat) (value : ℤ) : Move :=
  { self with
    alterations :=
      self.alterations.set index ((self.alterations.getD index (0, 0)).1, value) }

/-- Modelled from the spec: `neighborhood::has_fixed_variable` (`move.h` is not
among the sources): the move touches a fixed variable. -/
def has_fixed_variable (heap : VariableHeap) (a_MOVE : Move) : Bool :=
  a_MOVE.alterations.any (fun alteration => (heap alteration.1).is_fixed)

/-- Modelled from the spec: `neighborhood::has_selection_variable` (`move.h` is not
among the sources): the move touches a variable of sense `Selection`. -/
def has_selection_variable (heap : VariableHeap) (a_MOVE : Move) : Bool :=
  a_MOVE.alterations.any
    (fun alteration => decide ((heap alteration.1).sense = VariableSense.Selection))

/-- Modelled from the spec: `neighborhood::has_bound_violation` (`move.h` is not
among the sources): an alteration violates a bound of its variable. -/
def has_bound_violation (heap : VariableHeap) (a_MOVE : Move) : Bool :=
  a_MOVE.alterations.any
    (fun alteration =>
      decide (alteration.2 < (heap alteration.1).lower_bound) ||
        decide (alteration.2 > (heap alteration.1).upper_bound))

/-- Modelled from the spec: `neighborhood::has_objective_improvable_variable`
(`move.h` is not among the sources): a touched variable carries the
objective-improvable flag. -/
def has_objective_improvable_variable (heap : VariableHeap) (a_MOVE : Move) : Bool :=
  a_MOVE.alterations.any (fun alteration => (heap alteration.1).is_objective_improvable)

/-- Modelled from the spec: `neighborhood::has_feasibility_improvable_variable`
(`move.h` is not among the sources): a touched variable carries the
feasibility-improvable flag. -/
def has_feasibility_improvable_variable (heap : VariableHeap) (a_MOVE : Move) : Bool :=
  a_MOVE.alterations.any (fun alteration => (heap alteration.1).is_feasibility_improvable)

/-- Modelled from the spec: the members `m_moves` and `m_flags` of
`AbstractMoveGenerator` (`abstract_move_generator.h` is not among the sources): the
vector of move slots and the parallel vector of flags. -/
structure AbstractMoveGenerator where
  m_moves : List Move
  m_flags : List ℤ

/-- A generator right after its construction. -/
def AbstractMoveGenerator.fresh : AbstractMoveGenerator :=
  { m_moves := [], m_flags := [] }

/-- The statement `v[index] = f(v[index])` on a vector of moves. -/
def modify_move (moves : List Move) (index : Nat) (f : Move → Move) : List Move :=
  moves.set index (f (moves.getD index Move.empty))

namespace TwoFlipMoveGenerator

/-- The writes of the loop body of `setup` to `move`, a reference to the slot
`m_moves[2 * i]`, which holds `move0` before. -/
def first_move (heap : VariableHeap) (move0 : Move) (pair : Nat × Nat) : Move :=
  { move0 with
    sense := MoveSense.TwoFlip
    alterations := move0.alterations ++ [(pair.1, 1), (pair.2, 0)]
    is_univariable_move := false
    is_selection_move := false
    related_constraint_ptrs :=
      utility.update_union_set
        (utility.update_union_set move0.related_constraint_ptrs
          (heap pair.1).related_constraint_ptrs)
        (heap pair.2).related_constraint_ptrs
    is_special_neighborhood_move := true
    is_available := true
    overlap_rate := 0 }

/-- The body of the loop of `setup` for the pair of index `i`. -/
def setup_pair (heap : VariableHeap) (moves : List Move) (i : Nat) (pair : Nat × Nat) :
    List Move :=
  let move := first_move heap (moves.getD (2 * i) Move.empty) pair
  let moves := moves.set (2 * i) move
  let moves := moves.set (2 * i + 1) move
  let moves := modify_move moves (2 * i + 1) (fun m => m.set_alteration_value 0 0)
  modify_move moves (2 * i + 1) (fun m => m.set_alteration_value 1 1)

/-- The loop `for (auto i = 0; i < PAIRS_SIZE; i++)` of `setup`, from index `i` on. -/
def setup_loop (heap : VariableHeap) : List (Nat × Nat) → Nat → List Move → List Move
  | [], _, moves => moves
  | pair :: rest, i, moves => setup_loop heap rest (i + 1) (setup_pair heap moves i pair)

/-- The part of `setup` that sets up the move objects. -/
def setup (self : AbstractMoveGenerator) (heap : VariableHeap)
    (a_FLIPPABLE_VARIABLE_PTR_PAIRS : List (Nat × Nat)) : AbstractMoveGenerator :=
  let PAIRS_SIZE := a_FLIPPABLE_VARIABLE_PTR_PAIRS.length
  { m_moves :=
      setup_loop heap a_FLIPPABLE_VARIABLE_PTR_PAIRS 0
        (resize self.m_moves (2 * PAIRS_SIZE) Move.empty)
    m_flags := resize self.m_flags (2 * PAIRS_SIZE) 0 }

end TwoFlipMoveGenerator

/-- Modelled from the spec: the members of `BinomialConstraint` that the aggregation
generator reads (`binomial_constraint.h` is not among the sources): the constraint
`sensitivity_first * x + sensitivity_second * y + constant_value = 0`. -/
structure BinomialConstraint where
  variable_ptr_first : Nat
  variable_ptr_second : Nat
  sensitivity_first : ℚ
  sensitivity_second : ℚ
  constant_value : ℚ

namespace AggregationMoveGenerator

/-- The body of the loop of `setup` for the binomial of index `i`. -/
def setup_binomial (heap : VariableHeap) (moves : List Move) (i : Nat)
    (binomial : BinomialConstraint) : List Move :=
  let move0 := moves.getD (4 * i) Move.empty
  let move : Move :=
    { move0 with
      sense := MoveSense.Aggregation
      alterations :=
        move0.alterations ++
          [(binomial.variable_ptr_first, 0), (binomial.variable_ptr_second, 0)]
      is_univariable_move := false
      related_constraint_ptrs :=
        utility.update_union_set
          (utility.update_union_set move0.related_constraint_ptrs
            (heap binomial.variable_ptr_first).related_constraint_ptrs)
          (heap binomial.variable_ptr_second).related_constraint_ptrs
      is_special_neighborhood_move := true
      is_available := true
      overlap_rate := 0 }
  let moves := moves.set (4 * i) move
  let moves := moves.set (4 * i + 1) move
  let moves := moves.set (4 * i + 2) move
  moves.set (4 * i + 3) move

def setup_loop (heap : VariableHeap) : List BinomialConstraint → Nat → List Move → List Move
  | [], _, moves => moves
  | binomial :: rest, i, moves =>
    setup_loop heap rest (i + 1) (setup_binomial heap moves i binomial)

/-- The part of `setup` that sets up the move objects; `binomials` is the result of
`convert_to_binomial_constraints(extract_effective_constraint_ptrs(...))`, two
functions that are not among the sources. -/
def setup (self : AbstractMoveGenerator) (heap : VariableHeap)
    (binomials : List BinomialConstraint) : AbstractMoveGenerator :=
  let BINOMIALS_SIZE := binomials.length
  { m_moves :=
      setup_loop heap binomials 0 (resize self.m_moves (4 * BINOMIALS_SIZE) Move.empty)
    m_flags := resize self.m_flags (4 * BINOMIALS_SIZE) 0 }

/-- The value `static_cast<T_Variable>(std::floor((-constant - a * target) / b + 0.5))`. -/
def solve_for (constant_value a b : ℚ) (target : ℤ) : ℤ :=
  Int.floor ((-constant_value - a * (target : ℚ)) / b + 1 / 2)

/-- The body of the first loop of the move updater for the binomial of index `i`. -/
def update_alterations (heap : VariableHeap) (moves : List Move) (i : Nat)
    (binomial : BinomialConstraint) : List Move :=
  let first := (heap binomial.variable_ptr_first).value
  let second := (heap binomial.variable_ptr_second).value
  let moves := modify_move moves (4 * i) (fun m =>
    (m.set_alteration_value 0 (first + 1)).set_alteration_value 1
      (solve_for binomial.constant_value binomial.sensitivity_first
        binomial.sensitivity_second (first + 1)))
  let moves := modify_move moves (4 * i + 1) (fun m =>
    (m.set_alteration_value 0 (first - 1)).set_alteration_value 1
      (solve_for binomial.constant_value binomial.sensitivity_first
        binomial.sensitivity_second (first - 1)))
  let moves := modify_move moves (4 * i + 2) (fun m =>
    (m.set_alteration_value 0
      (solve_for binomial.constant_value binomial.sensitivity_second
        binomial.sensitivity_first (second + 1))).set_alteration_value 1 (second + 1))
  modify_move moves (4 * i + 3) (fun m =>
    (m.set_alteration_value 0
      (solve_for binomial.constant_value binomial.sensitivity_second
        binomial.sensitivity_first (second - 1))).set_alteration_value 1 (second - 1))

def update_alterations_loop (heap : VariableHeap) :
    List BinomialConstraint → Nat → List Move → List Move
  | [], _, moves => moves
  | binomial :: rest, i, moves =>
    update_alterations_loop heap rest (i + 1) (update_alterations heap moves i binomial)

/-- The body of the second loop of the move updater: the flag of one slot. -/
def filter_flag (heap : VariableHeap) (move : Move) (a_ACCEPT_ALL
    a_ACCEPT_OBJECTIVE_IMPROVABLE a_ACCEPT_FEASIBILITY_IMPROVABLE : Bool) : ℤ :=
  if !move.is_available then 0
  else if has_fixed_variable heap move then 0
  else if has_bound_violation heap move then 0
  else if a_ACCEPT_ALL then 1
  else if a_ACCEPT_OBJECTIVE_IMPROVABLE && has_objective_improvable_variable heap move then 1
  else if a_ACCEPT_FEASIBILITY_IMPROVABLE && has_feasibility_improvable_variable heap move
  then 1
  else 0

/-- The second loop of the move updater, `for (auto i = 0; i < MOVES_SIZE; i++)`,
over the list of the indices. -/
def filter_loop (heap : VariableHeap) (moves : List Move) (a_ACCEPT_ALL
    a_ACCEPT_OBJECTIVE_IMPROVABLE a_ACCEPT_FEASIBILITY_IMPROVABLE : Bool) :
    List Nat → List ℤ → List ℤ
  | [], flags => flags
  | i :: rest, flags =>
    filter_loop heap moves a_ACCEPT_ALL a_ACCEPT_OBJECTIVE_IMPROVABLE
      a_ACCEPT_FEASIBILITY_IMPROVABLE rest
      (flags.set i (filter_flag heap (moves.getD i Move.empty) a_ACCEPT_ALL
        a_ACCEPT_OBJECTIVE_IMPROVABLE a_ACCEPT_FEASIBILITY_IMPROVABLE))

/-- The move updater that `setup` installs, applied to the moves and flags of the
generator. -/
def move_updater (binomials : List BinomialConstraint) (heap : VariableHeap)
    (self : AbstractMoveGenerator) (a_ACCEPT_ALL a_ACCEPT_OBJECTIVE_IMPROVABLE
    a_ACCEPT_FEASIBILITY_IMPROVABLE : Bool) : AbstractMoveGenerator :=
  let moves := update_alterations_loop heap binomials 0 self.m_moves
  let MOVES_SIZE := moves.length
  { m_moves := moves
    m_flags :=
      filter_loop heap moves a_ACCEPT_ALL a_ACCEPT_OBJECTIVE_IMPROVABLE
        a_ACCEPT_FEASIBILITY_IMPROVABLE (List.range MOVES_SIZE) self.m_flags }

/-- The generator after `setup` (in the variable state `heap0`) followed by one call
of the move updater (in the variable state `heap`). -/
def setup_then_update (self : AbstractMoveGenerator) (heap0 heap : VariableHeap)
    (binomials : List BinomialConstraint) (a_ACCEPT_ALL a_ACCEPT_OBJECTIVE_IMPROVABLE
    a_ACCEPT_FEASIBILITY_IMPROVABLE : Bool) : AbstractMoveGenerator :=
  move_updater binomials heap (setup self heap0 binomials) a_ACCEPT_ALL
    a_ACCEPT_OBJECTIVE_IMPROVABLE a_ACCEPT_FEASIBILITY_IMPROVABLE

end AggregationMoveGenerator

end neighborhood
end printemps

namespace printemps
namespace neighborhood

/-- The residual `a x + b y + k` of the binomial constraint at the values `x` and `y`
of its two variables. -/
def BinomialConstraint.residual (binomial : BinomialConstraint) (x y : ℤ) : ℚ :=
  binomial.sensitivity_first * (x : ℚ) + binomial.sensitivity_second * (y : ℚ) +
    binomial.constant_value

end neighborhood
end printemps

namespace printemps
namespace neighborhood

open model_component

namespace IntegerMoveGenerator

/-- Modelled from the spec: `extract_mutable_variable_ptrs` (a function of
`abstract_move_generator.h`, which is not among the sources): fixed variables get no
slot, the other variables keep their order. -/
def extract_mutable_variable_ptrs (heap : VariableHeap) (a_RAW_VARIABLE_PTRS : List Nat) :
    List Nat :=
  a_RAW_VARIABLE_PTRS.filter (fun variable_ptr => !(heap variable_ptr).is_fixed)

/-- Modelled from the spec: what `IntegerMoveGenerator::setup`
(`integer_move_generator.h` is not among the sources) writes to a slot of the
variable: the sense `Integer`, one alteration on the variable, the related constraints
of the variable; `move0` is the content of the slot before. -/
def slot_move (heap : VariableHeap) (move0 : Move) (variable_ptr : Nat) : Move :=
  { move0 with
    sense := MoveSense.Integer
    related_constraint_ptrs := (heap variable_ptr).related_constraint_ptrs
    alterations := move0.alterations ++ [(variable_ptr, 0)]
    is_univariable_move := true
    is_selection_move := false
    is_special_neighborhood_move := false
    is_available := true
    overlap_rate := 0 }

/-- Modelled from the spec: the four slots `4 i, ..., 4 i + 3` of the variable of
index `i` (`integer_move_generator.h` is not among the sources). -/
def setup_variable (heap : VariableHeap) (moves : List Move) (i : Nat) (variable_ptr : Nat) :
    List Move :=
  let moves := modify_move moves (4 * i) (fun m => slot_move heap m variable_ptr)
  let moves := modify_move moves (4 * i + 1) (fun m => slot_move heap m variable_ptr)
  let moves := modify_move moves (4 * i + 2) (fun m => slot_move heap m variable_ptr)
  modify_move moves (4 * i + 3) (fun m => slot_move heap m variable_ptr)

/-- The loop of `setup` over the mutable variables, from index `i` on. -/
def setup_loop (heap : VariableHeap) : List Nat → Nat → List Move → List Move
  | [], _, moves => moves
  | variable_ptr :: rest, i, moves =>
    setup_loop heap rest (i + 1) (setup_variable heap moves i variable_ptr)

/-- Modelled from the spec: `IntegerMoveGenerator::setup`
(`integer_move_generator.h` is not among the sources): four slots and four flags per
non-fixed variable. -/
def setup (self : AbstractMoveGenerator) (heap : VariableHeap)
    (a_RAW_VARIABLE_PTRS : List Nat) : AbstractMoveGenerator :=
  let mutable_variable_ptrs := extract_mutable_variable_ptrs heap a_RAW_VARIABLE_PTRS
  let VARIABLES_SIZE := mutable_variable_ptrs.length
  { m_moves :=
      setup_loop heap mutable_variable_ptrs 0
        (resize self.m_moves (4 * VARIABLES_SIZE) Move.empty)
    m_flags := resize self.m_flags (4 * VARIABLES_SIZE) 0 }

/-- Modelled from the spec: the acceptance of a variable by the move updater: all
variables with `accept_all`, otherwise those with an improvability flag that the
caller asked for. -/
def is_accepted (a_VARIABLE : Variable) (a_ACCEPT_ALL a_ACCEPT_OBJECTIVE_IMPROVABLE
    a_ACCEPT_FEASIBILITY_IMPROVABLE : Bool) : Bool :=
  a_ACCEPT_ALL || (a_ACCEPT_OBJECTIVE_IMPROVABLE && a_VARIABLE.is_objective_improvable) ||
    (a_ACCEPT_FEASIBILITY_IMPROVABLE && a_VARIABLE.is_feasibility_improvable)

/-- Modelled from the spec: the move updater of the integer generator for the variable
of index `i` (`integer_move_generator.h` is not among the sources).  The targets are
`x + 1`, `x - 1` and the two midpoints towards the bounds, with the integer division
of C++ as in the test of the generator; the steps towards the upper bound are flagged
`0` at the upper bound and the steps towards the lower bound at the lower bound, as
the test of the generator asserts. -/
def update_variable (heap : VariableHeap) (self : AbstractMoveGenerator) (i : Nat)
    (variable_ptr : Nat) (a_ACCEPT_ALL a_ACCEPT_OBJECTIVE_IMPROVABLE
    a_ACCEPT_FEASIBILITY_IMPROVABLE : Bool) : AbstractMoveGenerator :=
  let value := (heap variable_ptr).value
  let lower_bound := (heap variable_ptr).lower_bound
  let upper_bound := (heap variable_ptr).upper_bound
  let accepted := is_accepted (heap variable_ptr) a_ACCEPT_ALL a_ACCEPT_OBJECTIVE_IMPROVABLE
    a_ACCEPT_FEASIBILITY_IMPROVABLE
  let moves := modify_move self.m_moves (4 * i) (fun m => m.set_alteration_value 0 (value + 1))
  let moves := modify_move moves (4 * i + 1) (fun m => m.set_alteration_value 0 (value - 1))
  let moves := modify_move moves (4 * i + 2)
    (fun m => m.set_alteration_value 0 (Int.tdiv (value + upper_bound) 2))
  let moves := modify_move moves (4 * i + 3)
    (fun m => m.set_alteration_value 0 (Int.tdiv (value + lower_bound) 2))
  let flags := self.m_flags.set (4 * i) (if accepted && value != upper_bound then 1 else 0)
  let flags := flags.set (4 * i + 1) (if accepted && value != lower_bound then 1 else 0)
  let flags := flags.set (4 * i + 2) (if accepted && value != upper_bound then 1 else 0)
  let flags := flags.set (4 * i + 3) (if accepted && value != lower_bound then 1 else 0)
  { m_moves := moves, m_flags := flags }

/-- The loop of the move updater over the mutable variables, from index `i` on. -/
def update_loop (heap : VariableHeap) (a_ACCEPT_ALL a_ACCEPT_OBJECTIVE_IMPROVABLE
    a_ACCEPT_FEASIBILITY_IMPROVABLE : Bool) :
    List Nat → Nat → AbstractMoveGenerator → AbstractMoveGenerator
  | [], _, self => self
  | variable_ptr :: rest, i, self =>
    update_loop heap a_ACCEPT_ALL a_ACCEPT_OBJECTIVE_IMPROVABLE a_ACCEPT_FEASIBILITY_IMPROVABLE
      rest (i + 1)
      (update_variable heap self i variable_ptr a_ACCEPT_ALL a_ACCEPT_OBJECTIVE_IMPROVABLE
        a_ACCEPT_FEASIBILITY_IMPROVABLE)

/-- The generator after `setup` on the variables `a_RAW_VARIABLE_PTRS` followed by
`update_moves`, in the variable state `heap`. -/
def setup_then_update (self : AbstractMoveGenerator) (heap : VariableHeap)
    (a_RAW_VARIABLE_PTRS : List Nat) (a_ACCEPT_ALL a_ACCEPT_OBJECTIVE_IMPROVABLE
    a_ACCEPT_FEASIBILITY_IMPROVABLE : Bool) : AbstractMoveGenerator :=
  update_loop heap a_ACCEPT_ALL a_ACCEPT_OBJECTIVE_IMPROVABLE a_ACCEPT_FEASIBILITY_IMPROVABLE
    (extract_mutable_variable_ptrs heap a_RAW_VARIABLE_PTRS) 0
    (setup self heap a_RAW_VARIABLE_PTRS)

end IntegerMoveGenerator

end neighborhood
end printemps

namespace printemps

namespace model_component

/-- Modelled from the spec: the enumeration `ConstraintSense` (`constraint.h` is not
among the sources; the tests name its values). -/
inductive ConstraintSense where
  | Less
  | Equal
  | Greater
  deriving DecidableEq, Repr

/-- Modelled from the spec: the members of `Constraint<T_Variable, T_Expression>`
that the code under study reads (`constraint.h` is not among the sources): one
expression, a sense, the cached constraint value with its positive and negative
parts, the cached violation, the enabled flag and the two local penalty
coefficients. -/
structure Constraint where
  m_expression : Expression
  m_sense : ConstraintSense
  m_constraint_value : ℚ
  m_violation_value : ℚ
  m_positive_part : ℚ
  m_negative_part : ℚ
  m_is_enabled : Bool
  m_is_evaluation_ignorable : Bool
  m_local_penalty_coefficient_less : ℚ
  m_local_penalty_coefficient_greater : ℚ

namespace Constraint

/-- Modelled from the spec: a default-constructed constraint. -/
def initialize_ : Constraint :=
  { m_expression := Expression.initialize_
    m_sense := ConstraintSense.Less
    m_constraint_value := 0
    m_violation_value := 0
    m_positive_part := 0
    m_negative_part := 0
    m_is_enabled := true
    m_is_evaluation_ignorable := false
    m_local_penalty_coefficient_less := 0
    m_local_penalty_coefficient_greater := 0 }

def is_enabled (self : Constraint) : Bool := self.m_is_enabled

def is_evaluation_ignorable (self : Constraint) : Bool := self.m_is_evaluation_ignorable

/-- Modelled from the spec: the sense is `≤` or `=` (the scoring pseudo-code of the
spec adds the positive part `if sense ∈ {≤, =}`). -/
def is_less_or_equal (self : Constraint) : Bool :=
  decide (self.m_sense = ConstraintSense.Less ∨ self.m_sense = ConstraintSense.Equal)

/-- Modelled from the spec: the sense is `≥` or `=` (the scoring pseudo-code of the
spec adds the negative part `if sense ∈ {≥, =}`). -/
def is_greater_or_equal (self : Constraint) : Bool :=
  decide (self.m_sense = ConstraintSense.Greater ∨ self.m_sense = ConstraintSense.Equal)

def constraint_value (self : Constraint) : ℚ := self.m_constraint_value

def positive_part (self : Constraint) : ℚ := self.m_positive_part

def negative_part (self : Constraint) : ℚ := self.m_negative_part

def local_penalty_coefficient_less (self : Constraint) : ℚ :=
  self.m_local_penalty_coefficient_less

def local_penalty_coefficient_greater (self : Constraint) : ℚ :=
  self.m_local_penalty_coefficient_greater

/-- Modelled from the spec: `evaluate_constraint(move)` is the value that the
expression of the constraint takes after the move. -/
def evaluate_constraint (self : Constraint) (heap : VariableHeap) (a_MOVE : neighborhood.Move) :
    Option ℚ :=
  self.m_expression.evaluate_move heap a_MOVE

end Constraint

/-- Modelled from the spec: `Objective` is an expression (`objective.h` is not among
the sources), with the cached objective value. -/
structure Objective where
  m_expression : Expression
  m_value : ℚ

/-- Modelled from the spec: `Objective::evaluate(move)`, the value of the objective
expression after the move. -/
def Objective.evaluate_move (self : Objective) (heap : VariableHeap)
    (a_MOVE : neighborhood.Move) : Option ℚ :=
  self.m_expression.evaluate_move heap a_MOVE

def Objective.value (self : Objective) : ℚ := self.m_value

/-- Modelled from the spec: the members of `Selection` that the code under study
reads (`selection.h` is not among the sources). -/
structure Selection where
  variable_ptrs : List Nat
  related_constraint_ptrs : List ConstraintPtr

end model_component

namespace solution

/-- Modelled from the spec: the fields of `SolutionScore` (`solution_score.h` is not
among the sources). -/
structure SolutionScore where
  objective : ℚ
  objective_improvement : ℚ
  total_violation : ℚ
  local_penalty : ℚ
  global_penalty : ℚ
  local_augmented_objective : ℚ
  global_augmented_objective : ℚ
  is_feasible : Bool
  is_objective_improvable : Bool
  is_feasibility_improvable : Bool

end solution

namespace model

open model_component neighborhood solution

/-- The members of `Model<T_Variable, T_Expression>` that the evaluation functions
read.  `m_variable_proxies` is the memory of the variables that the proxies own, and
`m_constraint_proxies` lists `flat_indexed_constraints()` for each proxy. -/
structure Model where
  m_variable_proxies : VariableHeap
  m_constraint_proxies : List (List Constraint)
  m_objective : Objective
  m_is_defined_objective : Bool
  m_is_minimization : Bool
  m_global_penalty_coefficient : ℚ
  m_selections : List Selection

/-- The running values `total_violation`, `local_penalty` and
`is_feasibility_improvable` of an evaluation loop. -/
structure Accumulator where
  total_violation : ℚ
  local_penalty : ℚ
  is_feasibility_improvable : Bool

namespace Model

def sign (self : Model) : ℚ := if self.m_is_minimization then 1 else -1

/-- The constraints of the model in the order of the two nested loops of
`evaluate`. -/
def constraints (self : Model) : List Constraint := self.m_constraint_proxies.flatten

/-- The constraint that a pointer points to. -/
def constraint (self : Model) (constraint_ptr : ConstraintPtr) : Constraint :=
  self.constraints.getD constraint_ptr Constraint.initialize_

/-- The expression
`m_is_defined_objective ? m_objective.evaluate(a_MOVE) * this->sign() : 0.0`. -/
def objective_after (self : Model) (a_MOVE : Move) : Option ℚ :=
  if self.m_is_defined_objective then
    match self.m_objective.evaluate_move self.m_variable_proxies a_MOVE with
    | none => none
    | some value => some (value * self.sign)
  else
    some 0

/-- The block at the end of each evaluation function, which fills the score. -/
def fill_score (self : Model) (OBJECTIVE total_violation local_penalty : ℚ)
    (is_feasibility_improvable : Bool) : SolutionScore :=
  let OBJECTIVE_IMPROVEMENT := self.m_objective.value * self.sign - OBJECTIVE
  let GLOBAL_PENALTY := total_violation * self.m_global_penalty_coefficient
  { objective := OBJECTIVE
    objective_improvement := OBJECTIVE_IMPROVEMENT
    total_violation := total_violation
    local_penalty := local_penalty
    global_penalty := GLOBAL_PENALTY
    local_augmented_objective := OBJECTIVE + local_penalty
    global_augmented_objective := OBJECTIVE + GLOBAL_PENALTY
    is_feasible := !decide (total_violation > constant.EPSILON)
    is_objective_improvable := decide (OBJECTIVE_IMPROVEMENT > constant.EPSILON)
    is_feasibility_improvable := is_feasibility_improvable }

/-- The body of the inner loop of `evaluate(score, move)` for one constraint. -/
def evaluate_constraint_step (heap : VariableHeap) (a_MOVE : Move) (constraint : Constraint)
    (acc : Accumulator) : Option Accumulator :=
  if !constraint.is_enabled then
    some acc
  else
    match constraint.evaluate_constraint heap a_MOVE with
    | none => none
    | some constraint_value =>
      let positive_part := max constraint_value 0
      let negative_part := max (-constraint_value) 0
      let acc :=
        if constraint.is_less_or_equal then
          { total_violation := acc.total_violation + positive_part
            is_feasibility_improvable :=
              if positive_part + constant.EPSILON < constraint.positive_part then true
              else acc.is_feasibility_improvable
            local_penalty :=
              acc.local_penalty + positive_part * constraint.local_penalty_coefficient_less }
        else acc
      let acc :=
        if constraint.is_greater_or_equal then
          { total_violation := acc.total_violation + negative_part
            is_feasibility_improvable :=
              if negative_part + constant.EPSILON < constraint.negative_part then true
              else acc.is_feasibility_improvable
            local_penalty :=
              acc.local_penalty +
                negative_part * constraint.local_penalty_coefficient_greater }
        else acc
      some acc

/-- The inner loop of `evaluate(score, move)` over the constraints of one proxy. -/
def evaluate_constraints (heap : VariableHeap) (a_MOVE : Move) :
    List Constraint → Accumulator → Option Accumulator
  | [], acc => some acc
  | constraint :: rest, acc =>
    match evaluate_constraint_step heap a_MOVE constraint acc with
    | none => none
    | some acc => evaluate_constraints heap a_MOVE rest acc

/-- The outer loop of `evaluate(score, move)` over the constraint proxies. -/
def evaluate_proxies (heap : VariableHeap) (a_MOVE : Move) :
    List (List Constraint) → Accumulator → Option Accumulator
  | [], acc => some acc
  | constraints :: rest, acc =>
    match evaluate_constraints heap a_MOVE constraints acc with
    | none => none
    | some acc => evaluate_proxies heap a_MOVE rest acc

/-- The method `evaluate(SolutionScore *, const Move &)`. -/
def evaluate (self : Model) (a_MOVE : Move) : Option SolutionScore :=
  match evaluate_proxies self.m_variable_proxies a_MOVE self.m_constraint_proxies
      { total_violation := 0, local_penalty := 0, is_feasibility_improvable := false } with
  | none => none
  | some acc =>
    match self.objective_after a_MOVE with
    | none => none
    | some OBJECTIVE =>
      some (self.fill_score OBJECTIVE acc.total_violation acc.local_penalty
        acc.is_feasibility_improvable)

/-- The body of the loop over `constraint_sensitivities` in `evaluate_single` (and in
the first branch of `evaluate_selection`), after the test that skips a constraint. -/
def sensitivity_step (constraint : Constraint) (coefficient : ℚ) (variable_value_diff : ℤ)
    (acc : ℚ × ℚ) : ℚ × ℚ :=
  let constraint_value := constraint.constraint_value + coefficient * (variable_value_diff : ℚ)
  let acc :=
    if constraint.is_less_or_equal then
      let violation_diff := max constraint_value 0 - constraint.positive_part
      (acc.1 + violation_diff,
        acc.2 + violation_diff * constraint.local_penalty_coefficient_less)
    else acc
  if constraint.is_greater_or_equal then
    let violation_diff := min constraint_value 0 + constraint.negative_part
    (acc.1 - violation_diff,
      acc.2 - violation_diff * constraint.local_penalty_coefficient_greater)
  else acc

/-- The loop over `constraint_sensitivities` of `evaluate_single`; the pair is
`(total_violation, local_penalty)`. -/
def evaluate_single_loop (self : Model) (variable_value_diff : ℤ) :
    List (ConstraintPtr × ℚ) → ℚ × ℚ → ℚ × ℚ
  | [], acc => acc
  | sensitivity :: rest, acc =>
    if (self.constraint sensitivity.1).is_evaluation_ignorable then
      evaluate_single_loop self variable_value_diff rest acc
    else
      evaluate_single_loop self variable_value_diff rest
        (sensitivity_step (self.constraint sensitivity.1) sensitivity.2 variable_value_diff acc)

/-- The method `evaluate_single`; `front()` of an empty vector of alterations has no
defined result. -/
def evaluate_single (self : Model) (a_MOVE : Move) (a_CURRENT_SCORE : SolutionScore) :
    Option SolutionScore :=
  match a_MOVE.alterations with
  | [] => none
  | front :: _ =>
    let variable_value_diff := front.2 - (self.m_variable_proxies front.1).value
    let acc := self.evaluate_single_loop variable_value_diff
      (self.m_variable_proxies front.1).constraint_sensitivities
      (a_CURRENT_SCORE.total_violation, a_CURRENT_SCORE.local_penalty)
    match self.objective_after a_MOVE with
    | none => none
    | some OBJECTIVE => some (self.fill_score OBJECTIVE acc.1 acc.2 true)

/-- The body of the loop of `evaluate_multi` (and of the second branch of
`evaluate_selection`) for one constraint. -/
def multi_step (heap : VariableHeap) (a_MOVE : Move) (constraint : Constraint)
    (acc : Accumulator) : Option Accumulator :=
  if !constraint.is_enabled then
    some acc
  else
    match constraint.evaluate_constraint heap a_MOVE with
    | none => none
    | some constraint_value =>
      if |constraint_value - constraint.constraint_value| < constant.EPSILON_10 then
        some acc
      else
        let violation_diff_positive :=
          if constraint.is_less_or_equal then
            max constraint_value 0 - constraint.positive_part
          else 0
        let violation_diff_negative :=
          if constraint.is_greater_or_equal then
            max (-constraint_value) 0 - constraint.negative_part
          else 0
        let violation_diff := violation_diff_positive + violation_diff_negative
        some
          { local_penalty :=
              acc.local_penalty +
                (violation_diff_positive * constraint.local_penalty_coefficient_less +
                  violation_diff_negative * constraint.local_penalty_coefficient_greater)
            total_violation := acc.total_violation + violation_diff
            is_feasibility_improvable :=
              acc.is_feasibility_improvable || decide (violation_diff < -constant.EPSILON) }

/-- The loop of `evaluate_multi` over `a_MOVE.related_constraint_ptrs`. -/
def evaluate_multi_loop (self : Model) (a_MOVE : Move) :
    List ConstraintPtr → Accumulator → Option Accumulator
  | [], acc => some acc
  | constraint_ptr :: rest, acc =>
    match multi_step self.m_variable_proxies a_MOVE (self.constraint constraint_ptr) acc with
    | none => none
    | some acc => evaluate_multi_loop self a_MOVE rest acc

/-- The method `evaluate_multi`. -/
def evaluate_multi (self : Model) (a_MOVE : Move) (a_CURRENT_SCORE : SolutionScore) :
    Option SolutionScore :=
  match self.evaluate_multi_loop a_MOVE a_MOVE.related_constraint_ptrs
      { total_violation := a_CURRENT_SCORE.total_violation
        local_penalty := a_CURRENT_SCORE.local_penalty
        is_feasibility_improvable := false } with
  | none => none
  | some acc =>
    match self.objective_after a_MOVE with
    | none => none
    | some OBJECTIVE =>
      some (self.fill_score OBJECTIVE acc.total_violation acc.local_penalty
        acc.is_feasibility_improvable)

/-- The loop over `constraint_sensitivities` in the first branch of
`evaluate_selection`; the pair is `(total_violation, local_penalty)`. -/
def evaluate_selection_sensitivities (self : Model) (variable_value_diff : ℤ) :
    List (ConstraintPtr × ℚ) → ℚ × ℚ → ℚ × ℚ
  | [], acc => acc
  | sensitivity :: rest, acc =>
    if !(self.constraint sensitivity.1).is_enabled then
      evaluate_selection_sensitivities self variable_value_diff rest acc
    else
      evaluate_selection_sensitivities self variable_value_diff rest
        (sensitivity_step (self.constraint sensitivity.1) sensitivity.2 variable_value_diff acc)

/-- The loop over the alterations in the first branch of `evaluate_selection`. -/
def evaluate_selection_alterations (self : Model) : List (Nat × ℤ) → ℚ × ℚ → ℚ × ℚ
  | [], acc => acc
  | alteration :: rest, acc =>
    evaluate_selection_alterations self rest
      (evaluate_selection_sensitivities self
        (alteration.2 - (self.m_variable_proxies alteration.1).value)
        (self.m_variable_proxies alteration.1).constraint_sensitivities acc)

/-- The loop `for (auto i = index_min; i <= index_max; i++)` in the second branch of
`evaluate_selection`: `steps` iterations from the index `i` on.  An index outside of
`RELATED_CONSTRAINT_PTRS` has no defined result. -/
def evaluate_selection_range (self : Model) (a_MOVE : Move)
    (RELATED_CONSTRAINT_PTRS : List ConstraintPtr) : Nat → Nat → Accumulator →
    Option Accumulator
  | 0, _, acc => some acc
  | steps + 1, i, acc =>
    match RELATED_CONSTRAINT_PTRS[i]? with
    | none => none
    | some constraint_ptr =>
      match multi_step self.m_variable_proxies a_MOVE (self.constraint constraint_ptr) acc with
      | none => none
      | some acc => evaluate_selection_range self a_MOVE RELATED_CONSTRAINT_PTRS steps (i + 1) acc

/-- The computation of `index_min` (and, with `std::max`, of `index_max`) in
`evaluate_selection`. -/
def combine_index (FIRST SECOND : ℤ) (pick : ℤ → ℤ → ℤ) : ℤ :=
  if FIRST = -1 ∧ SECOND ≥ 0 then SECOND
  else if FIRST ≥ 0 ∧ SECOND = -1 then FIRST
  else if FIRST ≥ 0 ∧ SECOND ≥ 0 then pick FIRST SECOND
  else -1

/-- The method `evaluate_selection`.  Fewer than two alterations, or a first variable
without a selection, have no defined result. -/
def evaluate_selection (self : Model) (a_MOVE : Move) (a_CURRENT_SCORE : SolutionScore) :
    Option SolutionScore :=
  match a_MOVE.alterations with
  | first :: second :: _ =>
    match (self.m_variable_proxies first.1).selection_ptr with
    | none => none
    | some selection_index =>
      match self.m_selections[selection_index]? with
      | none => none
      | some selection =>
        let RELATED_CONSTRAINT_PTRS := selection.related_constraint_ptrs
        let INDEX_MIN_FIRST :=
          (self.m_variable_proxies first.1).related_selection_constraint_ptr_index_min
        let INDEX_MAX_FIRST :=
          (self.m_variable_proxies first.1).related_selection_constraint_ptr_index_max
        let INDEX_MIN_SECOND :=
          (self.m_variable_proxies second.1).related_selection_constraint_ptr_index_min
        let INDEX_MAX_SECOND :=
          (self.m_variable_proxies second.1).related_selection_constraint_ptr_index_max
        let index_min := combine_index INDEX_MIN_FIRST INDEX_MIN_SECOND min
        let index_max := combine_index INDEX_MAX_FIRST INDEX_MAX_SECOND max
        let start : Accumulator :=
          { total_violation := a_CURRENT_SCORE.total_violation
            local_penalty := a_CURRENT_SCORE.local_penalty
            is_feasibility_improvable := false }
        let result : Option Accumulator :=
          if index_min ≥ 0 ∧ index_max ≥ 0 then
            if INDEX_MAX_FIRST < INDEX_MIN_SECOND ∨ INDEX_MAX_SECOND < INDEX_MIN_FIRST then
              let acc := self.evaluate_selection_alterations a_MOVE.alterations
                (start.total_violation, start.local_penalty)
              some
                { total_violation := acc.1
                  local_penalty := acc.2
                  is_feasibility_improvable := true }
            else
              self.evaluate_selection_range a_MOVE RELATED_CONSTRAINT_PTRS
                (index_max - index_min + 1).toNat index_min.toNat start
          else some start
        match result with
        | none => none
        | some acc =>
          match self.objective_after a_MOVE with
          | none => none
          | some OBJECTIVE =>
            some (self.fill_score OBJECTIVE acc.total_violation acc.local_penalty
              acc.is_feasibility_improvable)
  | _ => none

end Model
end model
end printemps

namespace printemps
namespace model_component

namespace Expression

/-- The operator `operator-(void)`. -/
def neg (self : Expression) : Expression :=
  let result := create_instance self.m_sensitivities self.constant_value
  { result with
    m_sensitivities := result.m_sensitivities.map (fun sensitivity =>
      (sensitivity.1, sensitivity.2 * -1))
    m_constant_value := result.m_constant_value * -1
    m_value := result.m_value * -1 }

/-- The operator `operator+=(const T_Value)`. -/
def add_assign_value (self : Expression) (a_VALUE : ℤ) : Expression :=
  { self with m_constant_value := self.m_constant_value + (a_VALUE : ℚ) }

/-- The body of the loop of `operator+=(const Expression &)`: the coefficient is added
to that of a variable that the map has, and inserted for a variable that it does not
have. -/
def add_assign_sensitivity (sensitivities : List (Nat × ℚ)) (append : Nat × ℚ) :
    List (Nat × ℚ) :=
  if (sensitivities.lookup append.1).isSome then
    sensitivities.map (fun sensitivity =>
      if sensitivity.1 = append.1 then (sensitivity.1, sensitivity.2 + append.2) else sensitivity)
  else
    sensitivities ++ [append]

/-- The operator `operator+=(const Expression &)`. -/
def add_assign (self : Expression) (a_EXPRESSION : Expression) : Expression :=
  { self with
    m_sensitivities := a_EXPRESSION.m_sensitivities.foldl add_assign_sensitivity
      self.m_sensitivities
    m_constant_value := self.m_constant_value + a_EXPRESSION.m_constant_value }

/-- The operator `operator-=(const T_Value)`. -/
def sub_assign_value (self : Expression) (a_VALUE : ℤ) : Expression :=
  { self with m_constant_value := self.m_constant_value - (a_VALUE : ℚ) }

/-- The operator `operator-=(const Expression &)`. -/
def sub_assign (self : Expression) (a_EXPRESSION : Expression) : Expression :=
  self.add_assign a_EXPRESSION.neg

end Expression

/-- Modelled from the spec: `Variable::to_expression()` (`variable.h` is not among the
sources): the expression `1 * x + 0`. -/
def Variable.to_expression (variable_ptr : Nat) : Expression :=
  Expression.create_instance [(variable_ptr, 1)] 0

/-- Modelled from the spec: the operands of the constraint-building operators: a
variable, an expression, a variable proxy or an expression proxy of one element, an
integer constant (`variable_proxy.h` and `expression_proxy.h` are not among the
sources; a proxy of one element stands for its element). -/
inductive Operand where
  | of_variable (a_VARIABLE_PTR : Nat)
  | of_expression (a_EXPRESSION : Expression)
  | of_variable_proxy (a_VARIABLE_PTR : Nat)
  | of_expression_proxy (a_EXPRESSION : Expression)
  | of_integer (a_VALUE : ℤ)

/-- Modelled from the spec: `to_expression()` of an operand that is not a constant. -/
def Operand.to_expression : Operand → Option Expression
  | Operand.of_variable x => some (Variable.to_expression x)
  | Operand.of_expression e => some (Expression.create_instance e.m_sensitivities e.constant_value)
  | Operand.of_variable_proxy x => some (Variable.to_expression x)
  | Operand.of_expression_proxy e =>
    some (Expression.create_instance e.m_sensitivities e.constant_value)
  | Operand.of_integer _ => none

/-- Modelled from the spec: `Constraint::create_instance(expression, sense)`
(`constraint.h` is not among the sources). -/
def Constraint.create_instance (a_EXPRESSION : Expression) (a_SENSE : ConstraintSense) :
    Constraint :=
  { Constraint.initialize_ with m_expression := a_EXPRESSION, m_sense := a_SENSE }

/-- Modelled from the spec: the expression `L - R` of the constraint-building operators
(`constraint_binary_operator.h` and `expression_binary_operator.h` are not among the
sources), computed with the operators of `expression.h`: `L -= R` on a copy of `L`,
`L -= c` for a constant on the right, `(-R) += c` for a constant on the left; two
constants build no constraint. -/
def Operand.difference : Operand → Operand → Option Expression
  | Operand.of_integer _, Operand.of_integer _ => none
  | L, Operand.of_integer value =>
    L.to_expression.map (fun left => left.sub_assign_value value)
  | Operand.of_integer value, R =>
    R.to_expression.map (fun right => right.neg.add_assign_value value)
  | L, R =>
    match L.to_expression, R.to_expression with
    | some left, some right => some (left.sub_assign right)
    | _, _ => none

/-- Modelled from the spec: the operators `L <= R`, `L == R` and `L >= R`, with the
sense `Less`, `Equal` and `Greater`. -/
def Operand.constraint (a_SENSE : ConstraintSense) (L R : Operand) : Option Constraint :=
  (Operand.difference L R).map (fun expression => Constraint.create_instance expression a_SENSE)

/-- The linear form that an operand stands for: the constant `c` is the form `0 + c`. -/
def Operand.linear_form : Operand → Expression
  | Operand.of_variable x => Variable.to_expression x
  | Operand.of_expression e => e
  | Operand.of_variable_proxy x => Variable.to_expression x
  | Operand.of_expression_proxy e => e
  | Operand.of_integer value => Expression.create_instance [] (value : ℚ)

/-- The operand is an integer constant. -/
def Operand.is_integer : Operand → Bool
  | Operand.of_integer _ => true
  | _ => false

end model_component
end printemps

namespace printemps
namespace solver
namespace local_search
namespace core

open model_component neighborhood solution model

/-- Modelled from the spec: the enumeration `LocalSearchCoreTerminationStatus`
(`local_search_core_termination_status.h` is not among the sources): the values that
`local_search_core.h` sets. -/
inductive LocalSearchCoreTerminationStatus where
  | TIME_OVER
  | ITERATION_OVER
  | NO_MOVE
  | REACH_TARGET
  | OPTIMAL
  | LOCAL_OPTIMAL
  deriving DecidableEq, Repr

/-- Modelled from the spec: the members of `LocalSearchCoreState` that the functions
under study read or write through the state manager (`local_search_core_state.h` and
`local_search_core_state_manager.h` are not among the sources). -/
structure LocalSearchCoreState where
  iteration : ℤ
  number_of_moves : ℤ
  number_of_checked_moves : ℤ
  termination_status : LocalSearchCoreTerminationStatus
  current_solution_score : SolutionScore

/-- The call `m_state_manager.set_termination_status(status)`. -/
def LocalSearchCoreState.set_termination_status (state : LocalSearchCoreState)
    (a_TERMINATION_STATUS : LocalSearchCoreTerminationStatus) : LocalSearchCoreState :=
  { state with termination_status := a_TERMINATION_STATUS }

namespace LocalSearchCore

/-- The loop of `satisfy_optimal_or_no_move_terminate_condition` over
`variable_reference().variable_ptrs`, which sets `NO_MOVE` at the first variable that is
objective-improvable and leaves the loop. -/
def improvable_loop (heap : VariableHeap) :
    List Nat → LocalSearchCoreState → LocalSearchCoreState
  | [], state => state
  | variable_ptr :: rest, state =>
    if (heap variable_ptr).is_objective_improvable then
      state.set_termination_status LocalSearchCoreTerminationStatus.NO_MOVE
    else improvable_loop heap rest state

/-- The method `satisfy_optimal_or_no_move_terminate_condition`: the returned value and
the state after the call.  `is_linear` and `is_feasible` are the values of
`m_model_ptr->is_linear()` and `m_model_ptr->is_feasible()`, `variable_ptrs` is
`m_model_ptr->variable_reference().variable_ptrs`. -/
def satisfy_optimal_or_no_move_terminate_condition (state : LocalSearchCoreState)
    (is_linear is_feasible : Bool) (heap : VariableHeap) (variable_ptrs : List Nat) :
    Bool × LocalSearchCoreState :=
  if state.number_of_moves > 0 then
    (false, state)
  else if is_linear && is_feasible then
    (true, improvable_loop heap variable_ptrs
      (state.set_termination_status LocalSearchCoreTerminationStatus.OPTIMAL))
  else
    (true, state.set_termination_status LocalSearchCoreTerminationStatus.NO_MOVE)

/-- The method `satisfy_local_optimal_terminate_condition`. -/
def satisfy_local_optimal_terminate_condition (state : LocalSearchCoreState)
    (a_IS_FOUND_IMPROVING_SOLUTION : Bool) : Bool × LocalSearchCoreState :=
  if !a_IS_FOUND_IMPROVING_SOLUTION then
    (true, state.set_termination_status LocalSearchCoreTerminationStatus.LOCAL_OPTIMAL)
  else (false, state)

/-- The evaluation of a move in the loop of `run` over `MOVE_PTRS`, compiled without
`_MPS_SOLVER`; `is_enabled_fast_evaluation` is the value of
`m_model_ptr->is_enabled_fast_evaluation()`. -/
def evaluate_move_ptr (mdl : Model) (is_enabled_fast_evaluation : Bool)
    (CURRENT_SOLUTION_SCORE : SolutionScore) (move_ptr : Move) : Option SolutionScore :=
  if is_enabled_fast_evaluation then
    if move_ptr.is_univariable_move then
      mdl.evaluate_single move_ptr CURRENT_SOLUTION_SCORE
    else
      mdl.evaluate_multi move_ptr CURRENT_SOLUTION_SCORE
  else
    mdl.evaluate move_ptr

/-- The local variables of an iteration of `run` that the loop over `MOVE_PTRS`
writes; `selected_move_ptr` is `none` for `nullptr`. -/
structure Scan where
  number_of_checked_move : ℤ
  is_found_improving_solution : Bool
  selected_move_ptr : Option Move
  trial_solution_score : SolutionScore

/-- The loop `for (const auto& move_ptr : MOVE_PTRS)` of `run`. -/
def scan_loop (mdl : Model) (is_enabled_fast_evaluation : Bool)
    (CURRENT_SOLUTION_SCORE : SolutionScore) : List Move → Scan → Option Scan
  | [], scan => some scan
  | move_ptr :: rest, scan =>
    match evaluate_move_ptr mdl is_enabled_fast_evaluation CURRENT_SOLUTION_SCORE move_ptr with
    | none => none
    | some trial_solution_score =>
      if trial_solution_score.local_augmented_objective + constant.EPSILON <
          CURRENT_SOLUTION_SCORE.local_augmented_objective then
        some
          { scan with
            trial_solution_score := trial_solution_score
            selected_move_ptr := some move_ptr
            is_found_improving_solution := true }
      else
        scan_loop mdl is_enabled_fast_evaluation CURRENT_SOLUTION_SCORE rest
          { scan with
            trial_solution_score := trial_solution_score
            number_of_checked_move := scan.number_of_checked_move + 1 }

/-- What an iteration of `run` does after the loop over `MOVE_PTRS`: it leaves the
`while` loop, or it applies a move (`m_model_ptr->update(*selected_move_ptr)`) and
passes it with `number_of_checked_move` and the trial score to the state manager. -/
inductive Step where
  | terminated (state : LocalSearchCoreState)
  | applied (selected_move : Move) (number_of_checked_move : ℤ)
      (trial_solution_score : SolutionScore)

/-- The part of an iteration of `run` from the declaration of `number_of_checked_move`
to the call `m_model_ptr->update(*selected_move_ptr)`; `trial_solution_score` is the
variable declared before the `while` loop. -/
def search (mdl : Model) (is_enabled_fast_evaluation : Bool) (state : LocalSearchCoreState)
    (MOVE_PTRS : List Move) (trial_solution_score : SolutionScore) : Option Step :=
  let CURRENT_SOLUTION_SCORE := state.current_solution_score
  match scan_loop mdl is_enabled_fast_evaluation CURRENT_SOLUTION_SCORE MOVE_PTRS
      { number_of_checked_move := 0
        is_found_improving_solution := false
        selected_move_ptr := none
        trial_solution_score := trial_solution_score } with
  | none => none
  | some scan =>
    let check := satisfy_local_optimal_terminate_condition state
      scan.is_found_improving_solution
    if check.1 then some (Step.terminated check.2)
    else
      match scan.selected_move_ptr with
      | none => none
      | some selected_move =>
        some (Step.applied selected_move scan.number_of_checked_move scan.trial_solution_score)

end LocalSearchCore

end core
end local_search
end solver
end printemps

namespace cppmh
namespace model

/-- Modelled from the spec: the enumeration `ConstraintSense` of `cppmh`
(`cppmh/model/constraint.h` is not among the sources; `lagrange_dual.h` names its
values): `Lower` is the sense `≤` and `Upper` the sense `≥`. -/
inductive ConstraintSense where
  | Lower
  | Equal
  | Upper
  deriving DecidableEq, Repr

end model

/-- The loop `for (auto&& a : v) { w[index of a] = f(a, w[index of a]); }` over a
vector `v` whose element of position `i` carries the index `i`, from the position `i`
on; `d` is what a read outside of `w` gives. -/
def update_each {α β : Type} (f : α → β → β) (d : β) : List α → Nat → List β → List β
  | [], _, w => w
  | a :: rest, i, w => update_each f d rest (i + 1) (w.set i (f a (w.getD i d)))

namespace solver
namespace lagrange_dual

open model

/-- The `switch` of `bound_dual`: the new value of the multiplier of a constraint. -/
def bound_multiplier (sense : ConstraintSense) (lagrange_multiplier : ℚ) : ℚ :=
  match sense with
  | ConstraintSense.Lower => max lagrange_multiplier 0
  | ConstraintSense.Upper => min lagrange_multiplier 0
  | ConstraintSense.Equal => lagrange_multiplier

/-- The function `bound_dual`.  `senses` lists, for each constraint proxy, the senses of
`flat_indexed_constraints()`; the constraint of position `flat_index` in the proxy of
position `id` has the multiplier `a_dual_value_proxies[id].flat_indexed_values(flat_index)`. -/
def bound_dual (senses : List (List ConstraintSense)) (a_dual_value_proxies : List (List ℚ)) :
    List (List ℚ) :=
  update_each (fun proxy values => update_each bound_multiplier 0 proxy 0 values) []
    senses 0 a_dual_value_proxies

/-- The loop "Update the dual solution" of `solve`; `constraint_values` lists
`constraint_value()` of the constraints, by proxy. -/
def update_dual (step_size : ℚ) (constraint_values : List (List ℚ))
    (dual_value_proxies : List (List ℚ)) : List (List ℚ) :=
  update_each
    (fun proxy values =>
      update_each (fun constraint_value value => value + step_size * constraint_value) 0
        proxy 0 values)
    [] constraint_values 0 dual_value_proxies

/-- The method `Model::generate_constraint_parameter_proxies(a_VALUE)` of `cppmh`: one
value proxy for every constraint proxy, of the same shape, filled with `a_VALUE`. -/
def generate_constraint_parameter_proxies (senses : List (List ConstraintSense))
    (a_VALUE : ℚ) : List (List ℚ) :=
  senses.map (fun constraint_proxy => constraint_proxy.map (fun _ => a_VALUE))

/-- The multipliers of `solve`: `bound_dual` of the initial multipliers, then, for every
iteration, the update of the dual solution followed by `bound_dual`.  An iteration is
given by its step size and by the values of the constraints, which the primal update
of the iteration before it determines. -/
def dual_after (senses : List (List ConstraintSense)) :
    List (ℚ × List (List ℚ)) → List (List ℚ)
  | [] => bound_dual senses (generate_constraint_parameter_proxies senses 0)
  | iteration :: earlier =>
    bound_dual senses (update_dual iteration.1 iteration.2 (dual_after senses earlier))

/-- The sign restriction of the multiplier of a constraint. -/
def sign_restricted (sense : ConstraintSense) (lagrange_multiplier : ℚ) : Prop :=
  match sense with
  | ConstraintSense.Lower => 0 ≤ lagrange_multiplier
  | ConstraintSense.Upper => lagrange_multiplier ≤ 0
  | ConstraintSense.Equal => True

end lagrange_dual
end solver
end cppmh

namespace printemps

namespace utility

/-- Modelled from the spec: `utility::has_space` (`utility/string_utility.h` is not among
the sources): the name contains the space character. -/
def has_space (a_STRING : String) : Bool :=
  a_STRING.data.contains ' '

end utility

namespace model

open model_component

namespace ModelConstant

def MAX_NUMBER_OF_VARIABLE_PROXIES : ℤ := 100

def MAX_NUMBER_OF_EXPRESSION_PROXIES : ℤ := 100

def MAX_NUMBER_OF_CONSTRAINT_PROXIES : ℤ := 100

end ModelConstant

/-- Modelled from the spec: what the `create_*` methods give to a `VariableProxy`
(`variable_proxy.h` is not among the sources): its proxy index, its shape, and the
bounds of its elements when `set_bound` has been called. -/
structure VariableProxy where
  m_index : ℤ
  m_shape : List ℤ
  m_bound : Option (ℤ × ℤ)

namespace VariableProxy

/-- Modelled from the spec: `VariableProxy::create_instance(index)`, a proxy of one
element. -/
def create_instance (a_INDEX : ℤ) : VariableProxy :=
  { m_index := a_INDEX, m_shape := [1], m_bound := none }

/-- Modelled from the spec: `VariableProxy::create_instance(index, number_of_elements)`. -/
def create_instance_of_size (a_INDEX : ℤ) (a_NUMBER_OF_ELEMENTS : ℤ) : VariableProxy :=
  { m_index := a_INDEX, m_shape := [a_NUMBER_OF_ELEMENTS], m_bound := none }

/-- Modelled from the spec: `VariableProxy::create_instance(index, shape)`. -/
def create_instance_of_shape (a_INDEX : ℤ) (a_SHAPE : List ℤ) : VariableProxy :=
  { m_index := a_INDEX, m_shape := a_SHAPE, m_bound := none }

/-- Modelled from the spec: `VariableProxy::set_bound`, which gives the two bounds to
every element of the proxy. -/
def set_bound (self : VariableProxy) (a_LOWER_BOUND a_UPPER_BOUND : ℤ) : VariableProxy :=
  { self with m_bound := some (a_LOWER_BOUND, a_UPPER_BOUND) }

end VariableProxy

/-- Modelled from the spec: what the `create_*` methods give to an `ExpressionProxy`
(`expression_proxy.h` is not among the sources): its proxy index, its shape, and the
expression that has been assigned to it. -/
structure ExpressionProxy where
  m_index : ℤ
  m_shape : List ℤ
  m_expression : Option Expression

namespace ExpressionProxy

/-- Modelled from the spec: `ExpressionProxy::create_instance(index)`. -/
def create_instance (a_INDEX : ℤ) : ExpressionProxy :=
  { m_index := a_INDEX, m_shape := [1], m_expression := none }

/-- Modelled from the spec: `ExpressionProxy::create_instance(index, number_of_elements)`. -/
def create_instance_of_size (a_INDEX : ℤ) (a_NUMBER_OF_ELEMENTS : ℤ) : ExpressionProxy :=
  { m_index := a_INDEX, m_shape := [a_NUMBER_OF_ELEMENTS], m_expression := none }

/-- Modelled from the spec: `ExpressionProxy::create_instance(index, shape)`. -/
def create_instance_of_shape (a_INDEX : ℤ) (a_SHAPE : List ℤ) : ExpressionProxy :=
  { m_index := a_INDEX, m_shape := a_SHAPE, m_expression := none }

/-- Modelled from the spec: the assignment of an expression to a proxy of one element,
which keeps the identity of the proxy. -/
def assign (self : ExpressionProxy) (a_EXPRESSION : Expression) : ExpressionProxy :=
  { self with m_expression := some a_EXPRESSION }

end ExpressionProxy

/-- Modelled from the spec: what the `create_*` methods give to a `ConstraintProxy`
(`constraint_proxy.h` is not among the sources): its proxy index, its shape, and the
constraint that has been assigned to it. -/
structure ConstraintProxy where
  m_index : ℤ
  m_shape : List ℤ
  m_constraint : Option Constraint

namespace ConstraintProxy

/-- Modelled from the spec: `ConstraintProxy::create_instance(index)`. -/
def create_instance (a_INDEX : ℤ) : ConstraintProxy :=
  { m_index := a_INDEX, m_shape := [1], m_constraint := none }

/-- Modelled from the spec: `ConstraintProxy::create_instance(index, number_of_elements)`. -/
def create_instance_of_size (a_INDEX : ℤ) (a_NUMBER_OF_ELEMENTS : ℤ) : ConstraintProxy :=
  { m_index := a_INDEX, m_shape := [a_NUMBER_OF_ELEMENTS], m_constraint := none }

/-- Modelled from the spec: `ConstraintProxy::create_instance(index, shape)`. -/
def create_instance_of_shape (a_INDEX : ℤ) (a_SHAPE : List ℤ) : ConstraintProxy :=
  { m_index := a_INDEX, m_shape := a_SHAPE, m_constraint := none }

/-- Modelled from the spec: the assignment of a constraint to a proxy of one element,
which keeps the identity of the proxy. -/
def assign (self : ConstraintProxy) (a_CONSTRAINT : Constraint) : ConstraintProxy :=
  { self with m_constraint := some a_CONSTRAINT }

end ConstraintProxy

/-- The members of `Model<T_Variable, T_Expression>` that the `create_*` methods read or
write: the three vectors of proxies and the three vectors of names. -/
structure ModelDefinitions where
  m_variable_proxies : List VariableProxy
  m_expression_proxies : List ExpressionProxy
  m_constraint_proxies : List ConstraintProxy
  m_variable_names : List String
  m_expression_names : List String
  m_constraint_names : List String

namespace ModelDefinitions

/-- The method `create_variable(name)`; `none` stands for the exception. -/
def create_variable (self : ModelDefinitions) (a_NAME : String) : Option ModelDefinitions :=
  if utility.has_space a_NAME then none
  else
    let PROXY_INDEX : ℤ := self.m_variable_proxies.length
    if PROXY_INDEX ≥ ModelConstant.MAX_NUMBER_OF_VARIABLE_PROXIES then none
    else
      some
        { self with
          m_variable_proxies :=
            self.m_variable_proxies ++ [VariableProxy.create_instance PROXY_INDEX]
          m_variable_names := self.m_variable_names ++ [a_NAME] }

/-- The statement `variable_proxy.set_bound(...)` on `m_variable_proxies.back()`. -/
def set_bound_of_back (self : ModelDefinitions) (a_LOWER_BOUND a_UPPER_BOUND : ℤ) :
    ModelDefinitions :=
  { self with
    m_variable_proxies :=
      self.m_variable_proxies.modify
        (fun variable_proxy => variable_proxy.set_bound a_LOWER_BOUND a_UPPER_BOUND)
        (self.m_variable_proxies.length - 1) }

/-- The method `create_variable(name, lower_bound, upper_bound)`. -/
def create_variable_bounded (self : ModelDefinitions) (a_NAME : String)
    (a_LOWER_BOUND a_UPPER_BOUND : ℤ) : Option ModelDefinitions :=
  (self.create_variable a_NAME).map
    (fun created => created.set_bound_of_back a_LOWER_BOUND a_UPPER_BOUND)

/-- The method `create_variables(name, number_of_elements)`. -/
def create_variables (self : ModelDefinitions) (a_NAME : String) (a_NUMBER_OF_ELEMENTS : ℤ) :
    Option ModelDefinitions :=
  if utility.has_space a_NAME then none
  else
    let PROXY_INDEX : ℤ := self.m_variable_proxies.length
    if PROXY_INDEX ≥ ModelConstant.MAX_NUMBER_OF_VARIABLE_PROXIES then none
    else
      some
        { self with
          m_variable_proxies :=
            self.m_variable_proxies ++
              [VariableProxy.create_instance_of_size PROXY_INDEX a_NUMBER_OF_ELEMENTS]
          m_variable_names := self.m_variable_names ++ [a_NAME] }

/-- The method `create_variables(name, number_of_elements, lower_bound, upper_bound)`. -/
def create_variables_bounded (self : ModelDefinitions) (a_NAME : String)
    (a_NUMBER_OF_ELEMENTS a_LOWER_BOUND a_UPPER_BOUND : ℤ) : Option ModelDefinitions :=
  (self.create_variables a_NAME a_NUMBER_OF_ELEMENTS).map
    (fun created => created.set_bound_of_back a_LOWER_BOUND a_UPPER_BOUND)

/-- The method `create_variables(name, shape)`. -/
def create_variables_of_shape (self : ModelDefinitions) (a_NAME : String) (a_SHAPE : List ℤ) :
    Option ModelDefinitions :=
  if utility.has_space a_NAME then none
  else
    let PROXY_INDEX : ℤ := self.m_variable_proxies.length
    if PROXY_INDEX ≥ ModelConstant.MAX_NUMBER_OF_VARIABLE_PROXIES then none
    else
      some
        { self with
          m_variable_proxies :=
            self.m_variable_proxies ++
              [VariableProxy.create_instance_of_shape PROXY_INDEX a_SHAPE]
          m_variable_names := self.m_variable_names ++ [a_NAME] }

/-- The method `create_variables(name, shape, lower_bound, upper_bound)`. -/
def create_variables_of_shape_bounded (self : ModelDefinitions) (a_NAME : String)
    (a_SHAPE : List ℤ) (a_LOWER_BOUND a_UPPER_BOUND : ℤ) : Option ModelDefinitions :=
  (self.create_variables_of_shape a_NAME a_SHAPE).map
    (fun created => created.set_bound_of_back a_LOWER_BOUND a_UPPER_BOUND)

/-- The method `create_expression(name)`. -/
def create_expression (self : ModelDefinitions) (a_NAME : String) : Option ModelDefinitions :=
  if utility.has_space a_NAME then none
  else
    let PROXY_INDEX : ℤ := self.m_expression_proxies.length
    if PROXY_INDEX ≥ ModelConstant.MAX_NUMBER_OF_EXPRESSION_PROXIES then none
    else
      some
        { self with
          m_expression_proxies :=
            self.m_expression_proxies ++ [ExpressionProxy.create_instance PROXY_INDEX]
          m_expression_names := self.m_expression_names ++ [a_NAME] }

/-- The method `create_expressions(name, number_of_elements)`. -/
def create_expressions (self : ModelDefinitions) (a_NAME : String)
    (a_NUMBER_OF_ELEMENTS : ℤ) : Option ModelDefinitions :=
  if utility.has_space a_NAME then none
  else
    let PROXY_INDEX : ℤ := self.m_expression_proxies.length
    if PROXY_INDEX ≥ ModelConstant.MAX_NUMBER_OF_EXPRESSION_PROXIES then none
    else
      some
        { self with
          m_expression_proxies :=
            self.m_expression_proxies ++
              [ExpressionProxy.create_instance_of_size PROXY_INDEX a_NUMBER_OF_ELEMENTS]
          m_expression_names := self.m_expression_names ++ [a_NAME] }

/-- The method `create_expressions(name, shape)`. -/
def create_expressions_of_shape (self : ModelDefinitions) (a_NAME : String)
    (a_SHAPE : List ℤ) : Option ModelDefinitions :=
  if utility.has_space a_NAME then none
  else
    let PROXY_INDEX : ℤ := self.m_expression_proxies.length
    if PROXY_INDEX ≥ ModelConstant.MAX_NUMBER_OF_EXPRESSION_PROXIES then none
    else
      some
        { self with
          m_expression_proxies :=
            self.m_expression_proxies ++
              [ExpressionProxy.create_instance_of_shape PROXY_INDEX a_SHAPE]
          m_expression_names := self.m_expression_names ++ [a_NAME] }

/-- The two methods `create_expression(name, expression_like)` and
`create_expression(name, expression)`; `a_EXPRESSION` is the expression, or
`to_expression()` of the expression-like object. -/
def create_expression_of (self : ModelDefinitions) (a_NAME : String)
    (a_EXPRESSION : Expression) : Option ModelDefinitions :=
  if utility.has_space a_NAME then none
  else
    let PROXY_INDEX : ℤ := self.m_expression_proxies.length
    if PROXY_INDEX ≥ ModelConstant.MAX_NUMBER_OF_EXPRESSION_PROXIES then none
    else
      some
        { self with
          m_expression_proxies :=
            self.m_expression_proxies ++
              [(ExpressionProxy.create_instance PROXY_INDEX).assign a_EXPRESSION]
          m_expression_names := self.m_expression_names ++ [a_NAME] }

/-- The method `create_constraint(name)`. -/
def create_constraint (self : ModelDefinitions) (a_NAME : String) : Option ModelDefinitions :=
  if utility.has_space a_NAME then none
  else
    let PROXY_INDEX : ℤ := self.m_constraint_proxies.length
    if PROXY_INDEX ≥ ModelConstant.MAX_NUMBER_OF_CONSTRAINT_PROXIES then none
    else
      some
        { self with
          m_constraint_proxies :=
            self.m_constraint_proxies ++ [ConstraintProxy.create_instance PROXY_INDEX]
          m_constraint_names := self.m_constraint_names ++ [a_NAME] }

/-- The method `create_constraints(name, number_of_elements)`. -/
def create_constraints (self : ModelDefinitions) (a_NAME : String)
    (a_NUMBER_OF_ELEMENTS : ℤ) : Option ModelDefinitions :=
  if utility.has_space a_NAME then none
  else
    let PROXY_INDEX : ℤ := self.m_constraint_proxies.length
    if PROXY_INDEX ≥ ModelConstant.MAX_NUMBER_OF_CONSTRAINT_PROXIES then none
    else
      some
        { self with
          m_constraint_proxies :=
            self.m_constraint_proxies ++
              [ConstraintProxy.create_instance_of_size PROXY_INDEX a_NUMBER_OF_ELEMENTS]
          m_constraint_names := self.m_constraint_names ++ [a_NAME] }

/-- The method `create_constraints(name, shape)`. -/
def create_constraints_of_shape (self : ModelDefinitions) (a_NAME : String)
    (a_SHAPE : List ℤ) : Option ModelDefinitions :=
  if utility.has_space a_NAME then none
  else
    let PROXY_INDEX : ℤ := self.m_constraint_proxies.length
    if PROXY_INDEX ≥ ModelConstant.MAX_NUMBER_OF_CONSTRAINT_PROXIES then none
    else
      some
        { self with
          m_constraint_proxies :=
            self.m_constraint_proxies ++
              [ConstraintProxy.create_instance_of_shape PROXY_INDEX a_SHAPE]
          m_constraint_names := self.m_constraint_names ++ [a_NAME] }

/-- The method `create_constraint(name, constraint)`. -/
def create_constraint_of (self : ModelDefinitions) (a_NAME : String)
    (a_CONSTRAINT : Constraint) : Option ModelDefinitions :=
  if utility.has_space a_NAME then none
  else
    let PROXY_INDEX : ℤ := self.m_constraint_proxies.length
    if PROXY_INDEX ≥ ModelConstant.MAX_NUMBER_OF_CONSTRAINT_PROXIES then none
    else
      some
        { self with
          m_constraint_proxies :=
            self.m_constraint_proxies ++
              [(ConstraintProxy.create_instance PROXY_INDEX).assign a_CONSTRAINT]
          m_constraint_names := self.m_constraint_names ++ [a_NAME] }

/-- The call throws exactly for a name with a space or at 100 variable proxies, and
otherwise appends one variable proxy, of proxy index the number of proxies before, and
the name, and leaves the other four vectors as they are. -/
def AppendsVariableProxy (self : ModelDefinitions) (a_NAME : String)
    (result : Option ModelDefinitions) : Prop :=
  (result = none ↔ utility.has_space a_NAME = true ∨ 100 ≤ self.m_variable_proxies.length) ∧
  ∀ created, result = some created →
    ∃ proxy : VariableProxy, proxy.m_index = (self.m_variable_proxies.length : ℤ) ∧
      created =
        { self with
          m_variable_proxies := self.m_variable_proxies ++ [proxy]
          m_variable_names := self.m_variable_names ++ [a_NAME] }

/-- The same for an expression proxy. -/
def AppendsExpressionProxy (self : ModelDefinitions) (a_NAME : String)
    (result : Option ModelDefinitions) : Prop :=
  (result = none ↔ utility.has_space a_NAME = true ∨ 100 ≤ self.m_expression_proxies.length) ∧
  ∀ created, result = some created →
    ∃ proxy : ExpressionProxy, proxy.m_index = (self.m_expression_proxies.length : ℤ) ∧
      created =
        { self with
          m_expression_proxies := self.m_expression_proxies ++ [proxy]
          m_expression_names := self.m_expression_names ++ [a_NAME] }

/-- The same for a constraint proxy. -/
def AppendsConstraintProxy (self : ModelDefinitions) (a_NAME : String)
    (result : Option ModelDefinitions) : Prop :=
  (result = none ↔ utility.has_space a_NAME = true ∨ 100 ≤ self.m_constraint_proxies.length) ∧
  ∀ created, result = some created →
    ∃ proxy : ConstraintProxy, proxy.m_index = (self.m_constraint_proxies.length : ℤ) ∧
      created =
        { self with
          m_constraint_proxies := self.m_constraint_proxies ++ [proxy]
          m_constraint_names := self.m_constraint_names ++ [a_NAME] }

end ModelDefinitions

end model
end printemps

/-! ## Predicates of the statements about the model -/

namespace printemps

open cppmh.model

namespace model_component

/-- The fixed table of the expression is the one that `setup_fixed_sensitivities`
builds from the sensitivity map, whose keys are pairwise distinct. -/
structure Expression.TableSetUp (e : Expression) (sizeof_Variable : Nat) : Prop where
  keys : (e.m_sensitivities.map Prod.fst).Nodup
  fixed : FixedSizeHashMap.setup e.m_sensitivities sizeof_Variable =
    some e.m_fixed_sensitivities

/-- The caches of the constraint are up to date in the variable state `heap`: the
fixed table is set up, the cached value of the expression is `evaluate()`, the
cached constraint value is that value, and the positive and negative parts are
those of the constraint value. -/
structure Constraint.UpToDate (c : Constraint) (heap : VariableHeap) (sizeof_Variable : Nat) :
    Prop where
  table : c.m_expression.TableSetUp sizeof_Variable
  value : c.m_expression.m_value = c.m_expression.evaluate heap
  constraint_value : c.m_constraint_value = c.m_expression.m_value
  positive_part : c.m_positive_part = max c.m_constraint_value 0
  negative_part : c.m_negative_part = max (-c.m_constraint_value) 0

/-- The violation of a constraint of the given sense whose constraint value is `g`,
in the words of the specification: `max(g, 0)` for `≤`, `max(-g, 0)` for `≥` and
`|g|` for `=`. -/
def violation_of_sense (sense : ConstraintSense) (g : ℚ) : ℚ :=
  match sense with
  | ConstraintSense.Less => max g 0
  | ConstraintSense.Greater => max (-g) 0
  | ConstraintSense.Equal => |g|

/-- A constraint of the given sense whose constraint value is `g` is satisfied. -/
def satisfied_of_sense (sense : ConstraintSense) (g : ℚ) : Prop :=
  match sense with
  | ConstraintSense.Less => g ≤ 0
  | ConstraintSense.Greater => 0 ≤ g
  | ConstraintSense.Equal => g = 0

/-- The violation and the weighted violation that a constraint contributes when
its constraint value is `g`: the positive part if `is_less_or_equal()` plus the
negative part if `is_greater_or_equal()`, each weighted by its local penalty
coefficient in the second component. -/
def Constraint.violation_term (c : Constraint) (g : ℚ) : ℚ × ℚ :=
  ((if c.is_less_or_equal then max g 0 else 0) +
      (if c.is_greater_or_equal then max (-g) 0 else 0),
    (if c.is_less_or_equal then max g 0 * c.local_penalty_coefficient_less else 0) +
      (if c.is_greater_or_equal then max (-g) 0 * c.local_penalty_coefficient_greater else 0))

end model_component

namespace model

open model_component neighborhood solution

/-- The pair `(total_violation, local_penalty)` of an accumulator. -/
def Accumulator.pair (acc : Accumulator) : ℚ × ℚ := (acc.total_violation, acc.local_penalty)

namespace Model

/-- The caches of every enabled constraint are up to date in the variable state of
the model, and the fixed table of the objective is set up if there is one. -/
structure Consistent (mdl : Model) (sizeof_Variable : Nat) : Prop where
  constraints : ∀ c ∈ mdl.constraints, c.is_enabled = true →
    c.UpToDate mdl.m_variable_proxies sizeof_Variable
  objective : mdl.m_is_defined_objective = true →
    mdl.m_objective.m_expression.TableSetUp sizeof_Variable

/-- The score carries the total violation and the local penalty of the current
state, those of `evaluate` of the move without alterations. -/
def IsCurrentScore (mdl : Model) (s : SolutionScore) : Prop :=
  ∃ s0, mdl.evaluate Move.empty = some s0 ∧ s.total_violation = s0.total_violation ∧
    s.local_penalty = s0.local_penalty

/-- `constraint_sensitivities()` of the variable `x` is what
`setup_variable_constraint_sensitivities` registers: one entry, without repetition of
a constraint, for every constraint of the model whose expression has `x`, with the
coefficient of `x`. -/
structure SensitivitiesOf (mdl : Model) (x : Nat) : Prop where
  nodup : ((mdl.m_variable_proxies x).constraint_sensitivities.map Prod.fst).Nodup
  listed : ∀ ptr coefficient,
    (ptr, coefficient) ∈ (mdl.m_variable_proxies x).constraint_sensitivities ↔
      ptr < mdl.constraints.length ∧
        (x, coefficient) ∈ (mdl.constraint ptr).m_expression.m_sensitivities

/-- The move has the single alteration `(x, target)`, its related constraints are
exactly the constraints listed in `x.constraint_sensitivities()`, and each of them is
enabled and not evaluation-ignorable. -/
structure SingleMove (mdl : Model) (m : Move) (x : Nat) (target : ℤ) : Prop where
  alterations : m.alterations = [(x, target)]
  sensitivities : mdl.SensitivitiesOf x
  related_nodup : m.related_constraint_ptrs.Nodup
  related : ∀ ptr, ptr ∈ m.related_constraint_ptrs ↔
    ptr ∈ (mdl.m_variable_proxies x).constraint_sensitivities.map Prod.fst
  enabled : ∀ sc ∈ (mdl.m_variable_proxies x).constraint_sensitivities,
    (mdl.constraint sc.1).is_enabled = true ∧
      (mdl.constraint sc.1).is_evaluation_ignorable = false

/-- What one step of the loop of `evaluate_multi` adds to the pair
`(total_violation, local_penalty)` for the constraint `c`. -/
def multi_delta (heap : VariableHeap) (m : Move) (c : Constraint) : ℚ × ℚ :=
  if c.is_enabled then
    match c.evaluate_constraint heap m with
    | none => 0
    | some g =>
      if |g - c.constraint_value| < constant.EPSILON_10 then 0
      else
        ((if c.is_less_or_equal then max g 0 - c.positive_part else 0) +
            (if c.is_greater_or_equal then max (-g) 0 - c.negative_part else 0),
          (if c.is_less_or_equal then max g 0 - c.positive_part else 0) *
              c.local_penalty_coefficient_less +
            (if c.is_greater_or_equal then max (-g) 0 - c.negative_part else 0) *
              c.local_penalty_coefficient_greater)
  else 0

/-- No constraint of `x` changes its value by a nonzero amount below `EPSILON_10`
when `x` changes by `diff`. -/
def CoarseChange (mdl : Model) (x : Nat) (diff : ℤ) : Prop :=
  ∀ sc ∈ (mdl.m_variable_proxies x).constraint_sensitivities,
    sc.2 * (diff : ℚ) = 0 ∨ constant.EPSILON_10 ≤ |sc.2 * (diff : ℚ)|

/-- The index bounds of the variable `x` bracket the positions of its enabled
constraints in the related-constraint list of its selection; both are `-1` when
there is none. -/
structure IndexBracket (mdl : Model) (x : Nat) (RELATED : List ConstraintPtr) : Prop where
  lower_min : -1 ≤ (mdl.m_variable_proxies x).related_selection_constraint_ptr_index_min
  lower_max : -1 ≤ (mdl.m_variable_proxies x).related_selection_constraint_ptr_index_max
  none_found : (mdl.m_variable_proxies x).related_selection_constraint_ptr_index_min = -1 →
    (mdl.m_variable_proxies x).related_selection_constraint_ptr_index_max = -1
  ordered : (mdl.m_variable_proxies x).related_selection_constraint_ptr_index_min ≤
    (mdl.m_variable_proxies x).related_selection_constraint_ptr_index_max
  upper : (mdl.m_variable_proxies x).related_selection_constraint_ptr_index_max <
    (RELATED.length : ℤ)
  bracket : ∀ sc ∈ (mdl.m_variable_proxies x).constraint_sensitivities,
    (mdl.constraint sc.1).is_enabled = true →
    ∃ index : Nat, RELATED[index]? = some sc.1 ∧
      (mdl.m_variable_proxies x).related_selection_constraint_ptr_index_min ≤ (index : ℤ) ∧
      (index : ℤ) ≤ (mdl.m_variable_proxies x).related_selection_constraint_ptr_index_max

/-- The move is a selection swap: two alterations on two distinct variables of the
same selection, whose index bounds bracket their constraints in the related
constraints of the selection; the related constraints of the move and of the
selection are valid pointers without repetition, and the move is related to every
enabled constraint of the two variables. -/
structure SelectionMove (mdl : Model) (m : Move) (x1 x2 : Nat) (t1 t2 : ℤ)
    (selection : Selection) : Prop where
  alterations : m.alterations = [(x1, t1), (x2, t2)]
  distinct : x1 ≠ x2
  selection_first : ∃ index, (mdl.m_variable_proxies x1).selection_ptr = some index ∧
    mdl.m_selections[index]? = some selection
  same_group : (mdl.m_variable_proxies x2).selection_ptr =
    (mdl.m_variable_proxies x1).selection_ptr
  sensitivities_first : mdl.SensitivitiesOf x1
  sensitivities_second : mdl.SensitivitiesOf x2
  related_nodup : m.related_constraint_ptrs.Nodup
  related_valid : ∀ ptr ∈ m.related_constraint_ptrs, ptr < mdl.constraints.length
  related_complete : ∀ sc,
    (sc ∈ (mdl.m_variable_proxies x1).constraint_sensitivities ∨
      sc ∈ (mdl.m_variable_proxies x2).constraint_sensitivities) →
    (mdl.constraint sc.1).is_enabled = true → sc.1 ∈ m.related_constraint_ptrs
  selection_nodup : selection.related_constraint_ptrs.Nodup
  selection_valid : ∀ ptr ∈ selection.related_constraint_ptrs, ptr < mdl.constraints.length
  index_first : mdl.IndexBracket x1 selection.related_constraint_ptrs
  index_second : mdl.IndexBracket x2 selection.related_constraint_ptrs

/-- The two index ranges of a selection swap are disjoint: the condition of the first
branch of `evaluate_selection`. -/
def DisjointRanges (mdl : Model) (x1 x2 : Nat) : Prop :=
  (mdl.m_variable_proxies x1).related_selection_constraint_ptr_index_max <
      (mdl.m_variable_proxies x2).related_selection_constraint_ptr_index_min ∨
    (mdl.m_variable_proxies x2).related_selection_constraint_ptr_index_max <
      (mdl.m_variable_proxies x1).related_selection_constraint_ptr_index_min

end Model
end model
end printemps

namespace cppmh
namespace model

open printemps.model_component

/-- Modelled from the spec: `Variable::set_value_if_not_fixed` of `cppmh`
(`cppmh/model/variable.h` is not among the sources; the members `value` and `is_fixed`
of the structure `Variable` stand for those of the class of `cppmh`). -/
def set_value_if_not_fixed (self : Variable) (a_VALUE : ℤ) : Variable :=
  if self.is_fixed then self else self.set_value a_VALUE

/-- The variables after a call of a method on the variable that `variable_ptr` points
to. -/
def at_pointer (heap : VariableHeap) (variable_ptr : Nat) (method : Variable → Variable) :
    VariableHeap :=
  fun ptr => if ptr = variable_ptr then method (heap ptr) else heap ptr

/-- The four vectors that the first loop of
`verify_and_correct_selection_variables_initial_values` fills. -/
structure SelectionScan where
  fixed_selected_variable_ptrs : List Nat
  selected_variable_ptrs : List Nat
  fixed_invalid_variable_ptrs : List Nat
  invalid_variable_ptrs : List Nat

/-- The first loop over `selection.variable_ptrs`. -/
def scan_selection (heap : VariableHeap) : List Nat → SelectionScan → SelectionScan
  | [], scan => scan
  | variable_ptr :: rest, scan =>
    let scan :=
      if (heap variable_ptr).value = 1 then
        { scan with
          selected_variable_ptrs := scan.selected_variable_ptrs ++ [variable_ptr]
          fixed_selected_variable_ptrs :=
            if (heap variable_ptr).is_fixed then
              scan.fixed_selected_variable_ptrs ++ [variable_ptr]
            else scan.fixed_selected_variable_ptrs }
      else scan
    let scan :=
      if (heap variable_ptr).value ≠ 0 ∧ (heap variable_ptr).value ≠ 1 then
        { scan with
          invalid_variable_ptrs := scan.invalid_variable_ptrs ++ [variable_ptr]
          fixed_invalid_variable_ptrs :=
            if (heap variable_ptr).is_fixed then
              scan.fixed_invalid_variable_ptrs ++ [variable_ptr]
            else scan.fixed_invalid_variable_ptrs }
      else scan
    scan_selection heap rest scan

/-- The loop over `invalid_variable_ptrs`, which resets the values to `0`. -/
def correct_invalid : List Nat → VariableHeap → VariableHeap
  | [], heap => heap
  | variable_ptr :: rest, heap =>
    correct_invalid rest (at_pointer heap variable_ptr (fun v => set_value_if_not_fixed v 0))

/-- The loop over `selected_variable_ptrs`, which resets to `0` the value of every
variable but `selected_variable_ptr`. -/
def correct_selected (selected_variable_ptr : Nat) : List Nat → VariableHeap → VariableHeap
  | [], heap => heap
  | variable_ptr :: rest, heap =>
    if variable_ptr ≠ selected_variable_ptr then
      correct_selected selected_variable_ptr rest
        (at_pointer heap variable_ptr (fun v => set_value_if_not_fixed v 0))
    else correct_selected selected_variable_ptr rest heap

/-- The loop over `selection.variable_ptrs` that sets the first variable that is not
fixed to `1` and leaves (`break`); the flag is `is_corrected`. -/
def select_first : List Nat → VariableHeap → VariableHeap × Bool
  | [], heap => (heap, false)
  | variable_ptr :: rest, heap =>
    if !(heap variable_ptr).is_fixed then
      (at_pointer heap variable_ptr (fun v => set_value_if_not_fixed v 1), true)
    else select_first rest heap

/-- The body of the loop of `verify_and_correct_selection_variables_initial_values` for
one selection, of variables `variable_ptrs`; `none` stands for the exception
`std::logic_error`.  The calls of `select()` write the selection and no value;
`front()` is called on vectors that the tests before show not to be empty. -/
def verify_and_correct_selection (a_IS_ENABLED_CORRECTON : Bool) (heap : VariableHeap)
    (variable_ptrs : List Nat) : Option VariableHeap :=
  let scan := scan_selection heap variable_ptrs
    { fixed_selected_variable_ptrs := []
      selected_variable_ptrs := []
      fixed_invalid_variable_ptrs := []
      invalid_variable_ptrs := [] }
  if scan.fixed_invalid_variable_ptrs.length > 0 then none
  else if scan.fixed_selected_variable_ptrs.length > 1 then none
  else
    let corrected : Option VariableHeap :=
      if scan.invalid_variable_ptrs.length > 0 then
        if a_IS_ENABLED_CORRECTON then some (correct_invalid scan.invalid_variable_ptrs heap)
        else none
      else some heap
    match corrected with
    | none => none
    | some heap =>
      if scan.selected_variable_ptrs.length > 1 then
        if a_IS_ENABLED_CORRECTON then
          let selected_variable_ptr :=
            if scan.fixed_selected_variable_ptrs.length = 1 then
              scan.fixed_selected_variable_ptrs.headD 0
            else scan.selected_variable_ptrs.headD 0
          let heap := correct_selected selected_variable_ptr scan.selected_variable_ptrs heap
          some (at_pointer heap selected_variable_ptr (fun v => set_value_if_not_fixed v 1))
        else none
      else if scan.selected_variable_ptrs.length = 0 then
        if a_IS_ENABLED_CORRECTON then
          let result := select_first variable_ptrs heap
          if !result.2 then none else some result.1
        else none
      else some heap

/-- The method `verify_and_correct_selection_variables_initial_values`; `selections`
lists `variable_ptrs` of the selections of `m_neighborhood.selections()`. -/
def verify_and_correct_selection_variables_initial_values (a_IS_ENABLED_CORRECTON : Bool) :
    List (List Nat) → VariableHeap → Option VariableHeap
  | [], heap => some heap
  | selection :: rest, heap =>
    match verify_and_correct_selection a_IS_ENABLED_CORRECTON heap selection with
    | none => none
    | some heap =>
      verify_and_correct_selection_variables_initial_values a_IS_ENABLED_CORRECTON rest heap

/-- Exactly one variable of the group has the value 1 and every other variable of the
group has the value 0. -/
def OneSelected (heap : VariableHeap) (variable_ptrs : List Nat) : Prop :=
  (variable_ptrs.filter (fun ptr => decide ((heap ptr).value = 1))).length = 1 ∧
    ∀ ptr ∈ variable_ptrs, (heap ptr).value = 0 ∨ (heap ptr).value = 1

/-- The variable that the correction keeps or sets at 1: the fixed variable of value 1,
else the first variable of value 1, else the first variable that is not fixed. -/
def kept (heap : VariableHeap) (variable_ptrs : List Nat) : Option Nat :=
  match variable_ptrs.filter
      (fun ptr => decide ((heap ptr).value = 1) && (heap ptr).is_fixed) with
  | ptr :: _ => some ptr
  | [] =>
    match variable_ptrs.filter (fun ptr => decide ((heap ptr).value = 1)) with
    | ptr :: _ => some ptr
    | [] => (variable_ptrs.filter (fun ptr => !(heap ptr).is_fixed)).head?

end model
end cppmh

namespace printemps

namespace model_component

/-- Modelled from the spec: `Variable::set_lower_or_upper_bound` (`variable.h` is not
among the sources): the value becomes the lower bound if the argument is true and the
upper bound otherwise. -/
def Variable.set_lower_or_upper_bound (self : Variable) (a_IS_LOWER_BOUND : Bool) : Variable :=
  if a_IS_LOWER_BOUND then self.set_value self.lower_bound
  else self.set_value self.upper_bound

end model_component

namespace solver
namespace lagrange_dual
namespace core

open model_component model

namespace LagrangeDualCore

/-- The value of `coefficient` after the loop over `constraint_sensitivities()` in the
primal update of `run`; `dual constraint_ptr` is
`STATE.dual[PROXY_INDEX].flat_indexed_values(FLAT_INDEX)` of the constraint. -/
def coefficient (a_VARIABLE : Variable) (dual : ConstraintPtr → ℚ) (SIGN : ℚ) : ℚ :=
  a_VARIABLE.constraint_sensitivities.foldl
    (fun coefficient item => coefficient + dual item.1 * item.2 * SIGN)
    a_VARIABLE.objective_sensitivity

/-- The loop `for (auto i = 0; i < VARIABLES_SIZE; i++)` of the primal update of `run`
(the call `set_lagrangian_coefficient` writes a member that no claim reads). -/
def update_primal (dual : ConstraintPtr → ℚ) (SIGN : ℚ) (is_minimization : Bool) :
    List Nat → VariableHeap → VariableHeap
  | [], heap => heap
  | variable_ptr :: rest, heap =>
    if (heap variable_ptr).is_fixed then
      update_primal dual SIGN is_minimization rest heap
    else
      update_primal dual SIGN is_minimization rest
        (fun ptr =>
          if ptr = variable_ptr then
            (heap ptr).set_lower_or_upper_bound
              (decide (coefficient (heap variable_ptr) dual SIGN > 0) == is_minimization)
          else heap ptr)

/-- The Lagrangian `sign * objective(x) + Σ λ_c g_c(x)` at the values of `heap`, `g_c`
being the expression of the constraint `c`. -/
def lagrangian (mdl : Model) (dual : ConstraintPtr → ℚ) (heap : VariableHeap) : ℚ :=
  mdl.sign * mdl.m_objective.m_expression.evaluate heap +
    ((List.range mdl.constraints.length).map
      (fun constraint_ptr =>
        dual constraint_ptr * (mdl.constraint constraint_ptr).m_expression.evaluate heap)).sum

/-- The sensitivities of the variables are those of the expressions of the model: what
`setup_variable_objective_sensitivities` and `setup_variable_constraint_sensitivities`
register; the sensitivity maps have no repeated key, and `variable_ptrs` has every
variable of the expressions. -/
structure SensitivitiesSetUp (mdl : Model) (variable_ptrs : List Nat) : Prop where
  objective : ∀ ptr, (mdl.m_variable_proxies ptr).objective_sensitivity =
    mdl.m_objective.m_expression.coefficient ptr
  constraints : ∀ ptr, mdl.SensitivitiesOf ptr
  objective_keys : (mdl.m_objective.m_expression.m_sensitivities.map Prod.fst).Nodup
  constraint_keys : ∀ c ∈ mdl.constraints, (c.m_expression.m_sensitivities.map Prod.fst).Nodup
  objective_listed : ∀ s ∈ mdl.m_objective.m_expression.m_sensitivities, s.1 ∈ variable_ptrs
  constraints_listed : ∀ c ∈ mdl.constraints, ∀ s ∈ c.m_expression.m_sensitivities,
    s.1 ∈ variable_ptrs

/-- The values of `other` are within the bounds of the variables of `variable_ptrs` that
are not fixed; a fixed variable, or one outside of `variable_ptrs`, has its value of
`heap`. -/
def Admissible (heap other : VariableHeap) (variable_ptrs : List Nat) : Prop :=
  ∀ ptr,
    if ptr ∈ variable_ptrs ∧ (heap ptr).is_fixed = false then
      (heap ptr).lower_bound ≤ (other ptr).value ∧ (other ptr).value ≤ (heap ptr).upper_bound
    else (other ptr).value = (heap ptr).value

end LagrangeDualCore

end core
end lagrange_dual
end solver
end printemps

namespace cppmh
namespace solver
namespace lagrange_dual

open printemps.model_component

/-- The value of `coefficient` after the loop over `constraint_sensitivities()` in the
primal update of `solve`; `dual constraint` is
`dual_value_proxies[id].flat_indexed_values(flat_index)` of the constraint, `sign` is
`model->sign()`. -/
def coefficient (a_VARIABLE : Variable) (dual : ConstraintPtr → ℚ) (sign : ℚ) : ℚ :=
  a_VARIABLE.constraint_sensitivities.foldl
    (fun coefficient item => coefficient + dual item.1 * item.2 * sign)
    a_VARIABLE.objective_sensitivity

/-- The loops over the variables of the primal update of `solve`, with the four
branches; `variable_ptrs` lists the variables of the proxies, in the order of the
loops. -/
def update_primal (dual : ConstraintPtr → ℚ) (sign : ℚ) (is_minimization : Bool) :
    List Nat → VariableHeap → VariableHeap
  | [], heap => heap
  | variable_ptr :: rest, heap =>
    let a_VARIABLE := heap variable_ptr
    update_primal dual sign is_minimization rest
      (if coefficient a_VARIABLE dual sign > 0 then
        if is_minimization then
          model.at_pointer heap variable_ptr
            (fun v => model.set_value_if_not_fixed v a_VARIABLE.lower_bound)
        else
          model.at_pointer heap variable_ptr
            (fun v => model.set_value_if_not_fixed v a_VARIABLE.upper_bound)
      else
        if is_minimization then
          model.at_pointer heap variable_ptr
            (fun v => model.set_value_if_not_fixed v a_VARIABLE.upper_bound)
        else
          model.at_pointer heap variable_ptr
            (fun v => model.set_value_if_not_fixed v a_VARIABLE.lower_bound))

end lagrange_dual
end solver
end cppmh

/-! ## Concrete inputs -/

namespace printemps
namespace examples

open model_component neighborhood cppmh.model

/-- Two keys of stride 64 that fall into the same bucket of a table of 256
buckets (`64 >> 6 = 1` and `16448 >> 6 = 257`). -/
def colliding_map : List (Nat × ℚ) := [(64, 5), (16448, 7)]

/-- A variable with the given value and bounds, not fixed, without constraints. -/
def plain_variable (value lower_bound upper_bound : ℤ) : Variable :=
  { value := value
    lower_bound := lower_bound
    upper_bound := upper_bound
    is_fixed := false
    sense := VariableSense.Integer
    is_objective_improvable := false
    is_feasibility_improvable := false
    objective_sensitivity := 0
    constraint_sensitivities := []
    related_constraint_ptrs := []
    selection_ptr := none
    related_selection_constraint_ptr_index_min := -1
    related_selection_constraint_ptr_index_max := -1 }

/-- Every variable has the value 1 and the bounds 0 and 10. -/
def heap_of_ones : VariableHeap := fun _ => plain_variable 1 0 10

/-- A move that has the given alterations. -/
def plain_move (alterations : List (Nat × ℤ)) : Move :=
  { alterations := alterations
    sense := MoveSense.UserDefined
    related_constraint_ptrs := []
    is_univariable_move := false
    is_selection_move := false
    is_special_neighborhood_move := false
    is_available := true
    overlap_rate := 0 }

/-- The expression `x₆₄ - x₁₂₈ + 3 x₁₉₂ + 1` with the given cached value, its
fixed table set up. -/
def three_term_expression (value : ℚ) : Expression :=
  { Expression.create_instance [(64, 1), (128, -1), (192, 3)] 1 with
    m_value := value
    m_fixed_sensitivities :=
      (FixedSizeHashMap.setup [(64, (1 : ℚ)), (128, -1), (192, 3)] 64).getD
        FixedSizeHashMap.initialize_ }

end examples
end printemps

namespace printemps
namespace examples

open model_component neighborhood solution model cppmh.model

/-- An expression with the given sensitivities, constant and cached value, its fixed
table set up for variables of size 64. -/
def expression_of (sensitivities : List (Nat × ℚ)) (constant_value value : ℚ) : Expression :=
  { Expression.create_instance sensitivities constant_value with
    m_value := value
    m_fixed_sensitivities :=
      (FixedSizeHashMap.setup sensitivities 64).getD FixedSizeHashMap.initialize_ }

/-- An enabled constraint `expression ≤ 0` with the given cached value, whose local
penalty coefficients are `1`. -/
def less_constraint (expression : Expression) : Constraint :=
  { m_expression := expression
    m_sense := ConstraintSense.Less
    m_constraint_value := expression.m_value
    m_violation_value := max expression.m_value 0
    m_positive_part := max expression.m_value 0
    m_negative_part := max (-expression.m_value) 0
    m_is_enabled := true
    m_is_evaluation_ignorable := false
    m_local_penalty_coefficient_less := 1
    m_local_penalty_coefficient_greater := 1 }

/-- The variable at address 64 has the value 0 and is listed for the constraint 0
with the coefficient `a`; no other variable is in a constraint. -/
def single_heap (a : ℚ) : VariableHeap := fun ptr =>
  if ptr = 64 then
    { plain_variable 0 0 1 with
      constraint_sensitivities := [(0, a)]
      related_constraint_ptrs := [0] }
  else plain_variable 0 0 1

/-- The model of the single constraint `a * x₆₄ ≤ 0` at `x₆₄ = 0`, without an
objective. -/
def single_model (a : ℚ) : Model :=
  { m_variable_proxies := single_heap a
    m_constraint_proxies := [[less_constraint (expression_of [(64, a)] 0 0)]]
    m_objective := { m_expression := Expression.initialize_, m_value := 0 }
    m_is_defined_objective := false
    m_is_minimization := true
    m_global_penalty_coefficient := 1
    m_selections := [] }

/-- The move that sets `x₆₄` to 1, related to the constraint 0. -/
def flip_move : Move :=
  { plain_move [(64, 1)] with related_constraint_ptrs := [0] }

/-- A score without violation. -/
def zero_score : SolutionScore :=
  { objective := 0
    objective_improvement := 0
    total_violation := 0
    local_penalty := 0
    global_penalty := 0
    local_augmented_objective := 0
    global_augmented_objective := 0
    is_feasible := true
    is_objective_improvable := false
    is_feasibility_improvable := false }

end examples
end printemps

namespace printemps
namespace examples

open model_component neighborhood solution model cppmh.model

/-- Two variables of one selection: the variable at address 64 has the value 1 and is
listed for the constraint 0 with the coefficient `a`, at position 0 of the related
constraints of the selection; the variable at address 128 has the value 0 and is
listed for the constraint 1 with the coefficient 1, at position 1. -/
def swap_heap (a : ℚ) : VariableHeap := fun ptr =>
  if ptr = 64 then
    { plain_variable 1 0 1 with
      sense := VariableSense.Selection
      constraint_sensitivities := [(0, a)]
      related_constraint_ptrs := [0]
      selection_ptr := some 0
      related_selection_constraint_ptr_index_min := 0
      related_selection_constraint_ptr_index_max := 0 }
  else if ptr = 128 then
    { plain_variable 0 0 1 with
      sense := VariableSense.Selection
      constraint_sensitivities := [(1, 1)]
      related_constraint_ptrs := [1]
      selection_ptr := some 0
      related_selection_constraint_ptr_index_min := 1
      related_selection_constraint_ptr_index_max := 1 }
  else plain_variable 0 0 1

/-- The selection of the two variables, related to the constraints 0 and 1. -/
def swap_selection : Selection :=
  { variable_ptrs := [64, 128], related_constraint_ptrs := [0, 1] }

/-- The model of the constraints `a * x₆₄ ≤ 0` and `x₁₂₈ ≤ 0` at `x₆₄ = 1`,
`x₁₂₈ = 0`, without an objective. -/
def swap_model (a : ℚ) : Model :=
  { m_variable_proxies := swap_heap a
    m_constraint_proxies :=
      [[less_constraint (expression_of [(64, a)] 0 a),
        less_constraint (expression_of [(128, 1)] 0 0)]]
    m_objective := { m_expression := Expression.initialize_, m_value := 0 }
    m_is_defined_objective := false
    m_is_minimization := true
    m_global_penalty_coefficient := 1
    m_selections := [swap_selection] }

/-- The selection swap that sets `x₆₄` to 0 and `x₁₂₈` to 1. -/
def swap_move : Move :=
  { plain_move [(64, 0), (128, 1)] with
    sense := MoveSense.Selection
    related_constraint_ptrs := [0, 1]
    is_selection_move := true }

/-- The score of the current state of `swap_model a` for `0 ≤ a`. -/
def swap_score (a : ℚ) : SolutionScore :=
  { zero_score with total_violation := a, local_penalty := a }

end examples
end printemps

namespace printemps
namespace examples

open neighborhood

/-- The binomial constraint `2 x₆₄ + 3 x₁₂₈ - 7 = 0`. -/
def line : BinomialConstraint :=
  { variable_ptr_first := 64
    variable_ptr_second := 128
    sensitivity_first := 2
    sensitivity_second := 3
    constant_value := -7 }

end examples
end printemps

namespace printemps
namespace examples

open neighborhood solution solver.local_search.core

/-- The move that sets `x₆₄` to 1, flagged as a move of one variable. -/
def univariable_flip_move : Move :=
  { flip_move with is_univariable_move := true }

/-- A state of the local search at a solution without violation, with one move in the
neighborhood. -/
def search_state : LocalSearchCoreState :=
  { iteration := 0
    number_of_moves := 1
    number_of_checked_moves := 0
    termination_status := LocalSearchCoreTerminationStatus.ITERATION_OVER
    current_solution_score := zero_score }

end examples
end printemps

namespace printemps
namespace examples

open model_component

/-- Six binary variables of two selections: `x₁ = 1`, `x₂ = 5`, `x₃ = 1` and fixed; `x₄ = 0`,
`x₅ = 0` and fixed, `x₆ = 0`.  Every other address holds a variable of value 0. -/
def selection_heap : VariableHeap := fun ptr =>
  if ptr = 1 then plain_variable 1 0 1
  else if ptr = 2 then plain_variable 5 0 1
  else if ptr = 3 then { plain_variable 1 0 1 with is_fixed := true }
  else if ptr = 5 then { plain_variable 0 0 1 with is_fixed := true }
  else plain_variable 0 0 1

/-- The variables of `selection_heap` after the correction of the selections
`x₁ + x₂ + x₃ = 1` and `x₄ + x₅ + x₆ = 1`: `x₃` and `x₄` have the value 1. -/
def corrected_selection_heap : VariableHeap := fun ptr =>
  if ptr = 3 then { plain_variable 1 0 1 with is_fixed := true }
  else if ptr = 4 then plain_variable 1 0 1
  else if ptr = 5 then { plain_variable 0 0 1 with is_fixed := true }
  else plain_variable 0 0 1

end examples
end printemps

namespace printemps
namespace examples

open model_component model

/-- The variable at address 64 has the value 0, the bounds 0 and 5 and the objective
sensitivity 2, and is listed for the constraint 0 with the coefficient 1; no other
variable is in the objective or in a constraint. -/
def lagrange_heap : VariableHeap := fun ptr =>
  if ptr = 64 then
    { plain_variable 0 0 5 with
      objective_sensitivity := 2
      constraint_sensitivities := [(0, 1)]
      related_constraint_ptrs := [0] }
  else plain_variable 0 0 1

/-- The model that maximizes `2 x₆₄` under the constraint `x₆₄ - 1 ≤ 0`, at `x₆₄ = 0`. -/
def lagrange_model : Model :=
  { m_variable_proxies := lagrange_heap
    m_constraint_proxies := [[less_constraint (expression_of [(64, 1)] (-1) (-1))]]
    m_objective := { m_expression := expression_of [(64, 2)] 0 0, m_value := 0 }
    m_is_defined_objective := true
    m_is_minimization := false
    m_global_penalty_coefficient := 1
    m_selections := [] }

end examples
end printemps

namespace printemps
namespace model_component

/-- Modelled from the spec: `Variable::has_lower_bound_margin` (`variable.h` is not
among the sources): the value is above the lower bound. -/
def Variable.has_lower_bound_margin (self : Variable) : Bool :=
  decide (self.value > self.lower_bound)

/-- Modelled from the spec: `Variable::has_upper_bound_margin` (`variable.h` is not
among the sources): the value is below the upper bound. -/
def Variable.has_upper_bound_margin (self : Variable) : Bool :=
  decide (self.value < self.upper_bound)

/-- Modelled from the spec: `Variable::set_is_feasibility_improvable`. -/
def Variable.set_is_feasibility_improvable (self : Variable)
    (a_IS_FEASIBILITY_IMPROVABLE : Bool) : Variable :=
  { self with is_feasibility_improvable := a_IS_FEASIBILITY_IMPROVABLE }

/-- Modelled from the spec:
`Variable::set_is_feasibility_improvable_if_has_lower_bound_margin`: the flag is set
if the variable has a lower-bound margin and is left as it is otherwise. -/
def Variable.set_is_feasibility_improvable_if_has_lower_bound_margin (self : Variable) :
    Variable :=
  if self.has_lower_bound_margin then self.set_is_feasibility_improvable true else self

/-- Modelled from the spec:
`Variable::set_is_feasibility_improvable_if_has_upper_bound_margin`: the flag is set
if the variable has an upper-bound margin and is left as it is otherwise. -/
def Variable.set_is_feasibility_improvable_if_has_upper_bound_margin (self : Variable) :
    Variable :=
  if self.has_upper_bound_margin then self.set_is_feasibility_improvable true else self

/-- Modelled from the spec: `Variable::set_value_if_mutable` (`variable.h` is not among
the sources): the value of a variable that is not fixed becomes the argument. -/
def Variable.set_value_if_mutable (self : Variable) (a_VALUE : ℤ) : Variable :=
  if self.is_fixed then self else self.set_value a_VALUE

namespace Expression

/-- The method `positive_mutable_variable_sensitivities`. -/
def positive_mutable_variable_sensitivities (self : Expression) (heap : VariableHeap) :
    List (Nat × ℚ) :=
  self.m_sensitivities.filter
    (fun sensitivity => !(heap sensitivity.1).is_fixed && decide (sensitivity.2 > 0))

/-- The method `negative_mutable_variable_sensitivities`. -/
def negative_mutable_variable_sensitivities (self : Expression) (heap : VariableHeap) :
    List (Nat × ℚ) :=
  self.m_sensitivities.filter
    (fun sensitivity => !(heap sensitivity.1).is_fixed && decide (sensitivity.2 < 0))

/-- Modelled from the spec: `positive_coefficient_mutable_variable_ptrs()`, a member
that the file `expression.h` among the sources does not have: the variables of
`positive_mutable_variable_sensitivities()`. -/
def positive_coefficient_mutable_variable_ptrs (self : Expression) (heap : VariableHeap) :
    List Nat :=
  (self.positive_mutable_variable_sensitivities heap).map Prod.fst

/-- Modelled from the spec: `negative_coefficient_mutable_variable_ptrs()`, a member
that the file `expression.h` among the sources does not have: the variables of
`negative_mutable_variable_sensitivities()`. -/
def negative_coefficient_mutable_variable_ptrs (self : Expression) (heap : VariableHeap) :
    List Nat :=
  (self.negative_mutable_variable_sensitivities heap).map Prod.fst

end Expression
end model_component

namespace model

open model_component neighborhood

/-- Modelled from the spec: the methods of `Variable`, `Constraint` and `Objective` that
`update` calls and whose headers (`variable.h`, `constraint.h`, `objective.h`) are not
among the sources, taken as parameters: `Constraint::update()`,
`Constraint::update(move)` and `Constraint::is_feasible()`, `Objective::update()` and
`Objective::update(move)`, and `Variable::update()` of a dependent variable, each as
the object after the call in the given state of the expressions and of the
variables. -/
structure ComponentMethods where
  constraint_update : VariableHeap → Constraint → Constraint
  constraint_update_move : VariableHeap → Move → Constraint → Constraint
  constraint_is_feasible : Constraint → Bool
  objective_update : VariableHeap → Objective → Objective
  objective_update_move : VariableHeap → Move → Objective → Objective
  variable_update : List (List Expression) → VariableHeap → Nat → Variable

/-- The members of `Model<T_Variable, T_Expression>` that `update`,
`update_violative_constraint_ptrs_and_feasibility` and the functions of the
feasibility improvability read or write.  `variable_ptrs` is
`m_variable_reference.variable_ptrs`, the two lists of dependent variables are those of
`m_variable_type_reference`, `enabled_constraint_ptrs` is
`m_constraint_reference.enabled_constraint_ptrs`, and `is_enabled_user_defined` is the
value of `m_neighborhood.user_defined().is_enabled()`.  A constraint pointer is the
position of the constraint in the order of the proxies. -/
structure ModelState where
  m_variable_proxies : VariableHeap
  m_expression_proxies : List (List Expression)
  m_constraint_proxies : List (List Constraint)
  m_objective : Objective
  m_is_defined_objective : Bool
  variable_ptrs : List Nat
  dependent_integer_variable_ptrs : List Nat
  dependent_binary_variable_ptrs : List Nat
  enabled_constraint_ptrs : List ConstraintPtr
  m_current_violative_constraint_ptrs : List ConstraintPtr
  m_previous_violative_constraint_ptrs : List ConstraintPtr
  m_current_is_feasible : Bool
  m_previous_is_feasible : Bool
  is_enabled_user_defined : Bool

/-- The statement `constraint_ptr->f()` on the constraints of the proxies. -/
def modify_constraint (f : Constraint → Constraint) :
    List (List Constraint) → ConstraintPtr → List (List Constraint)
  | [], _ => []
  | proxy :: rest, constraint_ptr =>
    if constraint_ptr < proxy.length then proxy.modify f constraint_ptr :: rest
    else proxy :: modify_constraint f rest (constraint_ptr - proxy.length)

namespace ModelState

/-- The constraints in the order of the proxies. -/
def constraints (self : ModelState) : List Constraint := self.m_constraint_proxies.flatten

/-- The constraint that a pointer points to. -/
def constraint (self : ModelState) (constraint_ptr : ConstraintPtr) : Constraint :=
  self.constraints.getD constraint_ptr Constraint.initialize_

/-- The loop of `categorize_constraints` that fills
`constraint_reference.enabled_constraint_ptrs`: the enabled constraints, in the order of
the proxies. -/
def categorize_enabled_constraint_ptrs (self : ModelState) : List ConstraintPtr :=
  (List.range self.constraints.length).filter
    (fun constraint_ptr => (self.constraint constraint_ptr).is_enabled)

/-- The loop of `update_violative_constraint_ptrs_and_feasibility` over
`enabled_constraint_ptrs`, which appends the constraints that are not feasible. -/
def violative_loop (methods : ComponentMethods) (self : ModelState) :
    List ConstraintPtr → List ConstraintPtr → List ConstraintPtr
  | [], violative => violative
  | constraint_ptr :: rest, violative =>
    if !methods.constraint_is_feasible (self.constraint constraint_ptr) then
      violative_loop methods self rest (violative ++ [constraint_ptr])
    else violative_loop methods self rest violative

/-- The method `update_violative_constraint_ptrs_and_feasibility`. -/
def update_violative_constraint_ptrs_and_feasibility (methods : ComponentMethods)
    (self : ModelState) : ModelState :=
  let current := violative_loop methods self self.enabled_constraint_ptrs []
  { self with
    m_previous_violative_constraint_ptrs := self.m_current_violative_constraint_ptrs
    m_previous_is_feasible := self.m_current_is_feasible
    m_current_violative_constraint_ptrs := current
    m_current_is_feasible := decide (current.length = 0) }

/-- The two loops of `update` over the dependent variables, each of which calls
`update()` of the variable. -/
def update_dependent_variables (methods : ComponentMethods)
    (expression_proxies : List (List Expression)) : List Nat → VariableHeap → VariableHeap
  | [], heap => heap
  | variable_ptr :: rest, heap =>
    update_dependent_variables methods expression_proxies rest
      (fun ptr =>
        if ptr = variable_ptr then methods.variable_update expression_proxies heap ptr
        else heap ptr)

/-- The method `update(void)`. -/
def update (methods : ComponentMethods) (self : ModelState) : ModelState :=
  let expression_proxies :=
    self.m_expression_proxies.map
      (fun proxy => proxy.map (fun expression => expression.update self.m_variable_proxies))
  let heap := update_dependent_variables methods expression_proxies
    self.dependent_integer_variable_ptrs self.m_variable_proxies
  let heap := update_dependent_variables methods expression_proxies
    self.dependent_binary_variable_ptrs heap
  let constraint_proxies :=
    self.m_constraint_proxies.map
      (fun proxy => proxy.map (fun constraint => methods.constraint_update heap constraint))
  let objective :=
    if self.m_is_defined_objective then methods.objective_update heap self.m_objective
    else self.m_objective
  update_violative_constraint_ptrs_and_feasibility methods
    { self with
      m_expression_proxies := expression_proxies
      m_variable_proxies := heap
      m_constraint_proxies := constraint_proxies
      m_objective := objective }

/-- The loop of `update(move)` over `a_MOVE.related_constraint_ptrs`. -/
def update_related_constraints (methods : ComponentMethods) (heap : VariableHeap)
    (a_MOVE : Move) : List ConstraintPtr → List (List Constraint) → List (List Constraint)
  | [], constraint_proxies => constraint_proxies
  | constraint_ptr :: rest, constraint_proxies =>
    update_related_constraints methods heap a_MOVE rest
      (modify_constraint (methods.constraint_update_move heap a_MOVE) constraint_proxies
        constraint_ptr)

/-- The loop of `update(move)` over the expressions of one proxy; `none` when
`Expression::update(move)` has no result. -/
def update_expressions (heap : VariableHeap) (a_MOVE : Move) :
    List Expression → Option (List Expression)
  | [] => some []
  | expression :: rest =>
    let updated : Option Expression :=
      if expression.m_is_enabled then expression.update_move heap a_MOVE
      else some expression
    match updated, update_expressions heap a_MOVE rest with
    | some first, some others => some (first :: others)
    | _, _ => none

/-- The loop of `update(move)` over the proxies of the expressions. -/
def update_expression_proxies (heap : VariableHeap) (a_MOVE : Move) :
    List (List Expression) → Option (List (List Expression))
  | [] => some []
  | proxy :: rest =>
    match update_expressions heap a_MOVE proxy, update_expression_proxies heap a_MOVE rest with
    | some first, some others => some (first :: others)
    | _, _ => none

/-- The loop of `update(move)` over the alterations, which calls
`set_value_if_mutable`. -/
def update_values : List (Nat × ℤ) → VariableHeap → VariableHeap
  | [], heap => heap
  | alteration :: rest, heap =>
    update_values rest
      (fun ptr =>
        if ptr = alteration.1 then (heap ptr).set_value_if_mutable alteration.2
        else heap ptr)

/-- The method `update(const Move &)`.  `none` stands for an expression whose update
has no result, and for the access `a_MOVE.alterations[1]` of a selection move that
has less than two alterations; the call of `select()` writes the selection and no
member of this structure. -/
def update_move (methods : ComponentMethods) (self : ModelState) (a_MOVE : Move) :
    Option ModelState :=
  let heap := self.m_variable_proxies
  let objective :=
    if self.m_is_defined_objective then
      methods.objective_update_move heap a_MOVE self.m_objective
    else self.m_objective
  let constraint_proxies :=
    if self.is_enabled_user_defined then
      self.m_constraint_proxies.map
        (fun proxy => proxy.map (fun constraint =>
          if constraint.is_enabled then methods.constraint_update_move heap a_MOVE constraint
          else constraint))
    else
      update_related_constraints methods heap a_MOVE a_MOVE.related_constraint_ptrs
        self.m_constraint_proxies
  match update_expression_proxies heap a_MOVE self.m_expression_proxies with
  | none => none
  | some expression_proxies =>
    if a_MOVE.sense = MoveSense.Selection ∧ a_MOVE.alterations.length < 2 then none
    else
      some (update_violative_constraint_ptrs_and_feasibility methods
        { self with
          m_objective := objective
          m_constraint_proxies := constraint_proxies
          m_expression_proxies := expression_proxies
          m_variable_proxies := update_values a_MOVE.alterations heap })

/-- The loop of `reset_variable_feasibility_improvabilities(a_VARIABLE_PTRS)`. -/
def reset_feasibility_improvabilities_loop : List Nat → VariableHeap → VariableHeap
  | [], heap => heap
  | variable_ptr :: rest, heap =>
    reset_feasibility_improvabilities_loop rest
      (fun ptr =>
        if ptr = variable_ptr then (heap ptr).set_is_feasibility_improvable false
        else heap ptr)

/-- The method `reset_variable_feasibility_improvabilities(void)`. -/
def reset_variable_feasibility_improvabilities (self : ModelState) : ModelState :=
  { self with
    m_variable_proxies :=
      reset_feasibility_improvabilities_loop self.variable_ptrs self.m_variable_proxies }

/-- A loop of `update_variable_feasibility_improvabilities` over the variables of a
list, which calls `method` of each. -/
def mark_loop (method : Variable → Variable) : List Nat → VariableHeap → VariableHeap
  | [], heap => heap
  | variable_ptr :: rest, heap =>
    mark_loop method rest (fun ptr => if ptr = variable_ptr then method (heap ptr) else heap ptr)

/-- The body of the loop of `update_variable_feasibility_improvabilities` for a
constraint that is enabled and not feasible. -/
def mark_constraint (constraint : Constraint) (heap : VariableHeap) : VariableHeap :=
  if constraint.constraint_value > 0 then
    let heap := mark_loop Variable.set_is_feasibility_improvable_if_has_lower_bound_margin
      (constraint.m_expression.positive_coefficient_mutable_variable_ptrs heap) heap
    mark_loop Variable.set_is_feasibility_improvable_if_has_upper_bound_margin
      (constraint.m_expression.negative_coefficient_mutable_variable_ptrs heap) heap
  else
    let heap := mark_loop Variable.set_is_feasibility_improvable_if_has_lower_bound_margin
      (constraint.m_expression.negative_coefficient_mutable_variable_ptrs heap) heap
    mark_loop Variable.set_is_feasibility_improvable_if_has_upper_bound_margin
      (constraint.m_expression.positive_coefficient_mutable_variable_ptrs heap) heap

/-- The loop of `update_variable_feasibility_improvabilities(a_CONSTRAINT_PTRS)`. -/
def update_feasibility_improvabilities_loop (methods : ComponentMethods)
    (self : ModelState) : List ConstraintPtr → VariableHeap → VariableHeap
  | [], heap => heap
  | constraint_ptr :: rest, heap =>
    if methods.constraint_is_feasible (self.constraint constraint_ptr) then
      update_feasibility_improvabilities_loop methods self rest heap
    else if !(self.constraint constraint_ptr).is_enabled then
      update_feasibility_improvabilities_loop methods self rest heap
    else
      update_feasibility_improvabilities_loop methods self rest
        (mark_constraint (self.constraint constraint_ptr) heap)

/-- The method `update_variable_feasibility_improvabilities(void)`. -/
def update_variable_feasibility_improvabilities (methods : ComponentMethods)
    (self : ModelState) : ModelState :=
  { self with
    m_variable_proxies :=
      update_feasibility_improvabilities_loop methods self self.enabled_constraint_ptrs
        self.m_variable_proxies }

/-- The variable `variable_ptr` can be stepped so that the value of the constraint moves
toward zero: it is not fixed and has in the constraint a coefficient `a` with, for a
positive constraint value, `a > 0` and a lower-bound margin or `a < 0` and an
upper-bound margin, and for a constraint value that is not positive, `a < 0` and a
lower-bound margin or `a > 0` and an upper-bound margin. -/
def CanRepair (heap : VariableHeap) (constraint : Constraint) (variable_ptr : Nat) : Prop :=
  ∃ a : ℚ, (variable_ptr, a) ∈ constraint.m_expression.m_sensitivities ∧
    (heap variable_ptr).is_fixed = false ∧
    ((constraint.constraint_value > 0 ∧
        ((a > 0 ∧ (heap variable_ptr).has_lower_bound_margin = true) ∨
          (a < 0 ∧ (heap variable_ptr).has_upper_bound_margin = true))) ∨
      (constraint.constraint_value ≤ 0 ∧
        ((a < 0 ∧ (heap variable_ptr).has_lower_bound_margin = true) ∨
          (a > 0 ∧ (heap variable_ptr).has_upper_bound_margin = true))))

end ModelState
end model
end printemps

namespace printemps
namespace model

open model_component neighborhood

namespace ModelState

/-- What `update_violative_constraint_ptrs_and_feasibility` leaves in `after`, for the
state `before` of the call that ends with it: the violative constraints are the
constraints of `enabled_constraint_ptrs` that are not feasible, in that order;
`is_feasible()` tells that there is none; the previous members hold what the current
ones held. -/
structure FeasibilityUpToDate (methods : ComponentMethods) (before after : ModelState) :
    Prop where
  violative : after.m_current_violative_constraint_ptrs =
    after.enabled_constraint_ptrs.filter
      (fun constraint_ptr => !methods.constraint_is_feasible (after.constraint constraint_ptr))
  enabled : after.enabled_constraint_ptrs = before.enabled_constraint_ptrs
  is_feasible : after.m_current_is_feasible = true ↔
    after.m_current_violative_constraint_ptrs = []
  all_feasible : after.m_current_is_feasible = true ↔
    ∀ constraint_ptr ∈ after.enabled_constraint_ptrs,
      methods.constraint_is_feasible (after.constraint constraint_ptr) = true
  categorized : after.enabled_constraint_ptrs = after.categorize_enabled_constraint_ptrs →
    ∀ constraint_ptr, constraint_ptr ∈ after.m_current_violative_constraint_ptrs ↔
      constraint_ptr < after.constraints.length ∧
        (after.constraint constraint_ptr).is_enabled = true ∧
        methods.constraint_is_feasible (after.constraint constraint_ptr) = false
  previous_violative : after.m_previous_violative_constraint_ptrs =
    before.m_current_violative_constraint_ptrs
  previous_is_feasible : after.m_previous_is_feasible = before.m_current_is_feasible

end ModelState
end model

namespace examples

open model_component neighborhood model

/-- Methods that refresh the cached values of a constraint from its expression and
tell a constraint feasible when its cached violation is zero. -/
def component_methods : ComponentMethods :=
  { constraint_update := fun heap constraint =>
      { constraint with
        m_constraint_value := constraint.m_expression.evaluate heap
        m_violation_value :=
          violation_of_sense constraint.m_sense (constraint.m_expression.evaluate heap) }
    constraint_update_move := fun heap a_MOVE constraint =>
      { constraint with
        m_constraint_value :=
          (constraint.m_expression.evaluate_move heap a_MOVE).getD 0
        m_violation_value :=
          violation_of_sense constraint.m_sense
            ((constraint.m_expression.evaluate_move heap a_MOVE).getD 0) }
    constraint_is_feasible := fun constraint => decide (constraint.m_violation_value = 0)
    objective_update := fun heap objective =>
      { objective with m_value := objective.m_expression.evaluate heap }
    objective_update_move := fun heap a_MOVE objective =>
      { objective with m_value := (objective.m_expression.evaluate_move heap a_MOVE).getD 0 }
    variable_update := fun _ heap variable_ptr => heap variable_ptr }

/-- The state of the model of the constraints `x₆₄ ≤ 0` and, disabled, `x₁₂₈ ≤ 0` at
`x₆₄ = 0`, with the expression `x₆₄`, before the first update. -/
def update_state : ModelState :=
  { m_variable_proxies := single_heap 1
    m_expression_proxies := [[expression_of [(64, 1)] 0 0]]
    m_constraint_proxies :=
      [[less_constraint (expression_of [(64, 1)] 0 0),
        { less_constraint (expression_of [(128, 1)] 0 0) with m_is_enabled := false }]]
    m_objective := { m_expression := Expression.initialize_, m_value := 0 }
    m_is_defined_objective := false
    variable_ptrs := [64, 128]
    dependent_integer_variable_ptrs := []
    dependent_binary_variable_ptrs := []
    enabled_constraint_ptrs := [0]
    m_current_violative_constraint_ptrs := []
    m_previous_violative_constraint_ptrs := []
    m_current_is_feasible := false
    m_previous_is_feasible := false
    is_enabled_user_defined := false }

end examples
end printemps

namespace printemps
namespace neighborhood

open model_component

namespace TwoFlipMoveGenerator

/-- The body of the loop of the move updater that `setup` installs: the flag of one
slot. -/
def filter_flag (heap : VariableHeap) (move : Move) (a_ACCEPT_ALL
    a_ACCEPT_OBJECTIVE_IMPROVABLE a_ACCEPT_FEASIBILITY_IMPROVABLE : Bool) : ℤ :=
  if !move.is_available then 0
  else if has_selection_variable heap move then 0
  else if has_fixed_variable heap move then 0
  else if move.alterations.any
      (fun alteration => decide ((heap alteration.1).value = alteration.2)) then 0
  else if a_ACCEPT_ALL then 1
  else if a_ACCEPT_OBJECTIVE_IMPROVABLE && has_objective_improvable_variable heap move then 1
  else if a_ACCEPT_FEASIBILITY_IMPROVABLE && has_feasibility_improvable_variable heap move
  then 1
  else 0

/-- The loop `for (auto i = 0; i < MOVES_SIZE; i++)` of the move updater, over the list
of the indices. -/
def filter_loop (heap : VariableHeap) (moves : List Move) (a_ACCEPT_ALL
    a_ACCEPT_OBJECTIVE_IMPROVABLE a_ACCEPT_FEASIBILITY_IMPROVABLE : Bool) :
    List Nat → List ℤ → List ℤ
  | [], flags => flags
  | i :: rest, flags =>
    filter_loop heap moves a_ACCEPT_ALL a_ACCEPT_OBJECTIVE_IMPROVABLE
      a_ACCEPT_FEASIBILITY_IMPROVABLE rest
      (flags.set i (filter_flag heap (moves.getD i Move.empty) a_ACCEPT_ALL
        a_ACCEPT_OBJECTIVE_IMPROVABLE a_ACCEPT_FEASIBILITY_IMPROVABLE))

/-- The move updater that `setup` installs, applied to the moves and flags of the
generator. -/
def move_updater (heap : VariableHeap) (self : AbstractMoveGenerator) (a_ACCEPT_ALL
    a_ACCEPT_OBJECTIVE_IMPROVABLE a_ACCEPT_FEASIBILITY_IMPROVABLE : Bool) :
    AbstractMoveGenerator :=
  let MOVES_SIZE := self.m_moves.length
  { m_moves := self.m_moves
    m_flags :=
      filter_loop heap self.m_moves a_ACCEPT_ALL a_ACCEPT_OBJECTIVE_IMPROVABLE
        a_ACCEPT_FEASIBILITY_IMPROVABLE (List.range MOVES_SIZE) self.m_flags }

/-- The generator after `setup` (in the variable state `heap0`) followed by one call
of the move updater (in the variable state `heap`). -/
def setup_then_update (self : AbstractMoveGenerator) (heap0 heap : VariableHeap)
    (a_FLIPPABLE_VARIABLE_PTR_PAIRS : List (Nat × Nat)) (a_ACCEPT_ALL
    a_ACCEPT_OBJECTIVE_IMPROVABLE a_ACCEPT_FEASIBILITY_IMPROVABLE : Bool) :
    AbstractMoveGenerator :=
  move_updater heap (setup self heap0 a_FLIPPABLE_VARIABLE_PTR_PAIRS) a_ACCEPT_ALL
    a_ACCEPT_OBJECTIVE_IMPROVABLE a_ACCEPT_FEASIBILITY_IMPROVABLE

end TwoFlipMoveGenerator

end neighborhood

namespace examples

open model_component

/-- The variable at address 64 has the value 3 and the bounds 2 and 5; every other
variable has the value 1 and the bounds 0 and 1; no variable is fixed. -/
def two_flip_heap : VariableHeap := fun ptr =>
  if ptr = 64 then plain_variable 3 2 5 else plain_variable 1 0 1

end examples
end printemps

namespace printemps
namespace multi_array

/-- Modelled from the spec: the class `AbstractMultiArrayElement`
(`abstract_multi_array_element.h` is not among the sources), the identity carrier of
the elements of a proxy: the proxy index, the flat index, the multi-dimensional index
and the name. -/
structure AbstractMultiArrayElement where
  m_proxy_index : ℤ
  m_flat_index : ℤ
  m_multi_dimensional_index : List ℤ
  m_name : String

namespace AbstractMultiArrayElement

/-- Modelled from the spec: the method `initialize`, which `Expression::initialize`
calls first; the values are those that the test `initialize` reads from a fresh
element. -/
def initialize_ : AbstractMultiArrayElement :=
  { m_proxy_index := 0
    m_flat_index := 0
    m_multi_dimensional_index := [0]
    m_name := "" }

/-- Modelled from the spec: the method `set_proxy_index`. -/
def set_proxy_index (self : AbstractMultiArrayElement) (a_PROXY_INDEX : ℤ) :
    AbstractMultiArrayElement :=
  { self with m_proxy_index := a_PROXY_INDEX }

/-- Modelled from the spec: the method `proxy_index`. -/
def proxy_index (self : AbstractMultiArrayElement) : ℤ := self.m_proxy_index

/-- Modelled from the spec: the method `set_flat_index`. -/
def set_flat_index (self : AbstractMultiArrayElement) (a_FLAT_INDEX : ℤ) :
    AbstractMultiArrayElement :=
  { self with m_flat_index := a_FLAT_INDEX }

/-- Modelled from the spec: the method `flat_index`. -/
def flat_index (self : AbstractMultiArrayElement) : ℤ := self.m_flat_index

/-- Modelled from the spec: the method `set_multi_dimensional_index`. -/
def set_multi_dimensional_index (self : AbstractMultiArrayElement)
    (a_MULTI_DIMENSIONAL_INDEX : List ℤ) : AbstractMultiArrayElement :=
  { self with m_multi_dimensional_index := a_MULTI_DIMENSIONAL_INDEX }

/-- Modelled from the spec: the method `multi_dimensional_index`. -/
def multi_dimensional_index (self : AbstractMultiArrayElement) : List ℤ :=
  self.m_multi_dimensional_index

/-- Modelled from the spec: the method `set_name`. -/
def set_name (self : AbstractMultiArrayElement) (a_NAME : String) :
    AbstractMultiArrayElement :=
  { self with m_name := a_NAME }

/-- Modelled from the spec: the method `name`. -/
def name (self : AbstractMultiArrayElement) : String := self.m_name

end AbstractMultiArrayElement

end multi_array

namespace model_component

/-- Modelled from the spec: the base-class part of the element that
`Variable::create_instance()` returns (`variable.h` is not among the sources): the
constructor calls `initialize`, which, like `Expression::initialize`, first calls
`AbstractMultiArrayElement::initialize`. -/
def Variable.create_instance : multi_array.AbstractMultiArrayElement :=
  multi_array.AbstractMultiArrayElement.initialize_

end model_component
end printemps

namespace printemps
namespace model_component

/-- The method `set_sensitivities`. -/
def Expression.set_sensitivities (self : Expression) (a_SENSITIVITIES : List (Nat × ℚ)) :
    Expression :=
  { self with m_sensitivities := a_SENSITIVITIES }

end model_component

namespace model

open model_component

/-- The expression `variable_ptrs[name]` of the `VariableMap` of `import_opb`, a
`std::unordered_map` from names to variable pointers: the pointer of the name, the null
pointer for a name that the map does not have. -/
def VariableMap.subscript (variable_ptrs : List (String × Nat)) (name : String) : Nat :=
  (variable_ptrs.lookup name).getD 0

/-- The assignment `sensitivities[variable_ptr] = value` on the `Sensitivities` of
`import_opb`, a `std::unordered_map` from variable pointers to coefficients: the
coefficient of a pointer that the map has is replaced, another pointer is inserted. -/
def Sensitivities.assign (sensitivities : List (Nat × ℚ)) (variable_ptr : Nat) (value : ℚ) :
    List (Nat × ℚ) :=
  if (sensitivities.lookup variable_ptr).isSome then
    sensitivities.map (fun sensitivity =>
      if sensitivity.1 = variable_ptr then (sensitivity.1, value) else sensitivity)
  else
    sensitivities ++ [(variable_ptr, value)]

namespace Model

/-- The sensitivities that the loop over the product variables of `import_opb` builds
for one product variable: the coefficient of the product variable is assigned first,
then `-1` for every factor. -/
def import_opb_product_sensitivities (variable_ptrs : List (String × Nat))
    (a_PRODUCT : String × List String) (a_COEFFICIENT : ℚ) : List (Nat × ℚ) :=
  a_PRODUCT.2.foldl
    (fun sensitivities variable_name =>
      Sensitivities.assign sensitivities (VariableMap.subscript variable_ptrs variable_name)
        (-1))
    (Sensitivities.assign [] (VariableMap.subscript variable_ptrs a_PRODUCT.1) a_COEFFICIENT)

/-- The body of the loop over the product variables of `import_opb`: the constraints
`expression_lower >= -PRODUCT_SIZE + 1` and `expression_upper <= 0`, which the loop
stores at the flat indices `2 * i` and `2 * i + 1` of the constraint proxy. -/
def import_opb_product_constraints (variable_ptrs : List (String × Nat))
    (a_PRODUCT : String × List String) : Option (Constraint × Constraint) :=
  let PRODUCT_SIZE : ℤ := (a_PRODUCT.2.length : ℤ)
  let expression_lower := Expression.set_sensitivities Expression.initialize_
    (import_opb_product_sensitivities variable_ptrs a_PRODUCT 1)
  let expression_upper := Expression.set_sensitivities Expression.initialize_
    (import_opb_product_sensitivities variable_ptrs a_PRODUCT (PRODUCT_SIZE : ℚ))
  match Operand.constraint ConstraintSense.Greater (Operand.of_expression expression_lower)
      (Operand.of_integer (-PRODUCT_SIZE + 1)),
    Operand.constraint ConstraintSense.Less (Operand.of_expression expression_upper)
      (Operand.of_integer 0) with
  | some lower, some upper => some (lower, upper)
  | _, _ => none

/-- The loop over the product variables of `import_opb`: the flat-indexed constraints of
the proxy `product_variable_constraints`, which has two constraints for each product
variable. -/
def import_opb_product_variable_constraints (variable_ptrs : List (String × Nat)) :
    List (String × List String) → Option (List Constraint)
  | [] => some []
  | product :: rest =>
    match import_opb_product_constraints variable_ptrs product,
      import_opb_product_variable_constraints variable_ptrs rest with
    | some (lower, upper), some constraints => some (lower :: upper :: constraints)
    | _, _ => none

end Model
end model

namespace examples

/-- The names `x1`, `x2` and `z` at the pointers 64, 128 and 192. -/
def product_variable_ptrs : List (String × Nat) := [("x1", 64), ("x2", 128), ("z", 192)]

/-- The product variable `z` of the factors `x1` and `x2`. -/
def product_variable : String × List String := ("z", ["x1", "x2"])

/-- The product variables of an OPB instance whose only product is `z`. -/
def product_variable_names : List (String × List String) := [product_variable]

end examples
end printemps

namespace printemps
namespace mps

/-- Modelled from the spec: the enumeration `MPSVariableSense` (`mps.h` is not among the
sources): a variable of an MPS file is integer or continuous. -/
inductive MPSVariableSense where
  | Integer
  | Continuous
  deriving DecidableEq, Repr

/-- Modelled from the spec: the enumeration `MPSConstraintSense` (`mps.h` is not among
the sources), the senses `L`, `E` and `G` of the rows of an MPS file. -/
inductive MPSConstraintSense where
  | Less
  | Equal
  | Greater
  deriving DecidableEq, Repr

/-- Modelled from the spec: the members of `MPSVariable` that `import_mps` reads (`mps.h`
is not among the sources). -/
structure MPSVariable where
  sense : MPSVariableSense
  integer_lower_bound : ℤ
  integer_upper_bound : ℤ
  integer_fixed_value : ℤ
  is_fixed : Bool

/-- Modelled from the spec: the members of `MPSConstraint` that `import_mps` reads
(`mps.h` is not among the sources). -/
structure MPSConstraint where
  sense : MPSConstraintSense
  sensitivities : List (String × ℚ)
  rhs : ℚ

/-- Modelled from the spec: the members of `MPSObjective` that `import_mps` reads
(`mps.h` is not among the sources). -/
structure MPSObjective where
  is_minimization : Bool
  sensitivities : List (String × ℚ)

/-- Modelled from the spec: the members of `MPS` that `import_mps` reads (`mps.h` is not
among the sources): the two maps `variables` and `constraints` from names to variables
and to constraints (here `variables_` and `constraints_`), the objective, and the two
vectors of names. -/
structure MPS where
  variables_ : List (String × MPSVariable)
  constraints_ : List (String × MPSConstraint)
  objective : MPSObjective
  variable_names : List String
  constraint_names : List String

end mps

namespace model_component

/-- Modelled from the spec: `Variable::set_bound`, which stores the two bounds
(`variable.h` is not among the sources). -/
def Variable.set_bound (self : Variable) (a_LOWER_BOUND a_UPPER_BOUND : ℤ) : Variable :=
  { self with lower_bound := a_LOWER_BOUND, upper_bound := a_UPPER_BOUND }

/-- Modelled from the spec: `Variable::fix_by`, which stores the value and fixes the
variable (`variable.h` is not among the sources). -/
def Variable.fix_by (self : Variable) (a_VALUE : ℤ) : Variable :=
  { self with value := a_VALUE, is_fixed := true }

/-- Modelled from the spec: `Objective::create_instance(expression)` (`objective.h` is
not among the sources). -/
def Objective.create_instance (a_EXPRESSION : Expression) : Objective :=
  { m_expression := a_EXPRESSION, m_value := 0 }

/-- Modelled from the spec: the operators `expression <= c`, `expression == c` and
`expression >= c` for a constant `c` of type `double`
(`constraint_binary_operator.h` is not among the sources), with `operator-=` of
`expression.h` on a copy of the expression. -/
def Expression.constraint_with_value (a_SENSE : ConstraintSense) (a_EXPRESSION : Expression)
    (a_VALUE : ℚ) : Constraint :=
  let result := Expression.create_instance a_EXPRESSION.m_sensitivities
    a_EXPRESSION.constant_value
  Constraint.create_instance
    { result with m_constant_value := result.m_constant_value - a_VALUE } a_SENSE

end model_component

namespace model

open model_component mps

/-- The assignment `variable_ptrs[name] = variable_ptr` on the `VariableMap` of
`import_mps`. -/
def VariableMap.assign (variable_ptrs : List (String × Nat)) (name : String)
    (variable_ptr : Nat) : List (String × Nat) :=
  if (variable_ptrs.lookup name).isSome then
    variable_ptrs.map (fun entry => if entry.1 = name then (entry.1, variable_ptr) else entry)
  else
    variable_ptrs ++ [(name, variable_ptr)]

/-- What `import_mps` leaves in the model: the proxies and the names of the definitions,
the flat-indexed elements of the proxy `variables` and of the proxy `constraints` with
their names (`variables_` and `constraints_` are the elements), the objective and the
two flags of the objective. -/
structure ImportedModel where
  definitions : ModelDefinitions
  variables_ : List Variable
  variable_names : List String
  constraints_ : List Constraint
  constraint_names : List String
  m_objective : Objective
  m_is_defined_objective : Bool
  m_is_minimization : Bool

namespace Model

/-- The statements of the loop over the variables of `import_mps` on the element
`variable_proxy(i)`: `set_bound`, and `fix_by` for a variable that is marked fixed. -/
def import_mps_variable (element : Variable) (VARIABLE : MPSVariable) : Variable :=
  let bounded := element.set_bound VARIABLE.integer_lower_bound VARIABLE.integer_upper_bound
  if VARIABLE.is_fixed = true then bounded.fix_by VARIABLE.integer_fixed_value
  else bounded

/-- The loop over the variables of `import_mps`, from the index `i` on, over the names
that are left; the state is the elements of the proxy, their names and the map
`variable_ptrs`, and `address i` is `&variable_proxy(i)`.  `none` stands for an
exception: of `a_MPS.variables.at`, of the check of the continuous variables, or of an
element that the proxy does not have. -/
def import_mps_variables (a_MPS : MPS) (a_ACCEPT_CONTINUOUS : Bool) (address : Nat → Nat) :
    Nat → List String → List Variable × List String × List (String × Nat) →
      Option (List Variable × List String × List (String × Nat))
  | _, [], state => some state
  | i, VARIABLE_NAME :: rest, (elements, names, variable_ptrs) =>
    match a_MPS.variables_.lookup VARIABLE_NAME with
    | none => none
    | some VARIABLE =>
      if VARIABLE.sense = MPSVariableSense.Continuous ∧ a_ACCEPT_CONTINUOUS = false then none
      else
        match elements[i]? with
        | none => none
        | some element =>
          import_mps_variables a_MPS a_ACCEPT_CONTINUOUS address (i + 1) rest
            (elements.set i (import_mps_variable element VARIABLE),
              names.set i VARIABLE_NAME,
              VariableMap.assign variable_ptrs VARIABLE_NAME (address i))

/-- The sensitivities that `import_mps` builds from the pairs of a name and a
coefficient. -/
def import_mps_sensitivities (variable_ptrs : List (String × Nat))
    (sensitivities : List (String × ℚ)) : List (Nat × ℚ) :=
  sensitivities.foldl
    (fun expression_sensitivities sensitivity =>
      Sensitivities.assign expression_sensitivities
        (VariableMap.subscript variable_ptrs sensitivity.1) sensitivity.2)
    []

/-- The constraint that the loop over the constraints of `import_mps` assigns to
`constraint_proxy(i)`. -/
def import_mps_constraint (variable_ptrs : List (String × Nat)) (CONSTRAINT : MPSConstraint) :
    Constraint :=
  let expression := Expression.set_sensitivities Expression.initialize_
    (import_mps_sensitivities variable_ptrs CONSTRAINT.sensitivities)
  match CONSTRAINT.sense with
  | MPSConstraintSense.Less =>
    Expression.constraint_with_value ConstraintSense.Less expression CONSTRAINT.rhs
  | MPSConstraintSense.Equal =>
    Expression.constraint_with_value ConstraintSense.Equal expression CONSTRAINT.rhs
  | MPSConstraintSense.Greater =>
    Expression.constraint_with_value ConstraintSense.Greater expression CONSTRAINT.rhs

/-- The loop over the constraints of `import_mps`, from the index `i` on; `none` stands
for the exception of `a_MPS.constraints.at`. -/
def import_mps_constraints (a_MPS : MPS) (variable_ptrs : List (String × Nat)) :
    Nat → List String → List Constraint × List String →
      Option (List Constraint × List String)
  | _, [], state => some state
  | i, CONSTRAINT_NAME :: rest, (constraints, names) =>
    match a_MPS.constraints_.lookup CONSTRAINT_NAME with
    | none => none
    | some CONSTRAINT =>
      import_mps_constraints a_MPS variable_ptrs (i + 1) rest
        (constraints.set i (import_mps_constraint variable_ptrs CONSTRAINT),
          names.set i CONSTRAINT_NAME)

/-- The method `import_mps`; `none` stands for an exception.  `a_DEFAULT` is a
default-constructed element of a variable proxy and `address i` is the address of the
element `i` of the proxy `variables`.  The flag `m_is_minimization` is assigned from the
objective of the MPS data at the start and set by `minimize` at the end. -/
def import_mps (self : ModelDefinitions) (a_MPS : MPS) (a_ACCEPT_CONTINUOUS : Bool)
    (a_DEFAULT : Variable) (address : Nat → Nat) : Option ImportedModel :=
  match self.create_variables "variables" (a_MPS.variables_.length : ℤ) with
  | none => none
  | some with_variables =>
    match import_mps_variables a_MPS a_ACCEPT_CONTINUOUS address 0 a_MPS.variable_names
        (List.replicate a_MPS.variables_.length a_DEFAULT,
          List.replicate a_MPS.variables_.length "", []) with
    | none => none
    | some (elements, variable_names, variable_ptrs) =>
      match with_variables.create_constraints "constraints"
          (a_MPS.constraint_names.length : ℤ) with
      | none => none
      | some with_constraints =>
        match import_mps_constraints a_MPS variable_ptrs 0 a_MPS.constraint_names
            (List.replicate a_MPS.constraint_names.length Constraint.initialize_,
              List.replicate a_MPS.constraint_names.length "") with
        | none => none
        | some (constraints, constraint_names) =>
          some
            { definitions := with_constraints
              variables_ := elements
              variable_names := variable_names
              constraints_ := constraints
              constraint_names := constraint_names
              m_objective := Objective.create_instance
                (Expression.set_sensitivities Expression.initialize_
                  (import_mps_sensitivities variable_ptrs a_MPS.objective.sensitivities))
              m_is_defined_objective := true
              m_is_minimization := true }

end Model
end model

namespace examples

open mps

/-- The MPS data of the integer variable `x` in `[0, 5]`, the continuous variable `y` in
`[-2, 2]` that is fixed at 1, and the constraint `x + y <= 4`. -/
def mps_with_continuous : MPS :=
  { variables_ :=
      [("x", { sense := MPSVariableSense.Integer, integer_lower_bound := 0,
               integer_upper_bound := 5, integer_fixed_value := 0, is_fixed := false }),
       ("y", { sense := MPSVariableSense.Continuous, integer_lower_bound := -2,
               integer_upper_bound := 2, integer_fixed_value := 1, is_fixed := true })]
    constraints_ :=
      [("c", { sense := MPSConstraintSense.Less, sensitivities := [("x", 1), ("y", 1)],
               rhs := 4 })]
    objective := { is_minimization := true, sensitivities := [("x", 1)] }
    variable_names := ["x", "y"]
    constraint_names := ["c"] }

/-- A model without a definition. -/
def empty_definitions : model.ModelDefinitions :=
  { m_variable_proxies := []
    m_expression_proxies := []
    m_constraint_proxies := []
    m_variable_names := []
    m_expression_names := []
    m_constraint_names := [] }

/-- The element `i` of the proxy `variables` is at the address `64 * (i + 1)`. -/
def mps_address (i : Nat) : Nat := 64 * (i + 1)

end examples
end printemps

namespace printemps
namespace examples

open model_component cppmh.model

/-- The expression `x₆₄` with the cached value 1, its fixed table set up. -/
def unit_expression : Expression :=
  { Expression.create_instance [(64, 1)] 0 with
    m_value := 1
    m_fixed_sensitivities :=
      (FixedSizeHashMap.setup [(64, (1 : ℚ))] 64).getD FixedSizeHashMap.initialize_ }

end examples
end printemps

namespace printemps
namespace model

open model_component neighborhood solution

namespace Model

/-- The update of `(total_violation, local_penalty)` for one constraint in the words of
the specification: with `new_lhs = constraint.value + coefficient * (x_new - x.value)`,
`Δpos = max(new_lhs, 0) - positive_part` and `Δneg = max(-new_lhs, 0) - negative_part`,
`Δpos` is added for the senses `≤` and `=`, and `Δneg` is subtracted for the senses `≥`
and `=`. -/
def sensitivity_step_as_specified (constraint : Constraint) (coefficient : ℚ)
    (variable_value_diff : ℤ) (acc : ℚ × ℚ) : ℚ × ℚ :=
  let new_lhs := constraint.constraint_value + coefficient * (variable_value_diff : ℚ)
  let delta_pos := max new_lhs 0 - constraint.positive_part
  let delta_neg := max (-new_lhs) 0 - constraint.negative_part
  let acc :=
    if constraint.is_less_or_equal then
      (acc.1 + delta_pos, acc.2 + delta_pos * constraint.local_penalty_coefficient_less)
    else acc
  if constraint.is_greater_or_equal then
    (acc.1 - delta_neg, acc.2 - delta_neg * constraint.local_penalty_coefficient_greater)
  else acc

/-- The loop over the constraint sensitivities in the words of the specification. -/
def evaluate_single_loop_as_specified (self : Model) (variable_value_diff : ℤ) :
    List (ConstraintPtr × ℚ) → ℚ × ℚ → ℚ × ℚ
  | [], acc => acc
  | sensitivity :: rest, acc =>
    if (self.constraint sensitivity.1).is_evaluation_ignorable then
      evaluate_single_loop_as_specified self variable_value_diff rest acc
    else
      evaluate_single_loop_as_specified self variable_value_diff rest
        (sensitivity_step_as_specified (self.constraint sensitivity.1) sensitivity.2
          variable_value_diff acc)

end Model
end model

namespace examples

open model_component neighborhood solution model cppmh.model

/-- An enabled constraint `expression ≥ 0` with the given cached value, whose local
penalty coefficients are `1`. -/
def greater_constraint (expression : Expression) : Constraint :=
  { m_expression := expression
    m_sense := ConstraintSense.Greater
    m_constraint_value := expression.m_value
    m_violation_value := max (-expression.m_value) 0
    m_positive_part := max expression.m_value 0
    m_negative_part := max (-expression.m_value) 0
    m_is_enabled := true
    m_is_evaluation_ignorable := false
    m_local_penalty_coefficient_less := 1
    m_local_penalty_coefficient_greater := 1 }

/-- The model of the single constraint `a * x₆₄ ≥ 0` at `x₆₄ = 0`, without an
objective. -/
def greater_model (a : ℚ) : Model :=
  { m_variable_proxies := single_heap a
    m_constraint_proxies := [[greater_constraint (expression_of [(64, a)] 0 0)]]
    m_objective := { m_expression := Expression.initialize_, m_value := 0 }
    m_is_defined_objective := false
    m_is_minimization := true
    m_global_penalty_coefficient := 1
    m_selections := [] }

end examples
end printemps

namespace printemps
namespace examples

open model_component neighborhood

/-- The binomial constraint `x₆₄ + 3 x₁₂₈ = 0`. -/
def slope : BinomialConstraint :=
  { variable_ptr_first := 64
    variable_ptr_second := 128
    sensitivity_first := 1
    sensitivity_second := 3
    constant_value := 0 }

/-- Every variable has the value 0 and the bounds -10 and 10, and is not fixed. -/
def heap_of_zeros : VariableHeap := fun _ => plain_variable 0 (-10) 10

end examples
end printemps

namespace printemps
namespace option

/-- Modelled from the spec: the members of `LocalSearchOption` that the code under
study reads (`local_search_option.h` is not among the sources). -/
structure LocalSearchOption where
  iteration_max : ℤ
  time_max : ℚ
  time_offset : ℚ

/-- Modelled from the spec: the members of `LagrangeDualOption` that the code under
study reads (`lagrange_dual_option.h` is not among the sources). -/
structure LagrangeDualOption where
  iteration_max : ℤ
  time_max : ℚ
  time_offset : ℚ

/-- The members of the structure `Option` of `option.h` that the termination conditions
read. -/
structure Option where
  time_max : ℚ
  local_search : LocalSearchOption
  lagrange_dual : LagrangeDualOption

end option

namespace solver
namespace lagrange_dual
namespace core

/-- Modelled from the spec: the enumeration `LagrangeDualCoreTerminationStatus`
(`lagrange_dual_core_termination_status.h` is not among the sources): the values that
`lagrange_dual_core.h` sets. -/
inductive LagrangeDualCoreTerminationStatus where
  | TIME_OVER
  | ITERATION_OVER
  | REACH_TARGET
  | CONVERGE
  deriving DecidableEq, Repr

/-- Modelled from the spec: the members of `LagrangeDualCoreState` that the termination
conditions read or write through the state manager (`lagrange_dual_core_state.h` and
`lagrange_dual_core_state_manager.h` are not among the sources). -/
structure LagrangeDualCoreState where
  iteration : ℤ
  elapsed_time : ℚ
  termination_status : LagrangeDualCoreTerminationStatus

/-- The call `m_state_manager.set_termination_status(status)`. -/
def LagrangeDualCoreState.set_termination_status (state : LagrangeDualCoreState)
    (a_TERMINATION_STATUS : LagrangeDualCoreTerminationStatus) : LagrangeDualCoreState :=
  { state with termination_status := a_TERMINATION_STATUS }

namespace LagrangeDualCore

/-- The method `satisfy_time_over_terminate_condition`: the returned value and the state
after the call. -/
def satisfy_time_over_terminate_condition (STATE : LagrangeDualCoreState)
    (m_option : option.Option) : Bool × LagrangeDualCoreState :=
  if STATE.elapsed_time > m_option.local_search.time_max then
    (true, STATE.set_termination_status LagrangeDualCoreTerminationStatus.TIME_OVER)
  else if STATE.elapsed_time + m_option.local_search.time_offset > m_option.time_max then
    (true, STATE.set_termination_status LagrangeDualCoreTerminationStatus.TIME_OVER)
  else (false, STATE)

/-- The method `satisfy_iteration_over_terminate_condition`. -/
def satisfy_iteration_over_terminate_condition (STATE : LagrangeDualCoreState)
    (m_option : option.Option) : Bool × LagrangeDualCoreState :=
  if STATE.iteration ≥ m_option.local_search.iteration_max then
    (true, STATE.set_termination_status LagrangeDualCoreTerminationStatus.ITERATION_OVER)
  else (false, STATE)

/-- The first two tests of the loop of `run`: `some state` is the state with which the
loop is left, `none` stands for going on to the next test. -/
def time_or_iteration_over (STATE : LagrangeDualCoreState) (m_option : option.Option) :
    Option LagrangeDualCoreState :=
  let time_over := satisfy_time_over_terminate_condition STATE m_option
  if time_over.1 then some time_over.2
  else
    let iteration_over := satisfy_iteration_over_terminate_condition time_over.2 m_option
    if iteration_over.1 then some iteration_over.2 else none

end LagrangeDualCore
end core
end lagrange_dual
end solver
end printemps

namespace cppmh
namespace solver

/-- Modelled from the spec: the members of `LagrangeDualOption` of `cppmh` that `solve`
reads (`cppmh/solver/lagrange_dual/lagrange_dual_option.h` is not among the sources). -/
structure LagrangeDualOption where
  iteration_max : ℤ
  time_max : ℚ
  time_offset : ℚ
  step_size_extend_rate : ℚ
  step_size_reduce_rate : ℚ
  tolerance : ℚ
  queue_size : ℤ

/-- Modelled from the spec: the members of the structure `Option` of `cppmh` that `solve`
reads (`cppmh/solver/option.h` is not among the sources). -/
structure Option where
  time_max : ℚ
  lagrange_dual : LagrangeDualOption

namespace lagrange_dual

/-- The three tests "Check the terminating condition" of the loop of `solve`: the loop
is left. -/
def is_terminated (elapsed_time : ℚ) (iteration : ℤ) (option : Option) : Bool :=
  if elapsed_time > option.lagrange_dual.time_max then true
  else if elapsed_time + option.lagrange_dual.time_offset > option.time_max then true
  else if iteration ≥ option.lagrange_dual.iteration_max then true
  else false

end lagrange_dual
end solver
end cppmh

namespace printemps
namespace examples

/-- Options that allow 5 iterations and 1 second to the Lagrange dual search, and 10
iterations and 100 seconds to the local search. -/
def dual_option : option.Option :=
  { time_max := 100
    local_search := { iteration_max := 10, time_max := 100, time_offset := 0 }
    lagrange_dual := { iteration_max := 5, time_max := 1, time_offset := 0 } }

/-- The same limits of the Lagrange dual search, in the options of `cppmh`. -/
def cppmh_dual_option : cppmh.solver.Option :=
  { time_max := 100
    lagrange_dual :=
      { iteration_max := 5, time_max := 1, time_offset := 0, step_size_extend_rate := 1,
        step_size_reduce_rate := 1, tolerance := 0, queue_size := 100 } }

/-- The state of the Lagrange dual search at the iteration 5, after 2 seconds. -/
def dual_state : solver.lagrange_dual.core.LagrangeDualCoreState :=
  { iteration := 5
    elapsed_time := 2
    termination_status := solver.lagrange_dual.core.LagrangeDualCoreTerminationStatus.CONVERGE }

end examples
end printemps

namespace printemps
namespace model_component

namespace Expression

/-- The method `lower_bound`. -/
def lower_bound (self : Expression) (heap : VariableHeap) : ℚ :=
  self.m_sensitivities.foldl
    (fun lower_bound sensitivity =>
      if (heap sensitivity.1).is_fixed then
        lower_bound + sensitivity.2 * ((heap sensitivity.1).value : ℚ)
      else
        let value :=
          if sensitivity.2 > 0 then (heap sensitivity.1).lower_bound
          else (heap sensitivity.1).upper_bound
        lower_bound + sensitivity.2 * (value : ℚ))
    self.m_constant_value

/-- The method `upper_bound`. -/
def upper_bound (self : Expression) (heap : VariableHeap) : ℚ :=
  self.m_sensitivities.foldl
    (fun upper_bound sensitivity =>
      if (heap sensitivity.1).is_fixed then
        upper_bound + sensitivity.2 * ((heap sensitivity.1).value : ℚ)
      else
        let value :=
          if sensitivity.2 > 0 then (heap sensitivity.1).upper_bound
          else (heap sensitivity.1).lower_bound
        upper_bound + sensitivity.2 * (value : ℚ))
    self.m_constant_value

/-- The conversion of a `double` to `int`: the value is truncated toward zero; `none`
stands for the undefined behaviour of a truncated value that an `int` of 32 bits cannot
hold. -/
def double_to_int (x : ℚ) : Option ℤ :=
  let truncated : ℤ := if 0 ≤ x then Int.floor x else -Int.floor (-x)
  if -(2 : ℤ) ^ 31 ≤ truncated ∧ truncated < (2 : ℤ) ^ 31 then some truncated else none

/-- The loop of `fixed_term_value`, whose accumulator `fixed_term_value` is an `int`:
the statement `fixed_term_value += sensitivity.second * sensitivity.first->value()`
adds in `double` and converts the sum back to `int`. -/
def fixed_term_value_loop (heap : VariableHeap) : List (Nat × ℚ) → ℤ → Option ℤ
  | [], fixed_term_value => some fixed_term_value
  | sensitivity :: rest, fixed_term_value =>
    if (heap sensitivity.1).is_fixed then
      match double_to_int
          ((fixed_term_value : ℚ) + sensitivity.2 * ((heap sensitivity.1).value : ℚ)) with
      | none => none
      | some converted => fixed_term_value_loop heap rest converted
    else fixed_term_value_loop heap rest fixed_term_value

/-- The method `fixed_term_value`, which returns the `int` as a `T_Expression`. -/
def fixed_term_value (self : Expression) (heap : VariableHeap) : Option ℚ :=
  (fixed_term_value_loop heap self.m_sensitivities 0).map (fun value => (value : ℚ))

/-- The sum of `coefficient * value` over the fixed variables of the expression. -/
def fixed_term_sum (self : Expression) (heap : VariableHeap) : ℚ :=
  ((self.m_sensitivities.filter (fun sensitivity => (heap sensitivity.1).is_fixed)).map
    (fun sensitivity => sensitivity.2 * ((heap sensitivity.1).value : ℚ))).sum

/-- The values of `other` are an assignment of the variables of the expression within
the bounds that `heap` holds: a fixed variable keeps its value and a variable that is
not fixed lies within its lower and upper bound. -/
def WithinBounds (self : Expression) (heap other : VariableHeap) : Prop :=
  ∀ sensitivity ∈ self.m_sensitivities,
    if (heap sensitivity.1).is_fixed then
      (other sensitivity.1).value = (heap sensitivity.1).value
    else
      (heap sensitivity.1).lower_bound ≤ (other sensitivity.1).value ∧
        (other sensitivity.1).value ≤ (heap sensitivity.1).upper_bound

/-- The assignment that gives its lower bound to every variable of the expression that
is not fixed and has a positive coefficient, if `a_IS_LOWER` is true, or a coefficient
that is not positive, if `a_IS_LOWER` is false, and its upper bound to the other variables
that are not fixed. -/
def at_bounds (self : Expression) (heap : VariableHeap) (a_IS_LOWER : Bool) : VariableHeap :=
  fun ptr =>
    if (heap ptr).is_fixed then heap ptr
    else
      match self.m_sensitivities.lookup ptr with
      | none => heap ptr
      | some coefficient =>
        if decide (coefficient > 0) = a_IS_LOWER then (heap ptr).set_value (heap ptr).lower_bound
        else (heap ptr).set_value (heap ptr).upper_bound

end Expression
end model_component

namespace model

open model_component

/-- The method `compute_naive_dual_bound`; the first value of `dual_bound` is
overwritten before it is read. -/
def Model.compute_naive_dual_bound (self : Model) : ℚ :=
  self.m_objective.m_expression.m_sensitivities.foldl
    (fun dual_bound sensitivity =>
      let VARIABLE_PTR := sensitivity.1
      let COEFFICIENT := sensitivity.2
      if (self.m_variable_proxies VARIABLE_PTR).is_fixed then
        dual_bound + ((self.m_variable_proxies VARIABLE_PTR).value : ℚ) * COEFFICIENT
      else
        let LOWER_BOUND := (self.m_variable_proxies VARIABLE_PTR).lower_bound
        let UPPER_BOUND := (self.m_variable_proxies VARIABLE_PTR).upper_bound
        if self.m_is_minimization = decide (COEFFICIENT > 0) then
          dual_bound + (LOWER_BOUND : ℚ) * COEFFICIENT
        else
          dual_bound + (UPPER_BOUND : ℚ) * COEFFICIENT)
    self.m_objective.m_expression.constant_value

end model

namespace examples

open model_component

/-- The expression `x₆₄ / 2`. -/
def half_expression : Expression := Expression.create_instance [(64, 1 / 2)] 0

/-- Every variable is fixed at the value 1, with the bounds 0 and 10. -/
def heap_of_fixed_ones : VariableHeap := fun _ => { plain_variable 1 0 10 with is_fixed := true }

/-- The expression `2 x₆₄ - 3 x₁₂₈ + x₁₉₂ + 5`. -/
def bounded_expression : Expression :=
  Expression.create_instance [(64, 2), (128, -3), (192, 1)] 5

/-- The variable at 64 in `[0, 4]`, the variable at 128 in `[-1, 2]`, and every other variable
fixed at 7. -/
def bounded_heap : VariableHeap := fun ptr =>
  if ptr = 64 then plain_variable 1 0 4
  else if ptr = 128 then plain_variable 0 (-1) 2
  else { plain_variable 7 0 10 with is_fixed := true }

end examples
end printemps

namespace printemps
namespace model_component

/-- Modelled from the spec: `Variable::unfix`, which clears the fixed flag (`variable.h`
is not among the sources). -/
def Variable.unfix (self : Variable) : Variable :=
  { self with is_fixed := false }

end model_component

namespace model

open model_component

namespace Model

/-- The method `fix_variables`; `variable_ptrs` lists the variables of the proxies in
the order of the two nested loops, `name variable_ptr` is `variable.name()`, and
`a_VARIABLES` is the `std::unordered_map` from names to values. -/
def fix_variables (name : Nat → String) (a_VARIABLES : List (String × ℤ)) :
    List Nat → VariableHeap → VariableHeap
  | [], heap => heap
  | variable_ptr :: rest, heap =>
    fix_variables name a_VARIABLES rest
      (fun ptr =>
        if ptr = variable_ptr then
          match a_VARIABLES.lookup (name variable_ptr) with
          | some value => (heap ptr).fix_by value
          | none => heap ptr
        else heap ptr)

/-- The method `unfix_variables`; `a_VARIABLE_NAMES` is the `std::unordered_set` of
names. -/
def unfix_variables (name : Nat → String) (a_VARIABLE_NAMES : List String) :
    List Nat → VariableHeap → VariableHeap
  | [], heap => heap
  | variable_ptr :: rest, heap =>
    unfix_variables name a_VARIABLE_NAMES rest
      (fun ptr =>
        if ptr = variable_ptr then
          let fixed := (heap ptr).fix_by 0
          if name variable_ptr ∈ a_VARIABLE_NAMES then fixed.unfix else fixed
        else heap ptr)

end Model
end model

namespace examples

open model_component

/-- The variable at 64 has the name `x` and every other variable the name `y`. -/
def name_of (variable_ptr : Nat) : String := if variable_ptr = 64 then "x" else "y"

/-- Every variable has the value 5, is not fixed and has the bounds 0 and 10. -/
def heap_of_fives : VariableHeap := fun _ => plain_variable 5 0 10

end examples
end printemps

namespace cppmh
namespace model

open printemps.model_component

/-- The value `new_value` of the two correction blocks: the value of the variable,
clamped to its bounds. -/
def clamped_value (a_VARIABLE : Variable) : ℤ :=
  if a_VARIABLE.value < a_VARIABLE.lower_bound then a_VARIABLE.lower_bound
  else if a_VARIABLE.value > a_VARIABLE.upper_bound then a_VARIABLE.upper_bound
  else a_VARIABLE.value

/-- The body of the loops of `verify_and_correct_binary_variables_initial_values` for one variable;
`none` stands for the exception `std::logic_error`.  The member `sense` of the structure
`Variable` stands for that of the class of `cppmh`. -/
def verify_and_correct_binary_variable (a_IS_ENABLED_CORRECTON : Bool) (heap : VariableHeap)
    (variable_ptr : Nat) : Option VariableHeap :=
  if (heap variable_ptr).sense = VariableSense.Binary then
    if (heap variable_ptr).value ≠ 0 ∧ (heap variable_ptr).value ≠ 1 then
      if (heap variable_ptr).is_fixed then none
      else if a_IS_ENABLED_CORRECTON then
        some (at_pointer heap variable_ptr
          (fun v => set_value_if_not_fixed v (clamped_value (heap variable_ptr))))
      else none
    else some heap
  else some heap

/-- The method `verify_and_correct_binary_variables_initial_values`; `variable_ptrs`
lists the variables of the proxies in the order of the two nested loops. -/
def verify_and_correct_binary_variables_initial_values (a_IS_ENABLED_CORRECTON : Bool) :
    List Nat → VariableHeap → Option VariableHeap
  | [], heap => some heap
  | variable_ptr :: rest, heap =>
    match verify_and_correct_binary_variable a_IS_ENABLED_CORRECTON heap variable_ptr with
    | none => none
    | some heap =>
      verify_and_correct_binary_variables_initial_values a_IS_ENABLED_CORRECTON rest heap

/-- The body of the loops of `verify_and_correct_integer_variables_initial_values` for
one variable. -/
def verify_and_correct_integer_variable (a_IS_ENABLED_CORRECTON : Bool) (heap : VariableHeap)
    (variable_ptr : Nat) : Option VariableHeap :=
  if (heap variable_ptr).sense = VariableSense.Integer ∧
      ((heap variable_ptr).value < (heap variable_ptr).lower_bound ∨
        (heap variable_ptr).value > (heap variable_ptr).upper_bound) then
    if (heap variable_ptr).is_fixed then none
    else if a_IS_ENABLED_CORRECTON then
      some (at_pointer heap variable_ptr
        (fun v => set_value_if_not_fixed v (clamped_value (heap variable_ptr))))
    else none
  else some heap

/-- The method `verify_and_correct_integer_variables_initial_values`. -/
def verify_and_correct_integer_variables_initial_values (a_IS_ENABLED_CORRECTON : Bool) :
    List Nat → VariableHeap → Option VariableHeap
  | [], heap => some heap
  | variable_ptr :: rest, heap =>
    match verify_and_correct_integer_variable a_IS_ENABLED_CORRECTON heap variable_ptr with
    | none => none
    | some heap =>
      verify_and_correct_integer_variables_initial_values a_IS_ENABLED_CORRECTON rest heap

/-- The loops of `import_variable_values` that copy the values; `a_PROXIES variable_ptr`
is `a_PROXIES[id].flat_indexed_values(flat_index)` of the variable. -/
def import_values (a_PROXIES : Nat → ℤ) : List Nat → VariableHeap → VariableHeap
  | [], heap => heap
  | variable_ptr :: rest, heap =>
    import_values a_PROXIES rest
      (at_pointer heap variable_ptr (fun v => set_value_if_not_fixed v (a_PROXIES variable_ptr)))

/-- The method `import_variable_values`: the values are copied, then the selection variables
are verified and the integer variables are verified twice, without correction;
`selections` lists `variable_ptrs` of the selections of the neighborhood. -/
def import_variable_values (a_PROXIES : Nat → ℤ) (variable_ptrs : List Nat)
    (selections : List (List Nat)) (heap : VariableHeap) : Option VariableHeap :=
  let heap := import_values a_PROXIES variable_ptrs heap
  match verify_and_correct_selection_variables_initial_values false selections heap with
  | none => none
  | some heap =>
    match verify_and_correct_integer_variables_initial_values false variable_ptrs heap with
    | none => none
    | some heap => verify_and_correct_integer_variables_initial_values false variable_ptrs heap

end model
end cppmh

namespace printemps
namespace examples

open model_component

/-- Every variable is binary, with the value 0 and the bounds 0 and 1, and not fixed. -/
def heap_of_binaries : VariableHeap := fun _ =>
  { plain_variable 0 0 1 with sense := VariableSense.Binary }

/-- The value 2 for every variable. -/
def proxies_of_twos : Nat → ℤ := fun _ => 2

end examples
end printemps

namespace printemps
namespace opb

/-- Modelled from the spec: the enumeration `OPBConstraintSense` (`opb.h` is not among
the sources). -/
inductive OPBConstraintSense where
  | Less
  | Equal
  | Greater
  deriving DecidableEq, Repr

/-- Modelled from the spec: a term of an OPB file (`opb.h` is not among the sources):
its coefficient and the name of its variable, which `concated_variable_name()` returns
(the name of the product variable for a product of variables). -/
structure OPBTerm where
  coefficient : ℤ
  concated_variable_name : String

/-- Modelled from the spec: the members of `OPBObjective` that `import_opb` reads
(`opb.h` is not among the sources). -/
structure OPBObjective where
  is_minimization : Bool
  terms : List OPBTerm

/-- Modelled from the spec: the members of `OPBSoftConstraint` that `import_opb` reads
(`opb.h` is not among the sources). -/
structure OPBSoftConstraint where
  weight : ℤ
  sense : OPBConstraintSense
  terms : List OPBTerm
  rhs : ℤ
  name : String

/-- Modelled from the spec: the members of `OPBHardConstraint` that `import_opb` reads
(`opb.h` is not among the sources). -/
structure OPBHardConstraint where
  sense : OPBConstraintSense
  terms : List OPBTerm
  rhs : ℤ
  name : String

/-- The structure `OPBTopCost` of `opb_top_cost.h`. -/
structure OPBTopCost where
  is_defined : Bool
  value : ℤ

/-- Modelled from the spec: the members of `OPB` that `import_opb` reads (`opb.h` is not
among the sources). -/
structure OPB where
  variable_names : List String
  negated_variable_names : List String
  product_variable_names : List (String × List String)
  soft_constraints : List OPBSoftConstraint
  hard_constraints : List OPBHardConstraint
  objective : OPBObjective
  top_cost : OPBTopCost

end opb

namespace model

open model_component opb

/-- The members of `Model` that `minimize` writes. -/
structure ObjectiveMembers where
  m_objective : Objective
  m_is_defined_objective : Bool
  m_is_minimization : Bool

/-- The method `minimize(const Expression &)`. -/
def ObjectiveMembers.minimize (a_EXPRESSION : Expression) : ObjectiveMembers :=
  { m_objective := Objective.create_instance a_EXPRESSION
    m_is_defined_objective := true
    m_is_minimization := true }

/-- The method `is_minimization`. -/
def ObjectiveMembers.is_minimization (self : ObjectiveMembers) : Bool :=
  self.m_is_minimization

/-- The method `sign`. -/
def ObjectiveMembers.sign (self : ObjectiveMembers) : ℚ :=
  if self.m_is_minimization then 1 else -1

/-- What `import_opb` leaves in the members of the model that the statements about the
objective read: the proxies and their names, and the members of the objective.  The
elements of the proxies, which are variables with the bounds 0 and 1 and the constraints
that the method assigns, are left out. -/
structure ImportedOPB where
  definitions : ModelDefinitions
  objective_members : ObjectiveMembers

namespace Model

/-- A loop `for (auto i = 0; i < n; i++) variable_ptrs[names[i]] = &proxy(i)` of
`import_opb`, from the index `i` on; `address` gives the address of an element of the
proxy. -/
def import_opb_variable_ptrs (address : Nat → Nat) :
    List String → Nat → List (String × Nat) → List (String × Nat)
  | [], _, variable_ptrs => variable_ptrs
  | name :: rest, i, variable_ptrs =>
    import_opb_variable_ptrs address rest (i + 1)
      (VariableMap.assign variable_ptrs name (address i))

/-- The three numbers of soft constraints by sense that the first loop over the soft
constraints of `import_opb` counts. -/
def import_opb_count (soft_constraints : List OPBSoftConstraint) (sense : OPBConstraintSense) :
    Nat :=
  (soft_constraints.filter (fun soft_constraint => decide (soft_constraint.sense = sense))).length

/-- Modelled from the spec: the product `weight * x` of an integer and a variable or a
sum of variables (`expression_binary_operator.h` is not among the sources): the
expression whose coefficients are `weight`. -/
def import_opb_weighted (weight : ℤ) (variable_ptrs : List Nat) : Expression :=
  variable_ptrs.foldl
    (fun expression variable_ptr =>
      expression.add_assign (Expression.create_instance [(variable_ptr, (weight : ℚ))] 0))
    (Expression.create_instance [] 0)

/-- The loop of `import_opb` that builds `objective_penalty`, from the soft constraint of
index `i` on; the three counters are the values of `soft_constraint_indices_less[i]`,
`soft_constraint_indices_equal[i]` and `soft_constraint_indices_greater[i]`, and the
four functions give the addresses of the elements of the four proxies of slack variables.
-/
def import_opb_penalty (less_plus equal_plus equal_minus greater_minus : Nat → Nat) :
    List OPBSoftConstraint → Nat × Nat × Nat → Expression → Expression
  | [], _, objective_penalty => objective_penalty
  | SOFT_CONSTRAINT :: rest, (index_less, index_equal, index_greater), objective_penalty =>
    match SOFT_CONSTRAINT.sense with
    | OPBConstraintSense.Less =>
      import_opb_penalty less_plus equal_plus equal_minus greater_minus rest
        (index_less + 1, index_equal, index_greater)
        (objective_penalty.add_assign
          (import_opb_weighted SOFT_CONSTRAINT.weight [less_plus index_less]))
    | OPBConstraintSense.Equal =>
      import_opb_penalty less_plus equal_plus equal_minus greater_minus rest
        (index_less, index_equal + 1, index_greater)
        (objective_penalty.add_assign
          (import_opb_weighted SOFT_CONSTRAINT.weight
            [equal_plus index_equal, equal_minus index_equal]))
    | OPBConstraintSense.Greater =>
      import_opb_penalty less_plus equal_plus equal_minus greater_minus rest
        (index_less, index_equal, index_greater + 1)
        (objective_penalty.add_assign
          (import_opb_weighted SOFT_CONSTRAINT.weight [greater_minus index_greater]))

/-- The sensitivities that `import_opb` builds from the terms of the objective. -/
def import_opb_sensitivities (variable_ptrs : List (String × Nat)) (terms : List OPBTerm) :
    List (Nat × ℚ) :=
  terms.foldl
    (fun sensitivities term =>
      Sensitivities.assign sensitivities
        (VariableMap.subscript variable_ptrs term.concated_variable_name)
        (term.coefficient : ℚ))
    []

/-- The block "Set up objective function" of `import_opb` before the call of `minimize`;
`m_is_minimization` is the member of the model, which the first statement of the method
has assigned. -/
def import_opb_objective (m_is_minimization : Bool) (variable_ptrs : List (String × Nat))
    (terms : List OPBTerm) (objective_penalty : Expression) : Expression :=
  let objective := Expression.set_sensitivities Expression.initialize_
    (import_opb_sensitivities variable_ptrs terms)
  if objective_penalty.m_sensitivities.length > 0 then
    if m_is_minimization then objective.add_assign objective_penalty
    else objective.sub_assign objective_penalty
  else objective

/-- The names that the loops over the slack variables of `import_opb` give: the name of
the soft constraint of index `i`, for `i` below the number of the slack variables,
followed by the suffix. -/
def import_opb_slack_names (soft_constraints : List OPBSoftConstraint) (n : Nat)
    (suffix : String) : List String :=
  (soft_constraints.take n).map (fun soft_constraint => soft_constraint.name ++ suffix)

/-- The calls of `create_variables` and `create_constraints` of `import_opb`, in the
order of the method; `none` stands for an exception of one of them, and for the read of
an element that the proxy `hard_constraints` does not have, in the loop over the
negated variables, when they are more than the hard constraints. -/
def import_opb_definitions (self : ModelDefinitions) (a_OPB : OPB) : Option ModelDefinitions :=
  let number_of_soft_constraints_less :=
    import_opb_count a_OPB.soft_constraints OPBConstraintSense.Less
  let number_of_soft_constraints_equal :=
    import_opb_count a_OPB.soft_constraints OPBConstraintSense.Equal
  let number_of_soft_constraints_greater :=
    import_opb_count a_OPB.soft_constraints OPBConstraintSense.Greater
  (self.create_variables "variables" (a_OPB.variable_names.length : ℤ)).bind fun self =>
  (self.create_variables "negated_variables"
    (a_OPB.negated_variable_names.length : ℤ)).bind fun self =>
  (self.create_variables "product_variables"
    (a_OPB.product_variable_names.length : ℤ)).bind fun self =>
  (self.create_variables "slack_variables_less_plus"
    (number_of_soft_constraints_less : ℤ)).bind fun self =>
  (self.create_variables "slack_variables_equal_plus"
    (number_of_soft_constraints_equal : ℤ)).bind fun self =>
  (self.create_variables "slack_variables_equal_minus"
    (number_of_soft_constraints_equal : ℤ)).bind fun self =>
  (self.create_variables "slack_variables_greater_minus"
    (number_of_soft_constraints_greater : ℤ)).bind fun self =>
  (self.create_constraints "soft_constraint_less_plus"
    (number_of_soft_constraints_less : ℤ)).bind fun self =>
  (self.create_constraints "soft_constraint_equal_plus"
    (number_of_soft_constraints_equal : ℤ)).bind fun self =>
  (self.create_constraints "soft_constraint_equal_minus"
    (number_of_soft_constraints_equal : ℤ)).bind fun self =>
  (self.create_constraints "soft_constraint_greater_minus"
    (number_of_soft_constraints_greater : ℤ)).bind fun self =>
  (self.create_constraints "hard_constraints" (a_OPB.hard_constraints.length : ℤ)).bind
    fun self =>
  (if a_OPB.negated_variable_names.length > 0 then
    (self.create_constraints "negated_variable_constraints"
      (a_OPB.negated_variable_names.length : ℤ)).bind fun self =>
    if a_OPB.negated_variable_names.length ≤ a_OPB.hard_constraints.length then some self
    else none
  else some self).bind fun self =>
  (if a_OPB.product_variable_names.length > 0 then
    self.create_constraints "product_variable_constraints"
      ((a_OPB.product_variable_names.length : ℤ) * 2)
  else some self).bind fun self =>
  if a_OPB.top_cost.is_defined then self.create_constraints "top_cost_constraint" 1
  else some self

/-- The map `variable_ptrs` of `import_opb` after the seven loops over the variables;
`address proxy_index i` is the address of the element `i` of the variable proxy of the
given index, and `PROXY_INDEX` is the index of the proxy `variables`. -/
def import_opb_all_variable_ptrs (a_OPB : OPB) (address : Nat → Nat → Nat)
    (PROXY_INDEX : Nat) : List (String × Nat) :=
  let number_of_soft_constraints_less :=
    import_opb_count a_OPB.soft_constraints OPBConstraintSense.Less
  let number_of_soft_constraints_equal :=
    import_opb_count a_OPB.soft_constraints OPBConstraintSense.Equal
  let number_of_soft_constraints_greater :=
    import_opb_count a_OPB.soft_constraints OPBConstraintSense.Greater
  let variable_ptrs := import_opb_variable_ptrs (address PROXY_INDEX) a_OPB.variable_names 0 []
  let variable_ptrs := import_opb_variable_ptrs (address (PROXY_INDEX + 1))
    (a_OPB.negated_variable_names.map (fun name => "~" ++ name)) 0 variable_ptrs
  let variable_ptrs := import_opb_variable_ptrs (address (PROXY_INDEX + 2))
    (a_OPB.product_variable_names.map Prod.fst) 0 variable_ptrs
  let variable_ptrs := import_opb_variable_ptrs (address (PROXY_INDEX + 3))
    (import_opb_slack_names a_OPB.soft_constraints number_of_soft_constraints_less
      "_less_plus") 0 variable_ptrs
  let variable_ptrs := (List.range number_of_soft_constraints_equal).foldl
    (fun variable_ptrs i =>
      VariableMap.assign
        (VariableMap.assign variable_ptrs
          (((a_OPB.soft_constraints.map (fun c => c.name)).getD i "") ++ "_equal_plus")
          (address (PROXY_INDEX + 4) i))
        (((a_OPB.soft_constraints.map (fun c => c.name)).getD i "") ++ "_equal_minus")
        (address (PROXY_INDEX + 5) i))
    variable_ptrs
  import_opb_variable_ptrs (address (PROXY_INDEX + 6))
    (import_opb_slack_names a_OPB.soft_constraints number_of_soft_constraints_greater
      "_greater_minus") 0 variable_ptrs

/-- The method `import_opb`, for the members of `ImportedOPB`: the first statement
assigns `m_is_minimization` from the objective of the OPB data, the block of the
objective reads it, and the last statement is the call of `minimize`. -/
def import_opb (self : ModelDefinitions) (a_OPB : OPB) (address : Nat → Nat → Nat) :
    Option ImportedOPB :=
  let m_is_minimization := a_OPB.objective.is_minimization
  match import_opb_definitions self a_OPB with
  | none => none
  | some definitions =>
    let PROXY_INDEX := self.m_variable_proxies.length
    let variable_ptrs := import_opb_all_variable_ptrs a_OPB address PROXY_INDEX
    let objective_penalty :=
      import_opb_penalty (address (PROXY_INDEX + 3)) (address (PROXY_INDEX + 4))
        (address (PROXY_INDEX + 5)) (address (PROXY_INDEX + 6)) a_OPB.soft_constraints
        (0, 0, 0) Expression.initialize_
    let objective :=
      import_opb_objective m_is_minimization variable_ptrs a_OPB.objective.terms
        objective_penalty
    some { definitions := definitions, objective_members := ObjectiveMembers.minimize objective }

end Model
end model

namespace examples

open opb

/-- The OPB data of the maximization of `x1 + 2 x2` with the soft constraint
`x1 + x2 <= 1` of weight 3 and the hard constraint `x1 >= 0`. -/
def opb_maximization : OPB :=
  { variable_names := ["x1", "x2"]
    negated_variable_names := []
    product_variable_names := []
    soft_constraints :=
      [{ weight := 3, sense := OPBConstraintSense.Less,
         terms := [{ coefficient := 1, concated_variable_name := "x1" },
                   { coefficient := 1, concated_variable_name := "x2" }],
         rhs := 1, name := "s" }]
    hard_constraints :=
      [{ sense := OPBConstraintSense.Greater,
         terms := [{ coefficient := 1, concated_variable_name := "x1" }],
         rhs := 0, name := "h" }]
    objective :=
      { is_minimization := false
        terms := [{ coefficient := 1, concated_variable_name := "x1" },
                  { coefficient := 2, concated_variable_name := "x2" }] }
    top_cost := { is_defined := false, value := 2147483647 } }

/-- The element `i` of the variable proxy of index `proxy_index` is at the address
`6400 * (proxy_index + 1) + 64 * i`. -/
def opb_address (proxy_index i : Nat) : Nat := 6400 * (proxy_index + 1) + 64 * i

/-- The MPS data `mps_with_continuous`, as a maximization. -/
def mps_maximization : mps.MPS :=
  { mps_with_continuous with
    objective := { is_minimization := false, sensitivities := [("x", 1)] } }

end examples
end printemps

namespace cppmh
namespace utility

/-- Modelled from the spec: `utility::FixedSizeQueue<double>`
(`cppmh/utility/fixed_size_queue.h` is not among the sources): a queue of a fixed
maximum size, which drops its oldest value when a value is pushed on the full queue. -/
structure FixedSizeQueue where
  m_queue : List ℚ
  m_max_size : ℤ

namespace FixedSizeQueue

/-- Modelled from the spec: the constructor `FixedSizeQueue(max_size)`. -/
def setup (a_MAX_SIZE : ℤ) : FixedSizeQueue :=
  { m_queue := [], m_max_size := a_MAX_SIZE }

/-- Modelled from the spec: the method `push`. -/
def push (self : FixedSizeQueue) (a_VALUE : ℚ) : FixedSizeQueue :=
  if (self.m_queue.length : ℤ) = self.m_max_size then
    { self with m_queue := self.m_queue.tail ++ [a_VALUE] }
  else
    { self with m_queue := self.m_queue ++ [a_VALUE] }

/-- Modelled from the spec: the method `size`. -/
def size (self : FixedSizeQueue) : ℤ := (self.m_queue.length : ℤ)

/-- Modelled from the spec: the method `average`. -/
def average (self : FixedSizeQueue) : ℚ := self.m_queue.sum / (self.m_queue.length : ℚ)

/-- Modelled from the spec: the method `max`, for a queue that is not empty. -/
def max (self : FixedSizeQueue) : ℚ :=
  self.m_queue.tail.foldl (fun a b => if a < b then b else a) (self.m_queue.headD 0)

end FixedSizeQueue
end utility

/-- The type `Option` of Lean, under a name that the structure `Option` of
`cppmh::solver` does not hide. -/
abbrev Optional (α : Type) : Type := Option α

namespace solver
namespace lagrange_dual

open model utility

/-- The methods of the model, of the incumbent holder and of the time keeper that `solve`
calls, as parameters: `import_variable_values` with the initial values (`none` stands
for its exception), `update`, the pair of `evaluate` and `try_update_incumbent` (the new
holder and the update status), `export_solution`, `constraint_value()` and `sense()` of
the constraints by proxy, the loop of the primal update for given multipliers,
`compute_lagrangian`, `sign`, `number_of_variables`, `reset_local_augmented_incumbent`,
and `clock n`, the elapsed time that the call number `n` of `time_keeper.clock()`
returns.  `M` is the state of the model, `H` that of the incumbent holder and `S` the
type of a solution. -/
structure SolveMethods (M H S : Type) where
  import_variable_values : M → Optional M
  update : M → M
  try_update_incumbent : H → M → H × ℤ
  export_solution : M → S
  constraint_values : M → List (List ℚ)
  senses : List (List ConstraintSense)
  update_primal : List (List ℚ) → M → M
  compute_lagrangian : M → List (List ℚ) → ℚ
  sign : M → ℚ
  number_of_variables : M → ℤ
  reset_local_augmented_incumbent : H → H
  clock : Nat → ℚ

/-- The local variables of `solve` that the loop reads or writes.  The value
`-HUGE_VALF` of `lagrangian_incumbent` is `none`. -/
structure SolveState (M H S : Type) where
  model : M
  incumbent_holder : H
  total_update_status : ℤ
  primal_incumbent : S
  dual_value_proxies : List (List ℚ)
  dual_value_proxies_incumbent : List (List ℚ)
  lagrangian_incumbent : Optional ℚ
  queue : FixedSizeQueue
  step_size : ℚ
  iteration : ℤ

/-- Modelled from the spec: the members of `LagrangeDualResult` that `solve` writes
(`lagrange_dual_result.h` is not among the sources). -/
structure LagrangeDualResult (H S : Type) where
  lagrangian : Optional ℚ
  primal_solution : S
  dual_value_proxies : List (List ℚ)
  incumbent_holder : H
  total_update_status : ℤ
  number_of_iterations : ℤ

/-- The test "Terminate the loop if lagrangian converges" of `solve`. -/
def is_converged (queue : FixedSizeQueue) (lagrangian_incumbent : ℚ) (option : Option) : Bool :=
  decide (queue.size > option.lagrange_dual.queue_size ∧
    lagrangian_incumbent - queue.average <
      max 1 |queue.average| * option.lagrange_dual.tolerance)

/-- The body of the loop of `solve` between the tests of the terminating condition and
the test of the convergence: the state before `iteration++`, and the value of
`lagrangian_incumbent`.  The assignment `auto primal_incumbent = model->export_solution()`
of the branch that updates the incumbent declares a variable of the block, which no
statement reads: the variable `primal_incumbent` of the function keeps its value. -/
def solve_iteration {M H S : Type} (methods : SolveMethods M H S) (option : Option)
    (state : SolveState M H S) : SolveState M H S × ℚ :=
  let dual_value_proxies :=
    bound_dual methods.senses
      (update_dual state.step_size (methods.constraint_values state.model)
        state.dual_value_proxies)
  let model := methods.update (methods.update_primal dual_value_proxies state.model)
  let updated := methods.try_update_incumbent state.incumbent_holder model
  let update_status := updated.2
  let total_update_status : ℤ :=
    if update_status ≠ 0 ∨ state.total_update_status ≠ 0 then 1 else 0
  let lagrangian := methods.compute_lagrangian model dual_value_proxies * methods.sign model
  let improved : Bool :=
    match state.lagrangian_incumbent with
    | none => true
    | some lagrangian_incumbent => decide (lagrangian > lagrangian_incumbent)
  let lagrangian_incumbent : ℚ :=
    if improved then lagrangian else state.lagrangian_incumbent.getD lagrangian
  let dual_value_proxies_incumbent :=
    if improved then dual_value_proxies else state.dual_value_proxies_incumbent
  let queue := state.queue.push lagrangian
  let queue_average := queue.average
  let queue_max := queue.max
  let step_size :=
    if queue.size > 0 then
      let extended :=
        if lagrangian > queue_average then
          state.step_size * option.lagrange_dual.step_size_extend_rate
        else state.step_size
      if lagrangian < queue_max then extended * option.lagrange_dual.step_size_reduce_rate
      else extended
    else state.step_size
  ({ model := model
     incumbent_holder := updated.1
     total_update_status := total_update_status
     primal_incumbent := state.primal_incumbent
     dual_value_proxies := dual_value_proxies
     dual_value_proxies_incumbent := dual_value_proxies_incumbent
     lagrangian_incumbent := some lagrangian_incumbent
     queue := queue
     step_size := step_size
     iteration := state.iteration }, lagrangian_incumbent)

/-- The loop `while (true)` of `solve`, for at most `fuel` passes; `calls` is the number
of the calls of `time_keeper.clock()` so far.  `some state` is the state with which the
loop is left, `none` tells that the passes do not suffice. -/
def solve_loop {M H S : Type} (methods : SolveMethods M H S) (option : Option) :
    Nat → Nat → SolveState M H S → Optional (SolveState M H S)
  | 0, _, _ => none
  | fuel + 1, calls, state =>
    if is_terminated (methods.clock calls) state.iteration option then some state
    else
      let next := solve_iteration methods option state
      if is_converged next.1.queue next.2 option then some next.1
      else solve_loop methods option fuel (calls + 1)
        { next.1 with iteration := next.1.iteration + 1 }

/-- The statements of `solve` before the loop; `none` stands for the exception of
`import_variable_values`.  The step size `1.0 / model->number_of_variables()` of a model
without variables, infinite in the code, is 0 here. -/
def solve_initial {M H S : Type} (methods : SolveMethods M H S) (option : Option)
    (a_model : M) (a_INCUMBENT_HOLDER : H) : Optional (SolveState M H S) :=
  let incumbent_holder := methods.reset_local_augmented_incumbent a_INCUMBENT_HOLDER
  match methods.import_variable_values a_model with
  | none => none
  | some model =>
    let model := methods.update model
    let updated := methods.try_update_incumbent incumbent_holder model
    let primal_incumbent := methods.export_solution model
    let dual_value_proxies :=
      bound_dual methods.senses (generate_constraint_parameter_proxies methods.senses 0)
    some
      { model := model
        incumbent_holder := updated.1
        total_update_status := 0
        primal_incumbent := primal_incumbent
        dual_value_proxies := dual_value_proxies
        dual_value_proxies_incumbent := dual_value_proxies
        lagrangian_incumbent := none
        queue := FixedSizeQueue.setup option.lagrange_dual.queue_size
        step_size := 1 / (methods.number_of_variables model : ℚ)
        iteration := 0 }

/-- The function `solve`, for at most `fuel` passes of its loop. -/
def solve {M H S : Type} (methods : SolveMethods M H S) (option : Option) (fuel : Nat)
    (a_model : M) (a_INCUMBENT_HOLDER : H) : Optional (LagrangeDualResult H S) :=
  match solve_initial methods option a_model a_INCUMBENT_HOLDER with
  | none => none
  | some initial =>
    match solve_loop methods option fuel 0 initial with
    | none => none
    | some state =>
      some
        { lagrangian := state.lagrangian_incumbent
          primal_solution := state.primal_incumbent
          dual_value_proxies := state.dual_value_proxies_incumbent
          incumbent_holder := state.incumbent_holder
          total_update_status := state.total_update_status
          number_of_iterations := state.iteration }

end lagrange_dual
end solver
end cppmh

namespace printemps
namespace examples

open cppmh.solver.lagrange_dual

/-- A model whose state is a counter that each primal update increments, whose solution
is the counter, whose Lagrangian is always 0 and whose clock stands still. -/
def counter_methods : SolveMethods ℤ Unit ℤ :=
  { import_variable_values := fun counter => some counter
    update := fun counter => counter
    try_update_incumbent := fun holder _ => (holder, 0)
    export_solution := fun counter => counter
    constraint_values := fun _ => []
    senses := []
    update_primal := fun _ counter => counter + 1
    compute_lagrangian := fun _ _ => 0
    sign := fun _ => 1
    number_of_variables := fun _ => 1
    reset_local_augmented_incumbent := fun holder => holder
    clock := fun _ => 0 }

/-- Options with a queue of 2 values, the tolerance `1 / 10` and at most 10 iterations
within 100 seconds. -/
def queue_option : cppmh.solver.Option :=
  { time_max := 100
    lagrange_dual :=
      { iteration_max := 10, time_max := 100, time_offset := 0, step_size_extend_rate := 1,
        step_size_reduce_rate := 1, tolerance := 1 / 10, queue_size := 2 } }

end examples
end printemps

namespace printemps
namespace utility

/-- Modelled from the spec: `utility::BidirectionalMap<T, int>`
(`utility/bidirectional_map.h` is not among the sources), for keys that are inserted
once, with the indices 0, 1, 2, ... in the order of the insertions, as
`export_lp_instance` does: the list of the keys in that order. -/
structure BidirectionalMap where
  keys : List Nat

namespace BidirectionalMap

/-- Modelled from the spec: the method `insert(key, index)`, for `index` the number of
the keys inserted before. -/
def insert (self : BidirectionalMap) (key : Nat) : BidirectionalMap :=
  { keys := self.keys ++ [key] }

/-- Modelled from the spec: the method `size`. -/
def size (self : BidirectionalMap) : Nat := self.keys.length

/-- Modelled from the spec: the method `forward_at`, which throws for a key that the map
does not have. -/
def forward_at (self : BidirectionalMap) (key : Nat) : Option Nat :=
  if key ∈ self.keys then some (self.keys.indexOf key) else none

/-- Modelled from the spec: the method `reverse_at`, which throws for an index that the
map does not have. -/
def reverse_at (self : BidirectionalMap) (index : Nat) : Option Nat :=
  self.keys[index]?

end BidirectionalMap

namespace sparse

/-- Modelled from the spec: `utility::sparse::SparseMatrix` (`utility/sparse` is not
among the sources), built from the vectors of the values, of the row indices and of the
column indices, which `export_lp_instance` fills record by record: the records
`(row, column, value)` and the two sizes. -/
structure SparseMatrix where
  records : List (Nat × Nat × ℚ)
  number_of_rows : Nat
  number_of_columns : Nat

/-- Modelled from the spec: the method `transpose`. -/
def SparseMatrix.transpose (self : SparseMatrix) : SparseMatrix :=
  { records := self.records.map (fun record => (record.2.1, record.1, record.2.2))
    number_of_rows := self.number_of_columns
    number_of_columns := self.number_of_rows }

/-- The sum of `value * x[column]` over the records of the row `row`. -/
def records_dot (records : List (Nat × Nat × ℚ)) (row : Nat) (x : Nat → ℚ) : ℚ :=
  ((records.filter (fun record => decide (record.1 = row))).map
    (fun record => record.2.2 * x record.2.1)).sum

/-- The product of the row `row` of the matrix and the vector `x`. -/
def SparseMatrix.row_dot (self : SparseMatrix) (row : Nat) (x : Nat → ℚ) : ℚ :=
  records_dot self.records row x

/-- Modelled from the spec: the method `clamp` of `utility::sparse::Vector`, which
brings every component between the components of the two bounds. -/
def clamp (values lower_bounds upper_bounds : List ℚ) : List ℚ :=
  (List.range values.length).map
    (fun i => max (lower_bounds.getD i 0) (min (values.getD i 0) (upper_bounds.getD i 0)))

end sparse
end utility

namespace linear_programming

open utility.sparse

/-- Modelled from the spec: the members of `LinearProgramming` that `export_lp_instance`
writes (`linear_programming.h` is not among the sources). -/
structure LinearProgramming where
  number_of_rows : Nat
  number_of_columns : Nat
  objective_offset : ℚ
  primal_constraint_coefficients : SparseMatrix
  dual_constraint_coefficients : SparseMatrix
  primal_objective_coefficients : List ℚ
  primal_lower_bounds : List ℚ
  primal_upper_bounds : List ℚ
  primal_initial_solution : List ℚ
  is_primal_lower_unbounded : List ℤ
  is_primal_upper_unbounded : List ℤ
  dual_objective_coefficients : List ℚ
  dual_lower_bounds : List ℚ
  dual_upper_bounds : List ℚ
  dual_initial_solution : List ℚ
  less_constraint_index_range : Nat × Nat
  equal_constraint_index_range : Nat × Nat
  greater_constraint_index_range : Nat × Nat
  is_minimization : Bool

end linear_programming

namespace constant

/-- The value `std::numeric_limits<double>::max()`. -/
def DOUBLE_MAX : ℚ := (2 - 1 / 2 ^ 52) * 2 ^ 1023

/-- The value `std::numeric_limits<double>::lowest()`. -/
def DOUBLE_LOWEST : ℚ := -DOUBLE_MAX

end constant

namespace model

open model_component utility utility.sparse linear_programming

/-- The members of `Model<T_Variable, T_Expression>` that `export_lp_instance` reads:
the variables and the constraints of the proxies, the three lists of
`m_variable_type_reference`, `fixed_variable_ptrs` of `m_variable_reference`, the three
lists of `m_constraint_reference`, `constraint_ptr` of the selections of `m_selections`,
and the flag of the objective. -/
structure ReferencedModel where
  m_variable_proxies : VariableHeap
  m_constraint_proxies : List (List Constraint)
  binary_variable_ptrs : List Nat
  integer_variable_ptrs : List Nat
  selection_variable_ptrs : List Nat
  fixed_variable_ptrs : List Nat
  less_ptrs : List ConstraintPtr
  equal_ptrs : List ConstraintPtr
  greater_ptrs : List ConstraintPtr
  selection_constraint_ptrs : List ConstraintPtr
  m_is_minimization : Bool

namespace ReferencedModel

/-- The constraint that a pointer points to. -/
def constraint (self : ReferencedModel) (constraint_ptr : ConstraintPtr) : Constraint :=
  self.m_constraint_proxies.flatten.getD constraint_ptr Constraint.initialize_

/-- A loop `for (ptr : ptrs) if (keep(ptr)) map.insert(ptr, index++)` of
`export_lp_instance`. -/
def insert_loop (keep : Nat → Bool) : List Nat → BidirectionalMap → BidirectionalMap
  | [], index_map => index_map
  | ptr :: rest, index_map =>
    if keep ptr then insert_loop keep rest (index_map.insert ptr)
    else insert_loop keep rest index_map

/-- The map `mutable_variable_index_map` after the three loops over the variables. -/
def mutable_variable_index_map (self : ReferencedModel) : BidirectionalMap :=
  let keep := fun variable_ptr => !(self.m_variable_proxies variable_ptr).is_fixed
  insert_loop keep self.selection_variable_ptrs
    (insert_loop keep self.integer_variable_ptrs
      (insert_loop keep self.binary_variable_ptrs { keys := [] }))

/-- The map `enabled_constraint_index_map` after the loop over `less_ptrs`. -/
def less_index_map (self : ReferencedModel) : BidirectionalMap :=
  insert_loop (fun constraint_ptr => (self.constraint constraint_ptr).is_enabled)
    self.less_ptrs { keys := [] }

/-- The map `enabled_constraint_index_map` after the loops over the selections, which
insert the constraints of the selections that are not enabled, and over `equal_ptrs`. -/
def equal_index_map (self : ReferencedModel) : BidirectionalMap :=
  insert_loop (fun constraint_ptr => (self.constraint constraint_ptr).is_enabled)
    self.equal_ptrs
    (insert_loop (fun constraint_ptr => !(self.constraint constraint_ptr).is_enabled)
      self.selection_constraint_ptrs self.less_index_map)

/-- The map `enabled_constraint_index_map` after the loop over `greater_ptrs`. -/
def enabled_constraint_index_map (self : ReferencedModel) : BidirectionalMap :=
  insert_loop (fun constraint_ptr => (self.constraint constraint_ptr).is_enabled)
    self.greater_ptrs self.equal_index_map

/-- The value of `dual_objective_coefficient` after the loop over the sensitivities of
an expression: the constant and the terms of the fixed variables. -/
def dual_objective_coefficient (self : ReferencedModel) (EXPRESSION : Expression) : ℚ :=
  EXPRESSION.m_sensitivities.foldl
    (fun dual_objective_coefficient sensitivity =>
      if (self.m_variable_proxies sensitivity.1).is_fixed then
        dual_objective_coefficient +
          ((self.m_variable_proxies sensitivity.1).value : ℚ) * sensitivity.2
      else dual_objective_coefficient)
    EXPRESSION.constant_value

/-- The component `dual_objective_coefficients[i]` of a constraint. -/
def dual_objective_component (self : ReferencedModel) (CONSTRAINT : Constraint) : ℚ :=
  if CONSTRAINT.m_sense = ConstraintSense.Less then
    self.dual_objective_coefficient CONSTRAINT.m_expression
  else -self.dual_objective_coefficient CONSTRAINT.m_expression

/-- The loop over the sensitivities of the constraint of the row `i` that fills
`row_records`; `none` stands for the exception of `forward_at`. -/
def row_records_loop (self : ReferencedModel) (i : Nat) (is_less : Bool) :
    List (Nat × ℚ) → Option (List (Nat × Nat × ℚ))
  | [] => some []
  | sensitivity :: rest =>
    if (self.m_variable_proxies sensitivity.1).is_fixed then
      row_records_loop self i is_less rest
    else
      match self.mutable_variable_index_map.forward_at sensitivity.1,
        row_records_loop self i is_less rest with
      | some COLUMN_INDEX, some records =>
        some ((i, COLUMN_INDEX, if is_less then -sensitivity.2 else sensitivity.2) :: records)
      | _, _ => none

/-- The records of the row `i` after `std::stable_sort` by the column index. -/
def row_records (self : ReferencedModel) (i : Nat) (CONSTRAINT : Constraint) :
    Option (List (Nat × Nat × ℚ)) :=
  (row_records_loop self i (decide (CONSTRAINT.m_sense = ConstraintSense.Less))
    CONSTRAINT.m_expression.m_sensitivities).map
    (fun records => records.insertionSort (fun first second => first.2.1 ≤ second.2.1))

/-- The loop over the rows that fills the vectors of the values, of the row indices and
of the column indices, from the row `i` on. -/
def records_loop (self : ReferencedModel) : List ConstraintPtr → Nat →
    Option (List (Nat × Nat × ℚ))
  | [], _ => some []
  | constraint_ptr :: rest, i =>
    match row_records self i (self.constraint constraint_ptr), records_loop self rest (i + 1) with
    | some row, some others => some (row ++ others)
    | _, _ => none

/-- The method `export_lp_instance`; `none` stands for an exception.  `INT_HALF_MIN` and
`INT_HALF_MAX` are the constants of `constant.h`, which is not among the sources. -/
def export_lp_instance (self : ReferencedModel) (INT_HALF_MIN INT_HALF_MAX : ℤ) :
    Option LinearProgramming :=
  let mutable_variable_index_map := self.mutable_variable_index_map
  let enabled_constraint_index_map := self.enabled_constraint_index_map
  let less_enabled_constraint_index_range : Nat × Nat := (0, self.less_index_map.size)
  let equal_enabled_constraint_index_range : Nat × Nat :=
    (self.less_index_map.size, self.equal_index_map.size)
  let greater_enabled_constraint_index_range : Nat × Nat :=
    (self.equal_index_map.size, enabled_constraint_index_map.size)
  let objective_offset : ℚ :=
    self.fixed_variable_ptrs.foldl
      (fun objective_offset variable_ptr =>
        objective_offset + ((self.m_variable_proxies variable_ptr).value : ℚ) *
          (self.m_variable_proxies variable_ptr).objective_sensitivity)
      0
  let MUTABLE_VARIABLES_SIZE := mutable_variable_index_map.size
  let ENABLED_CONSTRAINTS_SIZE := enabled_constraint_index_map.size
  let mutable_variables := mutable_variable_index_map.keys.map self.m_variable_proxies
  let primal_objective_coefficients := mutable_variables.map (fun v => v.objective_sensitivity)
  let primal_lower_bounds := mutable_variables.map (fun v => (v.lower_bound : ℚ))
  let primal_upper_bounds := mutable_variables.map (fun v => (v.upper_bound : ℚ))
  let primal_initial_solution :=
    clamp (mutable_variables.map (fun v => (v.value : ℚ))) primal_lower_bounds primal_upper_bounds
  let is_primal_lower_unbounded : List ℤ :=
    mutable_variables.map (fun v => if v.lower_bound < Int.fdiv INT_HALF_MIN 2 then 1 else 0)
  let is_primal_upper_unbounded : List ℤ :=
    mutable_variables.map (fun v => if v.upper_bound > Int.fdiv INT_HALF_MAX 2 then 1 else 0)
  let dual_objective_coefficients :=
    enabled_constraint_index_map.keys.map
      (fun constraint_ptr => self.dual_objective_component (self.constraint constraint_ptr))
  let dual_lower_bounds :=
    (List.range ENABLED_CONSTRAINTS_SIZE).map
      (fun i =>
        if (less_enabled_constraint_index_range.1 ≤ i ∧
              i < less_enabled_constraint_index_range.2) ∨
            (greater_enabled_constraint_index_range.1 ≤ i ∧
              i < greater_enabled_constraint_index_range.2) then (0 : ℚ)
        else constant.DOUBLE_LOWEST)
  let dual_upper_bounds := List.replicate ENABLED_CONSTRAINTS_SIZE constant.DOUBLE_MAX
  let dual_initial_solution := List.replicate ENABLED_CONSTRAINTS_SIZE (0 : ℚ)
  match records_loop self enabled_constraint_index_map.keys 0 with
  | none => none
  | some records =>
    let primal_constraint_coefficients : SparseMatrix :=
      { records := records
        number_of_rows := ENABLED_CONSTRAINTS_SIZE
        number_of_columns := MUTABLE_VARIABLES_SIZE }
    some
      { number_of_rows := ENABLED_CONSTRAINTS_SIZE
        number_of_columns := MUTABLE_VARIABLES_SIZE
        objective_offset := if self.m_is_minimization then objective_offset
          else objective_offset * -1
        primal_constraint_coefficients := primal_constraint_coefficients
        dual_constraint_coefficients := primal_constraint_coefficients.transpose
        primal_objective_coefficients :=
          if self.m_is_minimization then primal_objective_coefficients
          else primal_objective_coefficients.map (fun coefficient => coefficient * -1)
        primal_lower_bounds := primal_lower_bounds
        primal_upper_bounds := primal_upper_bounds
        primal_initial_solution := primal_initial_solution
        is_primal_lower_unbounded := is_primal_lower_unbounded
        is_primal_upper_unbounded := is_primal_upper_unbounded
        dual_objective_coefficients := dual_objective_coefficients
        dual_lower_bounds := dual_lower_bounds
        dual_upper_bounds := dual_upper_bounds
        dual_initial_solution := dual_initial_solution
        less_constraint_index_range := less_enabled_constraint_index_range
        equal_constraint_index_range := equal_enabled_constraint_index_range
        greater_constraint_index_range := greater_enabled_constraint_index_range
        is_minimization := self.m_is_minimization }

/-- The value `g(x)` of the expression of a constraint at the assignment `x` of the
mutable variables, by column: the constant, the terms of the fixed variables at their
values, and the terms of the other variables at the component of `x` of their column. -/
def expression_at (self : ReferencedModel) (EXPRESSION : Expression) (x : Nat → ℚ) : ℚ :=
  EXPRESSION.m_constant_value +
    (EXPRESSION.m_sensitivities.map
      (fun sensitivity =>
        if (self.m_variable_proxies sensitivity.1).is_fixed then
          sensitivity.2 * ((self.m_variable_proxies sensitivity.1).value : ℚ)
        else
          sensitivity.2 * x (self.mutable_variable_index_map.keys.indexOf sensitivity.1))).sum

/-- The sense of every constraint of `less_ptrs` is `Less`, of every constraint of
`equal_ptrs` and of every selection `Equal`, and of every constraint of `greater_ptrs`
`Greater`, as `categorize_constraints` and the extraction of the selections fill
them. -/
def Categorized (self : ReferencedModel) : Prop :=
  (∀ constraint_ptr ∈ self.less_ptrs,
    (self.constraint constraint_ptr).m_sense = ConstraintSense.Less) ∧
  (∀ constraint_ptr ∈ self.selection_constraint_ptrs,
    (self.constraint constraint_ptr).m_sense = ConstraintSense.Equal) ∧
  (∀ constraint_ptr ∈ self.equal_ptrs,
    (self.constraint constraint_ptr).m_sense = ConstraintSense.Equal) ∧
  (∀ constraint_ptr ∈ self.greater_ptrs,
    (self.constraint constraint_ptr).m_sense = ConstraintSense.Greater)

/-- Every variable of an exported constraint that is not fixed has a column. -/
def ColumnsKnown (self : ReferencedModel) : Prop :=
  ∀ constraint_ptr ∈ self.enabled_constraint_index_map.keys,
    ∀ sensitivity ∈ (self.constraint constraint_ptr).m_expression.m_sensitivities,
      (self.m_variable_proxies sensitivity.1).is_fixed = false →
        sensitivity.1 ∈ self.mutable_variable_index_map.keys

end ReferencedModel
end model

namespace linear_programming
namespace LinearProgramming

/-- The index `i` lies in the range `[first, second)`. -/
def in_range (range : Nat × Nat) (i : Nat) : Prop := range.1 ≤ i ∧ i < range.2

/-- The row `i` of the instance, built from the constraint `c` of the model with the
expression `g`: for every assignment `x` of the columns, the product of the row and `x`
minus `dual_objective_coefficients[i]` is `-g(x)` for the sense `Less` and `g(x)` for
the other senses, and `c` holds if and only if the product is at least
`dual_objective_coefficients[i]`, equal to it for the sense `Equal`. -/
def RowEquivalent (lp : LinearProgramming) (self : model.ReferencedModel) (i : Nat) : Prop :=
  ∃ (constraint_ptr : Nat) (rhs : ℚ),
    self.enabled_constraint_index_map.reverse_at i = some constraint_ptr ∧
    lp.dual_objective_coefficients[i]? = some rhs ∧
    ∀ x : Nat → ℚ,
      (lp.primal_constraint_coefficients.row_dot i x - rhs =
        if (self.constraint constraint_ptr).m_sense = model_component.ConstraintSense.Less then
          -self.expression_at (self.constraint constraint_ptr).m_expression x
        else self.expression_at (self.constraint constraint_ptr).m_expression x) ∧
      ((self.constraint constraint_ptr).m_sense = model_component.ConstraintSense.Less →
        (self.expression_at (self.constraint constraint_ptr).m_expression x ≤ 0 ↔
          rhs ≤ lp.primal_constraint_coefficients.row_dot i x)) ∧
      ((self.constraint constraint_ptr).m_sense = model_component.ConstraintSense.Equal →
        (self.expression_at (self.constraint constraint_ptr).m_expression x = 0 ↔
          lp.primal_constraint_coefficients.row_dot i x = rhs)) ∧
      ((self.constraint constraint_ptr).m_sense = model_component.ConstraintSense.Greater →
        (0 ≤ self.expression_at (self.constraint constraint_ptr).m_expression x ↔
          rhs ≤ lp.primal_constraint_coefficients.row_dot i x))

/-- The three index ranges are contiguous, pairwise disjoint, and together cover the
rows `0 .. number_of_rows - 1`. -/
def RangesPartitionRows (lp : LinearProgramming) : Prop :=
  (lp.less_constraint_index_range.1 = 0 ∧
    lp.less_constraint_index_range.2 = lp.equal_constraint_index_range.1 ∧
    lp.equal_constraint_index_range.2 = lp.greater_constraint_index_range.1 ∧
    lp.greater_constraint_index_range.2 = lp.number_of_rows) ∧
  (∀ i, ¬(in_range lp.less_constraint_index_range i ∧
        in_range lp.equal_constraint_index_range i) ∧
      ¬(in_range lp.less_constraint_index_range i ∧
        in_range lp.greater_constraint_index_range i) ∧
      ¬(in_range lp.equal_constraint_index_range i ∧
        in_range lp.greater_constraint_index_range i)) ∧
  ∀ i, i < lp.number_of_rows ↔
    (in_range lp.less_constraint_index_range i ∨ in_range lp.equal_constraint_index_range i ∨
      in_range lp.greater_constraint_index_range i)

/-- The dual lower bound of a row is 0 exactly on the less range and on the greater
range. -/
def DualLowerBoundsZeroOnRanges (lp : LinearProgramming) : Prop :=
  ∀ i, i < lp.number_of_rows → ∃ bound : ℚ, lp.dual_lower_bounds[i]? = some bound ∧
    (bound = 0 ↔ (in_range lp.less_constraint_index_range i ∨
      in_range lp.greater_constraint_index_range i))

/-- The rows of the less range are built from constraints of the sense `Less`, the rows
of the equal range from constraints of the sense `Equal`, and the rows of the greater
range from constraints of the sense `Greater`. -/
def RangesMatchSenses (lp : LinearProgramming) (self : model.ReferencedModel) : Prop :=
  ∀ (i : Nat) (constraint_ptr : Nat),
    self.enabled_constraint_index_map.reverse_at i = some constraint_ptr →
    (in_range lp.less_constraint_index_range i →
      (self.constraint constraint_ptr).m_sense = model_component.ConstraintSense.Less) ∧
    (in_range lp.equal_constraint_index_range i →
      (self.constraint constraint_ptr).m_sense = model_component.ConstraintSense.Equal) ∧
    (in_range lp.greater_constraint_index_range i →
      (self.constraint constraint_ptr).m_sense = model_component.ConstraintSense.Greater)

end LinearProgramming
end linear_programming

namespace examples

open model_component

/-- The variable at 256 in `[0, 1]`, the variable at 128 in `[-1, 2]`, the variable at 64
in `[0, 1]` at the value 1, and every other variable fixed at 7. -/
def lp_heap : VariableHeap := fun ptr =>
  if ptr = 256 then plain_variable 0 0 1
  else if ptr = 128 then { plain_variable 0 (-1) 2 with objective_sensitivity := 3 }
  else if ptr = 64 then plain_variable 1 0 1
  else { plain_variable 7 0 10 with is_fixed := true, objective_sensitivity := 1 / 2 }

/-- A constraint of an expression and a sense. -/
def lp_constraint (sensitivities : List (Nat × ℚ)) (constant_value : ℚ)
    (sense : ConstraintSense) ( is_enabled : Bool) : Constraint :=
  { Constraint.initialize_ with
    m_expression := Expression.create_instance sensitivities constant_value
    m_sense := sense
    m_is_enabled := is_enabled }

/-- The model of `x₂₅₆ + 2 x₁₂₈ + x₁₉₂ - 5 ≤ 0`, `x₂₅₆ - x₁₂₈ = 0`,
`x₁₂₈ + x₁₉₂ / 2 - 1 ≥ 0` and of the selection `x₆₄ - 1 = 0`, which is not enabled, with
the variable at 192 fixed at 7. -/
def lp_model : model.ReferencedModel :=
  { m_variable_proxies := lp_heap
    m_constraint_proxies :=
      [[lp_constraint [(256, 1), (128, 2), (192, 1)] (-5) ConstraintSense.Less true,
        lp_constraint [(256, 1), (128, -1)] 0 ConstraintSense.Equal true],
       [lp_constraint [(128, 1), (192, 1 / 2)] (-1) ConstraintSense.Greater true,
        lp_constraint [(64, 1)] (-1) ConstraintSense.Equal false]]
    binary_variable_ptrs := [256]
    integer_variable_ptrs := [128, 192]
    selection_variable_ptrs := [64]
    fixed_variable_ptrs := [192]
    less_ptrs := [0]
    equal_ptrs := [1]
    greater_ptrs := [2]
    selection_constraint_ptrs := [3]
    m_is_minimization := true }

end examples
end printemps

/-! # Proofs -/

namespace cppmh
namespace model
namespace FixedSizeHashMap

variable {V : Type}

theorem getD_set_eq {α : Type} (l : List α) (i j : Nat) (a d : α) :
    (l.set i a).getD j d = if i = j ∧ i < l.length then a else l.getD j d := by
  simp only [List.getD_eq_getElem?_getD, List.getElem?_set]
  by_cases h : i = j
  · subst h
    by_cases h2 : i < l.length
    · simp [h2]
    · have : l[i]? = none := by simp; omega
      simp [h2, this]
  · simp [h]

theorem count_set_true (l : List Bool) (i : Nat) (h : i < l.length)
    (hf : l.getD i false = false) : (l.set i true).count true = l.count true + 1 := by
  induction l generalizing i with
  | nil => simp at h
  | cons b l ih =>
    cases i with
    | zero =>
      simp at hf
      subst hf
      simp
    | succ i =>
      simp at h hf
      have := ih i h (by simpa using hf)
      simp [List.set, List.count_cons, this]
      omega

theorem exists_free (l : List Bool) (h : l.count true < l.length) :
    ∃ i, i < l.length ∧ l.getD i false = false := by
  by_contra hcon
  push_neg at hcon
  have : l.count true = l.length := by
    rw [List.count_eq_length]
    intro b hb
    obtain ⟨i, hi, rfl⟩ := List.getElem_of_mem hb
    have := hcon i hi
    simp [List.getD_eq_getElem?_getD, hi] at this
    simpa using this.symm
  omega

theorem slot_lt (p start d : Nat) : slot p start d < 2 ^ p :=
  Nat.mod_lt _ (Nat.two_pow_pos p)

theorem slot_zero (p start : Nat) (h : start < 2 ^ p) : slot p start 0 = start := by
  simp [slot, Nat.mod_eq_of_lt h]

theorem slot_succ (p start d : Nat) :
    slot p (slot p start 1) d = slot p start (d + 1) := by
  simp only [slot]
  rw [Nat.add_mod, Nat.mod_mod, ← Nat.add_mod]
  congr 1
  omega

theorem step_eq (p index : Nat) : (index + 1) &&& (2 ^ p - 1) = slot p index 1 := by
  simp [slot, Nat.and_pow_two_sub_one_eq_mod]

theorem home_lt (self : FixedSizeHashMap V) (p : Nat) (hs : Shape self p) (k : Nat) :
    self.home k < 2 ^ p := by
  simp only [home, hs.mask, Nat.and_pow_two_sub_one_eq_mod]
  exact Nat.mod_lt _ (Nat.two_pow_pos p)

/-- Every slot is visited by the probe sequence within `2 ^ p` steps. -/
theorem slot_surj (p start f : Nat) (hs : start < 2 ^ p) (hf : f < 2 ^ p) :
    ∃ d, d < 2 ^ p ∧ slot p start d = f := by
  by_cases h : start ≤ f
  · refine ⟨f - start, by omega, ?_⟩
    simp only [slot]
    rw [Nat.add_sub_cancel' h]
    exact Nat.mod_eq_of_lt hf
  · refine ⟨2 ^ p - start + f, by omega, ?_⟩
    simp only [slot]
    have : start + (2 ^ p - start + f) = f + 2 ^ p := by omega
    rw [this, Nat.add_mod_right]
    exact Nat.mod_eq_of_lt hf

/-- The probe of `insert` leaves its loop at the first unoccupied slot. -/
theorem insert_probe_eq (self : FixedSizeHashMap V) (p : Nat) (hm : self.m_mask = 2 ^ p - 1)
    (k : Nat) : ∀ (fuel index : Nat), index < 2 ^ p → k < fuel →
    (∀ e, e < k → self.m_is_occupied.getD (slot p index e) false = true) →
    self.m_is_occupied.getD (slot p index k) false = false →
    self.insert_probe fuel index = some (slot p index k) := by
  induction k with
  | zero =>
    intro fuel index hi hf _ hfree
    obtain ⟨fuel, rfl⟩ : ∃ g, fuel = g + 1 := ⟨fuel - 1, by omega⟩
    rw [slot_zero p index hi] at hfree
    simp only [insert_probe, hfree, Bool.false_eq_true, if_false, slot_zero p index hi]
  | succ k ih =>
    intro fuel index hi hf hocc hfree
    obtain ⟨fuel, rfl⟩ : ∃ g, fuel = g + 1 := ⟨fuel - 1, by omega⟩
    have h0 := hocc 0 (by omega)
    rw [slot_zero p index hi] at h0
    simp only [insert_probe, h0, if_true, hm, step_eq]
    rw [ih fuel (slot p index 1) (slot_lt _ _ _) (by omega), slot_succ]
    · intro e he
      rw [slot_succ]
      exact hocc (e + 1) (by omega)
    · rw [slot_succ]
      exact hfree

/-- The probe of `at` leaves its loop at the first slot that is unoccupied or holds
the key. -/
theorem at_probe_eq [Zero V] (self : FixedSizeHashMap V) (p : Nat)
    (hm : self.m_mask = 2 ^ p - 1) (a_KEY k : Nat) :
    ∀ (fuel index : Nat), index < 2 ^ p → k < fuel →
    (∀ e, e < k → self.m_is_occupied.getD (slot p index e) false = true ∧
      self.m_keys.getD (slot p index e) 0 ≠ a_KEY) →
    (self.m_is_occupied.getD (slot p index k) false = false ∨
      self.m_keys.getD (slot p index k) 0 = a_KEY) →
    self.at_probe a_KEY fuel index =
      some (if self.m_keys.getD (slot p index k) 0 = a_KEY then
        self.m_values.getD (slot p index k) 0 else 0) := by
  induction k with
  | zero =>
    intro fuel index hi hf _ hstop
    obtain ⟨fuel, rfl⟩ : ∃ g, fuel = g + 1 := ⟨fuel - 1, by omega⟩
    rw [slot_zero p index hi] at hstop ⊢
    by_cases hk : self.m_keys.getD index 0 = a_KEY
    · simp only [at_probe, hk, bne_self_eq_false, Bool.false_eq_true, if_false, if_true]
    · have ho : self.m_is_occupied.getD index false = false := by
        rcases hstop with h | h
        · exact h
        · exact absurd h hk
      have hne : (self.m_keys.getD index 0 != a_KEY) = true := by simpa using hk
      simp only [at_probe, hne, hk, ho, Bool.not_false, if_true, if_false]
  | succ k ih =>
    intro fuel index hi hf hwalk hstop
    obtain ⟨fuel, rfl⟩ : ∃ g, fuel = g + 1 := ⟨fuel - 1, by omega⟩
    have h0 := hwalk 0 (by omega)
    rw [slot_zero p index hi] at h0
    have hne : (self.m_keys.getD index 0 != a_KEY) = true := by simpa using h0.2
    simp only [at_probe, hne, h0.1, if_true, hm, step_eq, Bool.not_true, Bool.false_eq_true,
      if_false]
    rw [ih fuel (slot p index 1) (slot_lt _ _ _) (by omega), slot_succ]
    · intro e he
      rw [slot_succ]
      exact hwalk (e + 1) (by omega)
    · rw [slot_succ]
      exact hstop

/-- A probe sequence that meets a stopping slot has a first one. -/
theorem first_stop (p start : Nat) (stop : Nat → Bool) (d : Nat)
    (hd : stop (slot p start d) = true) :
    ∃ k, k ≤ d ∧ stop (slot p start k) = true ∧
      ∀ e, e < k → stop (slot p start e) = false := by
  have hex : ∃ k, stop (slot p start k) = true := ⟨d, hd⟩
  refine ⟨Nat.find hex, Nat.find_min' hex hd, Nat.find_spec hex, ?_⟩
  intro e he
  have := Nat.find_min hex he
  simpa using this

theorem insert_holds [Zero V] (t : FixedSizeHashMap V) (p : Nat) (L : List (Nat × V))
    (k : Nat) (v : V) (h : Holds t p L) (hnew : ∀ kv ∈ L, kv.1 ≠ k)
    (hroom : L.length < 2 ^ p) :
    ∃ t2, t.insert k v = some t2 ∧ Holds t2 p ((k, v) :: L) ∧
      t2.m_shift_size = t.m_shift_size := by
  have hs := h.shape
  obtain ⟨f, hf, hfree⟩ := exists_free t.m_is_occupied (by rw [h.count, hs.occupied]; exact hroom)
  rw [hs.occupied] at hf
  obtain ⟨d0, hd0, hd0f⟩ := slot_surj p (t.home k) f (home_lt t p hs k) hf
  obtain ⟨k0, hk0, hstop, hbefore⟩ := first_stop p (t.home k)
    (fun i => !t.m_is_occupied.getD i false) d0 (by simp only [hd0f, hfree, Bool.not_false])
  simp only [Bool.not_eq_true', Bool.not_eq_false'] at hstop hbefore
  have hprobe := insert_probe_eq t p hs.mask k0 (2 ^ p) (t.home k) (home_lt t p hs k)
    (by omega) hbefore hstop
  generalize hj : slot p (t.home k) k0 = j at hprobe hstop
  have hjlt : j < 2 ^ p := by rw [← hj]; exact slot_lt _ _ _
  have hins : t.insert k v = some { t with
      m_is_occupied := t.m_is_occupied.set j true
      m_keys := t.m_keys.set j k
      m_values := t.m_values.set j v } := by
    unfold insert
    rw [hs.bucket]
    have : t.compute_hash k &&& t.m_mask = t.home k := rfl
    rw [this, hprobe]
  refine ⟨_, hins, ?_, rfl⟩
  have hocc : ∀ i, (t.m_is_occupied.set j true).getD i false =
      if j = i then true else t.m_is_occupied.getD i false := by
    intro i
    rw [getD_set_eq]
    simp only [hs.occupied, hjlt, and_true]
  have hkey : ∀ i, (t.m_keys.set j k).getD i 0 = if j = i then k else t.m_keys.getD i 0 := by
    intro i
    rw [getD_set_eq]
    simp only [hs.keys, hjlt, and_true]
  have hval : ∀ i, (t.m_values.set j v).getD i 0 = if j = i then v else t.m_values.getD i 0 := by
    intro i
    rw [getD_set_eq]
    simp only [hs.values, hjlt, and_true]
  have hne : ∀ i, t.m_is_occupied.getD i false = true → j ≠ i := by
    intro i hi hji
    rw [← hji, hstop] at hi
    exact Bool.false_ne_true hi
  refine ⟨⟨hs.bucket, hs.mask, ?_, ?_, ?_⟩, ?_, ?_, ?_, ?_⟩
  · simp only [List.length_set]; exact hs.keys
  · simp only [List.length_set]; exact hs.values
  · simp only [List.length_set]; exact hs.occupied
  · intro i hi ho
    simp only [hocc, hkey, hval] at ho ⊢
    by_cases hji : j = i
    · exact ⟨(k, v), List.mem_cons_self _ _, by simp only [hji, if_true, and_self]⟩
    · simp only [hji, if_false] at ho ⊢
      obtain ⟨kv, hkv, h1, h2⟩ := h.stored i hi ho
      exact ⟨kv, List.mem_cons_of_mem _ hkv, h1, h2⟩
  · intro i hi ho
    simp only [hocc, hval] at ho ⊢
    by_cases hji : j = i
    · simp only [hji, if_true] at ho
      exact absurd ho (by decide)
    · simp only [hji, if_false] at ho ⊢
      exact h.blank i hi ho
  · intro kv hkv
    have hhome : ∀ a, FixedSizeHashMap.home { t with
        m_is_occupied := t.m_is_occupied.set j true
        m_keys := t.m_keys.set j k
        m_values := t.m_values.set j v } a = t.home a := fun _ => rfl
    simp only [hhome, hocc, hkey, hval]
    rcases List.mem_cons.mp hkv with rfl | hold
    · refine ⟨k0, by omega, ?_, ?_, ?_, ?_⟩
      · simp only [hj, if_true]
      · simp only [hj, if_true]
      · simp only [hj, if_true]
      · intro e he
        have hoe := hbefore e he
        have hje := hne _ hoe
        simp only [hje, if_false]
        refine ⟨hoe, ?_⟩
        obtain ⟨kv, hkv, h1, _⟩ := h.stored _ (slot_lt _ _ _) hoe
        rw [h1]
        exact hnew kv hkv
    · obtain ⟨d, hd, h1, h2, h3, h4⟩ := h.reach kv hold
      refine ⟨d, hd, ?_, ?_, ?_, ?_⟩
      · simp only [hne _ h1, if_false]; exact h1
      · simp only [hne _ h1, if_false]; exact h2
      · simp only [hne _ h1, if_false]; exact h3
      · intro e he
        simp only [hne _ (h4 e he).1, if_false]
        exact h4 e he
  · show (t.m_is_occupied.set j true).count true = ((k, v) :: L).length
    rw [count_set_true _ _ (by rw [hs.occupied]; exact hjlt) hstop, h.count]
    rfl

theorem setup_insert_holds [Zero V] (p : Nat) : ∀ (rest : List (Nat × V))
    (t : FixedSizeHashMap V) (L : List (Nat × V)), Holds t p L →
    (rest.map Prod.fst).Nodup → (∀ kv ∈ rest, ∀ kv2 ∈ L, kv2.1 ≠ kv.1) →
    L.length + rest.length < 2 ^ p →
    ∃ t2, setup_insert rest t = some t2 ∧ Holds t2 p (rest.reverse ++ L) ∧
      t2.m_shift_size = t.m_shift_size := by
  intro rest
  induction rest with
  | nil =>
    intro t L h _ _ _
    exact ⟨t, rfl, by simpa using h, rfl⟩
  | cons item rest ih =>
    intro t L h hnd hdis hlen
    simp only [List.map_cons, List.nodup_cons, List.length_cons] at hnd hlen
    obtain ⟨t1, h1, hh1, hs1⟩ := insert_holds t p L item.1 item.2 h
      (fun kv hkv => hdis item (List.mem_cons_self _ _) kv hkv) (by omega)
    obtain ⟨t2, h2, hh2, hs2⟩ := ih t1 ((item.1, item.2) :: L) hh1 hnd.2
      (by
        intro kv hkv kv2 hkv2
        rcases List.mem_cons.mp hkv2 with rfl | hold
        · intro heq
          exact hnd.1 (List.mem_map.mpr ⟨kv, hkv, heq.symm⟩)
        · exact hdis kv (List.mem_cons_of_mem _ hkv) kv2 hold)
      (by simp only [List.length_cons]; omega)
    refine ⟨t2, ?_, ?_, by rw [hs2, hs1]⟩
    · simp only [setup_insert, h1, h2]
    · simpa using hh2

/-- The doubling loop of `setup` returns the least power of two that is not below
the minimum bucket size. -/
theorem setup_bucket_size_eq (minimum : Nat) : ∀ (fuel q : Nat), 1 ≤ fuel →
    minimum ≤ 2 ^ (q + fuel - 1) →
    ∃ p, q ≤ p ∧ setup_bucket_size minimum fuel (2 ^ q) = some (2 ^ p) ∧ minimum ≤ 2 ^ p ∧
      (p = q ∨ 2 ^ (p - 1) < minimum) := by
  intro fuel
  induction fuel with
  | zero => intro q h; omega
  | succ fuel ih =>
    intro q _ hmin
    by_cases hlt : 2 ^ q < minimum
    · have hfuel : 1 ≤ fuel := by
        rcases Nat.eq_zero_or_pos fuel with h0 | h0
        · subst h0
          simp only [Nat.add_zero, Nat.add_sub_cancel] at hmin
          omega
        · exact h0
      obtain ⟨p, hqp, hp, hge, hmin2⟩ := ih (q + 1) hfuel
        (by rw [show q + 1 + fuel - 1 = q + (fuel + 1) - 1 by omega]; exact hmin)
      refine ⟨p, by omega, ?_, hge, ?_⟩
      · simp only [setup_bucket_size, hlt, if_true, Nat.shiftLeft_eq, pow_one,
          ← Nat.pow_succ]
        exact hp
      · right
        rcases hmin2 with rfl | h
        · simpa using hlt
        · exact h
    · exact ⟨q, le_refl _, by simp only [setup_bucket_size, hlt, if_false], by omega, Or.inl rfl⟩

theorem holds_empty [Zero V] (shift p : Nat) :
    Holds ({ m_shift_size := shift
             m_bucket_size := 2 ^ p
             m_mask := 2 ^ p - 1
             m_keys := List.replicate (2 ^ p) 0
             m_values := List.replicate (2 ^ p) 0
             m_is_occupied := List.replicate (2 ^ p) false } : FixedSizeHashMap V) p [] := by
  refine ⟨⟨rfl, rfl, ?_, ?_, ?_⟩, ?_, ?_, ?_, ?_⟩
  · simp
  · simp
  · simp
  · intro i hi ho
    simp [List.getD_eq_getElem?_getD, List.getElem?_replicate, hi] at ho
  · intro i hi _
    simp [List.getD_eq_getElem?_getD, List.getElem?_replicate, hi]
  · intro kv hkv
    simp at hkv
  · simp [List.count_replicate]

/-- The table built by `setup`: it exists (the loops of `setup` terminate), holds
the entries of the map, and its bucket count is the least power of two that is at
least `LOAD_MARGIN` times the number of entries. -/
theorem setup_holds [Zero V] (M : List (Nat × V)) (a_KEY_SIZE : Nat)
    (hnd : (M.map Prod.fst).Nodup) :
    ∃ t p, setup M a_KEY_SIZE = some t ∧ Holds t p M.reverse ∧
      t.m_shift_size = Nat.log2 a_KEY_SIZE ∧ M.length * 100 ≤ 2 ^ p ∧
      (p = 0 ∨ 2 ^ (p - 1) < M.length * 100) ∧ M.length < 2 ^ p := by
  obtain ⟨p, _, hp, hge, hmin⟩ := setup_bucket_size_eq (M.length * 100)
    (M.length * 100 + 1) 0 (by omega)
    (by simp only [Nat.zero_add, Nat.add_sub_cancel]; exact le_of_lt (Nat.lt_two_pow _))
  have hlen : M.length < 2 ^ p := by
    rcases Nat.eq_zero_or_pos M.length with h0 | h0
    · rw [h0]; exact Nat.two_pow_pos p
    · omega
  obtain ⟨t, ht, hh, hsh⟩ := setup_insert_holds p M _ [] (holds_empty (Nat.log2 a_KEY_SIZE) p)
    hnd (by intro _ _ kv2 h; simp at h) (by simpa using hlen)
  refine ⟨t, p, ?_, by simpa using hh, hsh, hge, by simpa using hmin, hlen⟩
  have hp1 : setup_bucket_size (M.length * 100) (M.length * 100 + 1) 1 = some (2 ^ p) := hp
  simp only [setup, FixedSizeHashMapConstant.LOAD_MARGIN, hp1]
  exact ht

theorem at_present [Zero V] (t : FixedSizeHashMap V) (p : Nat) (L : List (Nat × V))
    (h : Holds t p L) (kv : Nat × V) (hkv : kv ∈ L) : t.at kv.1 = some kv.2 := by
  obtain ⟨d, hd, h1, h2, h3, h4⟩ := h.reach kv hkv
  have hs := h.shape
  have hhome : t.m_is_occupied.getD (t.home kv.1) false = true := by
    rcases Nat.eq_zero_or_pos d with h0 | h0
    · rw [h0, slot_zero p _ (home_lt t p hs _)] at h1
      exact h1
    · have := (h4 0 h0).1
      rw [slot_zero p _ (home_lt t p hs _)] at this
      exact this
  have hprobe := at_probe_eq t p hs.mask kv.1 d (2 ^ p) (t.home kv.1) (home_lt t p hs _) hd h4
    (Or.inr h2)
  have hidx : (kv.1 >>> t.m_shift_size) &&& t.m_mask = t.home kv.1 := rfl
  simp only [FixedSizeHashMap.at, hidx, hhome, Bool.not_true, Bool.false_eq_true, if_false,
    hs.bucket, hprobe, h2, if_true, h3]

theorem at_absent [Zero V] (t : FixedSizeHashMap V) (p : Nat) (L : List (Nat × V))
    (h : Holds t p L) (hroom : L.length < 2 ^ p) (k : Nat) (hk : ∀ kv ∈ L, kv.1 ≠ k) :
    t.at k = some 0 := by
  have hs := h.shape
  have hidx : (k >>> t.m_shift_size) &&& t.m_mask = t.home k := rfl
  by_cases hhome : t.m_is_occupied.getD (t.home k) false = true
  · obtain ⟨f, hf, hfree⟩ := exists_free t.m_is_occupied
      (by rw [h.count, hs.occupied]; exact hroom)
    rw [hs.occupied] at hf
    obtain ⟨d0, hd0, hd0f⟩ := slot_surj p (t.home k) f (home_lt t p hs k) hf
    obtain ⟨k0, hk0, hstop, hbefore⟩ := first_stop p (t.home k)
      (fun i => !t.m_is_occupied.getD i false || t.m_keys.getD i 0 == k) d0
      (by simp only [hd0f, hfree, Bool.not_false, Bool.true_or])
    have hstop2 : t.m_is_occupied.getD (slot p (t.home k) k0) false = false ∨
        t.m_keys.getD (slot p (t.home k) k0) 0 = k := by
      simpa using hstop
    have hbefore2 : ∀ e, e < k0 →
        t.m_is_occupied.getD (slot p (t.home k) e) false = true ∧
          t.m_keys.getD (slot p (t.home k) e) 0 ≠ k := by
      intro e he
      simpa using hbefore e he
    have hprobe := at_probe_eq t p hs.mask k k0 (2 ^ p) (t.home k) (home_lt t p hs _)
      (by omega) hbefore2 hstop2
    simp only [FixedSizeHashMap.at, hidx, hhome, Bool.not_true, Bool.false_eq_true, if_false,
      hs.bucket, hprobe]
    by_cases hkey : t.m_keys.getD (slot p (t.home k) k0) 0 = k
    · simp only [hkey, if_true]
      by_cases hocc : t.m_is_occupied.getD (slot p (t.home k) k0) false = true
      · obtain ⟨kv, hkv, hk1, _⟩ := h.stored _ (slot_lt _ _ _) hocc
        exact absurd (hk1.symm.trans hkey) (hk kv hkv)
      · rw [h.blank _ (slot_lt _ _ _) (by simpa using hocc)]
    · simp only [hkey, if_false]
  · have hfalse : t.m_is_occupied.getD (t.home k) false = false := by simpa using hhome
    simp only [FixedSizeHashMap.at, hidx, hfalse, Bool.not_false, if_true]

theorem setup_eq_some_getD {V : Type} [Zero V] (M : List (Nat × V)) (a_KEY_SIZE : Nat)
    (hnd : (M.map Prod.fst).Nodup) (d : FixedSizeHashMap V) :
    setup M a_KEY_SIZE = some ((setup M a_KEY_SIZE).getD d) := by
  obtain ⟨t, p, ht, _⟩ := setup_holds M a_KEY_SIZE hnd
  rw [ht]
  rfl

theorem getD_replicate_false (n i : Nat) : (List.replicate n false).getD i false = false := by
  simp only [List.getD_eq_getElem?_getD, List.getElem?_replicate]
  split_ifs <;> rfl

end FixedSizeHashMap
end model
end cppmh

namespace printemps
namespace model_component

open cppmh.model

/-! ## The expression kernel -/

theorem lookup_of_mem {β : Type} : ∀ (L : List (Nat × β)), (L.map Prod.fst).Nodup →
    ∀ kv ∈ L, L.lookup kv.1 = some kv.2 := by
  intro L
  induction L with
  | nil => intro _ kv h; simp at h
  | cons a L ih =>
    intro hnd kv hkv
    simp only [List.map_cons, List.nodup_cons] at hnd
    rcases List.mem_cons.mp hkv with rfl | hold
    · simp [List.lookup]
    · have hne : kv.1 ≠ a.1 := by
        intro heq
        exact hnd.1 (List.mem_map.mpr ⟨kv, hold, heq⟩)
      have : (kv.1 == a.1) = false := by simpa using hne
      rw [show a = (a.1, a.2) from rfl, List.lookup_cons, this]
      exact ih hnd.2 kv hold

theorem lookup_of_not_mem {β : Type} : ∀ (L : List (Nat × β)) (k : Nat),
    (∀ kv ∈ L, kv.1 ≠ k) → L.lookup k = none := by
  intro L
  induction L with
  | nil => intro _ _; rfl
  | cons a L ih =>
    intro k h
    have hne : (k == a.1) = false := by
      have := h a (List.mem_cons_self _ _)
      simpa using fun h2 => this h2.symm
    rw [show a = (a.1, a.2) from rfl, List.lookup_cons, hne]
    exact ih k (fun kv hkv => h kv (List.mem_cons_of_mem _ hkv))

/-- A table that holds the entries of a map answers every key with the
coefficient of the map, zero for a key that the map does not have. -/
theorem at_eq_lookup {V : Type} [Zero V] (M : List (Nat × V)) (a_KEY_SIZE : Nat)
    (hnd : (M.map Prod.fst).Nodup) (t : FixedSizeHashMap V)
    (ht : FixedSizeHashMap.setup M a_KEY_SIZE = some t) (k : Nat) :
    t.at k = some ((M.lookup k).getD 0) := by
  obtain ⟨t2, p, h2, hh, _, _, _, hlen⟩ := FixedSizeHashMap.setup_holds M a_KEY_SIZE hnd
  rw [ht] at h2
  cases h2
  by_cases hk : ∃ kv ∈ M, kv.1 = k
  · obtain ⟨kv, hkv, rfl⟩ := hk
    rw [lookup_of_mem M hnd kv hkv]
    exact FixedSizeHashMap.at_present t p _ hh kv (List.mem_reverse.mpr hkv)
  · push_neg at hk
    rw [lookup_of_not_mem M k hk]
    exact FixedSizeHashMap.at_absent t p _ hh (by simpa using hlen) k
      (fun kv hkv => hk kv (List.mem_reverse.mp hkv))

theorem set_value_value (v : Variable) (n : ℤ) : (v.set_value n).value = n := rfl

namespace Expression

theorem foldl_evaluate (heap : VariableHeap) : ∀ (L : List (Nat × ℚ)) (init : ℚ),
    L.foldl (fun value sensitivity => value + ((heap sensitivity.1).value : ℚ) * sensitivity.2)
      init = init + (L.map (fun s => s.2 * ((heap s.1).value : ℚ))).sum := by
  intro L
  induction L with
  | nil => intro init; simp
  | cons a L ih =>
    intro init
    simp only [List.foldl_cons, List.map_cons, List.sum_cons, ih]
    ring

theorem evaluate_eq_sum (self : Expression) (heap : VariableHeap) :
    self.evaluate heap = self.m_constant_value +
      (self.m_sensitivities.map (fun s => s.2 * ((heap s.1).value : ℚ))).sum :=
  foldl_evaluate heap _ _

/-- Setting one variable changes the linear form by the coefficient of the variable
times the change of its value. -/
theorem sum_after_set (heap : VariableHeap) (x : Nat) (n : ℤ) :
    ∀ (L : List (Nat × ℚ)), (L.map Prod.fst).Nodup →
    (L.map (fun s => s.2 * (((if s.1 = x then (heap s.1).set_value n else heap s.1) :
        Variable).value : ℚ))).sum =
      (L.map (fun s => s.2 * ((heap s.1).value : ℚ))).sum +
        (L.lookup x).getD 0 * ((n - (heap x).value : ℤ) : ℚ) := by
  intro L
  induction L with
  | nil => intro _; simp
  | cons a L ih =>
    intro hnd
    simp only [List.map_cons, List.nodup_cons] at hnd
    rw [show a = (a.1, a.2) from rfl, List.lookup_cons]
    simp only [List.map_cons, List.sum_cons]
    by_cases hax : a.1 = x
    · subst hax
      have hrest : L.lookup a.1 = none :=
        lookup_of_not_mem L a.1 (fun kv hkv heq => hnd.1 (List.mem_map.mpr ⟨kv, hkv, heq⟩))
      have ih2 := ih hnd.2
      rw [hrest] at ih2
      simp only [if_true, beq_self_eq_true, Option.getD_some, set_value_value]
      rw [ih2]
      push_cast
      simp only [Option.getD_none]
      ring
    · have hb : (x == a.1) = false := by simpa using fun h => hax h.symm
      simp only [hax, if_false, hb]
      rw [ih hnd.2]
      ring

theorem evaluate_after_set (self : Expression) (heap : VariableHeap) (x : Nat) (n : ℤ)
    (hnd : (self.m_sensitivities.map Prod.fst).Nodup) :
    self.evaluate (fun ptr => if ptr = x then (heap ptr).set_value n else heap ptr) =
      self.evaluate heap + self.coefficient x * ((n - (heap x).value : ℤ) : ℚ) := by
  rw [evaluate_eq_sum, evaluate_eq_sum, sum_after_set heap x n _ hnd, coefficient]
  ring

/-- The sensitivity-weighted change of a list of alterations. -/
theorem evaluate_after_alterations (self : Expression)
    (hnd : (self.m_sensitivities.map Prod.fst).Nodup) :
    ∀ (alterations : List (Nat × ℤ)) (heap : VariableHeap),
    (alterations.map Prod.fst).Nodup →
    self.evaluate (apply_alterations heap alterations) = self.evaluate heap +
      (alterations.map (fun a => self.coefficient a.1 *
        ((a.2 - (heap a.1).value : ℤ) : ℚ))).sum := by
  intro alterations
  induction alterations with
  | nil => intro heap _; simp [apply_alterations]
  | cons a rest ih =>
    intro heap hd
    simp only [List.map_cons, List.nodup_cons] at hd
    simp only [apply_alterations, List.map_cons, List.sum_cons]
    rw [ih _ hd.2, evaluate_after_set self heap a.1 a.2 hnd, add_assoc]
    congr 2
    apply congrArg
    apply List.map_congr_left
    intro b hb
    have hne : b.1 ≠ a.1 := fun heq => hd.1 (List.mem_map.mpr ⟨b, hb, heq⟩)
    simp only [hne, if_false]

theorem evaluate_move_loop_eq (self : Expression) (heap : VariableHeap) (sizeof_Variable : Nat)
    (hnd : (self.m_sensitivities.map Prod.fst).Nodup)
    (hfixed : FixedSizeHashMap.setup self.m_sensitivities sizeof_Variable =
      some self.m_fixed_sensitivities) :
    ∀ (alterations : List (Nat × ℤ)) (init : ℚ),
    self.evaluate_move_loop heap alterations init = some (init +
      (alterations.map (fun a => self.coefficient a.1 *
        ((a.2 - (heap a.1).value : ℤ) : ℚ))).sum) := by
  intro alterations
  induction alterations with
  | nil => intro init; simp [evaluate_move_loop]
  | cons a rest ih =>
    intro init
    simp only [evaluate_move_loop, at_eq_lookup _ _ hnd _ hfixed, ih, List.map_cons,
      List.sum_cons, coefficient]
    congr 1
    ring

/-! ### The coefficient masks -/

theorem and_complement64 (v m : Nat) (h : ∀ i, v.testBit i = true → m.testBit i = true) :
    v &&& complement64 m = 0 := by
  apply Nat.eq_of_testBit_eq
  intro i
  simp only [complement64, Nat.testBit_and, Nat.testBit_mod_two_pow, Nat.testBit_xor,
    Nat.testBit_two_pow_sub_one, Nat.zero_testBit]
  by_cases hv : v.testBit i = true
  · simp [hv, h i hv]
  · simp [hv]

theorem collect_mono (i : Nat) : ∀ (L : List (Nat × ℚ)) (acc : Nat × Nat),
    (acc.1.testBit i = true →
      (L.foldl (fun masks sensitivity =>
        ((if ¬ (|sensitivity.2 - 1| < constant.EPSILON_10) then masks.1 ||| sensitivity.1
          else masks.1),
         (if ¬ (|sensitivity.2 + 1| < constant.EPSILON_10) then masks.2 ||| sensitivity.1
          else masks.2))) acc).1.testBit i = true) ∧
    (acc.2.testBit i = true →
      (L.foldl (fun masks sensitivity =>
        ((if ¬ (|sensitivity.2 - 1| < constant.EPSILON_10) then masks.1 ||| sensitivity.1
          else masks.1),
         (if ¬ (|sensitivity.2 + 1| < constant.EPSILON_10) then masks.2 ||| sensitivity.1
          else masks.2))) acc).2.testBit i = true) := by
  intro L
  induction L with
  | nil => intro acc; exact ⟨id, id⟩
  | cons a L ih =>
    intro acc
    simp only [List.foldl_cons]
    constructor
    · intro h
      apply (ih _).1
      dsimp only
      split_ifs <;> simp [Nat.testBit_or, h]
    · intro h
      apply (ih _).2
      dsimp only
      split_ifs <;> simp [Nat.testBit_or, h]

theorem collect_mem (i : Nat) (s : Nat × ℚ) (hbit : s.1.testBit i = true) :
    ∀ (L : List (Nat × ℚ)) (acc : Nat × Nat), s ∈ L →
    (¬ (|s.2 - 1| < constant.EPSILON_10) →
      (L.foldl (fun masks sensitivity =>
        ((if ¬ (|sensitivity.2 - 1| < constant.EPSILON_10) then masks.1 ||| sensitivity.1
          else masks.1),
         (if ¬ (|sensitivity.2 + 1| < constant.EPSILON_10) then masks.2 ||| sensitivity.1
          else masks.2))) acc).1.testBit i = true) ∧
    (¬ (|s.2 + 1| < constant.EPSILON_10) →
      (L.foldl (fun masks sensitivity =>
        ((if ¬ (|sensitivity.2 - 1| < constant.EPSILON_10) then masks.1 ||| sensitivity.1
          else masks.1),
         (if ¬ (|sensitivity.2 + 1| < constant.EPSILON_10) then masks.2 ||| sensitivity.1
          else masks.2))) acc).2.testBit i = true) := by
  intro L
  induction L with
  | nil => intro _ h; simp at h
  | cons a L ih =>
    intro acc hmem
    simp only [List.foldl_cons]
    rcases List.mem_cons.mp hmem with rfl | hold
    · constructor
      · intro h
        apply (collect_mono i L _).1
        simp [h, Nat.testBit_or, hbit]
      · intro h
        apply (collect_mono i L _).2
        simp [h, Nat.testBit_or, hbit]
    · exact ih _ hold

/-- A variable whose coefficient is not within `EPSILON_10` of `-1` does not meet
the minus-one mask, and likewise for `+1` and the plus-one mask. -/
theorem setup_mask_excludes (self : Expression) (s : Nat × ℚ)
    (hs : s ∈ self.m_sensitivities) :
    (¬ (|s.2 - 1| < constant.EPSILON_10) →
      s.1 &&& self.setup_mask.m_plus_one_coefficient_mask = 0) ∧
    (¬ (|s.2 + 1| < constant.EPSILON_10) →
      s.1 &&& self.setup_mask.m_minus_one_coefficient_mask = 0) := by
  constructor
  · intro h
    apply and_complement64
    intro i hi
    exact (collect_mem i s hi _ _ hs).1 h
  · intro h
    apply and_complement64
    intro i hi
    exact (collect_mem i s hi _ _ hs).2 h

end Expression
end model_component
end printemps

namespace printemps

open cppmh.model

/-! ## The move generators -/

theorem length_resize {α : Type} (v : List α) (n : Nat) (value : α) :
    (resize v n value).length = n := by
  simp only [resize, List.length_append, List.length_take, List.length_replicate]
  omega

theorem getD_replicate_self {α : Type} (n k : Nat) (a : α) :
    (List.replicate n a).getD k a = a := by
  simp only [List.getD_eq_getElem?_getD, List.getElem?_replicate]
  split_ifs <;> rfl

theorem mem_update_union_set {α : Type} [DecidableEq α] (s t : List α) (a : α) :
    a ∈ utility.update_union_set s t ↔ a ∈ s ∨ a ∈ t := by
  simp [utility.update_union_set]

theorem nodup_update_union_set {α : Type} [DecidableEq α] (s t : List α) :
    (utility.update_union_set s t).Nodup :=
  List.nodup_dedup _

namespace neighborhood

open model_component

namespace TwoFlipMoveGenerator

theorem setup_pair_length (heap : VariableHeap) (moves : List Move) (i : Nat)
    (pair : Nat × Nat) : (setup_pair heap moves i pair).length = moves.length := by
  simp [setup_pair, modify_move]

theorem setup_pair_getD (heap : VariableHeap) (moves : List Move) (i : Nat)
    (pair : Nat × Nat) (h : 2 * i + 1 < moves.length) (k : Nat) :
    (setup_pair heap moves i pair).getD k Move.empty =
      if k = 2 * i then first_move heap (moves.getD (2 * i) Move.empty) pair
      else if k = 2 * i + 1 then
        ((first_move heap (moves.getD (2 * i) Move.empty) pair).set_alteration_value 0
          0).set_alteration_value 1 1
      else moves.getD k Move.empty := by
  have h0 : 2 * i < moves.length := by omega
  simp only [setup_pair, modify_move, FixedSizeHashMap.getD_set_eq, List.length_set, h, h0,
    and_true, if_true]
  by_cases hk0 : k = 2 * i
  · subst hk0
    have e1 : ¬ (2 * i + 1 = 2 * i) := by omega
    simp only [e1, if_false, if_true]
  · by_cases hk1 : k = 2 * i + 1
    · subst hk1
      simp only [if_true, hk0, if_false]
    · have e0 : ¬ (2 * i = k) := fun e => hk0 e.symm
      have e1 : ¬ (2 * i + 1 = k) := fun e => hk1 e.symm
      simp only [hk0, hk1, e0, e1, if_false]

theorem setup_loop_length (heap : VariableHeap) : ∀ (pairs : List (Nat × Nat)) (i : Nat)
    (moves : List Move), (setup_loop heap pairs i moves).length = moves.length := by
  intro pairs
  induction pairs with
  | nil => intro i moves; rfl
  | cons pair rest ih =>
    intro i moves
    simp only [setup_loop, ih, setup_pair_length]

/-- The slots after the loop of `setup`: the pair of index `j` fills the slots
`2 (i + j)` and `2 (i + j) + 1`, from what the slot `2 (i + j)` held before. -/
theorem setup_loop_getD (heap : VariableHeap) : ∀ (pairs : List (Nat × Nat)) (i : Nat)
    (moves : List Move), 2 * (i + pairs.length) ≤ moves.length →
    (∀ k, k < 2 * i → (setup_loop heap pairs i moves).getD k Move.empty =
      moves.getD k Move.empty) ∧
    ∀ j, j < pairs.length →
      (setup_loop heap pairs i moves).getD (2 * (i + j)) Move.empty =
        first_move heap (moves.getD (2 * (i + j)) Move.empty) (pairs.getD j (0, 0)) ∧
      (setup_loop heap pairs i moves).getD (2 * (i + j) + 1) Move.empty =
        ((first_move heap (moves.getD (2 * (i + j)) Move.empty)
          (pairs.getD j (0, 0))).set_alteration_value 0 0).set_alteration_value 1 1 := by
  intro pairs
  induction pairs with
  | nil =>
    intro i moves _
    exact ⟨fun _ _ => rfl, fun j hj => absurd hj (Nat.not_lt_zero j)⟩
  | cons pair rest ih =>
    intro i moves hlen
    simp only [List.length_cons] at hlen
    have hin : 2 * i + 1 < moves.length := by omega
    obtain ⟨hbefore, hfill⟩ := ih (i + 1) (setup_pair heap moves i pair)
      (by rw [setup_pair_length]; omega)
    simp only [setup_loop]
    constructor
    · intro k hk
      rw [hbefore k (by omega), setup_pair_getD heap moves i pair hin]
      have e0 : k ≠ 2 * i := by omega
      have e1 : k ≠ 2 * i + 1 := by omega
      simp only [e0, e1, if_false]
    · intro j hj
      cases j with
      | zero =>
        rw [hbefore (2 * (i + 0)) (by omega), hbefore (2 * (i + 0) + 1) (by omega),
          setup_pair_getD heap moves i pair hin, setup_pair_getD heap moves i pair hin]
        simp
      | succ j =>
        have hj2 : j < rest.length := by simpa using hj
        obtain ⟨h1, h2⟩ := hfill j hj2
        have hidx : 2 * (i + (j + 1)) = 2 * (i + 1 + j) := by omega
        rw [hidx, h1, h2, setup_pair_getD heap moves i pair hin]
        have e0 : 2 * (i + 1 + j) ≠ 2 * i := by omega
        have e1 : 2 * (i + 1 + j) ≠ 2 * i + 1 := by omega
        simp only [e0, e1, if_false, List.getD_cons_succ, and_self]

end TwoFlipMoveGenerator

namespace AggregationMoveGenerator

theorem aggregation_setup_loop_length (heap : VariableHeap) : ∀ (binomials : List BinomialConstraint)
    (i : Nat) (moves : List Move),
    (setup_loop heap binomials i moves).length = moves.length := by
  intro binomials
  induction binomials with
  | nil => intro i moves; rfl
  | cons b rest ih =>
    intro i moves
    simp only [setup_loop, ih, setup_binomial, List.length_set]

theorem update_alterations_loop_length (heap : VariableHeap) :
    ∀ (binomials : List BinomialConstraint) (i : Nat) (moves : List Move),
    (update_alterations_loop heap binomials i moves).length = moves.length := by
  intro binomials
  induction binomials with
  | nil => intro i moves; rfl
  | cons b rest ih =>
    intro i moves
    simp only [update_alterations_loop, ih, update_alterations, modify_move, List.length_set]

/-- The flags after the second loop of the move updater. -/
theorem filter_loop_getD (heap : VariableHeap) (moves : List Move) (a b c : Bool) :
    ∀ (indices : List Nat) (flags : List ℤ), (∀ i ∈ indices, i < flags.length) →
    (filter_loop heap moves a b c indices flags).length = flags.length ∧
    ∀ k, (filter_loop heap moves a b c indices flags).getD k 0 =
      if k ∈ indices then filter_flag heap (moves.getD k Move.empty) a b c
      else flags.getD k 0 := by
  intro indices
  induction indices with
  | nil => intro flags _; simp [filter_loop]
  | cons i rest ih =>
    intro flags hin
    have hi : i < flags.length := hin i (List.mem_cons_self _ _)
    obtain ⟨hlen, hget⟩ := ih (flags.set i (filter_flag heap (moves.getD i Move.empty) a b c))
      (by
        intro j hj
        rw [List.length_set]
        exact hin j (List.mem_cons_of_mem _ hj))
    simp only [filter_loop]
    refine ⟨by rw [hlen, List.length_set], ?_⟩
    intro k
    rw [hget k, FixedSizeHashMap.getD_set_eq]
    by_cases hk : k ∈ rest
    · simp [hk]
    · by_cases hki : i = k
      · subst hki
        simp [hk, hi]
      · have : ¬ k = i := fun e => hki e.symm
        simp [hk, hki, this]

theorem filter_flag_eq_one (heap : VariableHeap) (move : Move) (a b c : Bool) :
    (filter_flag heap move a b c = 1 ↔
      move.is_available = true ∧ has_fixed_variable heap move = false ∧
        has_bound_violation heap move = false ∧
        (a = true ∨ (b = true ∧ has_objective_improvable_variable heap move = true) ∨
          (c = true ∧ has_feasibility_improvable_variable heap move = true))) ∧
    (filter_flag heap move a b c = 1 ∨ filter_flag heap move a b c = 0) := by
  unfold filter_flag
  cases move.is_available <;> cases has_fixed_variable heap move <;>
    cases has_bound_violation heap move <;> cases a <;> cases b <;> cases c <;>
    cases has_objective_improvable_variable heap move <;>
    cases has_feasibility_improvable_variable heap move <;> simp

end AggregationMoveGenerator

end neighborhood
end printemps

namespace printemps

open cppmh.model

namespace neighborhood

open model_component

/-! ## The values that the aggregation generator proposes -/

namespace AggregationMoveGenerator

/-- The rounded solution is within one half of the exact one. -/
theorem solve_for_residual (k a b : ℚ) (target : ℤ) (hb : b ≠ 0) :
    |a * (target : ℚ) + b * (solve_for k a b target : ℚ) + k| ≤ |b| / 2 := by
  have hfl := Int.floor_le ((-k - a * (target : ℚ)) / b + 1 / 2)
  have hlt := Int.lt_floor_add_one ((-k - a * (target : ℚ)) / b + 1 / 2)
  have e : a * (target : ℚ) + b * (solve_for k a b target : ℚ) + k =
      b * ((solve_for k a b target : ℚ) - (-k - a * (target : ℚ)) / b) := by
    field_simp
    ring
  rw [e, abs_mul]
  have h2 : |(solve_for k a b target : ℚ) - (-k - a * (target : ℚ)) / b| ≤ 1 / 2 := by
    rw [abs_le]
    unfold solve_for
    constructor <;> linarith
  calc |b| * |(solve_for k a b target : ℚ) - (-k - a * (target : ℚ)) / b|
      ≤ |b| * (1 / 2) := mul_le_mul_of_nonneg_left h2 (abs_nonneg b)
    _ = |b| / 2 := by ring

/-- An integer exact solution is returned as it is. -/
theorem solve_for_exact (k a b : ℚ) (target n : ℤ) (hb : b ≠ 0)
    (h : a * (target : ℚ) + b * (n : ℚ) + k = 0) : solve_for k a b target = n := by
  have e : (-k - a * (target : ℚ)) / b = (n : ℚ) := by
    field_simp
    linarith
  unfold solve_for
  rw [e, Int.floor_eq_iff]
  constructor <;> linarith

theorem setup_binomial_getD (heap : VariableHeap) (moves : List Move) (i : Nat)
    (binomial : BinomialConstraint) (h : 4 * i + 3 < moves.length) (k : Nat) :
    ((setup_binomial heap moves i binomial).getD k Move.empty).alterations =
      if 4 * i ≤ k ∧ k ≤ 4 * i + 3 then
        (moves.getD (4 * i) Move.empty).alterations ++
          [(binomial.variable_ptr_first, 0), (binomial.variable_ptr_second, 0)]
      else (moves.getD k Move.empty).alterations := by
  have h0 : 4 * i < moves.length := by omega
  have h1 : 4 * i + 1 < moves.length := by omega
  have h2 : 4 * i + 2 < moves.length := by omega
  simp only [setup_binomial, FixedSizeHashMap.getD_set_eq, List.length_set, h, h0, h1, h2,
    and_true]
  have hk : (4 * i ≤ k ∧ k ≤ 4 * i + 3) ↔
      (4 * i + 3 = k ∨ 4 * i + 2 = k ∨ 4 * i + 1 = k ∨ 4 * i = k) := by omega
  by_cases c3 : 4 * i + 3 = k
  · rw [if_pos (hk.2 (Or.inl c3)), if_pos c3]
  · by_cases c2 : 4 * i + 2 = k
    · rw [if_pos (hk.2 (Or.inr (Or.inl c2))), if_neg c3, if_pos c2]
    · by_cases c1 : 4 * i + 1 = k
      · rw [if_pos (hk.2 (Or.inr (Or.inr (Or.inl c1)))), if_neg c3, if_neg c2, if_pos c1]
      · by_cases c0 : 4 * i = k
        · rw [if_pos (hk.2 (Or.inr (Or.inr (Or.inr c0)))), if_neg c3, if_neg c2, if_neg c1,
            if_pos c0]
        · have hn : ¬ (4 * i ≤ k ∧ k ≤ 4 * i + 3) := by omega
          rw [if_neg hn, if_neg c3, if_neg c2, if_neg c1, if_neg c0]

/-- The alterations of the slots after the loop of `setup`. -/
theorem aggregation_setup_loop_getD (heap : VariableHeap) :
    ∀ (binomials : List BinomialConstraint) (i : Nat) (moves : List Move),
    4 * (i + binomials.length) ≤ moves.length →
    (∀ k, k < 4 * i → ((setup_loop heap binomials i moves).getD k Move.empty).alterations =
      (moves.getD k Move.empty).alterations) ∧
    ∀ j binomial, binomials[j]? = some binomial → ∀ r, r < 4 →
      ((setup_loop heap binomials i moves).getD (4 * (i + j) + r) Move.empty).alterations =
        (moves.getD (4 * (i + j)) Move.empty).alterations ++
          [(binomial.variable_ptr_first, 0), (binomial.variable_ptr_second, 0)] := by
  intro binomials
  induction binomials with
  | nil =>
    intro i moves _
    exact ⟨fun _ _ => rfl, fun j b hj => by simp at hj⟩
  | cons b rest ih =>
    intro i moves hlen
    simp only [List.length_cons] at hlen
    have hin : 4 * i + 3 < moves.length := by omega
    obtain ⟨hbefore, hfill⟩ := ih (i + 1) (setup_binomial heap moves i b)
      (by simp only [setup_binomial, List.length_set]; omega)
    simp only [setup_loop]
    constructor
    · intro k hk
      rw [hbefore k (by omega), setup_binomial_getD heap moves i b hin]
      have : ¬ (4 * i ≤ k ∧ k ≤ 4 * i + 3) := by omega
      simp only [this, if_false]
    · intro j binomial hj r hr
      cases j with
      | zero =>
        simp only [List.getElem?_cons_zero, Option.some.injEq] at hj
        subst hj
        rw [hbefore (4 * (i + 0) + r) (by omega), setup_binomial_getD heap moves i b hin]
        rw [if_pos (by omega)]
        rfl
      | succ j =>
        simp only [List.getElem?_cons_succ] at hj
        have hidx : 4 * (i + (j + 1)) = 4 * (i + 1 + j) := by omega
        rw [hidx, hfill j binomial hj r hr, setup_binomial_getD heap moves i b hin]
        have : ¬ (4 * i ≤ 4 * (i + 1 + j) ∧ 4 * (i + 1 + j) ≤ 4 * i + 3) := by omega
        simp only [this, if_false]

theorem update_alterations_getD (heap : VariableHeap) (moves : List Move) (i : Nat)
    (binomial : BinomialConstraint) (h : 4 * i + 3 < moves.length) (k : Nat) :
    (update_alterations heap moves i binomial).getD k Move.empty =
      if k = 4 * i then
        ((moves.getD k Move.empty).set_alteration_value 0
          ((heap binomial.variable_ptr_first).value + 1)).set_alteration_value 1
          (solve_for binomial.constant_value binomial.sensitivity_first
            binomial.sensitivity_second ((heap binomial.variable_ptr_first).value + 1))
      else if k = 4 * i + 1 then
        ((moves.getD k Move.empty).set_alteration_value 0
          ((heap binomial.variable_ptr_first).value - 1)).set_alteration_value 1
          (solve_for binomial.constant_value binomial.sensitivity_first
            binomial.sensitivity_second ((heap binomial.variable_ptr_first).value - 1))
      else if k = 4 * i + 2 then
        ((moves.getD k Move.empty).set_alteration_value 0
          (solve_for binomial.constant_value binomial.sensitivity_second
            binomial.sensitivity_first
            ((heap binomial.variable_ptr_second).value + 1))).set_alteration_value 1
          ((heap binomial.variable_ptr_second).value + 1)
      else if k = 4 * i + 3 then
        ((moves.getD k Move.empty).set_alteration_value 0
          (solve_for binomial.constant_value binomial.sensitivity_second
            binomial.sensitivity_first
            ((heap binomial.variable_ptr_second).value - 1))).set_alteration_value 1
          ((heap binomial.variable_ptr_second).value - 1)
      else moves.getD k Move.empty := by
  have h0 : 4 * i < moves.length := by omega
  have h1 : 4 * i + 1 < moves.length := by omega
  have h2 : 4 * i + 2 < moves.length := by omega
  simp only [update_alterations, modify_move, FixedSizeHashMap.getD_set_eq, List.length_set,
    h, h0, h1, h2, and_true]
  by_cases c0 : k = 4 * i
  · subst c0
    have e1 : ¬ (4 * i + 1 = 4 * i) := by omega
    have e2 : ¬ (4 * i + 2 = 4 * i) := by omega
    have e3 : ¬ (4 * i + 3 = 4 * i) := by omega
    simp only [e1, e2, e3, if_true, if_false]
  · by_cases c1 : k = 4 * i + 1
    · subst c1
      have e0 : ¬ (4 * i = 4 * i + 1) := by omega
      have e2 : ¬ (4 * i + 2 = 4 * i + 1) := by omega
      have e3 : ¬ (4 * i + 3 = 4 * i + 1) := by omega
      simp only [e0, e2, e3, c0, if_true, if_false]
    · by_cases c2 : k = 4 * i + 2
      · subst c2
        have e0 : ¬ (4 * i = 4 * i + 2) := by omega
        have e1 : ¬ (4 * i + 1 = 4 * i + 2) := by omega
        have e3 : ¬ (4 * i + 3 = 4 * i + 2) := by omega
        simp only [e0, e1, e3, c0, c1, if_true, if_false]
      · by_cases c3 : k = 4 * i + 3
        · subst c3
          have e0 : ¬ (4 * i = 4 * i + 3) := by omega
          have e1 : ¬ (4 * i + 1 = 4 * i + 3) := by omega
          have e2 : ¬ (4 * i + 2 = 4 * i + 3) := by omega
          simp only [e0, e1, e2, c0, c1, c2, if_true, if_false]
        · have e0 : ¬ (4 * i = k) := fun e => c0 e.symm
          have e1 : ¬ (4 * i + 1 = k) := fun e => c1 e.symm
          have e2 : ¬ (4 * i + 2 = k) := fun e => c2 e.symm
          have e3 : ¬ (4 * i + 3 = k) := fun e => c3 e.symm
          simp only [e0, e1, e2, e3, c0, c1, c2, c3, if_false]

/-- The slots of the binomial of index `j` after the first loop of the move updater
are those that the loop body writes for it. -/
theorem update_alterations_loop_getD (heap : VariableHeap) :
    ∀ (binomials : List BinomialConstraint) (i : Nat) (moves : List Move),
    4 * (i + binomials.length) ≤ moves.length →
    (∀ k, k < 4 * i → (update_alterations_loop heap binomials i moves).getD k Move.empty =
      moves.getD k Move.empty) ∧
    ∀ j binomial, binomials[j]? = some binomial → ∀ r, r < 4 →
      (update_alterations_loop heap binomials i moves).getD (4 * (i + j) + r) Move.empty =
        (update_alterations heap moves (i + j) binomial).getD (4 * (i + j) + r) Move.empty := by
  intro binomials
  induction binomials with
  | nil =>
    intro i moves _
    exact ⟨fun _ _ => rfl, fun j b hj => by simp at hj⟩
  | cons b rest ih =>
    intro i moves hlen
    simp only [List.length_cons] at hlen
    have hin : 4 * i + 3 < moves.length := by omega
    have hlen2 : (update_alterations heap moves i b).length = moves.length := by
      simp only [update_alterations, modify_move, List.length_set]
    obtain ⟨hbefore, hfill⟩ := ih (i + 1) (update_alterations heap moves i b)
      (by rw [hlen2]; omega)
    simp only [update_alterations_loop]
    constructor
    · intro k hk
      rw [hbefore k (by omega), update_alterations_getD heap moves i b hin]
      rw [if_neg (by omega), if_neg (by omega), if_neg (by omega), if_neg (by omega)]
    · intro j binomial hj r hr
      cases j with
      | zero =>
        simp only [List.getElem?_cons_zero, Option.some.injEq] at hj
        subst hj
        rw [hbefore (4 * (i + 0) + r) (by omega)]
        rfl
      | succ j =>
        simp only [List.getElem?_cons_succ] at hj
        have hj2 : j < rest.length := by
          rcases Nat.lt_or_ge j rest.length with h | h
          · exact h
          · rw [List.getElem?_eq_none h] at hj
            exact absurd hj (by simp)
        have hidx : i + (j + 1) = i + 1 + j := by omega
        have hsame : (update_alterations heap moves i b).getD (4 * (i + 1 + j) + r) Move.empty =
            moves.getD (4 * (i + 1 + j) + r) Move.empty := by
          rw [update_alterations_getD heap moves i b hin]
          rw [if_neg (by omega), if_neg (by omega), if_neg (by omega), if_neg (by omega)]
        rw [hidx, hfill j binomial hj r hr,
          update_alterations_getD heap _ (i + 1 + j) binomial (by rw [hlen2]; omega),
          update_alterations_getD heap moves (i + 1 + j) binomial (by omega), hsame]

theorem residual_first (binomial : BinomialConstraint) (x : ℤ)
    (hb : binomial.sensitivity_second ≠ 0) :
    |binomial.residual x (solve_for binomial.constant_value binomial.sensitivity_first
        binomial.sensitivity_second x)| ≤ |binomial.sensitivity_second| / 2 ∧
    ∀ n : ℤ, binomial.residual x n = 0 →
      binomial.residual x (solve_for binomial.constant_value binomial.sensitivity_first
        binomial.sensitivity_second x) = 0 := by
  refine ⟨solve_for_residual _ _ _ x hb, ?_⟩
  intro n hn
  rw [solve_for_exact _ _ _ x n hb hn]
  exact hn

theorem residual_second (binomial : BinomialConstraint) (y : ℤ)
    (ha : binomial.sensitivity_first ≠ 0) :
    |binomial.residual (solve_for binomial.constant_value binomial.sensitivity_second
        binomial.sensitivity_first y) y| ≤ |binomial.sensitivity_first| / 2 ∧
    ∀ n : ℤ, binomial.residual n y = 0 →
      binomial.residual (solve_for binomial.constant_value binomial.sensitivity_second
        binomial.sensitivity_first y) y = 0 := by
  have e : ∀ n : ℤ, binomial.residual n y =
      binomial.sensitivity_second * (y : ℚ) + binomial.sensitivity_first * (n : ℚ) +
        binomial.constant_value := by
    intro n
    unfold BinomialConstraint.residual
    ring
  refine ⟨?_, ?_⟩
  · rw [e]
    exact solve_for_residual _ _ _ y ha
  · intro n hn
    rw [e] at hn
    rw [solve_for_exact _ _ _ y n ha hn, e]
    exact hn

theorem set_alteration_values (m : Move) (p q : Nat) (u w v0 v1 : ℤ)
    (h : m.alterations = [(p, u), (q, w)]) :
    ((m.set_alteration_value 0 v0).set_alteration_value 1 v1).alterations =
      [(p, v0), (q, v1)] := by
  simp [Move.set_alteration_value, h]

/-- The alterations of the four slots of a binomial after `setup` on a fresh generator
and one call of the move updater. -/
theorem setup_then_update_alterations (heap0 heap : VariableHeap)
    (binomials : List BinomialConstraint) (a b c : Bool) (i : Nat)
    (binomial : BinomialConstraint) (hi : binomials[i]? = some binomial) :
    ((setup_then_update AbstractMoveGenerator.fresh heap0 heap binomials a b c).m_moves.getD
        (4 * i) Move.empty).alterations =
      [(binomial.variable_ptr_first, (heap binomial.variable_ptr_first).value + 1),
        (binomial.variable_ptr_second,
          solve_for binomial.constant_value binomial.sensitivity_first
            binomial.sensitivity_second ((heap binomial.variable_ptr_first).value + 1))] ∧
    ((setup_then_update AbstractMoveGenerator.fresh heap0 heap binomials a b c).m_moves.getD
        (4 * i + 1) Move.empty).alterations =
      [(binomial.variable_ptr_first, (heap binomial.variable_ptr_first).value - 1),
        (binomial.variable_ptr_second,
          solve_for binomial.constant_value binomial.sensitivity_first
            binomial.sensitivity_second ((heap binomial.variable_ptr_first).value - 1))] ∧
    ((setup_then_update AbstractMoveGenerator.fresh heap0 heap binomials a b c).m_moves.getD
        (4 * i + 2) Move.empty).alterations =
      [(binomial.variable_ptr_first,
          solve_for binomial.constant_value binomial.sensitivity_second
            binomial.sensitivity_first ((heap binomial.variable_ptr_second).value + 1)),
        (binomial.variable_ptr_second, (heap binomial.variable_ptr_second).value + 1)] ∧
    ((setup_then_update AbstractMoveGenerator.fresh heap0 heap binomials a b c).m_moves.getD
        (4 * i + 3) Move.empty).alterations =
      [(binomial.variable_ptr_first,
          solve_for binomial.constant_value binomial.sensitivity_second
            binomial.sensitivity_first ((heap binomial.variable_ptr_second).value - 1)),
        (binomial.variable_ptr_second, (heap binomial.variable_ptr_second).value - 1)] := by
  have hlt : i < binomials.length := by
    rcases Nat.lt_or_ge i binomials.length with h | h
    · exact h
    · rw [List.getElem?_eq_none h] at hi
      exact absurd hi (by simp)
  have hresize : resize ([] : List Move) (4 * binomials.length) Move.empty =
      List.replicate (4 * binomials.length) Move.empty := by
    simp [resize]
  have hlen : 4 * (0 + binomials.length) ≤
      (setup_loop heap0 binomials 0
        (resize ([] : List Move) (4 * binomials.length) Move.empty)).length := by
    rw [aggregation_setup_loop_length, length_resize]
    omega
  have hlen2 : 4 * i + 3 < (setup_loop heap0 binomials 0
      (resize ([] : List Move) (4 * binomials.length) Move.empty)).length := by
    rw [aggregation_setup_loop_length, length_resize]
    omega
  obtain ⟨_, hfill⟩ := update_alterations_loop_getD heap binomials 0 _ hlen
  have hset : ∀ r, r < 4 → ((setup_loop heap0 binomials 0
      (resize ([] : List Move) (4 * binomials.length) Move.empty)).getD (4 * i + r)
        Move.empty).alterations =
      [(binomial.variable_ptr_first, 0), (binomial.variable_ptr_second, 0)] := by
    intro r hr
    have h := (aggregation_setup_loop_getD heap0 binomials 0
      (resize ([] : List Move) (4 * binomials.length) Move.empty)
      (by rw [length_resize]; omega)).2 i binomial hi r hr
    rw [hresize, getD_replicate_self] at h
    rw [hresize]
    simpa [Move.empty] using h
  have h : ∀ r, r < 4 →
      (setup_then_update AbstractMoveGenerator.fresh heap0 heap binomials a b c).m_moves.getD
        (4 * i + r) Move.empty =
      (update_alterations heap (setup_loop heap0 binomials 0
        (resize ([] : List Move) (4 * binomials.length) Move.empty)) i binomial).getD
        (4 * i + r) Move.empty := by
    intro r hr
    have h := hfill i binomial hi r hr
    simp only [Nat.zero_add] at h
    exact h
  have h0 := h 0 (by omega)
  have s0 := hset 0 (by omega)
  rw [Nat.add_zero] at h0 s0
  refine ⟨?_, ?_, ?_, ?_⟩
  · rw [h0, update_alterations_getD heap _ i binomial hlen2, if_pos rfl]
    exact set_alteration_values _ _ _ _ _ _ _ s0
  · rw [h 1 (by omega), update_alterations_getD heap _ i binomial hlen2, if_neg (by omega),
      if_pos rfl]
    exact set_alteration_values _ _ _ _ _ _ _ (hset 1 (by omega))
  · rw [h 2 (by omega), update_alterations_getD heap _ i binomial hlen2, if_neg (by omega),
      if_neg (by omega), if_pos rfl]
    exact set_alteration_values _ _ _ _ _ _ _ (hset 2 (by omega))
  · rw [h 3 (by omega), update_alterations_getD heap _ i binomial hlen2, if_neg (by omega),
      if_neg (by omega), if_neg (by omega), if_pos rfl]
    exact set_alteration_values _ _ _ _ _ _ _ (hset 3 (by omega))

end AggregationMoveGenerator

end neighborhood
end printemps

namespace printemps
open cppmh.model
namespace neighborhood
open model_component

/-- Four writes to the four slots of a block. -/
theorem getD_set_block {α : Type} (l : List α) (i k : Nat) (a0 a1 a2 a3 d : α)
    (h : 4 * i + 3 < l.length) :
    ((((l.set (4 * i) a0).set (4 * i + 1) a1).set (4 * i + 2) a2).set (4 * i + 3) a3).getD k d =
      if k = 4 * i then a0 else if k = 4 * i + 1 then a1 else if k = 4 * i + 2 then a2
      else if k = 4 * i + 3 then a3 else l.getD k d := by
  have h0 : 4 * i < l.length := by omega
  have h1 : 4 * i + 1 < l.length := by omega
  have h2 : 4 * i + 2 < l.length := by omega
  simp only [FixedSizeHashMap.getD_set_eq, List.length_set, h, h0, h1, h2, and_true]
  by_cases c0 : k = 4 * i
  · subst c0
    rw [if_neg (by omega), if_neg (by omega), if_neg (by omega), if_pos rfl, if_pos rfl]
  · by_cases c1 : k = 4 * i + 1
    · subst c1
      rw [if_neg (by omega), if_neg (by omega), if_pos rfl, if_neg (by omega), if_pos rfl]
    · by_cases c2 : k = 4 * i + 2
      · subst c2
        rw [if_neg (by omega), if_pos rfl, if_neg (by omega), if_neg (by omega), if_pos rfl]
      · by_cases c3 : k = 4 * i + 3
        · subst c3
          rw [if_pos rfl, if_neg (by omega), if_neg (by omega), if_neg (by omega), if_pos rfl]
        · rw [if_neg (fun e => c3 e.symm), if_neg (fun e => c2 e.symm),
            if_neg (fun e => c1 e.symm), if_neg (fun e => c0 e.symm), if_neg c0, if_neg c1,
            if_neg c2, if_neg c3]

/-- Four modifications of the four slots of a block. -/
theorem getD_modify_block (moves : List Move) (i k : Nat) (f0 f1 f2 f3 : Move → Move)
    (h : 4 * i + 3 < moves.length) :
    (modify_move (modify_move (modify_move (modify_move moves (4 * i) f0) (4 * i + 1) f1)
        (4 * i + 2) f2) (4 * i + 3) f3).getD k Move.empty =
      if k = 4 * i then f0 (moves.getD k Move.empty)
      else if k = 4 * i + 1 then f1 (moves.getD k Move.empty)
      else if k = 4 * i + 2 then f2 (moves.getD k Move.empty)
      else if k = 4 * i + 3 then f3 (moves.getD k Move.empty)
      else moves.getD k Move.empty := by
  have h0 : 4 * i < moves.length := by omega
  have h1 : 4 * i + 1 < moves.length := by omega
  have h2 : 4 * i + 2 < moves.length := by omega
  have e1 : (modify_move moves (4 * i) f0).getD (4 * i + 1) Move.empty =
      moves.getD (4 * i + 1) Move.empty := by
    simp only [modify_move, FixedSizeHashMap.getD_set_eq]
    rw [if_neg (by omega)]
  have e2 : (modify_move (modify_move moves (4 * i) f0) (4 * i + 1) f1).getD (4 * i + 2)
      Move.empty = moves.getD (4 * i + 2) Move.empty := by
    simp only [modify_move, FixedSizeHashMap.getD_set_eq]
    rw [if_neg (by omega), if_neg (by omega)]
  have e3 : (modify_move (modify_move (modify_move moves (4 * i) f0) (4 * i + 1) f1)
      (4 * i + 2) f2).getD (4 * i + 3) Move.empty = moves.getD (4 * i + 3) Move.empty := by
    simp only [modify_move, FixedSizeHashMap.getD_set_eq]
    rw [if_neg (by omega), if_neg (by omega), if_neg (by omega)]
  have hform : modify_move (modify_move (modify_move (modify_move moves (4 * i) f0) (4 * i + 1)
      f1) (4 * i + 2) f2) (4 * i + 3) f3 =
      (((moves.set (4 * i) (f0 (moves.getD (4 * i) Move.empty))).set (4 * i + 1)
        (f1 (moves.getD (4 * i + 1) Move.empty))).set (4 * i + 2)
        (f2 (moves.getD (4 * i + 2) Move.empty))).set (4 * i + 3)
        (f3 (moves.getD (4 * i + 3) Move.empty)) := by
    conv_lhs => rw [modify_move, e3, modify_move, e2, modify_move, e1, modify_move]
  rw [hform, getD_set_block _ _ _ _ _ _ _ _ h]
  by_cases c0 : k = 4 * i
  · rw [if_pos c0, if_pos c0, c0]
  · by_cases c1 : k = 4 * i + 1
    · rw [if_neg c0, if_pos c1, if_neg c0, if_pos c1, c1]
    · by_cases c2 : k = 4 * i + 2
      · rw [if_neg c0, if_neg c1, if_pos c2, if_neg c0, if_neg c1, if_pos c2, c2]
      · by_cases c3 : k = 4 * i + 3
        · rw [if_neg c0, if_neg c1, if_neg c2, if_pos c3, if_neg c0, if_neg c1, if_neg c2,
            if_pos c3, c3]
        · rw [if_neg c0, if_neg c1, if_neg c2, if_neg c3, if_neg c0, if_neg c1, if_neg c2,
            if_neg c3]

theorem length_modify_move (moves : List Move) (i : Nat) (f : Move → Move) :
    (modify_move moves i f).length = moves.length := by
  simp only [modify_move, List.length_set]

end neighborhood
end printemps

namespace printemps
open cppmh.model
namespace neighborhood
open model_component
namespace IntegerMoveGenerator

theorem setup_variable_length (heap : VariableHeap) (moves : List Move) (i ptr : Nat) :
    (setup_variable heap moves i ptr).length = moves.length := by
  simp only [setup_variable, length_modify_move]

theorem setup_variable_getD (heap : VariableHeap) (moves : List Move) (i ptr : Nat)
    (h : 4 * i + 3 < moves.length) (k : Nat) :
    (setup_variable heap moves i ptr).getD k Move.empty =
      if 4 * i ≤ k ∧ k ≤ 4 * i + 3 then slot_move heap (moves.getD k Move.empty) ptr
      else moves.getD k Move.empty := by
  simp only [setup_variable]
  rw [getD_modify_block moves i k _ _ _ _ h]
  by_cases hk : 4 * i ≤ k ∧ k ≤ 4 * i + 3
  · rw [if_pos hk]
    split_ifs <;> first | rfl | omega
  · rw [if_neg hk, if_neg (by omega), if_neg (by omega), if_neg (by omega), if_neg (by omega)]

theorem integer_setup_loop_length (heap : VariableHeap) : ∀ (ptrs : List Nat) (i : Nat)
    (moves : List Move), (setup_loop heap ptrs i moves).length = moves.length := by
  intro ptrs
  induction ptrs with
  | nil => intro i moves; rfl
  | cons ptr rest ih =>
    intro i moves
    simp only [setup_loop, ih, setup_variable_length]

/-- The slots after the loop of `setup`. -/
theorem integer_setup_loop_getD (heap : VariableHeap) : ∀ (ptrs : List Nat) (i : Nat)
    (moves : List Move), 4 * (i + ptrs.length) ≤ moves.length →
    (∀ k, k < 4 * i → (setup_loop heap ptrs i moves).getD k Move.empty =
      moves.getD k Move.empty) ∧
    ∀ j ptr, ptrs[j]? = some ptr → ∀ r, r < 4 →
      (setup_loop heap ptrs i moves).getD (4 * (i + j) + r) Move.empty =
        slot_move heap (moves.getD (4 * (i + j) + r) Move.empty) ptr := by
  intro ptrs
  induction ptrs with
  | nil =>
    intro i moves _
    exact ⟨fun _ _ => rfl, fun j b hj => by simp at hj⟩
  | cons p rest ih =>
    intro i moves hlen
    simp only [List.length_cons] at hlen
    have hin : 4 * i + 3 < moves.length := by omega
    obtain ⟨hbefore, hfill⟩ := ih (i + 1) (setup_variable heap moves i p)
      (by rw [setup_variable_length]; omega)
    simp only [setup_loop]
    constructor
    · intro k hk
      rw [hbefore k (by omega), setup_variable_getD heap moves i p hin, if_neg (by omega)]
    · intro j ptr hj r hr
      cases j with
      | zero =>
        simp only [List.getElem?_cons_zero, Option.some.injEq] at hj
        subst hj
        rw [hbefore (4 * (i + 0) + r) (by omega), setup_variable_getD heap moves i p hin,
          if_pos (by omega)]
      | succ j =>
        simp only [List.getElem?_cons_succ] at hj
        have hidx : i + (j + 1) = i + 1 + j := by omega
        rw [hidx, hfill j ptr hj r hr, setup_variable_getD heap moves i p hin,
          if_neg (by omega)]

theorem update_variable_length (heap : VariableHeap) (g : AbstractMoveGenerator) (i ptr : Nat)
    (a b c : Bool) :
    (update_variable heap g i ptr a b c).m_moves.length = g.m_moves.length ∧
    (update_variable heap g i ptr a b c).m_flags.length = g.m_flags.length := by
  simp only [update_variable, length_modify_move, List.length_set, and_self]

theorem update_variable_moves_getD (heap : VariableHeap) (g : AbstractMoveGenerator)
    (i ptr : Nat) (a b c : Bool) (h : 4 * i + 3 < g.m_moves.length) (k : Nat) :
    (update_variable heap g i ptr a b c).m_moves.getD k Move.empty =
      if k = 4 * i then (g.m_moves.getD k Move.empty).set_alteration_value 0 ((heap ptr).value + 1)
      else if k = 4 * i + 1 then
        (g.m_moves.getD k Move.empty).set_alteration_value 0 ((heap ptr).value - 1)
      else if k = 4 * i + 2 then
        (g.m_moves.getD k Move.empty).set_alteration_value 0
          (Int.tdiv ((heap ptr).value + (heap ptr).upper_bound) 2)
      else if k = 4 * i + 3 then
        (g.m_moves.getD k Move.empty).set_alteration_value 0
          (Int.tdiv ((heap ptr).value + (heap ptr).lower_bound) 2)
      else g.m_moves.getD k Move.empty := by
  simp only [update_variable]
  rw [getD_modify_block g.m_moves i k _ _ _ _ h]

theorem update_variable_flags_getD (heap : VariableHeap) (g : AbstractMoveGenerator)
    (i ptr : Nat) (a b c : Bool) (h : 4 * i + 3 < g.m_flags.length) (k : Nat) :
    (update_variable heap g i ptr a b c).m_flags.getD k 0 =
      if k = 4 * i ∨ k = 4 * i + 2 then
        (if is_accepted (heap ptr) a b c && (heap ptr).value != (heap ptr).upper_bound then 1
          else 0)
      else if k = 4 * i + 1 ∨ k = 4 * i + 3 then
        (if is_accepted (heap ptr) a b c && (heap ptr).value != (heap ptr).lower_bound then 1
          else 0)
      else g.m_flags.getD k 0 := by
  simp only [update_variable]
  rw [getD_set_block g.m_flags i k _ _ _ _ _ h]
  by_cases c0 : k = 4 * i
  · rw [if_pos c0, if_pos (Or.inl c0)]
  · by_cases c1 : k = 4 * i + 1
    · have hn : ¬ (k = 4 * i ∨ k = 4 * i + 2) := by omega
      rw [if_neg c0, if_pos c1, if_neg hn, if_pos (Or.inl c1)]
    · by_cases c2 : k = 4 * i + 2
      · rw [if_neg c0, if_neg c1, if_pos c2, if_pos (Or.inr c2)]
      · by_cases c3 : k = 4 * i + 3
        · have hn : ¬ (k = 4 * i ∨ k = 4 * i + 2) := by omega
          rw [if_neg c0, if_neg c1, if_neg c2, if_pos c3, if_neg hn, if_pos (Or.inr c3)]
        · have hn : ¬ (k = 4 * i ∨ k = 4 * i + 2) := by omega
          have hn2 : ¬ (k = 4 * i + 1 ∨ k = 4 * i + 3) := by omega
          rw [if_neg c0, if_neg c1, if_neg c2, if_neg c3, if_neg hn, if_neg hn2]

/-- The lengths, and the slots after the loop of the move updater: those of the variable
of index `j` are what the loop body writes for it. -/
theorem update_loop_getD (heap : VariableHeap) (a b c : Bool) : ∀ (ptrs : List Nat) (i : Nat)
    (g : AbstractMoveGenerator), 4 * (i + ptrs.length) ≤ g.m_moves.length →
    4 * (i + ptrs.length) ≤ g.m_flags.length →
    ((update_loop heap a b c ptrs i g).m_moves.length = g.m_moves.length ∧
      (update_loop heap a b c ptrs i g).m_flags.length = g.m_flags.length) ∧
    (∀ k, k < 4 * i →
      (update_loop heap a b c ptrs i g).m_moves.getD k Move.empty = g.m_moves.getD k Move.empty ∧
      (update_loop heap a b c ptrs i g).m_flags.getD k 0 = g.m_flags.getD k 0) ∧
    ∀ j ptr, ptrs[j]? = some ptr → ∀ r, r < 4 →
      (update_loop heap a b c ptrs i g).m_moves.getD (4 * (i + j) + r) Move.empty =
        (update_variable heap g (i + j) ptr a b c).m_moves.getD (4 * (i + j) + r) Move.empty ∧
      (update_loop heap a b c ptrs i g).m_flags.getD (4 * (i + j) + r) 0 =
        (update_variable heap g (i + j) ptr a b c).m_flags.getD (4 * (i + j) + r) 0 := by
  intro ptrs
  induction ptrs with
  | nil =>
    intro i g _ _
    exact ⟨⟨rfl, rfl⟩, fun _ _ => ⟨rfl, rfl⟩, fun j b hj => by simp at hj⟩
  | cons p rest ih =>
    intro i g hm hf
    simp only [List.length_cons] at hm hf
    have hmi : 4 * i + 3 < g.m_moves.length := by omega
    have hfi : 4 * i + 3 < g.m_flags.length := by omega
    obtain ⟨hlm, hlf⟩ := update_variable_length heap g i p a b c
    obtain ⟨⟨hl1, hl2⟩, hbefore, hfill⟩ := ih (i + 1) (update_variable heap g i p a b c)
      (by rw [hlm]; omega) (by rw [hlf]; omega)
    simp only [update_loop]
    refine ⟨⟨by rw [hl1, hlm], by rw [hl2, hlf]⟩, ?_, ?_⟩
    · intro k hk
      obtain ⟨h1, h2⟩ := hbefore k (by omega)
      rw [h1, h2, update_variable_moves_getD heap g i p a b c hmi,
        update_variable_flags_getD heap g i p a b c hfi]
      have hn : ¬ (k = 4 * i ∨ k = 4 * i + 2) := by omega
      have hn2 : ¬ (k = 4 * i + 1 ∨ k = 4 * i + 3) := by omega
      rw [if_neg (by omega), if_neg (by omega), if_neg (by omega), if_neg (by omega),
        if_neg hn, if_neg hn2]
      exact ⟨rfl, rfl⟩
    · intro j ptr hj r hr
      cases j with
      | zero =>
        simp only [List.getElem?_cons_zero, Option.some.injEq] at hj
        subst hj
        exact hbefore (4 * (i + 0) + r) (by omega)
      | succ j =>
        simp only [List.getElem?_cons_succ] at hj
        have hj2 : j < rest.length := by
          rcases Nat.lt_or_ge j rest.length with h | h
          · exact h
          · rw [List.getElem?_eq_none h] at hj
            exact absurd hj (by simp)
        have hidx : i + (j + 1) = i + 1 + j := by omega
        have hsame : (update_variable heap g i p a b c).m_moves.getD (4 * (i + 1 + j) + r)
            Move.empty = g.m_moves.getD (4 * (i + 1 + j) + r) Move.empty := by
          rw [update_variable_moves_getD heap g i p a b c hmi]
          rw [if_neg (by omega), if_neg (by omega), if_neg (by omega), if_neg (by omega)]
        have hsamef : (update_variable heap g i p a b c).m_flags.getD (4 * (i + 1 + j) + r) 0 =
            g.m_flags.getD (4 * (i + 1 + j) + r) 0 := by
          have hn : ¬ (4 * (i + 1 + j) + r = 4 * i ∨ 4 * (i + 1 + j) + r = 4 * i + 2) := by
            omega
          have hn2 : ¬ (4 * (i + 1 + j) + r = 4 * i + 1 ∨
              4 * (i + 1 + j) + r = 4 * i + 3) := by
            omega
          rw [update_variable_flags_getD heap g i p a b c hfi, if_neg hn, if_neg hn2]
        obtain ⟨h1, h2⟩ := hfill j ptr hj r hr
        rw [hidx, h1, h2,
          update_variable_moves_getD heap _ (i + 1 + j) ptr a b c (by rw [hlm]; omega),
          update_variable_moves_getD heap g (i + 1 + j) ptr a b c (by omega),
          update_variable_flags_getD heap _ (i + 1 + j) ptr a b c (by rw [hlf]; omega),
          update_variable_flags_getD heap g (i + 1 + j) ptr a b c (by omega), hsame, hsamef]
        exact ⟨rfl, rfl⟩

end IntegerMoveGenerator
end neighborhood
end printemps

namespace printemps
open cppmh.model
namespace neighborhood
open model_component
namespace IntegerMoveGenerator

theorem lt_length_of_getElem? {α : Type} (l : List α) (k : Nat) (a : α) (h : l[k]? = some a) :
    k < l.length := by
  rcases Nat.lt_or_ge k l.length with h1 | h1
  · exact h1
  · rw [List.getElem?_eq_none h1] at h
    exact absurd h (by simp)

/-- The slots of the variable of index `k` after `setup` on a fresh generator and one
call of the move updater. -/
theorem setup_then_update_slot (heap : VariableHeap) (variable_ptrs : List Nat) (a b c : Bool)
    (k ptr : Nat) (hk : (extract_mutable_variable_ptrs heap variable_ptrs)[k]? = some ptr)
    (r : Nat) (hr : r < 4) :
    (setup_then_update AbstractMoveGenerator.fresh heap variable_ptrs a b c).m_moves.getD
        (4 * k + r) Move.empty =
      (update_variable heap
        { m_moves := List.replicate (4 * (k + 1)) (slot_move heap Move.empty ptr)
          m_flags := List.replicate (4 * (k + 1)) 0 } k ptr a b c).m_moves.getD (4 * k + r)
        Move.empty ∧
    (setup_then_update AbstractMoveGenerator.fresh heap variable_ptrs a b c).m_flags.getD
        (4 * k + r) 0 =
      (update_variable heap
        { m_moves := List.replicate (4 * (k + 1)) (slot_move heap Move.empty ptr)
          m_flags := List.replicate (4 * (k + 1)) 0 } k ptr a b c).m_flags.getD (4 * k + r)
        0 := by
  have hlt := lt_length_of_getElem? _ _ _ hk
  have hresize : resize ([] : List Move)
      (4 * (extract_mutable_variable_ptrs heap variable_ptrs).length) Move.empty =
      List.replicate (4 * (extract_mutable_variable_ptrs heap variable_ptrs).length)
        Move.empty := by
    simp [resize]
  have hsetup := (integer_setup_loop_getD heap (extract_mutable_variable_ptrs heap variable_ptrs)
    0 (resize ([] : List Move) (4 * (extract_mutable_variable_ptrs heap variable_ptrs).length)
      Move.empty) (by rw [length_resize]; omega)).2 k ptr hk r hr
  rw [hresize, getD_replicate_self, ← hresize, Nat.zero_add] at hsetup
  have hm : (setup AbstractMoveGenerator.fresh heap variable_ptrs).m_moves.length =
      4 * (extract_mutable_variable_ptrs heap variable_ptrs).length := by
    simp only [setup, integer_setup_loop_length, length_resize]
  have hf : (setup AbstractMoveGenerator.fresh heap variable_ptrs).m_flags.length =
      4 * (extract_mutable_variable_ptrs heap variable_ptrs).length := by
    simp only [setup, length_resize]
  obtain ⟨h1, h2⟩ := (update_loop_getD heap a b c (extract_mutable_variable_ptrs heap
    variable_ptrs) 0 (setup AbstractMoveGenerator.fresh heap variable_ptrs)
    (by rw [hm]; omega) (by rw [hf]; omega)).2.2 k ptr hk r hr
  rw [Nat.zero_add] at h1 h2
  have hrep : (List.replicate (4 * (k + 1)) (slot_move heap Move.empty ptr)).getD (4 * k + r)
      Move.empty = slot_move heap Move.empty ptr := by
    simp only [List.getD_eq_getElem?_getD, List.getElem?_replicate]
    rw [if_pos (by omega)]
    rfl
  have hget : (setup AbstractMoveGenerator.fresh heap variable_ptrs).m_moves.getD (4 * k + r)
      Move.empty = slot_move heap Move.empty ptr := hsetup
  constructor
  · rw [setup_then_update, h1, update_variable_moves_getD heap _ k ptr a b c (by rw [hm]; omega),
      update_variable_moves_getD heap _ k ptr a b c (by simp only [List.length_replicate]; omega),
      hget]
    simp only [hrep]
  · rw [setup_then_update, h2, update_variable_flags_getD heap _ k ptr a b c (by rw [hf]; omega),
      update_variable_flags_getD heap _ k ptr a b c (by simp only [List.length_replicate]; omega)]
    have hn : ¬ ((4 * k + r = 4 * k ∨ 4 * k + r = 4 * k + 2) ∨
        (4 * k + r = 4 * k + 1 ∨ 4 * k + r = 4 * k + 3)) → False := by omega
    by_cases c0 : 4 * k + r = 4 * k ∨ 4 * k + r = 4 * k + 2
    · rw [if_pos c0, if_pos c0]
    · by_cases c1 : 4 * k + r = 4 * k + 1 ∨ 4 * k + r = 4 * k + 3
      · rw [if_neg c0, if_pos c1, if_neg c0, if_pos c1]
      · exact absurd (fun h => h.elim c0 c1) hn

theorem setup_then_update_length (heap : VariableHeap) (variable_ptrs : List Nat)
    (a b c : Bool) :
    (setup_then_update AbstractMoveGenerator.fresh heap variable_ptrs a b c).m_moves.length =
      4 * (extract_mutable_variable_ptrs heap variable_ptrs).length ∧
    (setup_then_update AbstractMoveGenerator.fresh heap variable_ptrs a b c).m_flags.length =
      4 * (extract_mutable_variable_ptrs heap variable_ptrs).length := by
  have hm : (setup AbstractMoveGenerator.fresh heap variable_ptrs).m_moves.length =
      4 * (extract_mutable_variable_ptrs heap variable_ptrs).length := by
    simp only [setup, integer_setup_loop_length, length_resize]
  have hf : (setup AbstractMoveGenerator.fresh heap variable_ptrs).m_flags.length =
      4 * (extract_mutable_variable_ptrs heap variable_ptrs).length := by
    simp only [setup, length_resize]
  obtain ⟨h1, h2⟩ := (update_loop_getD heap a b c (extract_mutable_variable_ptrs heap
    variable_ptrs) 0 (setup AbstractMoveGenerator.fresh heap variable_ptrs)
    (by rw [hm]; omega) (by rw [hf]; omega)).1
  exact ⟨by rw [setup_then_update, h1, hm], by rw [setup_then_update, h2, hf]⟩

end IntegerMoveGenerator
end neighborhood
end printemps

namespace printemps
open cppmh.model
namespace neighborhood
open model_component
namespace IntegerMoveGenerator

/-- The four moves and the four flags of the variable of index `k`. -/
theorem setup_then_update_block (heap : VariableHeap) (variable_ptrs : List Nat) (a b c : Bool)
    (k ptr : Nat) (hk : (extract_mutable_variable_ptrs heap variable_ptrs)[k]? = some ptr)
    (r : Nat) (hr : r < 4) :
    (setup_then_update AbstractMoveGenerator.fresh heap variable_ptrs a b c).m_moves.getD
        (4 * k + r) Move.empty =
      (slot_move heap Move.empty ptr).set_alteration_value 0
        (if r = 0 then (heap ptr).value + 1 else if r = 1 then (heap ptr).value - 1
          else if r = 2 then Int.tdiv ((heap ptr).value + (heap ptr).upper_bound) 2
          else Int.tdiv ((heap ptr).value + (heap ptr).lower_bound) 2) ∧
    (setup_then_update AbstractMoveGenerator.fresh heap variable_ptrs a b c).m_flags.getD
        (4 * k + r) 0 =
      if is_accepted (heap ptr) a b c &&
          (heap ptr).value != (if r = 0 ∨ r = 2 then (heap ptr).upper_bound
            else (heap ptr).lower_bound) then 1
      else 0 := by
  obtain ⟨h1, h2⟩ := setup_then_update_slot heap variable_ptrs a b c k ptr hk r hr
  have hrep : (List.replicate (4 * (k + 1)) (slot_move heap Move.empty ptr)).getD (4 * k + r)
      Move.empty = slot_move heap Move.empty ptr := by
    simp only [List.getD_eq_getElem?_getD, List.getElem?_replicate]
    rw [if_pos (by omega)]
    rfl
  rw [h1, h2, update_variable_moves_getD heap _ k ptr a b c
      (by simp only [List.length_replicate]; omega),
    update_variable_flags_getD heap _ k ptr a b c
      (by simp only [List.length_replicate]; omega)]
  simp only [hrep]
  have hcases : r = 0 ∨ r = 1 ∨ r = 2 ∨ r = 3 := by omega
  rcases hcases with h | h | h | h <;> subst h <;> simp

end IntegerMoveGenerator
end neighborhood
end printemps

namespace printemps
namespace model_component
namespace Expression

/-! ## The operators of `Expression` -/

theorem lookup_cons_eq (k : Nat) (c : ℚ) (S : List (Nat × ℚ)) (v : Nat) :
    ((k, c) :: S).lookup v = if v = k then some c else S.lookup v := by
  rw [List.lookup_cons]
  by_cases h : v = k
  · simp [h]
  · have : (v == k) = false := by simpa using h
    simp [h, this]

theorem lookup_map_snd (f : ℚ → ℚ) : ∀ (S : List (Nat × ℚ)) (v : Nat),
    (S.map (fun s => (s.1, f s.2))).lookup v = (S.lookup v).map f := by
  intro S
  induction S with
  | nil => intro v; rfl
  | cons a S ih =>
    intro v
    obtain ⟨k, c⟩ := a
    simp only [List.map_cons, lookup_cons_eq, ih]
    split_ifs <;> rfl

theorem lookup_isSome_iff : ∀ (S : List (Nat × ℚ)) (v : Nat),
    (S.lookup v).isSome = true ↔ v ∈ S.map Prod.fst := by
  intro S
  induction S with
  | nil => intro v; simp
  | cons a S ih =>
    intro v
    obtain ⟨k, c⟩ := a
    simp only [lookup_cons_eq, List.map_cons, List.mem_cons]
    by_cases h : v = k
    · simp [h]
    · simp [h, ih]

/-- The keys after one step of `operator+=`. -/
theorem add_assign_sensitivity_keys (S : List (Nat × ℚ)) (a : Nat × ℚ) :
    (add_assign_sensitivity S a).map Prod.fst =
      if a.1 ∈ S.map Prod.fst then S.map Prod.fst else S.map Prod.fst ++ [a.1] := by
  unfold add_assign_sensitivity
  by_cases h : a.1 ∈ S.map Prod.fst
  · rw [if_pos ((lookup_isSome_iff S a.1).2 h), if_pos h, List.map_map]
    apply List.map_congr_left
    intro s _
    simp only [Function.comp]
    split_ifs <;> rfl
  · have h2 : ¬ (S.lookup a.1).isSome = true := fun e => h ((lookup_isSome_iff S a.1).1 e)
    rw [if_neg h2, if_neg h, List.map_append]
    rfl

theorem lookup_update (k : Nat) (c : ℚ) : ∀ (S : List (Nat × ℚ)) (v : Nat),
    (S.map (fun s => if s.1 = k then (s.1, s.2 + c) else s)).lookup v =
      if v = k then (S.lookup v).map (fun x => x + c) else S.lookup v := by
  intro S
  induction S with
  | nil => intro v; simp
  | cons a S ih =>
    intro v
    obtain ⟨ak, ac⟩ := a
    simp only [List.map_cons]
    by_cases ha : ak = k
    · simp only [ha, if_true, lookup_cons_eq, ih]
      by_cases hv : v = k
      · simp [hv]
      · simp [hv]
    · simp only [ha, if_false, lookup_cons_eq, ih]
      by_cases hv : v = k
      · subst hv
        have : ¬ (v = ak) := fun e => ha e.symm
        simp [this]
      · simp [hv]

theorem lookup_append_single (k : Nat) (c : ℚ) : ∀ (S : List (Nat × ℚ)) (v : Nat),
    k ∉ S.map Prod.fst →
    (S ++ [(k, c)]).lookup v = if v = k then some c else S.lookup v := by
  intro S
  induction S with
  | nil =>
    intro v _
    simp only [List.nil_append, lookup_cons_eq, List.lookup_nil]
  | cons a S ih =>
    intro v hk
    obtain ⟨ak, ac⟩ := a
    simp only [List.map_cons, List.mem_cons, not_or] at hk
    simp only [List.cons_append, lookup_cons_eq, ih v hk.2]
    by_cases h : v = ak
    · subst h
      have hvk : v ≠ k := fun e => hk.1 e.symm
      simp [hvk]
    · simp [h]

/-- The coefficients after one step of `operator+=`. -/
theorem add_assign_sensitivity_lookup (S : List (Nat × ℚ)) (a : Nat × ℚ) (v : Nat) :
    ((add_assign_sensitivity S a).lookup v).getD 0 =
      (S.lookup v).getD 0 + if v = a.1 then a.2 else 0 := by
  obtain ⟨ak, ac⟩ := a
  unfold add_assign_sensitivity
  dsimp only
  by_cases h : ak ∈ S.map Prod.fst
  · rw [if_pos ((lookup_isSome_iff S ak).2 h), lookup_update]
    by_cases hv : v = ak
    · subst hv
      obtain ⟨x, hx⟩ := Option.isSome_iff_exists.1 ((lookup_isSome_iff S v).2 h)
      simp [hx]
    · simp [hv]
  · have h2 : ¬ (S.lookup ak).isSome = true := fun e => h ((lookup_isSome_iff S ak).1 e)
    rw [if_neg h2, lookup_append_single ak ac S v h]
    by_cases hv : v = ak
    · subst hv
      have hn : S.lookup v = none := by
        cases hs : S.lookup v with
        | none => rfl
        | some x => exact absurd (by simp [hs]) h2
      simp [hn]
    · simp [hv]

theorem sum_update (heap : VariableHeap) (k : Nat) (c : ℚ) : ∀ (S : List (Nat × ℚ)),
    (S.map Prod.fst).Nodup → k ∈ S.map Prod.fst →
    ((S.map (fun s => if s.1 = k then (s.1, s.2 + c) else s)).map
        (fun s => s.2 * ((heap s.1).value : ℚ))).sum =
      (S.map (fun s => s.2 * ((heap s.1).value : ℚ))).sum + c * ((heap k).value : ℚ) := by
  intro S
  induction S with
  | nil => intro _ h; simp at h
  | cons a S ih =>
    intro hnd hk
    obtain ⟨ak, ac⟩ := a
    simp only [List.map_cons, List.nodup_cons, List.mem_cons] at hnd hk
    simp only [List.map_cons, List.sum_cons]
    by_cases ha : ak = k
    · subst ha
      have hrest : S.map (fun s => if s.1 = ak then (s.1, s.2 + c) else s) = S := by
        conv_rhs => rw [← List.map_id S]
        apply List.map_congr_left
        intro s hs
        have : s.1 ≠ ak := fun e => hnd.1 (by rw [← e]; exact List.mem_map_of_mem Prod.fst hs)
        simp [this]
      simp only [if_true, hrest]
      ring
    · have hk2 : k ∈ S.map Prod.fst := by
        rcases hk with h | h
        · exact absurd h.symm ha
        · exact h
      simp only [ha, if_false, ih hnd.2 hk2]
      ring

/-- The linear form after one step of `operator+=`. -/
theorem add_assign_sensitivity_sum (heap : VariableHeap) (S : List (Nat × ℚ)) (a : Nat × ℚ)
    (hS : (S.map Prod.fst).Nodup) :
    ((add_assign_sensitivity S a).map (fun s => s.2 * ((heap s.1).value : ℚ))).sum =
      (S.map (fun s => s.2 * ((heap s.1).value : ℚ))).sum + a.2 * ((heap a.1).value : ℚ) := by
  unfold add_assign_sensitivity
  by_cases h : a.1 ∈ S.map Prod.fst
  · rw [if_pos ((lookup_isSome_iff S a.1).2 h)]
    exact sum_update heap a.1 a.2 S hS h
  · have h2 : ¬ (S.lookup a.1).isSome = true := fun e => h ((lookup_isSome_iff S a.1).1 e)
    rw [if_neg h2]
    simp

theorem add_assign_sensitivity_nodup (S : List (Nat × ℚ)) (a : Nat × ℚ)
    (hS : (S.map Prod.fst).Nodup) : ((add_assign_sensitivity S a).map Prod.fst).Nodup := by
  rw [add_assign_sensitivity_keys]
  by_cases h : a.1 ∈ S.map Prod.fst
  · rw [if_pos h]
    exact hS
  · rw [if_neg h]
    exact List.Nodup.append hS (List.nodup_singleton _) (by simpa using h)

end Expression
end model_component
end printemps

namespace printemps
namespace model_component
namespace Expression

/-- The sensitivity map after the loop of `operator+=`: its keys are those of the two
maps, without repetition, and the coefficients add up. -/
theorem add_assign_fold : ∀ (A S : List (Nat × ℚ)),
    (A.map Prod.fst).Nodup → (S.map Prod.fst).Nodup →
    ((A.foldl add_assign_sensitivity S).map Prod.fst).Nodup ∧
    (∀ v, v ∈ (A.foldl add_assign_sensitivity S).map Prod.fst ↔
      v ∈ S.map Prod.fst ∨ v ∈ A.map Prod.fst) ∧
    ∀ v, ((A.foldl add_assign_sensitivity S).lookup v).getD 0 =
      (S.lookup v).getD 0 + (A.lookup v).getD 0 := by
  intro A
  induction A with
  | nil =>
    intro S _ hS
    simp [hS]
  | cons a A ih =>
    intro S hA hS
    obtain ⟨ak, ac⟩ := a
    simp only [List.map_cons, List.nodup_cons] at hA
    obtain ⟨h1, h2, h3⟩ := ih (add_assign_sensitivity S (ak, ac)) hA.2
      (add_assign_sensitivity_nodup S (ak, ac) hS)
    simp only [List.foldl_cons]
    refine ⟨h1, ?_, ?_⟩
    · intro v
      rw [h2 v, add_assign_sensitivity_keys]
      by_cases h : ak ∈ S.map Prod.fst
      · simp only [h, if_true, List.map_cons, List.mem_cons]
        constructor
        · rintro (h' | h')
          · exact Or.inl h'
          · exact Or.inr (Or.inr h')
        · rintro (h' | h' | h')
          · exact Or.inl h'
          · exact Or.inl (by rw [h']; exact h)
          · exact Or.inr h'
      · simp only [h, if_false, List.map_cons, List.mem_cons, List.mem_append,
          List.mem_singleton]
        tauto
    · intro v
      rw [h3 v, add_assign_sensitivity_lookup, lookup_cons_eq]
      by_cases hv : v = ak
      · subst hv
        have hn : A.lookup v = none := by
          cases hs : A.lookup v with
          | none => rfl
          | some x =>
            exact absurd ((lookup_isSome_iff A v).1 (by simp [hs])) hA.1
        simp [hn]
      · simp [hv]

/-- The linear forms add up in the loop of `operator+=`. -/
theorem add_assign_fold_sum (heap : VariableHeap) : ∀ (A S : List (Nat × ℚ)),
    (S.map Prod.fst).Nodup →
    ((A.foldl add_assign_sensitivity S).map (fun s => s.2 * ((heap s.1).value : ℚ))).sum =
      (S.map (fun s => s.2 * ((heap s.1).value : ℚ))).sum +
        (A.map (fun s => s.2 * ((heap s.1).value : ℚ))).sum := by
  intro A
  induction A with
  | nil =>
    intro S _
    simp
  | cons a A ih =>
    intro S hS
    simp only [List.foldl_cons, List.map_cons, List.sum_cons]
    rw [ih _ (add_assign_sensitivity_nodup S a hS), add_assign_sensitivity_sum heap S a hS]
    ring

theorem neg_sensitivities (self : Expression) :
    self.neg.m_sensitivities = self.m_sensitivities.map (fun s => (s.1, s.2 * -1)) ∧
    self.neg.m_constant_value = -self.m_constant_value := by
  simp [neg, create_instance, constant_value]

theorem neg_keys (S : List (Nat × ℚ)) :
    (S.map (fun s => (s.1, s.2 * -1))).map Prod.fst = S.map Prod.fst := by
  rw [List.map_map]
  rfl

theorem neg_sum (heap : VariableHeap) (S : List (Nat × ℚ)) :
    ((S.map (fun s => (s.1, s.2 * -1))).map (fun s => s.2 * ((heap s.1).value : ℚ))).sum =
      -(S.map (fun s => s.2 * ((heap s.1).value : ℚ))).sum := by
  induction S with
  | nil => simp
  | cons a S ih =>
    simp only [List.map_cons, List.sum_cons, ih]
    ring

theorem neg_lookup (S : List (Nat × ℚ)) (v : Nat) :
    ((S.map (fun s => (s.1, s.2 * -1))).lookup v).getD 0 = -(S.lookup v).getD 0 := by
  rw [lookup_map_snd (fun x => x * -1)]
  cases S.lookup v <;> simp

/-- The expression after `operator-=(const Expression &)`. -/
theorem sub_assign_spec (left right : Expression)
    (hl : (left.m_sensitivities.map Prod.fst).Nodup)
    (hr : (right.m_sensitivities.map Prod.fst).Nodup) :
    (((left.sub_assign right).m_sensitivities.map Prod.fst).Nodup ∧
      (∀ v, v ∈ (left.sub_assign right).m_sensitivities.map Prod.fst ↔
        v ∈ left.m_sensitivities.map Prod.fst ∨ v ∈ right.m_sensitivities.map Prod.fst) ∧
      (∀ v, (left.sub_assign right).coefficient v = left.coefficient v - right.coefficient v) ∧
      (left.sub_assign right).m_constant_value =
        left.m_constant_value - right.m_constant_value) ∧
    ∀ heap, (left.sub_assign right).evaluate heap = left.evaluate heap - right.evaluate heap := by
  obtain ⟨hs, hc⟩ := neg_sensitivities right
  have hnd : (right.neg.m_sensitivities.map Prod.fst).Nodup := by
    rw [hs, neg_keys]
    exact hr
  refine ⟨⟨?_, ?_, ?_, ?_⟩, ?_⟩
  · exact (add_assign_fold _ _ hnd hl).1
  · intro v
    have h := (add_assign_fold _ _ hnd hl).2.1 v
    rw [hs, neg_keys] at h
    simp only [sub_assign, add_assign, hs]
    exact h
  · intro v
    have h := (add_assign_fold _ _ hnd hl).2.2 v
    rw [hs, neg_lookup] at h
    simp only [coefficient, sub_assign, add_assign, hs]
    rw [h]
    ring
  · simp only [sub_assign, add_assign, hc]
    ring
  · intro heap
    have h := add_assign_fold_sum heap right.neg.m_sensitivities _ hl
    rw [hs, neg_sum] at h
    rw [evaluate_eq_sum, evaluate_eq_sum, evaluate_eq_sum]
    simp only [sub_assign, add_assign, hs, hc]
    rw [h]
    ring

end Expression
end model_component
end printemps

namespace printemps
namespace model_component

theorem Operand.to_expression_spec (O : Operand) (h : O.is_integer = false) :
    ∃ e, O.to_expression = some e ∧ e.m_sensitivities = O.linear_form.m_sensitivities ∧
      e.m_constant_value = O.linear_form.m_constant_value := by
  cases O with
  | of_integer c => simp [Operand.is_integer] at h
  | _ => exact ⟨_, rfl, rfl, rfl⟩

theorem Operand.difference_expressions (L R : Operand) (eL eR : Expression)
    (hL : L.to_expression = some eL) (hR : R.to_expression = some eR) :
    Operand.difference L R = some (eL.sub_assign eR) := by
  cases L <;> cases R <;> simp_all [Operand.difference, Operand.to_expression]

theorem Operand.difference_right_integer (L : Operand) (eL : Expression) (c : ℤ)
    (hL : L.to_expression = some eL) :
    Operand.difference L (Operand.of_integer c) = some (eL.sub_assign_value c) := by
  cases L <;> simp_all [Operand.difference, Operand.to_expression]

theorem Operand.difference_left_integer (R : Operand) (eR : Expression) (c : ℤ)
    (hR : R.to_expression = some eR) :
    Operand.difference (Operand.of_integer c) R = some (eR.neg.add_assign_value c) := by
  cases R <;> simp_all [Operand.difference, Operand.to_expression]

theorem Expression.evaluate_congr (e1 e2 : Expression) (heap : VariableHeap)
    (hs : e1.m_sensitivities = e2.m_sensitivities)
    (hc : e1.m_constant_value = e2.m_constant_value) : e1.evaluate heap = e2.evaluate heap := by
  rw [Expression.evaluate_eq_sum, Expression.evaluate_eq_sum, hs, hc]

/-- The expression `L - R` of the constraint-building operators. -/
theorem Operand.difference_spec (L R : Operand)
    (hboth : ¬ (L.is_integer = true ∧ R.is_integer = true))
    (hL : (L.linear_form.m_sensitivities.map Prod.fst).Nodup)
    (hR : (R.linear_form.m_sensitivities.map Prod.fst).Nodup) :
    ∃ e, Operand.difference L R = some e ∧
      (e.m_sensitivities.map Prod.fst).Nodup ∧
      (∀ v, v ∈ e.m_sensitivities.map Prod.fst ↔
        v ∈ L.linear_form.m_sensitivities.map Prod.fst ∨
          v ∈ R.linear_form.m_sensitivities.map Prod.fst) ∧
      (∀ v, e.coefficient v = L.linear_form.coefficient v - R.linear_form.coefficient v) ∧
      e.constant_value = L.linear_form.constant_value - R.linear_form.constant_value ∧
      ∀ heap, e.evaluate heap = L.linear_form.evaluate heap - R.linear_form.evaluate heap := by
  by_cases hl : L.is_integer = true
  · have hr : R.is_integer = false := by
      cases h : R.is_integer
      · rfl
      · exact absurd ⟨hl, h⟩ hboth
    obtain ⟨eR, hRe, hRs, hRc⟩ := Operand.to_expression_spec R hr
    cases L with
    | of_integer c =>
      obtain ⟨hs, hc⟩ := Expression.neg_sensitivities eR
      refine ⟨_, Operand.difference_left_integer R eR c hRe, ?_, ?_, ?_, ?_, ?_⟩
      · simp only [Expression.add_assign_value, hs, Expression.neg_keys, hRs]
        exact hR
      · intro v
        simp [Expression.add_assign_value, hs, Expression.neg_keys, hRs, Operand.linear_form,
          Expression.create_instance, Expression.initialize_]
      · intro v
        simp only [Expression.coefficient, Expression.add_assign_value, hs,
          Expression.neg_lookup, hRs]
        simp [Operand.linear_form, Expression.create_instance, Expression.initialize_]
      · simp only [Expression.constant_value, Expression.add_assign_value, hc, hRc]
        simp [Operand.linear_form, Expression.create_instance, Expression.initialize_]
        ring
      · intro heap
        rw [Expression.evaluate_eq_sum, Expression.evaluate_eq_sum, Expression.evaluate_eq_sum]
        simp only [Expression.add_assign_value, hs, hc, Expression.neg_sum, hRs, hRc]
        simp [Operand.linear_form, Expression.create_instance, Expression.initialize_]
        ring
    | _ => simp [Operand.is_integer] at hl
  · have hl2 : L.is_integer = false := by simpa using hl
    obtain ⟨eL, hLe, hLs, hLc⟩ := Operand.to_expression_spec L hl2
    by_cases hr : R.is_integer = true
    · cases R with
      | of_integer c =>
        refine ⟨_, Operand.difference_right_integer L eL c hLe, ?_, ?_, ?_, ?_, ?_⟩
        · simp only [Expression.sub_assign_value, hLs]
          exact hL
        · intro v
          simp [Expression.sub_assign_value, hLs, Operand.linear_form,
            Expression.create_instance, Expression.initialize_]
        · intro v
          simp only [Expression.coefficient, Expression.sub_assign_value, hLs]
          simp [Operand.linear_form, Expression.create_instance, Expression.initialize_]
        · simp only [Expression.constant_value, Expression.sub_assign_value, hLc]
          simp [Operand.linear_form, Expression.create_instance, Expression.initialize_]
        · intro heap
          rw [Expression.evaluate_eq_sum, Expression.evaluate_eq_sum,
            Expression.evaluate_eq_sum]
          simp only [Expression.sub_assign_value, hLs, hLc]
          simp [Operand.linear_form, Expression.create_instance, Expression.initialize_]
          ring
      | _ => simp [Operand.is_integer] at hr
    · have hr2 : R.is_integer = false := by simpa using hr
      obtain ⟨eR, hRe, hRs, hRc⟩ := Operand.to_expression_spec R hr2
      obtain ⟨⟨h1, h2, h3, h4⟩, h5⟩ := Expression.sub_assign_spec eL eR (by rw [hLs]; exact hL)
        (by rw [hRs]; exact hR)
      refine ⟨_, Operand.difference_expressions L R eL eR hLe hRe, h1, ?_, ?_, ?_, ?_⟩
      · intro v
        rw [h2 v, hLs, hRs]
      · intro v
        rw [h3 v]
        simp only [Expression.coefficient, hLs, hRs]
      · simp only [Expression.constant_value]
        rw [h4, hLc, hRc]
      · intro heap
        rw [h5 heap, Expression.evaluate_congr eL _ heap hLs hLc,
          Expression.evaluate_congr eR _ heap hRs hRc]

end model_component
end printemps

namespace printemps
namespace solver
namespace local_search
namespace core

open model_component neighborhood solution model

namespace LocalSearchCore

/-! ## The local search core -/

/-- The loop over the variables changes nothing but the termination status, which it
sets to `NO_MOVE` if and only if a variable is objective-improvable. -/
theorem improvable_loop_spec (heap : VariableHeap) : ∀ (ptrs : List Nat)
    (state : LocalSearchCoreState),
    improvable_loop heap ptrs state =
      if ∃ ptr ∈ ptrs, (heap ptr).is_objective_improvable = true then
        state.set_termination_status LocalSearchCoreTerminationStatus.NO_MOVE
      else state := by
  intro ptrs
  induction ptrs with
  | nil => intro state; simp [improvable_loop]
  | cons p rest ih =>
    intro state
    simp only [improvable_loop]
    by_cases hp : (heap p).is_objective_improvable = true
    · rw [if_pos hp, if_pos ⟨p, List.mem_cons_self _ _, hp⟩]
    · rw [if_neg hp, ih]
      by_cases hr : ∃ ptr ∈ rest, (heap ptr).is_objective_improvable = true
      · obtain ⟨q, hq, hq2⟩ := hr
        rw [if_pos ⟨q, hq, hq2⟩, if_pos ⟨q, List.mem_cons_of_mem _ hq, hq2⟩]
      · rw [if_neg hr, if_neg]
        rintro ⟨q, hq, hq2⟩
        rcases List.mem_cons.1 hq with h | h
        · exact hp (h ▸ hq2)
        · exact hr ⟨q, h, hq2⟩

/-- The loop over `MOVE_PTRS` stops at the first move whose trial score improves on the
current one by more than `EPSILON`, having counted the moves before it. -/
theorem scan_loop_spec (mdl : Model) (fast : Bool) (CURRENT : SolutionScore) :
    ∀ (moves : List Move) (scan0 : Scan),
    (∀ p ∈ moves, (evaluate_move_ptr mdl fast CURRENT p).isSome = true) →
    ∃ scan, scan_loop mdl fast CURRENT moves scan0 = some scan ∧
      ((∃ (k : Nat) (p : Move) (t : SolutionScore), moves[k]? = some p ∧ evaluate_move_ptr mdl fast CURRENT p = some t ∧
          t.local_augmented_objective + constant.EPSILON < CURRENT.local_augmented_objective ∧
          (∀ (j : Nat) (q : Move) (s : SolutionScore), j < k → moves[j]? = some q → evaluate_move_ptr mdl fast CURRENT q = some s →
            ¬ (s.local_augmented_objective + constant.EPSILON <
              CURRENT.local_augmented_objective)) ∧
          scan.is_found_improving_solution = true ∧ scan.selected_move_ptr = some p ∧
          scan.number_of_checked_move = scan0.number_of_checked_move + (k : ℤ) ∧
          scan.trial_solution_score = t) ∨
        ((∀ q s, q ∈ moves → evaluate_move_ptr mdl fast CURRENT q = some s →
            ¬ (s.local_augmented_objective + constant.EPSILON <
              CURRENT.local_augmented_objective)) ∧
          scan.is_found_improving_solution = scan0.is_found_improving_solution ∧
          scan.selected_move_ptr = scan0.selected_move_ptr ∧
          scan.number_of_checked_move = scan0.number_of_checked_move + (moves.length : ℤ))) := by
  intro moves
  induction moves with
  | nil =>
    intro scan0 _
    exact ⟨scan0, rfl, Or.inr ⟨fun q s hq => absurd hq (List.not_mem_nil q), rfl, rfl,
      by simp⟩⟩
  | cons p rest ih =>
    intro scan0 hdef
    obtain ⟨t, ht⟩ := Option.isSome_iff_exists.1 (hdef p (List.mem_cons_self _ _))
    simp only [scan_loop, ht]
    by_cases himp : t.local_augmented_objective + constant.EPSILON <
        CURRENT.local_augmented_objective
    · rw [if_pos himp]
      refine ⟨_, rfl, Or.inl ⟨0, p, t, List.getElem?_cons_zero, ht, himp, ?_, rfl, rfl, by simp,
        rfl⟩⟩
      intro j q s hj
      exact absurd hj (Nat.not_lt_zero j)
    · rw [if_neg himp]
      obtain ⟨scan, hscan, hcases⟩ := ih
        { scan0 with
          trial_solution_score := t
          number_of_checked_move := scan0.number_of_checked_move + 1 }
        (fun q hq => hdef q (List.mem_cons_of_mem _ hq))
      refine ⟨scan, hscan, ?_⟩
      rcases hcases with ⟨k, q, s, hk, hq, hs, hbefore, h1, h2, h3, h4⟩ | ⟨hall, h1, h2, h3⟩
      · refine Or.inl ⟨k + 1, q, s, by simpa using hk, hq, hs, ?_, h1, h2, ?_, h4⟩
        · intro j q' s' hj hq' hs'
          cases j with
          | zero =>
            simp only [List.getElem?_cons_zero, Option.some.injEq] at hq'
            subst hq'
            rw [ht] at hs'
            simp only [Option.some.injEq] at hs'
            subst hs'
            exact himp
          | succ j =>
            simp only [List.getElem?_cons_succ] at hq'
            exact hbefore j q' s' (by omega) hq' hs'
        · rw [h3]
          push_cast
          ring
      · refine Or.inr ⟨?_, h1, h2, ?_⟩
        · intro q s hq hs
          rcases List.mem_cons.1 hq with h | h
          · subst h
            rw [ht] at hs
            simp only [Option.some.injEq] at hs
            subst hs
            exact himp
          · exact hall q s h hs
        · rw [h3]
          simp only [List.length_cons]
          push_cast
          ring

end LocalSearchCore
end core
end local_search
end solver
end printemps


namespace printemps
namespace examples

open neighborhood solution solver.local_search.core model_component model

theorem single_model_evaluate_move_ptr (a : ℚ) :
    ∀ p ∈ [univariable_flip_move],
      (LocalSearchCore.evaluate_move_ptr (single_model a) true
        search_state.current_solution_score p).isSome = true := by
  intro p hp
  rw [List.mem_singleton] at hp
  subst hp
  simp [LocalSearchCore.evaluate_move_ptr, univariable_flip_move, Model.evaluate_single,
    flip_move, plain_move, Model.objective_after, single_model]

end examples
end printemps

namespace printemps

open cppmh.model

namespace model_component

/-! ## Scoring -/

theorem Expression.evaluate_move_eq_some (e : Expression) (heap : VariableHeap)
    (m : neighborhood.Move) (sizeof_Variable : Nat) (ht : e.TableSetUp sizeof_Variable)
    (hcache : e.m_value = e.evaluate heap) :
    e.evaluate_move heap m = some (e.m_value +
      (m.alterations.map (fun a => e.coefficient a.1 *
        ((a.2 - (heap a.1).value : ℤ) : ℚ))).sum) := by
  unfold Expression.evaluate_move
  split_ifs with hlen
  · have : m.alterations = [] := List.length_eq_zero.mp hlen
    simp [this, hcache]
  · exact Expression.evaluate_move_loop_eq e heap sizeof_Variable ht.keys ht.fixed _ _

theorem Expression.evaluate_move_empty (e : Expression) (heap : VariableHeap) :
    e.evaluate_move heap neighborhood.Move.empty = some (e.evaluate heap) := rfl

theorem Expression.coefficient_of_mem (e : Expression) (x : Nat) (c : ℚ)
    (hk : (e.m_sensitivities.map Prod.fst).Nodup) (h : (x, c) ∈ e.m_sensitivities) :
    e.coefficient x = c := by
  rw [Expression.coefficient, lookup_of_mem _ hk (x, c) h]
  rfl

theorem Expression.coefficient_of_not_mem (e : Expression) (x : Nat)
    (h : ∀ c, (x, c) ∉ e.m_sensitivities) : e.coefficient x = 0 := by
  rw [Expression.coefficient, lookup_of_not_mem _ x]
  · rfl
  · intro kv hkv heq
    exact h kv.2 (by rw [← heq]; exact hkv)

theorem violation_term_fst (c : Constraint) (g : ℚ) :
    (c.violation_term g).1 = violation_of_sense c.m_sense g := by
  unfold Constraint.violation_term Constraint.is_less_or_equal Constraint.is_greater_or_equal
    violation_of_sense
  cases c.m_sense <;> simp [max_zero_add_max_neg_zero_eq_abs_self]

theorem violation_of_sense_nonneg (sense : ConstraintSense) (g : ℚ) :
    0 ≤ violation_of_sense sense g := by
  cases sense <;> simp [violation_of_sense]

theorem violation_of_sense_eq_zero (sense : ConstraintSense) (g : ℚ) :
    violation_of_sense sense g = 0 ↔ satisfied_of_sense sense g := by
  cases sense <;> simp [violation_of_sense, satisfied_of_sense]

theorem sum_eq_zero_iff_of_nonneg : ∀ (l : List ℚ), (∀ a ∈ l, 0 ≤ a) →
    (l.sum = 0 ↔ ∀ a ∈ l, a = 0) := by
  intro l
  induction l with
  | nil => intro _; simp
  | cons a l ih =>
    intro h
    have ha := h a (List.mem_cons_self _ _)
    have hl : ∀ b ∈ l, 0 ≤ b := fun b hb => h b (List.mem_cons_of_mem _ hb)
    have hs : 0 ≤ l.sum := List.sum_nonneg hl
    simp only [List.sum_cons, List.forall_mem_cons]
    rw [← ih hl]
    constructor
    · intro h0
      constructor <;> linarith
    · rintro ⟨h1, h2⟩
      rw [h1, h2]
      simp

end model_component

namespace model

open model_component neighborhood solution

namespace Model

theorem evaluate_constraint_step_pair (heap : VariableHeap) (m : Move) (c : Constraint)
    (acc : Accumulator) (g : ℚ) (h : c.is_enabled = true → c.evaluate_constraint heap m = some g) :
    ∃ acc2, evaluate_constraint_step heap m c acc = some acc2 ∧
      acc2.pair = acc.pair + (if c.is_enabled then c.violation_term g else 0) := by
  unfold evaluate_constraint_step
  by_cases he : c.is_enabled = true
  · rw [h he]
    simp only [he, Bool.not_true, Bool.false_eq_true, if_false, if_true]
    refine ⟨_, rfl, ?_⟩
    unfold Constraint.violation_term Accumulator.pair
    by_cases h1 : c.is_less_or_equal = true <;> by_cases h2 : c.is_greater_or_equal = true <;>
      simp only [h1, h2, if_true, if_false, Prod.mk_add_mk, Prod.mk.injEq, add_zero,
        zero_add, Bool.false_eq_true] <;> exact ⟨by ring, by ring⟩
  · have he2 : c.is_enabled = false := by simpa using he
    simp [he2]

theorem evaluate_constraints_pair (heap : VariableHeap) (m : Move) (g : Constraint → ℚ) :
    ∀ (cs : List Constraint) (acc : Accumulator),
    (∀ c ∈ cs, c.is_enabled = true → c.evaluate_constraint heap m = some (g c)) →
    ∃ acc2, evaluate_constraints heap m cs acc = some acc2 ∧
      acc2.pair = acc.pair +
        (cs.map (fun c => if c.is_enabled then c.violation_term (g c) else 0)).sum := by
  intro cs
  induction cs with
  | nil => intro acc _; exact ⟨acc, rfl, by simp⟩
  | cons c cs ih =>
    intro acc h
    obtain ⟨acc1, h1, hp1⟩ := evaluate_constraint_step_pair heap m c acc (g c)
      (h c (List.mem_cons_self _ _))
    obtain ⟨acc2, h2, hp2⟩ := ih acc1 (fun d hd => h d (List.mem_cons_of_mem _ hd))
    refine ⟨acc2, by simp only [evaluate_constraints, h1, h2], ?_⟩
    rw [hp2, hp1, List.map_cons, List.sum_cons, add_assoc]

theorem evaluate_proxies_pair (heap : VariableHeap) (m : Move) (g : Constraint → ℚ) :
    ∀ (proxies : List (List Constraint)) (acc : Accumulator),
    (∀ c ∈ proxies.flatten, c.is_enabled = true → c.evaluate_constraint heap m = some (g c)) →
    ∃ acc2, evaluate_proxies heap m proxies acc = some acc2 ∧
      acc2.pair = acc.pair +
        (proxies.flatten.map
          (fun c => if c.is_enabled then c.violation_term (g c) else 0)).sum := by
  intro proxies
  induction proxies with
  | nil => intro acc _; exact ⟨acc, rfl, by simp⟩
  | cons cs proxies ih =>
    intro acc h
    obtain ⟨acc1, h1, hp1⟩ := evaluate_constraints_pair heap m g cs acc
      (fun c hc => h c (by simp [hc]))
    obtain ⟨acc2, h2, hp2⟩ := ih acc1 (fun c hc => h c (by simp [hc]))
    refine ⟨acc2, by simp only [evaluate_proxies, h1, h2], ?_⟩
    rw [hp2, hp1, List.flatten_cons, List.map_append, List.sum_append, add_assoc]

theorem fst_sum : ∀ (l : List (ℚ × ℚ)), l.sum.1 = (l.map Prod.fst).sum := by
  intro l
  induction l with
  | nil => rfl
  | cons a l ih => simp [ih]

theorem snd_sum : ∀ (l : List (ℚ × ℚ)), l.sum.2 = (l.map Prod.snd).sum := by
  intro l
  induction l with
  | nil => rfl
  | cons a l ih => simp [ih]

theorem sum_filter_enabled (f : Constraint → ℚ) : ∀ (cs : List Constraint),
    (cs.map (fun c => if c.is_enabled then f c else 0)).sum =
      ((cs.filter (fun c => c.is_enabled)).map f).sum := by
  intro cs
  induction cs with
  | nil => rfl
  | cons c cs ih =>
    by_cases h : c.is_enabled = true
    · simp [h, ih]
    · simp [h, ih]

theorem evaluate_move_isSome (e : Expression) (heap : VariableHeap) (m : Move)
    (sizeof_Variable : Nat) (ht : e.TableSetUp sizeof_Variable) :
    ∃ v, e.evaluate_move heap m = some v := by
  unfold Expression.evaluate_move
  split_ifs
  · exact ⟨_, rfl⟩
  · exact ⟨_, Expression.evaluate_move_loop_eq e heap sizeof_Variable ht.keys ht.fixed _ _⟩

theorem objective_after_isSome (self : Model) (m : Move) (sizeof_Variable : Nat)
    (h : self.Consistent sizeof_Variable) : ∃ v, self.objective_after m = some v := by
  unfold objective_after
  by_cases hd : self.m_is_defined_objective = true
  · obtain ⟨v, hv⟩ := evaluate_move_isSome self.m_objective.m_expression self.m_variable_proxies
      m sizeof_Variable (h.objective hd)
    simp only [hd, if_true, Objective.evaluate_move, hv]
    exact ⟨_, rfl⟩
  · simp only [hd]
    exact ⟨_, rfl⟩

/-- The constraint value that `evaluate_constraint(move)` computes for a constraint
whose caches are up to date is the value of `evaluate()` after the move. -/
theorem evaluate_constraint_eq_after (c : Constraint) (heap : VariableHeap) (m : Move)
    (sizeof_Variable : Nat) (h : c.UpToDate heap sizeof_Variable)
    (hd : (m.alterations.map Prod.fst).Nodup) :
    c.evaluate_constraint heap m =
      some (c.m_expression.evaluate (apply_alterations heap m.alterations)) := by
  rw [Constraint.evaluate_constraint,
    Expression.evaluate_move_eq_some _ heap m sizeof_Variable h.table h.value,
    Expression.evaluate_after_alterations _ h.table.keys _ heap hd, h.value]

/-- The total violation and the local penalty of `evaluate(score, move)`. -/
theorem evaluate_eq (self : Model) (m : Move) (sizeof_Variable : Nat)
    (h : self.Consistent sizeof_Variable) (g : Constraint → ℚ)
    (hg : ∀ c ∈ self.constraints, c.is_enabled = true →
      c.evaluate_constraint self.m_variable_proxies m = some (g c)) :
    ∃ score, self.evaluate m = some score ∧
      (score.total_violation, score.local_penalty) =
        (self.constraints.map
          (fun c => if c.is_enabled then c.violation_term (g c) else 0)).sum ∧
      self.objective_after m = some score.objective ∧
      score.global_penalty = score.total_violation * self.m_global_penalty_coefficient ∧
      score.local_augmented_objective = score.objective + score.local_penalty ∧
      score.global_augmented_objective = score.objective + score.global_penalty := by
  obtain ⟨acc, hacc, hpair⟩ := evaluate_proxies_pair self.m_variable_proxies m g
    self.m_constraint_proxies
    { total_violation := 0, local_penalty := 0, is_feasibility_improvable := false } hg
  obtain ⟨v, hv⟩ := objective_after_isSome self m sizeof_Variable h
  refine ⟨self.fill_score v acc.total_violation acc.local_penalty acc.is_feasibility_improvable,
    by simp only [evaluate, hacc, hv], ?_, hv, rfl, rfl, rfl⟩
  have : (({ total_violation := 0, local_penalty := 0, is_feasibility_improvable := false } :
      Accumulator).pair) = 0 := rfl
  rw [this, zero_add] at hpair
  exact hpair

end Model
end model
end printemps

namespace printemps

open cppmh.model

namespace model

open model_component neighborhood solution

namespace Model


theorem sum_map_getD {α : Type} (d : α) (f : α → ℚ × ℚ) : ∀ (l : List α),
    (l.map f).sum = ∑ i in Finset.range l.length, f (l.getD i d) := by
  intro l
  induction l with
  | nil => simp
  | cons a l ih =>
    rw [List.map_cons, List.sum_cons, List.length_cons, Finset.sum_range_succ', ih]
    simp only [List.getD_cons_succ, List.getD_cons_zero]
    rw [add_comm]

/-- A sum over the constraints changes by the sum of the changes over a list of
pointers, without repetition, outside of which nothing changes. -/
theorem sum_change (n : Nat) (F G : Nat → ℚ × ℚ) (R : List Nat) (hnd : R.Nodup)
    (hvalid : ∀ i ∈ R, i < n) (hout : ∀ i, i < n → i ∉ R → F i = G i) :
    ∑ i in Finset.range n, F i = ∑ i in Finset.range n, G i + (R.map (fun i => F i - G i)).sum := by
  rw [← List.sum_toFinset _ hnd]
  have hsub : R.toFinset ⊆ Finset.range n := by
    intro i hi
    exact Finset.mem_range.mpr (hvalid i (List.mem_toFinset.mp hi))
  rw [Finset.sum_subset hsub (f := fun i => F i - G i)]
  · rw [← Finset.sum_add_distrib]
    apply Finset.sum_congr rfl
    intro i _
    abel
  · intro i hi hni
    rw [hout i (Finset.mem_range.mp hi) (fun h => hni (List.mem_toFinset.mpr h))]
    exact sub_self _

theorem sum_eq_of_same_members (H : Nat → ℚ × ℚ) (R S : List Nat) (hR : R.Nodup)
    (hS : S.Nodup) (h : ∀ i, i ∈ R ↔ i ∈ S) : (R.map H).sum = (S.map H).sum := by
  rw [← List.sum_toFinset _ hR, ← List.sum_toFinset _ hS]
  congr 1
  ext i
  simp [h i]

/-- The step of the single-variable loop adds the change of the violation term. -/
theorem sensitivity_step_eq (c : Constraint) (coefficient : ℚ) (diff : ℤ) (acc : ℚ × ℚ)
    (hp : c.m_positive_part = max c.m_constraint_value 0)
    (hn : c.m_negative_part = max (-c.m_constraint_value) 0) :
    sensitivity_step c coefficient diff acc = acc +
      (c.violation_term (c.m_constraint_value + coefficient * (diff : ℚ)) -
        c.violation_term c.m_constraint_value) := by
  unfold sensitivity_step Constraint.violation_term Constraint.constraint_value
    Constraint.positive_part Constraint.negative_part
  have hmin : ∀ a : ℚ, min a 0 = - max (-a) 0 := by
    intro a
    rw [← neg_zero, max_neg_neg, neg_neg, neg_zero]
  dsimp only
  rw [hp, hn, hmin]
  by_cases h1 : c.is_less_or_equal = true <;> by_cases h2 : c.is_greater_or_equal = true <;>
    simp only [h1, h2, if_true, if_false, Bool.false_eq_true] <;>
    refine Prod.ext ?_ ?_ <;>
    simp only [Prod.fst_add, Prod.snd_add, Prod.fst_sub, Prod.snd_sub, Prod.fst_zero,
      Prod.snd_zero] <;>
    ring

theorem multi_step_pair (heap : VariableHeap) (m : Move) (c : Constraint) (acc : Accumulator)
    (h : c.is_enabled = true → ∃ g, c.evaluate_constraint heap m = some g) :
    ∃ acc2, multi_step heap m c acc = some acc2 ∧
      acc2.pair = acc.pair + multi_delta heap m c := by
  unfold multi_step multi_delta
  by_cases he : c.is_enabled = true
  · obtain ⟨g, hg⟩ := h he
    simp only [he, Bool.not_true, Bool.false_eq_true, if_false, if_true, hg]
    by_cases hs : |g - c.constraint_value| < constant.EPSILON_10
    · simp only [hs, if_true]
      exact ⟨acc, rfl, by simp⟩
    · simp only [hs, if_false]
      exact ⟨_, rfl, rfl⟩
  · have he2 : c.is_enabled = false := by simpa using he
    simp only [he2, Bool.not_false, if_true, Bool.false_eq_true, if_false]
    exact ⟨acc, rfl, by simp⟩

theorem evaluate_multi_loop_pair (self : Model) (m : Move) :
    ∀ (ptrs : List ConstraintPtr) (acc : Accumulator),
    (∀ ptr ∈ ptrs, (self.constraint ptr).is_enabled = true →
      ∃ g, (self.constraint ptr).evaluate_constraint self.m_variable_proxies m = some g) →
    ∃ acc2, self.evaluate_multi_loop m ptrs acc = some acc2 ∧
      acc2.pair = acc.pair +
        (ptrs.map (fun ptr => multi_delta self.m_variable_proxies m (self.constraint ptr))).sum := by
  intro ptrs
  induction ptrs with
  | nil => intro acc _; exact ⟨acc, rfl, by simp⟩
  | cons ptr ptrs ih =>
    intro acc h
    obtain ⟨acc1, h1, hp1⟩ := multi_step_pair self.m_variable_proxies m (self.constraint ptr) acc
      (h ptr (List.mem_cons_self _ _))
    obtain ⟨acc2, h2, hp2⟩ := ih acc1 (fun p hp => h p (List.mem_cons_of_mem _ hp))
    refine ⟨acc2, by simp only [evaluate_multi_loop, h1, h2], ?_⟩
    rw [hp2, hp1, List.map_cons, List.sum_cons, add_assoc]

theorem EPSILON_10_pos : 0 < constant.EPSILON_10 := by
  norm_num [constant.EPSILON_10]

theorem multi_delta_unchanged (heap : VariableHeap) (m : Move) (c : Constraint)
    (h : c.evaluate_constraint heap m = some c.m_constraint_value) :
    multi_delta heap m c = 0 := by
  unfold multi_delta
  by_cases he : c.is_enabled = true
  · simp only [he, h, Constraint.constraint_value, sub_self, abs_zero, EPSILON_10_pos, if_true]
  · simp only [he, Bool.false_eq_true, if_false]

theorem multi_delta_eq (heap : VariableHeap) (m : Move) (c : Constraint) (g : ℚ)
    (he : c.is_enabled = true) (hg : c.evaluate_constraint heap m = some g)
    (hp : c.m_positive_part = max c.m_constraint_value 0)
    (hn : c.m_negative_part = max (-c.m_constraint_value) 0)
    (hcoarse : g = c.m_constraint_value ∨ constant.EPSILON_10 ≤ |g - c.m_constraint_value|) :
    multi_delta heap m c = c.violation_term g - c.violation_term c.m_constraint_value := by
  rcases hcoarse with rfl | hc
  · rw [multi_delta_unchanged heap m c hg, sub_self]
  · unfold multi_delta Constraint.violation_term Constraint.constraint_value
      Constraint.positive_part Constraint.negative_part
    simp only [he, if_true, hg, not_lt.mpr hc, if_false, hp, hn]
    by_cases h1 : c.is_less_or_equal = true <;> by_cases h2 : c.is_greater_or_equal = true <;>
      simp only [h1, h2, if_true, if_false, Bool.false_eq_true] <;>
      refine Prod.ext ?_ ?_ <;>
      simp only [Prod.fst_add, Prod.snd_add, Prod.fst_sub, Prod.snd_sub, Prod.fst_zero,
        Prod.snd_zero] <;>
      ring

theorem evaluate_single_loop_eq (self : Model) (diff : ℤ) :
    ∀ (sens : List (ConstraintPtr × ℚ)) (acc : ℚ × ℚ),
    (∀ sc ∈ sens, (self.constraint sc.1).is_evaluation_ignorable = false ∧
      (self.constraint sc.1).m_positive_part = max (self.constraint sc.1).m_constraint_value 0 ∧
      (self.constraint sc.1).m_negative_part =
        max (-(self.constraint sc.1).m_constraint_value) 0) →
    self.evaluate_single_loop diff sens acc = acc +
      (sens.map (fun sc =>
        (self.constraint sc.1).violation_term
            ((self.constraint sc.1).m_constraint_value + sc.2 * (diff : ℚ)) -
          (self.constraint sc.1).violation_term (self.constraint sc.1).m_constraint_value)).sum := by
  intro sens
  induction sens with
  | nil => intro acc _; simp [evaluate_single_loop]
  | cons sc sens ih =>
    intro acc h
    obtain ⟨h1, h2, h3⟩ := h sc (List.mem_cons_self _ _)
    simp only [evaluate_single_loop, h1, Bool.false_eq_true, if_false]
    rw [ih _ (fun d hd => h d (List.mem_cons_of_mem _ hd)), sensitivity_step_eq _ _ _ _ h2 h3,
      List.map_cons, List.sum_cons, add_assoc]

end Model
end model
end printemps

namespace printemps

open cppmh.model

namespace model

open model_component neighborhood solution

namespace Model

theorem constraint_mem (self : Model) (i : Nat) (h : i < self.constraints.length) :
    self.constraint i ∈ self.constraints := by
  unfold constraint
  rw [List.getD_eq_getElem _ _ h]
  exact List.getElem_mem h

/-- The value that `evaluate_constraint` computes for a move with one alteration. -/
theorem evaluate_constraint_single (c : Constraint) (heap : VariableHeap) (m : Move)
    (sizeof_Variable : Nat) (x : Nat) (target : ℤ) (h : c.UpToDate heap sizeof_Variable)
    (hm : m.alterations = [(x, target)]) :
    c.evaluate_constraint heap m = some (c.m_constraint_value +
      c.m_expression.coefficient x * ((target - (heap x).value : ℤ) : ℚ)) := by
  rw [Constraint.evaluate_constraint,
    Expression.evaluate_move_eq_some _ heap m sizeof_Variable h.table h.value, hm,
    h.constraint_value]
  simp

theorem evaluate_constraint_empty (c : Constraint) (heap : VariableHeap)
    (sizeof_Variable : Nat) (h : c.UpToDate heap sizeof_Variable) :
    c.evaluate_constraint heap Move.empty = some c.m_constraint_value := by
  rw [Constraint.evaluate_constraint, Expression.evaluate_move_empty, h.constraint_value, h.value]

/-- The total violation and the local penalty of the current state. -/
theorem current_score_eq (self : Model) (sizeof_Variable : Nat) (s : SolutionScore)
    (h : self.Consistent sizeof_Variable) (hs : self.IsCurrentScore s) :
    (s.total_violation, s.local_penalty) =
      ∑ i in Finset.range self.constraints.length,
        (if (self.constraint i).is_enabled then
          (self.constraint i).violation_term (self.constraint i).m_constraint_value else 0) := by
  obtain ⟨s0, hs0, h1, h2⟩ := hs
  obtain ⟨score, hscore, hpair, _⟩ := evaluate_eq self Move.empty sizeof_Variable h
    (fun c => c.m_constraint_value)
    (fun c hc he => evaluate_constraint_empty c _ sizeof_Variable (h.constraints c hc he))
  rw [hs0] at hscore
  cases hscore
  rw [h1, h2, hpair, sum_map_getD Constraint.initialize_]
  rfl

/-- The change of the violation term of the constraint at `i` when the variable `x`
changes by `diff`. -/
theorem listed_coefficient (self : Model) (sizeof_Variable : Nat) (x : Nat)
    (h : self.Consistent sizeof_Variable) (hsens : self.SensitivitiesOf x)
    (sc : ConstraintPtr × ℚ) (hsc : sc ∈ (self.m_variable_proxies x).constraint_sensitivities)
    (he : (self.constraint sc.1).is_enabled = true) :
    sc.1 < self.constraints.length ∧ (self.constraint sc.1).m_expression.coefficient x = sc.2 := by
  obtain ⟨hlt, hmem⟩ := (hsens.listed sc.1 sc.2).mp hsc
  exact ⟨hlt, Expression.coefficient_of_mem _ x sc.2
    (h.constraints _ (constraint_mem self _ hlt) he).table.keys hmem⟩

theorem unlisted_coefficient (self : Model) (x : Nat) (hsens : self.SensitivitiesOf x)
    (i : Nat) (hi : i < self.constraints.length)
    (hni : i ∉ (self.m_variable_proxies x).constraint_sensitivities.map Prod.fst) :
    (self.constraint i).m_expression.coefficient x = 0 := by
  apply Expression.coefficient_of_not_mem
  intro c hc
  apply hni
  exact List.mem_map.mpr ⟨(i, c), (hsens.listed i c).mpr ⟨hi, hc⟩, rfl⟩

/-- The sum over all the constraints after a change of `x` by `diff` is the current
sum plus the changes of the constraints listed for `x`. -/
theorem scratch_eq_current_add (self : Model) (sizeof_Variable : Nat) (x : Nat) (diff : ℤ)
    (h : self.Consistent sizeof_Variable) (hsens : self.SensitivitiesOf x)
    (hen : ∀ sc ∈ (self.m_variable_proxies x).constraint_sensitivities,
      (self.constraint sc.1).is_enabled = true) :
    (self.constraints.map (fun c => if c.is_enabled then
        c.violation_term (c.m_constraint_value + c.m_expression.coefficient x * (diff : ℚ))
        else 0)).sum =
      ∑ i in Finset.range self.constraints.length,
        (if (self.constraint i).is_enabled then
          (self.constraint i).violation_term (self.constraint i).m_constraint_value else 0) +
      ((self.m_variable_proxies x).constraint_sensitivities.map (fun sc =>
        (self.constraint sc.1).violation_term
            ((self.constraint sc.1).m_constraint_value + sc.2 * (diff : ℚ)) -
          (self.constraint sc.1).violation_term (self.constraint sc.1).m_constraint_value)).sum := by
  rw [sum_map_getD Constraint.initialize_]
  rw [sum_change self.constraints.length _
    (fun i => if (self.constraint i).is_enabled then
      (self.constraint i).violation_term (self.constraint i).m_constraint_value else 0)
    ((self.m_variable_proxies x).constraint_sensitivities.map Prod.fst) hsens.nodup]
  · congr 1
    rw [List.map_map]
    apply congrArg
    apply List.map_congr_left
    intro sc hsc
    have he := hen sc hsc
    obtain ⟨_, hco⟩ := listed_coefficient self sizeof_Variable x h hsens sc hsc he
    have hco2 : (self.constraints.getD sc.1 Constraint.initialize_).m_expression.coefficient x =
      sc.2 := hco
    have he2 : (self.constraints.getD sc.1 Constraint.initialize_).is_enabled = true := he
    simp only [Function.comp, he, he2, if_true, hco2]
    rfl
  · intro i hi
    obtain ⟨sc, hsc, rfl⟩ := List.mem_map.mp hi
    exact ((hsens.listed sc.1 sc.2).mp hsc).1
  · intro i hi hni
    have h0 := unlisted_coefficient self x hsens i hi hni
    have h1 : (self.constraints.getD i Constraint.initialize_).m_expression.coefficient x = 0 := h0
    simp only [h1, zero_mul, add_zero]
    rfl

end Model
end model
end printemps

namespace printemps

open cppmh.model

namespace model

open model_component neighborhood solution

namespace Model

/-! ### Selection swaps -/

theorem sum_list_eq_sum_range (n : Nat) (f : Nat → ℚ × ℚ) (L : List Nat) (hnd : L.Nodup)
    (hvalid : ∀ i ∈ L, i < n) (hout : ∀ i, i < n → i ∉ L → f i = 0) :
    (L.map f).sum = ∑ i in Finset.range n, f i := by
  rw [← List.sum_toFinset _ hnd]
  apply Finset.sum_subset
  · intro i hi
    exact Finset.mem_range.mpr (hvalid i (List.mem_toFinset.mp hi))
  · intro i hi hni
    exact hout i (Finset.mem_range.mp hi) (fun h => hni (List.mem_toFinset.mpr h))

/-- The value that `evaluate_constraint` computes for a move with two alterations. -/
theorem evaluate_constraint_two (c : Constraint) (heap : VariableHeap) (m : Move)
    (sizeof_Variable : Nat) (x1 x2 : Nat) (t1 t2 : ℤ) (h : c.UpToDate heap sizeof_Variable)
    (hm : m.alterations = [(x1, t1), (x2, t2)]) :
    c.evaluate_constraint heap m = some (c.m_constraint_value +
      (c.m_expression.coefficient x1 * ((t1 - (heap x1).value : ℤ) : ℚ) +
        c.m_expression.coefficient x2 * ((t2 - (heap x2).value : ℤ) : ℚ))) := by
  rw [Constraint.evaluate_constraint,
    Expression.evaluate_move_eq_some _ heap m sizeof_Variable h.table h.value, hm,
    h.constraint_value]
  simp

theorem evaluate_selection_sensitivities_eq (self : Model) (diff : ℤ) :
    ∀ (sens : List (ConstraintPtr × ℚ)) (acc : ℚ × ℚ),
    (∀ sc ∈ sens, (self.constraint sc.1).is_enabled = true →
      (self.constraint sc.1).m_positive_part = max (self.constraint sc.1).m_constraint_value 0 ∧
      (self.constraint sc.1).m_negative_part =
        max (-(self.constraint sc.1).m_constraint_value) 0) →
    self.evaluate_selection_sensitivities diff sens acc = acc +
      (sens.map (fun sc => if (self.constraint sc.1).is_enabled then
        (self.constraint sc.1).violation_term
            ((self.constraint sc.1).m_constraint_value + sc.2 * (diff : ℚ)) -
          (self.constraint sc.1).violation_term (self.constraint sc.1).m_constraint_value
        else 0)).sum := by
  intro sens
  induction sens with
  | nil => intro acc _; simp [evaluate_selection_sensitivities]
  | cons sc sens ih =>
    intro acc h
    by_cases he : (self.constraint sc.1).is_enabled = true
    · obtain ⟨h2, h3⟩ := h sc (List.mem_cons_self _ _) he
      simp only [evaluate_selection_sensitivities, he, Bool.not_true, Bool.false_eq_true,
        if_false, if_true]
      rw [ih _ (fun d hd => h d (List.mem_cons_of_mem _ hd)), sensitivity_step_eq _ _ _ _ h2 h3,
        List.map_cons, List.sum_cons, add_assoc]
      simp only [he, if_true]
    · have he2 : (self.constraint sc.1).is_enabled = false := by simpa using he
      simp only [evaluate_selection_sensitivities, he2, Bool.not_false, if_true,
        Bool.false_eq_true, if_false]
      rw [ih _ (fun d hd => h d (List.mem_cons_of_mem _ hd)), List.map_cons, List.sum_cons]
      simp only [he2, Bool.false_eq_true, if_false, zero_add]

theorem evaluate_selection_range_pair (self : Model) (m : Move) (RELATED : List ConstraintPtr)
    (hev : ∀ ptr ∈ RELATED, (self.constraint ptr).is_enabled = true →
      ∃ g, (self.constraint ptr).evaluate_constraint self.m_variable_proxies m = some g) :
    ∀ (steps i : Nat) (acc : Accumulator), i + steps ≤ RELATED.length →
    ∃ acc2, self.evaluate_selection_range m RELATED steps i acc = some acc2 ∧
      acc2.pair = acc.pair +
        (((RELATED.drop i).take steps).map
          (fun ptr => multi_delta self.m_variable_proxies m (self.constraint ptr))).sum := by
  intro steps
  induction steps with
  | zero => intro i acc _; exact ⟨acc, rfl, by simp⟩
  | succ steps ih =>
    intro i acc hlen
    have hi : i < RELATED.length := by omega
    have hget : RELATED[i]? = some RELATED[i] := List.getElem?_eq_getElem hi
    obtain ⟨acc1, h1, hp1⟩ := multi_step_pair self.m_variable_proxies m
      (self.constraint RELATED[i]) acc (hev _ (List.getElem_mem hi))
    obtain ⟨acc2, h2, hp2⟩ := ih (i + 1) acc1 (by omega)
    refine ⟨acc2, by simp only [evaluate_selection_range, hget, h1, h2], ?_⟩
    rw [hp2, hp1, add_assoc]
    congr 1
    rw [List.drop_eq_getElem_cons hi, List.take_succ_cons, List.map_cons, List.sum_cons]

end Model
end model
end printemps

namespace printemps

open cppmh.model

namespace model

open model_component neighborhood solution

namespace Model

/-- A constraint that has neither of the two altered variables is not changed by
the step of `evaluate_multi`. -/
theorem multi_delta_untouched (self : Model) (m : Move) (sizeof_Variable : Nat)
    (x1 x2 : Nat) (t1 t2 : ℤ) (h : self.Consistent sizeof_Variable)
    (hm : m.alterations = [(x1, t1), (x2, t2)])
    (hs1 : self.SensitivitiesOf x1) (hs2 : self.SensitivitiesOf x2)
    (i : Nat) (hi : i < self.constraints.length)
    (hun : (self.constraint i).is_enabled = true →
      i ∉ (self.m_variable_proxies x1).constraint_sensitivities.map Prod.fst ∧
        i ∉ (self.m_variable_proxies x2).constraint_sensitivities.map Prod.fst) :
    multi_delta self.m_variable_proxies m (self.constraint i) = 0 := by
  by_cases he : (self.constraint i).is_enabled = true
  · obtain ⟨h1, h2⟩ := hun he
    apply multi_delta_unchanged
    rw [evaluate_constraint_two _ _ m sizeof_Variable x1 x2 t1 t2
      (h.constraints _ (constraint_mem self i hi) he) hm,
      unlisted_coefficient self x1 hs1 i hi h1, unlisted_coefficient self x2 hs2 i hi h2]
    simp
  · unfold multi_delta
    simp only [he, Bool.false_eq_true, if_false]

/-- The sum of the single-variable changes over the constraints listed for `x` is a
sum over all the constraints. -/
theorem sensitivities_sum_eq (self : Model) (sizeof_Variable : Nat) (x : Nat) (diff : ℤ)
    (h : self.Consistent sizeof_Variable) (hsens : self.SensitivitiesOf x) :
    ((self.m_variable_proxies x).constraint_sensitivities.map
      (fun sc => if (self.constraint sc.1).is_enabled then
        (self.constraint sc.1).violation_term
            ((self.constraint sc.1).m_constraint_value + sc.2 * (diff : ℚ)) -
          (self.constraint sc.1).violation_term (self.constraint sc.1).m_constraint_value
        else 0)).sum =
      ∑ i in Finset.range self.constraints.length,
        (if (self.constraint i).is_enabled then
          (self.constraint i).violation_term
              ((self.constraint i).m_constraint_value +
                (self.constraint i).m_expression.coefficient x * (diff : ℚ)) -
            (self.constraint i).violation_term (self.constraint i).m_constraint_value
          else 0) := by
  rw [← sum_list_eq_sum_range self.constraints.length _
    ((self.m_variable_proxies x).constraint_sensitivities.map Prod.fst) hsens.nodup]
  · rw [List.map_map]
    apply congrArg
    apply List.map_congr_left
    intro sc hsc
    simp only [Function.comp]
    by_cases he : (self.constraint sc.1).is_enabled = true
    · obtain ⟨_, hco⟩ := listed_coefficient self sizeof_Variable x h hsens sc hsc he
      simp only [he, if_true, hco]
    · simp only [he, Bool.false_eq_true, if_false]
  · intro i hi
    obtain ⟨sc, hsc, rfl⟩ := List.mem_map.mp hi
    exact ((hsens.listed sc.1 sc.2).mp hsc).1
  · intro i hi hni
    rw [unlisted_coefficient self x hsens i hi hni]
    simp

/-- The enabled constraints of the two variables of a selection swap whose index
ranges are disjoint are different constraints. -/
theorem disjoint_ranges_exclusive (self : Model) (x1 x2 : Nat) (RELATED : List ConstraintPtr)
    (hnd : RELATED.Nodup) (hb1 : self.IndexBracket x1 RELATED)
    (hb2 : self.IndexBracket x2 RELATED) (hdis : self.DisjointRanges x1 x2) (i : Nat)
    (he : (self.constraint i).is_enabled = true)
    (h1 : i ∈ (self.m_variable_proxies x1).constraint_sensitivities.map Prod.fst)
    (h2 : i ∈ (self.m_variable_proxies x2).constraint_sensitivities.map Prod.fst) : False := by
  obtain ⟨sc1, hsc1, rfl⟩ := List.mem_map.mp h1
  obtain ⟨sc2, hsc2, heq⟩ := List.mem_map.mp h2
  obtain ⟨j1, hj1, hlo1, hhi1⟩ := hb1.bracket sc1 hsc1 he
  obtain ⟨j2, hj2, hlo2, hhi2⟩ := hb2.bracket sc2 hsc2 (by rw [heq]; exact he)
  rw [heq] at hj2
  have hlt : j1 < RELATED.length := by
    by_contra hcon
    rw [List.getElem?_eq_none (by omega)] at hj1
    exact Option.noConfusion hj1
  have hjj : j1 = j2 := List.getElem?_inj hlt hnd (hj1.trans hj2.symm)
  subst hjj
  unfold DisjointRanges at hdis
  omega

end Model
end model
end printemps

namespace printemps

open cppmh.model

namespace model

open model_component neighborhood solution

namespace Model

theorem combine_index_min (a b : ℤ) (ha : -1 ≤ a) (hb : -1 ≤ b) :
    (0 ≤ combine_index a b min ↔ 0 ≤ a ∨ 0 ≤ b) ∧
    (0 ≤ a → combine_index a b min ≤ a) ∧ (0 ≤ b → combine_index a b min ≤ b) := by
  unfold combine_index
  split_ifs <;> omega

theorem combine_index_max (a b : ℤ) (ha : -1 ≤ a) (hb : -1 ≤ b) :
    (0 ≤ combine_index a b max ↔ 0 ≤ a ∨ 0 ≤ b) ∧
    (0 ≤ a → a ≤ combine_index a b max) ∧ (0 ≤ b → b ≤ combine_index a b max) ∧
    combine_index a b max ≤ max a b := by
  unfold combine_index
  split_ifs <;> omega

/-- Under a coarse change every enabled constraint changes by zero or by at least
`EPSILON_10`. -/
theorem coarse_coefficient (self : Model) (sizeof_Variable : Nat) (x : Nat) (diff : ℤ)
    (h : self.Consistent sizeof_Variable) (hsens : self.SensitivitiesOf x)
    (hcoarse : self.CoarseChange x diff) (i : Nat) (hi : i < self.constraints.length)
    (he : (self.constraint i).is_enabled = true) :
    (self.constraint i).m_expression.coefficient x * (diff : ℚ) = 0 ∨
      constant.EPSILON_10 ≤ |(self.constraint i).m_expression.coefficient x * (diff : ℚ)| := by
  by_cases hmem : i ∈ (self.m_variable_proxies x).constraint_sensitivities.map Prod.fst
  · obtain ⟨sc, hsc, rfl⟩ := List.mem_map.mp hmem
    obtain ⟨_, hco⟩ := listed_coefficient self sizeof_Variable x h hsens sc hsc he
    rw [hco]
    exact hcoarse sc hsc
  · left
    rw [unlisted_coefficient self x hsens i hi hmem, zero_mul]

/-- The step of `evaluate_multi` for a constraint that only one of two changes
reaches. -/
theorem multi_delta_one_sided (heap : VariableHeap) (m : Move) (c : Constraint)
    (sizeof_Variable : Nat) (u v : ℚ) (he : c.is_enabled = true)
    (hup : c.UpToDate heap sizeof_Variable)
    (hg : c.evaluate_constraint heap m = some (c.m_constraint_value + (u + v)))
    (hv : v = 0) (hu : u = 0 ∨ constant.EPSILON_10 ≤ |u|) :
    multi_delta heap m c =
      (c.violation_term (c.m_constraint_value + u) - c.violation_term c.m_constraint_value) +
        (c.violation_term (c.m_constraint_value + v) -
          c.violation_term c.m_constraint_value) := by
  subst hv
  rw [add_zero] at hg
  rw [multi_delta_eq heap m c _ he hg hup.positive_part hup.negative_part, add_zero, sub_self,
    add_zero]
  rcases hu with h0 | h1
  · left
    rw [h0, add_zero]
  · right
    rw [add_sub_cancel_left]
    exact h1

/-- In the first branch of `evaluate_selection` the step of `evaluate_multi` adds, for
every constraint, the sum of the two single-variable changes. -/
theorem multi_delta_eq_add (self : Model) (m : Move) (sizeof_Variable : Nat)
    (x1 x2 : Nat) (t1 t2 : ℤ) (h : self.Consistent sizeof_Variable)
    (hm : m.alterations = [(x1, t1), (x2, t2)])
    (hs1 : self.SensitivitiesOf x1) (hs2 : self.SensitivitiesOf x2)
    (hc1 : self.CoarseChange x1 (t1 - (self.m_variable_proxies x1).value))
    (hc2 : self.CoarseChange x2 (t2 - (self.m_variable_proxies x2).value))
    (i : Nat) (hi : i < self.constraints.length)
    (hex : (self.constraint i).is_enabled = true →
      ¬ (i ∈ (self.m_variable_proxies x1).constraint_sensitivities.map Prod.fst ∧
        i ∈ (self.m_variable_proxies x2).constraint_sensitivities.map Prod.fst)) :
    multi_delta self.m_variable_proxies m (self.constraint i) =
      (if (self.constraint i).is_enabled then
        (self.constraint i).violation_term
            ((self.constraint i).m_constraint_value +
              (self.constraint i).m_expression.coefficient x1 *
                ((t1 - (self.m_variable_proxies x1).value : ℤ) : ℚ)) -
          (self.constraint i).violation_term (self.constraint i).m_constraint_value
        else 0) +
      (if (self.constraint i).is_enabled then
        (self.constraint i).violation_term
            ((self.constraint i).m_constraint_value +
              (self.constraint i).m_expression.coefficient x2 *
                ((t2 - (self.m_variable_proxies x2).value : ℤ) : ℚ)) -
          (self.constraint i).violation_term (self.constraint i).m_constraint_value
        else 0) := by
  by_cases he : (self.constraint i).is_enabled = true
  · have hup := h.constraints _ (constraint_mem self i hi) he
    have hg := evaluate_constraint_two _ _ m sizeof_Variable x1 x2 t1 t2 hup hm
    simp only [he, if_true]
    by_cases h2 : i ∈ (self.m_variable_proxies x2).constraint_sensitivities.map Prod.fst
    · have h1 : i ∉ (self.m_variable_proxies x1).constraint_sensitivities.map Prod.fst :=
        fun h1 => hex he ⟨h1, h2⟩
      rw [add_comm] at hg
      rw [add_comm (_ - _) (_ - _)]
      refine multi_delta_one_sided _ m _ sizeof_Variable _ _ he hup ?_ ?_ ?_
      · rw [hg]
        congr 1
        ring
      · rw [unlisted_coefficient self x1 hs1 i hi h1, zero_mul]
      · exact coarse_coefficient self sizeof_Variable x2 _ h hs2 hc2 i hi he
    · refine multi_delta_one_sided _ m _ sizeof_Variable _ _ he hup hg ?_ ?_
      · rw [unlisted_coefficient self x2 hs2 i hi h2, zero_mul]
      · exact coarse_coefficient self sizeof_Variable x1 _ h hs1 hc1 i hi he
  · unfold multi_delta
    simp only [he, Bool.false_eq_true, if_false, add_zero]

end Model
end model
end printemps

namespace printemps

open cppmh.model

namespace model

open model_component neighborhood solution

namespace Model

/-- An enabled constraint of one of the two variables of a selection swap lies in the
index range that the second branch of `evaluate_selection` scans. -/
theorem touched_in_range (self : Model) (m : Move) (x1 x2 : Nat) (t1 t2 : ℤ)
    (selection : Selection) (hm : self.SelectionMove m x1 x2 t1 t2 selection) (i : Nat)
    (he : (self.constraint i).is_enabled = true)
    (hmem : i ∈ (self.m_variable_proxies x1).constraint_sensitivities.map Prod.fst ∨
      i ∈ (self.m_variable_proxies x2).constraint_sensitivities.map Prod.fst) :
    ∃ index : Nat, selection.related_constraint_ptrs[index]? = some i ∧
      0 ≤ combine_index
        (self.m_variable_proxies x1).related_selection_constraint_ptr_index_min
        (self.m_variable_proxies x2).related_selection_constraint_ptr_index_min min ∧
      combine_index
        (self.m_variable_proxies x1).related_selection_constraint_ptr_index_min
        (self.m_variable_proxies x2).related_selection_constraint_ptr_index_min min ≤
          (index : ℤ) ∧
      (index : ℤ) ≤ combine_index
        (self.m_variable_proxies x1).related_selection_constraint_ptr_index_max
        (self.m_variable_proxies x2).related_selection_constraint_ptr_index_max max := by
  have b1 := hm.index_first
  have b2 := hm.index_second
  obtain ⟨hmin1, hmin2, hmin3⟩ := combine_index_min _ _ b1.lower_min b2.lower_min
  obtain ⟨hmax1, hmax2, hmax3, _⟩ := combine_index_max _ _ b1.lower_max b2.lower_max
  have n1 := b1.none_found
  have n2 := b2.none_found
  have l1 := b1.lower_min
  have l2 := b2.lower_min
  rcases hmem with h1 | h2
  · obtain ⟨sc, hsc, rfl⟩ := List.mem_map.mp h1
    obtain ⟨index, hidx, hlo, hhi⟩ := b1.bracket sc hsc he
    refine ⟨index, hidx, ?_, ?_, ?_⟩
    · rw [hmin1]; left; omega
    · have := hmin2 (by omega); omega
    · have := hmax2 (by omega); omega
  · obtain ⟨sc, hsc, rfl⟩ := List.mem_map.mp h2
    obtain ⟨index, hidx, hlo, hhi⟩ := b2.bracket sc hsc he
    refine ⟨index, hidx, ?_, ?_, ?_⟩
    · rw [hmin1]; right; omega
    · have := hmin3 (by omega); omega
    · have := hmax3 (by omega); omega

/-- The sum of the steps of `evaluate_multi` over the related constraints of a
selection swap is the sum over all the constraints. -/
theorem multi_sum_eq (self : Model) (m : Move) (sizeof_Variable : Nat) (x1 x2 : Nat)
    (t1 t2 : ℤ) (selection : Selection) (h : self.Consistent sizeof_Variable)
    (hm : self.SelectionMove m x1 x2 t1 t2 selection) :
    (m.related_constraint_ptrs.map
      (fun ptr => multi_delta self.m_variable_proxies m (self.constraint ptr))).sum =
      ∑ i in Finset.range self.constraints.length,
        multi_delta self.m_variable_proxies m (self.constraint i) := by
  apply sum_list_eq_sum_range _ _ _ hm.related_nodup hm.related_valid
  intro i hi hni
  apply multi_delta_untouched self m sizeof_Variable x1 x2 t1 t2 h hm.alterations
    hm.sensitivities_first hm.sensitivities_second i hi
  intro he
  constructor
  · intro hmem
    obtain ⟨sc, hsc, rfl⟩ := List.mem_map.mp hmem
    exact hni (hm.related_complete sc (Or.inl hsc) he)
  · intro hmem
    obtain ⟨sc, hsc, rfl⟩ := List.mem_map.mp hmem
    exact hni (hm.related_complete sc (Or.inr hsc) he)

/-- When `evaluate_selection` takes neither branch, no constraint changes. -/
theorem no_range_sum_eq (self : Model) (m : Move) (sizeof_Variable : Nat) (x1 x2 : Nat)
    (t1 t2 : ℤ) (selection : Selection) (h : self.Consistent sizeof_Variable)
    (hm : self.SelectionMove m x1 x2 t1 t2 selection)
    (hno : ¬ (combine_index
        (self.m_variable_proxies x1).related_selection_constraint_ptr_index_min
        (self.m_variable_proxies x2).related_selection_constraint_ptr_index_min min ≥ 0 ∧
      combine_index
        (self.m_variable_proxies x1).related_selection_constraint_ptr_index_max
        (self.m_variable_proxies x2).related_selection_constraint_ptr_index_max max ≥ 0)) :
    ∑ i in Finset.range self.constraints.length,
      multi_delta self.m_variable_proxies m (self.constraint i) = 0 := by
  apply Finset.sum_eq_zero
  intro i hi
  apply multi_delta_untouched self m sizeof_Variable x1 x2 t1 t2 h hm.alterations
    hm.sensitivities_first hm.sensitivities_second i (Finset.mem_range.mp hi)
  intro he
  constructor
  · intro hmem
    obtain ⟨index, _, h0, h1, h2⟩ := touched_in_range self m x1 x2 t1 t2 selection hm i he
      (Or.inl hmem)
    exact hno ⟨h0, by omega⟩
  · intro hmem
    obtain ⟨index, _, h0, h1, h2⟩ := touched_in_range self m x1 x2 t1 t2 selection hm i he
      (Or.inr hmem)
    exact hno ⟨h0, by omega⟩

/-- The scan of the second branch of `evaluate_selection` stays inside the related
constraints of the selection and adds the sum over all the constraints. -/
theorem range_sum_eq (self : Model) (m : Move) (sizeof_Variable : Nat) (x1 x2 : Nat)
    (t1 t2 : ℤ) (selection : Selection) (h : self.Consistent sizeof_Variable)
    (hm : self.SelectionMove m x1 x2 t1 t2 selection) (index_min index_max : ℤ)
    (hmin : index_min = combine_index
        (self.m_variable_proxies x1).related_selection_constraint_ptr_index_min
        (self.m_variable_proxies x2).related_selection_constraint_ptr_index_min min)
    (hmax : index_max = combine_index
        (self.m_variable_proxies x1).related_selection_constraint_ptr_index_max
        (self.m_variable_proxies x2).related_selection_constraint_ptr_index_max max)
    (h0 : 0 ≤ index_min) :
    index_min.toNat + (index_max - index_min + 1).toNat ≤
        selection.related_constraint_ptrs.length ∧
      (((selection.related_constraint_ptrs.drop index_min.toNat).take
          (index_max - index_min + 1).toNat).map
        (fun ptr => multi_delta self.m_variable_proxies m (self.constraint ptr))).sum =
      ∑ i in Finset.range self.constraints.length,
        multi_delta self.m_variable_proxies m (self.constraint i) := by
  have b1 := hm.index_first
  have b2 := hm.index_second
  obtain ⟨_, _, _, hle⟩ := combine_index_max _ _ b1.lower_max b2.lower_max
  have u1 := b1.upper
  have u2 := b2.upper
  obtain ⟨f1, f2, f3⟩ := combine_index_min _ _ b1.lower_min b2.lower_min
  have o1 := b1.ordered
  have o2 := b2.ordered
  rw [← hmin] at f1 f2 f3
  rw [← hmax] at hle
  constructor
  · have f4 := f1.mp h0
    omega
  · apply sum_list_eq_sum_range
    · exact ((List.take_sublist _ _).trans (List.drop_sublist _ _)).nodup hm.selection_nodup
    · intro i hi
      exact hm.selection_valid i ((List.drop_sublist _ _).subset ((List.take_sublist _ _).subset hi))
    · intro i hi hni
      apply multi_delta_untouched self m sizeof_Variable x1 x2 t1 t2 h hm.alterations
        hm.sensitivities_first hm.sensitivities_second i hi
      intro he
      have key : ∀ (hmem : i ∈ (self.m_variable_proxies x1).constraint_sensitivities.map Prod.fst ∨
          i ∈ (self.m_variable_proxies x2).constraint_sensitivities.map Prod.fst), False := by
        intro hmem
        obtain ⟨index, hidx, _, hlo, hhi⟩ := touched_in_range self m x1 x2 t1 t2 selection hm i he
          hmem
        rw [← hmin] at hlo
        rw [← hmax] at hhi
        apply hni
        rw [List.mem_iff_getElem?]
        refine ⟨index - index_min.toNat, ?_⟩
        rw [List.getElem?_take, if_pos (by omega), List.getElem?_drop,
          show index_min.toNat + (index - index_min.toNat) = index by omega]
        exact hidx
      exact ⟨fun h1 => key (Or.inl h1), fun h2 => key (Or.inr h2)⟩

/-- The first branch of `evaluate_selection` adds the sum over all the constraints,
when both changes are coarse. -/
theorem alterations_sum_eq (self : Model) (m : Move) (sizeof_Variable : Nat) (x1 x2 : Nat)
    (t1 t2 : ℤ) (selection : Selection) (h : self.Consistent sizeof_Variable)
    (hm : self.SelectionMove m x1 x2 t1 t2 selection) (hdis : self.DisjointRanges x1 x2)
    (hc1 : self.CoarseChange x1 (t1 - (self.m_variable_proxies x1).value))
    (hc2 : self.CoarseChange x2 (t2 - (self.m_variable_proxies x2).value)) (acc : ℚ × ℚ) :
    self.evaluate_selection_alterations m.alterations acc = acc +
      ∑ i in Finset.range self.constraints.length,
        multi_delta self.m_variable_proxies m (self.constraint i) := by
  have hparts : ∀ x, self.SensitivitiesOf x →
      ∀ sc ∈ (self.m_variable_proxies x).constraint_sensitivities,
      (self.constraint sc.1).is_enabled = true →
      (self.constraint sc.1).m_positive_part = max (self.constraint sc.1).m_constraint_value 0 ∧
      (self.constraint sc.1).m_negative_part =
        max (-(self.constraint sc.1).m_constraint_value) 0 := by
    intro x hs sc hsc he
    have hup := h.constraints _ (constraint_mem self _ ((hs.listed sc.1 sc.2).mp hsc).1) he
    exact ⟨hup.positive_part, hup.negative_part⟩
  rw [hm.alterations]
  simp only [evaluate_selection_alterations]
  rw [evaluate_selection_sensitivities_eq self _ _ _ (hparts x2 hm.sensitivities_second),
    evaluate_selection_sensitivities_eq self _ _ _ (hparts x1 hm.sensitivities_first),
    sensitivities_sum_eq self sizeof_Variable x1 _ h hm.sensitivities_first,
    sensitivities_sum_eq self sizeof_Variable x2 _ h hm.sensitivities_second,
    add_assoc, ← Finset.sum_add_distrib]
  congr 1
  apply Finset.sum_congr rfl
  intro i hi
  rw [multi_delta_eq_add self m sizeof_Variable x1 x2 t1 t2 h hm.alterations
    hm.sensitivities_first hm.sensitivities_second hc1 hc2 i (Finset.mem_range.mp hi)]
  intro he hboth
  exact disjoint_ranges_exclusive self x1 x2 _ hm.selection_nodup hm.index_first
    hm.index_second hdis i he hboth.1 hboth.2

end Model
end model
end printemps

namespace cppmh

/-! ## The multipliers of the Lagrange dual search of `cppmh` -/

theorem update_each_length {α β : Type} (f : α → β → β) (d : β) : ∀ (v : List α) (i : Nat)
    (w : List β), (update_each f d v i w).length = w.length := by
  intro v
  induction v with
  | nil => intro i w; rfl
  | cons a rest ih =>
    intro i w
    simp only [update_each, ih, List.length_set]

/-- The element of position `i + j` of `w` is replaced by `f` of the element of position
`j` of `v` and of itself; the elements before the position `i` are kept. -/
theorem update_each_getD {α β : Type} (f : α → β → β) (d : β) : ∀ (v : List α) (i : Nat)
    (w : List β), i + v.length ≤ w.length →
    (∀ k, k < i → (update_each f d v i w).getD k d = w.getD k d) ∧
    ∀ j a, v[j]? = some a → (update_each f d v i w).getD (i + j) d = f a (w.getD (i + j) d) := by
  intro v
  induction v with
  | nil =>
    intro i w _
    exact ⟨fun _ _ => rfl, fun j a hj => by simp at hj⟩
  | cons a rest ih =>
    intro i w hlen
    simp only [List.length_cons] at hlen
    obtain ⟨hbefore, hfill⟩ := ih (i + 1) (w.set i (f a (w.getD i d)))
      (by rw [List.length_set]; omega)
    simp only [update_each]
    constructor
    · intro k hk
      rw [hbefore k (by omega), model.FixedSizeHashMap.getD_set_eq, if_neg (by omega)]
    · intro j b hj
      cases j with
      | zero =>
        simp only [List.getElem?_cons_zero, Option.some.injEq] at hj
        subst hj
        simp only [add_zero]
        rw [hbefore i (by omega), model.FixedSizeHashMap.getD_set_eq, if_pos ⟨rfl, by omega⟩]
      | succ j =>
        simp only [List.getElem?_cons_succ] at hj
        have hidx : i + (j + 1) = i + 1 + j := by omega
        rw [hidx, hfill j b hj, model.FixedSizeHashMap.getD_set_eq, if_neg (by omega)]

namespace solver
namespace lagrange_dual

open model

theorem bound_multiplier_restricted (sense : ConstraintSense) (x : ℚ) :
    sign_restricted sense (bound_multiplier sense x) := by
  cases sense
  · exact le_max_right x 0
  · trivial
  · exact min_le_right x 0

/-- The multiplier of every constraint after `bound_dual`. -/
theorem bound_dual_getD (senses : List (List ConstraintSense)) (dual : List (List ℚ))
    (hshape : dual.map List.length = senses.map List.length) :
    (bound_dual senses dual).map List.length = senses.map List.length ∧
    ∀ id flat_index proxy sense, senses[id]? = some proxy → proxy[flat_index]? = some sense →
      ((bound_dual senses dual).getD id []).getD flat_index 0 =
        bound_multiplier sense ((dual.getD id []).getD flat_index 0) := by
  have hlen : dual.length = senses.length := by
    simpa using congrArg List.length hshape
  have hinner : ∀ id proxy, senses[id]? = some proxy → (dual.getD id []).length = proxy.length := by
    intro id proxy hp
    have h1 := congrArg (fun l => l[id]?) hshape
    simp only [List.getElem?_map, hp, Option.map_some'] at h1
    cases hd : dual[id]? with
    | none => simp [hd] at h1
    | some values =>
      simp only [hd, Option.map_some', Option.some.injEq] at h1
      simp [List.getD_eq_getElem?_getD, hd, h1]
  obtain ⟨_, hfill⟩ := update_each_getD
    (fun proxy values => update_each bound_multiplier 0 proxy 0 values) [] senses 0 dual
    (by omega)
  constructor
  · apply List.ext_getElem?
    intro id
    simp only [List.getElem?_map]
    cases hp : senses[id]? with
    | none =>
      have : senses.length ≤ id := by
        rcases Nat.lt_or_ge id senses.length with h | h
        · rw [List.getElem?_eq_getElem h] at hp
          exact absurd hp (by simp)
        · exact h
      have h2 : (bound_dual senses dual)[id]? = none := by
        apply List.getElem?_eq_none
        rw [bound_dual, update_each_length]
        omega
      simp [h2]
    | some proxy =>
      have hid : id < senses.length := by
        rcases Nat.lt_or_ge id senses.length with h | h
        · exact h
        · rw [List.getElem?_eq_none h] at hp
          exact absurd hp (by simp)
      have hid2 : id < (bound_dual senses dual).length := by
        rw [bound_dual, update_each_length]
        omega
      have h := hfill id proxy hp
      rw [Nat.zero_add] at h
      have hget : (bound_dual senses dual)[id]? = some ((bound_dual senses dual).getD id []) := by
        rw [List.getD_eq_getElem _ _ hid2, List.getElem?_eq_getElem hid2]
      rw [hget]
      simp only [Option.map_some', Option.some.injEq]
      rw [bound_dual, h, update_each_length]
      exact hinner id proxy hp
  · intro id flat_index proxy sense hp hs
    have h := hfill id proxy hp
    rw [Nat.zero_add] at h
    have hfl : flat_index < proxy.length := by
      rcases Nat.lt_or_ge flat_index proxy.length with h | h
      · exact h
      · rw [List.getElem?_eq_none h] at hs
        exact absurd hs (by simp)
    obtain ⟨_, hfill2⟩ := update_each_getD bound_multiplier 0 proxy 0 (dual.getD id [])
      (by rw [hinner id proxy hp]; omega)
    have h2 := hfill2 flat_index sense hs
    rw [Nat.zero_add] at h2
    rw [bound_dual, h, h2]

end lagrange_dual
end solver
end cppmh

namespace cppmh

theorem update_each_shape {α β : Type} (f : α → List β → List β)
    (hf : ∀ a x, (f a x).length = x.length) : ∀ (v : List α) (i : Nat) (w : List (List β)),
    (update_each f [] v i w).map List.length = w.map List.length := by
  intro v
  induction v with
  | nil => intro i w; rfl
  | cons a rest ih =>
    intro i w
    simp only [update_each]
    rw [ih]
    apply List.ext_getElem?
    intro k
    simp only [List.getElem?_map, List.getElem?_set]
    by_cases hk : i = k
    · subst hk
      by_cases hi : i < w.length
      · simp [hi, hf, List.getD_eq_getElem _ _ hi, List.getElem?_eq_getElem hi]
      · have hn : w[i]? = none := List.getElem?_eq_none (by omega)
        simp [hi, hn]
    · simp [hk]

namespace solver
namespace lagrange_dual

open model

theorem update_dual_shape (step_size : ℚ) (constraint_values dual : List (List ℚ)) :
    (update_dual step_size constraint_values dual).map List.length = dual.map List.length :=
  update_each_shape _ (fun _ _ => update_each_length _ _ _ _ _) _ _ _

theorem dual_after_shape (senses : List (List ConstraintSense)) :
    ∀ iterations : List (ℚ × List (List ℚ)),
    (dual_after senses iterations).map List.length = senses.map List.length := by
  intro iterations
  induction iterations with
  | nil =>
    refine (bound_dual_getD senses _ ?_).1
    simp [generate_constraint_parameter_proxies, Function.comp]
  | cons iteration earlier ih =>
    exact (bound_dual_getD senses _ (by rw [update_dual_shape, ih])).1

end lagrange_dual
end solver
end cppmh

namespace printemps
namespace model

open model_component

namespace ModelDefinitions

/-! ## The `create_*` methods of `Model` -/

theorem modify_back {α : Type} (l : List α) (a : α) (f : α → α) :
    (l ++ [a]).modify f ((l ++ [a]).length - 1) = l ++ [f a] := by
  induction l with
  | nil => rfl
  | cons b l ih =>
    have h : ((b :: l) ++ [a]).length - 1 = ((l ++ [a]).length - 1) + 1 := by
      simp
    rw [h, List.cons_append, List.modify_succ_cons, ih]
    rfl

theorem appends_variable_proxy_of (self : ModelDefinitions) (a_NAME : String)
    (proxy : VariableProxy) (result : Option ModelDefinitions)
    (hindex : proxy.m_index = (self.m_variable_proxies.length : ℤ))
    (hresult : result =
      if utility.has_space a_NAME then none
      else if (self.m_variable_proxies.length : ℤ) ≥ ModelConstant.MAX_NUMBER_OF_VARIABLE_PROXIES
      then none
      else some
        { self with
          m_variable_proxies := self.m_variable_proxies ++ [proxy]
          m_variable_names := self.m_variable_names ++ [a_NAME] }) :
    self.AppendsVariableProxy a_NAME result := by
  subst hresult
  unfold AppendsVariableProxy ModelConstant.MAX_NUMBER_OF_VARIABLE_PROXIES
  by_cases hs : utility.has_space a_NAME = true
  · simp [hs]
  · by_cases hn : (100 : ℤ) ≤ (self.m_variable_proxies.length : ℤ)
    · have hn2 : 100 ≤ self.m_variable_proxies.length := by omega
      simp [hs, hn, hn2]
    · have hn2 : ¬ 100 ≤ self.m_variable_proxies.length := by omega
      have hn3 : ¬ ((self.m_variable_proxies.length : ℤ) ≥ 100) := hn
      rw [if_neg hs, if_neg hn3]
      refine ⟨⟨fun h => absurd h (by simp), fun h => h.elim (fun h => absurd h hs)
        (fun h => absurd h hn2)⟩, ?_⟩
      intro created hc
      exact ⟨proxy, hindex, (Option.some.inj hc).symm⟩

theorem appends_expression_proxy_of (self : ModelDefinitions) (a_NAME : String)
    (proxy : ExpressionProxy) (result : Option ModelDefinitions)
    (hindex : proxy.m_index = (self.m_expression_proxies.length : ℤ))
    (hresult : result =
      if utility.has_space a_NAME then none
      else if (self.m_expression_proxies.length : ℤ) ≥
          ModelConstant.MAX_NUMBER_OF_EXPRESSION_PROXIES
      then none
      else some
        { self with
          m_expression_proxies := self.m_expression_proxies ++ [proxy]
          m_expression_names := self.m_expression_names ++ [a_NAME] }) :
    self.AppendsExpressionProxy a_NAME result := by
  subst hresult
  unfold AppendsExpressionProxy ModelConstant.MAX_NUMBER_OF_EXPRESSION_PROXIES
  by_cases hs : utility.has_space a_NAME = true
  · simp [hs]
  · by_cases hn : (100 : ℤ) ≤ (self.m_expression_proxies.length : ℤ)
    · have hn2 : 100 ≤ self.m_expression_proxies.length := by omega
      simp [hs, hn, hn2]
    · have hn2 : ¬ 100 ≤ self.m_expression_proxies.length := by omega
      have hn3 : ¬ ((self.m_expression_proxies.length : ℤ) ≥ 100) := hn
      rw [if_neg hs, if_neg hn3]
      refine ⟨⟨fun h => absurd h (by simp), fun h => h.elim (fun h => absurd h hs)
        (fun h => absurd h hn2)⟩, ?_⟩
      intro created hc
      exact ⟨proxy, hindex, (Option.some.inj hc).symm⟩

theorem appends_constraint_proxy_of (self : ModelDefinitions) (a_NAME : String)
    (proxy : ConstraintProxy) (result : Option ModelDefinitions)
    (hindex : proxy.m_index = (self.m_constraint_proxies.length : ℤ))
    (hresult : result =
      if utility.has_space a_NAME then none
      else if (self.m_constraint_proxies.length : ℤ) ≥
          ModelConstant.MAX_NUMBER_OF_CONSTRAINT_PROXIES
      then none
      else some
        { self with
          m_constraint_proxies := self.m_constraint_proxies ++ [proxy]
          m_constraint_names := self.m_constraint_names ++ [a_NAME] }) :
    self.AppendsConstraintProxy a_NAME result := by
  subst hresult
  unfold AppendsConstraintProxy ModelConstant.MAX_NUMBER_OF_CONSTRAINT_PROXIES
  by_cases hs : utility.has_space a_NAME = true
  · simp [hs]
  · by_cases hn : (100 : ℤ) ≤ (self.m_constraint_proxies.length : ℤ)
    · have hn2 : 100 ≤ self.m_constraint_proxies.length := by omega
      simp [hs, hn, hn2]
    · have hn2 : ¬ 100 ≤ self.m_constraint_proxies.length := by omega
      have hn3 : ¬ ((self.m_constraint_proxies.length : ℤ) ≥ 100) := hn
      rw [if_neg hs, if_neg hn3]
      refine ⟨⟨fun h => absurd h (by simp), fun h => h.elim (fun h => absurd h hs)
        (fun h => absurd h hn2)⟩, ?_⟩
      intro created hc
      exact ⟨proxy, hindex, (Option.some.inj hc).symm⟩

/-- Setting the bounds of the proxy that has just been appended keeps the outcome. -/
theorem appends_variable_proxy_bounded (self : ModelDefinitions) (a_NAME : String)
    (result : Option ModelDefinitions) (a_LOWER_BOUND a_UPPER_BOUND : ℤ)
    (h : self.AppendsVariableProxy a_NAME result) :
    self.AppendsVariableProxy a_NAME
      (result.map (fun created => created.set_bound_of_back a_LOWER_BOUND a_UPPER_BOUND)) := by
  obtain ⟨h1, h2⟩ := h
  constructor
  · rw [← h1]
    cases result <;> simp
  · intro created hc
    cases result with
    | none => simp at hc
    | some r =>
      simp only [Option.map_some', Option.some.injEq] at hc
      obtain ⟨proxy, hindex, hr⟩ := h2 r rfl
      refine ⟨proxy.set_bound a_LOWER_BOUND a_UPPER_BOUND, hindex, ?_⟩
      rw [← hc, hr]
      simp only [set_bound_of_back, modify_back]

end ModelDefinitions
end model
end printemps

namespace cppmh
namespace model

open printemps.model_component

/-! ## The verification of the initial values of the selections -/

/-- The four vectors after the first loop. -/
theorem scan_selection_eq (heap : VariableHeap) : ∀ (variable_ptrs : List Nat)
    (scan : SelectionScan),
    scan_selection heap variable_ptrs scan =
      { fixed_selected_variable_ptrs := scan.fixed_selected_variable_ptrs ++
          variable_ptrs.filter (fun ptr => decide ((heap ptr).value = 1) && (heap ptr).is_fixed)
        selected_variable_ptrs := scan.selected_variable_ptrs ++
          variable_ptrs.filter (fun ptr => decide ((heap ptr).value = 1))
        fixed_invalid_variable_ptrs := scan.fixed_invalid_variable_ptrs ++
          variable_ptrs.filter (fun ptr =>
            decide ((heap ptr).value ≠ 0 ∧ (heap ptr).value ≠ 1) && (heap ptr).is_fixed)
        invalid_variable_ptrs := scan.invalid_variable_ptrs ++
          variable_ptrs.filter (fun ptr =>
            decide ((heap ptr).value ≠ 0 ∧ (heap ptr).value ≠ 1)) } := by
  intro variable_ptrs
  induction variable_ptrs with
  | nil => intro scan; simp [scan_selection]
  | cons p rest ih =>
    intro scan
    simp only [scan_selection, ih]
    by_cases h1 : (heap p).value = 1
    · have h0 : ¬ ((heap p).value ≠ 0 ∧ (heap p).value ≠ 1) := fun h => h.2 h1
      cases hf : (heap p).is_fixed <;> simp [h1, hf, List.filter_cons]
    · by_cases h0 : (heap p).value = 0
      · cases hf : (heap p).is_fixed <;> simp [h1, h0, hf, List.filter_cons]
      · cases hf : (heap p).is_fixed <;> simp [h1, h0, hf, List.filter_cons]

theorem set_value_set_value (v : Variable) (a b : ℤ) :
    (v.set_value a).set_value b = v.set_value b := rfl

theorem set_value_self (v : Variable) (a : ℤ) (h : v.value = a) : v.set_value a = v := by
  subst h
  rfl

theorem set_value_is_fixed (v : Variable) (a : ℤ) : (v.set_value a).is_fixed = v.is_fixed := rfl

/-- The loop over the invalid variables, none of which is fixed, resets each of them. -/
theorem correct_invalid_eq : ∀ (l : List Nat) (heap : VariableHeap),
    (∀ p ∈ l, (heap p).is_fixed = false) →
    correct_invalid l heap = fun p => if p ∈ l then (heap p).set_value 0 else heap p := by
  intro l
  induction l with
  | nil => intro heap _; simp [correct_invalid]
  | cons a l ih =>
    intro heap hfix
    have ha : (heap a).is_fixed = false := hfix a (List.mem_cons_self _ _)
    simp only [correct_invalid]
    rw [ih]
    · funext p
      by_cases hpa : p = a
      · subst hpa
        simp [at_pointer, set_value_if_not_fixed, ha, set_value_set_value]
      · by_cases hpl : p ∈ l
        · simp [at_pointer, hpa, hpl]
        · simp [at_pointer, hpa, hpl]
    · intro p hp
      by_cases hpa : p = a
      · subst hpa
        simp [at_pointer, set_value_if_not_fixed, ha, set_value_is_fixed]
      · simp only [at_pointer, hpa, if_false]
        exact hfix p (List.mem_cons_of_mem _ hp)

/-- The loop over the selected variables resets each of them but the one that is
kept, when none of the others is fixed. -/
theorem correct_selected_eq (x : Nat) : ∀ (l : List Nat) (heap : VariableHeap),
    (∀ p ∈ l, p ≠ x → (heap p).is_fixed = false) →
    correct_selected x l heap =
      fun p => if p ∈ l ∧ p ≠ x then (heap p).set_value 0 else heap p := by
  intro l
  induction l with
  | nil => intro heap _; simp [correct_selected]
  | cons a l ih =>
    intro heap hfix
    simp only [correct_selected]
    by_cases hax : a = x
    · subst hax
      simp only [ne_eq, not_true_eq_false, if_false]
      rw [ih heap (fun p hp hpx => hfix p (List.mem_cons_of_mem _ hp) hpx)]
      funext p
      by_cases hpa : p = a
      · simp [hpa]
      · simp [hpa]
    · have ha : (heap a).is_fixed = false := hfix a (List.mem_cons_self _ _) hax
      rw [if_pos hax, ih]
      · funext p
        by_cases hpa : p = a
        · subst hpa
          simp [at_pointer, set_value_if_not_fixed, ha, set_value_set_value, hax]
        · by_cases hpl : p ∈ l ∧ p ≠ x
          · simp [at_pointer, hpa, hpl]
          · simp [at_pointer, hpa, hpl]
      · intro p hp hpx
        by_cases hpa : p = a
        · subst hpa
          simp [at_pointer, set_value_if_not_fixed, ha, set_value_is_fixed]
        · simp only [at_pointer, hpa, if_false]
          exact hfix p (List.mem_cons_of_mem _ hp) hpx

/-- The loop that selects the first variable that is not fixed. -/
theorem select_first_eq : ∀ (l : List Nat) (heap : VariableHeap),
    select_first l heap =
      match (l.filter (fun ptr => !(heap ptr).is_fixed)).head? with
      | some x => (fun p => if p = x then (heap p).set_value 1 else heap p, true)
      | none => (heap, false) := by
  intro l
  induction l with
  | nil => intro heap; rfl
  | cons a l ih =>
    intro heap
    simp only [select_first]
    cases ha : (heap a).is_fixed
    · simp only [Bool.not_false, if_true, List.filter_cons, ha, List.head?_cons]
      congr 1
      funext p
      by_cases hpa : p = a
      · subst hpa
        simp [at_pointer, set_value_if_not_fixed, ha]
      · simp [at_pointer, hpa]
    · simp only [Bool.not_true, Bool.false_eq_true, if_false, List.filter_cons, ha]
      exact ih heap

end model
end cppmh

namespace cppmh
namespace model

open printemps.model_component

theorem filter_and_length_le {α : Type} (p q : α → Bool) (l : List α) :
    (l.filter (fun a => p a && q a)).length ≤ (l.filter p).length := by
  induction l with
  | nil => simp
  | cons a l ih =>
    simp only [List.filter_cons]
    cases hp : p a <;> cases hq : q a <;> simp <;> omega

theorem invalid_nil_iff (heap : VariableHeap) (g : List Nat) :
    g.filter (fun ptr => decide ((heap ptr).value ≠ 0 ∧ (heap ptr).value ≠ 1)) = [] ↔
      ∀ ptr ∈ g, (heap ptr).value = 0 ∨ (heap ptr).value = 1 := by
  rw [List.filter_eq_nil_iff]
  constructor
  · intro h ptr hp
    have := h ptr hp
    simp only [decide_eq_true_eq, not_and_or, not_not] at this
    exact this
  · intro h ptr hp
    simp only [decide_eq_true_eq, not_and_or, not_not]
    exact h ptr hp

/-- The unfolded body of the loop for one selection. -/
theorem verify_and_correct_selection_eq (correction : Bool) (heap : VariableHeap)
    (g : List Nat) :
    verify_and_correct_selection correction heap g =
      if (g.filter (fun ptr =>
          decide ((heap ptr).value ≠ 0 ∧ (heap ptr).value ≠ 1) && (heap ptr).is_fixed)).length > 0
      then none
      else if (g.filter (fun ptr =>
          decide ((heap ptr).value = 1) && (heap ptr).is_fixed)).length > 1 then none
      else
        match (if (g.filter (fun ptr =>
              decide ((heap ptr).value ≠ 0 ∧ (heap ptr).value ≠ 1))).length > 0 then
            if correction then
              some (correct_invalid (g.filter (fun ptr =>
                decide ((heap ptr).value ≠ 0 ∧ (heap ptr).value ≠ 1))) heap)
            else none
          else some heap : Option VariableHeap) with
        | none => none
        | some heap1 =>
          if (g.filter (fun ptr => decide ((heap ptr).value = 1))).length > 1 then
            if correction then
              some (at_pointer
                (correct_selected
                  (if (g.filter (fun ptr =>
                      decide ((heap ptr).value = 1) && (heap ptr).is_fixed)).length = 1 then
                    (g.filter (fun ptr =>
                      decide ((heap ptr).value = 1) && (heap ptr).is_fixed)).headD 0
                  else (g.filter (fun ptr => decide ((heap ptr).value = 1))).headD 0)
                  (g.filter (fun ptr => decide ((heap ptr).value = 1))) heap1)
                (if (g.filter (fun ptr =>
                    decide ((heap ptr).value = 1) && (heap ptr).is_fixed)).length = 1 then
                  (g.filter (fun ptr =>
                    decide ((heap ptr).value = 1) && (heap ptr).is_fixed)).headD 0
                else (g.filter (fun ptr => decide ((heap ptr).value = 1))).headD 0)
                (fun v => set_value_if_not_fixed v 1))
            else none
          else if (g.filter (fun ptr => decide ((heap ptr).value = 1))).length = 0 then
            if correction then
              if !(select_first g heap1).2 then none else some (select_first g heap1).1
            else none
          else some heap1 := by
  simp only [verify_and_correct_selection, scan_selection_eq, List.nil_append]

/-- Without correction, a selection passes exactly when one of its variables has the
value 1 and the others have the value 0, and no value changes. -/
theorem verify_selection_without_correction (heap : VariableHeap) (g : List Nat) :
    (OneSelected heap g → verify_and_correct_selection false heap g = some heap) ∧
    (¬ OneSelected heap g → verify_and_correct_selection false heap g = none) := by
  have hfs := filter_and_length_le (fun ptr => decide ((heap ptr).value = 1))
    (fun ptr => (heap ptr).is_fixed) g
  have hfi := filter_and_length_le
    (fun ptr => decide ((heap ptr).value ≠ 0 ∧ (heap ptr).value ≠ 1))
    (fun ptr => (heap ptr).is_fixed) g
  have hinv := invalid_nil_iff heap g
  rw [verify_and_correct_selection_eq]
  constructor
  · rintro ⟨h1, h2⟩
    have hi := hinv.2 h2
    rw [hi] at hfi
    simp only [List.length_nil, Nat.le_zero_eq] at hfi
    rw [if_neg (by omega), if_neg (by omega), hi]
    simp only [List.length_nil, gt_iff_lt, Nat.lt_irrefl, if_false]
    rw [if_neg (by omega), if_neg (by omega)]
  · intro hnot
    by_cases c1 : (g.filter (fun ptr =>
        decide ((heap ptr).value ≠ 0 ∧ (heap ptr).value ≠ 1) && (heap ptr).is_fixed)).length > 0
    · rw [if_pos c1]
    · rw [if_neg c1]
      by_cases c2 : (g.filter (fun ptr =>
          decide ((heap ptr).value = 1) && (heap ptr).is_fixed)).length > 1
      · rw [if_pos c2]
      · rw [if_neg c2]
        by_cases c3 : (g.filter (fun ptr =>
            decide ((heap ptr).value ≠ 0 ∧ (heap ptr).value ≠ 1))).length > 0
        · rw [if_pos c3]
          rfl
        · rw [if_neg c3]
          have hi : g.filter (fun ptr =>
              decide ((heap ptr).value ≠ 0 ∧ (heap ptr).value ≠ 1)) = [] :=
            List.length_eq_zero.1 (by omega)
          have hlen : (g.filter (fun ptr => decide ((heap ptr).value = 1))).length ≠ 1 :=
            fun h => hnot ⟨h, hinv.1 hi⟩
          simp only [Bool.false_eq_true, if_false]
          by_cases c4 : (g.filter (fun ptr => decide ((heap ptr).value = 1))).length > 1
          · rw [if_pos c4]
          · rw [if_neg c4, if_pos (by omega)]

end model
end cppmh

namespace cppmh
namespace model

open printemps.model_component

/-- The variables after the correction of the invalid values of a selection none of
whose fixed variables is invalid. -/
theorem correct_invalid_of_selection (heap : VariableHeap) (g : List Nat)
    (hfi : g.filter (fun ptr =>
      decide ((heap ptr).value ≠ 0 ∧ (heap ptr).value ≠ 1) && (heap ptr).is_fixed) = []) :
    (if (g.filter (fun ptr =>
          decide ((heap ptr).value ≠ 0 ∧ (heap ptr).value ≠ 1))).length > 0 then
        some (correct_invalid (g.filter (fun ptr =>
          decide ((heap ptr).value ≠ 0 ∧ (heap ptr).value ≠ 1))) heap)
      else some heap : Option VariableHeap) =
      some (fun p =>
        if p ∈ g ∧ (heap p).value ≠ 0 ∧ (heap p).value ≠ 1 then (heap p).set_value 0
        else heap p) := by
  have hnf : ∀ p ∈ g.filter (fun ptr =>
      decide ((heap ptr).value ≠ 0 ∧ (heap ptr).value ≠ 1)), (heap p).is_fixed = false := by
    intro p hp
    rw [List.mem_filter] at hp
    rw [List.filter_eq_nil_iff] at hfi
    have := hfi p hp.1
    cases hf : (heap p).is_fixed
    · rfl
    · simp [hp.2, hf] at this
  have heq : correct_invalid (g.filter (fun ptr =>
      decide ((heap ptr).value ≠ 0 ∧ (heap ptr).value ≠ 1))) heap =
      fun p => if p ∈ g ∧ (heap p).value ≠ 0 ∧ (heap p).value ≠ 1 then (heap p).set_value 0
        else heap p := by
    rw [correct_invalid_eq _ heap hnf]
    funext p
    simp only [List.mem_filter, decide_eq_true_eq]
  by_cases hlen : (g.filter (fun ptr =>
      decide ((heap ptr).value ≠ 0 ∧ (heap ptr).value ≠ 1))).length > 0
  · rw [if_pos hlen, heq]
  · rw [if_neg hlen]
    have hnil : g.filter (fun ptr =>
        decide ((heap ptr).value ≠ 0 ∧ (heap ptr).value ≠ 1)) = [] :=
      List.length_eq_zero.1 (by omega)
    rw [← heq, hnil]
    rfl

theorem filter_eq_self_length (g : List Nat) (x : Nat) (hnd : g.Nodup) (hx : x ∈ g) :
    (g.filter (fun ptr => decide (ptr = x))).length = 1 := by
  have h := List.count_eq_one_of_mem hnd hx
  rw [List.count, List.countP_eq_length_filter] at h
  rw [← h]
  congr 1

/-- A heap that has, in the group, the value 1 at `x` and the value 0 elsewhere. -/
theorem one_selected_of_values (heap : VariableHeap) (g : List Nat) (x : Nat) (hnd : g.Nodup)
    (hx : x ∈ g) (hv : ∀ p ∈ g, (heap p).value = if p = x then 1 else 0) :
    OneSelected heap g := by
  constructor
  · rw [← filter_eq_self_length g x hnd hx]
    congr 1
    apply List.filter_congr
    intro p hp
    rw [hv p hp]
    by_cases hpx : p = x
    · simp [hpx]
    · simp [hpx]
  · intro p hp
    rw [hv p hp]
    by_cases hpx : p = x
    · simp [hpx]
    · simp [hpx]

end model
end cppmh

namespace cppmh
namespace model

open printemps.model_component

theorem filter_head_mem {α : Type} (p : α → Bool) (l : List α) (x : α) (rest : List α)
    (h : l.filter p = x :: rest) : x ∈ l ∧ p x = true := by
  have hx : x ∈ l.filter p := by rw [h]; exact List.mem_cons_self _ _
  exact List.mem_filter.1 hx

/-- The variable that the correction keeps, when at most one fixed variable has the
value 1 and some variable has the value 1. -/
theorem kept_of_selected (heap : VariableHeap) (g : List Nat)
    (c2 : ¬ (g.filter (fun ptr =>
      decide ((heap ptr).value = 1) && (heap ptr).is_fixed)).length > 1)
    (c5 : ¬ (g.filter (fun ptr => decide ((heap ptr).value = 1))).length = 0) :
    ∃ x, (if (g.filter (fun ptr =>
          decide ((heap ptr).value = 1) && (heap ptr).is_fixed)).length = 1 then
        (g.filter (fun ptr => decide ((heap ptr).value = 1) && (heap ptr).is_fixed)).headD 0
      else (g.filter (fun ptr => decide ((heap ptr).value = 1))).headD 0) = x ∧
      kept heap g = some x ∧ x ∈ g ∧ (heap x).value = 1 ∧
      (g.filter (fun ptr => decide ((heap ptr).value = 1))).headD 0 ∈ g ∧
      (∀ p ∈ g, (heap p).is_fixed = true → (heap p).value = 1 → p = x) ∧
      ((g.filter (fun ptr => decide ((heap ptr).value = 1))).length = 1 →
        ∀ p ∈ g, (heap p).value = 1 → p = x) := by
  cases hS : g.filter (fun ptr => decide ((heap ptr).value = 1)) with
  | nil => simp [hS] at c5
  | cons a srest =>
    obtain ⟨hag, hav⟩ := filter_head_mem _ g a srest hS
    simp only [decide_eq_true_eq] at hav
    have hSmem : ∀ p ∈ g, (heap p).value = 1 → p ∈ a :: srest := by
      intro p hp hv
      rw [← hS, List.mem_filter]
      exact ⟨hp, by simp [hv]⟩
    cases hFS : g.filter (fun ptr => decide ((heap ptr).value = 1) && (heap ptr).is_fixed) with
    | nil =>
      refine ⟨a, by simp, by simp [kept, hFS, hS], hag, hav, by simpa using hag, ?_, ?_⟩
      · intro p hp hf hv
        have : p ∈ g.filter (fun ptr =>
            decide ((heap ptr).value = 1) && (heap ptr).is_fixed) := by
          rw [List.mem_filter]
          exact ⟨hp, by simp [hf, hv]⟩
        rw [hFS] at this
        exact absurd this (List.not_mem_nil _)
      · intro hlen p hp hv
        have hm := hSmem p hp hv
        have : srest = [] := List.length_eq_zero.1 (by simpa using hlen)
        rw [this] at hm
        simpa using hm
    | cons y frest =>
      have hfr : frest = [] := by
        rw [hFS] at c2
        simp only [List.length_cons, gt_iff_lt, Nat.lt_add_left_iff_pos, not_lt,
          Nat.le_zero_eq] at c2
        exact List.length_eq_zero.1 c2
      subst hfr
      obtain ⟨hyg, hyv⟩ := filter_head_mem _ g y [] hFS
      simp only [Bool.and_eq_true, decide_eq_true_eq] at hyv
      refine ⟨y, by simp, by simp [kept, hFS], hyg, hyv.1, by simpa using hag, ?_, ?_⟩
      · intro p hp hf hv
        have : p ∈ g.filter (fun ptr =>
            decide ((heap ptr).value = 1) && (heap ptr).is_fixed) := by
          rw [List.mem_filter]
          exact ⟨hp, by simp [hf, hv]⟩
        rw [hFS] at this
        simpa using this
      · intro hlen p hp hv
        have hm := hSmem p hp hv
        have hsr : srest = [] := List.length_eq_zero.1 (by simpa using hlen)
        rw [hsr] at hm
        have hy := hSmem y hyg hyv.1
        rw [hsr] at hy
        simp only [List.mem_singleton] at hm hy
        rw [hm, hy]

end model
end cppmh

namespace cppmh
namespace model

open printemps.model_component

/-- The body of the loop for one selection, with correction: when it does not throw, the
variable that is kept has the value 1, the other variables of the selection have the
value 0, nothing else is changed, and the fixed variables are as before. -/
theorem verify_selection_with_correction (heap : VariableHeap) (g : List Nat)
    (verified : VariableHeap)
    (h : verify_and_correct_selection true heap g = some verified) :
    ∃ x, kept heap g = some x ∧ x ∈ g ∧
      (∀ p, verified p =
        if p ∈ g then (heap p).set_value (if p = x then 1 else 0) else heap p) ∧
      ∀ p, (heap p).is_fixed = true → verified p = heap p := by
  rw [verify_and_correct_selection_eq] at h
  by_cases c1 : (g.filter (fun ptr =>
      decide ((heap ptr).value ≠ 0 ∧ (heap ptr).value ≠ 1) && (heap ptr).is_fixed)).length > 0
  · rw [if_pos c1] at h
    exact absurd h (by simp)
  rw [if_neg c1] at h
  by_cases c2 : (g.filter (fun ptr =>
      decide ((heap ptr).value = 1) && (heap ptr).is_fixed)).length > 1
  · rw [if_pos c2] at h
    exact absurd h (by simp)
  rw [if_neg c2] at h
  have hfi : g.filter (fun ptr =>
      decide ((heap ptr).value ≠ 0 ∧ (heap ptr).value ≠ 1) && (heap ptr).is_fixed) = [] :=
    List.length_eq_zero.1 (by omega)
  simp only [if_true] at h
  rw [correct_invalid_of_selection heap g hfi] at h
  simp only at h
  have hfixed01 : ∀ p ∈ g, (heap p).is_fixed = true →
      (heap p).value = 0 ∨ (heap p).value = 1 := by
    intro p hp hf
    rw [List.filter_eq_nil_iff] at hfi
    have := hfi p hp
    simp only [hf, Bool.and_true, decide_eq_true_eq, not_and_or, not_not] at this
    exact this
  -- the formula follows from the values in the three cases
  have hformula : ∀ x, x ∈ g → kept heap g = some x →
      (∀ p, verified p = (heap p).set_value (verified p).value) →
      (∀ p, p ∉ g → verified p = heap p) →
      (∀ p, p ∈ g → (verified p).value = if p = x then 1 else 0) →
      (∀ p, (heap p).is_fixed = true → verified p = heap p) →
      ∃ x, kept heap g = some x ∧ x ∈ g ∧
        (∀ p, verified p =
          if p ∈ g then (heap p).set_value (if p = x then 1 else 0) else heap p) ∧
        ∀ p, (heap p).is_fixed = true → verified p = heap p := by
    intro x hx hk hset hout hval hfix
    refine ⟨x, hk, hx, ?_, hfix⟩
    intro p
    by_cases hp : p ∈ g
    · rw [if_pos hp, ← hval p hp]
      exact hset p
    · rw [if_neg hp]
      exact hout p hp
  by_cases c5 : (g.filter (fun ptr => decide ((heap ptr).value = 1))).length = 0
  · -- no variable has the value 1
    have c4 : ¬ (g.filter (fun ptr => decide ((heap ptr).value = 1))).length > 1 := by omega
    rw [if_neg c4, if_pos c5, select_first_eq] at h
    have hS : g.filter (fun ptr => decide ((heap ptr).value = 1)) = [] :=
      List.length_eq_zero.1 c5
    have hno1 : ∀ p ∈ g, (heap p).value ≠ 1 := by
      intro p hp hv
      rw [List.filter_eq_nil_iff] at hS
      exact hS p hp (by simp [hv])
    have hFS : g.filter (fun ptr =>
        decide ((heap ptr).value = 1) && (heap ptr).is_fixed) = [] := by
      rw [List.filter_eq_nil_iff]
      intro p hp
      simp [hno1 p hp]
    have hfilter : g.filter (fun ptr => !((fun p =>
        if p ∈ g ∧ (heap p).value ≠ 0 ∧ (heap p).value ≠ 1 then (heap p).set_value 0
        else heap p) ptr).is_fixed) = g.filter (fun ptr => !(heap ptr).is_fixed) := by
      apply List.filter_congr
      intro p _
      dsimp only
      split_ifs <;> rfl
    rw [hfilter] at h
    cases hhead : (g.filter (fun ptr => !(heap ptr).is_fixed)).head? with
    | none =>
      rw [hhead] at h
      simp at h
    | some x =>
      rw [hhead] at h
      simp only [Bool.not_true, Bool.false_eq_true, if_false, Option.some.injEq] at h
      obtain ⟨rest, hrest⟩ : ∃ rest, g.filter (fun ptr => !(heap ptr).is_fixed) = x :: rest := by
        cases hl : g.filter (fun ptr => !(heap ptr).is_fixed) with
        | nil => simp [hl] at hhead
        | cons a rest =>
          rw [hl] at hhead
          simp only [List.head?_cons, Option.some.injEq] at hhead
          exact ⟨rest, by rw [hhead]⟩
      obtain ⟨hxg, hxf⟩ := filter_head_mem _ g x rest hrest
      simp only [Bool.not_eq_true'] at hxf
      apply hformula x hxg (by simp [kept, hFS, hS, hhead])
      · intro p
        rw [← h]
        dsimp only
        split_ifs <;> rfl
      · intro p hp
        rw [← h]
        have hpx : p ≠ x := fun e => hp (e ▸ hxg)
        simp [hpx, hp]
      · intro p hp
        rw [← h]
        by_cases hpx : p = x
        · simp [hpx]
          split_ifs <;> rfl
        · simp only [hpx, if_false, hp, true_and]
          by_cases hinv : (heap p).value ≠ 0 ∧ (heap p).value ≠ 1
          · rw [if_pos hinv]
            rfl
          · rw [if_neg hinv]
            simp only [not_and_or, not_not] at hinv
            rcases hinv with h0 | h1
            · exact h0
            · exact absurd h1 (hno1 p hp)
      · intro p hf
        rw [← h]
        have hpx : p ≠ x := fun e => by rw [e, hxf] at hf; exact absurd hf (by decide)
        simp only [hpx, if_false]
        by_cases hp : p ∈ g
        · rcases hfixed01 p hp hf with h0 | h1
          · simp [h0]
          · exact absurd h1 (hno1 p hp)
        · simp [hp]
  · -- some variable has the value 1
    obtain ⟨x, hxeq, hk, hxg, hxv, _, hxfixed, hxonly⟩ := kept_of_selected heap g c2 c5
    have hx_not_invalid : ¬ ((heap x).value ≠ 0 ∧ (heap x).value ≠ 1) := fun hh => hh.2 hxv
    by_cases c4 : (g.filter (fun ptr => decide ((heap ptr).value = 1))).length > 1
    · rw [if_pos c4, hxeq] at h
      simp only [Option.some.injEq] at h
      rw [correct_selected_eq] at h
      · apply hformula x hxg hk
        · intro p
          rw [← h]
          simp only [at_pointer, set_value_if_not_fixed]
          split_ifs <;> rfl
        · intro p hp
          rw [← h]
          have hpx : p ≠ x := fun e => hp (e ▸ hxg)
          simp [at_pointer, hpx, hp, List.mem_filter]
        · intro p hp
          rw [← h]
          by_cases hpx : p = x
          · subst hpx
            simp only [at_pointer, set_value_if_not_fixed, if_true, ne_eq, not_true_eq_false,
              and_false, if_false, hx_not_invalid]
            split_ifs
            · exact hxv
            · rfl
          · simp only [at_pointer, hpx, if_false, List.mem_filter, decide_eq_true_eq, hp,
              true_and, ne_eq, not_false_eq_true, and_true]
            by_cases hv1 : (heap p).value = 1
            · simp [hv1]
              rfl
            · simp only [hv1, if_false]
              by_cases hv0 : (heap p).value = 0
              · simp [hv0]
              · simp [hv0, hv1]
                rfl
        · intro p hf
          rw [← h]
          by_cases hp : p ∈ g
          · rcases hfixed01 p hp hf with h0 | h1
            · have hpx : p ≠ x := fun e => by rw [e, hxv] at h0; exact absurd h0 (by decide)
              simp [at_pointer, hpx, List.mem_filter, h0]
            · have hpx : p = x := hxfixed p hp hf h1
              subst hpx
              simp [at_pointer, set_value_if_not_fixed, hf, hxv]
          · have hpx : p ≠ x := fun e => hp (e ▸ hxg)
            simp [at_pointer, hpx, List.mem_filter, hp]
      · intro p hp hpx
        rw [List.mem_filter] at hp
        obtain ⟨hpg, hpv⟩ := hp
        simp only [decide_eq_true_eq] at hpv
        have hni : ¬ (p ∈ g ∧ (heap p).value ≠ 0 ∧ (heap p).value ≠ 1) := fun hh => hh.2.2 hpv
        simp only [hni, if_false]
        cases hf : (heap p).is_fixed
        · rfl
        · exact absurd (hxfixed p hpg hf hpv) hpx
    · rw [if_neg c4, if_neg c5] at h
      simp only [Option.some.injEq] at h
      have hone := hxonly (by omega)
      apply hformula x hxg hk
      · intro p
        rw [← h]
        dsimp only
        split_ifs <;> rfl
      · intro p hp
        rw [← h]
        simp [hp]
      · intro p hp
        rw [← h]
        by_cases hpx : p = x
        · subst hpx
          simp [hxv]
        · simp only [hp, true_and, hpx, if_false]
          by_cases hinv : (heap p).value ≠ 0 ∧ (heap p).value ≠ 1
          · rw [if_pos hinv]
            rfl
          · rw [if_neg hinv]
            simp only [not_and_or, not_not] at hinv
            rcases hinv with h0 | h1
            · exact h0
            · exact absurd (hone p hp h1) hpx
      · intro p hf
        rw [← h]
        by_cases hp : p ∈ g
        · rcases hfixed01 p hp hf with h0 | h1
          · simp [h0]
          · simp [h1]
        · simp [hp]

end model
end cppmh

namespace cppmh
namespace model

open printemps.model_component

theorem kept_congr (heap1 heap2 : VariableHeap) (g : List Nat)
    (h : ∀ p ∈ g, heap1 p = heap2 p) : kept heap1 g = kept heap2 g := by
  have e1 : g.filter (fun ptr => decide ((heap1 ptr).value = 1) && (heap1 ptr).is_fixed) =
      g.filter (fun ptr => decide ((heap2 ptr).value = 1) && (heap2 ptr).is_fixed) :=
    List.filter_congr (fun p hp => by rw [h p hp])
  have e2 : g.filter (fun ptr => decide ((heap1 ptr).value = 1)) =
      g.filter (fun ptr => decide ((heap2 ptr).value = 1)) :=
    List.filter_congr (fun p hp => by rw [h p hp])
  have e3 : g.filter (fun ptr => !(heap1 ptr).is_fixed) =
      g.filter (fun ptr => !(heap2 ptr).is_fixed) :=
    List.filter_congr (fun p hp => by rw [h p hp])
  simp only [kept, e1, e2, e3]

/-- The loop over the selections, with correction, for selections that share no
variable. -/
theorem verify_selections_with_correction : ∀ (selections : List (List Nat))
    (heap verified : VariableHeap), selections.flatten.Nodup →
    verify_and_correct_selection_variables_initial_values true selections heap =
      some verified →
    (∀ g ∈ selections, OneSelected verified g ∧
      ∃ x, kept heap g = some x ∧ x ∈ g ∧
        ∀ p ∈ g, verified p = (heap p).set_value (if p = x then 1 else 0)) ∧
    (∀ p, (heap p).is_fixed = true → verified p = heap p) ∧
    ∀ p, p ∉ selections.flatten → verified p = heap p := by
  intro selections
  induction selections with
  | nil =>
    intro heap verified _ h
    simp only [verify_and_correct_selection_variables_initial_values, Option.some.injEq] at h
    subst h
    exact ⟨fun g hg => absurd hg (List.not_mem_nil g), fun _ _ => rfl, fun _ _ => rfl⟩
  | cons g rest ih =>
    intro heap verified hnd h
    simp only [List.flatten_cons] at hnd
    rw [List.nodup_append] at hnd
    obtain ⟨hg, hrest, hdisj⟩ := hnd
    simp only [verify_and_correct_selection_variables_initial_values] at h
    cases hsel : verify_and_correct_selection true heap g with
    | none =>
      rw [hsel] at h
      exact absurd h (by simp)
    | some heap1 =>
      rw [hsel] at h
      simp only at h
      obtain ⟨x, hk, hxg, hform, hfix1⟩ := verify_selection_with_correction heap g heap1 hsel
      obtain ⟨hgroups, hfix, hframe⟩ := ih heap1 verified hrest h
      have hout : ∀ p, p ∈ rest.flatten → heap1 p = heap p := by
        intro p hp
        have hpg : p ∉ g := fun hpg => hdisj hpg hp
        rw [hform p, if_neg hpg]
      have hin : ∀ p ∈ g, verified p = heap1 p := fun p hp =>
        hframe p (fun hpr => hdisj hp hpr)
      have hval : ∀ p ∈ g, (verified p).value = if p = x then 1 else 0 := by
        intro p hp
        rw [hin p hp, hform p, if_pos hp]
        rfl
      refine ⟨?_, ?_, ?_⟩
      · intro g' hg'
        rcases List.mem_cons.1 hg' with e | hmem
        · subst e
          refine ⟨one_selected_of_values verified g' x hg hxg hval, x, hk, hxg, ?_⟩
          intro p hp
          rw [hin p hp, hform p, if_pos hp]
        · obtain ⟨hone, y, hky, hyg, hy⟩ := hgroups g' hmem
          have hsame : ∀ p ∈ g', heap1 p = heap p := fun p hp =>
            hout p (List.mem_flatten.2 ⟨g', hmem, hp⟩)
          refine ⟨hone, y, ?_, hyg, ?_⟩
          · rw [← hky]
            symm
            exact kept_congr heap1 heap g' hsame
          · intro p hp
            rw [hy p hp, hsame p hp]
      · intro p hf
        have h1 := hfix1 p hf
        rw [hfix p (by rw [h1]; exact hf), h1]
      · intro p hp
        simp only [List.flatten_cons, List.mem_append, not_or] at hp
        rw [hframe p hp.2, hform p, if_neg hp.1]

end model
end cppmh

namespace printemps
namespace solver
namespace lagrange_dual
namespace core
namespace LagrangeDualCore

open model_component model

theorem set_lower_or_upper_bound_value (v : Variable) (b : Bool) :
    (v.set_lower_or_upper_bound b).value = if b then v.lower_bound else v.upper_bound := by
  cases b <;> rfl

theorem set_lower_or_upper_bound_is_fixed (v : Variable) (b : Bool) :
    (v.set_lower_or_upper_bound b).is_fixed = v.is_fixed := by
  cases b <;> rfl

theorem set_lower_or_upper_bound_twice (v : Variable) (b c : Bool) :
    (v.set_lower_or_upper_bound b).set_lower_or_upper_bound c =
      v.set_lower_or_upper_bound c := by
  cases b <;> cases c <;> rfl

theorem coefficient_set_lower_or_upper_bound (v : Variable) (b : Bool)
    (dual : ConstraintPtr → ℚ) (SIGN : ℚ) :
    coefficient (v.set_lower_or_upper_bound b) dual SIGN = coefficient v dual SIGN := by
  cases b <;> rfl

/-- The variable at an address after the loop of the primal update. -/
theorem update_primal_apply (dual : ConstraintPtr → ℚ) (SIGN : ℚ) (is_minimization : Bool) :
    ∀ (variable_ptrs : List Nat) (heap : VariableHeap) (ptr : Nat),
    update_primal dual SIGN is_minimization variable_ptrs heap ptr =
      if ptr ∈ variable_ptrs ∧ (heap ptr).is_fixed = false then
        (heap ptr).set_lower_or_upper_bound
          (decide (coefficient (heap ptr) dual SIGN > 0) == is_minimization)
      else heap ptr := by
  intro variable_ptrs
  induction variable_ptrs with
  | nil =>
    intro heap ptr
    simp [update_primal]
  | cons v rest ih =>
    intro heap ptr
    by_cases hf : (heap v).is_fixed = true
    · rw [update_primal, if_pos hf, ih]
      by_cases hp : ptr = v
      · subst hp
        rw [if_neg (by simp [hf]), if_neg (by simp [hf])]
      · simp only [List.mem_cons, hp, false_or]
    · rw [update_primal, if_neg hf, ih]
      have hf2 : (heap v).is_fixed = false := by simpa using hf
      by_cases hp : ptr = v
      · subst hp
        simp only [if_true, List.mem_cons, true_or, true_and, hf2,
          set_lower_or_upper_bound_is_fixed, and_true,
          coefficient_set_lower_or_upper_bound, set_lower_or_upper_bound_twice]
        split <;> rfl
      · simp only [List.mem_cons, hp, false_or, if_false]

end LagrangeDualCore
end core
end lagrange_dual
end solver
end printemps

namespace cppmh
namespace solver
namespace lagrange_dual

open printemps.model_component

/-- One step of the four branches of `solve`. -/
theorem update_primal_step (dual : ConstraintPtr → ℚ) (sign : ℚ) (is_minimization : Bool)
    (heap : VariableHeap) (v : Nat) :
    (if coefficient (heap v) dual sign > 0 then
        if is_minimization then
          model.at_pointer heap v
            (fun x => model.set_value_if_not_fixed x (heap v).lower_bound)
        else
          model.at_pointer heap v
            (fun x => model.set_value_if_not_fixed x (heap v).upper_bound)
      else
        if is_minimization then
          model.at_pointer heap v
            (fun x => model.set_value_if_not_fixed x (heap v).upper_bound)
        else
          model.at_pointer heap v
            (fun x => model.set_value_if_not_fixed x (heap v).lower_bound)) =
      if (heap v).is_fixed then heap
      else fun ptr =>
        if ptr = v then
          (heap ptr).set_lower_or_upper_bound
            (decide (printemps.solver.lagrange_dual.core.LagrangeDualCore.coefficient
              (heap v) dual sign > 0) == is_minimization)
        else heap ptr := by
  have hc : coefficient (heap v) dual sign =
      printemps.solver.lagrange_dual.core.LagrangeDualCore.coefficient (heap v) dual sign :=
    rfl
  rw [hc]
  funext ptr
  by_cases hp : ptr = v
  · subst hp
    by_cases hf : (heap ptr).is_fixed = true <;>
      by_cases hpos : printemps.solver.lagrange_dual.core.LagrangeDualCore.coefficient
        (heap ptr) dual sign > 0 <;> cases is_minimization <;>
      simp [hpos, model.at_pointer, model.set_value_if_not_fixed, hf,
        Variable.set_lower_or_upper_bound]
  · by_cases hf : (heap v).is_fixed = true <;>
      by_cases hpos : printemps.solver.lagrange_dual.core.LagrangeDualCore.coefficient
        (heap v) dual sign > 0 <;> cases is_minimization <;>
      simp [hpos, model.at_pointer, hf, hp]

/-- The four branches of `solve` set the variables as the single call of the core of
`printemps` does. -/
theorem update_primal_eq_core (dual : ConstraintPtr → ℚ) (sign : ℚ) (is_minimization : Bool) :
    ∀ (variable_ptrs : List Nat) (heap : VariableHeap),
    update_primal dual sign is_minimization variable_ptrs heap =
      printemps.solver.lagrange_dual.core.LagrangeDualCore.update_primal dual sign
        is_minimization variable_ptrs heap := by
  intro variable_ptrs
  induction variable_ptrs with
  | nil => intro heap; rfl
  | cons v rest ih =>
    intro heap
    rw [update_primal, printemps.solver.lagrange_dual.core.LagrangeDualCore.update_primal,
      update_primal_step, ih]
    by_cases hf : (heap v).is_fixed = true
    · rw [if_pos hf, if_pos hf]
    · rw [if_neg hf, if_neg hf]

end lagrange_dual
end solver
end cppmh

namespace printemps
namespace solver
namespace lagrange_dual
namespace core
namespace LagrangeDualCore

open model_component model

theorem foldl_coefficient (dual : ConstraintPtr → ℚ) (SIGN : ℚ) :
    ∀ (L : List (ConstraintPtr × ℚ)) (init : ℚ),
    L.foldl (fun coefficient item => coefficient + dual item.1 * item.2 * SIGN) init =
      init + SIGN * (L.map (fun item => dual item.1 * item.2)).sum := by
  intro L
  induction L with
  | nil => intro init; simp
  | cons a L ih =>
    intro init
    simp only [List.foldl_cons, List.map_cons, List.sum_cons, ih]
    ring

theorem sum_list_eq_sum_range_of_zero (n : Nat) (f : Nat → ℚ) (L : List Nat) (hnd : L.Nodup)
    (hvalid : ∀ i ∈ L, i < n) (hout : ∀ i, i < n → i ∉ L → f i = 0) :
    (L.map f).sum = ∑ i in Finset.range n, f i := by
  rw [← List.sum_toFinset _ hnd]
  apply Finset.sum_subset
  · intro i hi
    exact Finset.mem_range.mpr (hvalid i (List.mem_toFinset.mp hi))
  · intro i hi hni
    exact hout i (Finset.mem_range.mp hi) (fun h => hni (List.mem_toFinset.mpr h))

/-- The coefficient that the primal update computes for a variable is its objective
sensitivity plus `SIGN` times the sum over the constraints of the multiplier times the
coefficient of the variable in the constraint. -/
theorem coefficient_eq (mdl : Model) (dual : ConstraintPtr → ℚ) (SIGN : ℚ) (ptr : Nat)
    (hs : mdl.SensitivitiesOf ptr)
    (hk : ∀ c ∈ mdl.constraints, (c.m_expression.m_sensitivities.map Prod.fst).Nodup) :
    coefficient (mdl.m_variable_proxies ptr) dual SIGN =
      (mdl.m_variable_proxies ptr).objective_sensitivity +
        SIGN * ∑ c in Finset.range mdl.constraints.length,
          dual c * (mdl.constraint c).m_expression.coefficient ptr := by
  rw [coefficient, foldl_coefficient]
  congr 2
  have h1 : (mdl.m_variable_proxies ptr).constraint_sensitivities.map
      (fun item => dual item.1 * item.2) =
      ((mdl.m_variable_proxies ptr).constraint_sensitivities.map Prod.fst).map
        (fun c => dual c * (mdl.constraint c).m_expression.coefficient ptr) := by
    rw [List.map_map]
    apply List.map_congr_left
    intro item hitem
    obtain ⟨hlt, hmem⟩ := (hs.listed item.1 item.2).mp hitem
    simp only [Function.comp]
    rw [Expression.coefficient_of_mem _ ptr item.2
      (hk _ (Model.constraint_mem mdl _ hlt)) hmem]
  rw [h1]
  apply sum_list_eq_sum_range_of_zero _ _ _ hs.nodup
  · intro i hi
    obtain ⟨item, hitem, rfl⟩ := List.mem_map.mp hi
    exact ((hs.listed item.1 item.2).mp hitem).1
  · intro i hi hni
    rw [Model.unlisted_coefficient mdl ptr hs i hi hni, mul_zero]

/-- The value of an expression as a sum over a list that has its variables. -/
theorem evaluate_eq_sum_over (e : Expression) (heap : VariableHeap) (variable_ptrs : List Nat)
    (hk : (e.m_sensitivities.map Prod.fst).Nodup)
    (hv : ∀ s ∈ e.m_sensitivities, s.1 ∈ variable_ptrs) :
    e.evaluate heap = e.m_constant_value +
      ∑ ptr in variable_ptrs.toFinset, e.coefficient ptr * ((heap ptr).value : ℚ) := by
  rw [Expression.evaluate_eq_sum]
  congr 1
  have h1 : e.m_sensitivities.map (fun s => s.2 * ((heap s.1).value : ℚ)) =
      (e.m_sensitivities.map Prod.fst).map
        (fun ptr => e.coefficient ptr * ((heap ptr).value : ℚ)) := by
    rw [List.map_map]
    apply List.map_congr_left
    intro s hs
    simp only [Function.comp]
    rw [Expression.coefficient_of_mem e s.1 s.2 hk hs]
  rw [h1, ← List.sum_toFinset _ hk]
  apply Finset.sum_subset
  · intro i hi
    obtain ⟨s, hs, rfl⟩ := List.mem_map.mp (List.mem_toFinset.mp hi)
    exact List.mem_toFinset.mpr (hv s hs)
  · intro i _ hni
    rw [Expression.coefficient_of_not_mem e i, zero_mul]
    intro c hc
    exact hni (List.mem_toFinset.mpr (List.mem_map.mpr ⟨(i, c), hc, rfl⟩))

/-- The Lagrangian is a constant plus, for every variable, its value times
`sign * c + Σ λ a`. -/
theorem lagrangian_eq (mdl : Model) (dual : ConstraintPtr → ℚ) (heap : VariableHeap)
    (variable_ptrs : List Nat) (hs : SensitivitiesSetUp mdl variable_ptrs) :
    lagrangian mdl dual heap =
      (mdl.sign * mdl.m_objective.m_expression.m_constant_value +
        ∑ c in Finset.range mdl.constraints.length,
          dual c * (mdl.constraint c).m_expression.m_constant_value) +
      ∑ ptr in variable_ptrs.toFinset,
        (mdl.sign * mdl.m_objective.m_expression.coefficient ptr +
          ∑ c in Finset.range mdl.constraints.length,
            dual c * (mdl.constraint c).m_expression.coefficient ptr) *
          ((heap ptr).value : ℚ) := by
  have hrange : (List.range mdl.constraints.length).toFinset =
      Finset.range mdl.constraints.length := by
    ext i
    simp
  rw [lagrangian, evaluate_eq_sum_over _ heap variable_ptrs hs.objective_keys
    hs.objective_listed, ← List.sum_toFinset _ (List.nodup_range _), hrange]
  have h1 : ∀ c ∈ Finset.range mdl.constraints.length,
      dual c * (mdl.constraint c).m_expression.evaluate heap =
        dual c * (mdl.constraint c).m_expression.m_constant_value +
          ∑ ptr in variable_ptrs.toFinset,
            dual c * (mdl.constraint c).m_expression.coefficient ptr *
              ((heap ptr).value : ℚ) := by
    intro c hc
    have hmem := Model.constraint_mem mdl c (Finset.mem_range.mp hc)
    rw [evaluate_eq_sum_over _ heap variable_ptrs (hs.constraint_keys _ hmem)
      (hs.constraints_listed _ hmem), mul_add, Finset.mul_sum]
    congr 1
    apply Finset.sum_congr rfl
    intro ptr _
    ring
  rw [Finset.sum_congr rfl h1, Finset.sum_add_distrib, Finset.sum_comm, mul_add,
    Finset.mul_sum]
  have h2 : ∀ ptr ∈ variable_ptrs.toFinset,
      (mdl.sign * mdl.m_objective.m_expression.coefficient ptr +
          ∑ c in Finset.range mdl.constraints.length,
            dual c * (mdl.constraint c).m_expression.coefficient ptr) *
          ((heap ptr).value : ℚ) =
        mdl.sign * (mdl.m_objective.m_expression.coefficient ptr * ((heap ptr).value : ℚ)) +
          ∑ c in Finset.range mdl.constraints.length,
            dual c * (mdl.constraint c).m_expression.coefficient ptr *
              ((heap ptr).value : ℚ) := by
    intro ptr _
    rw [add_mul, Finset.sum_mul]
    ring
  rw [Finset.sum_congr rfl h2, Finset.sum_add_distrib]
  ring

end LagrangeDualCore
end core
end lagrange_dual
end solver
end printemps

namespace printemps
namespace solver
namespace lagrange_dual
namespace core
namespace LagrangeDualCore

open model_component model

/-- The term of a variable in the Lagrangian is least at the bound that the primal
update chooses. -/
theorem chosen_bound_le (is_minimization : Bool) (objective_sensitivity S : ℚ)
    (lower_bound upper_bound value : ℤ) (hl : lower_bound ≤ value) (hu : value ≤ upper_bound) :
    ((if is_minimization then 1 else -1) * objective_sensitivity + S) *
        (((if (decide (objective_sensitivity +
            (if is_minimization then 1 else -1) * S > 0) == is_minimization) then lower_bound
          else upper_bound : ℤ) : ℚ)) ≤
      ((if is_minimization then 1 else -1) * objective_sensitivity + S) * (value : ℚ) := by
  have hl2 : (lower_bound : ℚ) ≤ (value : ℚ) := by exact_mod_cast hl
  have hu2 : (value : ℚ) ≤ (upper_bound : ℚ) := by exact_mod_cast hu
  cases is_minimization
  · by_cases hpos : objective_sensitivity + -1 * S > 0
    · simp only [Bool.false_eq_true, if_false, hpos, decide_True, beq_iff_eq]
      apply mul_le_mul_of_nonpos_left hu2
      linarith
    · simp only [Bool.false_eq_true, if_false, hpos, decide_False, beq_self_eq_true, if_true]
      apply mul_le_mul_of_nonneg_left hl2
      linarith
  · by_cases hpos : objective_sensitivity + 1 * S > 0
    · simp only [if_true, hpos, decide_True, beq_self_eq_true]
      apply mul_le_mul_of_nonneg_left hl2
      linarith
    · simp only [if_true, hpos, decide_False, beq_iff_eq, Bool.false_eq_true, if_false]
      apply mul_le_mul_of_nonpos_left hu2
      linarith

/-- The assignment of the primal update has the least Lagrangian among the
assignments within the bounds. -/
theorem update_primal_le (mdl : Model) (dual : ConstraintPtr → ℚ) (variable_ptrs : List Nat)
    (hs : SensitivitiesSetUp mdl variable_ptrs) (other : VariableHeap)
    (ho : Admissible mdl.m_variable_proxies other variable_ptrs) :
    lagrangian mdl dual (update_primal dual mdl.sign mdl.m_is_minimization variable_ptrs
      mdl.m_variable_proxies) ≤ lagrangian mdl dual other := by
  rw [lagrangian_eq mdl dual _ variable_ptrs hs, lagrangian_eq mdl dual other variable_ptrs hs]
  apply add_le_add_left
  apply Finset.sum_le_sum
  intro ptr hptr
  have hmem : ptr ∈ variable_ptrs := List.mem_toFinset.mp hptr
  have hadm := ho ptr
  rw [update_primal_apply]
  by_cases hf : (mdl.m_variable_proxies ptr).is_fixed = false
  · rw [if_pos ⟨hmem, hf⟩] at hadm
    rw [if_pos ⟨hmem, hf⟩, set_lower_or_upper_bound_value,
      coefficient_eq mdl dual mdl.sign ptr (hs.constraints ptr) hs.constraint_keys,
      hs.objective ptr]
    exact chosen_bound_le mdl.m_is_minimization _ _ _ _ _ hadm.1 hadm.2
  · rw [if_neg (fun h => hf h.2)] at hadm
    rw [if_neg (fun h => hf h.2), hadm]

/-- The assignment of the primal update is within the bounds, when no lower bound
exceeds the upper bound. -/
theorem update_primal_admissible (dual : ConstraintPtr → ℚ) (SIGN : ℚ)
    (is_minimization : Bool) (variable_ptrs : List Nat) (heap : VariableHeap)
    (hb : ∀ ptr ∈ variable_ptrs, (heap ptr).lower_bound ≤ (heap ptr).upper_bound) :
    Admissible heap (update_primal dual SIGN is_minimization variable_ptrs heap)
      variable_ptrs := by
  intro ptr
  rw [update_primal_apply]
  by_cases h : ptr ∈ variable_ptrs ∧ (heap ptr).is_fixed = false
  · rw [if_pos h, if_pos h, set_lower_or_upper_bound_value]
    have := hb ptr h.1
    split
    · exact ⟨le_refl _, this⟩
    · exact ⟨this, le_refl _⟩
  · rw [if_neg h, if_neg h]

end LagrangeDualCore
end core
end lagrange_dual
end solver
end printemps

namespace printemps
namespace examples

open model_component neighborhood solution model cppmh.model

theorem expression_of_table (sensitivities : List (Nat × ℚ)) (k v : ℚ)
    (h : (sensitivities.map Prod.fst).Nodup) : (expression_of sensitivities k v).TableSetUp 64 :=
  ⟨h, FixedSizeHashMap.setup_eq_some_getD _ 64 h _⟩

theorem single_model_constraints (a : ℚ) :
    (single_model a).constraints = [less_constraint (expression_of [(64, a)] 0 0)] := rfl

theorem single_model_consistent (a : ℚ) : (single_model a).Consistent 64 := by
  constructor
  · intro c hc _
    rw [single_model_constraints, List.mem_singleton] at hc
    subst hc
    refine ⟨expression_of_table _ _ _ (by simp), ?_, rfl, rfl, rfl⟩
    simp [expression_of, less_constraint, Expression.evaluate, Expression.create_instance,
      Expression.initialize_, single_model, single_heap, plain_variable]
  · intro h
    simp [single_model] at h

theorem single_model_current (a : ℚ) : (single_model a).IsCurrentScore zero_score := by
  obtain ⟨score, hscore, hpair, _⟩ := Model.evaluate_eq (single_model a) Move.empty 64
    (single_model_consistent a) (fun c => c.m_constraint_value)
    (fun c hc he => Model.evaluate_constraint_empty c _ 64
      ((single_model_consistent a).constraints c hc he))
  refine ⟨score, hscore, ?_, ?_⟩
  · have := congrArg Prod.fst hpair
    simp [single_model_constraints, less_constraint, expression_of, Constraint.violation_term,
      Constraint.is_enabled, Constraint.is_less_or_equal, Constraint.is_greater_or_equal] at this
    rw [this]
    rfl
  · have := congrArg Prod.snd hpair
    simp [single_model_constraints, less_constraint, expression_of, Constraint.violation_term,
      Constraint.is_enabled, Constraint.is_less_or_equal, Constraint.is_greater_or_equal] at this
    rw [this]
    rfl

theorem single_model_move (a : ℚ) : (single_model a).SingleMove flip_move 64 1 := by
  refine ⟨rfl, ⟨by simp [single_model, single_heap, plain_variable], ?_⟩, by decide, ?_, ?_⟩
  · intro ptr coefficient
    simp only [single_model_constraints, List.length_singleton, Nat.lt_one_iff]
    constructor
    · intro h
      simp [single_model, single_heap, plain_variable] at h
      obtain ⟨rfl, rfl⟩ := h
      refine ⟨rfl, ?_⟩
      simp [Model.constraint, single_model_constraints, less_constraint, expression_of,
        Expression.create_instance]
    · rintro ⟨rfl, h⟩
      simp [Model.constraint, single_model_constraints, less_constraint, expression_of,
        Expression.create_instance] at h
      simp [single_model, single_heap, plain_variable, h]
  · intro ptr
    simp [flip_move, single_model, single_heap, plain_variable, plain_move]
  · intro sc hsc
    simp [single_model, single_heap, plain_variable] at hsc
    subst hsc
    exact ⟨rfl, rfl⟩

theorem single_model_evaluate_constraint (a : ℚ) :
    (less_constraint (expression_of [(64, a)] 0 0)).evaluate_constraint (single_heap a)
      flip_move = some a := by
  have hup : (less_constraint (expression_of [(64, a)] 0 0)).UpToDate (single_heap a) 64 :=
    (single_model_consistent a).constraints _ (List.mem_singleton.mpr rfl) rfl
  rw [Model.evaluate_constraint_single _ (single_heap a) flip_move 64 64 1 hup rfl]
  simp [less_constraint, expression_of, Expression.coefficient, Expression.create_instance,
    single_heap, plain_variable]

theorem single_model_evaluate_single (a : ℚ) (h : 0 ≤ a) :
    ∃ s1, (single_model a).evaluate_single flip_move zero_score = some s1 ∧
      s1.total_violation = a := by
  refine ⟨(single_model a).fill_score 0 a a true, ?_, rfl⟩
  simp [Model.evaluate_single, flip_move, plain_move, Model.evaluate_single_loop,
    Model.sensitivity_step, Model.objective_after, single_model, single_heap, plain_variable,
    Model.constraint, Model.constraints, less_constraint, expression_of, zero_score,
    Constraint.is_evaluation_ignorable, Constraint.is_less_or_equal,
    Constraint.is_greater_or_equal, Constraint.constraint_value, Constraint.positive_part,
    Constraint.local_penalty_coefficient_less, h]

theorem single_model_evaluate_multi_tiny :
    ∃ s2, (single_model (1 / 10 ^ 11)).evaluate_multi flip_move zero_score = some s2 ∧
      s2.total_violation = 0 := by
  refine ⟨(single_model (1 / 10 ^ 11)).fill_score 0 0 0 false, ?_, rfl⟩
  have hc : (single_model (1 / 10 ^ 11)).constraint 0 =
    less_constraint (expression_of [(64, 1 / 10 ^ 11)] 0 0) := rfl
  have hh : (single_model (1 / 10 ^ 11)).m_variable_proxies = single_heap (1 / 10 ^ 11) := rfl
  have hr : flip_move.related_constraint_ptrs = [0] := rfl
  have ho : (single_model (1 / 10 ^ 11)).objective_after flip_move = some 0 := rfl
  simp only [Model.evaluate_multi, hr, Model.evaluate_multi_loop, hc, hh, Model.multi_step,
    single_model_evaluate_constraint, ho]
  norm_num [less_constraint, expression_of, Constraint.is_enabled, Constraint.constraint_value,
    constant.EPSILON_10, zero_score, abs_of_pos]

end examples
end printemps

namespace printemps
namespace examples

open model_component neighborhood solution model cppmh.model

theorem lt_two (k : Nat) (h : k < 2) : k = 0 ∨ k = 1 := by omega

theorem swap_model_constraints (a : ℚ) :
    (swap_model a).constraints =
      [less_constraint (expression_of [(64, a)] 0 a),
        less_constraint (expression_of [(128, 1)] 0 0)] := rfl

theorem swap_model_consistent (a : ℚ) : (swap_model a).Consistent 64 := by
  constructor
  · intro c hc _
    rw [swap_model_constraints] at hc
    simp only [List.mem_cons, List.mem_singleton, List.not_mem_nil, or_false] at hc
    rcases hc with rfl | rfl
    · refine ⟨expression_of_table _ _ _ (by simp), ?_, rfl, rfl, rfl⟩
      simp [expression_of, less_constraint, Expression.evaluate, Expression.create_instance,
        Expression.initialize_, swap_model, swap_heap, plain_variable]
    · refine ⟨expression_of_table _ _ _ (by simp), ?_, rfl, rfl, rfl⟩
      simp [expression_of, less_constraint, Expression.evaluate, Expression.create_instance,
        Expression.initialize_, swap_model, swap_heap, plain_variable]
  · intro h
    simp [swap_model] at h

theorem swap_model_sensitivities_first (a : ℚ) : (swap_model a).SensitivitiesOf 64 := by
  refine ⟨by simp [swap_model, swap_heap, plain_variable], ?_⟩
  intro ptr coefficient
  have hs : ((swap_model a).m_variable_proxies 64).constraint_sensitivities = [(0, a)] := rfl
  rw [hs, swap_model_constraints]
  simp only [List.mem_singleton, Prod.mk.injEq, List.length_cons, List.length_nil]
  constructor
  · rintro ⟨rfl, rfl⟩
    refine ⟨by decide, ?_⟩
    simp [Model.constraint, swap_model_constraints, less_constraint, expression_of,
      Expression.create_instance]
  · rintro ⟨hlt, hmem⟩
    have hp : ptr = 0 ∨ ptr = 1 := lt_two ptr hlt
    rcases hp with rfl | rfl
    · simp [Model.constraint, swap_model_constraints, less_constraint, expression_of,
        Expression.create_instance] at hmem
      exact ⟨rfl, hmem⟩
    · simp [Model.constraint, swap_model_constraints, less_constraint, expression_of,
        Expression.create_instance] at hmem

theorem swap_model_sensitivities_second (a : ℚ) : (swap_model a).SensitivitiesOf 128 := by
  refine ⟨by simp [swap_model, swap_heap, plain_variable], ?_⟩
  intro ptr coefficient
  have hs : ((swap_model a).m_variable_proxies 128).constraint_sensitivities = [(1, 1)] := rfl
  rw [hs, swap_model_constraints]
  simp only [List.mem_singleton, Prod.mk.injEq, List.length_cons, List.length_nil]
  constructor
  · rintro ⟨rfl, rfl⟩
    refine ⟨by decide, ?_⟩
    simp [Model.constraint, swap_model_constraints, less_constraint, expression_of,
      Expression.create_instance]
  · rintro ⟨hlt, hmem⟩
    have hp : ptr = 0 ∨ ptr = 1 := lt_two ptr hlt
    rcases hp with rfl | rfl
    · simp [Model.constraint, swap_model_constraints, less_constraint, expression_of,
        Expression.create_instance] at hmem
    · simp [Model.constraint, swap_model_constraints, less_constraint, expression_of,
        Expression.create_instance] at hmem
      exact ⟨rfl, hmem⟩

theorem swap_model_move (a : ℚ) :
    (swap_model a).SelectionMove swap_move 64 128 0 1 swap_selection := by
  have hs1 : ((swap_model a).m_variable_proxies 64).constraint_sensitivities = [(0, a)] := rfl
  have hs2 : ((swap_model a).m_variable_proxies 128).constraint_sensitivities = [(1, 1)] := rfl
  refine
    { alterations := rfl
      distinct := by decide
      selection_first := ⟨0, rfl, rfl⟩
      same_group := rfl
      sensitivities_first := swap_model_sensitivities_first a
      sensitivities_second := swap_model_sensitivities_second a
      related_nodup := by decide
      related_valid := ?_
      related_complete := ?_
      selection_nodup := by decide
      selection_valid := ?_
      index_first := ?_
      index_second := ?_ }
  · intro ptr hptr
    have : ptr = 0 ∨ ptr = 1 := by simpa [swap_move] using hptr
    rw [swap_model_constraints]
    rcases this with rfl | rfl <;> simp
  · intro sc hsc _
    rw [hs1, hs2] at hsc
    simp only [List.mem_singleton] at hsc
    rcases hsc with rfl | rfl <;> simp [swap_move]
  · intro ptr hptr
    have : ptr = 0 ∨ ptr = 1 := by simpa [swap_selection] using hptr
    rw [swap_model_constraints]
    rcases this with rfl | rfl <;> simp
  · refine ⟨by simp [swap_model, swap_heap, plain_variable, swap_selection], by simp [swap_model, swap_heap, plain_variable, swap_selection], by simp [swap_model, swap_heap, plain_variable, swap_selection],
      by simp [swap_model, swap_heap, plain_variable, swap_selection], by simp [swap_model, swap_heap, plain_variable, swap_selection], ?_⟩
    intro sc hsc _
    rw [hs1] at hsc
    simp only [List.mem_singleton] at hsc
    subst hsc
    exact ⟨0, rfl, by simp [swap_model, swap_heap, plain_variable, swap_selection],
      by simp [swap_model, swap_heap, plain_variable, swap_selection]⟩
  · refine ⟨by simp [swap_model, swap_heap, plain_variable, swap_selection], by simp [swap_model, swap_heap, plain_variable, swap_selection], by simp [swap_model, swap_heap, plain_variable, swap_selection],
      by simp [swap_model, swap_heap, plain_variable, swap_selection], by simp [swap_model, swap_heap, plain_variable, swap_selection], ?_⟩
    intro sc hsc _
    rw [hs2] at hsc
    simp only [List.mem_singleton] at hsc
    subst hsc
    exact ⟨1, rfl, by simp [swap_model, swap_heap, plain_variable, swap_selection],
      by simp [swap_model, swap_heap, plain_variable, swap_selection]⟩

end examples
end printemps

namespace printemps
namespace examples

open model_component neighborhood solution model cppmh.model

theorem swap_model_current (a : ℚ) (ha : 0 ≤ a) :
    (swap_model a).IsCurrentScore (swap_score a) := by
  obtain ⟨score, hscore, hpair, _⟩ := Model.evaluate_eq (swap_model a) Move.empty 64
    (swap_model_consistent a) (fun c => c.m_constraint_value)
    (fun c hc he => Model.evaluate_constraint_empty c _ 64
      ((swap_model_consistent a).constraints c hc he))
  refine ⟨score, hscore, ?_, ?_⟩
  · have := congrArg Prod.fst hpair
    simp [swap_model_constraints, less_constraint, expression_of, Constraint.violation_term,
      Constraint.is_enabled, Constraint.is_less_or_equal, Constraint.is_greater_or_equal,
      Constraint.local_penalty_coefficient_less, ha] at this
    rw [this]
    rfl
  · have := congrArg Prod.snd hpair
    simp [swap_model_constraints, less_constraint, expression_of, Constraint.violation_term,
      Constraint.is_enabled, Constraint.is_less_or_equal, Constraint.is_greater_or_equal,
      Constraint.local_penalty_coefficient_less, ha] at this
    rw [this]
    rfl

theorem swap_model_evaluate_selection (a : ℚ) (ha : 0 ≤ a) :
    ∃ s1, (swap_model a).evaluate_selection swap_move (swap_score a) = some s1 ∧
      s1.total_violation = 1 := by
  refine ⟨(swap_model a).fill_score 0 1 1 true, ?_, rfl⟩
  simp [Model.evaluate_selection, swap_move, plain_move, Model.evaluate_selection_alterations,
    Model.evaluate_selection_sensitivities, Model.combine_index,
    Model.sensitivity_step, Model.objective_after, swap_model, swap_heap, plain_variable,
    swap_selection, Model.constraint, Model.constraints, less_constraint, expression_of,
    swap_score, zero_score, Constraint.is_enabled, Constraint.is_less_or_equal,
    Constraint.is_greater_or_equal, Constraint.constraint_value, Constraint.positive_part,
    Constraint.local_penalty_coefficient_less, ha]

theorem swap_model_evaluate_constraint_first (a : ℚ) :
    (less_constraint (expression_of [(64, a)] 0 a)).evaluate_constraint (swap_heap a)
      swap_move = some 0 := by
  have hup : (less_constraint (expression_of [(64, a)] 0 a)).UpToDate (swap_heap a) 64 :=
    (swap_model_consistent a).constraints _ (by simp [swap_model_constraints]) rfl
  rw [Model.evaluate_constraint_two _ (swap_heap a) swap_move 64 64 128 0 1 hup rfl]
  simp [less_constraint, expression_of, Expression.coefficient, Expression.create_instance,
    swap_heap, plain_variable, List.lookup]

theorem swap_model_evaluate_constraint_second (a : ℚ) :
    (less_constraint (expression_of [(128, 1)] 0 0)).evaluate_constraint (swap_heap a)
      swap_move = some 1 := by
  have hup : (less_constraint (expression_of [(128, 1)] 0 0)).UpToDate (swap_heap a) 64 :=
    (swap_model_consistent a).constraints _ (by simp [swap_model_constraints]) rfl
  rw [Model.evaluate_constraint_two _ (swap_heap a) swap_move 64 64 128 0 1 hup rfl]
  simp [less_constraint, expression_of, Expression.coefficient, Expression.create_instance,
    swap_heap, plain_variable, List.lookup]

theorem swap_model_evaluate_multi_tiny :
    ∃ s2, (swap_model (1 / 10 ^ 11)).evaluate_multi swap_move (swap_score (1 / 10 ^ 11)) =
        some s2 ∧
      s2.total_violation = 1 / 10 ^ 11 + 1 := by
  refine ⟨(swap_model (1 / 10 ^ 11)).fill_score 0 (1 / 10 ^ 11 + 1) (1 / 10 ^ 11 + 1) false,
    ?_, rfl⟩
  have hc0 : (swap_model (1 / 10 ^ 11)).constraint 0 =
    less_constraint (expression_of [(64, 1 / 10 ^ 11)] 0 (1 / 10 ^ 11)) := rfl
  have hc1 : (swap_model (1 / 10 ^ 11)).constraint 1 =
    less_constraint (expression_of [(128, 1)] 0 0) := rfl
  have hh : (swap_model (1 / 10 ^ 11)).m_variable_proxies = swap_heap (1 / 10 ^ 11) := rfl
  have hr : swap_move.related_constraint_ptrs = [0, 1] := rfl
  have ho : (swap_model (1 / 10 ^ 11)).objective_after swap_move = some 0 := rfl
  simp only [Model.evaluate_multi, hr, Model.evaluate_multi_loop, hc0, hc1, hh, Model.multi_step,
    swap_model_evaluate_constraint_first, swap_model_evaluate_constraint_second, ho]
  norm_num [less_constraint, expression_of, Constraint.is_enabled, Constraint.constraint_value,
    constant.EPSILON_10, constant.EPSILON, swap_score, zero_score, abs_of_pos,
    Constraint.is_less_or_equal,
    Constraint.is_greater_or_equal, Constraint.positive_part, Constraint.negative_part,
    Constraint.local_penalty_coefficient_less, Constraint.local_penalty_coefficient_greater]

theorem swap_model_coarse :
    (swap_model 1).CoarseChange 64 (0 - ((swap_model 1).m_variable_proxies 64).value) ∧
      (swap_model 1).CoarseChange 128 (1 - ((swap_model 1).m_variable_proxies 128).value) := by
  constructor
  · intro sc hsc
    have hs : ((swap_model 1).m_variable_proxies 64).constraint_sensitivities = [(0, 1)] := rfl
    rw [hs, List.mem_singleton] at hsc
    subst hsc
    right
    norm_num [constant.EPSILON_10, swap_model, swap_heap, plain_variable]
  · intro sc hsc
    have hs : ((swap_model 1).m_variable_proxies 128).constraint_sensitivities = [(1, 1)] := rfl
    rw [hs, List.mem_singleton] at hsc
    subst hsc
    right
    norm_num [constant.EPSILON_10, swap_model, swap_heap, plain_variable]

end examples
end printemps

namespace printemps
namespace examples

open model_component cppmh.model

/-- The correction of `selection_heap` for the two selections returns
`corrected_selection_heap`. -/
theorem corrected_selection_heap_eq :
    verify_and_correct_selection_variables_initial_values true [[1, 2, 3], [4, 5, 6]]
      selection_heap = some corrected_selection_heap := by
  have hsome : (verify_and_correct_selection_variables_initial_values true
      [[1, 2, 3], [4, 5, 6]] selection_heap).isSome = true := by decide
  obtain ⟨verified, h⟩ := Option.isSome_iff_exists.1 hsome
  rw [h]
  obtain ⟨hg, -, hframe⟩ := verify_selections_with_correction _ _ _ (by decide) h
  obtain ⟨-, x, hx, -, hfirst⟩ := hg [1, 2, 3] (by simp)
  obtain ⟨-, y, hy, -, hsecond⟩ := hg [4, 5, 6] (by simp)
  have ex : x = 3 := by
    have e : kept selection_heap [1, 2, 3] = some 3 := by decide
    rw [e] at hx
    exact (Option.some.inj hx).symm
  have ey : y = 4 := by
    have e : kept selection_heap [4, 5, 6] = some 4 := by decide
    rw [e] at hy
    exact (Option.some.inj hy).symm
  subst ex
  subst ey
  congr 1
  funext p
  by_cases h1 : p = 1
  · subst h1
    rw [hfirst 1 (by simp)]
    rfl
  by_cases h2 : p = 2
  · subst h2
    rw [hfirst 2 (by simp)]
    rfl
  by_cases h3 : p = 3
  · subst h3
    rw [hfirst 3 (by simp)]
    rfl
  by_cases h4 : p = 4
  · subst h4
    rw [hsecond 4 (by simp)]
    rfl
  by_cases h5 : p = 5
  · subst h5
    rw [hsecond 5 (by simp)]
    rfl
  by_cases h6 : p = 6
  · subst h6
    rw [hsecond 6 (by simp)]
    rfl
  rw [hframe p (by simp [h1, h2, h3, h4, h5, h6])]
  simp only [selection_heap, corrected_selection_heap, if_neg h1, if_neg h2, if_neg h3,
    if_neg h4, if_neg h5]

end examples
end printemps

namespace printemps
namespace examples

open model_component model solver.lagrange_dual.core

theorem lagrange_model_constraints :
    lagrange_model.constraints = [less_constraint (expression_of [(64, 1)] (-1) (-1))] := rfl

theorem lagrange_model_sensitivities_of (x : Nat) : lagrange_model.SensitivitiesOf x := by
  by_cases hx : x = 64
  · subst hx
    refine ⟨by simp [lagrange_model, lagrange_heap, plain_variable], ?_⟩
    intro ptr coefficient
    simp only [lagrange_model_constraints, List.length_singleton, Nat.lt_one_iff]
    constructor
    · intro h
      simp [lagrange_model, lagrange_heap, plain_variable] at h
      obtain ⟨rfl, rfl⟩ := h
      refine ⟨rfl, ?_⟩
      simp [Model.constraint, lagrange_model_constraints, less_constraint, expression_of,
        Expression.create_instance]
    · rintro ⟨rfl, h⟩
      simp [Model.constraint, lagrange_model_constraints, less_constraint, expression_of,
        Expression.create_instance] at h
      simp [lagrange_model, lagrange_heap, plain_variable, h]
  · refine ⟨by simp [lagrange_model, lagrange_heap, plain_variable, hx], ?_⟩
    intro ptr coefficient
    simp only [lagrange_model_constraints, List.length_singleton, Nat.lt_one_iff]
    constructor
    · intro h
      simp [lagrange_model, lagrange_heap, plain_variable, hx] at h
    · rintro ⟨rfl, h⟩
      simp [Model.constraint, lagrange_model_constraints, less_constraint, expression_of,
        Expression.create_instance, hx] at h

/-- The sensitivities of `lagrange_model` are set up. -/
theorem lagrange_model_set_up : LagrangeDualCore.SensitivitiesSetUp lagrange_model [64] := by
  refine ⟨?_, lagrange_model_sensitivities_of, ?_, ?_, ?_, ?_⟩
  · intro ptr
    by_cases hx : ptr = 64
    · subst hx
      simp [lagrange_model, lagrange_heap, plain_variable, expression_of,
        Expression.create_instance, Expression.coefficient, List.lookup]
    · have hx2 : ¬ (64 = ptr) := fun h => hx h.symm
      have hb : (ptr == 64) = false := by simpa using hx
      simp [lagrange_model, lagrange_heap, plain_variable, expression_of,
        Expression.create_instance, Expression.coefficient, List.lookup, hx, hb]
  · simp [lagrange_model, expression_of, Expression.create_instance]
  · intro c hc
    rw [lagrange_model_constraints, List.mem_singleton] at hc
    subst hc
    simp [less_constraint, expression_of, Expression.create_instance]
  · intro s hs
    simp [lagrange_model, expression_of, Expression.create_instance] at hs
    simp [hs]
  · intro c hc s hs
    rw [lagrange_model_constraints, List.mem_singleton] at hc
    subst hc
    simp [less_constraint, expression_of, Expression.create_instance] at hs
    simp [hs]

/-- The primal update of `lagrange_model` for the multiplier 1 sets `x₆₄` to its upper
bound. -/
theorem lagrange_model_update :
    (LagrangeDualCore.update_primal (fun _ => 1) lagrange_model.sign
      lagrange_model.m_is_minimization [64] lagrange_model.m_variable_proxies 64).value = 5 := by
  rw [LagrangeDualCore.update_primal_apply, if_pos ⟨by simp, rfl⟩,
    LagrangeDualCore.set_lower_or_upper_bound_value]
  norm_num [lagrange_model, lagrange_heap, plain_variable, LagrangeDualCore.coefficient,
    Model.sign, Variable.set_lower_or_upper_bound]

end examples
end printemps

namespace printemps
namespace model_component
namespace Expression

open cppmh.model

theorem collect_plus_zero : ∀ (L : List (Nat × ℚ)) (acc : Nat × Nat),
    (∀ s ∈ L, s.2 = 1) → acc.1 = 0 →
    (L.foldl (fun masks sensitivity =>
      ((if ¬ (|sensitivity.2 - 1| < constant.EPSILON_10) then masks.1 ||| sensitivity.1
        else masks.1),
        (if ¬ (|sensitivity.2 + 1| < constant.EPSILON_10) then masks.2 ||| sensitivity.1
        else masks.2))) acc).1 = 0 := by
  intro L
  induction L with
  | nil => intro acc _ h; exact h
  | cons s L ih =>
    intro acc hs h
    rw [List.foldl_cons]
    apply ih _ (fun x hx => hs x (List.mem_cons_of_mem _ hx))
    have h1 : s.2 = 1 := hs s (List.mem_cons_self _ _)
    have h2 : |s.2 - 1| < constant.EPSILON_10 := by
      rw [h1]
      norm_num [constant.EPSILON_10]
    simp only [h2, not_true_eq_false, if_false]
    exact h

/-- The plus-one mask of an expression whose coefficients are all `+1` is `~0`, which
every variable identity other than the null pointer meets. -/
theorem setup_mask_of_unit_coefficients (e : Expression)
    (h : ∀ s ∈ e.m_sensitivities, s.2 = 1) :
    e.setup_mask.m_plus_one_coefficient_mask = 2 ^ 64 - 1 ∧
    ∀ v : Nat, 0 < v → v < 2 ^ 64 → v &&& e.setup_mask.m_plus_one_coefficient_mask ≠ 0 := by
  have hmask : e.setup_mask.m_plus_one_coefficient_mask = 2 ^ 64 - 1 := by
    have h0 : (setup_mask_collect e.m_sensitivities).1 = 0 :=
      collect_plus_zero e.m_sensitivities (0, 0) h rfl
    show complement64 (setup_mask_collect e.m_sensitivities).1 = 2 ^ 64 - 1
    rw [h0]
    decide
  refine ⟨hmask, ?_⟩
  intro v hv hlt
  rw [hmask, Nat.and_pow_two_sub_one_eq_mod, Nat.mod_eq_of_lt hlt]
  omega

end Expression
end model_component
end printemps

namespace printemps
namespace examples

open model_component cppmh.model

theorem unit_expression_effective :
    unit_expression.setup_mask.m_has_effective_plus_one_coefficient_mask = true := by
  have hmask := (Expression.setup_mask_of_unit_coefficients unit_expression
    (by simp [unit_expression, Expression.create_instance])).1
  have hm : complement64 (Expression.setup_mask_collect
      unit_expression.m_sensitivities).1 = 2 ^ 64 - 1 := hmask
  show decide (2 * (Expression.setup_mask_count unit_expression.m_sensitivities
    (complement64 (Expression.setup_mask_collect unit_expression.m_sensitivities).1)
    (complement64 (Expression.setup_mask_collect
      unit_expression.m_sensitivities).2)).1 ≥ unit_expression.m_sensitivities.length) = true
  rw [hm]
  have h2 : |(1 : ℚ) - 1| < constant.EPSILON_10 := by norm_num [constant.EPSILON_10]
  have h3 : (64 : Nat) &&& (2 ^ 64 - 1) ≠ 0 := by decide
  have h4 : (0 : ℚ) < constant.EPSILON_10 := by norm_num [constant.EPSILON_10]
  simp [Expression.setup_mask_count, unit_expression, Expression.create_instance, h2, h3, h4]

theorem unit_expression_with_mask :
    unit_expression.setup_mask.evaluate_with_mask heap_of_ones 128 2 = some 2 := by
  have hmask := Expression.setup_mask_of_unit_coefficients unit_expression
    (by simp [unit_expression, Expression.create_instance])
  unfold Expression.evaluate_with_mask
  rw [if_pos ⟨unit_expression_effective, hmask.2 128 (by decide) (by decide)⟩]
  norm_num [unit_expression, Expression.setup_mask, heap_of_ones, plain_variable]

end examples
end printemps

namespace printemps
namespace model
namespace Model

open model_component neighborhood solution

/-- The step of the loop of `evaluate_single`, with the change of the positive part
and the change of the negative part. -/
theorem sensitivity_step_parts (c : Constraint) (a : ℚ) (diff : ℤ) (acc : ℚ × ℚ) :
    sensitivity_step c a diff acc =
      (acc.1 +
          (if c.is_less_or_equal then
            max (c.constraint_value + a * (diff : ℚ)) 0 - c.positive_part else 0) +
          (if c.is_greater_or_equal then
            max (-(c.constraint_value + a * (diff : ℚ))) 0 - c.negative_part else 0),
        acc.2 +
          (if c.is_less_or_equal then
            (max (c.constraint_value + a * (diff : ℚ)) 0 - c.positive_part) *
              c.local_penalty_coefficient_less else 0) +
          (if c.is_greater_or_equal then
            (max (-(c.constraint_value + a * (diff : ℚ))) 0 - c.negative_part) *
              c.local_penalty_coefficient_greater else 0)) := by
  have hmin : ∀ x : ℚ, min x 0 = - max (-x) 0 := by
    intro x
    rw [← neg_zero, max_neg_neg, neg_neg, neg_zero]
  unfold sensitivity_step
  dsimp only
  rw [hmin]
  by_cases h1 : c.is_less_or_equal = true <;> by_cases h2 : c.is_greater_or_equal = true <;>
    simp only [h1, h2, if_true, if_false, Bool.false_eq_true] <;>
    refine Prod.ext ?_ ?_ <;> simp only [] <;> ring

theorem evaluate_single_loop_eq_foldl (self : Model) (diff : ℤ) :
    ∀ (sens : List (ConstraintPtr × ℚ)) (acc : ℚ × ℚ),
    self.evaluate_single_loop diff sens acc =
      (sens.filter (fun s => !(self.constraint s.1).is_evaluation_ignorable)).foldl
        (fun acc s => sensitivity_step (self.constraint s.1) s.2 diff acc) acc := by
  intro sens
  induction sens with
  | nil => intro acc; rfl
  | cons s sens ih =>
    intro acc
    by_cases h : (self.constraint s.1).is_evaluation_ignorable = true
    · simp only [evaluate_single_loop, h, if_true, ih, List.filter_cons, Bool.not_true,
        Bool.false_eq_true, if_false]
    · simp only [evaluate_single_loop, h, if_false, ih, List.filter_cons, Bool.not_eq_true,
        Bool.not_eq_true', if_true, List.foldl_cons]
      simp [h]

theorem sensitivity_step_of_less (c : Constraint) (a : ℚ) (diff : ℤ) (acc : ℚ × ℚ)
    (h : c.is_greater_or_equal = false) :
    sensitivity_step c a diff acc = sensitivity_step_as_specified c a diff acc := by
  unfold sensitivity_step sensitivity_step_as_specified
  simp only [h, Bool.false_eq_true, if_false]

end Model
end model

namespace examples

open model_component neighborhood solution model cppmh.model

theorem greater_model_constraint (a : ℚ) :
    (greater_model a).constraint 0 = greater_constraint (expression_of [(64, a)] 0 0) := rfl

theorem greater_model_loop :
    (greater_model (-1)).evaluate_single_loop 1 [(0, -1)] (0, 0) = (1, 1) := by
  simp only [Model.evaluate_single_loop, greater_model_constraint]
  rw [Model.sensitivity_step_parts]
  norm_num [greater_constraint, expression_of, Constraint.is_evaluation_ignorable,
    Constraint.is_less_or_equal, Constraint.is_greater_or_equal, Constraint.constraint_value,
    Constraint.positive_part, Constraint.negative_part,
    Constraint.local_penalty_coefficient_less, Constraint.local_penalty_coefficient_greater]

theorem greater_model_loop_as_specified :
    (greater_model (-1)).evaluate_single_loop_as_specified 1 [(0, -1)] (0, 0) = (-1, -1) := by
  simp only [Model.evaluate_single_loop_as_specified, greater_model_constraint]
  norm_num [Model.sensitivity_step_as_specified, greater_constraint, expression_of,
    Constraint.is_evaluation_ignorable,
    Constraint.is_less_or_equal, Constraint.is_greater_or_equal, Constraint.constraint_value,
    Constraint.positive_part, Constraint.negative_part,
    Constraint.local_penalty_coefficient_less, Constraint.local_penalty_coefficient_greater]

end examples
end printemps

namespace printemps
namespace neighborhood

open model_component cppmh.model

namespace TwoFlipMoveGenerator

theorem two_flip_filter_loop_getD (heap : VariableHeap) (moves : List Move) (a b c : Bool) :
    ∀ (indices : List Nat) (flags : List ℤ) (k : Nat),
    (filter_loop heap moves a b c indices flags).length = flags.length ∧
    (filter_loop heap moves a b c indices flags).getD k 0 =
      if k ∈ indices ∧ k < flags.length then filter_flag heap (moves.getD k Move.empty) a b c
      else flags.getD k 0 := by
  intro indices
  induction indices with
  | nil => intro flags k; simp [filter_loop]
  | cons i rest ih =>
    intro flags k
    obtain ⟨hlen, hget⟩ := ih (flags.set i (filter_flag heap (moves.getD i Move.empty) a b c)) k
    refine ⟨by rw [filter_loop, hlen, List.length_set], ?_⟩
    rw [filter_loop, hget, List.length_set, FixedSizeHashMap.getD_set_eq]
    by_cases hk : k ∈ rest ∧ k < flags.length
    · rw [if_pos hk, if_pos ⟨List.mem_cons_of_mem _ hk.1, hk.2⟩]
    · rw [if_neg hk]
      by_cases hi : i = k ∧ i < flags.length
      · rw [if_pos hi, if_pos ⟨by rw [hi.1]; exact List.mem_cons_self _ _, by rw [← hi.1]; exact hi.2⟩,
          hi.1]
      · rw [if_neg hi, if_neg]
        rintro ⟨hmem, hlt⟩
        rcases List.mem_cons.1 hmem with e | e
        · exact hi ⟨e.symm, by rw [← e]; exact hlt⟩
        · exact hk ⟨e, hlt⟩

/-- What the flag 1 of the two-flip updater tells of a move. -/
theorem two_flip_filter_flag_eq_one (heap : VariableHeap) (move : Move) (a b c : Bool)
    (h : filter_flag heap move a b c = 1) :
    ∀ alteration ∈ move.alterations,
      (heap alteration.1).is_fixed = false ∧
      (heap alteration.1).sense ≠ VariableSense.Selection ∧
      alteration.2 ≠ (heap alteration.1).value := by
  unfold filter_flag at h
  split_ifs at h with h1 h2 h3 h4
  all_goals first
    | exact absurd h (by decide)
    | (intro alteration hmem
       refine ⟨?_, ?_, ?_⟩
       · have := h3
         simp only [has_fixed_variable, List.any_eq_true, not_exists, not_and,
           Bool.not_eq_true] at this
         exact this alteration hmem
       · have := h2
         simp only [has_selection_variable, List.any_eq_true, not_exists, not_and,
           decide_eq_true_eq] at this
         exact this alteration hmem
       · have := h4
         simp only [List.any_eq_true, not_exists, not_and, decide_eq_true_eq] at this
         exact fun e => this alteration hmem e.symm)

end TwoFlipMoveGenerator
end neighborhood
end printemps

namespace printemps
namespace model

open model_component neighborhood

namespace ModelState

theorem violative_loop_eq (methods : ComponentMethods) (self : ModelState) :
    ∀ (ptrs violative : List ConstraintPtr),
    violative_loop methods self ptrs violative =
      violative ++ ptrs.filter
        (fun constraint_ptr => !methods.constraint_is_feasible (self.constraint constraint_ptr)) := by
  intro ptrs
  induction ptrs with
  | nil => intro violative; simp [violative_loop]
  | cons ptr rest ih =>
    intro violative
    by_cases h : methods.constraint_is_feasible (self.constraint ptr) = true
    · simp [violative_loop, h, ih]
    · have h2 : methods.constraint_is_feasible (self.constraint ptr) = false := by
        simpa using h
      simp [violative_loop, h2, ih]

/-- The bookkeeping after `update_violative_constraint_ptrs_and_feasibility` on a state
that has the constraints and the list of the enabled constraints of `before`. -/
theorem feasibility_up_to_date (methods : ComponentMethods) (before self : ModelState)
    (he : self.enabled_constraint_ptrs = before.enabled_constraint_ptrs)
    (hv : self.m_current_violative_constraint_ptrs =
      before.m_current_violative_constraint_ptrs)
    (hf : self.m_current_is_feasible = before.m_current_is_feasible) :
    FeasibilityUpToDate methods before
      (update_violative_constraint_ptrs_and_feasibility methods self) := by
  have hc : ∀ ptr, (update_violative_constraint_ptrs_and_feasibility methods self).constraint
      ptr = self.constraint ptr := fun _ => rfl
  have hcs : (update_violative_constraint_ptrs_and_feasibility methods self).constraints =
      self.constraints := rfl
  have hviol : (update_violative_constraint_ptrs_and_feasibility methods
      self).m_current_violative_constraint_ptrs =
      self.enabled_constraint_ptrs.filter
        (fun constraint_ptr => !methods.constraint_is_feasible (self.constraint constraint_ptr)) := by
    show violative_loop methods self self.enabled_constraint_ptrs [] = _
    rw [violative_loop_eq, List.nil_append]
  have hfeas : (update_violative_constraint_ptrs_and_feasibility methods
      self).m_current_is_feasible = true ↔
      (update_violative_constraint_ptrs_and_feasibility methods
        self).m_current_violative_constraint_ptrs = [] := by
    show decide ((violative_loop methods self self.enabled_constraint_ptrs []).length = 0) =
      true ↔ violative_loop methods self self.enabled_constraint_ptrs [] = []
    rw [decide_eq_true_eq, List.length_eq_zero]
  refine ⟨hviol, he, hfeas, ?_, ?_, hv, hf⟩
  · rw [hfeas, hviol, List.filter_eq_nil_iff]
    constructor
    · intro h ptr hptr
      have := h ptr hptr
      simpa using this
    · intro h ptr hptr
      have := h ptr hptr
      simpa using this
  · intro hcat ptr
    rw [hviol]
    have hcat2 : self.enabled_constraint_ptrs = self.categorize_enabled_constraint_ptrs := hcat
    rw [hcs, hc, List.mem_filter, hcat2, categorize_enabled_constraint_ptrs, List.mem_filter,
      List.mem_range]
    simp [and_assoc]

theorem update_expressions_isSome (heap : VariableHeap) (a_MOVE : Move)
    (sizeof_Variable : Nat) : ∀ (proxy : List Expression),
    (∀ expression ∈ proxy, expression.m_is_enabled = true →
      expression.TableSetUp sizeof_Variable) →
    ∃ updated, update_expressions heap a_MOVE proxy = some updated := by
  intro proxy
  induction proxy with
  | nil => intro _; exact ⟨[], rfl⟩
  | cons e rest ih =>
    intro h
    obtain ⟨others, ho⟩ := ih (fun x hx => h x (List.mem_cons_of_mem _ hx))
    by_cases he : e.m_is_enabled = true
    · obtain ⟨v, hv⟩ := Model.evaluate_move_isSome e heap a_MOVE sizeof_Variable
        (h e (List.mem_cons_self _ _) he)
      refine ⟨{ e with m_value := v } :: others, ?_⟩
      simp only [update_expressions, he, if_true, Expression.update_move, hv, ho]
    · refine ⟨e :: others, ?_⟩
      simp only [update_expressions, he, Bool.false_eq_true, if_false, ho]

theorem update_expression_proxies_isSome (heap : VariableHeap) (a_MOVE : Move)
    (sizeof_Variable : Nat) : ∀ (proxies : List (List Expression)),
    (∀ proxy ∈ proxies, ∀ expression ∈ proxy, expression.m_is_enabled = true →
      expression.TableSetUp sizeof_Variable) →
    ∃ updated, update_expression_proxies heap a_MOVE proxies = some updated := by
  intro proxies
  induction proxies with
  | nil => intro _; exact ⟨[], rfl⟩
  | cons p rest ih =>
    intro h
    obtain ⟨others, ho⟩ := ih (fun x hx => h x (List.mem_cons_of_mem _ hx))
    obtain ⟨first, hf⟩ := update_expressions_isSome heap a_MOVE sizeof_Variable p
      (h p (List.mem_cons_self _ _))
    exact ⟨first :: others, by simp only [update_expression_proxies, hf, ho]⟩

end ModelState
end model
end printemps

namespace printemps
namespace model

open model_component neighborhood

namespace ModelState

/-- Two states of the variables that differ at most in the feasibility-improvable
flags. -/
theorem same_but_flag_fields (v w : Variable)
    (h : v.set_is_feasibility_improvable false = w.set_is_feasibility_improvable false) :
    v.is_fixed = w.is_fixed ∧ v.has_lower_bound_margin = w.has_lower_bound_margin ∧
      v.has_upper_bound_margin = w.has_upper_bound_margin := by
  have h1 : (v.set_is_feasibility_improvable false).is_fixed =
      (w.set_is_feasibility_improvable false).is_fixed := by rw [h]
  have h2 : (v.set_is_feasibility_improvable false).value =
      (w.set_is_feasibility_improvable false).value := by rw [h]
  have h3 : (v.set_is_feasibility_improvable false).lower_bound =
      (w.set_is_feasibility_improvable false).lower_bound := by rw [h]
  have h4 : (v.set_is_feasibility_improvable false).upper_bound =
      (w.set_is_feasibility_improvable false).upper_bound := by rw [h]
  simp only [Variable.set_is_feasibility_improvable] at h1 h2 h3 h4
  refine ⟨h1, ?_, ?_⟩
  · simp only [Variable.has_lower_bound_margin, h2, h3]
  · simp only [Variable.has_upper_bound_margin, h2, h4]

theorem set_if_lower_spec (v : Variable) :
    v.set_is_feasibility_improvable_if_has_lower_bound_margin.set_is_feasibility_improvable
        false = v.set_is_feasibility_improvable false ∧
    v.set_is_feasibility_improvable_if_has_lower_bound_margin.is_feasibility_improvable =
      (v.is_feasibility_improvable || v.has_lower_bound_margin) := by
  unfold Variable.set_is_feasibility_improvable_if_has_lower_bound_margin
  cases h : v.has_lower_bound_margin
  · simp
  · simp [Variable.set_is_feasibility_improvable]

theorem set_if_upper_spec (v : Variable) :
    v.set_is_feasibility_improvable_if_has_upper_bound_margin.set_is_feasibility_improvable
        false = v.set_is_feasibility_improvable false ∧
    v.set_is_feasibility_improvable_if_has_upper_bound_margin.is_feasibility_improvable =
      (v.is_feasibility_improvable || v.has_upper_bound_margin) := by
  unfold Variable.set_is_feasibility_improvable_if_has_upper_bound_margin
  cases h : v.has_upper_bound_margin
  · simp
  · simp [Variable.set_is_feasibility_improvable]

/-- A loop that calls on every variable of a list a method that sets the flag when the
variable has the margin. -/
theorem mark_loop_spec (method : Variable → Variable) (margin : Variable → Bool)
    (hm : ∀ v, (method v).set_is_feasibility_improvable false =
        v.set_is_feasibility_improvable false ∧
      (method v).is_feasibility_improvable = (v.is_feasibility_improvable || margin v))
    (hmargin : ∀ v w, v.set_is_feasibility_improvable false =
      w.set_is_feasibility_improvable false → margin v = margin w) :
    ∀ (L : List Nat) (heap : VariableHeap) (p : Nat),
    (mark_loop method L heap p).set_is_feasibility_improvable false =
        (heap p).set_is_feasibility_improvable false ∧
    ((mark_loop method L heap p).is_feasibility_improvable = true ↔
      (heap p).is_feasibility_improvable = true ∨ (p ∈ L ∧ margin (heap p) = true)) := by
  intro L
  induction L with
  | nil =>
    intro heap p
    simp [mark_loop]
  | cons x rest ih =>
    intro heap p
    obtain ⟨h1, h2⟩ := ih (fun ptr => if ptr = x then method (heap ptr) else heap ptr) p
    rw [mark_loop]
    by_cases hp : p = x
    · subst hp
      simp only [if_true] at h1 h2
      refine ⟨h1.trans (hm (heap p)).1, ?_⟩
      rw [h2, (hm (heap p)).2, hmargin _ _ (hm (heap p)).1]
      simp only [Bool.or_eq_true, List.mem_cons, true_or, true_and]
      tauto
    · simp only [if_neg hp] at h1 h2
      refine ⟨h1, ?_⟩
      rw [h2]
      simp only [List.mem_cons, hp, false_or]

theorem mem_positive_ptrs (e : Expression) (heap : VariableHeap) (p : Nat) :
    p ∈ e.positive_coefficient_mutable_variable_ptrs heap ↔
      ∃ a : ℚ, (p, a) ∈ e.m_sensitivities ∧ (heap p).is_fixed = false ∧ a > 0 := by
  simp only [Expression.positive_coefficient_mutable_variable_ptrs,
    Expression.positive_mutable_variable_sensitivities, List.mem_map, List.mem_filter,
    Bool.and_eq_true, Bool.not_eq_true', decide_eq_true_eq]
  constructor
  · rintro ⟨⟨q, a⟩, ⟨hmem, hf, ha⟩, rfl⟩
    exact ⟨a, hmem, hf, ha⟩
  · rintro ⟨a, hmem, hf, ha⟩
    exact ⟨(p, a), ⟨hmem, hf, ha⟩, rfl⟩

theorem mem_negative_ptrs (e : Expression) (heap : VariableHeap) (p : Nat) :
    p ∈ e.negative_coefficient_mutable_variable_ptrs heap ↔
      ∃ a : ℚ, (p, a) ∈ e.m_sensitivities ∧ (heap p).is_fixed = false ∧ a < 0 := by
  simp only [Expression.negative_coefficient_mutable_variable_ptrs,
    Expression.negative_mutable_variable_sensitivities, List.mem_map, List.mem_filter,
    Bool.and_eq_true, Bool.not_eq_true', decide_eq_true_eq]
  constructor
  · rintro ⟨⟨q, a⟩, ⟨hmem, hf, ha⟩, rfl⟩
    exact ⟨a, hmem, hf, ha⟩
  · rintro ⟨a, hmem, hf, ha⟩
    exact ⟨(p, a), ⟨hmem, hf, ha⟩, rfl⟩

theorem can_repair_congr (heap1 heap2 : VariableHeap) (c : Constraint) (p : Nat)
    (h : (heap1 p).set_is_feasibility_improvable false =
      (heap2 p).set_is_feasibility_improvable false) :
    CanRepair heap1 c p ↔ CanRepair heap2 c p := by
  obtain ⟨h1, h2, h3⟩ := same_but_flag_fields _ _ h
  simp only [CanRepair, h1, h2, h3]

end ModelState
end model
end printemps

namespace printemps
namespace model

open model_component neighborhood

namespace ModelState

theorem lower_margin_congr (v w : Variable)
    (h : v.set_is_feasibility_improvable false = w.set_is_feasibility_improvable false) :
    v.has_lower_bound_margin = w.has_lower_bound_margin :=
  (same_but_flag_fields v w h).2.1

theorem upper_margin_congr (v w : Variable)
    (h : v.set_is_feasibility_improvable false = w.set_is_feasibility_improvable false) :
    v.has_upper_bound_margin = w.has_upper_bound_margin :=
  (same_but_flag_fields v w h).2.2

/-- The flags after the body of the loop for a constraint that is enabled and not
feasible. -/
theorem mark_constraint_spec (c : Constraint) (heap : VariableHeap) (p : Nat) :
    (mark_constraint c heap p).set_is_feasibility_improvable false =
        (heap p).set_is_feasibility_improvable false ∧
    ((mark_constraint c heap p).is_feasibility_improvable = true ↔
      (heap p).is_feasibility_improvable = true ∨ CanRepair heap c p) := by
  unfold mark_constraint
  by_cases hc : c.constraint_value > 0
  · rw [if_pos hc]
    obtain ⟨a1, a2⟩ := mark_loop_spec _ _ set_if_lower_spec lower_margin_congr
      (c.m_expression.positive_coefficient_mutable_variable_ptrs heap) heap p
    obtain ⟨b1, b2⟩ := mark_loop_spec _ _ set_if_upper_spec upper_margin_congr
      (c.m_expression.negative_coefficient_mutable_variable_ptrs
        (mark_loop Variable.set_is_feasibility_improvable_if_has_lower_bound_margin
          (c.m_expression.positive_coefficient_mutable_variable_ptrs heap) heap))
      (mark_loop Variable.set_is_feasibility_improvable_if_has_lower_bound_margin
        (c.m_expression.positive_coefficient_mutable_variable_ptrs heap) heap) p
    refine ⟨b1.trans a1, ?_⟩
    obtain ⟨f1, _, f3⟩ := same_but_flag_fields _ _ a1
    rw [b2, a2, mem_positive_ptrs, mem_negative_ptrs, f1, f3]
    simp only [CanRepair]
    constructor
    · rintro ((h | ⟨⟨a, h1, h2, h3⟩, h4⟩) | ⟨⟨a, h1, h2, h3⟩, h4⟩)
      · exact Or.inl h
      · exact Or.inr ⟨a, h1, h2, Or.inl ⟨hc, Or.inl ⟨h3, h4⟩⟩⟩
      · exact Or.inr ⟨a, h1, h2, Or.inl ⟨hc, Or.inr ⟨h3, h4⟩⟩⟩
    · rintro (h | ⟨a, h1, h2, (⟨_, (⟨h3, h4⟩ | ⟨h3, h4⟩)⟩ | ⟨hle, _⟩)⟩)
      · exact Or.inl (Or.inl h)
      · exact Or.inl (Or.inr ⟨⟨a, h1, h2, h3⟩, h4⟩)
      · exact Or.inr ⟨⟨a, h1, h2, h3⟩, h4⟩
      · exact absurd hc (not_lt.mpr hle)
  · rw [if_neg hc]
    obtain ⟨a1, a2⟩ := mark_loop_spec _ _ set_if_lower_spec lower_margin_congr
      (c.m_expression.negative_coefficient_mutable_variable_ptrs heap) heap p
    obtain ⟨b1, b2⟩ := mark_loop_spec _ _ set_if_upper_spec upper_margin_congr
      (c.m_expression.positive_coefficient_mutable_variable_ptrs
        (mark_loop Variable.set_is_feasibility_improvable_if_has_lower_bound_margin
          (c.m_expression.negative_coefficient_mutable_variable_ptrs heap) heap))
      (mark_loop Variable.set_is_feasibility_improvable_if_has_lower_bound_margin
        (c.m_expression.negative_coefficient_mutable_variable_ptrs heap) heap) p
    refine ⟨b1.trans a1, ?_⟩
    obtain ⟨f1, _, f3⟩ := same_but_flag_fields _ _ a1
    rw [b2, a2, mem_positive_ptrs, mem_negative_ptrs, f1, f3]
    simp only [CanRepair]
    have hle : c.constraint_value ≤ 0 := not_lt.mp hc
    constructor
    · rintro ((h | ⟨⟨a, h1, h2, h3⟩, h4⟩) | ⟨⟨a, h1, h2, h3⟩, h4⟩)
      · exact Or.inl h
      · exact Or.inr ⟨a, h1, h2, Or.inr ⟨hle, Or.inl ⟨h3, h4⟩⟩⟩
      · exact Or.inr ⟨a, h1, h2, Or.inr ⟨hle, Or.inr ⟨h3, h4⟩⟩⟩
    · rintro (h | ⟨a, h1, h2, (⟨hpos, _⟩ | ⟨_, (⟨h3, h4⟩ | ⟨h3, h4⟩)⟩)⟩)
      · exact Or.inl (Or.inl h)
      · exact absurd hpos hc
      · exact Or.inl (Or.inr ⟨⟨a, h1, h2, h3⟩, h4⟩)
      · exact Or.inr ⟨⟨a, h1, h2, h3⟩, h4⟩

/-- The flags after the loop over the constraints. -/
theorem update_loop_spec (methods : ComponentMethods) (self : ModelState) :
    ∀ (ptrs : List ConstraintPtr) (heap : VariableHeap) (p : Nat),
    (update_feasibility_improvabilities_loop methods self ptrs heap p).set_is_feasibility_improvable
        false = (heap p).set_is_feasibility_improvable false ∧
    ((update_feasibility_improvabilities_loop methods self ptrs heap p).is_feasibility_improvable =
        true ↔
      (heap p).is_feasibility_improvable = true ∨
        ∃ constraint_ptr ∈ ptrs,
          methods.constraint_is_feasible (self.constraint constraint_ptr) = false ∧
          (self.constraint constraint_ptr).is_enabled = true ∧
          CanRepair heap (self.constraint constraint_ptr) p) := by
  intro ptrs
  induction ptrs with
  | nil =>
    intro heap p
    simp [update_feasibility_improvabilities_loop]
  | cons x rest ih =>
    intro heap p
    rw [update_feasibility_improvabilities_loop]
    by_cases hf : methods.constraint_is_feasible (self.constraint x) = true
    · rw [if_pos hf]
      obtain ⟨h1, h2⟩ := ih heap p
      refine ⟨h1, ?_⟩
      rw [h2]
      simp only [List.mem_cons, exists_eq_or_imp, hf, Bool.true_eq_false, false_and, false_or]
    · rw [if_neg hf]
      have hf2 : methods.constraint_is_feasible (self.constraint x) = false := by
        simpa using hf
      by_cases he : (self.constraint x).is_enabled = true
      · rw [if_neg (by simp [he])]
        obtain ⟨h1, h2⟩ := ih (mark_constraint (self.constraint x) heap) p
        obtain ⟨m1, m2⟩ := mark_constraint_spec (self.constraint x) heap p
        refine ⟨h1.trans m1, ?_⟩
        have hcongr : ∀ ptr, CanRepair (mark_constraint (self.constraint x) heap)
            (self.constraint ptr) p ↔ CanRepair heap (self.constraint ptr) p :=
          fun ptr => can_repair_congr _ _ _ p m1
        rw [h2, m2]
        constructor
        · rintro ((h | h) | ⟨ptr, hm, a, b, c⟩)
          · exact Or.inl h
          · exact Or.inr ⟨x, List.mem_cons_self _ _, hf2, he, h⟩
          · exact Or.inr ⟨ptr, List.mem_cons_of_mem _ hm, a, b, (hcongr ptr).1 c⟩
        · rintro (h | ⟨ptr, hm, a, b, c⟩)
          · exact Or.inl (Or.inl h)
          · rcases List.mem_cons.1 hm with e | e
            · subst e
              exact Or.inl (Or.inr c)
            · exact Or.inr ⟨ptr, e, a, b, (hcongr ptr).2 c⟩
      · rw [if_pos (by simp [he])]
        obtain ⟨h1, h2⟩ := ih heap p
        refine ⟨h1, ?_⟩
        rw [h2]
        constructor
        · rintro (h | ⟨ptr, hm, a, b, c⟩)
          · exact Or.inl h
          · exact Or.inr ⟨ptr, List.mem_cons_of_mem _ hm, a, b, c⟩
        · rintro (h | ⟨ptr, hm, a, b, c⟩)
          · exact Or.inl h
          · rcases List.mem_cons.1 hm with e | e
            · subst e
              exact absurd b he
            · exact Or.inr ⟨ptr, e, a, b, c⟩

theorem reset_loop_spec : ∀ (L : List Nat) (heap : VariableHeap) (p : Nat),
    reset_feasibility_improvabilities_loop L heap p =
      if p ∈ L then (heap p).set_is_feasibility_improvable false else heap p := by
  intro L
  induction L with
  | nil => intro heap p; simp [reset_feasibility_improvabilities_loop]
  | cons x rest ih =>
    intro heap p
    rw [reset_feasibility_improvabilities_loop, ih]
    by_cases hp : p = x
    · subst hp
      simp only [if_true, List.mem_cons, true_or]
      split <;> rfl
    · have e1 : (p ∈ x :: rest) ↔ p ∈ rest := by
        simp only [List.mem_cons, hp, false_or]
      by_cases hm : p ∈ rest
      · rw [if_pos hm, if_pos (e1.2 hm), if_neg hp]
      · rw [if_neg hm, if_neg (fun h => hm (e1.1 h)), if_neg hp]

end ModelState
end model
end printemps

namespace printemps
namespace model

open model_component neighborhood

namespace ModelState

/-- For a variable within its bounds, `CanRepair` tells that a step of the variable by
`+1` or `-1` inside the bounds changes a positive constraint value by a negative
amount, or a constraint value that is not positive by a positive amount. -/
theorem can_repair_iff_unit_step (heap : VariableHeap) (c : Constraint) (p : Nat)
    (hl : (heap p).lower_bound ≤ (heap p).value) (hu : (heap p).value ≤ (heap p).upper_bound) :
    CanRepair heap c p ↔
      ∃ a : ℚ, (p, a) ∈ c.m_expression.m_sensitivities ∧ (heap p).is_fixed = false ∧
        ∃ d : ℤ, (d = 1 ∨ d = -1) ∧ (heap p).lower_bound ≤ (heap p).value + d ∧
          (heap p).value + d ≤ (heap p).upper_bound ∧
          ((c.constraint_value > 0 ∧ a * (d : ℚ) < 0) ∨
            (c.constraint_value ≤ 0 ∧ a * (d : ℚ) > 0)) := by
  simp only [CanRepair, Variable.has_lower_bound_margin, Variable.has_upper_bound_margin,
    decide_eq_true_eq]
  constructor
  · rintro ⟨a, hmem, hf, h⟩
    refine ⟨a, hmem, hf, ?_⟩
    rcases h with ⟨hc, (⟨ha, hm⟩ | ⟨ha, hm⟩)⟩ | ⟨hc, (⟨ha, hm⟩ | ⟨ha, hm⟩)⟩
    · exact ⟨-1, Or.inr rfl, by omega, by omega, Or.inl ⟨hc, by push_cast; linarith⟩⟩
    · exact ⟨1, Or.inl rfl, by omega, by omega, Or.inl ⟨hc, by push_cast; linarith⟩⟩
    · exact ⟨-1, Or.inr rfl, by omega, by omega, Or.inr ⟨hc, by push_cast; linarith⟩⟩
    · exact ⟨1, Or.inl rfl, by omega, by omega, Or.inr ⟨hc, by push_cast; linarith⟩⟩
  · rintro ⟨a, hmem, hf, d, hd, h1, h2, h⟩
    refine ⟨a, hmem, hf, ?_⟩
    rcases hd with rfl | rfl
    · rcases h with ⟨hc, ha⟩ | ⟨hc, ha⟩
      · exact Or.inl ⟨hc, Or.inr ⟨by push_cast at ha; linarith, by omega⟩⟩
      · exact Or.inr ⟨hc, Or.inr ⟨by push_cast at ha; linarith, by omega⟩⟩
    · rcases h with ⟨hc, ha⟩ | ⟨hc, ha⟩
      · exact Or.inl ⟨hc, Or.inl ⟨by push_cast at ha; linarith, by omega⟩⟩
      · exact Or.inr ⟨hc, Or.inl ⟨by push_cast at ha; linarith, by omega⟩⟩

end ModelState
end model
end printemps

namespace printemps
namespace model

open model_component

theorem Sensitivities.assign_of_not_mem (S : List (Nat × ℚ)) (k : Nat) (v : ℚ)
    (h : k ∉ S.map Prod.fst) : Sensitivities.assign S k v = S ++ [(k, v)] := by
  unfold Sensitivities.assign
  rw [if_neg]
  intro hs
  exact h ((Expression.lookup_isSome_iff S k).mp hs)

theorem Sensitivities.assign_fold (variable_ptrs : List (String × Nat)) :
    ∀ (names : List String) (S : List (Nat × ℚ)),
      (names.map (VariableMap.subscript variable_ptrs)).Nodup →
      (∀ k ∈ names.map (VariableMap.subscript variable_ptrs), k ∉ S.map Prod.fst) →
      names.foldl
        (fun sensitivities variable_name =>
          Sensitivities.assign sensitivities
            (VariableMap.subscript variable_ptrs variable_name) (-1)) S =
        S ++ names.map (fun name => (VariableMap.subscript variable_ptrs name, (-1 : ℚ))) := by
  intro names
  induction names with
  | nil => intro S _ _; simp
  | cons name rest ih =>
    intro S hnodup hdisj
    rw [List.map_cons, List.nodup_cons] at hnodup
    rw [List.foldl_cons, Sensitivities.assign_of_not_mem _ _ _
      (hdisj _ (by simp)), ih _ hnodup.2]
    · simp
    · intro k hk
      rw [List.map_append, List.mem_append]
      rintro (h | h)
      · exact hdisj k (by simp only [List.map_cons, List.mem_cons]; exact Or.inr hk) h
      · simp only [List.map_cons, List.map_nil, List.mem_singleton] at h
        rw [h] at hk
        exact hnodup.1 hk

namespace Model

/-- For pairwise distinct factors that do not include the product variable, the
sensitivities are the coefficient of the product variable followed by `-1` for each
factor. -/
theorem import_opb_product_sensitivities_eq (variable_ptrs : List (String × Nat))
    (product : String × List String) (c : ℚ)
    (hnodup : (product.2.map (VariableMap.subscript variable_ptrs)).Nodup)
    (hz : VariableMap.subscript variable_ptrs product.1 ∉
      product.2.map (VariableMap.subscript variable_ptrs)) :
    import_opb_product_sensitivities variable_ptrs product c =
      (VariableMap.subscript variable_ptrs product.1, c) ::
        product.2.map (fun name => (VariableMap.subscript variable_ptrs name, (-1 : ℚ))) := by
  unfold import_opb_product_sensitivities
  rw [Sensitivities.assign_of_not_mem [] _ _ (by simp), Sensitivities.assign_fold _ _ _ hnodup]
  · simp
  · intro k hk
    simp only [List.nil_append, List.map_cons, List.map_nil, List.mem_singleton]
    rintro rfl
    exact hz hk

theorem import_opb_product_constraints_eq (variable_ptrs : List (String × Nat))
    (product : String × List String) :
    import_opb_product_constraints variable_ptrs product =
      some
        (Constraint.create_instance
          ((Expression.create_instance
            (import_opb_product_sensitivities variable_ptrs product 1) 0).sub_assign_value
              (-(product.2.length : ℤ) + 1)) ConstraintSense.Greater,
         Constraint.create_instance
          ((Expression.create_instance
            (import_opb_product_sensitivities variable_ptrs product
              ((product.2.length : ℤ) : ℚ)) 0).sub_assign_value 0) ConstraintSense.Less) := by
  rfl

theorem import_opb_product_variable_constraints_spec (variable_ptrs : List (String × Nat)) :
    ∀ (products : List (String × List String)),
      ∃ constraints, import_opb_product_variable_constraints variable_ptrs products =
          some constraints ∧
        constraints.length = 2 * products.length ∧
        ∀ i product, products[i]? = some product →
          ∃ lower upper, import_opb_product_constraints variable_ptrs product =
              some (lower, upper) ∧
            constraints[2 * i]? = some lower ∧ constraints[2 * i + 1]? = some upper := by
  intro products
  induction products with
  | nil => exact ⟨[], rfl, rfl, fun i product h => by simp at h⟩
  | cons product rest ih =>
    obtain ⟨constraints, hc, hlen, hall⟩ := ih
    have hproduct := import_opb_product_constraints_eq variable_ptrs product
    generalize Constraint.create_instance _ ConstraintSense.Greater = first at hproduct
    generalize Constraint.create_instance _ ConstraintSense.Less = second at hproduct
    refine ⟨first :: second :: constraints, ?_, ?_, ?_⟩
    · simp only [import_opb_product_variable_constraints, hc, hproduct]
    · simp only [List.length_cons, hlen]
      ring
    · intro i p hp
      cases i with
      | zero =>
        simp only [List.getElem?_cons_zero, Option.some.injEq] at hp
        subst hp
        exact ⟨first, second, hproduct, by simp, by simp⟩
      | succ j =>
        simp only [List.getElem?_cons_succ] at hp
        obtain ⟨lower, upper, h1, h2, h3⟩ := hall j p hp
        refine ⟨lower, upper, h1, ?_, ?_⟩
        · have e : 2 * (j + 1) = (2 * j + 1) + 1 := by ring
          rw [e, List.getElem?_cons_succ, List.getElem?_cons_succ]
          exact h2
        · have e : 2 * (j + 1) + 1 = (2 * j + 1 + 1) + 1 := by ring
          rw [e, List.getElem?_cons_succ, List.getElem?_cons_succ]
          exact h3

/-- The sum of values that are all 0 or 1 is between 0 and the number of the values, and
it is the number of the values exactly when every value is 1. -/
theorem sum_of_binary_values (heap : VariableHeap) : ∀ (ptrs : List Nat),
    (∀ p ∈ ptrs, (heap p).value = 0 ∨ (heap p).value = 1) →
    0 ≤ (ptrs.map (fun p => (heap p).value)).sum ∧
      (ptrs.map (fun p => (heap p).value)).sum ≤ (ptrs.length : ℤ) ∧
      ((ptrs.map (fun p => (heap p).value)).sum = (ptrs.length : ℤ) ↔
        ∀ p ∈ ptrs, (heap p).value = 1) := by
  intro ptrs
  induction ptrs with
  | nil => intro _; simp
  | cons p rest ih =>
    intro h
    obtain ⟨h0, h1, h2⟩ := ih (fun q hq => h q (List.mem_cons_of_mem _ hq))
    have hp := h p (List.mem_cons_self _ _)
    simp only [List.map_cons, List.sum_cons, List.length_cons, Nat.cast_add, Nat.cast_one,
      List.mem_cons, forall_eq_or_imp]
    refine ⟨by omega, by omega, ?_⟩
    constructor
    · intro hs
      have hp1 : (heap p).value = 1 := by omega
      exact ⟨hp1, h2.mp (by omega)⟩
    · rintro ⟨hp1, hr⟩
      have := h2.mpr hr
      omega

theorem sum_of_minus_one (heap : VariableHeap) (f : String → Nat) : ∀ (names : List String),
    ((names.map (fun name => (f name, (-1 : ℚ)))).map
      (fun s => s.2 * ((heap s.1).value : ℚ))).sum =
      -(((names.map f).map (fun p => (heap p).value)).sum : ℤ) := by
  intro names
  induction names with
  | nil => simp
  | cons name rest ih =>
    simp only [List.map_cons, List.sum_cons, ih]
    push_cast
    ring

end Model
end model
end printemps

namespace printemps
namespace model

open model_component mps

namespace Model

/-- The loop over the variables: when every name that is left has an entry in the map of
the MPS data and the proxy has an element for each of them, the loop throws exactly when
continuous variables are not accepted and one of the names is that of a continuous
variable; otherwise it keeps the number of elements and the elements before `i`, and the
element `i + j` becomes the one that `set_bound` and `fix_by` give for the variable of
the name `j`. -/
theorem import_mps_variables_spec (a_MPS : MPS) (a_ACCEPT_CONTINUOUS : Bool)
    (address : Nat → Nat) :
    ∀ (names : List String) (i : Nat) (state : List Variable × List String × List (String × Nat)),
      (∀ name ∈ names, ∃ VARIABLE, a_MPS.variables_.lookup name = some VARIABLE) →
      i + names.length ≤ state.1.length →
      (import_mps_variables a_MPS a_ACCEPT_CONTINUOUS address i names state = none ↔
        a_ACCEPT_CONTINUOUS = false ∧ ∃ name ∈ names, ∃ VARIABLE,
          a_MPS.variables_.lookup name = some VARIABLE ∧
            VARIABLE.sense = MPSVariableSense.Continuous) ∧
      ∀ result, import_mps_variables a_MPS a_ACCEPT_CONTINUOUS address i names state =
          some result →
        result.1.length = state.1.length ∧
        (∀ k, k < i → result.1[k]? = state.1[k]?) ∧
        ∀ j name VARIABLE, names[j]? = some name →
          a_MPS.variables_.lookup name = some VARIABLE →
          ∃ element, state.1[i + j]? = some element ∧
            result.1[i + j]? = some (import_mps_variable element VARIABLE) := by
  intro names
  induction names with
  | nil =>
    intro i state _ _
    refine ⟨?_, ?_⟩
    · simp [import_mps_variables]
    · intro result h
      simp only [import_mps_variables, Option.some.injEq] at h
      subst h
      exact ⟨rfl, fun _ _ => rfl, fun j name V hj => by simp at hj⟩
  | cons name rest ih =>
    intro i state hentry hlen
    obtain ⟨elements, names, variable_ptrs⟩ := state
    obtain ⟨V, hV⟩ := hentry name (List.mem_cons_self _ _)
    have hrest : ∀ n ∈ rest, ∃ VARIABLE, a_MPS.variables_.lookup n = some VARIABLE :=
      fun n hn => hentry n (List.mem_cons_of_mem _ hn)
    simp only [List.length_cons] at hlen
    have hi : i < elements.length := by omega
    have hget : elements[i]? = some elements[i] := List.getElem?_eq_getElem hi
    by_cases hthrow : V.sense = MPSVariableSense.Continuous ∧ a_ACCEPT_CONTINUOUS = false
    · refine ⟨?_, ?_⟩
      · simp only [import_mps_variables, hV, if_pos hthrow, true_iff]
        exact ⟨hthrow.2, name, List.mem_cons_self _ _, V, hV, hthrow.1⟩
      · intro result h
        simp [import_mps_variables, hV, if_pos hthrow] at h
    · have hstep : import_mps_variables a_MPS a_ACCEPT_CONTINUOUS address i (name :: rest)
          (elements, names, variable_ptrs) =
          import_mps_variables a_MPS a_ACCEPT_CONTINUOUS address (i + 1) rest
            (elements.set i (import_mps_variable elements[i] V), names.set i name,
              VariableMap.assign variable_ptrs name (address i)) := by
        simp only [import_mps_variables, hV, if_neg hthrow, hget]
      obtain ⟨ih1, ih2⟩ := ih (i + 1)
        (elements.set i (import_mps_variable elements[i] V), names.set i name,
          VariableMap.assign variable_ptrs name (address i)) hrest
        (by simp only [List.length_set]; omega)
      rw [hstep]
      refine ⟨?_, ?_⟩
      · rw [ih1]
        constructor
        · rintro ⟨ha, n, hn, W, hW, hs⟩
          exact ⟨ha, n, List.mem_cons_of_mem _ hn, W, hW, hs⟩
        · rintro ⟨ha, n, hn, W, hW, hs⟩
          refine ⟨ha, ?_⟩
          rcases List.mem_cons.mp hn with rfl | hn
          · rw [hV, Option.some.injEq] at hW
            subst hW
            exact absurd ⟨hs, ha⟩ hthrow
          · exact ⟨n, hn, W, hW, hs⟩
      · intro result h
        obtain ⟨r1, r2, r3⟩ := ih2 result h
        simp only [List.length_set] at r1
        refine ⟨r1, ?_, ?_⟩
        · intro k hk
          rw [r2 k (by omega)]
          exact List.getElem?_set_ne (by omega)
        · intro j n W hj hW
          cases j with
          | zero =>
            simp only [List.getElem?_cons_zero, Option.some.injEq] at hj
            subst hj
            rw [hV, Option.some.injEq] at hW
            subst hW
            refine ⟨elements[i], hget, ?_⟩
            rw [Nat.add_zero, r2 i (by omega)]
            simp only [List.getElem?_set_self hi]
          | succ j =>
            simp only [List.getElem?_cons_succ] at hj
            obtain ⟨element, he, hr⟩ := r3 j n W hj hW
            have e : i + (j + 1) = i + 1 + j := by omega
            rw [e]
            refine ⟨element, ?_, hr⟩
            rw [← he]
            exact (List.getElem?_set_ne (by omega)).symm

/-- The loop over the constraints returns when every name has an entry in the map of the
MPS data. -/
theorem import_mps_constraints_isSome (a_MPS : MPS) (variable_ptrs : List (String × Nat)) :
    ∀ (names : List String) (i : Nat) (state : List Constraint × List String),
      (∀ name ∈ names, ∃ CONSTRAINT, a_MPS.constraints_.lookup name = some CONSTRAINT) →
      ∃ result, import_mps_constraints a_MPS variable_ptrs i names state = some result := by
  intro names
  induction names with
  | nil => intro i state _; exact ⟨state, rfl⟩
  | cons name rest ih =>
    intro i state hentry
    obtain ⟨constraints, names⟩ := state
    obtain ⟨C, hC⟩ := hentry name (List.mem_cons_self _ _)
    simp only [import_mps_constraints, hC]
    exact ih _ _ (fun n hn => hentry n (List.mem_cons_of_mem _ hn))

end Model
end model

namespace examples

theorem mps_with_continuous_variables : ∀ name ∈ mps_with_continuous.variable_names,
    ∃ VARIABLE, mps_with_continuous.variables_.lookup name = some VARIABLE := by
  intro name h
  simp only [mps_with_continuous, List.mem_cons, List.mem_singleton, List.not_mem_nil,
    or_false] at h
  rcases h with rfl | rfl
  · exact ⟨_, rfl⟩
  · exact ⟨_, rfl⟩

theorem mps_with_continuous_constraints : ∀ name ∈ mps_with_continuous.constraint_names,
    ∃ CONSTRAINT, mps_with_continuous.constraints_.lookup name = some CONSTRAINT := by
  intro name h
  simp only [mps_with_continuous, List.mem_singleton] at h
  subst h
  exact ⟨_, rfl⟩

/-- With continuous variables rejected, the import of the example throws; with
continuous variables accepted it returns. -/
theorem mps_with_continuous_import :
    (model.Model.import_mps empty_definitions mps_with_continuous false
      (plain_variable 0 0 0) mps_address).isSome = false ∧
    (model.Model.import_mps empty_definitions mps_with_continuous true
      (plain_variable 0 0 0) mps_address).isSome = true := by
  constructor <;> rfl

end examples
end printemps

namespace printemps
namespace model_component
namespace Expression

theorem foldl_add_term (f : Nat × ℚ → ℚ) : ∀ (L : List (Nat × ℚ)) (init : ℚ),
    L.foldl (fun acc s => acc + f s) init = init + (L.map f).sum := by
  intro L
  induction L with
  | nil => intro init; simp
  | cons a L ih =>
    intro init
    simp only [List.foldl_cons, List.map_cons, List.sum_cons, ih]
    ring

/-- The term of a variable in `lower_bound()`. -/
theorem lower_bound_eq_sum (self : Expression) (heap : VariableHeap) :
    self.lower_bound heap = self.m_constant_value +
      (self.m_sensitivities.map (fun s =>
        if (heap s.1).is_fixed then s.2 * ((heap s.1).value : ℚ)
        else s.2 * (((if s.2 > 0 then (heap s.1).lower_bound
          else (heap s.1).upper_bound : ℤ)) : ℚ))).sum := by
  unfold lower_bound
  rw [← foldl_add_term]
  congr 1
  funext acc s
  split <;> rfl

theorem upper_bound_eq_sum (self : Expression) (heap : VariableHeap) :
    self.upper_bound heap = self.m_constant_value +
      (self.m_sensitivities.map (fun s =>
        if (heap s.1).is_fixed then s.2 * ((heap s.1).value : ℚ)
        else s.2 * (((if s.2 > 0 then (heap s.1).upper_bound
          else (heap s.1).lower_bound : ℤ)) : ℚ))).sum := by
  unfold upper_bound
  rw [← foldl_add_term]
  congr 1
  funext acc s
  split <;> rfl

theorem sum_le_sum_of_forall {α : Type} (f g : α → ℚ) : ∀ (L : List α),
    (∀ a ∈ L, f a ≤ g a) → (L.map f).sum ≤ (L.map g).sum := by
  intro L
  induction L with
  | nil => intro _; simp
  | cons a L ih =>
    intro h
    simp only [List.map_cons, List.sum_cons]
    exact add_le_add (h a (List.mem_cons_self _ _))
      (ih (fun b hb => h b (List.mem_cons_of_mem _ hb)))

theorem sum_eq_sum_of_forall {α : Type} (f g : α → ℚ) : ∀ (L : List α),
    (∀ a ∈ L, f a = g a) → (L.map f).sum = (L.map g).sum := by
  intro L h
  rw [List.map_congr_left h]

/-- The bounds of an expression are valid: the value at every assignment within the
bounds of the variables lies between `lower_bound()` and `upper_bound()`. -/
theorem bounds_valid (self : Expression) (heap other : VariableHeap)
    (h : self.WithinBounds heap other) :
    self.lower_bound heap ≤ self.evaluate other ∧
      self.evaluate other ≤ self.upper_bound heap := by
  rw [lower_bound_eq_sum, upper_bound_eq_sum, evaluate_eq_sum]
  constructor
  · refine add_le_add_left (sum_le_sum_of_forall _ _ _ ?_) _
    intro s hs
    have hw := h s hs
    by_cases hf : (heap s.1).is_fixed = true
    · simp only [hf, if_true] at hw ⊢
      rw [hw]
    · simp only [hf] at hw ⊢
      simp only [Bool.false_eq_true, if_false]
      by_cases hc : s.2 > 0
      · rw [if_pos hc]
        exact mul_le_mul_of_nonneg_left (by exact_mod_cast hw.1) (le_of_lt hc)
      · rw [if_neg hc]
        have hc2 : s.2 ≤ 0 := not_lt.mp hc
        exact mul_le_mul_of_nonpos_left (by exact_mod_cast hw.2) hc2
  · refine add_le_add_left (sum_le_sum_of_forall _ _ _ ?_) _
    intro s hs
    have hw := h s hs
    by_cases hf : (heap s.1).is_fixed = true
    · simp only [hf, if_true] at hw ⊢
      rw [hw]
    · simp only [hf] at hw ⊢
      simp only [Bool.false_eq_true, if_false]
      by_cases hc : s.2 > 0
      · rw [if_pos hc]
        exact mul_le_mul_of_nonneg_left (by exact_mod_cast hw.2) (le_of_lt hc)
      · rw [if_neg hc]
        have hc2 : s.2 ≤ 0 := not_lt.mp hc
        exact mul_le_mul_of_nonpos_left (by exact_mod_cast hw.1) hc2

/-- The value that `at_bounds` gives to a variable of the expression. -/
theorem at_bounds_value (self : Expression) (heap : VariableHeap) (a_IS_LOWER : Bool)
    (hkeys : (self.m_sensitivities.map Prod.fst).Nodup) (s : Nat × ℚ)
    (hs : s ∈ self.m_sensitivities) :
    (self.at_bounds heap a_IS_LOWER s.1).value =
      if (heap s.1).is_fixed then (heap s.1).value
      else if decide (s.2 > 0) = a_IS_LOWER then (heap s.1).lower_bound
      else (heap s.1).upper_bound := by
  have hl : self.m_sensitivities.lookup s.1 = some s.2 :=
    lookup_of_mem self.m_sensitivities hkeys s hs
  unfold at_bounds
  by_cases hf : (heap s.1).is_fixed = true
  · simp only [hf, if_true]
  · simp only [hf, hl]
    simp only [Bool.false_eq_true, if_false]
    split <;> rfl

theorem at_bounds_within (self : Expression) (heap : VariableHeap) (a_IS_LOWER : Bool)
    (hkeys : (self.m_sensitivities.map Prod.fst).Nodup)
    (hbounds : ∀ s ∈ self.m_sensitivities, (heap s.1).is_fixed = false →
      (heap s.1).lower_bound ≤ (heap s.1).upper_bound) :
    self.WithinBounds heap (self.at_bounds heap a_IS_LOWER) := by
  intro s hs
  rw [at_bounds_value self heap a_IS_LOWER hkeys s hs]
  by_cases hf : (heap s.1).is_fixed = true
  · simp only [hf, if_true]
  · have hf2 : (heap s.1).is_fixed = false := by simpa using hf
    have hb := hbounds s hs hf2
    simp only [hf2, Bool.false_eq_true, if_false]
    split
    · exact ⟨le_refl _, hb⟩
    · exact ⟨hb, le_refl _⟩

/-- The lower bound is attained. -/
theorem lower_bound_attained (self : Expression) (heap : VariableHeap)
    (hkeys : (self.m_sensitivities.map Prod.fst).Nodup) :
    self.evaluate (self.at_bounds heap true) = self.lower_bound heap := by
  rw [lower_bound_eq_sum, evaluate_eq_sum]
  congr 1
  apply sum_eq_sum_of_forall
  intro s hs
  show s.2 * ((self.at_bounds heap true s.1).value : ℚ) = _
  rw [at_bounds_value self heap true hkeys s hs]
  by_cases hf : (heap s.1).is_fixed = true
  · simp only [hf, if_true]
  · simp only [hf, Bool.false_eq_true, if_false, decide_eq_true_eq]

/-- The upper bound is attained. -/
theorem upper_bound_attained (self : Expression) (heap : VariableHeap)
    (hkeys : (self.m_sensitivities.map Prod.fst).Nodup) :
    self.evaluate (self.at_bounds heap false) = self.upper_bound heap := by
  rw [upper_bound_eq_sum, evaluate_eq_sum]
  congr 1
  apply sum_eq_sum_of_forall
  intro s hs
  show s.2 * ((self.at_bounds heap false s.1).value : ℚ) = _
  rw [at_bounds_value self heap false hkeys s hs]
  by_cases hf : (heap s.1).is_fixed = true
  · simp only [hf, if_true]
  · simp only [hf, Bool.false_eq_true, if_false, decide_eq_false_iff_not]
    by_cases hc : s.2 > 0
    · simp only [hc, not_true_eq_false, if_false, if_true]
    · simp only [hc, not_false_eq_true, if_true, if_false]

end Expression
end model_component

namespace model

open model_component

/-- The naive dual bound is a bound of the objective expression. -/
theorem Model.compute_naive_dual_bound_eq (self : Model) :
    self.compute_naive_dual_bound =
      if self.m_is_minimization then
        self.m_objective.m_expression.lower_bound self.m_variable_proxies
      else self.m_objective.m_expression.upper_bound self.m_variable_proxies := by
  unfold Model.compute_naive_dual_bound Expression.lower_bound Expression.upper_bound
    Expression.constant_value
  cases hm : self.m_is_minimization
  · simp only [Bool.false_eq_true, if_false]
    congr 1
    funext acc s
    by_cases hf : (self.m_variable_proxies s.1).is_fixed = true
    · simp only [hf, if_true]
      ring
    · simp only [hf, Bool.false_eq_true, if_false]
      by_cases hc : s.2 > 0
      · simp [hc, mul_comm]
      · simp [hc, mul_comm]
  · simp only [if_true]
    congr 1
    funext acc s
    by_cases hf : (self.m_variable_proxies s.1).is_fixed = true
    · simp only [hf, if_true]
      ring
    · simp only [hf, Bool.false_eq_true, if_false]
      by_cases hc : s.2 > 0
      · simp [hc, mul_comm]
      · simp [hc, mul_comm]

end model

namespace examples

open model_component

theorem bounded_heap_bounds : ∀ s ∈ bounded_expression.m_sensitivities,
    (bounded_heap s.1).is_fixed = false →
      (bounded_heap s.1).lower_bound ≤ (bounded_heap s.1).upper_bound := by
  intro s hs _
  simp only [bounded_expression, Expression.create_instance, List.mem_cons,
    List.mem_singleton, List.not_mem_nil, or_false] at hs
  rcases hs with rfl | rfl | rfl <;> decide

end examples
end printemps

namespace printemps
namespace model_component
namespace Expression

theorem double_to_int_of_int (n : ℤ) :
    double_to_int (n : ℚ) = if -(2 : ℤ) ^ 31 ≤ n ∧ n < (2 : ℤ) ^ 31 then some n else none := by
  unfold double_to_int
  have h : (if (0 : ℚ) ≤ (n : ℚ) then Int.floor (n : ℚ) else -Int.floor (-(n : ℚ))) = n := by
    split
    · exact Int.floor_intCast n
    · have : (-(n : ℚ)) = ((-n : ℤ) : ℚ) := by push_cast; rfl
      rw [this, Int.floor_intCast]
      ring
  simp only [h]

/-- With integer coefficients of the fixed variables, the loop returns the sum whenever
it returns. -/
theorem fixed_term_value_loop_of_integers (heap : VariableHeap) :
    ∀ (L : List (Nat × ℚ)) (acc result : ℤ),
      (∀ s ∈ L, (heap s.1).is_fixed = true → ∃ n : ℤ, s.2 = (n : ℚ)) →
      fixed_term_value_loop heap L acc = some result →
      (result : ℚ) = (acc : ℚ) +
        ((L.filter (fun s => (heap s.1).is_fixed)).map
          (fun s => s.2 * ((heap s.1).value : ℚ))).sum := by
  intro L
  induction L with
  | nil =>
    intro acc result _ h
    simp only [fixed_term_value_loop, Option.some.injEq] at h
    simp [h]
  | cons s rest ih =>
    intro acc result hint h
    have hrest : ∀ t ∈ rest, (heap t.1).is_fixed = true → ∃ n : ℤ, t.2 = (n : ℚ) :=
      fun t ht => hint t (List.mem_cons_of_mem _ ht)
    by_cases hf : (heap s.1).is_fixed = true
    · obtain ⟨n, hn⟩ := hint s (List.mem_cons_self _ _) hf
      have hcast : (acc : ℚ) + s.2 * ((heap s.1).value : ℚ) =
          ((acc + n * (heap s.1).value : ℤ) : ℚ) := by
        rw [hn]
        push_cast
        ring
      simp only [fixed_term_value_loop, hf, if_true, hcast, double_to_int_of_int] at h
      by_cases hr : -(2 : ℤ) ^ 31 ≤ acc + n * (heap s.1).value ∧
          acc + n * (heap s.1).value < (2 : ℤ) ^ 31
      · rw [if_pos hr] at h
        have := ih _ result hrest h
        rw [this, List.filter_cons_of_pos (by simpa using hf), List.map_cons, List.sum_cons,
          hn]
        push_cast
        ring
      · rw [if_neg hr] at h
        simp at h
    · simp only [fixed_term_value_loop, hf, Bool.false_eq_true, if_false] at h
      have := ih _ result hrest h
      rw [this, List.filter_cons_of_neg (by simpa using hf)]

end Expression
end model_component
end printemps

namespace printemps
namespace model
namespace Model

open model_component

/-- The variables after `unfix_variables`. -/
theorem unfix_variables_apply (name : Nat → String) (a_VARIABLE_NAMES : List String) :
    ∀ (variable_ptrs : List Nat) (heap : VariableHeap) (ptr : Nat),
      unfix_variables name a_VARIABLE_NAMES variable_ptrs heap ptr =
        if ptr ∈ variable_ptrs then
          if name ptr ∈ a_VARIABLE_NAMES then ((heap ptr).fix_by 0).unfix
          else (heap ptr).fix_by 0
        else heap ptr := by
  intro variable_ptrs
  induction variable_ptrs with
  | nil => intro heap ptr; simp [unfix_variables]
  | cons p rest ih =>
    intro heap ptr
    rw [unfix_variables, ih]
    by_cases hp : ptr = p
    · subst hp
      simp only [List.mem_cons, true_or, if_true]
      by_cases hm : ptr ∈ rest
      · simp only [hm, if_true]
        split <;> rfl
      · simp only [hm, if_false]
    · simp only [hp, if_false, List.mem_cons, false_or]

/-- The variables after `fix_variables`, for variables that are listed once. -/
theorem fix_variables_apply (name : Nat → String) (a_VARIABLES : List (String × ℤ)) :
    ∀ (variable_ptrs : List Nat) (heap : VariableHeap) (ptr : Nat), variable_ptrs.Nodup →
      fix_variables name a_VARIABLES variable_ptrs heap ptr =
        if ptr ∈ variable_ptrs then
          match a_VARIABLES.lookup (name ptr) with
          | some value => (heap ptr).fix_by value
          | none => heap ptr
        else heap ptr := by
  intro variable_ptrs
  induction variable_ptrs with
  | nil => intro heap ptr _; simp [fix_variables]
  | cons p rest ih =>
    intro heap ptr hnd
    rw [List.nodup_cons] at hnd
    rw [fix_variables, ih _ _ hnd.2]
    by_cases hp : ptr = p
    · subst hp
      simp only [List.mem_cons, true_or, if_true, hnd.1, if_false]
      first | done | rfl
    · simp only [hp, if_false, List.mem_cons, false_or]

end Model
end model
end printemps

namespace printemps

theorem resize_of_length {α : Type} (v : List α) (n : Nat) (value : α) (h : v.length = n) :
    resize v n value = v := by
  unfold resize
  rw [← h, List.take_length, Nat.sub_self, List.replicate_zero, List.append_nil]

theorem resize_nil {α : Type} (n : Nat) (value : α) :
    resize ([] : List α) n value = List.replicate n value := by
  simp [resize]

namespace neighborhood

open model_component

namespace TwoFlipMoveGenerator

/-- The alterations of the two slots of a pair after `setup`, from the alterations that
the first slot held before. -/
theorem two_flip_setup_slots (self : AbstractMoveGenerator) (heap : VariableHeap)
    (pairs : List (Nat × Nat)) (j : Nat) (pair : Nat × Nat) (hj : pairs[j]? = some pair) :
    ((setup self heap pairs).m_moves.getD (2 * j) Move.empty).alterations =
        ((resize self.m_moves (2 * pairs.length) Move.empty).getD (2 * j)
          Move.empty).alterations ++ [(pair.1, 1), (pair.2, 0)] ∧
    (setup self heap pairs).m_moves.getD (2 * j + 1) Move.empty =
      ((first_move heap ((resize self.m_moves (2 * pairs.length) Move.empty).getD (2 * j)
        Move.empty) pair).set_alteration_value 0 0).set_alteration_value 1 1 := by
  have hlt : j < pairs.length := by
    rcases Nat.lt_or_ge j pairs.length with h | h
    · exact h
    · rw [List.getElem?_eq_none h] at hj
      simp at hj
  have hpair : pairs.getD j (0, 0) = pair := by
    rw [List.getD_eq_getElem?_getD, hj]
    rfl
  obtain ⟨_, hfill⟩ := setup_loop_getD heap pairs 0
    (resize self.m_moves (2 * pairs.length) Move.empty)
    (by rw [length_resize]; omega)
  obtain ⟨h1, h2⟩ := hfill j hlt
  rw [Nat.zero_add, hpair] at h1 h2
  constructor
  · show ((setup_loop heap pairs 0 (resize self.m_moves (2 * pairs.length)
      Move.empty)).getD (2 * j) Move.empty).alterations = _
    rw [h1]
    rfl
  · exact h2

end TwoFlipMoveGenerator

namespace AggregationMoveGenerator

/-- The alterations of the four slots of a binomial after `setup`, from the alterations
that the first slot held before. -/
theorem aggregation_setup_slots (self : AbstractMoveGenerator) (heap : VariableHeap)
    (binomials : List BinomialConstraint) (j : Nat) (binomial : BinomialConstraint)
    (hj : binomials[j]? = some binomial) (r : Nat) (hr : r < 4) :
    ((setup self heap binomials).m_moves.getD (4 * j + r) Move.empty).alterations =
      ((resize self.m_moves (4 * binomials.length) Move.empty).getD (4 * j)
        Move.empty).alterations ++
        [(binomial.variable_ptr_first, 0), (binomial.variable_ptr_second, 0)] := by
  obtain ⟨_, hfill⟩ := aggregation_setup_loop_getD heap binomials 0
    (resize self.m_moves (4 * binomials.length) Move.empty)
    (by rw [length_resize]; omega)
  have := hfill j binomial hj r hr
  rw [Nat.zero_add] at this
  exact this

theorem aggregation_setup_length (self : AbstractMoveGenerator) (heap : VariableHeap)
    (binomials : List BinomialConstraint) :
    (setup self heap binomials).m_moves.length = 4 * binomials.length := by
  show (setup_loop heap binomials 0 _).length = _
  rw [aggregation_setup_loop_length, length_resize]

end AggregationMoveGenerator

namespace TwoFlipMoveGenerator

theorem two_flip_setup_length (self : AbstractMoveGenerator) (heap : VariableHeap)
    (pairs : List (Nat × Nat)) :
    (setup self heap pairs).m_moves.length = 2 * pairs.length := by
  show (setup_loop heap pairs 0 _).length = _
  rw [setup_loop_length, length_resize]

end TwoFlipMoveGenerator
end neighborhood
end printemps

namespace cppmh
namespace model

open printemps.model_component

/-- Without correction, the verification of the integer variables changes no variable. -/
theorem verify_integer_without_correction : ∀ (variable_ptrs : List Nat)
    (heap result : VariableHeap),
    verify_and_correct_integer_variables_initial_values false variable_ptrs heap =
      some result → result = heap := by
  intro variable_ptrs
  induction variable_ptrs with
  | nil =>
    intro heap result h
    simp only [verify_and_correct_integer_variables_initial_values, Option.some.injEq] at h
    exact h.symm
  | cons p rest ih =>
    intro heap result h
    unfold verify_and_correct_integer_variables_initial_values at h
    cases hstep : verify_and_correct_integer_variable false heap p with
    | none => rw [hstep] at h; simp at h
    | some heap2 =>
      rw [hstep] at h
      have e : heap2 = heap := by
        unfold verify_and_correct_integer_variable at hstep
        split at hstep
        · split at hstep
          · simp at hstep
          · simp at hstep
        · simpa using hstep.symm
      subst e
      exact ih _ _ h

/-- Without correction, the verification of the integer variables returns exactly when
no variable of sense `Integer` has a value outside of its bounds. -/
theorem verify_integer_isSome_iff : ∀ (variable_ptrs : List Nat) (heap : VariableHeap),
    (verify_and_correct_integer_variables_initial_values false variable_ptrs heap).isSome =
        true ↔
      ∀ ptr ∈ variable_ptrs, (heap ptr).sense = VariableSense.Integer →
        (heap ptr).lower_bound ≤ (heap ptr).value ∧
          (heap ptr).value ≤ (heap ptr).upper_bound := by
  intro variable_ptrs
  induction variable_ptrs with
  | nil => intro heap; simp [verify_and_correct_integer_variables_initial_values]
  | cons p rest ih =>
    intro heap
    unfold verify_and_correct_integer_variables_initial_values
    by_cases hbad : (heap p).sense = VariableSense.Integer ∧
        ((heap p).value < (heap p).lower_bound ∨ (heap p).value > (heap p).upper_bound)
    · have hstep : verify_and_correct_integer_variable false heap p = none := by
        unfold verify_and_correct_integer_variable
        rw [if_pos hbad]
        split <;> simp
      rw [hstep]
      simp only [Option.isSome_none, Bool.false_eq_true, List.mem_cons, forall_eq_or_imp,
        false_iff, not_and]
      intro h
      have := h hbad.1
      omega
    · have hstep : verify_and_correct_integer_variable false heap p = some heap := by
        unfold verify_and_correct_integer_variable
        rw [if_neg hbad]
      rw [hstep]
      simp only [ih, List.mem_cons, forall_eq_or_imp]
      constructor
      · intro h
        refine ⟨fun hs => ?_, h⟩
        by_contra hc
        exact hbad ⟨hs, by omega⟩
      · intro h
        exact h.2

/-- The second verification of the integer variables has no effect, and no verification
of the binary variables takes place. -/
theorem import_variable_values_eq (a_PROXIES : Nat → ℤ) (variable_ptrs : List Nat)
    (selections : List (List Nat)) (heap : VariableHeap) :
    import_variable_values a_PROXIES variable_ptrs selections heap =
      (verify_and_correct_selection_variables_initial_values false selections
        (import_values a_PROXIES variable_ptrs heap)).bind
        (verify_and_correct_integer_variables_initial_values false variable_ptrs) := by
  simp only [import_variable_values]
  cases hs : verify_and_correct_selection_variables_initial_values false selections
      (import_values a_PROXIES variable_ptrs heap) with
  | none => simp only [Option.none_bind]
  | some heap2 =>
    simp only [Option.some_bind]
    cases hi : verify_and_correct_integer_variables_initial_values false variable_ptrs
        heap2 with
    | none => rfl
    | some heap3 =>
      have e := verify_integer_without_correction variable_ptrs heap2 heap3 hi
      subst e
      exact hi

end model
end cppmh

namespace printemps
namespace model

open model_component mps opb

/-- Every entry that a sequence of assignments leaves in a map of sensitivities is the
pair of the variable and the coefficient of one of the assignments. -/
theorem Sensitivities.assign_mem (S : List (Nat × ℚ)) (k : Nat) (v : ℚ) (s : Nat × ℚ)
    (hs : s ∈ Sensitivities.assign S k v) : s ∈ S ∨ s = (k, v) := by
  unfold Sensitivities.assign at hs
  split at hs
  · obtain ⟨t, ht, rfl⟩ := List.mem_map.mp hs
    by_cases h : t.1 = k
    · rw [if_pos h]
      exact Or.inr (by rw [h])
    · rw [if_neg h]
      exact Or.inl ht
  · rcases List.mem_append.mp hs with h | h
    · exact Or.inl h
    · exact Or.inr (List.mem_singleton.mp h)

namespace Model

theorem import_mps_sensitivities_mem (variable_ptrs : List (String × Nat)) :
    ∀ (sensitivities : List (String × ℚ)) (init : List (Nat × ℚ)) (s : Nat × ℚ),
      s ∈ sensitivities.foldl
        (fun expression_sensitivities sensitivity =>
          Sensitivities.assign expression_sensitivities
            (VariableMap.subscript variable_ptrs sensitivity.1) sensitivity.2) init →
      s ∈ init ∨ ∃ t ∈ sensitivities,
        s = (VariableMap.subscript variable_ptrs t.1, t.2) := by
  intro sensitivities
  induction sensitivities with
  | nil => intro init s h; exact Or.inl h
  | cons t rest ih =>
    intro init s h
    rw [List.foldl_cons] at h
    rcases ih _ s h with h1 | ⟨u, hu, e⟩
    · rcases Sensitivities.assign_mem _ _ _ s h1 with h2 | h2
      · exact Or.inl h2
      · exact Or.inr ⟨t, List.mem_cons_self _ _, h2⟩
    · exact Or.inr ⟨u, List.mem_cons_of_mem _ hu, e⟩

/-- The members of the objective after `import_mps` are those that `minimize` writes for
the expression of the coefficients of the MPS data. -/
theorem import_mps_objective_members (self : ModelDefinitions) (a_MPS : MPS)
    (a_ACCEPT_CONTINUOUS : Bool) (a_DEFAULT : Variable) (address : Nat → Nat)
    (imported : ImportedModel)
    (h : import_mps self a_MPS a_ACCEPT_CONTINUOUS a_DEFAULT address = some imported) :
    ∃ variable_ptrs : List (String × Nat),
      ({ m_objective := imported.m_objective
         m_is_defined_objective := imported.m_is_defined_objective
         m_is_minimization := imported.m_is_minimization } : ObjectiveMembers) =
        ObjectiveMembers.minimize
          (Expression.set_sensitivities Expression.initialize_
            (import_mps_sensitivities variable_ptrs a_MPS.objective.sensitivities)) := by
  unfold import_mps at h
  split at h
  · simp at h
  · split at h
    · simp at h
    · split at h
      · simp at h
      · split at h
        · simp at h
        · rename_i variable_ptrs _ _ _ _ _ _
          simp only [Option.some.injEq] at h
          subst h
          exact ⟨_, rfl⟩

/-- The loops of `import_mps` read the maps of the MPS data only. -/
theorem import_mps_variables_congr (a_MPS other : MPS) (a_ACCEPT_CONTINUOUS : Bool)
    (address : Nat → Nat) (hv : other.variables_ = a_MPS.variables_) :
    ∀ (names : List String) (i : Nat)
      (state : List Variable × List String × List (String × Nat)),
      import_mps_variables other a_ACCEPT_CONTINUOUS address i names state =
        import_mps_variables a_MPS a_ACCEPT_CONTINUOUS address i names state := by
  intro names
  induction names with
  | nil => intro i state; rfl
  | cons name rest ih =>
    intro i state
    obtain ⟨elements, element_names, variable_ptrs⟩ := state
    simp only [import_mps_variables, hv, ih]

theorem import_mps_constraints_congr (a_MPS other : MPS) (variable_ptrs : List (String × Nat))
    (hc : other.constraints_ = a_MPS.constraints_) :
    ∀ (names : List String) (i : Nat) (state : List Constraint × List String),
      import_mps_constraints other variable_ptrs i names state =
        import_mps_constraints a_MPS variable_ptrs i names state := by
  intro names
  induction names with
  | nil => intro i state; rfl
  | cons name rest ih =>
    intro i state
    obtain ⟨constraints, constraint_names⟩ := state
    simp only [import_mps_constraints, hc, ih]

/-- The result of `import_mps` does not depend on the flag `is_minimization` of the
objective of the MPS data. -/
theorem import_mps_flag_independent (self : ModelDefinitions) (a_MPS : MPS)
    (a_ACCEPT_CONTINUOUS : Bool) (a_DEFAULT : Variable) (address : Nat → Nat) (flag : Bool) :
    import_mps self
        { a_MPS with objective := { a_MPS.objective with is_minimization := flag } }
        a_ACCEPT_CONTINUOUS a_DEFAULT address =
      import_mps self a_MPS a_ACCEPT_CONTINUOUS a_DEFAULT address := by
  unfold import_mps
  simp only [import_mps_variables_congr a_MPS
      { a_MPS with objective := { a_MPS.objective with is_minimization := flag } }
      a_ACCEPT_CONTINUOUS address rfl,
    import_mps_constraints_congr a_MPS
      { a_MPS with objective := { a_MPS.objective with is_minimization := flag } } _ rfl]

/-- The members of the objective after `import_opb` are those that `minimize` writes. -/
theorem import_opb_objective_members (self : ModelDefinitions) (a_OPB : OPB)
    (address : Nat → Nat → Nat) (imported : ImportedOPB)
    (h : import_opb self a_OPB address = some imported) :
    ∃ objective : Expression,
      imported.objective_members = ObjectiveMembers.minimize objective := by
  unfold import_opb at h
  split at h
  · simp at h
  · simp only [Option.some.injEq] at h
    subst h
    exact ⟨_, rfl⟩

end Model
end model
end printemps

namespace cppmh
namespace utility
namespace FixedSizeQueue

/-- A queue of a maximum size of at least 1 never holds more values than its maximum
size. -/
theorem push_size_le (self : FixedSizeQueue) (a_VALUE : ℚ) (h1 : 1 ≤ self.m_max_size)
    (h : self.size ≤ self.m_max_size) :
    (self.push a_VALUE).size ≤ (self.push a_VALUE).m_max_size ∧
      (self.push a_VALUE).m_max_size = self.m_max_size := by
  unfold push size at *
  by_cases hfull : (self.m_queue.length : ℤ) = self.m_max_size
  · rw [if_pos hfull]
    refine ⟨?_, rfl⟩
    simp only [List.length_append, List.length_tail, List.length_singleton]
    have : 1 ≤ self.m_queue.length := by omega
    omega
  · rw [if_neg hfull]
    refine ⟨?_, rfl⟩
    simp only [List.length_append, List.length_singleton]
    omega

end FixedSizeQueue
end utility

namespace solver
namespace lagrange_dual

open model utility

/-- The test of the convergence fails for a queue that holds no more values than the
size of the options. -/
theorem is_converged_of_size_le (queue : FixedSizeQueue) (lagrangian_incumbent : ℚ)
    (option : Option) (h : queue.size ≤ option.lagrange_dual.queue_size) :
    is_converged queue lagrangian_incumbent option = false := by
  unfold is_converged
  rw [decide_eq_false_iff_not]
  intro hc
  omega

theorem solve_iteration_queue {M H S : Type} (methods : SolveMethods M H S) (option : Option)
    (state : SolveState M H S) :
    ∃ lagrangian, (solve_iteration methods option state).1.queue =
      state.queue.push lagrangian := ⟨_, rfl⟩

theorem solve_iteration_frame {M H S : Type} (methods : SolveMethods M H S) (option : Option)
    (state : SolveState M H S) :
    (solve_iteration methods option state).1.primal_incumbent = state.primal_incumbent ∧
      (solve_iteration methods option state).1.iteration = state.iteration :=
  ⟨rfl, rfl⟩

/-- No pass of the loop writes `primal_incumbent`. -/
theorem solve_loop_primal_incumbent {M H S : Type} (methods : SolveMethods M H S)
    (option : Option) : ∀ (fuel calls : Nat) (state result : SolveState M H S),
    solve_loop methods option fuel calls state = some result →
      result.primal_incumbent = state.primal_incumbent := by
  intro fuel
  induction fuel with
  | zero => intro calls state result h; simp [solve_loop] at h
  | succ fuel ih =>
    intro calls state result h
    unfold solve_loop at h
    by_cases ht : is_terminated (methods.clock calls) state.iteration option = true
    · rw [if_pos ht] at h
      simp only [Option.some.injEq] at h
      rw [← h]
    · rw [if_neg ht] at h
      by_cases hc : is_converged (solve_iteration methods option state).1.queue
          (solve_iteration methods option state).2 option = true
      · simp only [hc, if_true, Option.some.injEq] at h
        rw [← h]
        rfl
      · simp only [hc, Bool.false_eq_true, if_false] at h
        have := ih _ _ _ h
        exact this

theorem is_terminated_iteration (elapsed_time : ℚ) (iteration : ℤ) (option : Option)
    (h : is_terminated elapsed_time iteration option = false) :
    iteration < option.lagrange_dual.iteration_max := by
  unfold is_terminated at h
  by_contra hc
  have : iteration ≥ option.lagrange_dual.iteration_max := by omega
  split at h
  · simp at h
  · split at h
    · simp at h
    · simp [this] at h

/-- The loop is left after at most `iteration_max - iteration + 1` passes. -/
theorem solve_loop_isSome {M H S : Type} (methods : SolveMethods M H S) (option : Option) :
    ∀ (fuel calls : Nat) (state : SolveState M H S), 0 < fuel →
      option.lagrange_dual.iteration_max - state.iteration < (fuel : ℤ) →
      ∃ result, solve_loop methods option fuel calls state = some result := by
  intro fuel
  induction fuel with
  | zero => intro calls state h0 _; omega
  | succ fuel ih =>
    intro calls state _ h
    unfold solve_loop
    by_cases ht : is_terminated (methods.clock calls) state.iteration option = true
    · exact ⟨state, by rw [if_pos ht]⟩
    · rw [if_neg ht]
      by_cases hc : is_converged (solve_iteration methods option state).1.queue
          (solve_iteration methods option state).2 option = true
      · refine ⟨(solve_iteration methods option state).1, ?_⟩
        simp only [hc, if_true]
      · simp only [hc, Bool.false_eq_true, if_false]
        have hlt := is_terminated_iteration _ _ _
          (show is_terminated (methods.clock calls) state.iteration option = false by
            simpa using ht)
        push_cast at h
        apply ih
        · omega
        · show option.lagrange_dual.iteration_max -
            ((solve_iteration methods option state).1.iteration + 1) < (fuel : ℤ)
          rw [(solve_iteration_frame methods option state).2]
          omega

theorem is_terminated_of_time (elapsed_time : ℚ) (iteration : ℤ) (option : Option)
    (h1 : elapsed_time ≤ option.lagrange_dual.time_max)
    (h2 : elapsed_time + option.lagrange_dual.time_offset ≤ option.time_max) :
    is_terminated elapsed_time iteration option =
      decide (iteration ≥ option.lagrange_dual.iteration_max) := by
  unfold is_terminated
  rw [if_neg (not_lt.mpr h1), if_neg (not_lt.mpr h2)]
  by_cases h : iteration ≥ option.lagrange_dual.iteration_max
  · simp [h]
  · simp [h]

/-- With a queue size of at least 1 and a clock that stays within the time limits, the
loop is left at the iteration `iteration_max`, whatever the values of the Lagrangian
are. -/
theorem solve_loop_runs_to_limit {M H S : Type} (methods : SolveMethods M H S) (option : Option)
    (hsize : 1 ≤ option.lagrange_dual.queue_size)
    (htime : ∀ n, methods.clock n ≤ option.lagrange_dual.time_max ∧
      methods.clock n + option.lagrange_dual.time_offset ≤ option.time_max) :
    ∀ (fuel calls : Nat) (state : SolveState M H S), 0 < fuel →
      option.lagrange_dual.iteration_max - state.iteration < (fuel : ℤ) →
      state.iteration ≤ option.lagrange_dual.iteration_max →
      state.queue.m_max_size = option.lagrange_dual.queue_size →
      state.queue.size ≤ option.lagrange_dual.queue_size →
      ∃ result, solve_loop methods option fuel calls state = some result ∧
        result.iteration = option.lagrange_dual.iteration_max := by
  intro fuel
  induction fuel with
  | zero => intro calls state h0; omega
  | succ fuel ih =>
    intro calls state _ h hle hmax hq
    unfold solve_loop
    rw [is_terminated_of_time _ _ _ (htime calls).1 (htime calls).2]
    by_cases ht : state.iteration ≥ option.lagrange_dual.iteration_max
    · refine ⟨state, ?_, by omega⟩
      simp only [ht, decide_True, if_true]
    · have hpush := FixedSizeQueue.push_size_le state.queue
        (methods.compute_lagrangian
          (methods.update (methods.update_primal
            (bound_dual methods.senses
              (update_dual state.step_size (methods.constraint_values state.model)
                state.dual_value_proxies)) state.model))
          (bound_dual methods.senses
            (update_dual state.step_size (methods.constraint_values state.model)
              state.dual_value_proxies)) *
          methods.sign (methods.update (methods.update_primal
            (bound_dual methods.senses
              (update_dual state.step_size (methods.constraint_values state.model)
                state.dual_value_proxies)) state.model)))
        (by rw [hmax]; exact hsize) (by rw [hmax]; exact hq)
      have hqueue : (solve_iteration methods option state).1.queue.size ≤
          option.lagrange_dual.queue_size ∧
          (solve_iteration methods option state).1.queue.m_max_size =
            option.lagrange_dual.queue_size := by
        constructor
        · have := hpush.1
          rw [hpush.2, hmax] at this
          exact this
        · exact hpush.2.trans hmax
      have hc := is_converged_of_size_le (solve_iteration methods option state).1.queue
        (solve_iteration methods option state).2 option hqueue.1
      simp only [ht, decide_False, Bool.false_eq_true, if_false, hc]
      push_cast at h
      apply ih
      · omega
      · show option.lagrange_dual.iteration_max -
          ((solve_iteration methods option state).1.iteration + 1) < (fuel : ℤ)
        rw [(solve_iteration_frame methods option state).2]
        omega
      · show (solve_iteration methods option state).1.iteration + 1 ≤ _
        rw [(solve_iteration_frame methods option state).2]
        omega
      · exact hqueue.2
      · exact hqueue.1

/-- The function `solve` returns when `import_variable_values` returns and the passes
are more than `iteration_max`, and its primal solution is the solution exported before
the loop. -/
theorem solve_primal_solution {M H S : Type} (methods : SolveMethods M H S) (option : Option)
    (fuel : Nat) (a_model : M) (a_INCUMBENT_HOLDER : H) :
    (∀ result, solve methods option fuel a_model a_INCUMBENT_HOLDER = some result →
      ∃ imported, methods.import_variable_values a_model = some imported ∧
        result.primal_solution = methods.export_solution (methods.update imported)) ∧
    (∀ imported, methods.import_variable_values a_model = some imported → 0 < fuel →
      option.lagrange_dual.iteration_max < (fuel : ℤ) →
      ∃ result, solve methods option fuel a_model a_INCUMBENT_HOLDER = some result) := by
  constructor
  · intro result h
    unfold solve at h
    cases hi : methods.import_variable_values a_model with
    | none => simp [solve_initial, hi] at h
    | some imported =>
      refine ⟨imported, rfl, ?_⟩
      simp only [solve_initial, hi] at h
      split at h
      · simp at h
      · rename_i state hloop
        simp only [Option.some.injEq] at h
        rw [← h]
        exact solve_loop_primal_incumbent methods option _ _ _ _ hloop
  · intro imported hi hfuel hlt
    unfold solve
    simp only [solve_initial, hi]
    obtain ⟨state, hs⟩ := solve_loop_isSome methods option fuel 0
      { model := methods.update imported
        incumbent_holder := (methods.try_update_incumbent
          (methods.reset_local_augmented_incumbent a_INCUMBENT_HOLDER)
          (methods.update imported)).1
        total_update_status := 0
        primal_incumbent := methods.export_solution (methods.update imported)
        dual_value_proxies :=
          bound_dual methods.senses (generate_constraint_parameter_proxies methods.senses 0)
        dual_value_proxies_incumbent :=
          bound_dual methods.senses (generate_constraint_parameter_proxies methods.senses 0)
        lagrangian_incumbent := none
        queue := FixedSizeQueue.setup option.lagrange_dual.queue_size
        step_size := 1 / (methods.number_of_variables (methods.update imported) : ℚ)
        iteration := 0 } hfuel (by simpa using hlt)
    rw [hs]
    exact ⟨_, rfl⟩

/-- With a queue size of at least 1 and a clock within the time limits, `solve` returns
after `iteration_max` iterations. -/
theorem solve_number_of_iterations {M H S : Type} (methods : SolveMethods M H S)
    (option : Option) (fuel : Nat) (a_model : M) (a_INCUMBENT_HOLDER : H) (imported : M)
    (hi : methods.import_variable_values a_model = some imported)
    (hsize : 1 ≤ option.lagrange_dual.queue_size)
    (htime : ∀ n, methods.clock n ≤ option.lagrange_dual.time_max ∧
      methods.clock n + option.lagrange_dual.time_offset ≤ option.time_max)
    (hmax : 0 ≤ option.lagrange_dual.iteration_max)
    (hfuel : option.lagrange_dual.iteration_max < (fuel : ℤ)) :
    ∃ result, solve methods option fuel a_model a_INCUMBENT_HOLDER = some result ∧
      result.number_of_iterations = option.lagrange_dual.iteration_max := by
  unfold solve
  simp only [solve_initial, hi]
  obtain ⟨state, hs, hit⟩ := solve_loop_runs_to_limit methods option hsize htime fuel 0
    { model := methods.update imported
      incumbent_holder := (methods.try_update_incumbent
        (methods.reset_local_augmented_incumbent a_INCUMBENT_HOLDER)
        (methods.update imported)).1
      total_update_status := 0
      primal_incumbent := methods.export_solution (methods.update imported)
      dual_value_proxies :=
        bound_dual methods.senses (generate_constraint_parameter_proxies methods.senses 0)
      dual_value_proxies_incumbent :=
        bound_dual methods.senses (generate_constraint_parameter_proxies methods.senses 0)
      lagrangian_incumbent := none
      queue := FixedSizeQueue.setup option.lagrange_dual.queue_size
      step_size := 1 / (methods.number_of_variables (methods.update imported) : ℚ)
      iteration := 0 } (by omega) (by simpa using hfuel) hmax rfl
    (by
      show ((0 : Nat) : ℤ) ≤ _
      omega)
  rw [hs]
  exact ⟨_, rfl, hit⟩

end lagrange_dual
end solver
end cppmh

namespace printemps
namespace utility
namespace sparse

theorem records_dot_nil (row : Nat) (x : Nat → ℚ) : records_dot [] row x = 0 := by
  simp [records_dot]

theorem records_dot_append (first second : List (Nat × Nat × ℚ)) (row : Nat) (x : Nat → ℚ) :
    records_dot (first ++ second) row x = records_dot first row x + records_dot second row x := by
  simp [records_dot, List.filter_append, List.map_append, List.sum_append]

theorem records_dot_of_ne (records : List (Nat × Nat × ℚ)) (row : Nat) (x : Nat → ℚ)
    (h : ∀ record ∈ records, record.1 ≠ row) : records_dot records row x = 0 := by
  have hfilter : records.filter (fun record => decide (record.1 = row)) = [] := by
    rw [List.filter_eq_nil_iff]
    intro record hrecord
    simpa using h record hrecord
  simp [records_dot, hfilter]

theorem records_dot_of_eq (records : List (Nat × Nat × ℚ)) (row : Nat) (x : Nat → ℚ)
    (h : ∀ record ∈ records, record.1 = row) :
    records_dot records row x = (records.map (fun record => record.2.2 * x record.2.1)).sum := by
  have hfilter : records.filter (fun record => decide (record.1 = row)) = records := by
    rw [List.filter_eq_self]
    intro record hrecord
    simpa using h record hrecord
  simp [records_dot, hfilter]

end sparse

namespace BidirectionalMap

theorem forward_at_of_mem (self : BidirectionalMap) (key : Nat) (h : key ∈ self.keys) :
    self.forward_at key = some (self.keys.indexOf key) := by
  simp [forward_at, h]

theorem reverse_at_forward_at (self : BidirectionalMap) (key : Nat) (h : key ∈ self.keys) :
    self.reverse_at (self.keys.indexOf key) = some key := by
  have hlt : self.keys.indexOf key < self.keys.length := List.indexOf_lt_length.mpr h
  simp [reverse_at, List.getElem?_eq_getElem hlt]

end BidirectionalMap
end utility

namespace model
namespace ReferencedModel

open model_component utility utility.sparse linear_programming

theorem insert_loop_keys (keep : Nat → Bool) (ptrs : List Nat) (index_map : BidirectionalMap) :
    (insert_loop keep ptrs index_map).keys = index_map.keys ++ ptrs.filter keep := by
  induction ptrs generalizing index_map with
  | nil => simp [insert_loop]
  | cons ptr rest ih =>
    by_cases hkeep : keep ptr = true
    · simp [insert_loop, hkeep, ih, BidirectionalMap.insert]
    · simp [insert_loop, hkeep, ih]

theorem mutable_variable_index_map_keys (self : ReferencedModel) :
    self.mutable_variable_index_map.keys =
      self.binary_variable_ptrs.filter (fun p => !(self.m_variable_proxies p).is_fixed) ++
        self.integer_variable_ptrs.filter (fun p => !(self.m_variable_proxies p).is_fixed) ++
        self.selection_variable_ptrs.filter (fun p => !(self.m_variable_proxies p).is_fixed) := by
  simp [mutable_variable_index_map, insert_loop_keys]

theorem less_index_map_keys (self : ReferencedModel) :
    self.less_index_map.keys =
      self.less_ptrs.filter (fun p => (self.constraint p).is_enabled) := by
  simp [less_index_map, insert_loop_keys]

theorem equal_index_map_keys (self : ReferencedModel) :
    self.equal_index_map.keys =
      self.less_index_map.keys ++
        (self.selection_constraint_ptrs.filter (fun p => !(self.constraint p).is_enabled) ++
          self.equal_ptrs.filter (fun p => (self.constraint p).is_enabled)) := by
  simp [equal_index_map, insert_loop_keys]

theorem enabled_constraint_index_map_keys (self : ReferencedModel) :
    self.enabled_constraint_index_map.keys =
      self.equal_index_map.keys ++
        self.greater_ptrs.filter (fun p => (self.constraint p).is_enabled) := by
  simp [enabled_constraint_index_map, insert_loop_keys]

theorem less_size_le_equal_size (self : ReferencedModel) :
    self.less_index_map.size ≤ self.equal_index_map.size := by
  simp [BidirectionalMap.size, equal_index_map_keys]

theorem equal_size_le_enabled_size (self : ReferencedModel) :
    self.equal_index_map.size ≤ self.enabled_constraint_index_map.size := by
  simp [BidirectionalMap.size, enabled_constraint_index_map_keys]

/-- The sum of the terms of the fixed variables of a list of sensitivities. -/
theorem dual_objective_coefficient_foldl (self : ReferencedModel) (sensitivities : List (Nat × ℚ))
    (initial : ℚ) :
    sensitivities.foldl
      (fun dual_objective_coefficient sensitivity =>
        if (self.m_variable_proxies sensitivity.1).is_fixed then
          dual_objective_coefficient +
            ((self.m_variable_proxies sensitivity.1).value : ℚ) * sensitivity.2
        else dual_objective_coefficient)
      initial =
    initial + (sensitivities.map (fun sensitivity =>
      if (self.m_variable_proxies sensitivity.1).is_fixed then
        sensitivity.2 * ((self.m_variable_proxies sensitivity.1).value : ℚ)
      else 0)).sum := by
  induction sensitivities generalizing initial with
  | nil => simp
  | cons sensitivity rest ih =>
    simp only [List.foldl_cons, List.map_cons, List.sum_cons]
    rw [ih]
    by_cases hfixed : (self.m_variable_proxies sensitivity.1).is_fixed = true
    · simp only [hfixed, if_true]; ring
    · simp only [hfixed]; simp

theorem row_records_loop_spec (self : ReferencedModel) (i : Nat) (is_less : Bool)
    (sensitivities : List (Nat × ℚ))
    (hknown : ∀ sensitivity ∈ sensitivities,
      (self.m_variable_proxies sensitivity.1).is_fixed = false →
        sensitivity.1 ∈ self.mutable_variable_index_map.keys) :
    ∃ records, row_records_loop self i is_less sensitivities = some records ∧
      (∀ record ∈ records, record.1 = i) ∧
      ∀ x : Nat → ℚ, (records.map (fun record => record.2.2 * x record.2.1)).sum =
        (if is_less then -1 else 1) *
          (sensitivities.map (fun sensitivity =>
            if (self.m_variable_proxies sensitivity.1).is_fixed then 0
            else sensitivity.2 *
              x (self.mutable_variable_index_map.keys.indexOf sensitivity.1))).sum := by
  induction sensitivities with
  | nil => exact ⟨[], rfl, by simp, by simp⟩
  | cons sensitivity rest ih =>
    obtain ⟨records, hrecords, hrow, hsum⟩ :=
      ih (fun s hs => hknown s (List.mem_cons_of_mem _ hs))
    by_cases hfixed : (self.m_variable_proxies sensitivity.1).is_fixed = true
    · refine ⟨records, by simp [row_records_loop, hfixed, hrecords], hrow, ?_⟩
      intro x
      simp [hfixed, hsum x]
    · have hfalse : (self.m_variable_proxies sensitivity.1).is_fixed = false := by
        simpa using hfixed
      have hmem := hknown sensitivity (List.mem_cons_self _ _) hfalse
      refine ⟨(i, self.mutable_variable_index_map.keys.indexOf sensitivity.1,
        if is_less then -sensitivity.2 else sensitivity.2) :: records, ?_, ?_, ?_⟩
      · simp [row_records_loop, hfalse, BidirectionalMap.forward_at_of_mem _ _ hmem, hrecords]
      · intro record hrecord
        rcases List.mem_cons.mp hrecord with h | h
        · rw [h]
        · exact hrow record h
      · intro x
        simp only [List.map_cons, List.sum_cons, hsum x, hfalse]
        cases is_less <;> first | (simp; done) | (simp; ring)

theorem row_records_spec (self : ReferencedModel) (i : Nat) (CONSTRAINT : Constraint)
    (hknown : ∀ sensitivity ∈ CONSTRAINT.m_expression.m_sensitivities,
      (self.m_variable_proxies sensitivity.1).is_fixed = false →
        sensitivity.1 ∈ self.mutable_variable_index_map.keys) :
    ∃ records, row_records self i CONSTRAINT = some records ∧
      (∀ record ∈ records, record.1 = i) ∧
      ∀ x : Nat → ℚ, (records.map (fun record => record.2.2 * x record.2.1)).sum =
        (if CONSTRAINT.m_sense = ConstraintSense.Less then -1 else 1) *
          (CONSTRAINT.m_expression.m_sensitivities.map (fun sensitivity =>
            if (self.m_variable_proxies sensitivity.1).is_fixed then 0
            else sensitivity.2 *
              x (self.mutable_variable_index_map.keys.indexOf sensitivity.1))).sum := by
  obtain ⟨records, hrecords, hrow, hsum⟩ :=
    row_records_loop_spec self i (decide (CONSTRAINT.m_sense = ConstraintSense.Less))
      CONSTRAINT.m_expression.m_sensitivities hknown
  have hperm := List.perm_insertionSort
    (fun first second : Nat × Nat × ℚ => first.2.1 ≤ second.2.1) records
  refine ⟨records.insertionSort (fun first second => first.2.1 ≤ second.2.1),
    by simp [row_records, hrecords], ?_, ?_⟩
  · intro record hrecord
    exact hrow record (hperm.mem_iff.mp hrecord)
  · intro x
    rw [(hperm.map (fun record : Nat × Nat × ℚ => record.2.2 * x record.2.1)).sum_eq, hsum x]
    by_cases hless : CONSTRAINT.m_sense = ConstraintSense.Less <;> simp [hless]

theorem records_loop_spec (self : ReferencedModel) (constraint_ptrs : List ConstraintPtr)
    (hknown : ∀ constraint_ptr ∈ constraint_ptrs,
      ∀ sensitivity ∈ (self.constraint constraint_ptr).m_expression.m_sensitivities,
        (self.m_variable_proxies sensitivity.1).is_fixed = false →
          sensitivity.1 ∈ self.mutable_variable_index_map.keys) (i : Nat) :
    ∃ records, records_loop self constraint_ptrs i = some records ∧
      (∀ record ∈ records, i ≤ record.1) ∧
      ∀ (j : Nat) (constraint_ptr : ConstraintPtr), constraint_ptrs[j]? = some constraint_ptr →
        ∀ x : Nat → ℚ, records_dot records (i + j) x =
          (if (self.constraint constraint_ptr).m_sense = ConstraintSense.Less then -1 else 1) *
            ((self.constraint constraint_ptr).m_expression.m_sensitivities.map
              (fun sensitivity =>
                if (self.m_variable_proxies sensitivity.1).is_fixed then 0
                else sensitivity.2 *
                  x (self.mutable_variable_index_map.keys.indexOf sensitivity.1))).sum := by
  induction constraint_ptrs generalizing i with
  | nil => exact ⟨[], rfl, by simp, by simp⟩
  | cons head rest ih =>
    obtain ⟨others, hothers, hge, hdot⟩ :=
      ih (fun p hp => hknown p (List.mem_cons_of_mem _ hp)) (i + 1)
    obtain ⟨row, hrow, hindex, hsum⟩ :=
      row_records_spec self i (self.constraint head) (hknown head (List.mem_cons_self _ _))
    refine ⟨row ++ others, by simp [records_loop, hrow, hothers], ?_, ?_⟩
    · intro record hrecord
      rcases List.mem_append.mp hrecord with h | h
      · exact (hindex record h).ge
      · exact Nat.le_of_succ_le (hge record h)
    · intro j constraint_ptr hj x
      rw [records_dot_append]
      cases j with
      | zero =>
        have hhead : head = constraint_ptr := by simpa using hj
        subst hhead
        rw [Nat.add_zero, records_dot_of_eq row i x hindex, hsum x,
          records_dot_of_ne others i x (fun record hrecord => by
            have := hge record hrecord
            omega)]
        simp
      | succ k =>
        have hk : rest[k]? = some constraint_ptr := by simpa using hj
        rw [records_dot_of_ne row (i + (k + 1)) x (fun record hrecord => by
          have := hindex record hrecord
          omega)]
        have := hdot k constraint_ptr hk x
        rw [show i + (k + 1) = i + 1 + k by omega, this]
        simp

theorem export_lp_instance_of_records (self : ReferencedModel) (INT_HALF_MIN INT_HALF_MAX : ℤ)
    (records : List (Nat × Nat × ℚ))
    (hrecords : records_loop self self.enabled_constraint_index_map.keys 0 = some records) :
    ∃ lp, self.export_lp_instance INT_HALF_MIN INT_HALF_MAX = some lp ∧
      lp.number_of_rows = self.enabled_constraint_index_map.size ∧
      lp.primal_constraint_coefficients.records = records ∧
      lp.dual_objective_coefficients =
        self.enabled_constraint_index_map.keys.map
          (fun constraint_ptr =>
            self.dual_objective_component (self.constraint constraint_ptr)) ∧
      lp.dual_lower_bounds =
        (List.range self.enabled_constraint_index_map.size).map
          (fun i =>
            if (0 ≤ i ∧ i < self.less_index_map.size) ∨
                (self.equal_index_map.size ≤ i ∧
                  i < self.enabled_constraint_index_map.size) then (0 : ℚ)
            else constant.DOUBLE_LOWEST) ∧
      lp.less_constraint_index_range = (0, self.less_index_map.size) ∧
      lp.equal_constraint_index_range =
        (self.less_index_map.size, self.equal_index_map.size) ∧
      lp.greater_constraint_index_range =
        (self.equal_index_map.size, self.enabled_constraint_index_map.size) := by
  simp only [export_lp_instance, hrecords]
  exact ⟨_, rfl, rfl, rfl, rfl, rfl, rfl, rfl, rfl⟩

theorem DOUBLE_LOWEST_ne_zero : constant.DOUBLE_LOWEST ≠ 0 := by
  norm_num [constant.DOUBLE_LOWEST, constant.DOUBLE_MAX]

theorem expression_at_split (self : ReferencedModel) (EXPRESSION : Expression) (x : Nat → ℚ) :
    self.expression_at EXPRESSION x =
      self.dual_objective_coefficient EXPRESSION +
        (EXPRESSION.m_sensitivities.map (fun sensitivity =>
          if (self.m_variable_proxies sensitivity.1).is_fixed then 0
          else sensitivity.2 *
            x (self.mutable_variable_index_map.keys.indexOf sensitivity.1))).sum := by
  have hsplit : ∀ sensitivities : List (Nat × ℚ),
      (sensitivities.map (fun sensitivity =>
        if (self.m_variable_proxies sensitivity.1).is_fixed then
          sensitivity.2 * ((self.m_variable_proxies sensitivity.1).value : ℚ)
        else
          sensitivity.2 *
            x (self.mutable_variable_index_map.keys.indexOf sensitivity.1))).sum =
      (sensitivities.map (fun sensitivity =>
        if (self.m_variable_proxies sensitivity.1).is_fixed then
          sensitivity.2 * ((self.m_variable_proxies sensitivity.1).value : ℚ)
        else 0)).sum +
      (sensitivities.map (fun sensitivity =>
        if (self.m_variable_proxies sensitivity.1).is_fixed then 0
        else sensitivity.2 *
          x (self.mutable_variable_index_map.keys.indexOf sensitivity.1))).sum := by
    intro sensitivities
    induction sensitivities with
    | nil => simp
    | cons sensitivity rest ih =>
      simp only [List.map_cons, List.sum_cons, ih]
      by_cases hfixed : (self.m_variable_proxies sensitivity.1).is_fixed = true
      · simp only [hfixed, if_true]; ring
      · simp only [hfixed]; simp; ring
  simp only [expression_at, dual_objective_coefficient, Expression.constant_value,
    dual_objective_coefficient_foldl, hsplit]
  ring

theorem export_row_equivalent (self : ReferencedModel) (records : List (Nat × Nat × ℚ))
    (lp : LinearProgramming)
    (hmatrix : lp.primal_constraint_coefficients.records = records)
    (hcoefficients : lp.dual_objective_coefficients =
      self.enabled_constraint_index_map.keys.map
        (fun constraint_ptr => self.dual_objective_component (self.constraint constraint_ptr)))
    (hdot : ∀ (j : Nat) (constraint_ptr : ConstraintPtr),
      self.enabled_constraint_index_map.keys[j]? = some constraint_ptr →
        ∀ x : Nat → ℚ, records_dot records (0 + j) x =
          (if (self.constraint constraint_ptr).m_sense = ConstraintSense.Less then -1 else 1) *
            ((self.constraint constraint_ptr).m_expression.m_sensitivities.map
              (fun sensitivity =>
                if (self.m_variable_proxies sensitivity.1).is_fixed then 0
                else sensitivity.2 *
                  x (self.mutable_variable_index_map.keys.indexOf sensitivity.1))).sum)
    (i : Nat) (hi : i < self.enabled_constraint_index_map.size) :
    lp.RowEquivalent self i := by
  have hlt : i < self.enabled_constraint_index_map.keys.length := hi
  have hkey : self.enabled_constraint_index_map.keys[i]? =
      some (self.enabled_constraint_index_map.keys[i]) := List.getElem?_eq_getElem hlt
  refine ⟨self.enabled_constraint_index_map.keys[i],
    self.dual_objective_component (self.constraint (self.enabled_constraint_index_map.keys[i])),
    hkey, ?_, ?_⟩
  · rw [hcoefficients, List.getElem?_map, hkey]
    rfl
  · intro x
    have hrow := hdot i _ hkey x
    rw [Nat.zero_add] at hrow
    have hsplit := expression_at_split self
      (self.constraint (self.enabled_constraint_index_map.keys[i])).m_expression x
    simp only [SparseMatrix.row_dot, hmatrix, hrow, dual_objective_component]
    generalize (self.constraint (self.enabled_constraint_index_map.keys[i])) = c at hsplit ⊢
    generalize self.expression_at c.m_expression x = g at hsplit ⊢
    generalize self.dual_objective_coefficient c.m_expression = fixed_part at hsplit ⊢
    generalize (c.m_expression.m_sensitivities.map (fun sensitivity =>
      if (self.m_variable_proxies sensitivity.1).is_fixed then 0
      else sensitivity.2 *
        x (self.mutable_variable_index_map.keys.indexOf sensitivity.1))).sum = mutable_part
      at hsplit ⊢
    subst hsplit
    refine ⟨?_, ?_, ?_, ?_⟩
    · by_cases hsense : c.m_sense = ConstraintSense.Less
      · simp only [hsense, if_true]; ring
      · simp only [hsense, if_false]; ring
    · intro hsense
      simp only [hsense, if_true]
      constructor <;> intro h <;> linarith
    · intro hsense
      have hne : c.m_sense ≠ ConstraintSense.Less := by rw [hsense]; decide
      simp only [hne, if_false]
      constructor <;> intro h <;> linarith
    · intro hsense
      have hne : c.m_sense ≠ ConstraintSense.Less := by rw [hsense]; decide
      simp only [hne, if_false]
      constructor <;> intro h <;> linarith

theorem export_ranges_partition_rows (lp : LinearProgramming) (less equal enabled : Nat)
    (hle : less ≤ equal) (hle2 : equal ≤ enabled)
    (hrows : lp.number_of_rows = enabled)
    (hless : lp.less_constraint_index_range = (0, less))
    (hequal : lp.equal_constraint_index_range = (less, equal))
    (hgreater : lp.greater_constraint_index_range = (equal, enabled)) :
    lp.RangesPartitionRows := by
  unfold LinearProgramming.RangesPartitionRows LinearProgramming.in_range
  rw [hless, hequal, hgreater, hrows]
  dsimp only
  refine ⟨⟨rfl, rfl, rfl, rfl⟩, ?_, ?_⟩
  · intro i
    omega
  · intro i
    omega

theorem export_dual_lower_bounds (self : ReferencedModel) (lp : LinearProgramming)
    (hrows : lp.number_of_rows = self.enabled_constraint_index_map.size)
    (hbounds : lp.dual_lower_bounds =
      (List.range self.enabled_constraint_index_map.size).map
        (fun i =>
          if (0 ≤ i ∧ i < self.less_index_map.size) ∨
              (self.equal_index_map.size ≤ i ∧
                i < self.enabled_constraint_index_map.size) then (0 : ℚ)
          else constant.DOUBLE_LOWEST))
    (hless : lp.less_constraint_index_range = (0, self.less_index_map.size))
    (hgreater : lp.greater_constraint_index_range =
      (self.equal_index_map.size, self.enabled_constraint_index_map.size)) :
    lp.DualLowerBoundsZeroOnRanges := by
  intro i hi
  rw [hrows] at hi
  have hget : lp.dual_lower_bounds[i]? =
      some (if (0 ≤ i ∧ i < self.less_index_map.size) ∨
          (self.equal_index_map.size ≤ i ∧ i < self.enabled_constraint_index_map.size) then (0 : ℚ)
        else constant.DOUBLE_LOWEST) := by
    rw [hbounds, List.getElem?_map, List.getElem?_range hi]
    rfl
  unfold LinearProgramming.in_range
  rw [hless, hgreater]
  dsimp only
  by_cases hrange : (0 ≤ i ∧ i < self.less_index_map.size) ∨
      (self.equal_index_map.size ≤ i ∧ i < self.enabled_constraint_index_map.size)
  · rw [if_pos hrange] at hget
    exact ⟨0, hget, fun _ => hrange, fun _ => rfl⟩
  · rw [if_neg hrange] at hget
    exact ⟨constant.DOUBLE_LOWEST, hget, fun h => absurd h DOUBLE_LOWEST_ne_zero,
      fun h => absurd h hrange⟩

theorem export_ranges_match_senses (self : ReferencedModel) (lp : LinearProgramming)
    (hcategorized : self.Categorized)
    (hless : lp.less_constraint_index_range = (0, self.less_index_map.size))
    (hequal : lp.equal_constraint_index_range =
      (self.less_index_map.size, self.equal_index_map.size))
    (hgreater : lp.greater_constraint_index_range =
      (self.equal_index_map.size, self.enabled_constraint_index_map.size)) :
    lp.RangesMatchSenses self := by
  obtain ⟨hL, hS, hE, hG⟩ := hcategorized
  intro i constraint_ptr hat
  simp only [BidirectionalMap.reverse_at] at hat
  simp only [LinearProgramming.in_range, hless, hequal, hgreater, BidirectionalMap.size]
  refine ⟨?_, ?_, ?_⟩
  · rintro ⟨-, hlt⟩
    rw [enabled_constraint_index_map_keys, equal_index_map_keys, List.append_assoc,
      List.getElem?_append_left hlt, less_index_map_keys] at hat
    exact hL _ (List.mem_of_mem_filter (List.getElem?_mem hat))
  · rintro ⟨hge, hlt⟩
    rw [enabled_constraint_index_map_keys, List.getElem?_append_left hlt, equal_index_map_keys,
      List.getElem?_append_right hge] at hat
    rcases List.mem_append.mp (List.getElem?_mem hat) with h | h
    · exact hS _ (List.mem_of_mem_filter h)
    · exact hE _ (List.mem_of_mem_filter h)
  · rintro ⟨hge, -⟩
    rw [enabled_constraint_index_map_keys, List.getElem?_append_right hge] at hat
    exact hG _ (List.mem_of_mem_filter (List.getElem?_mem hat))

end ReferencedModel
end model
end printemps

namespace printemps
namespace utility
namespace BidirectionalMap

theorem reverse_at_injective (self : BidirectionalMap) (hkeys : self.keys.Nodup) (i j key : Nat)
    (hi : self.reverse_at i = some key) (hj : self.reverse_at j = some key) : i = j := by
  simp only [reverse_at] at hi hj
  have hlt : i < self.keys.length := by
    by_contra hge
    rw [List.getElem?_eq_none (by omega)] at hi
    exact absurd hi (by simp)
  exact List.getElem?_inj hlt hkeys (hi.trans hj.symm)

theorem forward_at_reverse_at (self : BidirectionalMap) (hkeys : self.keys.Nodup) (j key : Nat)
    (hj : self.reverse_at j = some key) : self.forward_at key = some j := by
  simp only [reverse_at] at hj
  have hmem : key ∈ self.keys := List.getElem?_mem hj
  rw [forward_at_of_mem self key hmem]
  have hback := reverse_at_forward_at self key hmem
  exact congrArg some
    (reverse_at_injective self hkeys _ _ key hback (by simpa [reverse_at] using hj))

end BidirectionalMap
end utility
end printemps

/-! # The claims -/

namespace cppmh
namespace model
namespace FixedSizeHashMap

/-- C2: after `setup(M, key_size)` with `key_size ≥ 1`, `at(k)` returns `M[k]` for
every key `k` of a map `M` with pairwise distinct keys, whatever the buckets of the
keys are; and after `Expression::setup_fixed_sensitivities` the fixed table returns
`sensitivities[v]` for every variable `v` of the expression. -/
theorem at_of_present_key {V : Type} [Zero V] (M : List (Nat × V)) (a_KEY_SIZE : Nat)
    (e : printemps.model_component.Expression) (sizeof_Variable : Nat)
    (_hsize : 1 ≤ a_KEY_SIZE) (hnd : (M.map Prod.fst).Nodup)
    (_hsizeof : 1 ≤ sizeof_Variable) (hmap : (e.m_sensitivities.map Prod.fst).Nodup) :
    (∃ t, setup M a_KEY_SIZE = some t ∧ ∀ kv ∈ M, t.at kv.1 = some kv.2) ∧
    (∃ e2, e.setup_fixed_sensitivities sizeof_Variable = some e2 ∧
      e2.m_sensitivities = e.m_sensitivities ∧
      ∀ s ∈ e.m_sensitivities, e2.m_fixed_sensitivities.at s.1 = some s.2) := by
  constructor
  · obtain ⟨t, p, ht, hh, _⟩ := setup_holds M a_KEY_SIZE hnd
    exact ⟨t, ht, fun kv hkv => at_present t p _ hh kv (List.mem_reverse.mpr hkv)⟩
  · obtain ⟨t, p, ht, hh, _⟩ := setup_holds e.m_sensitivities sizeof_Variable hmap
    refine ⟨{ e with m_fixed_sensitivities := t }, ?_, rfl, ?_⟩
    · simp only [printemps.model_component.Expression.setup_fixed_sensitivities, ht]
    · exact fun s hs => at_present t p _ hh s (List.mem_reverse.mpr hs)

theorem at_of_present_key_witness :
    (1 ≤ 64 ∧ (printemps.examples.colliding_map.map Prod.fst).Nodup ∧ 1 ≤ 64 ∧
      ((printemps.examples.three_term_expression 3).m_sensitivities.map Prod.fst).Nodup) ∧
    ((∃ t, setup printemps.examples.colliding_map 64 = some t ∧
        ∀ kv ∈ printemps.examples.colliding_map, t.at kv.1 = some kv.2) ∧
      (∃ e2, (printemps.examples.three_term_expression 3).setup_fixed_sensitivities 64 =
          some e2 ∧
        e2.m_sensitivities = (printemps.examples.three_term_expression 3).m_sensitivities ∧
        ∀ s ∈ (printemps.examples.three_term_expression 3).m_sensitivities,
          e2.m_fixed_sensitivities.at s.1 = some s.2)) :=
  ⟨⟨by decide, by decide, by decide, by decide⟩,
    at_of_present_key printemps.examples.colliding_map 64
      (printemps.examples.three_term_expression 3) 64 (by decide) (by decide) (by decide)
      (by decide)⟩

/-- C3: after `setup(M, key_size)` the number of occupied slots is `|M|`, which is
below the bucket count, a power of two that is at least `100 * |M|` (and `1` for
the empty map); the probe of `at(k)` for a key `k` that `M` does not have
terminates and returns `0`; so does `at(k)` on a default-initialized table. -/
theorem at_of_absent_key {V : Type} [Zero V] (M : List (Nat × V)) (a_KEY_SIZE : Nat)
    (_hsize : 1 ≤ a_KEY_SIZE) (hnd : (M.map Prod.fst).Nodup) :
    (∃ t p, setup M a_KEY_SIZE = some t ∧
      t.m_is_occupied.count true = M.length ∧ t.m_is_occupied.length = t.m_bucket_size ∧
      t.m_bucket_size = 2 ^ p ∧ 100 * M.length ≤ t.m_bucket_size ∧
      M.length < t.m_bucket_size ∧ (M = [] → t.m_bucket_size = 1) ∧
      ∀ k, (∀ kv ∈ M, kv.1 ≠ k) → t.at k = some 0) ∧
    ∀ k, (initialize_ : FixedSizeHashMap V).at k = some 0 := by
  constructor
  · obtain ⟨t, p, ht, hh, _, hge, hmin, hlen⟩ := setup_holds M a_KEY_SIZE hnd
    have hs := hh.shape
    refine ⟨t, p, ht, ?_, ?_, hs.bucket, ?_, ?_, ?_, ?_⟩
    · rw [hh.count, List.length_reverse]
    · rw [hs.occupied, hs.bucket]
    · rw [hs.bucket]; omega
    · rw [hs.bucket]; exact hlen
    · intro hM
      subst hM
      rw [hs.bucket]
      rcases hmin with h | h
      · rw [h]; rfl
      · simp at h
    · intro k hk
      exact at_absent t p _ hh (by simpa using hlen) k
        (fun kv hkv => hk kv (List.mem_reverse.mp hkv))
  · intro k
    simp only [FixedSizeHashMap.at, initialize_, getD_replicate_false, Bool.not_false, if_true]

theorem at_of_absent_key_witness :
    (1 ≤ 64 ∧ (printemps.examples.colliding_map.map Prod.fst).Nodup) ∧
    ((∃ t p, setup printemps.examples.colliding_map 64 = some t ∧
      t.m_is_occupied.count true = printemps.examples.colliding_map.length ∧
      t.m_is_occupied.length = t.m_bucket_size ∧
      t.m_bucket_size = 2 ^ p ∧ 100 * printemps.examples.colliding_map.length ≤ t.m_bucket_size ∧
      printemps.examples.colliding_map.length < t.m_bucket_size ∧
      (printemps.examples.colliding_map = [] → t.m_bucket_size = 1) ∧
      ∀ k, (∀ kv ∈ printemps.examples.colliding_map, kv.1 ≠ k) → t.at k = some 0) ∧
    ∀ k, (initialize_ : FixedSizeHashMap ℚ).at k = some 0) :=
  ⟨⟨by decide, by decide⟩,
    at_of_absent_key printemps.examples.colliding_map 64 (by decide) (by decide)⟩

end FixedSizeHashMap
end model
end cppmh

namespace printemps
namespace model_component
namespace Expression

open cppmh.model

/-- C5: `evaluate()` returns the constant plus the sum, over the sensitivity map,
of coefficient times variable value, and right after `update()` the cached
`value()` is that sum (the map and the constant are left as they were). -/
theorem evaluate_eq_linear_form (e : Expression) (heap : VariableHeap) :
    e.evaluate heap = e.constant_value +
        (e.m_sensitivities.map (fun s => s.2 * ((heap s.1).value : ℚ))).sum ∧
      (e.update heap).value = e.constant_value +
        (e.m_sensitivities.map (fun s => s.2 * ((heap s.1).value : ℚ))).sum ∧
      (e.update heap).value = (e.update heap).evaluate heap ∧
      (e.update heap).m_sensitivities = e.m_sensitivities ∧
      (e.update heap).constant_value = e.constant_value :=
  ⟨evaluate_eq_sum e heap, evaluate_eq_sum e heap, rfl, rfl, rfl⟩

/-- C1: for an expression whose cached value equals `evaluate()` and whose fixed
table was built from its sensitivity map, and a move whose alterations target
pairwise distinct variables, `evaluate(m)` is the cached value plus the sum over
the alterations of coefficient times (new value minus current value); it is the
value `evaluate()` returns once every altered variable has its new value; so
`update(m)` followed by the move leaves the cached value consistent; and an altered
variable that the expression does not have contributes zero. -/
theorem evaluate_move_round_trip (e : Expression) (heap : VariableHeap)
    (m : neighborhood.Move) (sizeof_Variable : Nat) (_hsizeof : 1 ≤ sizeof_Variable)
    (hmap : (e.m_sensitivities.map Prod.fst).Nodup)
    (hcache : e.value = e.evaluate heap)
    (hfixed : FixedSizeHashMap.setup e.m_sensitivities sizeof_Variable =
      some e.m_fixed_sensitivities)
    (hdistinct : (m.alterations.map Prod.fst).Nodup) :
    e.evaluate_move heap m = some (e.value +
        (m.alterations.map (fun a => e.coefficient a.1 *
          ((a.2 - (heap a.1).value : ℤ) : ℚ))).sum) ∧
      e.evaluate_move heap m = some (e.evaluate (apply_alterations heap m.alterations)) ∧
      (∃ e2, e.update_move heap m = some e2 ∧
        e2.value = e2.evaluate (apply_alterations heap m.alterations)) ∧
      ∀ a ∈ m.alterations, (∀ s ∈ e.m_sensitivities, s.1 ≠ a.1) →
        e.coefficient a.1 * ((a.2 - (heap a.1).value : ℤ) : ℚ) = 0 := by
  have hval : e.evaluate_move heap m = some (e.value +
      (m.alterations.map (fun a => e.coefficient a.1 *
        ((a.2 - (heap a.1).value : ℤ) : ℚ))).sum) := by
    unfold evaluate_move
    split_ifs with hlen
    · have : m.alterations = [] := List.length_eq_zero.mp hlen
      simp [this, hcache]
    · exact evaluate_move_loop_eq e heap sizeof_Variable hmap hfixed _ _
  have hafter : e.evaluate_move heap m =
      some (e.evaluate (apply_alterations heap m.alterations)) := by
    rw [hval, evaluate_after_alterations e hmap _ heap hdistinct, hcache]
  refine ⟨hval, hafter, ?_, ?_⟩
  · refine ⟨{ e with m_value := e.evaluate (apply_alterations heap m.alterations) }, ?_, rfl⟩
    simp only [update_move, hafter]
  · intro a _ habsent
    rw [coefficient, lookup_of_not_mem _ _ habsent]
    simp

theorem evaluate_move_round_trip_witness :
    (1 ≤ 64 ∧ ((examples.three_term_expression 4).m_sensitivities.map Prod.fst).Nodup ∧
      (examples.three_term_expression 4).value =
        (examples.three_term_expression 4).evaluate examples.heap_of_ones ∧
      FixedSizeHashMap.setup (examples.three_term_expression 4).m_sensitivities 64 =
        some (examples.three_term_expression 4).m_fixed_sensitivities ∧
      ((examples.plain_move [(64, 3), (192, 0), (256, 7)]).alterations.map Prod.fst).Nodup) ∧
    ((examples.three_term_expression 4).evaluate_move examples.heap_of_ones
        (examples.plain_move [(64, 3), (192, 0), (256, 7)]) =
        some ((examples.three_term_expression 4).value +
          ((examples.plain_move [(64, 3), (192, 0), (256, 7)]).alterations.map
            (fun a => (examples.three_term_expression 4).coefficient a.1 *
              ((a.2 - (examples.heap_of_ones a.1).value : ℤ) : ℚ))).sum) ∧
      (examples.three_term_expression 4).evaluate_move examples.heap_of_ones
        (examples.plain_move [(64, 3), (192, 0), (256, 7)]) =
        some ((examples.three_term_expression 4).evaluate
          (apply_alterations examples.heap_of_ones
            (examples.plain_move [(64, 3), (192, 0), (256, 7)]).alterations)) ∧
      (∃ e2, (examples.three_term_expression 4).update_move examples.heap_of_ones
          (examples.plain_move [(64, 3), (192, 0), (256, 7)]) = some e2 ∧
        e2.value = e2.evaluate (apply_alterations examples.heap_of_ones
          (examples.plain_move [(64, 3), (192, 0), (256, 7)]).alterations)) ∧
      ∀ a ∈ (examples.plain_move [(64, 3), (192, 0), (256, 7)]).alterations,
        (∀ s ∈ (examples.three_term_expression 4).m_sensitivities, s.1 ≠ a.1) →
        (examples.three_term_expression 4).coefficient a.1 *
          ((a.2 - (examples.heap_of_ones a.1).value : ℤ) : ℚ) = 0) :=
  ⟨⟨by decide, by decide,
      by norm_num [examples.three_term_expression, value, evaluate, create_instance,
        initialize_, examples.heap_of_ones, examples.plain_variable],
      FixedSizeHashMap.setup_eq_some_getD _ 64 (by decide) _, by decide⟩,
    evaluate_move_round_trip (examples.three_term_expression 4) examples.heap_of_ones
      (examples.plain_move [(64, 3), (192, 0), (256, 7)]) 64 (by decide) (by decide)
      (by norm_num [examples.three_term_expression, value, evaluate, create_instance,
        initialize_, examples.heap_of_ones, examples.plain_variable])
      (FixedSizeHashMap.setup_eq_some_getD _ 64 (by decide) _) (by decide)⟩

/-- C4: after `setup_fixed_sensitivities()` and `setup_mask()`, for a variable `v`
of the expression whose coefficient is `+1` or `-1` and every target `t`,
`evaluate_with_mask(v, t)` is `value() + coefficient(v) * (t - v.value())`, the
result of `evaluate()` on the move with the single alteration `(v, t)`, whichever
of the three branches is taken. -/
theorem evaluate_with_mask_eq_general (e : Expression) (heap : VariableHeap)
    (sizeof_Variable : Nat) (v : Nat) (c : ℚ) (t : ℤ) (m : neighborhood.Move)
    (_hsizeof : 1 ≤ sizeof_Variable)
    (hmap : (e.m_sensitivities.map Prod.fst).Nodup)
    (hfixed : FixedSizeHashMap.setup e.m_sensitivities sizeof_Variable =
      some e.m_fixed_sensitivities)
    (hv : (v, c) ∈ e.m_sensitivities) (hc : c = 1 ∨ c = -1)
    (hm : m.alterations = [(v, t)]) :
    e.setup_mask.evaluate_with_mask heap v t =
        some (e.setup_mask.value + c * ((t - (heap v).value : ℤ) : ℚ)) ∧
      e.setup_mask.evaluate_with_mask heap v t = e.setup_mask.evaluate_move heap m ∧
      |(e.setup_mask.value + e.coefficient v * ((t - (heap v).value : ℤ) : ℚ)) -
        (e.setup_mask.value + c * ((t - (heap v).value : ℤ) : ℚ))| < constant.EPSILON_10 := by
  have hat : e.m_fixed_sensitivities.at v = some c := by
    rw [at_eq_lookup _ _ hmap _ hfixed, lookup_of_mem _ hmap (v, c) hv]
    rfl
  have hcoef : e.coefficient v = c := by
    rw [coefficient, lookup_of_mem _ hmap (v, c) hv]
    rfl
  have hex := setup_mask_excludes e (v, c) hv
  have hmask : e.setup_mask.evaluate_with_mask heap v t =
      some (e.setup_mask.value + c * ((t - (heap v).value : ℤ) : ℚ)) := by
    have hfix2 : e.setup_mask.m_fixed_sensitivities = e.m_fixed_sensitivities := rfl
    rcases hc with rfl | rfl
    · have hminus : v &&& e.setup_mask.m_minus_one_coefficient_mask = 0 :=
        hex.2 (by norm_num [constant.EPSILON_10])
      unfold evaluate_with_mask
      split_ifs with h1 h2
      · simp [value]
      · exact absurd hminus h2.2
      · rw [hfix2, hat]
        rfl
    · have hplus : v &&& e.setup_mask.m_plus_one_coefficient_mask = 0 :=
        hex.1 (by norm_num [constant.EPSILON_10])
      unfold evaluate_with_mask
      split_ifs with h1 h2
      · exact absurd hplus h1.2
      · simp [value, sub_eq_add_neg]
      · rw [hfix2, hat]
        rfl
  refine ⟨hmask, ?_, ?_⟩
  · rw [hmask]
    have hloop : e.setup_mask.evaluate_move heap m =
        some (e.setup_mask.m_value + c * ((t - (heap v).value : ℤ) : ℚ)) := by
      simp only [evaluate_move, hm, List.length_singleton, one_ne_zero, if_false,
        evaluate_move_loop]
      rw [show e.setup_mask.m_fixed_sensitivities = e.m_fixed_sensitivities from rfl, hat]
    rw [hloop]
    rfl
  · rw [hcoef]
    simp [constant.EPSILON_10]

theorem evaluate_with_mask_eq_general_witness :
    (1 ≤ 64 ∧ ((examples.three_term_expression 4).m_sensitivities.map Prod.fst).Nodup ∧
      FixedSizeHashMap.setup (examples.three_term_expression 4).m_sensitivities 64 =
        some (examples.three_term_expression 4).m_fixed_sensitivities ∧
      ((64, 1) : Nat × ℚ) ∈ (examples.three_term_expression 4).m_sensitivities ∧
      ((1 : ℚ) = 1 ∨ (1 : ℚ) = -1) ∧
      (examples.plain_move [(64, 5)]).alterations = [(64, 5)]) ∧
    ((examples.three_term_expression 4).setup_mask.evaluate_with_mask
        examples.heap_of_ones 64 5 =
        some ((examples.three_term_expression 4).setup_mask.value +
          1 * ((5 - (examples.heap_of_ones 64).value : ℤ) : ℚ)) ∧
      (examples.three_term_expression 4).setup_mask.evaluate_with_mask
        examples.heap_of_ones 64 5 =
        (examples.three_term_expression 4).setup_mask.evaluate_move examples.heap_of_ones
          (examples.plain_move [(64, 5)]) ∧
      |((examples.three_term_expression 4).setup_mask.value +
          (examples.three_term_expression 4).coefficient 64 *
            ((5 - (examples.heap_of_ones 64).value : ℤ) : ℚ)) -
        ((examples.three_term_expression 4).setup_mask.value +
          1 * ((5 - (examples.heap_of_ones 64).value : ℤ) : ℚ))| < constant.EPSILON_10) :=
  ⟨⟨by decide, by decide, FixedSizeHashMap.setup_eq_some_getD _ 64 (by decide) _,
      List.mem_cons_self _ _, Or.inl rfl, rfl⟩,
    evaluate_with_mask_eq_general (examples.three_term_expression 4) examples.heap_of_ones
      64 64 1 5 (examples.plain_move [(64, 5)]) (by decide) (by decide)
      (FixedSizeHashMap.setup_eq_some_getD _ 64 (by decide) _)
      (List.mem_cons_self _ _) (Or.inl rfl) rfl⟩

end Expression
end model_component
end printemps

namespace printemps
namespace neighborhood

open model_component

/-- C9: after the move updater of the aggregation generator has run, the flag of
every slot is `1` if and only if the move is available, touches no fixed variable,
violates no variable bound, and `accept_all` holds or `accept_objective_improvable`
holds with an objective-improvable touched variable or
`accept_feasibility_improvable` holds with a feasibility-improvable touched
variable; otherwise the flag is `0`; with the three acceptance arguments false
every flag is `0`. -/
theorem AggregationMoveGenerator.flag_eq_one_iff (g0 : AbstractMoveGenerator)
    (heap0 heap : VariableHeap) (binomials : List BinomialConstraint) (a b c : Bool) :
    (AggregationMoveGenerator.setup_then_update g0 heap0 heap binomials a b c).m_flags.length =
      (AggregationMoveGenerator.setup_then_update g0 heap0 heap binomials a b c).m_moves.length ∧
    ∀ i, i < (AggregationMoveGenerator.setup_then_update g0 heap0 heap binomials a b
        c).m_moves.length →
      ((AggregationMoveGenerator.setup_then_update g0 heap0 heap binomials a b c).m_flags.getD
          i 0 = 1 ↔
        ((AggregationMoveGenerator.setup_then_update g0 heap0 heap binomials a b c).m_moves.getD
            i Move.empty).is_available = true ∧
          (∀ alteration ∈ ((AggregationMoveGenerator.setup_then_update g0 heap0 heap binomials
              a b c).m_moves.getD i Move.empty).alterations,
            (heap alteration.1).is_fixed = false) ∧
          (∀ alteration ∈ ((AggregationMoveGenerator.setup_then_update g0 heap0 heap binomials
              a b c).m_moves.getD i Move.empty).alterations,
            (heap alteration.1).lower_bound ≤ alteration.2 ∧
              alteration.2 ≤ (heap alteration.1).upper_bound) ∧
          (a = true ∨
            (b = true ∧ ∃ alteration ∈ ((AggregationMoveGenerator.setup_then_update g0 heap0
                heap binomials a b c).m_moves.getD i Move.empty).alterations,
              (heap alteration.1).is_objective_improvable = true) ∨
            (c = true ∧ ∃ alteration ∈ ((AggregationMoveGenerator.setup_then_update g0 heap0
                heap binomials a b c).m_moves.getD i Move.empty).alterations,
              (heap alteration.1).is_feasibility_improvable = true))) ∧
      ((AggregationMoveGenerator.setup_then_update g0 heap0 heap binomials a b c).m_flags.getD
          i 0 = 1 ∨
        (AggregationMoveGenerator.setup_then_update g0 heap0 heap binomials a b c).m_flags.getD
          i 0 = 0) ∧
      (a = false → b = false → c = false →
        (AggregationMoveGenerator.setup_then_update g0 heap0 heap binomials a b
          c).m_flags.getD i 0 = 0) := by
  have hmoves : (AggregationMoveGenerator.setup_then_update g0 heap0 heap binomials a b
      c).m_moves.length = 4 * binomials.length := by
    simp only [AggregationMoveGenerator.setup_then_update, AggregationMoveGenerator.move_updater,
      AggregationMoveGenerator.setup, AggregationMoveGenerator.update_alterations_loop_length,
      AggregationMoveGenerator.aggregation_setup_loop_length, length_resize]
  obtain ⟨hlen, hget⟩ := AggregationMoveGenerator.filter_loop_getD heap
    (AggregationMoveGenerator.setup_then_update g0 heap0 heap binomials a b c).m_moves a b c
    (List.range (4 * binomials.length)) (resize g0.m_flags (4 * binomials.length) 0)
    (by
      intro i hi
      rw [length_resize]
      exact List.mem_range.mp hi)
  have hflags : (AggregationMoveGenerator.setup_then_update g0 heap0 heap binomials a b
      c).m_flags = AggregationMoveGenerator.filter_loop heap
        (AggregationMoveGenerator.setup_then_update g0 heap0 heap binomials a b c).m_moves a b c
        (List.range (4 * binomials.length)) (resize g0.m_flags (4 * binomials.length) 0) := by
    have h2 := hmoves
    simp only [AggregationMoveGenerator.setup_then_update,
      AggregationMoveGenerator.move_updater] at h2 ⊢
    rw [h2]
    rfl
  rw [hflags, hlen, length_resize, hmoves]
  refine ⟨rfl, ?_⟩
  intro i hi
  rw [hget i]
  simp only [List.mem_range, hi, if_true]
  obtain ⟨hiff, hor⟩ := AggregationMoveGenerator.filter_flag_eq_one heap
    ((AggregationMoveGenerator.setup_then_update g0 heap0 heap binomials a b c).m_moves.getD i
      Move.empty) a b c
  refine ⟨?_, hor, ?_⟩
  · rw [hiff]
    simp only [has_fixed_variable, has_bound_violation, has_objective_improvable_variable,
      has_feasibility_improvable_variable, List.any_eq_true, List.any_eq_false,
      Bool.or_eq_true, decide_eq_true_eq, not_or, not_lt, Bool.not_eq_true, gt_iff_lt]
  · intro ha hb hc
    rcases hor with h1 | h0
    · rw [hiff] at h1
      rw [ha, hb, hc] at h1
      simp at h1
    · exact h0

/-- C10: after `setup` on a fresh two-flip generator with `n` pairs there are `2 n`
moves and `2 n` flags; move `2 i` has the alterations `[(x_i, 1), (y_i, 0)]` and
move `2 i + 1` has `[(x_i, 0), (y_i, 1)]`; each of the two has the sense `TwoFlip`,
is not a univariable move, is available, and its related constraints are those of
`x_i` together with those of `y_i`, without repetition. -/
theorem TwoFlipMoveGenerator.setup_moves (heap : VariableHeap) (pairs : List (Nat × Nat)) :
    (TwoFlipMoveGenerator.setup AbstractMoveGenerator.fresh heap pairs).m_moves.length =
      2 * pairs.length ∧
    (TwoFlipMoveGenerator.setup AbstractMoveGenerator.fresh heap pairs).m_flags.length =
      2 * pairs.length ∧
    ∀ i, i < pairs.length →
      ((TwoFlipMoveGenerator.setup AbstractMoveGenerator.fresh heap pairs).m_moves.getD (2 * i)
          Move.empty).alterations =
        [((pairs.getD i (0, 0)).1, 1), ((pairs.getD i (0, 0)).2, 0)] ∧
      ((TwoFlipMoveGenerator.setup AbstractMoveGenerator.fresh heap pairs).m_moves.getD
          (2 * i + 1) Move.empty).alterations =
        [((pairs.getD i (0, 0)).1, 0), ((pairs.getD i (0, 0)).2, 1)] ∧
      ∀ k, k = 2 * i ∨ k = 2 * i + 1 →
        ((TwoFlipMoveGenerator.setup AbstractMoveGenerator.fresh heap pairs).m_moves.getD k
            Move.empty).sense = MoveSense.TwoFlip ∧
          ((TwoFlipMoveGenerator.setup AbstractMoveGenerator.fresh heap pairs).m_moves.getD k
            Move.empty).is_univariable_move = false ∧
          ((TwoFlipMoveGenerator.setup AbstractMoveGenerator.fresh heap pairs).m_moves.getD k
            Move.empty).is_available = true ∧
          ((TwoFlipMoveGenerator.setup AbstractMoveGenerator.fresh heap pairs).m_moves.getD k
            Move.empty).related_constraint_ptrs.Nodup ∧
          ∀ constraint_ptr,
            constraint_ptr ∈ ((TwoFlipMoveGenerator.setup AbstractMoveGenerator.fresh heap
              pairs).m_moves.getD k Move.empty).related_constraint_ptrs ↔
            constraint_ptr ∈ (heap (pairs.getD i (0, 0)).1).related_constraint_ptrs ∨
              constraint_ptr ∈ (heap (pairs.getD i (0, 0)).2).related_constraint_ptrs := by
  have hresize : resize ([] : List Move) (2 * pairs.length) Move.empty =
      List.replicate (2 * pairs.length) Move.empty := by
    simp [resize]
  refine ⟨?_, ?_, ?_⟩
  · simp only [TwoFlipMoveGenerator.setup, TwoFlipMoveGenerator.setup_loop_length,
      length_resize]
  · simp only [TwoFlipMoveGenerator.setup, length_resize]
  · intro i hi
    obtain ⟨_, hfill⟩ := TwoFlipMoveGenerator.setup_loop_getD heap pairs 0
      (resize ([] : List Move) (2 * pairs.length) Move.empty)
      (by rw [length_resize]; omega)
    obtain ⟨h1, h2⟩ := hfill i hi
    rw [hresize, getD_replicate_self, Nat.zero_add] at h1 h2
    have hm : (TwoFlipMoveGenerator.setup AbstractMoveGenerator.fresh heap pairs).m_moves =
        TwoFlipMoveGenerator.setup_loop heap pairs 0
          (List.replicate (2 * pairs.length) Move.empty) := by
      simp only [TwoFlipMoveGenerator.setup, AbstractMoveGenerator.fresh, hresize]
    rw [hm]
    refine ⟨by rw [h1]; rfl, by rw [h2]; rfl, ?_⟩
    intro k hk
    rcases hk with rfl | rfl
    · rw [h1]
      refine ⟨rfl, rfl, rfl, nodup_update_union_set _ _, ?_⟩
      intro constraint_ptr
      simp [TwoFlipMoveGenerator.first_move, mem_update_union_set, Move.empty]
    · rw [h2]
      refine ⟨rfl, rfl, rfl, nodup_update_union_set _ _, ?_⟩
      intro constraint_ptr
      simp [TwoFlipMoveGenerator.first_move, mem_update_union_set, Move.empty,
        Move.set_alteration_value]

end neighborhood
end printemps

namespace printemps
namespace model

open model_component neighborhood solution cppmh.model

namespace Model

/-- C6: on a model whose enabled constraints have up-to-date caches, for a move
whose alterations target pairwise distinct variables, `evaluate(score, move)`
returns as total violation the sum over the enabled constraints of the violation
of the constraint value `g` after the move (`max(g, 0)` for `≤`, `max(-g, 0)` for
`≥`, `|g|` for `=`); disabled constraints contribute nothing; the total violation
is nonnegative, and it is zero if and only if every enabled constraint is satisfied
after the move. -/
theorem evaluate_total_violation (self : Model) (m : Move) (sizeof_Variable : Nat)
    (_hsizeof : 1 ≤ sizeof_Variable) (h : self.Consistent sizeof_Variable)
    (hd : (m.alterations.map Prod.fst).Nodup) :
    ∃ score, self.evaluate m = some score ∧
      score.total_violation =
        ((self.constraints.filter (fun c => c.is_enabled)).map
          (fun c => violation_of_sense c.m_sense
            (c.m_expression.evaluate
              (apply_alterations self.m_variable_proxies m.alterations)))).sum ∧
      0 ≤ score.total_violation ∧
      (score.total_violation = 0 ↔
        ∀ c ∈ self.constraints, c.is_enabled = true →
          satisfied_of_sense c.m_sense
            (c.m_expression.evaluate
              (apply_alterations self.m_variable_proxies m.alterations))) := by
  obtain ⟨score, hscore, hpair, _⟩ := evaluate_eq self m sizeof_Variable h
    (fun c => c.m_expression.evaluate (apply_alterations self.m_variable_proxies m.alterations))
    (fun c hc he => evaluate_constraint_eq_after c _ m sizeof_Variable
      (h.constraints c hc he) hd)
  have htotal : score.total_violation =
      ((self.constraints.filter (fun c => c.is_enabled)).map
        (fun c => violation_of_sense c.m_sense
          (c.m_expression.evaluate
            (apply_alterations self.m_variable_proxies m.alterations)))).sum := by
    have h1 := congrArg Prod.fst hpair
    simp only [fst_sum, List.map_map] at h1
    rw [h1, ← sum_filter_enabled]
    apply congrArg
    apply List.map_congr_left
    intro c _
    simp only [Function.comp]
    split_ifs
    · exact violation_term_fst c _
    · rfl
  have hnonneg : ∀ a ∈ (self.constraints.filter (fun c => c.is_enabled)).map
      (fun c => violation_of_sense c.m_sense
        (c.m_expression.evaluate
          (apply_alterations self.m_variable_proxies m.alterations))), 0 ≤ a := by
    intro a ha
    obtain ⟨c, _, rfl⟩ := List.mem_map.mp ha
    exact violation_of_sense_nonneg _ _
  refine ⟨score, hscore, htotal, ?_, ?_⟩
  · rw [htotal]
    exact List.sum_nonneg hnonneg
  · rw [htotal, sum_eq_zero_iff_of_nonneg _ hnonneg]
    constructor
    · intro hall c hc he
      rw [← violation_of_sense_eq_zero]
      exact hall _ (List.mem_map.mpr ⟨c, List.mem_filter.mpr ⟨hc, he⟩, rfl⟩)
    · intro hall a ha
      obtain ⟨c, hc, rfl⟩ := List.mem_map.mp ha
      obtain ⟨hc1, hc2⟩ := List.mem_filter.mp hc
      rw [violation_of_sense_eq_zero]
      exact hall c hc1 hc2

theorem evaluate_total_violation_witness :
    (1 ≤ 64 ∧ (examples.single_model 1).Consistent 64 ∧
      (examples.flip_move.alterations.map Prod.fst).Nodup) ∧
    ∃ score, (examples.single_model 1).evaluate examples.flip_move = some score ∧
      score.total_violation =
        (((examples.single_model 1).constraints.filter (fun c => c.is_enabled)).map
          (fun c => violation_of_sense c.m_sense
            (c.m_expression.evaluate
              (apply_alterations (examples.single_model 1).m_variable_proxies
                examples.flip_move.alterations)))).sum ∧
      0 ≤ score.total_violation ∧
      (score.total_violation = 0 ↔
        ∀ c ∈ (examples.single_model 1).constraints, c.is_enabled = true →
          satisfied_of_sense c.m_sense
            (c.m_expression.evaluate
              (apply_alterations (examples.single_model 1).m_variable_proxies
                examples.flip_move.alterations))) :=
  ⟨⟨by decide, examples.single_model_consistent 1, by decide⟩,
    evaluate_total_violation (examples.single_model 1) examples.flip_move 64 (by decide)
      (examples.single_model_consistent 1) (by decide)⟩

/-- C7 (amended): for a move with one alteration of `x` whose related constraints are
exactly those of `x.constraint_sensitivities()`, all enabled and not
evaluation-ignorable, and a score that carries the total violation and the local
penalty of the current consistent state, `evaluate_single`, `evaluate_multi` and
the from-scratch `evaluate` return the same objective, total violation, local
penalty, global penalty and augmented objectives, provided that no constraint of `x`
changes its value by a nonzero amount below `EPSILON_10`. -/
theorem evaluate_single_eq_evaluate_multi (self : Model) (m : Move) (s : SolutionScore)
    (sizeof_Variable : Nat) (x : Nat) (target : ℤ) (_hsizeof : 1 ≤ sizeof_Variable)
    (h : self.Consistent sizeof_Variable) (hs : self.IsCurrentScore s)
    (hm : self.SingleMove m x target)
    (hcoarse : self.CoarseChange x (target - (self.m_variable_proxies x).value)) :
    ∃ s1 s2 s3, self.evaluate_single m s = some s1 ∧ self.evaluate_multi m s = some s2 ∧
      self.evaluate m = some s3 ∧
      (s1.objective = s2.objective ∧ s1.total_violation = s2.total_violation ∧
        s1.local_penalty = s2.local_penalty ∧ s1.global_penalty = s2.global_penalty ∧
        s1.local_augmented_objective = s2.local_augmented_objective ∧
        s1.global_augmented_objective = s2.global_augmented_objective) ∧
      (s1.objective = s3.objective ∧ s1.total_violation = s3.total_violation ∧
        s1.local_penalty = s3.local_penalty ∧ s1.global_penalty = s3.global_penalty ∧
        s1.local_augmented_objective = s3.local_augmented_objective ∧
        s1.global_augmented_objective = s3.global_augmented_objective) := by
  have hen : ∀ sc ∈ (self.m_variable_proxies x).constraint_sensitivities,
      (self.constraint sc.1).is_enabled = true := fun sc hsc => (hm.enabled sc hsc).1
  have hup : ∀ sc ∈ (self.m_variable_proxies x).constraint_sensitivities,
      (self.constraint sc.1).UpToDate self.m_variable_proxies sizeof_Variable := by
    intro sc hsc
    exact h.constraints _ (constraint_mem self _ ((hm.sensitivities.listed sc.1 sc.2).mp hsc).1)
      (hen sc hsc)
  -- the from-scratch evaluation
  obtain ⟨s3, hs3, hpair3, hobj3, hg3, hl3, ha3⟩ := evaluate_eq self m sizeof_Variable h
    (fun c => c.m_constraint_value + c.m_expression.coefficient x *
      ((target - (self.m_variable_proxies x).value : ℤ) : ℚ))
    (fun c hc he => evaluate_constraint_single c _ m sizeof_Variable x target
      (h.constraints c hc he) hm.alterations)
  rw [scratch_eq_current_add self sizeof_Variable x _ h hm.sensitivities hen,
    ← current_score_eq self sizeof_Variable s h hs] at hpair3
  -- the single-variable evaluation
  have hsingle := evaluate_single_loop_eq self (target - (self.m_variable_proxies x).value)
    (self.m_variable_proxies x).constraint_sensitivities (s.total_violation, s.local_penalty)
    (fun sc hsc => ⟨(hm.enabled sc hsc).2, (hup sc hsc).positive_part, (hup sc hsc).negative_part⟩)
  rw [← hpair3] at hsingle
  -- the multi-variable evaluation
  obtain ⟨acc, hacc, hpacc⟩ := evaluate_multi_loop_pair self m m.related_constraint_ptrs
    { total_violation := s.total_violation, local_penalty := s.local_penalty,
      is_feasibility_improvable := false }
    (by
      intro ptr hptr he
      exact ⟨_, evaluate_constraint_single _ _ m sizeof_Variable x target
        (h.constraints _ (by
          obtain ⟨sc, hsc, rfl⟩ := List.mem_map.mp ((hm.related ptr).mp hptr)
          exact constraint_mem self _ ((hm.sensitivities.listed sc.1 sc.2).mp hsc).1) he)
        hm.alterations⟩)
  have hmulti : acc.pair = (s3.total_violation, s3.local_penalty) := by
    rw [hpacc, hpair3]
    congr 1
    rw [sum_eq_of_same_members _ _ _ hm.related_nodup hm.sensitivities.nodup hm.related,
      List.map_map]
    apply congrArg
    apply List.map_congr_left
    intro sc hsc
    obtain ⟨_, hco⟩ := listed_coefficient self sizeof_Variable x h hm.sensitivities sc hsc
      (hen sc hsc)
    have hev := evaluate_constraint_single _ _ m sizeof_Variable x target (hup sc hsc)
      hm.alterations
    rw [hco] at hev
    simp only [Function.comp]
    rw [multi_delta_eq _ m _ _ (hen sc hsc) hev (hup sc hsc).positive_part
      (hup sc hsc).negative_part]
    rcases hcoarse sc hsc with h0 | h1
    · left
      rw [h0, add_zero]
    · right
      rw [add_sub_cancel_left]
      exact h1
  obtain ⟨front, rest, hfront⟩ : ∃ front rest, m.alterations = front :: rest :=
    ⟨_, _, hm.alterations⟩
  have hfx : front = (x, target) := by
    rw [hm.alterations] at hfront
    exact (List.cons.inj hfront).1.symm
  refine ⟨self.fill_score s3.objective s3.total_violation s3.local_penalty true,
    self.fill_score s3.objective s3.total_violation s3.local_penalty acc.is_feasibility_improvable,
    s3, ?_, ?_, hs3, ⟨rfl, rfl, rfl, rfl, rfl, rfl⟩,
    ⟨rfl, rfl, rfl, hg3.symm, hl3.symm, ?_⟩⟩
  · simp only [evaluate_single, hfront, hobj3, hfx, hsingle]
  · have h1 : acc.total_violation = s3.total_violation := congrArg Prod.fst hmulti
    have h2 : acc.local_penalty = s3.local_penalty := congrArg Prod.snd hmulti
    simp only [evaluate_multi, hacc, hobj3, h1, h2]
  · rw [ha3, hg3]
    rfl

theorem evaluate_single_eq_evaluate_multi_witness :
    (1 ≤ 64 ∧ (examples.single_model 1).Consistent 64 ∧
      (examples.single_model 1).IsCurrentScore examples.zero_score ∧
      (examples.single_model 1).SingleMove examples.flip_move 64 1 ∧
      (examples.single_model 1).CoarseChange 64
        (1 - ((examples.single_model 1).m_variable_proxies 64).value)) ∧
    ∃ s1 s2 s3,
      (examples.single_model 1).evaluate_single examples.flip_move examples.zero_score =
        some s1 ∧
      (examples.single_model 1).evaluate_multi examples.flip_move examples.zero_score =
        some s2 ∧
      (examples.single_model 1).evaluate examples.flip_move = some s3 ∧
      (s1.objective = s2.objective ∧ s1.total_violation = s2.total_violation ∧
        s1.local_penalty = s2.local_penalty ∧ s1.global_penalty = s2.global_penalty ∧
        s1.local_augmented_objective = s2.local_augmented_objective ∧
        s1.global_augmented_objective = s2.global_augmented_objective) ∧
      (s1.objective = s3.objective ∧ s1.total_violation = s3.total_violation ∧
        s1.local_penalty = s3.local_penalty ∧ s1.global_penalty = s3.global_penalty ∧
        s1.local_augmented_objective = s3.local_augmented_objective ∧
        s1.global_augmented_objective = s3.global_augmented_objective) :=
  ⟨⟨by decide, examples.single_model_consistent 1, examples.single_model_current 1,
      examples.single_model_move 1, by
        intro sc hsc
        simp [examples.single_model, examples.single_heap, examples.plain_variable] at hsc
        subst hsc
        right
        norm_num [constant.EPSILON_10, examples.single_model, examples.single_heap,
          examples.plain_variable]⟩,
    evaluate_single_eq_evaluate_multi (examples.single_model 1) examples.flip_move
      examples.zero_score 64 64 1 (by decide) (examples.single_model_consistent 1)
      (examples.single_model_current 1) (examples.single_model_move 1) (by
        intro sc hsc
        simp [examples.single_model, examples.single_heap, examples.plain_variable] at hsc
        subst hsc
        right
        norm_num [constant.EPSILON_10, examples.single_model, examples.single_heap,
          examples.plain_variable])⟩

/-- C7 (as stated, refuted): on the model of the single constraint
`x / 10 ^ 11 ≤ 0` at `x = 0`, which meets every condition of the claim, the move
`x := 1` is scored with the total violation `1 / 10 ^ 11` by `evaluate_single` and
with the total violation `0` by `evaluate_multi`, which skips a constraint whose
value changes by less than `EPSILON_10`. -/
theorem evaluate_single_ne_evaluate_multi :
    (examples.single_model (1 / 10 ^ 11)).Consistent 64 ∧
    (examples.single_model (1 / 10 ^ 11)).IsCurrentScore examples.zero_score ∧
    (examples.single_model (1 / 10 ^ 11)).SingleMove examples.flip_move 64 1 ∧
    ∃ s1 s2,
      (examples.single_model (1 / 10 ^ 11)).evaluate_single examples.flip_move
        examples.zero_score = some s1 ∧
      (examples.single_model (1 / 10 ^ 11)).evaluate_multi examples.flip_move
        examples.zero_score = some s2 ∧
      s1.total_violation ≠ s2.total_violation := by
  refine ⟨examples.single_model_consistent _, examples.single_model_current _,
    examples.single_model_move _, ?_⟩
  obtain ⟨s1, h1, ht1⟩ := examples.single_model_evaluate_single (1 / 10 ^ 11) (by norm_num)
  obtain ⟨s2, h2, ht2⟩ := examples.single_model_evaluate_multi_tiny
  refine ⟨s1, s2, h1, h2, ?_⟩
  rw [ht1, ht2]
  norm_num

/-- C8 (amended): for a selection swap (two alterations on two variables of one
selection whose index bounds bracket their constraints in the related constraints of
the selection) on a consistent model and every current score, `evaluate_selection`
returns the same total violation, local penalty, objective, global penalty and
augmented objectives as `evaluate_multi`: always in the branch that scans the index
range and when neither branch is taken, and in the branch of the disjoint index
ranges provided that no constraint of the two variables changes its value by a
nonzero amount below `EPSILON_10`. -/
theorem evaluate_selection_eq_evaluate_multi (self : Model) (m : Move) (s : SolutionScore)
    (sizeof_Variable : Nat) (x1 x2 : Nat) (t1 t2 : ℤ) (selection : Selection)
    (_hsizeof : 1 ≤ sizeof_Variable) (h : self.Consistent sizeof_Variable)
    (hm : self.SelectionMove m x1 x2 t1 t2 selection)
    (hcoarse : self.DisjointRanges x1 x2 →
      self.CoarseChange x1 (t1 - (self.m_variable_proxies x1).value) ∧
        self.CoarseChange x2 (t2 - (self.m_variable_proxies x2).value)) :
    ∃ s1 s2, self.evaluate_selection m s = some s1 ∧ self.evaluate_multi m s = some s2 ∧
      s1.total_violation = s2.total_violation ∧ s1.local_penalty = s2.local_penalty ∧
      s1.objective = s2.objective ∧ s1.global_penalty = s2.global_penalty ∧
      s1.local_augmented_objective = s2.local_augmented_objective ∧
      s1.global_augmented_objective = s2.global_augmented_objective := by
  obtain ⟨v, hv⟩ := objective_after_isSome self m sizeof_Variable h
  have hev : ∀ ptr, ptr < self.constraints.length → (self.constraint ptr).is_enabled = true →
      ∃ g, (self.constraint ptr).evaluate_constraint self.m_variable_proxies m = some g := by
    intro ptr hptr he
    exact ⟨_, evaluate_constraint_two _ _ m sizeof_Variable x1 x2 t1 t2
      (h.constraints _ (constraint_mem self _ hptr) he) hm.alterations⟩
  -- the multi-variable evaluation
  obtain ⟨acc, hacc, hpacc⟩ := evaluate_multi_loop_pair self m m.related_constraint_ptrs
    { total_violation := s.total_violation, local_penalty := s.local_penalty,
      is_feasibility_improvable := false }
    (fun ptr hptr he => hev ptr (hm.related_valid ptr hptr) he)
  rw [multi_sum_eq self m sizeof_Variable x1 x2 t1 t2 selection h hm] at hpacc
  have hmulti : self.evaluate_multi m s = some (self.fill_score v acc.total_violation
      acc.local_penalty acc.is_feasibility_improvable) := by
    simp only [evaluate_multi, hacc, hv]
  -- the selection evaluation
  have hselection : ∃ b, self.evaluate_selection m s = some (self.fill_score v
      acc.total_violation acc.local_penalty b) := by
    obtain ⟨index, hsp, hsel⟩ := hm.selection_first
    unfold evaluate_selection
    rw [hm.alterations]
    simp only [hsp, hsel]
    by_cases hnn : combine_index
        (self.m_variable_proxies x1).related_selection_constraint_ptr_index_min
        (self.m_variable_proxies x2).related_selection_constraint_ptr_index_min min ≥ 0 ∧
      combine_index
        (self.m_variable_proxies x1).related_selection_constraint_ptr_index_max
        (self.m_variable_proxies x2).related_selection_constraint_ptr_index_max max ≥ 0
    · rw [if_pos hnn]
      by_cases hdis : (self.m_variable_proxies x1).related_selection_constraint_ptr_index_max <
            (self.m_variable_proxies x2).related_selection_constraint_ptr_index_min ∨
          (self.m_variable_proxies x2).related_selection_constraint_ptr_index_max <
            (self.m_variable_proxies x1).related_selection_constraint_ptr_index_min
      · rw [if_pos hdis]
        obtain ⟨hc1, hc2⟩ := hcoarse hdis
        have hsum := alterations_sum_eq self m sizeof_Variable x1 x2 t1 t2 selection h hm hdis
          hc1 hc2 (s.total_violation, s.local_penalty)
        rw [hm.alterations] at hsum
        have hsum2 : self.evaluate_selection_alterations [(x1, t1), (x2, t2)]
            (s.total_violation, s.local_penalty) = acc.pair := by
          rw [hsum, hpacc]
          rfl
        simp only [hv, hsum2]
        exact ⟨true, rfl⟩
      · rw [if_neg hdis]
        obtain ⟨hin, hsum⟩ := range_sum_eq self m sizeof_Variable x1 x2 t1 t2 selection h hm
          _ _ rfl rfl hnn.1
        obtain ⟨acc2, h2, hp2⟩ := evaluate_selection_range_pair self m
          selection.related_constraint_ptrs
          (fun ptr hptr he => hev ptr (hm.selection_valid ptr hptr) he) _ _
          { total_violation := s.total_violation, local_penalty := s.local_penalty,
            is_feasibility_improvable := false } hin
        rw [hsum, ← hpacc] at hp2
        have e1 : acc2.total_violation = acc.total_violation := congrArg Prod.fst hp2
        have e2 : acc2.local_penalty = acc.local_penalty := congrArg Prod.snd hp2
        simp only [h2, hv, e1, e2]
        exact ⟨_, rfl⟩
    · rw [if_neg hnn]
      have hzero := no_range_sum_eq self m sizeof_Variable x1 x2 t1 t2 selection h hm hnn
      rw [hzero, add_zero] at hpacc
      have e1 : acc.total_violation = s.total_violation := congrArg Prod.fst hpacc
      have e2 : acc.local_penalty = s.local_penalty := congrArg Prod.snd hpacc
      simp only [hv, e1, e2]
      exact ⟨_, rfl⟩
  obtain ⟨b, hb⟩ := hselection
  exact ⟨_, _, hb, hmulti, rfl, rfl, rfl, rfl, rfl, rfl⟩

theorem evaluate_selection_eq_evaluate_multi_witness :
    (1 ≤ 64 ∧ (examples.swap_model 1).Consistent 64 ∧
      (examples.swap_model 1).SelectionMove examples.swap_move 64 128 0 1
        examples.swap_selection ∧
      ((examples.swap_model 1).DisjointRanges 64 128 →
        (examples.swap_model 1).CoarseChange 64
            (0 - ((examples.swap_model 1).m_variable_proxies 64).value) ∧
          (examples.swap_model 1).CoarseChange 128
            (1 - ((examples.swap_model 1).m_variable_proxies 128).value))) ∧
    ∃ s1 s2,
      (examples.swap_model 1).evaluate_selection examples.swap_move (examples.swap_score 1) =
        some s1 ∧
      (examples.swap_model 1).evaluate_multi examples.swap_move (examples.swap_score 1) =
        some s2 ∧
      s1.total_violation = s2.total_violation ∧ s1.local_penalty = s2.local_penalty ∧
      s1.objective = s2.objective ∧ s1.global_penalty = s2.global_penalty ∧
      s1.local_augmented_objective = s2.local_augmented_objective ∧
      s1.global_augmented_objective = s2.global_augmented_objective :=
  ⟨⟨by decide, examples.swap_model_consistent 1, examples.swap_model_move 1,
      fun _ => examples.swap_model_coarse⟩,
    evaluate_selection_eq_evaluate_multi (examples.swap_model 1) examples.swap_move
      (examples.swap_score 1) 64 64 128 0 1 examples.swap_selection (by decide)
      (examples.swap_model_consistent 1) (examples.swap_model_move 1)
      (fun _ => examples.swap_model_coarse)⟩

/-- C8 (as stated, refuted): on the model of the constraints `x₁ / 10 ^ 11 ≤ 0` and
`x₂ ≤ 0` at `x₁ = 1`, `x₂ = 0`, a consistent state in which `x₁` and `x₂` form a
selection with disjoint index ranges, the swap `x₁ := 0`, `x₂ := 1` is scored from
the current score with the total violation `1` by `evaluate_selection` and with
`1 + 1 / 10 ^ 11` by `evaluate_multi`, which skips the first constraint because its
value changes by less than `EPSILON_10`. -/
theorem evaluate_selection_ne_evaluate_multi :
    (examples.swap_model (1 / 10 ^ 11)).Consistent 64 ∧
    (examples.swap_model (1 / 10 ^ 11)).IsCurrentScore (examples.swap_score (1 / 10 ^ 11)) ∧
    (examples.swap_model (1 / 10 ^ 11)).SelectionMove examples.swap_move 64 128 0 1
      examples.swap_selection ∧
    (examples.swap_model (1 / 10 ^ 11)).DisjointRanges 64 128 ∧
    ∃ s1 s2,
      (examples.swap_model (1 / 10 ^ 11)).evaluate_selection examples.swap_move
        (examples.swap_score (1 / 10 ^ 11)) = some s1 ∧
      (examples.swap_model (1 / 10 ^ 11)).evaluate_multi examples.swap_move
        (examples.swap_score (1 / 10 ^ 11)) = some s2 ∧
      s1.total_violation ≠ s2.total_violation := by
  refine ⟨examples.swap_model_consistent _, examples.swap_model_current _ (by norm_num),
    examples.swap_model_move _, ?_, ?_⟩
  · left
    simp [examples.swap_model, examples.swap_heap, examples.plain_variable]
  · obtain ⟨s1, h1, ht1⟩ := examples.swap_model_evaluate_selection (1 / 10 ^ 11) (by norm_num)
    obtain ⟨s2, h2, ht2⟩ := examples.swap_model_evaluate_multi_tiny
    refine ⟨s1, s2, h1, h2, ?_⟩
    rw [ht1, ht2]
    norm_num

end Model
end model
end printemps

namespace printemps
namespace neighborhood

open model_component cppmh.model

/-- C11: after `setup` on a fresh aggregation generator and a call of the move updater,
the four slots of the binomial `a x + b y + k = 0` of index `i` (with `a, b ≠ 0`, `x`
and `y` the current values) propose: slot `4 i` and slot `4 i + 1` the value
`x' = x + 1` and `x' = x - 1` with `y' = ⌊(-k - a x') / b + 1/2⌋`, slot `4 i + 2` and
slot `4 i + 3` the value `y' = y + 1` and `y' = y - 1` with
`x' = ⌊(-k - b y') / a + 1/2⌋`; the residual `a x' + b y' + k` of the proposed pair is
at most `|b| / 2` in absolute value in the first two slots and at most `|a| / 2` in
the last two, and it is `0` whenever an integer solves the constraint for the solved
variable. -/
theorem AggregationMoveGenerator.moves_near_constraint (heap0 heap : VariableHeap)
    (binomials : List BinomialConstraint) (accept_all accept_objective_improvable
    accept_feasibility_improvable : Bool) (i : Nat) (binomial : BinomialConstraint)
    (x y : ℤ) (hi : binomials[i]? = some binomial)
    (ha : binomial.sensitivity_first ≠ 0) (hb : binomial.sensitivity_second ≠ 0)
    (hx : (heap binomial.variable_ptr_first).value = x)
    (hy : (heap binomial.variable_ptr_second).value = y) :
    (∀ (r : Nat) (s : ℤ), (r = 0 ∧ s = 1) ∨ (r = 1 ∧ s = -1) →
      ((AggregationMoveGenerator.setup_then_update AbstractMoveGenerator.fresh heap0 heap
          binomials accept_all accept_objective_improvable
          accept_feasibility_improvable).m_moves.getD (4 * i + r) Move.empty).alterations =
        [(binomial.variable_ptr_first, x + s),
          (binomial.variable_ptr_second,
            ⌊(-binomial.constant_value - binomial.sensitivity_first * ((x + s : ℤ) : ℚ)) /
              binomial.sensitivity_second + 1 / 2⌋)] ∧
      |binomial.residual (x + s)
          ⌊(-binomial.constant_value - binomial.sensitivity_first * ((x + s : ℤ) : ℚ)) /
            binomial.sensitivity_second + 1 / 2⌋| ≤ |binomial.sensitivity_second| / 2 ∧
      ∀ n : ℤ, binomial.residual (x + s) n = 0 →
        binomial.residual (x + s)
          ⌊(-binomial.constant_value - binomial.sensitivity_first * ((x + s : ℤ) : ℚ)) /
            binomial.sensitivity_second + 1 / 2⌋ = 0) ∧
    ∀ (r : Nat) (s : ℤ), (r = 2 ∧ s = 1) ∨ (r = 3 ∧ s = -1) →
      ((AggregationMoveGenerator.setup_then_update AbstractMoveGenerator.fresh heap0 heap
          binomials accept_all accept_objective_improvable
          accept_feasibility_improvable).m_moves.getD (4 * i + r) Move.empty).alterations =
        [(binomial.variable_ptr_first,
            ⌊(-binomial.constant_value - binomial.sensitivity_second * ((y + s : ℤ) : ℚ)) /
              binomial.sensitivity_first + 1 / 2⌋),
          (binomial.variable_ptr_second, y + s)] ∧
      |binomial.residual
          ⌊(-binomial.constant_value - binomial.sensitivity_second * ((y + s : ℤ) : ℚ)) /
            binomial.sensitivity_first + 1 / 2⌋ (y + s)| ≤ |binomial.sensitivity_first| / 2 ∧
      ∀ n : ℤ, binomial.residual n (y + s) = 0 →
        binomial.residual
          ⌊(-binomial.constant_value - binomial.sensitivity_second * ((y + s : ℤ) : ℚ)) /
            binomial.sensitivity_first + 1 / 2⌋ (y + s) = 0 := by
  obtain ⟨h0, h1, h2, h3⟩ := AggregationMoveGenerator.setup_then_update_alterations heap0 heap
    binomials accept_all accept_objective_improvable accept_feasibility_improvable i binomial
    hi
  rw [hx] at h0 h1
  rw [hy] at h2 h3
  constructor
  · intro r s hrs
    refine ⟨?_, AggregationMoveGenerator.residual_first binomial (x + s) hb⟩
    rcases hrs with ⟨hr, hs⟩ | ⟨hr, hs⟩
    · subst hr hs
      exact h0
    · subst hr hs
      exact h1
  · intro r s hrs
    refine ⟨?_, AggregationMoveGenerator.residual_second binomial (y + s) ha⟩
    rcases hrs with ⟨hr, hs⟩ | ⟨hr, hs⟩
    · subst hr hs
      exact h2
    · subst hr hs
      exact h3

theorem AggregationMoveGenerator.moves_near_constraint_witness :
    ([examples.line][0]? = some examples.line ∧ examples.line.sensitivity_first ≠ 0 ∧
      examples.line.sensitivity_second ≠ 0 ∧
      (examples.heap_of_ones examples.line.variable_ptr_first).value = 1 ∧
      (examples.heap_of_ones examples.line.variable_ptr_second).value = 1) ∧
    ((∀ (r : Nat) (s : ℤ), (r = 0 ∧ s = 1) ∨ (r = 1 ∧ s = -1) →
      ((AggregationMoveGenerator.setup_then_update AbstractMoveGenerator.fresh examples.heap_of_ones examples.heap_of_ones
          [examples.line] true false
          false).m_moves.getD (4 * 0 + r) Move.empty).alterations =
        [(examples.line.variable_ptr_first, (1 : ℤ) + s),
          (examples.line.variable_ptr_second,
            ⌊(-examples.line.constant_value - examples.line.sensitivity_first * (((1 : ℤ) + s : ℤ) : ℚ)) /
              examples.line.sensitivity_second + 1 / 2⌋)] ∧
      |examples.line.residual ((1 : ℤ) + s)
          ⌊(-examples.line.constant_value - examples.line.sensitivity_first * (((1 : ℤ) + s : ℤ) : ℚ)) /
            examples.line.sensitivity_second + 1 / 2⌋| ≤ |examples.line.sensitivity_second| / 2 ∧
      ∀ n : ℤ, examples.line.residual ((1 : ℤ) + s) n = 0 →
        examples.line.residual ((1 : ℤ) + s)
          ⌊(-examples.line.constant_value - examples.line.sensitivity_first * (((1 : ℤ) + s : ℤ) : ℚ)) /
            examples.line.sensitivity_second + 1 / 2⌋ = 0) ∧
    ∀ (r : Nat) (s : ℤ), (r = 2 ∧ s = 1) ∨ (r = 3 ∧ s = -1) →
      ((AggregationMoveGenerator.setup_then_update AbstractMoveGenerator.fresh examples.heap_of_ones examples.heap_of_ones
          [examples.line] true false
          false).m_moves.getD (4 * 0 + r) Move.empty).alterations =
        [(examples.line.variable_ptr_first,
            ⌊(-examples.line.constant_value - examples.line.sensitivity_second * (((1 : ℤ) + s : ℤ) : ℚ)) /
              examples.line.sensitivity_first + 1 / 2⌋),
          (examples.line.variable_ptr_second, (1 : ℤ) + s)] ∧
      |examples.line.residual
          ⌊(-examples.line.constant_value - examples.line.sensitivity_second * (((1 : ℤ) + s : ℤ) : ℚ)) /
            examples.line.sensitivity_first + 1 / 2⌋ ((1 : ℤ) + s)| ≤ |examples.line.sensitivity_first| / 2 ∧
      ∀ n : ℤ, examples.line.residual n ((1 : ℤ) + s) = 0 →
        examples.line.residual
          ⌊(-examples.line.constant_value - examples.line.sensitivity_second * (((1 : ℤ) + s : ℤ) : ℚ)) /
            examples.line.sensitivity_first + 1 / 2⌋ ((1 : ℤ) + s) = 0) :=
  ⟨⟨rfl, by norm_num [examples.line], by norm_num [examples.line], rfl, rfl⟩,
    AggregationMoveGenerator.moves_near_constraint examples.heap_of_ones
      examples.heap_of_ones [examples.line] true false false 0 examples.line 1 1 rfl
      (by norm_num [examples.line]) (by norm_num [examples.line]) rfl rfl⟩

end neighborhood
end printemps

namespace printemps
open cppmh.model
namespace neighborhood
open model_component

/-- C12: after `setup` of a fresh integer move generator on a list of variables and
`update_moves(true, false, false, false)` there are exactly four moves and four flags
per non-fixed variable of the list; every move has the sense `Integer` and exactly one
alteration, on a non-fixed variable of the list, and its related constraints include
those of that variable; for the `k`-th non-fixed variable, of value `v` and bounds
`[l, u]`, the slots `4 k`, `4 k + 1`, `4 k + 2`, `4 k + 3` target `v + 1`, `v - 1`,
`(v + u) / 2` and `(v + l) / 2` (integer division of C++), the flags of the slots `4 k`
and `4 k + 2` are `0` if `v = u` and `1` otherwise, and the flags of the slots
`4 k + 1` and `4 k + 3` are `0` if `v = l` and `1` otherwise. -/
theorem IntegerMoveGenerator.setup_then_update_moves (heap : VariableHeap)
    (variable_ptrs : List Nat) :
    ((IntegerMoveGenerator.setup_then_update AbstractMoveGenerator.fresh heap variable_ptrs
        true false false).m_moves.length =
        4 * variable_ptrs.countP (fun ptr => !(heap ptr).is_fixed) ∧
      (IntegerMoveGenerator.setup_then_update AbstractMoveGenerator.fresh heap variable_ptrs
        true false false).m_flags.length =
        4 * variable_ptrs.countP (fun ptr => !(heap ptr).is_fixed)) ∧
    (∀ slot, slot < (IntegerMoveGenerator.setup_then_update AbstractMoveGenerator.fresh heap
        variable_ptrs true false false).m_moves.length →
      ((IntegerMoveGenerator.setup_then_update AbstractMoveGenerator.fresh heap variable_ptrs
        true false false).m_moves.getD slot Move.empty).sense = MoveSense.Integer ∧
      ∃ ptr target,
        ((IntegerMoveGenerator.setup_then_update AbstractMoveGenerator.fresh heap variable_ptrs
          true false false).m_moves.getD slot Move.empty).alterations = [(ptr, target)] ∧
        ptr ∈ variable_ptrs ∧ (heap ptr).is_fixed = false ∧
        ∀ constraint_ptr ∈ (heap ptr).related_constraint_ptrs,
          constraint_ptr ∈ ((IntegerMoveGenerator.setup_then_update AbstractMoveGenerator.fresh
            heap variable_ptrs true false false).m_moves.getD slot
            Move.empty).related_constraint_ptrs) ∧
    ∀ k ptr, (variable_ptrs.filter (fun ptr => !(heap ptr).is_fixed))[k]? = some ptr →
      (((IntegerMoveGenerator.setup_then_update AbstractMoveGenerator.fresh heap variable_ptrs
          true false false).m_moves.getD (4 * k) Move.empty).alterations =
          [(ptr, (heap ptr).value + 1)] ∧
        ((IntegerMoveGenerator.setup_then_update AbstractMoveGenerator.fresh heap variable_ptrs
          true false false).m_moves.getD (4 * k + 1) Move.empty).alterations =
          [(ptr, (heap ptr).value - 1)] ∧
        ((IntegerMoveGenerator.setup_then_update AbstractMoveGenerator.fresh heap variable_ptrs
          true false false).m_moves.getD (4 * k + 2) Move.empty).alterations =
          [(ptr, Int.tdiv ((heap ptr).value + (heap ptr).upper_bound) 2)] ∧
        ((IntegerMoveGenerator.setup_then_update AbstractMoveGenerator.fresh heap variable_ptrs
          true false false).m_moves.getD (4 * k + 3) Move.empty).alterations =
          [(ptr, Int.tdiv ((heap ptr).value + (heap ptr).lower_bound) 2)]) ∧
      (∀ slot, slot = 4 * k ∨ slot = 4 * k + 2 →
        (IntegerMoveGenerator.setup_then_update AbstractMoveGenerator.fresh heap variable_ptrs
          true false false).m_flags.getD slot 0 =
          if (heap ptr).value = (heap ptr).upper_bound then 0 else 1) ∧
      ∀ slot, slot = 4 * k + 1 ∨ slot = 4 * k + 3 →
        (IntegerMoveGenerator.setup_then_update AbstractMoveGenerator.fresh heap variable_ptrs
          true false false).m_flags.getD slot 0 =
          if (heap ptr).value = (heap ptr).lower_bound then 0 else 1 := by
  have hcount : (IntegerMoveGenerator.extract_mutable_variable_ptrs heap variable_ptrs).length =
      variable_ptrs.countP (fun ptr => !(heap ptr).is_fixed) := by
    rw [IntegerMoveGenerator.extract_mutable_variable_ptrs, List.countP_eq_length_filter]
  obtain ⟨hm, hf⟩ := IntegerMoveGenerator.setup_then_update_length heap variable_ptrs true false
    false
  have hblock := IntegerMoveGenerator.setup_then_update_block heap variable_ptrs true false
    false
  have halt : ∀ (ptr : Nat) (target : ℤ),
      ((IntegerMoveGenerator.slot_move heap Move.empty ptr).set_alteration_value 0
        target).alterations = [(ptr, target)] := by
    intro ptr target
    simp [IntegerMoveGenerator.slot_move, Move.set_alteration_value, Move.empty]
  refine ⟨⟨by rw [hm, hcount], by rw [hf, hcount]⟩, ?_, ?_⟩
  · intro slot hslot
    rw [hm] at hslot
    have hk : slot / 4 < (IntegerMoveGenerator.extract_mutable_variable_ptrs heap
        variable_ptrs).length := by omega
    have hsome : (IntegerMoveGenerator.extract_mutable_variable_ptrs heap variable_ptrs)[slot /
        4]? = some ((IntegerMoveGenerator.extract_mutable_variable_ptrs heap
          variable_ptrs)[slot / 4]) := List.getElem?_eq_getElem hk
    have hmem : (IntegerMoveGenerator.extract_mutable_variable_ptrs heap variable_ptrs)[slot /
        4] ∈ variable_ptrs.filter (fun ptr => !(heap ptr).is_fixed) :=
      List.getElem_mem hk
    rw [List.mem_filter] at hmem
    obtain ⟨h1, _⟩ := hblock (slot / 4) _ hsome (slot % 4) (Nat.mod_lt _ (by omega))
    rw [Nat.div_add_mod] at h1
    rw [h1]
    refine ⟨rfl, _, _, halt _ _, hmem.1, by simpa using hmem.2, ?_⟩
    intro constraint_ptr hc
    exact hc
  · intro k ptr hk
    have h0 := hblock k ptr hk 0 (by omega)
    have h1 := hblock k ptr hk 1 (by omega)
    have h2 := hblock k ptr hk 2 (by omega)
    have h3 := hblock k ptr hk 3 (by omega)
    rw [Nat.add_zero] at h0
    refine ⟨⟨?_, ?_, ?_, ?_⟩, ?_, ?_⟩
    · rw [h0.1, halt]
      rfl
    · rw [h1.1, halt]
      rfl
    · rw [h2.1, halt]
      rfl
    · rw [h3.1, halt]
      rfl
    · intro slot hslot
      rcases hslot with h | h
      · rw [h, h0.2]
        by_cases hv : (heap ptr).value = (heap ptr).upper_bound <;>
          simp [IntegerMoveGenerator.is_accepted, hv]
      · rw [h, h2.2]
        by_cases hv : (heap ptr).value = (heap ptr).upper_bound <;>
          simp [IntegerMoveGenerator.is_accepted, hv]
    · intro slot hslot
      rcases hslot with h | h
      · rw [h, h1.2]
        by_cases hv : (heap ptr).value = (heap ptr).lower_bound <;>
          simp [IntegerMoveGenerator.is_accepted, hv]
      · rw [h, h3.2]
        by_cases hv : (heap ptr).value = (heap ptr).lower_bound <;>
          simp [IntegerMoveGenerator.is_accepted, hv]

end neighborhood
end printemps

namespace printemps
namespace model_component

/-- C13: for operands `L` and `R`, each a variable, an expression, a variable proxy or
an expression proxy of one element, or an integer constant, not both constants, the
operators `L <= R`, `L == R` and `L >= R` build a constraint of sense `Less`, `Equal`
and `Greater` whose expression is `L - R`: the coefficient of every variable is its
coefficient in `L` minus its coefficient in `R`, the constant is the constant of `L`
minus that of `R`, the sensitivity map has the variables of `L` and those of `R`, each
once (a variable whose coefficients cancel stays in the map, with the coefficient `0`),
and the expression evaluates to the value of `L` minus the value of `R` at every
assignment; `x <= c` has the coefficient `1` and the constant `-c`, `c <= x` has the
coefficient `-1` and the constant `c`, and `x <= x` has the coefficient `0` for `x`. -/
theorem Operand.constraint_expression_eq_difference (a_SENSE : ConstraintSense)
    (L R : Operand) (hboth : ¬ (L.is_integer = true ∧ R.is_integer = true))
    (hL : (L.linear_form.m_sensitivities.map Prod.fst).Nodup)
    (hR : (R.linear_form.m_sensitivities.map Prod.fst).Nodup) :
    (∃ c, Operand.constraint a_SENSE L R = some c ∧ c.m_sense = a_SENSE ∧
      (c.m_expression.m_sensitivities.map Prod.fst).Nodup ∧
      (∀ v, v ∈ c.m_expression.m_sensitivities.map Prod.fst ↔
        v ∈ L.linear_form.m_sensitivities.map Prod.fst ∨
          v ∈ R.linear_form.m_sensitivities.map Prod.fst) ∧
      (∀ v, c.m_expression.coefficient v =
        L.linear_form.coefficient v - R.linear_form.coefficient v) ∧
      c.m_expression.constant_value =
        L.linear_form.constant_value - R.linear_form.constant_value ∧
      ∀ heap, c.m_expression.evaluate heap =
        L.linear_form.evaluate heap - R.linear_form.evaluate heap) ∧
    ∀ (x : Nat) (n : ℤ),
      (∃ c, Operand.constraint a_SENSE (Operand.of_variable x) (Operand.of_integer n) = some c ∧
        c.m_expression.m_sensitivities = [(x, 1)] ∧
        c.m_expression.constant_value = -(n : ℚ)) ∧
      (∃ c, Operand.constraint a_SENSE (Operand.of_integer n) (Operand.of_variable x) = some c ∧
        c.m_expression.m_sensitivities = [(x, -1)] ∧
        c.m_expression.constant_value = (n : ℚ)) ∧
      ∃ c, Operand.constraint a_SENSE (Operand.of_variable x) (Operand.of_variable x) = some c ∧
        c.m_expression.m_sensitivities = [(x, 0)] ∧ c.m_expression.constant_value = 0 := by
  constructor
  · obtain ⟨e, he, h1, h2, h3, h4, h5⟩ := Operand.difference_spec L R hboth hL hR
    refine ⟨Constraint.create_instance e a_SENSE, ?_, rfl, h1, h2, h3, h4, h5⟩
    simp only [Operand.constraint, he, Option.map_some']
  · intro x n
    refine ⟨⟨_, rfl, ?_, ?_⟩, ⟨_, rfl, ?_, ?_⟩, ⟨_, rfl, ?_, ?_⟩⟩
    · rfl
    · simp [Constraint.create_instance, Expression.sub_assign_value, Variable.to_expression,
        Expression.create_instance, Expression.constant_value, Expression.initialize_]
    · simp [Constraint.create_instance, Expression.add_assign_value, Variable.to_expression,
        Expression.create_instance, Expression.neg, Expression.constant_value]
    · simp [Constraint.create_instance, Expression.add_assign_value, Variable.to_expression,
        Expression.create_instance, Expression.neg, Expression.constant_value,
        Expression.initialize_]
    · simp [Constraint.create_instance, Expression.sub_assign, Expression.add_assign,
        Variable.to_expression, Expression.create_instance, Expression.neg,
        Expression.constant_value, Expression.add_assign_sensitivity]
    · simp [Constraint.create_instance, Expression.sub_assign, Expression.add_assign,
        Variable.to_expression, Expression.create_instance, Expression.neg,
        Expression.constant_value, Expression.initialize_]

end model_component
end printemps

namespace printemps
namespace model_component

theorem Operand.constraint_expression_eq_difference_witness :
    (¬ ((Operand.of_expression (examples.three_term_expression 0)).is_integer = true ∧
        (Operand.of_variable_proxy 64).is_integer = true) ∧
      ((Operand.of_expression
        (examples.three_term_expression 0)).linear_form.m_sensitivities.map Prod.fst).Nodup ∧
      ((Operand.of_variable_proxy 64).linear_form.m_sensitivities.map Prod.fst).Nodup) ∧
    ((∃ c, Operand.constraint ConstraintSense.Less
        (Operand.of_expression (examples.three_term_expression 0))
        (Operand.of_variable_proxy 64) = some c ∧ c.m_sense = ConstraintSense.Less ∧
      (c.m_expression.m_sensitivities.map Prod.fst).Nodup ∧
      (∀ v, v ∈ c.m_expression.m_sensitivities.map Prod.fst ↔
        v ∈ (Operand.of_expression
            (examples.three_term_expression 0)).linear_form.m_sensitivities.map Prod.fst ∨
          v ∈ (Operand.of_variable_proxy 64).linear_form.m_sensitivities.map Prod.fst) ∧
      (∀ v, c.m_expression.coefficient v =
        (Operand.of_expression (examples.three_term_expression 0)).linear_form.coefficient v -
          (Operand.of_variable_proxy 64).linear_form.coefficient v) ∧
      c.m_expression.constant_value =
        (Operand.of_expression (examples.three_term_expression 0)).linear_form.constant_value -
          (Operand.of_variable_proxy 64).linear_form.constant_value ∧
      ∀ heap, c.m_expression.evaluate heap =
        (Operand.of_expression (examples.three_term_expression 0)).linear_form.evaluate heap -
          (Operand.of_variable_proxy 64).linear_form.evaluate heap) ∧
    ∀ (x : Nat) (n : ℤ),
      (∃ c, Operand.constraint ConstraintSense.Less (Operand.of_variable x)
          (Operand.of_integer n) = some c ∧
        c.m_expression.m_sensitivities = [(x, 1)] ∧
        c.m_expression.constant_value = -(n : ℚ)) ∧
      (∃ c, Operand.constraint ConstraintSense.Less (Operand.of_integer n)
          (Operand.of_variable x) = some c ∧
        c.m_expression.m_sensitivities = [(x, -1)] ∧
        c.m_expression.constant_value = (n : ℚ)) ∧
      ∃ c, Operand.constraint ConstraintSense.Less (Operand.of_variable x)
          (Operand.of_variable x) = some c ∧
        c.m_expression.m_sensitivities = [(x, 0)] ∧ c.m_expression.constant_value = 0) :=
  ⟨⟨by decide, by decide, by decide⟩,
    Operand.constraint_expression_eq_difference ConstraintSense.Less
      (Operand.of_expression (examples.three_term_expression 0)) (Operand.of_variable_proxy 64)
      (by decide) (by decide) (by decide)⟩

end model_component
end printemps


namespace printemps
namespace solver
namespace local_search
namespace core

open model_component neighborhood solution model

/-- C14: in an iteration of `LocalSearchCore::run` in which every move of
`neighborhood().move_ptrs()` is evaluated with a result, the scan either applies the
move `p` at the first position `k`, in the order of `move_ptrs()`, whose trial score
satisfies `local_augmented_objective + EPSILON < current local_augmented_objective`
(every move before it fails that test, `number_of_checked_move` is `k`, and the trial
score that is passed on is that of `p`), or no move passes the test, no move is applied
and the loop is left with the status `LOCAL_OPTIMAL`. -/
theorem LocalSearchCore.search_first_improvement (mdl : Model)
    (is_enabled_fast_evaluation : Bool) (state : LocalSearchCoreState)
    (MOVE_PTRS : List Move) (trial_solution_score : SolutionScore)
    (hdef : ∀ p ∈ MOVE_PTRS, (LocalSearchCore.evaluate_move_ptr mdl is_enabled_fast_evaluation
      state.current_solution_score p).isSome = true) :
    (∃ (k : Nat) (p : Move) (t : SolutionScore), MOVE_PTRS[k]? = some p ∧
      LocalSearchCore.evaluate_move_ptr mdl is_enabled_fast_evaluation
        state.current_solution_score p = some t ∧
      t.local_augmented_objective + constant.EPSILON <
        state.current_solution_score.local_augmented_objective ∧
      (∀ (j : Nat) (q : Move) (s : SolutionScore), j < k → MOVE_PTRS[j]? = some q →
        LocalSearchCore.evaluate_move_ptr mdl is_enabled_fast_evaluation
          state.current_solution_score q = some s →
        ¬ (s.local_augmented_objective + constant.EPSILON <
          state.current_solution_score.local_augmented_objective)) ∧
      LocalSearchCore.search mdl is_enabled_fast_evaluation state MOVE_PTRS
        trial_solution_score = some (LocalSearchCore.Step.applied p (k : ℤ) t)) ∨
    ((∀ (q : Move) (s : SolutionScore), q ∈ MOVE_PTRS →
        LocalSearchCore.evaluate_move_ptr mdl is_enabled_fast_evaluation
          state.current_solution_score q = some s →
        ¬ (s.local_augmented_objective + constant.EPSILON <
          state.current_solution_score.local_augmented_objective)) ∧
      LocalSearchCore.search mdl is_enabled_fast_evaluation state MOVE_PTRS
        trial_solution_score =
        some (LocalSearchCore.Step.terminated
          { state with termination_status := LocalSearchCoreTerminationStatus.LOCAL_OPTIMAL })) := by
  obtain ⟨scan, hscan, hcases⟩ := LocalSearchCore.scan_loop_spec mdl is_enabled_fast_evaluation
    state.current_solution_score MOVE_PTRS
    { number_of_checked_move := 0
      is_found_improving_solution := false
      selected_move_ptr := none
      trial_solution_score := trial_solution_score } hdef
  rcases hcases with ⟨k, p, t, hk, hp, ht, hbefore, h1, h2, h3, h4⟩ | ⟨hall, h1, h2, h3⟩
  · refine Or.inl ⟨k, p, t, hk, hp, ht, hbefore, ?_⟩
    simp only [LocalSearchCore.search, hscan,
      LocalSearchCore.satisfy_local_optimal_terminate_condition, h1, h2, h3, h4]
    simp
  · refine Or.inr ⟨hall, ?_⟩
    simp only [LocalSearchCore.search, hscan,
      LocalSearchCore.satisfy_local_optimal_terminate_condition, h1]
    simp [LocalSearchCoreState.set_termination_status]

theorem LocalSearchCore.search_first_improvement_witness :
    (∀ p ∈ [examples.univariable_flip_move],
      (LocalSearchCore.evaluate_move_ptr (examples.single_model 1) true
        examples.search_state.current_solution_score p).isSome = true) ∧
    ((∃ (k : Nat) (p : Move) (t : SolutionScore), [examples.univariable_flip_move][k]? = some p ∧
      LocalSearchCore.evaluate_move_ptr (examples.single_model 1) true
        examples.search_state.current_solution_score p = some t ∧
      t.local_augmented_objective + constant.EPSILON <
        examples.search_state.current_solution_score.local_augmented_objective ∧
      (∀ (j : Nat) (q : Move) (s : SolutionScore), j < k → [examples.univariable_flip_move][j]? = some q →
        LocalSearchCore.evaluate_move_ptr (examples.single_model 1) true
          examples.search_state.current_solution_score q = some s →
        ¬ (s.local_augmented_objective + constant.EPSILON <
          examples.search_state.current_solution_score.local_augmented_objective)) ∧
      LocalSearchCore.search (examples.single_model 1) true examples.search_state [examples.univariable_flip_move]
        examples.zero_score = some (LocalSearchCore.Step.applied p (k : ℤ) t)) ∨
    ((∀ (q : Move) (s : SolutionScore), q ∈ [examples.univariable_flip_move] →
        LocalSearchCore.evaluate_move_ptr (examples.single_model 1) true
          examples.search_state.current_solution_score q = some s →
        ¬ (s.local_augmented_objective + constant.EPSILON <
          examples.search_state.current_solution_score.local_augmented_objective)) ∧
      LocalSearchCore.search (examples.single_model 1) true examples.search_state [examples.univariable_flip_move]
        examples.zero_score =
        some (LocalSearchCore.Step.terminated
          { examples.search_state with termination_status := LocalSearchCoreTerminationStatus.LOCAL_OPTIMAL }))) :=
  ⟨examples.single_model_evaluate_move_ptr 1,
    LocalSearchCore.search_first_improvement (examples.single_model 1) true
      examples.search_state [examples.univariable_flip_move] examples.zero_score
      (examples.single_model_evaluate_move_ptr 1)⟩

/-- C15: `satisfy_optimal_or_no_move_terminate_condition` returns `false` and leaves
the state as it is when the neighborhood has at least one move; when it has none, it
returns `true`, changes nothing but the termination status, and sets the status
`OPTIMAL` if the model is linear, the current solution is feasible and no variable is
objective-improvable, and the status `NO_MOVE` in every other case. -/
theorem LocalSearchCore.optimal_or_no_move (state : LocalSearchCoreState)
    (is_linear is_feasible : Bool) (heap : VariableHeap) (variable_ptrs : List Nat) :
    (0 < state.number_of_moves →
      LocalSearchCore.satisfy_optimal_or_no_move_terminate_condition state is_linear is_feasible
        heap variable_ptrs = (false, state)) ∧
    (state.number_of_moves = 0 →
      ((is_linear = true ∧ is_feasible = true ∧
          ∀ ptr ∈ variable_ptrs, (heap ptr).is_objective_improvable = false) →
        LocalSearchCore.satisfy_optimal_or_no_move_terminate_condition state is_linear
          is_feasible heap variable_ptrs =
          (true, { state with termination_status := LocalSearchCoreTerminationStatus.OPTIMAL })) ∧
      (¬ (is_linear = true ∧ is_feasible = true ∧
          ∀ ptr ∈ variable_ptrs, (heap ptr).is_objective_improvable = false) →
        LocalSearchCore.satisfy_optimal_or_no_move_terminate_condition state is_linear
          is_feasible heap variable_ptrs =
          (true, { state with termination_status := LocalSearchCoreTerminationStatus.NO_MOVE }))) := by
  refine ⟨?_, ?_⟩
  · intro h
    simp only [LocalSearchCore.satisfy_optimal_or_no_move_terminate_condition, h, if_true]
  · intro h
    have hn : ¬ (state.number_of_moves > 0) := by omega
    simp only [LocalSearchCore.satisfy_optimal_or_no_move_terminate_condition, hn, if_false,
      LocalSearchCore.improvable_loop_spec]
    constructor
    · rintro ⟨h1, h2, h3⟩
      have hno : ¬ ∃ ptr ∈ variable_ptrs, (heap ptr).is_objective_improvable = true := by
        rintro ⟨ptr, hp, hp2⟩
        rw [h3 ptr hp] at hp2
        exact absurd hp2 (by decide)
      simp [h1, h2, hno, LocalSearchCoreState.set_termination_status]
    · intro hnot
      by_cases hlf : (is_linear && is_feasible) = true
      · rw [if_pos hlf]
        simp only [Bool.and_eq_true] at hlf
        have hex : ∃ ptr ∈ variable_ptrs, (heap ptr).is_objective_improvable = true := by
          by_contra hcon
          apply hnot
          refine ⟨hlf.1, hlf.2, ?_⟩
          intro ptr hp
          cases hv : (heap ptr).is_objective_improvable
          · rfl
          · exact absurd ⟨ptr, hp, hv⟩ hcon
        rw [if_pos hex]
        rfl
      · rw [if_neg hlf]
        rfl

end core
end local_search
end solver
end printemps

namespace cppmh
namespace solver
namespace lagrange_dual

open model

/-- C17: after `bound_dual` the multiplier of every constraint of sense `Lower` (`≤`) is
`max(old, 0)`, which is not negative, the multiplier of every constraint of sense
`Upper` (`≥`) is `min(old, 0)`, which is not positive, and the multiplier of every
constraint of sense `Equal` is the old one; the multipliers of `solve` are `0` after
the initial call, and they satisfy the sign restriction after the initial call and
after the dual update of every iteration, for all step sizes and constraint values. -/
theorem bound_dual_clamps (senses : List (List ConstraintSense)) (dual : List (List ℚ))
    (hshape : dual.map List.length = senses.map List.length) :
    (∀ (id flat_index : Nat) (proxy : List ConstraintSense) (sense : ConstraintSense),
      senses[id]? = some proxy → proxy[flat_index]? = some sense →
      (sense = ConstraintSense.Lower →
        ((bound_dual senses dual).getD id []).getD flat_index 0 =
            max ((dual.getD id []).getD flat_index 0) 0 ∧
          0 ≤ ((bound_dual senses dual).getD id []).getD flat_index 0) ∧
      (sense = ConstraintSense.Upper →
        ((bound_dual senses dual).getD id []).getD flat_index 0 =
            min ((dual.getD id []).getD flat_index 0) 0 ∧
          ((bound_dual senses dual).getD id []).getD flat_index 0 ≤ 0) ∧
      (sense = ConstraintSense.Equal →
        ((bound_dual senses dual).getD id []).getD flat_index 0 =
          (dual.getD id []).getD flat_index 0)) ∧
    ∀ (iterations : List (ℚ × List (List ℚ))) (id flat_index : Nat)
      (proxy : List ConstraintSense) (sense : ConstraintSense),
      senses[id]? = some proxy → proxy[flat_index]? = some sense →
      (iterations = [] → ((dual_after senses iterations).getD id []).getD flat_index 0 = 0) ∧
      (sense = ConstraintSense.Lower →
        0 ≤ ((dual_after senses iterations).getD id []).getD flat_index 0) ∧
      (sense = ConstraintSense.Upper →
        ((dual_after senses iterations).getD id []).getD flat_index 0 ≤ 0) := by
  constructor
  · intro id flat_index proxy sense hp hs
    have h := (bound_dual_getD senses dual hshape).2 id flat_index proxy sense hp hs
    refine ⟨?_, ?_, ?_⟩
    · intro he
      subst he
      rw [h]
      exact ⟨rfl, le_max_right _ _⟩
    · intro he
      subst he
      rw [h]
      exact ⟨rfl, min_le_right _ _⟩
    · intro he
      subst he
      rw [h]
      rfl
  · intro iterations id flat_index proxy sense hp hs
    have hall : ∃ old, ((dual_after senses iterations).getD id []).getD flat_index 0 =
        bound_multiplier sense old ∧ (iterations = [] → old = 0) := by
      cases iterations with
      | nil =>
        refine ⟨_, (bound_dual_getD senses _ ?_).2 id flat_index proxy sense hp hs, ?_⟩
        · simp [generate_constraint_parameter_proxies, Function.comp]
        · intro _
          have hfl : flat_index < proxy.length := by
            rcases Nat.lt_or_ge flat_index proxy.length with h | h
            · exact h
            · rw [List.getElem?_eq_none h] at hs
              exact absurd hs (by simp)
          simp [generate_constraint_parameter_proxies, List.getD_eq_getElem?_getD, hp, hfl]
      | cons iteration earlier =>
        refine ⟨_, (bound_dual_getD senses _ ?_).2 id flat_index proxy sense hp hs, ?_⟩
        · rw [update_dual_shape, dual_after_shape]
        · intro h
          exact absurd h (by simp)
    obtain ⟨old, hold, hzero⟩ := hall
    refine ⟨?_, ?_, ?_⟩
    · intro he
      rw [hold, hzero he]
      cases sense <;> simp [bound_multiplier]
    · intro he
      subst he
      rw [hold]
      exact le_max_right _ _
    · intro he
      subst he
      rw [hold]
      exact min_le_right _ _

theorem bound_dual_clamps_witness :
    ([[-1, 2], [3]] : List (List ℚ)).map List.length =
        [[ConstraintSense.Lower, ConstraintSense.Upper], [ConstraintSense.Equal]].map
          List.length ∧
    ((∀ (id flat_index : Nat) (proxy : List ConstraintSense) (sense : ConstraintSense),
      [[ConstraintSense.Lower, ConstraintSense.Upper], [ConstraintSense.Equal]][id]? =
          some proxy → proxy[flat_index]? = some sense →
      (sense = ConstraintSense.Lower →
        ((bound_dual [[ConstraintSense.Lower, ConstraintSense.Upper], [ConstraintSense.Equal]]
            [[-1, 2], [3]]).getD id []).getD flat_index 0 =
            max ((([[-1, 2], [3]] : List (List ℚ)).getD id []).getD flat_index 0) 0 ∧
          0 ≤ ((bound_dual
            [[ConstraintSense.Lower, ConstraintSense.Upper], [ConstraintSense.Equal]]
            [[-1, 2], [3]]).getD id []).getD flat_index 0) ∧
      (sense = ConstraintSense.Upper →
        ((bound_dual [[ConstraintSense.Lower, ConstraintSense.Upper], [ConstraintSense.Equal]]
            [[-1, 2], [3]]).getD id []).getD flat_index 0 =
            min ((([[-1, 2], [3]] : List (List ℚ)).getD id []).getD flat_index 0) 0 ∧
          ((bound_dual [[ConstraintSense.Lower, ConstraintSense.Upper], [ConstraintSense.Equal]]
            [[-1, 2], [3]]).getD id []).getD flat_index 0 ≤ 0) ∧
      (sense = ConstraintSense.Equal →
        ((bound_dual [[ConstraintSense.Lower, ConstraintSense.Upper], [ConstraintSense.Equal]]
            [[-1, 2], [3]]).getD id []).getD flat_index 0 =
          (([[-1, 2], [3]] : List (List ℚ)).getD id []).getD flat_index 0)) ∧
    ∀ (iterations : List (ℚ × List (List ℚ))) (id flat_index : Nat)
      (proxy : List ConstraintSense) (sense : ConstraintSense),
      [[ConstraintSense.Lower, ConstraintSense.Upper], [ConstraintSense.Equal]][id]? =
          some proxy → proxy[flat_index]? = some sense →
      (iterations = [] →
        ((dual_after [[ConstraintSense.Lower, ConstraintSense.Upper], [ConstraintSense.Equal]]
          iterations).getD id []).getD flat_index 0 = 0) ∧
      (sense = ConstraintSense.Lower →
        0 ≤ ((dual_after
          [[ConstraintSense.Lower, ConstraintSense.Upper], [ConstraintSense.Equal]]
          iterations).getD id []).getD flat_index 0) ∧
      (sense = ConstraintSense.Upper →
        ((dual_after [[ConstraintSense.Lower, ConstraintSense.Upper], [ConstraintSense.Equal]]
          iterations).getD id []).getD flat_index 0 ≤ 0)) :=
  ⟨rfl, bound_dual_clamps
    [[ConstraintSense.Lower, ConstraintSense.Upper], [ConstraintSense.Equal]]
    [[-1, 2], [3]] rfl⟩

end lagrange_dual
end solver
end cppmh

namespace printemps
namespace solver
namespace lagrange_dual
namespace core

open model_component model

/-- C16: with the sensitivities of the variables set up from the model, the coefficient
that the primal update computes for a variable is
`objective_sensitivity + sign * Σ_c λ_c a_(c,v)`; the update sets every variable of the
list that is not fixed to its lower bound if `(coefficient > 0) = is_minimization` and
to its upper bound otherwise, and leaves every other variable as it is; the Lagrangian
`sign * objective + Σ_c λ_c g_c` of the result is at most that of every assignment
within the bounds (fixed variables at their value), and the result is itself within the
bounds when no lower bound exceeds the upper bound; the four branches of the solver of
`cppmh` give the same variables. -/
theorem LagrangeDualCore.update_primal_minimizes_lagrangian (mdl : Model)
    (dual : ConstraintPtr → ℚ) (variable_ptrs : List Nat)
    (hs : LagrangeDualCore.SensitivitiesSetUp mdl variable_ptrs) :
    (∀ ptr, LagrangeDualCore.coefficient (mdl.m_variable_proxies ptr) dual mdl.sign =
      (mdl.m_variable_proxies ptr).objective_sensitivity +
        mdl.sign * ∑ c in Finset.range mdl.constraints.length,
          dual c * (mdl.constraint c).m_expression.coefficient ptr) ∧
    (∀ ptr, LagrangeDualCore.update_primal dual mdl.sign mdl.m_is_minimization variable_ptrs
        mdl.m_variable_proxies ptr =
      if ptr ∈ variable_ptrs ∧ (mdl.m_variable_proxies ptr).is_fixed = false then
        (mdl.m_variable_proxies ptr).set_value
          (if (decide (LagrangeDualCore.coefficient (mdl.m_variable_proxies ptr) dual
              mdl.sign > 0) == mdl.m_is_minimization) then
            (mdl.m_variable_proxies ptr).lower_bound
          else (mdl.m_variable_proxies ptr).upper_bound)
      else mdl.m_variable_proxies ptr) ∧
    (∀ other, LagrangeDualCore.Admissible mdl.m_variable_proxies other variable_ptrs →
      LagrangeDualCore.lagrangian mdl dual
          (LagrangeDualCore.update_primal dual mdl.sign mdl.m_is_minimization variable_ptrs
            mdl.m_variable_proxies) ≤
        LagrangeDualCore.lagrangian mdl dual other) ∧
    ((∀ ptr ∈ variable_ptrs, (mdl.m_variable_proxies ptr).lower_bound ≤
        (mdl.m_variable_proxies ptr).upper_bound) →
      LagrangeDualCore.Admissible mdl.m_variable_proxies
        (LagrangeDualCore.update_primal dual mdl.sign mdl.m_is_minimization variable_ptrs
          mdl.m_variable_proxies) variable_ptrs) ∧
    cppmh.solver.lagrange_dual.update_primal dual mdl.sign mdl.m_is_minimization
        variable_ptrs mdl.m_variable_proxies =
      LagrangeDualCore.update_primal dual mdl.sign mdl.m_is_minimization variable_ptrs
        mdl.m_variable_proxies := by
  refine ⟨fun ptr => LagrangeDualCore.coefficient_eq mdl dual mdl.sign ptr
      (hs.constraints ptr) hs.constraint_keys, ?_,
    fun other ho => LagrangeDualCore.update_primal_le mdl dual variable_ptrs hs other ho,
    LagrangeDualCore.update_primal_admissible dual mdl.sign mdl.m_is_minimization
      variable_ptrs mdl.m_variable_proxies,
    cppmh.solver.lagrange_dual.update_primal_eq_core dual mdl.sign mdl.m_is_minimization
      variable_ptrs mdl.m_variable_proxies⟩
  intro ptr
  rw [LagrangeDualCore.update_primal_apply]
  by_cases h : ptr ∈ variable_ptrs ∧ (mdl.m_variable_proxies ptr).is_fixed = false
  · rw [if_pos h, if_pos h]
    cases (decide (LagrangeDualCore.coefficient (mdl.m_variable_proxies ptr) dual
      mdl.sign > 0) == mdl.m_is_minimization) <;> rfl
  · rw [if_neg h, if_neg h]

/-- The primal update of the model that maximizes `2 x₆₄` under `x₆₄ - 1 ≤ 0`, for the
multiplier 1. -/
theorem LagrangeDualCore.update_primal_minimizes_lagrangian_witness :
    LagrangeDualCore.SensitivitiesSetUp examples.lagrange_model [64] ∧
    ((∀ ptr, LagrangeDualCore.coefficient (examples.lagrange_model.m_variable_proxies ptr)
        (fun _ => 1) examples.lagrange_model.sign =
      (examples.lagrange_model.m_variable_proxies ptr).objective_sensitivity +
        examples.lagrange_model.sign *
          ∑ c in Finset.range examples.lagrange_model.constraints.length,
            (fun _ => 1) c *
              (examples.lagrange_model.constraint c).m_expression.coefficient ptr) ∧
    (∀ ptr, LagrangeDualCore.update_primal (fun _ => 1) examples.lagrange_model.sign
        examples.lagrange_model.m_is_minimization [64]
        examples.lagrange_model.m_variable_proxies ptr =
      if ptr ∈ [64] ∧ (examples.lagrange_model.m_variable_proxies ptr).is_fixed = false then
        (examples.lagrange_model.m_variable_proxies ptr).set_value
          (if (decide (LagrangeDualCore.coefficient
              (examples.lagrange_model.m_variable_proxies ptr) (fun _ => 1)
              examples.lagrange_model.sign > 0) ==
                examples.lagrange_model.m_is_minimization) then
            (examples.lagrange_model.m_variable_proxies ptr).lower_bound
          else (examples.lagrange_model.m_variable_proxies ptr).upper_bound)
      else examples.lagrange_model.m_variable_proxies ptr) ∧
    (∀ other, LagrangeDualCore.Admissible examples.lagrange_model.m_variable_proxies other
        [64] →
      LagrangeDualCore.lagrangian examples.lagrange_model (fun _ => 1)
          (LagrangeDualCore.update_primal (fun _ => 1) examples.lagrange_model.sign
            examples.lagrange_model.m_is_minimization [64]
            examples.lagrange_model.m_variable_proxies) ≤
        LagrangeDualCore.lagrangian examples.lagrange_model (fun _ => 1) other) ∧
    ((∀ ptr ∈ [64], (examples.lagrange_model.m_variable_proxies ptr).lower_bound ≤
        (examples.lagrange_model.m_variable_proxies ptr).upper_bound) →
      LagrangeDualCore.Admissible examples.lagrange_model.m_variable_proxies
        (LagrangeDualCore.update_primal (fun _ => 1) examples.lagrange_model.sign
          examples.lagrange_model.m_is_minimization [64]
          examples.lagrange_model.m_variable_proxies) [64]) ∧
    cppmh.solver.lagrange_dual.update_primal (fun _ => 1) examples.lagrange_model.sign
        examples.lagrange_model.m_is_minimization [64]
        examples.lagrange_model.m_variable_proxies =
      LagrangeDualCore.update_primal (fun _ => 1) examples.lagrange_model.sign
        examples.lagrange_model.m_is_minimization [64]
        examples.lagrange_model.m_variable_proxies) :=
  ⟨examples.lagrange_model_set_up,
    LagrangeDualCore.update_primal_minimizes_lagrangian examples.lagrange_model (fun _ => 1)
      [64] examples.lagrange_model_set_up⟩

end core
end lagrange_dual
end solver
end printemps

namespace cppmh
namespace model

open printemps.model_component

/-- C18: when `verify_and_correct_selection_variables_initial_values` with correction
returns, for selections that share no variable, every selection has exactly one
variable of value 1 and its other variables have the value 0; the variable of value 1
is the fixed variable that had the value 1, else the first variable that had the value
1, else the first variable that is not fixed; no fixed variable has been changed, and
no variable outside the selections. -/
theorem verify_selection_variables_with_correction (selections : List (List Nat))
    (heap verified : VariableHeap) (hnd : selections.flatten.Nodup)
    (h : verify_and_correct_selection_variables_initial_values true selections heap =
      some verified) :
    (∀ variable_ptrs ∈ selections, OneSelected verified variable_ptrs ∧
      ∃ selected_variable_ptr, kept heap variable_ptrs = some selected_variable_ptr ∧
        selected_variable_ptr ∈ variable_ptrs ∧
        (verified selected_variable_ptr).value = 1 ∧
        ∀ variable_ptr ∈ variable_ptrs, variable_ptr ≠ selected_variable_ptr →
          (verified variable_ptr).value = 0) ∧
    (∀ variable_ptr, (heap variable_ptr).is_fixed = true →
      verified variable_ptr = heap variable_ptr) ∧
    ∀ variable_ptr, variable_ptr ∉ selections.flatten →
      verified variable_ptr = heap variable_ptr := by
  obtain ⟨hg, hfix, hframe⟩ := verify_selections_with_correction selections heap verified hnd h
  refine ⟨?_, hfix, hframe⟩
  intro g hmem
  obtain ⟨hone, x, hk, hxg, hform⟩ := hg g hmem
  refine ⟨hone, x, hk, hxg, ?_, ?_⟩
  · rw [hform x hxg, if_pos rfl]
    rfl
  · intro p hp hpx
    rw [hform p hp, if_neg hpx]
    rfl

/-- The correction of the selections `x₁ + x₂ + x₃ = 1` and `x₄ + x₅ + x₆ = 1` from the
values `(1, 5, 1)` with `x₃` fixed and `(0, 0, 0)` with `x₅` fixed. -/
theorem verify_selection_variables_with_correction_witness :
    ([[1, 2, 3], [4, 5, 6]] : List (List Nat)).flatten.Nodup ∧
    verify_and_correct_selection_variables_initial_values true [[1, 2, 3], [4, 5, 6]]
      printemps.examples.selection_heap =
        some printemps.examples.corrected_selection_heap ∧
    ((∀ variable_ptrs ∈ ([[1, 2, 3], [4, 5, 6]] : List (List Nat)),
      OneSelected printemps.examples.corrected_selection_heap variable_ptrs ∧
      ∃ selected_variable_ptr,
        kept printemps.examples.selection_heap variable_ptrs = some selected_variable_ptr ∧
        selected_variable_ptr ∈ variable_ptrs ∧
        (printemps.examples.corrected_selection_heap selected_variable_ptr).value = 1 ∧
        ∀ variable_ptr ∈ variable_ptrs, variable_ptr ≠ selected_variable_ptr →
          (printemps.examples.corrected_selection_heap variable_ptr).value = 0) ∧
    (∀ variable_ptr, (printemps.examples.selection_heap variable_ptr).is_fixed = true →
      printemps.examples.corrected_selection_heap variable_ptr =
        printemps.examples.selection_heap variable_ptr) ∧
    ∀ variable_ptr, variable_ptr ∉ ([[1, 2, 3], [4, 5, 6]] : List (List Nat)).flatten →
      printemps.examples.corrected_selection_heap variable_ptr =
        printemps.examples.selection_heap variable_ptr) :=
  ⟨by decide, printemps.examples.corrected_selection_heap_eq,
    verify_selection_variables_with_correction [[1, 2, 3], [4, 5, 6]]
      printemps.examples.selection_heap printemps.examples.corrected_selection_heap
      (by decide) printemps.examples.corrected_selection_heap_eq⟩

end model
end cppmh

namespace cppmh
namespace model

open printemps.model_component

/-- C19: `verify_and_correct_selection_variables_initial_values` without correction
throws if and only if some selection does not consist of exactly one variable of value
1 and of variables of value 0; when it does not throw, no variable has been changed. -/
theorem verify_selection_variables_without_correction (selections : List (List Nat))
    (heap : VariableHeap) :
    (verify_and_correct_selection_variables_initial_values false selections heap = none ↔
      ∃ variable_ptrs ∈ selections, ¬ OneSelected heap variable_ptrs) ∧
    ∀ verified, verify_and_correct_selection_variables_initial_values false selections heap =
      some verified → verified = heap := by
  induction selections with
  | nil =>
    simp [verify_and_correct_selection_variables_initial_values]
  | cons g rest ih =>
    obtain ⟨hyes, hno⟩ := verify_selection_without_correction heap g
    by_cases hg : OneSelected heap g
    · simp only [verify_and_correct_selection_variables_initial_values, hyes hg]
      refine ⟨?_, ih.2⟩
      rw [ih.1]
      constructor
      · rintro ⟨v, hv, hv2⟩
        exact ⟨v, List.mem_cons_of_mem _ hv, hv2⟩
      · rintro ⟨v, hv, hv2⟩
        rcases List.mem_cons.1 hv with h | h
        · subst h
          exact absurd hg hv2
        · exact ⟨v, h, hv2⟩
    · simp only [verify_and_correct_selection_variables_initial_values, hno hg]
      refine ⟨⟨fun _ => ⟨g, List.mem_cons_self _ _, hg⟩, fun _ => trivial⟩, ?_⟩
      intro verified h
      exact absurd h (by simp)

end model
end cppmh

namespace printemps
namespace model

open model_component

/-- C20: each of the methods `create_variable`, `create_variables`, `create_expression`,
`create_expressions`, `create_constraint` and `create_constraints` of `Model`, in each of
its overloads, throws if and only if the name contains a space or 100 proxies of that
kind exist already; otherwise it appends exactly one proxy, whose proxy index is the
number of proxies of that kind before the call, and appends the name to the list of
the names of that kind. -/
theorem ModelDefinitions.create_appends_one_proxy (self : ModelDefinitions) (a_NAME : String)
    (a_NUMBER_OF_ELEMENTS a_LOWER_BOUND a_UPPER_BOUND : ℤ) (a_SHAPE : List ℤ)
    (a_EXPRESSION : Expression) (a_CONSTRAINT : Constraint) :
    (self.AppendsVariableProxy a_NAME (self.create_variable a_NAME) ∧
      self.AppendsVariableProxy a_NAME
        (self.create_variable_bounded a_NAME a_LOWER_BOUND a_UPPER_BOUND) ∧
      self.AppendsVariableProxy a_NAME (self.create_variables a_NAME a_NUMBER_OF_ELEMENTS) ∧
      self.AppendsVariableProxy a_NAME
        (self.create_variables_bounded a_NAME a_NUMBER_OF_ELEMENTS a_LOWER_BOUND
          a_UPPER_BOUND) ∧
      self.AppendsVariableProxy a_NAME (self.create_variables_of_shape a_NAME a_SHAPE) ∧
      self.AppendsVariableProxy a_NAME
        (self.create_variables_of_shape_bounded a_NAME a_SHAPE a_LOWER_BOUND a_UPPER_BOUND)) ∧
    (self.AppendsExpressionProxy a_NAME (self.create_expression a_NAME) ∧
      self.AppendsExpressionProxy a_NAME (self.create_expressions a_NAME a_NUMBER_OF_ELEMENTS) ∧
      self.AppendsExpressionProxy a_NAME (self.create_expressions_of_shape a_NAME a_SHAPE) ∧
      self.AppendsExpressionProxy a_NAME (self.create_expression_of a_NAME a_EXPRESSION)) ∧
    (self.AppendsConstraintProxy a_NAME (self.create_constraint a_NAME) ∧
      self.AppendsConstraintProxy a_NAME (self.create_constraints a_NAME a_NUMBER_OF_ELEMENTS) ∧
      self.AppendsConstraintProxy a_NAME (self.create_constraints_of_shape a_NAME a_SHAPE) ∧
      self.AppendsConstraintProxy a_NAME (self.create_constraint_of a_NAME a_CONSTRAINT)) := by
  have v1 := ModelDefinitions.appends_variable_proxy_of self a_NAME
    (VariableProxy.create_instance self.m_variable_proxies.length) (self.create_variable a_NAME)
    rfl rfl
  have v2 := ModelDefinitions.appends_variable_proxy_of self a_NAME
    (VariableProxy.create_instance_of_size self.m_variable_proxies.length a_NUMBER_OF_ELEMENTS)
    (self.create_variables a_NAME a_NUMBER_OF_ELEMENTS) rfl rfl
  have v3 := ModelDefinitions.appends_variable_proxy_of self a_NAME
    (VariableProxy.create_instance_of_shape self.m_variable_proxies.length a_SHAPE)
    (self.create_variables_of_shape a_NAME a_SHAPE) rfl rfl
  refine ⟨⟨v1, ?_, v2, ?_, v3, ?_⟩, ⟨?_, ?_, ?_, ?_⟩, ⟨?_, ?_, ?_, ?_⟩⟩
  · exact ModelDefinitions.appends_variable_proxy_bounded self a_NAME _ _ _ v1
  · exact ModelDefinitions.appends_variable_proxy_bounded self a_NAME _ _ _ v2
  · exact ModelDefinitions.appends_variable_proxy_bounded self a_NAME _ _ _ v3
  · exact ModelDefinitions.appends_expression_proxy_of self a_NAME
      (ExpressionProxy.create_instance self.m_expression_proxies.length) _ rfl rfl
  · exact ModelDefinitions.appends_expression_proxy_of self a_NAME
      (ExpressionProxy.create_instance_of_size self.m_expression_proxies.length
        a_NUMBER_OF_ELEMENTS) _ rfl rfl
  · exact ModelDefinitions.appends_expression_proxy_of self a_NAME
      (ExpressionProxy.create_instance_of_shape self.m_expression_proxies.length a_SHAPE) _
      rfl rfl
  · exact ModelDefinitions.appends_expression_proxy_of self a_NAME
      ((ExpressionProxy.create_instance self.m_expression_proxies.length).assign a_EXPRESSION)
      _ rfl rfl
  · exact ModelDefinitions.appends_constraint_proxy_of self a_NAME
      (ConstraintProxy.create_instance self.m_constraint_proxies.length) _ rfl rfl
  · exact ModelDefinitions.appends_constraint_proxy_of self a_NAME
      (ConstraintProxy.create_instance_of_size self.m_constraint_proxies.length
        a_NUMBER_OF_ELEMENTS) _ rfl rfl
  · exact ModelDefinitions.appends_constraint_proxy_of self a_NAME
      (ConstraintProxy.create_instance_of_shape self.m_constraint_proxies.length a_SHAPE) _
      rfl rfl
  · exact ModelDefinitions.appends_constraint_proxy_of self a_NAME
      ((ConstraintProxy.create_instance self.m_constraint_proxies.length).assign a_CONSTRAINT)
      _ rfl rfl

end model
end printemps

namespace printemps
namespace model

open model_component mps

/-- C21: for a model with fewer than 100 variable proxies and fewer than 100 constraint
proxies and MPS data in which every listed variable and constraint has its entry and the
listed variables are not more than the entries, `import_mps` throws if and only if
`a_ACCEPT_CONTINUOUS` is false and a listed variable has the sense `Continuous`; with
`a_ACCEPT_CONTINUOUS` true it returns, and whenever it returns the element `i` of the
proxy `variables` has the integer lower and upper bounds of the listed variable `i`,
continuous or not, and is fixed at `integer_fixed_value` when the variable is marked
fixed. -/
theorem Model.import_mps_throws_iff_continuous_rejected (self : ModelDefinitions)
    (a_MPS : MPS) (a_ACCEPT_CONTINUOUS : Bool) (a_DEFAULT : Variable) (address : Nat → Nat)
    (hvariable_proxies : self.m_variable_proxies.length < 100)
    (hconstraint_proxies : self.m_constraint_proxies.length < 100)
    (hvariables : ∀ name ∈ a_MPS.variable_names,
      ∃ VARIABLE, a_MPS.variables_.lookup name = some VARIABLE)
    (hsize : a_MPS.variable_names.length ≤ a_MPS.variables_.length)
    (hconstraints : ∀ name ∈ a_MPS.constraint_names,
      ∃ CONSTRAINT, a_MPS.constraints_.lookup name = some CONSTRAINT) :
    (Model.import_mps self a_MPS a_ACCEPT_CONTINUOUS a_DEFAULT address = none ↔
      a_ACCEPT_CONTINUOUS = false ∧ ∃ name ∈ a_MPS.variable_names, ∃ VARIABLE,
        a_MPS.variables_.lookup name = some VARIABLE ∧
          VARIABLE.sense = MPSVariableSense.Continuous) ∧
    (a_ACCEPT_CONTINUOUS = true →
      (Model.import_mps self a_MPS a_ACCEPT_CONTINUOUS a_DEFAULT address).isSome = true) ∧
    ∀ imported, Model.import_mps self a_MPS a_ACCEPT_CONTINUOUS a_DEFAULT address =
        some imported →
      ∀ (i : Nat) (name : String) (VARIABLE : MPSVariable),
        a_MPS.variable_names[i]? = some name →
        a_MPS.variables_.lookup name = some VARIABLE →
        ∃ element : Variable, imported.variables_[i]? = some element ∧
          element.lower_bound = VARIABLE.integer_lower_bound ∧
          element.upper_bound = VARIABLE.integer_upper_bound ∧
          (VARIABLE.is_fixed = true →
            element.is_fixed = true ∧ element.value = VARIABLE.integer_fixed_value) ∧
          (VARIABLE.is_fixed = false →
            element.is_fixed = a_DEFAULT.is_fixed ∧ element.value = a_DEFAULT.value) := by
  have hcv : ∀ n : ℤ, self.create_variables "variables" n =
      some { self with
        m_variable_proxies := self.m_variable_proxies ++
          [VariableProxy.create_instance_of_size (self.m_variable_proxies.length : ℤ) n]
        m_variable_names := self.m_variable_names ++ ["variables"] } := by
    intro n
    have h1 : utility.has_space "variables" = false := by decide
    have h2 : ¬ ((self.m_variable_proxies.length : ℤ) ≥
        ModelConstant.MAX_NUMBER_OF_VARIABLE_PROXIES) := by
      simp only [ModelConstant.MAX_NUMBER_OF_VARIABLE_PROXIES]
      omega
    simp only [ModelDefinitions.create_variables, h1, if_neg h2]
    simp
  have hcc : ∀ (d : ModelDefinitions) (n : ℤ),
      d.m_constraint_proxies = self.m_constraint_proxies →
      ∃ created, d.create_constraints "constraints" n = some created := by
    intro d n hd
    have h1 : utility.has_space "constraints" = false := by decide
    have h2 : ¬ ((d.m_constraint_proxies.length : ℤ) ≥
        ModelConstant.MAX_NUMBER_OF_CONSTRAINT_PROXIES) := by
      simp only [ModelConstant.MAX_NUMBER_OF_CONSTRAINT_PROXIES, hd]
      omega
    simp only [ModelDefinitions.create_constraints, h1, if_neg h2]
    simp
  obtain ⟨with_constraints, hwc⟩ := hcc _ (a_MPS.constraint_names.length : ℤ)
    (show ({ self with
        m_variable_proxies := self.m_variable_proxies ++
          [VariableProxy.create_instance_of_size (self.m_variable_proxies.length : ℤ)
            (a_MPS.variables_.length : ℤ)]
        m_variable_names := self.m_variable_names ++ ["variables"] } :
          ModelDefinitions).m_constraint_proxies = self.m_constraint_proxies from rfl)
  obtain ⟨loop1, loop2⟩ := Model.import_mps_variables_spec a_MPS a_ACCEPT_CONTINUOUS address
    a_MPS.variable_names 0
    (List.replicate a_MPS.variables_.length a_DEFAULT,
      List.replicate a_MPS.variables_.length "", []) hvariables
    (by simp only [List.length_replicate]; omega)
  have hmain : (Model.import_mps self a_MPS a_ACCEPT_CONTINUOUS a_DEFAULT address = none ↔
      Model.import_mps_variables a_MPS a_ACCEPT_CONTINUOUS address 0 a_MPS.variable_names
        (List.replicate a_MPS.variables_.length a_DEFAULT,
          List.replicate a_MPS.variables_.length "", []) = none) ∧
      ∀ imported, Model.import_mps self a_MPS a_ACCEPT_CONTINUOUS a_DEFAULT address =
          some imported →
        ∃ result, Model.import_mps_variables a_MPS a_ACCEPT_CONTINUOUS address 0
            a_MPS.variable_names
            (List.replicate a_MPS.variables_.length a_DEFAULT,
              List.replicate a_MPS.variables_.length "", []) = some result ∧
          imported.variables_ = result.1 := by
    cases hloop : Model.import_mps_variables a_MPS a_ACCEPT_CONTINUOUS address 0
        a_MPS.variable_names
        (List.replicate a_MPS.variables_.length a_DEFAULT,
          List.replicate a_MPS.variables_.length "", []) with
    | none =>
      have : Model.import_mps self a_MPS a_ACCEPT_CONTINUOUS a_DEFAULT address = none := by
        simp only [Model.import_mps, hcv, hloop]
      exact ⟨by simp [this], fun imported h => by rw [this] at h; simp at h⟩
    | some result =>
      obtain ⟨elements, names, variable_ptrs⟩ := result
      obtain ⟨constraints, hconstraint_loop⟩ := Model.import_mps_constraints_isSome a_MPS
        variable_ptrs a_MPS.constraint_names 0
        (List.replicate a_MPS.constraint_names.length Constraint.initialize_,
          List.replicate a_MPS.constraint_names.length "") hconstraints
      obtain ⟨constraints, constraint_names⟩ := constraints
      have : ∃ imported, Model.import_mps self a_MPS a_ACCEPT_CONTINUOUS a_DEFAULT address =
          some imported ∧ imported.variables_ = elements := by
        simp only [Model.import_mps, hcv, hloop, hwc, hconstraint_loop]
        exact ⟨_, rfl, rfl⟩
      obtain ⟨imported, himported, hv⟩ := this
      refine ⟨by simp [himported], fun imported2 h => ?_⟩
      rw [himported, Option.some.injEq] at h
      subst h
      exact ⟨_, rfl, hv⟩
  refine ⟨hmain.1.trans loop1, ?_, ?_⟩
  · intro haccept
    cases h : Model.import_mps self a_MPS a_ACCEPT_CONTINUOUS a_DEFAULT address with
    | some imported => rfl
    | none =>
      have := ((hmain.1.trans loop1).mp h).1
      rw [haccept] at this
      exact absurd this (by simp)
  · intro imported himported i name V hi hV
    obtain ⟨result, hresult, hv⟩ := hmain.2 imported himported
    obtain ⟨_, _, h3⟩ := loop2 result hresult
    obtain ⟨element, he, hr⟩ := h3 i name V hi hV
    rw [Nat.zero_add] at he hr
    have hdefault : element = a_DEFAULT := by
      have hmem : element ∈ List.replicate a_MPS.variables_.length a_DEFAULT :=
        List.getElem?_mem he
      exact List.eq_of_mem_replicate hmem
    subst hdefault
    refine ⟨_, by rw [hv]; exact hr, ?_, ?_, ?_, ?_⟩
    · unfold Model.import_mps_variable
      split <;> rfl
    · unfold Model.import_mps_variable
      split <;> rfl
    · intro hf
      simp only [Model.import_mps_variable, hf, if_true]
      exact ⟨rfl, rfl⟩
    · intro hf
      simp only [Model.import_mps_variable, hf]
      exact ⟨rfl, rfl⟩

/-- The MPS data of an integer variable and a continuous variable that is fixed, imported
into a model without a definition, with continuous variables accepted. -/
theorem Model.import_mps_throws_iff_continuous_rejected_witness :
    (examples.empty_definitions.m_variable_proxies.length < 100 ∧
      examples.empty_definitions.m_constraint_proxies.length < 100 ∧
      (∀ name ∈ examples.mps_with_continuous.variable_names,
        ∃ VARIABLE, examples.mps_with_continuous.variables_.lookup name = some VARIABLE) ∧
      examples.mps_with_continuous.variable_names.length ≤
        examples.mps_with_continuous.variables_.length ∧
      (∀ name ∈ examples.mps_with_continuous.constraint_names,
        ∃ CONSTRAINT,
          examples.mps_with_continuous.constraints_.lookup name = some CONSTRAINT)) ∧
    ((Model.import_mps examples.empty_definitions examples.mps_with_continuous true
        (examples.plain_variable 0 0 0) examples.mps_address = none ↔
      true = false ∧ ∃ name ∈ examples.mps_with_continuous.variable_names, ∃ VARIABLE,
        examples.mps_with_continuous.variables_.lookup name = some VARIABLE ∧
          VARIABLE.sense = MPSVariableSense.Continuous) ∧
    (true = true →
      (Model.import_mps examples.empty_definitions examples.mps_with_continuous true
        (examples.plain_variable 0 0 0) examples.mps_address).isSome = true) ∧
    ∀ imported, Model.import_mps examples.empty_definitions examples.mps_with_continuous true
        (examples.plain_variable 0 0 0) examples.mps_address =
        some imported →
      ∀ (i : Nat) (name : String) (VARIABLE : MPSVariable),
        examples.mps_with_continuous.variable_names[i]? = some name →
        examples.mps_with_continuous.variables_.lookup name = some VARIABLE →
        ∃ element : Variable, imported.variables_[i]? = some element ∧
          element.lower_bound = VARIABLE.integer_lower_bound ∧
          element.upper_bound = VARIABLE.integer_upper_bound ∧
          (VARIABLE.is_fixed = true →
            element.is_fixed = true ∧ element.value = VARIABLE.integer_fixed_value) ∧
          (VARIABLE.is_fixed = false →
            element.is_fixed = (examples.plain_variable 0 0 0).is_fixed ∧
              element.value = (examples.plain_variable 0 0 0).value)) :=
  ⟨⟨by decide, by decide, examples.mps_with_continuous_variables, by decide,
      examples.mps_with_continuous_constraints⟩,
    Model.import_mps_throws_iff_continuous_rejected examples.empty_definitions
      examples.mps_with_continuous true (examples.plain_variable 0 0 0) examples.mps_address
      (by decide) (by decide) examples.mps_with_continuous_variables (by decide)
      examples.mps_with_continuous_constraints⟩

end model
end printemps

namespace printemps
namespace model

open model_component

/-- C22: for every product variable `z` of `import_opb` whose factors `x_1..x_n` are
pairwise distinct variables that do not include `z`, the loop over the product variables
stores at the flat indices `2 * i` and `2 * i + 1` the constraints
`z - sum_j x_j - (1 - n) >= 0` and `n * z - sum_j x_j <= 0`; for all values 0 or 1 of `z`
and of the factors, both constraints are satisfied if and only if `z = 1` exactly when
every `x_j = 1`. -/
theorem Model.import_opb_product_variables_have_and_semantics
    (variable_ptrs : List (String × Nat)) (products : List (String × List String))
    (i : Nat) (product : String × List String)
    (hi : products[i]? = some product)
    (hdistinct : (product.2.map (VariableMap.subscript variable_ptrs)).Nodup)
    (hz : VariableMap.subscript variable_ptrs product.1 ∉
      product.2.map (VariableMap.subscript variable_ptrs)) :
    ∃ constraints lower upper,
      Model.import_opb_product_variable_constraints variable_ptrs products =
        some constraints ∧
      constraints.length = 2 * products.length ∧
      constraints[2 * i]? = some lower ∧ constraints[2 * i + 1]? = some upper ∧
      lower.m_sense = ConstraintSense.Greater ∧ upper.m_sense = ConstraintSense.Less ∧
      (∀ heap : VariableHeap, lower.m_expression.evaluate heap =
        ((heap (VariableMap.subscript variable_ptrs product.1)).value : ℚ) -
          ((((product.2.map (VariableMap.subscript variable_ptrs)).map
            (fun p => (heap p).value)).sum : ℤ) : ℚ) - (1 - (product.2.length : ℚ))) ∧
      (∀ heap : VariableHeap, upper.m_expression.evaluate heap =
        (product.2.length : ℚ) *
            ((heap (VariableMap.subscript variable_ptrs product.1)).value : ℚ) -
          ((((product.2.map (VariableMap.subscript variable_ptrs)).map
            (fun p => (heap p).value)).sum : ℤ) : ℚ)) ∧
      ∀ heap : VariableHeap,
        ((heap (VariableMap.subscript variable_ptrs product.1)).value = 0 ∨
          (heap (VariableMap.subscript variable_ptrs product.1)).value = 1) →
        (∀ name ∈ product.2,
          (heap (VariableMap.subscript variable_ptrs name)).value = 0 ∨
            (heap (VariableMap.subscript variable_ptrs name)).value = 1) →
        ((satisfied_of_sense lower.m_sense (lower.m_expression.evaluate heap) ∧
            satisfied_of_sense upper.m_sense (upper.m_expression.evaluate heap)) ↔
          ((heap (VariableMap.subscript variable_ptrs product.1)).value = 1 ↔
            ∀ name ∈ product.2,
              (heap (VariableMap.subscript variable_ptrs name)).value = 1)) := by
  obtain ⟨constraints, hc, hlen, hall⟩ :=
    Model.import_opb_product_variable_constraints_spec variable_ptrs products
  obtain ⟨lower, upper, hlu, hl, hu⟩ := hall i product hi
  rw [Model.import_opb_product_constraints_eq, Option.some.injEq, Prod.mk.injEq] at hlu
  obtain ⟨e1, e2⟩ := hlu
  have hlower : ∀ heap : VariableHeap, lower.m_expression.evaluate heap =
      ((heap (VariableMap.subscript variable_ptrs product.1)).value : ℚ) -
        ((((product.2.map (VariableMap.subscript variable_ptrs)).map
          (fun p => (heap p).value)).sum : ℤ) : ℚ) - (1 - (product.2.length : ℚ)) := by
    intro heap
    rw [← e1, Expression.evaluate_eq_sum]
    simp only [Constraint.create_instance, Expression.sub_assign_value,
      Expression.create_instance, Model.import_opb_product_sensitivities_eq _ _ _ hdistinct hz,
      List.map_cons, List.sum_cons, Model.sum_of_minus_one, Expression.initialize_]
    push_cast
    ring
  have hupper : ∀ heap : VariableHeap, upper.m_expression.evaluate heap =
      (product.2.length : ℚ) *
          ((heap (VariableMap.subscript variable_ptrs product.1)).value : ℚ) -
        ((((product.2.map (VariableMap.subscript variable_ptrs)).map
          (fun p => (heap p).value)).sum : ℤ) : ℚ) := by
    intro heap
    rw [← e2, Expression.evaluate_eq_sum]
    simp only [Constraint.create_instance, Expression.sub_assign_value,
      Expression.create_instance, Model.import_opb_product_sensitivities_eq _ _ _ hdistinct hz,
      List.map_cons, List.sum_cons, Model.sum_of_minus_one, Expression.initialize_]
    push_cast
    ring
  have hsl : lower.m_sense = ConstraintSense.Greater := by rw [← e1]; rfl
  have hsu : upper.m_sense = ConstraintSense.Less := by rw [← e2]; rfl
  refine ⟨constraints, lower, upper, hc, hlen, hl, hu, hsl, hsu, hlower, hupper, ?_⟩
  intro heap hzv hxv
  obtain ⟨h0, h1, h2⟩ := Model.sum_of_binary_values heap
    (product.2.map (VariableMap.subscript variable_ptrs))
    (by
      intro p hp
      obtain ⟨name, hname, rfl⟩ := List.mem_map.mp hp
      exact hxv name hname)
  have hall1 : (∀ p ∈ product.2.map (VariableMap.subscript variable_ptrs),
      (heap p).value = 1) ↔
      ∀ name ∈ product.2, (heap (VariableMap.subscript variable_ptrs name)).value = 1 := by
    constructor
    · intro h name hname
      exact h _ (List.mem_map.mpr ⟨name, hname, rfl⟩)
    · intro h p hp
      obtain ⟨name, hname, rfl⟩ := List.mem_map.mp hp
      exact h name hname
  rw [← hall1, ← h2, hsl, hsu, hlower, hupper]
  simp only [satisfied_of_sense, List.length_map] at h1 h2 ⊢
  generalize ((product.2.map (VariableMap.subscript variable_ptrs)).map
    (fun p => (heap p).value)).sum = S at h0 h1 h2 ⊢
  generalize (heap (VariableMap.subscript variable_ptrs product.1)).value = z at hzv ⊢
  have hcast : ((product.2.length : ℤ) : ℚ) = (product.2.length : ℚ) := by push_cast; rfl
  generalize hn : (product.2.length : ℤ) = n at h1 hcast ⊢
  rw [← hcast]
  rcases hzv with rfl | rfl
  · constructor
    · rintro ⟨ha, _⟩
      have ha2 : (0 : ℤ) ≤ 0 - S - (1 - n) := by exact_mod_cast ha
      constructor
      · intro h; omega
      · intro h; omega
    · intro h
      have hne : S ≠ n := fun hs => by
        have := h.mpr hs
        omega
      constructor
      · have : (0 : ℤ) ≤ 0 - S - (1 - n) := by omega
        exact_mod_cast this
      · have : n * 0 - S ≤ (0 : ℤ) := by omega
        exact_mod_cast this
  · constructor
    · rintro ⟨_, hb⟩
      have hb2 : n * 1 - S ≤ (0 : ℤ) := by exact_mod_cast hb
      constructor
      · intro _; omega
      · intro _; rfl
    · intro h
      have hs : S = n := h.mp rfl
      constructor
      · have : (0 : ℤ) ≤ 1 - S - (1 - n) := by omega
        exact_mod_cast this
      · have : n * 1 - S ≤ (0 : ℤ) := by omega
        exact_mod_cast this

/-- The product variable `z` of the factors `x1` and `x2`, at the pointers 192, 64 and
128. -/
theorem Model.import_opb_product_variables_have_and_semantics_witness :
    (examples.product_variable_names[0]? = some examples.product_variable ∧
      (examples.product_variable.2.map
        (VariableMap.subscript examples.product_variable_ptrs)).Nodup ∧
      VariableMap.subscript examples.product_variable_ptrs examples.product_variable.1 ∉
        examples.product_variable.2.map
          (VariableMap.subscript examples.product_variable_ptrs)) ∧
    (∃ constraints lower upper,
      Model.import_opb_product_variable_constraints examples.product_variable_ptrs
          examples.product_variable_names =
        some constraints ∧
      constraints.length = 2 * examples.product_variable_names.length ∧
      constraints[2 * 0]? = some lower ∧ constraints[2 * 0 + 1]? = some upper ∧
      lower.m_sense = ConstraintSense.Greater ∧ upper.m_sense = ConstraintSense.Less ∧
      (∀ heap : VariableHeap, lower.m_expression.evaluate heap =
        ((heap (VariableMap.subscript examples.product_variable_ptrs
              examples.product_variable.1)).value : ℚ) -
          ((((examples.product_variable.2.map
            (VariableMap.subscript examples.product_variable_ptrs)).map
            (fun p => (heap p).value)).sum : ℤ) : ℚ) - (1 - (examples.product_variable.2.length : ℚ))) ∧
      (∀ heap : VariableHeap, upper.m_expression.evaluate heap =
        (examples.product_variable.2.length : ℚ) *
            ((heap (VariableMap.subscript examples.product_variable_ptrs
              examples.product_variable.1)).value : ℚ) -
          ((((examples.product_variable.2.map
            (VariableMap.subscript examples.product_variable_ptrs)).map
            (fun p => (heap p).value)).sum : ℤ) : ℚ)) ∧
      ∀ heap : VariableHeap,
        ((heap (VariableMap.subscript examples.product_variable_ptrs
              examples.product_variable.1)).value = 0 ∨
          (heap (VariableMap.subscript examples.product_variable_ptrs
              examples.product_variable.1)).value = 1) →
        (∀ name ∈ examples.product_variable.2,
          (heap (VariableMap.subscript examples.product_variable_ptrs name)).value = 0 ∨
            (heap (VariableMap.subscript examples.product_variable_ptrs name)).value = 1) →
        ((satisfied_of_sense lower.m_sense (lower.m_expression.evaluate heap) ∧
            satisfied_of_sense upper.m_sense (upper.m_expression.evaluate heap)) ↔
          ((heap (VariableMap.subscript examples.product_variable_ptrs
              examples.product_variable.1)).value = 1 ↔
            ∀ name ∈ examples.product_variable.2,
              (heap (VariableMap.subscript examples.product_variable_ptrs name)).value = 1))) :=
  ⟨⟨rfl, by decide, by decide⟩,
    Model.import_opb_product_variables_have_and_semantics examples.product_variable_ptrs
      examples.product_variable_names 0 examples.product_variable rfl (by decide)
      (by decide)⟩

end model
end printemps

namespace printemps
namespace multi_array

/-- C23: a fresh element has the proxy index 0, the flat index 0, the
multi-dimensional index `[0]` and the empty name; and on every element each of
`set_proxy_index`, `set_flat_index`, `set_multi_dimensional_index` and `set_name` makes
its getter return the value that was set and leaves the three other members as they
were. -/
theorem AbstractMultiArrayElement.identity_carrier :
    (model_component.Variable.create_instance.proxy_index = 0 ∧
      model_component.Variable.create_instance.flat_index = 0 ∧
      model_component.Variable.create_instance.multi_dimensional_index = [0] ∧
      model_component.Variable.create_instance.multi_dimensional_index.getD 0 0 = 0 ∧
      model_component.Variable.create_instance.name = "") ∧
    ∀ (element : AbstractMultiArrayElement) (i : ℤ) (v : List ℤ) (s : String),
      ((element.set_proxy_index i).proxy_index = i ∧
        (element.set_proxy_index i).flat_index = element.flat_index ∧
        (element.set_proxy_index i).multi_dimensional_index =
          element.multi_dimensional_index ∧
        (element.set_proxy_index i).name = element.name) ∧
      ((element.set_flat_index i).flat_index = i ∧
        (element.set_flat_index i).proxy_index = element.proxy_index ∧
        (element.set_flat_index i).multi_dimensional_index =
          element.multi_dimensional_index ∧
        (element.set_flat_index i).name = element.name) ∧
      ((element.set_multi_dimensional_index v).multi_dimensional_index = v ∧
        (element.set_multi_dimensional_index v).proxy_index = element.proxy_index ∧
        (element.set_multi_dimensional_index v).flat_index = element.flat_index ∧
        (element.set_multi_dimensional_index v).name = element.name) ∧
      ((element.set_name s).name = s ∧
        (element.set_name s).proxy_index = element.proxy_index ∧
        (element.set_name s).flat_index = element.flat_index ∧
        (element.set_name s).multi_dimensional_index = element.multi_dimensional_index) :=
  ⟨⟨rfl, rfl, rfl, rfl, rfl⟩, fun _ _ _ _ =>
    ⟨⟨rfl, rfl, rfl, rfl⟩, ⟨rfl, rfl, rfl, rfl⟩, ⟨rfl, rfl, rfl, rfl⟩, ⟨rfl, rfl, rfl, rfl⟩⟩⟩

end multi_array
end printemps

namespace printemps
namespace model

open model_component neighborhood solution

/-- C24, as amended: the loop of `evaluate_single` runs over the constraint
sensitivities that are not evaluation-ignorable, and for each of them, with
`new_lhs = constraint_value + a * (x_new - x.value)`, it adds
`Δpos = max(new_lhs, 0) - positive_part` to `total_violation` and `Δpos * c_less` to
`local_penalty` for the senses `≤` and `=`, and it adds
`Δneg = max(-new_lhs, 0) - negative_part` to `total_violation` and `Δneg * c_greater` to
`local_penalty` for the senses `≥` and `=`; for a constraint of sense `≤` this is the
update of the specification. -/
theorem Model.evaluate_single_adds_negative_part (self : Model) (diff : ℤ) :
    (∀ (sens : List (ConstraintPtr × ℚ)) (acc : ℚ × ℚ),
      self.evaluate_single_loop diff sens acc =
        (sens.filter (fun s => !(self.constraint s.1).is_evaluation_ignorable)).foldl
          (fun acc s => Model.sensitivity_step (self.constraint s.1) s.2 diff acc) acc) ∧
    (∀ (c : Constraint) (a : ℚ) (acc : ℚ × ℚ),
      Model.sensitivity_step c a diff acc =
        (acc.1 +
            (if c.is_less_or_equal then
              max (c.constraint_value + a * (diff : ℚ)) 0 - c.positive_part else 0) +
            (if c.is_greater_or_equal then
              max (-(c.constraint_value + a * (diff : ℚ))) 0 - c.negative_part else 0),
          acc.2 +
            (if c.is_less_or_equal then
              (max (c.constraint_value + a * (diff : ℚ)) 0 - c.positive_part) *
                c.local_penalty_coefficient_less else 0) +
            (if c.is_greater_or_equal then
              (max (-(c.constraint_value + a * (diff : ℚ))) 0 - c.negative_part) *
                c.local_penalty_coefficient_greater else 0))) ∧
    ∀ (c : Constraint) (a : ℚ) (acc : ℚ × ℚ), c.is_greater_or_equal = false →
      Model.sensitivity_step c a diff acc =
        Model.sensitivity_step_as_specified c a diff acc :=
  ⟨Model.evaluate_single_loop_eq_foldl self diff,
    fun c a acc => Model.sensitivity_step_parts c a diff acc,
    fun c a acc h => Model.sensitivity_step_of_less c a diff acc h⟩

/-- C24 fails as stated: for the constraint `-x₆₄ ≥ 0` at `x₆₄ = 0` and the move of
`x₆₄` to 1, the loop of `evaluate_single` gives the total violation 1 and the local
penalty 1, and the update of the specification gives -1 and -1. -/
theorem Model.evaluate_single_not_as_specified :
    (examples.greater_model (-1)).evaluate_single_loop 1
        ((examples.greater_model (-1)).m_variable_proxies 64).constraint_sensitivities
        (0, 0) = (1, 1) ∧
    (examples.greater_model (-1)).evaluate_single_loop_as_specified 1
        ((examples.greater_model (-1)).m_variable_proxies 64).constraint_sensitivities
        (0, 0) = (-1, -1) ∧
    (examples.greater_model (-1)).evaluate_single_loop 1
        ((examples.greater_model (-1)).m_variable_proxies 64).constraint_sensitivities
        (0, 0) ≠
      (examples.greater_model (-1)).evaluate_single_loop_as_specified 1
        ((examples.greater_model (-1)).m_variable_proxies 64).constraint_sensitivities
        (0, 0) := by
  have hs : ((examples.greater_model (-1)).m_variable_proxies 64).constraint_sensitivities =
      [(0, -1)] := rfl
  rw [hs, examples.greater_model_loop, examples.greater_model_loop_as_specified]
  refine ⟨rfl, rfl, ?_⟩
  intro h
  have := congrArg Prod.fst h
  norm_num at this

end model
end printemps

namespace printemps
namespace neighborhood

open model_component cppmh.model

namespace TwoFlipMoveGenerator

/-- The alterations of a slot after `setup` on a fresh generator set values 0 or 1. -/
theorem setup_alteration_values (heap : VariableHeap) (pairs : List (Nat × Nat)) (k : Nat)
    (hk : k < 2 * pairs.length) :
    ∀ alteration ∈ ((setup AbstractMoveGenerator.fresh heap pairs).m_moves.getD k
      Move.empty).alterations, alteration.2 = 0 ∨ alteration.2 = 1 := by
  have hresize : resize ([] : List Move) (2 * pairs.length) Move.empty =
      List.replicate (2 * pairs.length) Move.empty := by
    simp [resize]
  have hm : (setup AbstractMoveGenerator.fresh heap pairs).m_moves =
      setup_loop heap pairs 0 (List.replicate (2 * pairs.length) Move.empty) := by
    simp only [setup, AbstractMoveGenerator.fresh, hresize]
  obtain ⟨_, hfill⟩ := setup_loop_getD heap pairs 0
    (List.replicate (2 * pairs.length) Move.empty) (by rw [List.length_replicate]; omega)
  obtain ⟨h1, h2⟩ := hfill (k / 2) (by omega)
  rw [getD_replicate_self, Nat.zero_add] at h1 h2
  rw [hm]
  rcases Nat.mod_two_eq_zero_or_one k with h | h
  · have e : k = 2 * (k / 2) := by omega
    rw [e, h1]
    intro alteration hmem
    simp only [first_move, Move.empty, List.nil_append, List.mem_cons, List.mem_singleton,
      List.not_mem_nil, or_false] at hmem
    rcases hmem with rfl | rfl
    · exact Or.inr rfl
    · exact Or.inl rfl
  · have e : k = 2 * (k / 2) + 1 := by omega
    rw [e, h2]
    intro alteration hmem
    simp [first_move, Move.empty, Move.set_alteration_value] at hmem
    rcases hmem with rfl | rfl
    · exact Or.inl rfl
    · exact Or.inr rfl

end TwoFlipMoveGenerator

/-- C25, as amended: after `setup` on a fresh two-flip generator and a call of the move
updater there are as many flags as moves, and every alteration of a slot whose flag is
1 targets a variable that is not fixed and not of sense `Selection`, sets a value 0 or
1 other than the current value of the variable, and this value is within the bounds
of the variable when they contain 0 and 1. -/
theorem TwoFlipMoveGenerator.flagged_moves_within_unit_bounds (heap0 heap : VariableHeap)
    (pairs : List (Nat × Nat)) (a b c : Bool) :
    (TwoFlipMoveGenerator.setup_then_update AbstractMoveGenerator.fresh heap0 heap pairs a b
        c).m_flags.length =
      (TwoFlipMoveGenerator.setup_then_update AbstractMoveGenerator.fresh heap0 heap pairs a b
        c).m_moves.length ∧
    ∀ k, k < (TwoFlipMoveGenerator.setup_then_update AbstractMoveGenerator.fresh heap0 heap
        pairs a b c).m_moves.length →
      (TwoFlipMoveGenerator.setup_then_update AbstractMoveGenerator.fresh heap0 heap pairs a b
        c).m_flags.getD k 0 = 1 →
      ∀ alteration ∈ ((TwoFlipMoveGenerator.setup_then_update AbstractMoveGenerator.fresh
          heap0 heap pairs a b c).m_moves.getD k Move.empty).alterations,
        (heap alteration.1).is_fixed = false ∧
        (heap alteration.1).sense ≠ VariableSense.Selection ∧
        alteration.2 ≠ (heap alteration.1).value ∧
        (alteration.2 = 0 ∨ alteration.2 = 1) ∧
        ((heap alteration.1).lower_bound ≤ 0 → 1 ≤ (heap alteration.1).upper_bound →
          (heap alteration.1).lower_bound ≤ alteration.2 ∧
            alteration.2 ≤ (heap alteration.1).upper_bound) := by
  have hmoves : (TwoFlipMoveGenerator.setup_then_update AbstractMoveGenerator.fresh heap0 heap
      pairs a b c).m_moves =
      (TwoFlipMoveGenerator.setup AbstractMoveGenerator.fresh heap0 pairs).m_moves := rfl
  have hlen : (TwoFlipMoveGenerator.setup AbstractMoveGenerator.fresh heap0 pairs).m_moves.length =
      2 * pairs.length := by
    simp only [TwoFlipMoveGenerator.setup, TwoFlipMoveGenerator.setup_loop_length,
      length_resize]
  have hflen : (TwoFlipMoveGenerator.setup AbstractMoveGenerator.fresh heap0 pairs).m_flags.length =
      2 * pairs.length := by
    simp only [TwoFlipMoveGenerator.setup, length_resize]
  have hflags : ∀ k, (TwoFlipMoveGenerator.setup_then_update AbstractMoveGenerator.fresh heap0
      heap pairs a b c).m_flags.length = 2 * pairs.length ∧
      (k < 2 * pairs.length →
        (TwoFlipMoveGenerator.setup_then_update AbstractMoveGenerator.fresh heap0 heap pairs a
          b c).m_flags.getD k 0 =
        TwoFlipMoveGenerator.filter_flag heap
          ((TwoFlipMoveGenerator.setup AbstractMoveGenerator.fresh heap0 pairs).m_moves.getD k
            Move.empty) a b c) := by
    intro k
    obtain ⟨h1, h2⟩ := TwoFlipMoveGenerator.two_flip_filter_loop_getD heap
      (TwoFlipMoveGenerator.setup AbstractMoveGenerator.fresh heap0 pairs).m_moves a b c
      (List.range (TwoFlipMoveGenerator.setup AbstractMoveGenerator.fresh heap0
        pairs).m_moves.length)
      (TwoFlipMoveGenerator.setup AbstractMoveGenerator.fresh heap0 pairs).m_flags k
    refine ⟨h1.trans hflen, ?_⟩
    intro hk
    have h3 := h2
    rw [if_pos ⟨by rw [List.mem_range, hlen]; exact hk, by rw [hflen]; exact hk⟩] at h3
    exact h3
  rw [hmoves, hlen]
  refine ⟨(hflags 0).1, ?_⟩
  intro k hk hone alteration hmem
  rw [(hflags k).2 hk] at hone
  obtain ⟨hf, hs, hv⟩ := TwoFlipMoveGenerator.two_flip_filter_flag_eq_one heap _ a b c hone
    alteration hmem
  have h01 := TwoFlipMoveGenerator.setup_alteration_values heap0 pairs k hk alteration hmem
  refine ⟨hf, hs, hv, h01, ?_⟩
  intro hl hu
  rcases h01 with e | e <;> rw [e] <;> constructor <;> omega

/-- C25 fails as stated: for the pair of a variable of value 3 with the bounds 2 and 5
and a variable of value 1 with the bounds 0 and 1, under `accept_all` the slot 0 has
the flag 1 and sets the first variable, which is not fixed, to 1, below its lower
bound. -/
theorem TwoFlipMoveGenerator.flagged_move_out_of_bounds :
    (TwoFlipMoveGenerator.setup_then_update AbstractMoveGenerator.fresh examples.two_flip_heap
      examples.two_flip_heap [(64, 128)] true false false).m_flags.getD 0 0 = 1 ∧
    ((TwoFlipMoveGenerator.setup_then_update AbstractMoveGenerator.fresh
      examples.two_flip_heap examples.two_flip_heap [(64, 128)] true false false).m_moves.getD
        0 Move.empty).alterations = [(64, 1), (128, 0)] ∧
    (examples.two_flip_heap 64).is_fixed = false ∧
    (1 : ℤ) < (examples.two_flip_heap 64).lower_bound ∧
    has_bound_violation examples.two_flip_heap
      ((TwoFlipMoveGenerator.setup_then_update AbstractMoveGenerator.fresh
        examples.two_flip_heap examples.two_flip_heap [(64, 128)] true false false).m_moves.getD
          0 Move.empty) = true := by
  decide

end neighborhood
end printemps

namespace printemps
namespace neighborhood

open model_component cppmh.model

/-- C26, as amended: after `setup` on a fresh aggregation generator and a call of the
move updater, in the four slots of every binomial the variable that is nudged gets a
value other than its current value (the first variable, set to `x + 1` and `x - 1`, in
the slots `4 i` and `4 i + 1`, the second, set to `y + 1` and `y - 1`, in the slots
`4 i + 2` and `4 i + 3`), so that no move is a no-op as a whole; the other alteration
has the value that solves the constraint, rounded, whatever the current value of its
variable is. -/
theorem AggregationMoveGenerator.nudged_variable_changes (heap0 heap : VariableHeap)
    (binomials : List BinomialConstraint) (a b c : Bool) (i : Nat)
    (binomial : BinomialConstraint) (hi : binomials[i]? = some binomial) :
    (∀ r, r < 2 → ∃ first second : ℤ,
      ((AggregationMoveGenerator.setup_then_update AbstractMoveGenerator.fresh heap0 heap
          binomials a b c).m_moves.getD (4 * i + r) Move.empty).alterations =
        [(binomial.variable_ptr_first, first), (binomial.variable_ptr_second, second)] ∧
      first ≠ (heap binomial.variable_ptr_first).value ∧
      second = AggregationMoveGenerator.solve_for binomial.constant_value
        binomial.sensitivity_first binomial.sensitivity_second first) ∧
    ∀ r, 2 ≤ r → r < 4 → ∃ first second : ℤ,
      ((AggregationMoveGenerator.setup_then_update AbstractMoveGenerator.fresh heap0 heap
          binomials a b c).m_moves.getD (4 * i + r) Move.empty).alterations =
        [(binomial.variable_ptr_first, first), (binomial.variable_ptr_second, second)] ∧
      second ≠ (heap binomial.variable_ptr_second).value ∧
      first = AggregationMoveGenerator.solve_for binomial.constant_value
        binomial.sensitivity_second binomial.sensitivity_first second := by
  obtain ⟨h0, h1, h2, h3⟩ := AggregationMoveGenerator.setup_then_update_alterations heap0 heap
    binomials a b c i binomial hi
  constructor
  · intro r hr
    have hr2 : r = 0 ∨ r = 1 := by omega
    rcases hr2 with rfl | rfl
    · exact ⟨_, _, h0, by omega, rfl⟩
    · exact ⟨_, _, h1, by omega, rfl⟩
  · intro r hr hr4
    have hr2 : r = 2 ∨ r = 3 := by omega
    rcases hr2 with rfl | rfl
    · exact ⟨_, _, h2, by omega, rfl⟩
    · exact ⟨_, _, h3, by omega, rfl⟩

/-- The slots of the binomial `2 x₆₄ + 3 x₁₂₈ - 7 = 0` at `x₆₄ = x₁₂₈ = 1`. -/
theorem AggregationMoveGenerator.nudged_variable_changes_witness :
    [examples.line][0]? = some examples.line ∧
    ((∀ r, r < 2 → ∃ first second : ℤ,
      ((AggregationMoveGenerator.setup_then_update AbstractMoveGenerator.fresh
          examples.heap_of_ones examples.heap_of_ones [examples.line] true false
          false).m_moves.getD (4 * 0 + r) Move.empty).alterations =
        [(examples.line.variable_ptr_first, first),
          (examples.line.variable_ptr_second, second)] ∧
      first ≠ (examples.heap_of_ones examples.line.variable_ptr_first).value ∧
      second = AggregationMoveGenerator.solve_for examples.line.constant_value
        examples.line.sensitivity_first examples.line.sensitivity_second first) ∧
    ∀ r, 2 ≤ r → r < 4 → ∃ first second : ℤ,
      ((AggregationMoveGenerator.setup_then_update AbstractMoveGenerator.fresh
          examples.heap_of_ones examples.heap_of_ones [examples.line] true false
          false).m_moves.getD (4 * 0 + r) Move.empty).alterations =
        [(examples.line.variable_ptr_first, first),
          (examples.line.variable_ptr_second, second)] ∧
      second ≠ (examples.heap_of_ones examples.line.variable_ptr_second).value ∧
      first = AggregationMoveGenerator.solve_for examples.line.constant_value
        examples.line.sensitivity_second examples.line.sensitivity_first second) :=
  ⟨rfl, AggregationMoveGenerator.nudged_variable_changes examples.heap_of_ones
    examples.heap_of_ones [examples.line] true false false 0 examples.line rfl⟩

/-- C26 fails as stated: for the binomial `x₆₄ + 3 x₁₂₈ = 0` at `x₆₄ = x₁₂₈ = 0`, with
bounds -10 and 10 and under `accept_all`, the slot 0 has the flag 1 and its second
alteration sets `x₁₂₈` to 0, the current value of `x₁₂₈`. -/
theorem AggregationMoveGenerator.flagged_move_with_no_op :
    (AggregationMoveGenerator.setup_then_update AbstractMoveGenerator.fresh
      examples.heap_of_zeros examples.heap_of_zeros [examples.slope] true false
      false).m_flags.getD 0 0 = 1 ∧
    ((AggregationMoveGenerator.setup_then_update AbstractMoveGenerator.fresh
      examples.heap_of_zeros examples.heap_of_zeros [examples.slope] true false
      false).m_moves.getD 0 Move.empty).alterations = [(64, 1), (128, 0)] ∧
    (examples.heap_of_zeros 128).value = 0 := by
  decide!

end neighborhood
end printemps

namespace printemps
namespace model

open model_component neighborhood

/-- C27: after `update()`, and after `update(move)`, which returns when the fixed tables
of the enabled expressions are set up and a selection move has its two alterations:
`current_violative_constraint_ptrs` is the list of the constraints of
`enabled_constraint_ptrs` that are not feasible, in the order of that list, which the
call does not change (so, when that list is the one that `categorize_constraints`
builds, exactly the enabled constraints that are not feasible); `is_feasible()` is
true if and only if the list of the violative constraints is empty; and
`previous_violative_constraint_ptrs` and `previous_is_feasible()` hold what the current
members held before the call. -/
theorem ModelState.update_keeps_feasibility_up_to_date (methods : ComponentMethods)
    (self : ModelState) (a_MOVE : Move) (sizeof_Variable : Nat)
    (hexpr : ∀ proxy ∈ self.m_expression_proxies, ∀ expression ∈ proxy,
      expression.m_is_enabled = true → expression.TableSetUp sizeof_Variable)
    (hsel : a_MOVE.sense = MoveSense.Selection → 2 ≤ a_MOVE.alterations.length) :
    ModelState.FeasibilityUpToDate methods self (ModelState.update methods self) ∧
    ∃ updated, ModelState.update_move methods self a_MOVE = some updated ∧
      ModelState.FeasibilityUpToDate methods self updated := by
  constructor
  · exact ModelState.feasibility_up_to_date methods self _ rfl rfl rfl
  · obtain ⟨expression_proxies, hep⟩ := ModelState.update_expression_proxies_isSome
      self.m_variable_proxies a_MOVE sizeof_Variable self.m_expression_proxies hexpr
    have hn : ¬ (a_MOVE.sense = MoveSense.Selection ∧ a_MOVE.alterations.length < 2) := by
      rintro ⟨h1, h2⟩
      have := hsel h1
      omega
    simp only [ModelState.update_move, hep, if_neg hn]
    exact ⟨_, rfl, ModelState.feasibility_up_to_date methods self _ rfl rfl rfl⟩

/-- The two updates of the model of the constraints `x₆₄ ≤ 0` and, disabled,
`x₁₂₈ ≤ 0`, for the move of `x₆₄` to 1. -/
theorem ModelState.update_keeps_feasibility_up_to_date_witness :
    ((∀ proxy ∈ examples.update_state.m_expression_proxies, ∀ expression ∈ proxy,
        expression.m_is_enabled = true → expression.TableSetUp 64) ∧
      (examples.flip_move.sense = MoveSense.Selection →
        2 ≤ examples.flip_move.alterations.length)) ∧
    (ModelState.FeasibilityUpToDate examples.component_methods examples.update_state
        (ModelState.update examples.component_methods examples.update_state) ∧
      ∃ updated, ModelState.update_move examples.component_methods examples.update_state
          examples.flip_move = some updated ∧
        ModelState.FeasibilityUpToDate examples.component_methods examples.update_state
          updated) :=
  ⟨⟨fun proxy hp expression he _ => by
      simp only [examples.update_state, List.mem_singleton] at hp
      subst hp
      simp only [List.mem_singleton] at he
      subst he
      exact examples.expression_of_table _ _ _ (by simp),
    fun h => absurd h (by decide)⟩,
    ModelState.update_keeps_feasibility_up_to_date examples.component_methods
      examples.update_state examples.flip_move 64
      (fun proxy hp expression he _ => by
        simp only [examples.update_state, List.mem_singleton] at hp
        subst hp
        simp only [List.mem_singleton] at he
        subst he
        exact examples.expression_of_table _ _ _ (by simp))
      (fun h => absurd h (by decide))⟩

end model
end printemps

namespace printemps
namespace model

open model_component neighborhood

/-- C28: after `reset_variable_feasibility_improvabilities()` followed by
`update_variable_feasibility_improvabilities()`, a variable of `variable_ptrs` is
feasibility-improvable if and only if some constraint of `enabled_constraint_ptrs` is
enabled, not feasible, and has the variable, not fixed, with a coefficient `a` such that
the constraint value is positive and `a > 0` with a lower-bound margin or `a < 0` with
an upper-bound margin, or the constraint value is not positive and `a < 0` with a
lower-bound margin or `a > 0` with an upper-bound margin; a variable of `variable_ptrs`
whose constraints in that list are all feasible or disabled is not flagged; when the
list is the one that `categorize_constraints` builds, the constraints of the condition
are exactly the enabled constraints of the model that are not feasible; the two
calls change nothing but these flags; and for a variable within its bounds the condition
on the coefficient says that a step of the variable by `+1` or `-1` inside the bounds
changes a positive constraint value by a negative amount or a constraint value that is
not positive by a positive amount. -/
theorem ModelState.feasibility_improvable_iff (methods : ComponentMethods)
    (self : ModelState) :
    (∀ variable_ptr ∈ self.variable_ptrs,
      (((ModelState.update_variable_feasibility_improvabilities methods
          (ModelState.reset_variable_feasibility_improvabilities self)).m_variable_proxies
            variable_ptr).is_feasibility_improvable = true ↔
        ∃ constraint_ptr ∈ self.enabled_constraint_ptrs,
          (self.constraint constraint_ptr).is_enabled = true ∧
          methods.constraint_is_feasible (self.constraint constraint_ptr) = false ∧
          ModelState.CanRepair self.m_variable_proxies (self.constraint constraint_ptr)
            variable_ptr)) ∧
    (∀ variable_ptr ∈ self.variable_ptrs,
      (∀ constraint_ptr ∈ self.enabled_constraint_ptrs,
        variable_ptr ∈ (self.constraint constraint_ptr).m_expression.m_sensitivities.map
          Prod.fst →
        (self.constraint constraint_ptr).is_enabled = false ∨
          methods.constraint_is_feasible (self.constraint constraint_ptr) = true) →
      ((ModelState.update_variable_feasibility_improvabilities methods
        (ModelState.reset_variable_feasibility_improvabilities self)).m_variable_proxies
          variable_ptr).is_feasibility_improvable = false) ∧
    (∀ variable_ptr,
      ((ModelState.update_variable_feasibility_improvabilities methods
        (ModelState.reset_variable_feasibility_improvabilities self)).m_variable_proxies
          variable_ptr).set_is_feasibility_improvable false =
        (self.m_variable_proxies variable_ptr).set_is_feasibility_improvable false) ∧
    (ModelState.update_variable_feasibility_improvabilities methods
      (ModelState.reset_variable_feasibility_improvabilities self)).m_constraint_proxies =
        self.m_constraint_proxies ∧
    (self.enabled_constraint_ptrs = self.categorize_enabled_constraint_ptrs →
      ∀ variable_ptr ∈ self.variable_ptrs,
        (((ModelState.update_variable_feasibility_improvabilities methods
            (ModelState.reset_variable_feasibility_improvabilities self)).m_variable_proxies
              variable_ptr).is_feasibility_improvable = true ↔
          ∃ constraint_ptr, constraint_ptr < self.constraints.length ∧
            (self.constraint constraint_ptr).is_enabled = true ∧
            methods.constraint_is_feasible (self.constraint constraint_ptr) = false ∧
            ModelState.CanRepair self.m_variable_proxies (self.constraint constraint_ptr)
              variable_ptr)) ∧
    (∀ variable_ptr constraint_ptr,
      (self.m_variable_proxies variable_ptr).lower_bound ≤
        (self.m_variable_proxies variable_ptr).value →
      (self.m_variable_proxies variable_ptr).value ≤
        (self.m_variable_proxies variable_ptr).upper_bound →
      (ModelState.CanRepair self.m_variable_proxies (self.constraint constraint_ptr)
          variable_ptr ↔
        ∃ a : ℚ, (variable_ptr, a) ∈
            (self.constraint constraint_ptr).m_expression.m_sensitivities ∧
          (self.m_variable_proxies variable_ptr).is_fixed = false ∧
          ∃ d : ℤ, (d = 1 ∨ d = -1) ∧
            (self.m_variable_proxies variable_ptr).lower_bound ≤
              (self.m_variable_proxies variable_ptr).value + d ∧
            (self.m_variable_proxies variable_ptr).value + d ≤
              (self.m_variable_proxies variable_ptr).upper_bound ∧
            (((self.constraint constraint_ptr).constraint_value > 0 ∧ a * (d : ℚ) < 0) ∨
              ((self.constraint constraint_ptr).constraint_value ≤ 0 ∧
                a * (d : ℚ) > 0)))) := by
  have hreset : ∀ p, ((ModelState.reset_variable_feasibility_improvabilities
      self).m_variable_proxies p).set_is_feasibility_improvable false =
      (self.m_variable_proxies p).set_is_feasibility_improvable false := by
    intro p
    show (ModelState.reset_feasibility_improvabilities_loop self.variable_ptrs
      self.m_variable_proxies p).set_is_feasibility_improvable false = _
    rw [ModelState.reset_loop_spec]
    split <;> rfl
  have hflag : ∀ p ∈ self.variable_ptrs, ((ModelState.reset_variable_feasibility_improvabilities
      self).m_variable_proxies p).is_feasibility_improvable = false := by
    intro p hp
    show (ModelState.reset_feasibility_improvabilities_loop self.variable_ptrs
      self.m_variable_proxies p).is_feasibility_improvable = false
    rw [ModelState.reset_loop_spec, if_pos hp]
    rfl
  have hloop := ModelState.update_loop_spec methods
    (ModelState.reset_variable_feasibility_improvabilities self)
    self.enabled_constraint_ptrs
    (ModelState.reset_variable_feasibility_improvabilities self).m_variable_proxies
  have hiff : ∀ variable_ptr ∈ self.variable_ptrs,
      (((ModelState.update_variable_feasibility_improvabilities methods
          (ModelState.reset_variable_feasibility_improvabilities self)).m_variable_proxies
            variable_ptr).is_feasibility_improvable = true ↔
        ∃ constraint_ptr ∈ self.enabled_constraint_ptrs,
          (self.constraint constraint_ptr).is_enabled = true ∧
          methods.constraint_is_feasible (self.constraint constraint_ptr) = false ∧
          ModelState.CanRepair self.m_variable_proxies (self.constraint constraint_ptr)
            variable_ptr) := by
    intro p hp
    have h2 := (hloop p).2
    have e : (ModelState.update_variable_feasibility_improvabilities methods
        (ModelState.reset_variable_feasibility_improvabilities self)).m_variable_proxies p =
        ModelState.update_feasibility_improvabilities_loop methods
          (ModelState.reset_variable_feasibility_improvabilities self)
          self.enabled_constraint_ptrs
          (ModelState.reset_variable_feasibility_improvabilities self).m_variable_proxies p :=
      rfl
    rw [e, h2, hflag p hp]
    constructor
    · rintro (h | ⟨ptr, hm, a, b, c⟩)
      · exact absurd h (by simp)
      · exact ⟨ptr, hm, b, a, (ModelState.can_repair_congr _ _ _ p (hreset p)).1 c⟩
    · rintro ⟨ptr, hm, b, a, c⟩
      exact Or.inr ⟨ptr, hm, a, b, (ModelState.can_repair_congr _ _ _ p (hreset p)).2 c⟩
  refine ⟨hiff, ?_, ?_, rfl, ?_, fun p c hl hu =>
    ModelState.can_repair_iff_unit_step _ _ p hl hu⟩
  · intro p hp hall
    rw [← Bool.not_eq_true, hiff p hp]
    rintro ⟨ptr, hm, he, hf, a, hmem, _⟩
    rcases hall ptr hm (List.mem_map.mpr ⟨(p, a), hmem, rfl⟩) with h | h
    · rw [he] at h
      exact absurd h (by simp)
    · rw [hf] at h
      exact absurd h (by simp)
  · intro p
    exact ((hloop p).1).trans (hreset p)
  · intro hcat p hp
    rw [hiff p hp, hcat]
    constructor
    · rintro ⟨ptr, hm, he, hf, hc⟩
      simp only [ModelState.categorize_enabled_constraint_ptrs, List.mem_filter,
        List.mem_range] at hm
      exact ⟨ptr, hm.1, he, hf, hc⟩
    · rintro ⟨ptr, hlt, he, hf, hc⟩
      refine ⟨ptr, ?_, he, hf, hc⟩
      simp only [ModelState.categorize_enabled_constraint_ptrs, List.mem_filter,
        List.mem_range]
      exact ⟨hlt, he⟩

end model
end printemps

namespace printemps
namespace model_component

open cppmh.model

/-- C29: there are an expression whose fixed table and masks are set up, with an
effective plus-one mask and a cached value equal to `evaluate()`, a variable `v` that
is not in its sensitivity map and a target `t` other than the value of `v` such that
`evaluate_with_mask(v, t)` is `value() + (t - v.value())` and differs from `value()`,
which is what the general path `evaluate(move)` returns, the table answering `0` for
`v`; and the plus-one mask of every expression whose coefficients are all `+1` is
`~0`, which every variable identity other than the null pointer meets. -/
theorem Expression.evaluate_with_mask_of_absent_variable :
    (∃ (e : Expression) (heap : VariableHeap) (v : Nat) (t : ℤ),
      FixedSizeHashMap.setup e.m_sensitivities 64 = some e.m_fixed_sensitivities ∧
      e.value = e.evaluate heap ∧
      e.setup_mask.m_has_effective_plus_one_coefficient_mask = true ∧
      (∀ c, (v, c) ∉ e.m_sensitivities) ∧
      t ≠ (heap v).value ∧
      e.setup_mask.m_fixed_sensitivities.at v = some 0 ∧
      e.setup_mask.evaluate_move heap (examples.plain_move [(v, t)]) =
        some e.setup_mask.value ∧
      e.setup_mask.evaluate_with_mask heap v t =
        some (e.setup_mask.value + ((t - (heap v).value : ℤ) : ℚ)) ∧
      e.setup_mask.evaluate_with_mask heap v t ≠ some e.setup_mask.value) ∧
    ∀ e : Expression, (∀ s ∈ e.m_sensitivities, s.2 = 1) →
      e.setup_mask.m_plus_one_coefficient_mask = 2 ^ 64 - 1 ∧
      ∀ v : Nat, 0 < v → v < 2 ^ 64 →
        v &&& e.setup_mask.m_plus_one_coefficient_mask ≠ 0 := by
  refine ⟨⟨examples.unit_expression, examples.heap_of_ones, 128, 2, ?_, ?_, ?_, ?_, ?_, ?_,
    ?_, ?_, ?_⟩, Expression.setup_mask_of_unit_coefficients⟩
  · exact FixedSizeHashMap.setup_eq_some_getD _ 64 (by decide) _
  · norm_num [examples.unit_expression, Expression.value, Expression.evaluate,
      Expression.create_instance, examples.heap_of_ones, examples.plain_variable]
  · exact examples.unit_expression_effective
  · intro c hc
    simp [examples.unit_expression, Expression.create_instance] at hc
  · decide
  · have h := at_eq_lookup [(64, (1 : ℚ))] 64 (by decide)
      examples.unit_expression.setup_mask.m_fixed_sensitivities
      (FixedSizeHashMap.setup_eq_some_getD _ 64 (by decide) _) 128
    rw [h]
    rfl
  · have h := at_eq_lookup [(64, (1 : ℚ))] 64 (by decide)
      examples.unit_expression.setup_mask.m_fixed_sensitivities
      (FixedSizeHashMap.setup_eq_some_getD _ 64 (by decide) _) 128
    simp only [Expression.evaluate_move, examples.plain_move, List.length_singleton,
      one_ne_zero, if_false, Expression.evaluate_move_loop, h]
    simp [Expression.value, List.lookup]
  · rw [examples.unit_expression_with_mask]
    norm_num [examples.unit_expression, Expression.setup_mask, Expression.value,
      examples.heap_of_ones, examples.plain_variable]
  · rw [examples.unit_expression_with_mask]
    norm_num [examples.unit_expression, Expression.setup_mask, Expression.value]

end model_component
end printemps

namespace printemps
namespace solver
namespace lagrange_dual
namespace core

/-- C30: the termination conditions of the Lagrange dual core compare the state with the
limits of the `local_search` block of the options: the loop is left with `TIME_OVER`
when the elapsed time exceeds `local_search.time_max` or the elapsed time plus
`local_search.time_offset` exceeds `time_max`, else with `ITERATION_OVER` when the
iteration has reached `local_search.iteration_max`, and otherwise it is not left by
these tests.  At the iteration 5 after 2 seconds, with the limits 5 and 1 in the
`lagrange_dual` block and 10 and 100 in the `local_search` block, the core goes on,
and the loop of `cppmh` is left with the same limits of the `lagrange_dual` block. -/
theorem LagrangeDualCore.limits_of_local_search_block :
    (∀ (STATE : LagrangeDualCoreState) (m_option : option.Option),
      LagrangeDualCore.time_or_iteration_over STATE m_option =
        if STATE.elapsed_time > m_option.local_search.time_max ∨
            STATE.elapsed_time + m_option.local_search.time_offset > m_option.time_max then
          some (STATE.set_termination_status LagrangeDualCoreTerminationStatus.TIME_OVER)
        else if STATE.iteration ≥ m_option.local_search.iteration_max then
          some (STATE.set_termination_status LagrangeDualCoreTerminationStatus.ITERATION_OVER)
        else none) ∧
    examples.dual_state.iteration ≥ examples.dual_option.lagrange_dual.iteration_max ∧
    examples.dual_state.elapsed_time > examples.dual_option.lagrange_dual.time_max ∧
    (LagrangeDualCore.satisfy_time_over_terminate_condition examples.dual_state
      examples.dual_option).1 = false ∧
    (LagrangeDualCore.satisfy_iteration_over_terminate_condition examples.dual_state
      examples.dual_option).1 = false ∧
    LagrangeDualCore.time_or_iteration_over examples.dual_state examples.dual_option = none ∧
    cppmh.solver.lagrange_dual.is_terminated examples.dual_state.elapsed_time
      examples.dual_state.iteration examples.cppmh_dual_option = true := by
  refine ⟨?_, ?_, ?_, ?_, ?_, ?_, ?_⟩
  · intro STATE m_option
    unfold LagrangeDualCore.time_or_iteration_over
      LagrangeDualCore.satisfy_time_over_terminate_condition
      LagrangeDualCore.satisfy_iteration_over_terminate_condition
    by_cases h1 : STATE.elapsed_time > m_option.local_search.time_max
    · simp [h1]
    · by_cases h2 : STATE.elapsed_time + m_option.local_search.time_offset > m_option.time_max
      · simp [h1, h2]
      · by_cases h3 : STATE.iteration ≥ m_option.local_search.iteration_max
        · simp [h1, h2, h3]
        · simp [h1, h2, h3]
  · decide
  · norm_num [examples.dual_state, examples.dual_option]
  · norm_num [LagrangeDualCore.satisfy_time_over_terminate_condition, examples.dual_state,
      examples.dual_option]
  · simp [LagrangeDualCore.satisfy_iteration_over_terminate_condition, examples.dual_state,
      examples.dual_option]
  · norm_num [LagrangeDualCore.time_or_iteration_over,
      LagrangeDualCore.satisfy_time_over_terminate_condition,
      LagrangeDualCore.satisfy_iteration_over_terminate_condition, examples.dual_state,
      examples.dual_option]
  · norm_num [cppmh.solver.lagrange_dual.is_terminated, examples.dual_state,
      examples.cppmh_dual_option]

end core
end lagrange_dual
end solver
end printemps

namespace printemps
namespace model_component

/-- C33: for an expression whose sensitivity map has no repeated variable and whose variables
that are not fixed have a lower bound not above the upper bound, the value
`constant + sum c_i * x_i` at every assignment in which each variable that is not fixed
lies within its bounds and each fixed variable keeps its value is between `lower_bound()`
and `upper_bound()`; `lower_bound()` is the value at the assignment of this kind that puts
the variables that are not fixed at their lower bound if their coefficient is positive
and at their upper bound otherwise, and `upper_bound()` is the value at the reverse
assignment. -/
theorem Expression.bounds_valid_and_tight (self : Expression) (heap : VariableHeap)
    (hkeys : (self.m_sensitivities.map Prod.fst).Nodup)
    (hbounds : ∀ s ∈ self.m_sensitivities, (heap s.1).is_fixed = false →
      (heap s.1).lower_bound ≤ (heap s.1).upper_bound) :
    (∀ other : VariableHeap, self.WithinBounds heap other →
      self.evaluate other = self.m_constant_value +
        (self.m_sensitivities.map (fun s => s.2 * ((other s.1).value : ℚ))).sum ∧
      self.lower_bound heap ≤ self.evaluate other ∧
      self.evaluate other ≤ self.upper_bound heap) ∧
    (∃ other : VariableHeap, self.WithinBounds heap other ∧
      self.evaluate other = self.lower_bound heap ∧
      ∀ s ∈ self.m_sensitivities, (heap s.1).is_fixed = false →
        (other s.1).value =
          if s.2 > 0 then (heap s.1).lower_bound else (heap s.1).upper_bound) ∧
    (∃ other : VariableHeap, self.WithinBounds heap other ∧
      self.evaluate other = self.upper_bound heap ∧
      ∀ s ∈ self.m_sensitivities, (heap s.1).is_fixed = false →
        (other s.1).value =
          if s.2 > 0 then (heap s.1).upper_bound else (heap s.1).lower_bound) := by
  refine ⟨fun other h => ⟨Expression.evaluate_eq_sum self other,
    Expression.bounds_valid self heap other h⟩, ?_, ?_⟩
  · refine ⟨self.at_bounds heap true, Expression.at_bounds_within self heap true hkeys hbounds,
      Expression.lower_bound_attained self heap hkeys, ?_⟩
    intro s hs hf
    rw [Expression.at_bounds_value self heap true hkeys s hs]
    simp only [hf, Bool.false_eq_true, if_false, decide_eq_true_eq]
  · refine ⟨self.at_bounds heap false,
      Expression.at_bounds_within self heap false hkeys hbounds,
      Expression.upper_bound_attained self heap hkeys, ?_⟩
    intro s hs hf
    rw [Expression.at_bounds_value self heap false hkeys s hs]
    simp only [hf, Bool.false_eq_true, if_false, decide_eq_false_iff_not]
    by_cases hc : s.2 > 0
    · simp only [hc, not_true_eq_false, if_false, if_true]
    · simp only [hc, not_false_eq_true, if_true, if_false]

/-- The expression `2 x₆₄ - 3 x₁₂₈ + x₁₉₂ + 5` with `x₆₄` in `[0, 4]`, `x₁₂₈` in
`[-1, 2]` and `x₁₉₂` fixed at 7. -/
theorem Expression.bounds_valid_and_tight_witness :
    ((examples.bounded_expression.m_sensitivities.map Prod.fst).Nodup ∧
      (∀ s ∈ examples.bounded_expression.m_sensitivities,
        (examples.bounded_heap s.1).is_fixed = false →
          (examples.bounded_heap s.1).lower_bound ≤
            (examples.bounded_heap s.1).upper_bound)) ∧
    ((∀ other : VariableHeap,
      examples.bounded_expression.WithinBounds examples.bounded_heap other →
      examples.bounded_expression.evaluate other =
        examples.bounded_expression.m_constant_value +
          (examples.bounded_expression.m_sensitivities.map
            (fun s => s.2 * ((other s.1).value : ℚ))).sum ∧
      examples.bounded_expression.lower_bound examples.bounded_heap ≤
        examples.bounded_expression.evaluate other ∧
      examples.bounded_expression.evaluate other ≤
        examples.bounded_expression.upper_bound examples.bounded_heap) ∧
    (∃ other : VariableHeap,
      examples.bounded_expression.WithinBounds examples.bounded_heap other ∧
      examples.bounded_expression.evaluate other =
        examples.bounded_expression.lower_bound examples.bounded_heap ∧
      ∀ s ∈ examples.bounded_expression.m_sensitivities,
        (examples.bounded_heap s.1).is_fixed = false →
          (other s.1).value =
            if s.2 > 0 then (examples.bounded_heap s.1).lower_bound
            else (examples.bounded_heap s.1).upper_bound) ∧
    (∃ other : VariableHeap,
      examples.bounded_expression.WithinBounds examples.bounded_heap other ∧
      examples.bounded_expression.evaluate other =
        examples.bounded_expression.upper_bound examples.bounded_heap ∧
      ∀ s ∈ examples.bounded_expression.m_sensitivities,
        (examples.bounded_heap s.1).is_fixed = false →
          (other s.1).value =
            if s.2 > 0 then (examples.bounded_heap s.1).upper_bound
            else (examples.bounded_heap s.1).lower_bound)) :=
  ⟨⟨by decide, examples.bounded_heap_bounds⟩,
    Expression.bounds_valid_and_tight examples.bounded_expression examples.bounded_heap
      (by decide) examples.bounded_heap_bounds⟩

/-- C40 fails on the code: the accumulator of `fixed_term_value` is an `int`.  For the
expression `x / 2` with `x` fixed at 1 the method returns 0 and the sum of
`coefficient * value` over the fixed variables is `1 / 2`; when the coefficients of the
fixed variables are integers, the method returns that sum whenever it returns. -/
theorem Expression.fixed_term_value_truncates :
    examples.half_expression.fixed_term_value examples.heap_of_fixed_ones = some 0 ∧
    examples.half_expression.fixed_term_sum examples.heap_of_fixed_ones = 1 / 2 ∧
    (∀ (self : Expression) (heap : VariableHeap) (result : ℚ),
      (∀ s ∈ self.m_sensitivities, (heap s.1).is_fixed = true → ∃ n : ℤ, s.2 = (n : ℚ)) →
      self.fixed_term_value heap = some result →
      result = self.fixed_term_sum heap) := by
  refine ⟨?_, ?_, ?_⟩
  · decide!
  · norm_num [examples.half_expression, Expression.fixed_term_sum, Expression.create_instance,
      examples.heap_of_fixed_ones, examples.plain_variable, Expression.initialize_]
  · intro self heap result hint h
    unfold Expression.fixed_term_value at h
    cases hl : Expression.fixed_term_value_loop heap self.m_sensitivities 0 with
    | none => rw [hl] at h; simp at h
    | some value =>
      rw [hl] at h
      have h2 : (value : ℚ) = result := by simpa using h
      rw [← h2, Expression.fixed_term_value_loop_of_integers heap _ 0 value hint hl]
      unfold Expression.fixed_term_sum
      simp

end model_component

namespace model

open model_component

/-- C34: `compute_naive_dual_bound()` equals `lower_bound()` of the objective expression
for a minimization model and `upper_bound()` for a maximization model; hence at every
assignment in which each variable that is not fixed lies within its bounds and each
fixed variable keeps its value, the value of the objective expression is not below the
naive dual bound when minimizing and not above it when maximizing. -/
theorem Model.naive_dual_bound_bounds_objective (self : Model) :
    (self.m_is_minimization = true →
      self.compute_naive_dual_bound =
        self.m_objective.m_expression.lower_bound self.m_variable_proxies) ∧
    (self.m_is_minimization = false →
      self.compute_naive_dual_bound =
        self.m_objective.m_expression.upper_bound self.m_variable_proxies) ∧
    ∀ other : VariableHeap,
      self.m_objective.m_expression.WithinBounds self.m_variable_proxies other →
      (self.m_is_minimization = true →
        self.compute_naive_dual_bound ≤ self.m_objective.m_expression.evaluate other) ∧
      (self.m_is_minimization = false →
        self.m_objective.m_expression.evaluate other ≤ self.compute_naive_dual_bound) := by
  have h := Model.compute_naive_dual_bound_eq self
  refine ⟨fun hm => by rw [h, hm]; rfl, fun hm => by rw [h, hm]; rfl, ?_⟩
  intro other hw
  have hb := Expression.bounds_valid self.m_objective.m_expression self.m_variable_proxies
    other hw
  exact ⟨fun hm => by rw [h, hm]; exact hb.1, fun hm => by rw [h, hm]; exact hb.2⟩

end model
end printemps

namespace printemps
namespace model

open model_component

/-- C39: after `unfix_variables(S)`, every variable of the proxies whose name is in `S`
is not fixed, every variable of the proxies whose name is not in `S` is fixed at the
value 0, and every variable of the proxies has gone through `fix_by(0)`, so that its
value is 0 whatever it was; the bounds are kept and the other variables are untouched.
The former value and the former status of a variable that is not named are not
preserved: a variable of value 5 that was not fixed and is not named is fixed at 0
afterwards, where `fix_variables` with no entry for it leaves it as it was. -/
theorem Model.unfix_variables_fixes_unnamed (name : Nat → String)
    (a_VARIABLE_NAMES : List String) (variable_ptrs : List Nat) (heap : VariableHeap) :
    (∀ ptr ∈ variable_ptrs, name ptr ∈ a_VARIABLE_NAMES →
      (Model.unfix_variables name a_VARIABLE_NAMES variable_ptrs heap ptr).is_fixed = false) ∧
    (∀ ptr ∈ variable_ptrs, name ptr ∉ a_VARIABLE_NAMES →
      (Model.unfix_variables name a_VARIABLE_NAMES variable_ptrs heap ptr).is_fixed = true ∧
      (Model.unfix_variables name a_VARIABLE_NAMES variable_ptrs heap ptr).value = 0) ∧
    (∀ ptr ∈ variable_ptrs,
      (Model.unfix_variables name a_VARIABLE_NAMES variable_ptrs heap ptr).value = 0 ∧
      (Model.unfix_variables name a_VARIABLE_NAMES variable_ptrs heap ptr).lower_bound =
        (heap ptr).lower_bound ∧
      (Model.unfix_variables name a_VARIABLE_NAMES variable_ptrs heap ptr).upper_bound =
        (heap ptr).upper_bound) ∧
    (∀ ptr, ptr ∉ variable_ptrs →
      Model.unfix_variables name a_VARIABLE_NAMES variable_ptrs heap ptr = heap ptr) ∧
    ((examples.heap_of_fives 128).value = 5 ∧
      (examples.heap_of_fives 128).is_fixed = false ∧
      examples.name_of 128 ∉ ["x"] ∧
      (Model.unfix_variables examples.name_of ["x"] [64, 128] examples.heap_of_fives
        128).value = 0 ∧
      (Model.unfix_variables examples.name_of ["x"] [64, 128] examples.heap_of_fives
        128).is_fixed = true ∧
      (Model.fix_variables examples.name_of [("x", 1)] [64, 128] examples.heap_of_fives
        128).value = 5 ∧
      (Model.fix_variables examples.name_of [("x", 1)] [64, 128] examples.heap_of_fives
        128).is_fixed = false) := by
  refine ⟨?_, ?_, ?_, ?_, ?_⟩
  · intro ptr hp hn
    rw [Model.unfix_variables_apply, if_pos hp, if_pos hn]
    rfl
  · intro ptr hp hn
    rw [Model.unfix_variables_apply, if_pos hp, if_neg hn]
    exact ⟨rfl, rfl⟩
  · intro ptr hp
    rw [Model.unfix_variables_apply, if_pos hp]
    split <;> exact ⟨rfl, rfl, rfl⟩
  · intro ptr hp
    rw [Model.unfix_variables_apply, if_neg hp]
  · decide

end model
end printemps

namespace printemps
namespace neighborhood

open model_component

/-- C38, as amended: `setup` on a fresh generator leaves, for every pair, two slots of
exactly two alterations with the values 1, 0 and 0, 1 (for every binomial, four slots of
exactly two alterations).  A second call of `setup` on the same generator with the same
input keeps the number of slots and appends two alterations to every slot: the two
slots of a pair then have four alterations, with the values 1, 0, 1, 0 and 0, 1, 1, 0,
and the four slots of a binomial have four alterations. -/
theorem TwoFlipMoveGenerator.second_setup_appends_alterations (heap : VariableHeap)
    (pairs : List (Nat × Nat)) (binomials : List BinomialConstraint) :
    (∀ j pair, pairs[j]? = some pair →
      ((TwoFlipMoveGenerator.setup AbstractMoveGenerator.fresh heap pairs).m_moves.getD
        (2 * j) Move.empty).alterations = [(pair.1, 1), (pair.2, 0)] ∧
      ((TwoFlipMoveGenerator.setup AbstractMoveGenerator.fresh heap pairs).m_moves.getD
        (2 * j + 1) Move.empty).alterations = [(pair.1, 0), (pair.2, 1)] ∧
      ((TwoFlipMoveGenerator.setup
        (TwoFlipMoveGenerator.setup AbstractMoveGenerator.fresh heap pairs) heap
          pairs).m_moves.getD (2 * j) Move.empty).alterations =
        [(pair.1, 1), (pair.2, 0), (pair.1, 1), (pair.2, 0)] ∧
      ((TwoFlipMoveGenerator.setup
        (TwoFlipMoveGenerator.setup AbstractMoveGenerator.fresh heap pairs) heap
          pairs).m_moves.getD (2 * j + 1) Move.empty).alterations =
        [(pair.1, 0), (pair.2, 1), (pair.1, 1), (pair.2, 0)]) ∧
    (TwoFlipMoveGenerator.setup
      (TwoFlipMoveGenerator.setup AbstractMoveGenerator.fresh heap pairs) heap
        pairs).m_moves.length =
      (TwoFlipMoveGenerator.setup AbstractMoveGenerator.fresh heap pairs).m_moves.length ∧
    (∀ j binomial, binomials[j]? = some binomial → ∀ r, r < 4 →
      ((AggregationMoveGenerator.setup AbstractMoveGenerator.fresh heap
        binomials).m_moves.getD (4 * j + r) Move.empty).alterations =
        [(binomial.variable_ptr_first, 0), (binomial.variable_ptr_second, 0)] ∧
      ((AggregationMoveGenerator.setup
        (AggregationMoveGenerator.setup AbstractMoveGenerator.fresh heap binomials) heap
          binomials).m_moves.getD (4 * j + r) Move.empty).alterations =
        [(binomial.variable_ptr_first, 0), (binomial.variable_ptr_second, 0),
          (binomial.variable_ptr_first, 0), (binomial.variable_ptr_second, 0)]) ∧
    (AggregationMoveGenerator.setup
      (AggregationMoveGenerator.setup AbstractMoveGenerator.fresh heap binomials) heap
        binomials).m_moves.length =
      (AggregationMoveGenerator.setup AbstractMoveGenerator.fresh heap
        binomials).m_moves.length := by
  refine ⟨?_, ?_, ?_, ?_⟩
  · intro j pair hj
    have hlt : j < pairs.length := by
      rcases Nat.lt_or_ge j pairs.length with h | h
      · exact h
      · rw [List.getElem?_eq_none h] at hj
        simp at hj
    obtain ⟨a1, a2⟩ := TwoFlipMoveGenerator.two_flip_setup_slots AbstractMoveGenerator.fresh
      heap pairs j pair hj
    have hempty : (resize AbstractMoveGenerator.fresh.m_moves (2 * pairs.length)
        Move.empty).getD (2 * j) Move.empty = Move.empty := by
      show (resize ([] : List Move) _ _).getD _ _ = _
      rw [resize_nil, getD_replicate_self]
    rw [hempty] at a1 a2
    have f1 : ((TwoFlipMoveGenerator.setup AbstractMoveGenerator.fresh heap
        pairs).m_moves.getD (2 * j) Move.empty).alterations = [(pair.1, 1), (pair.2, 0)] := by
      rw [a1]
      rfl
    obtain ⟨b1, b2⟩ := TwoFlipMoveGenerator.two_flip_setup_slots
      (TwoFlipMoveGenerator.setup AbstractMoveGenerator.fresh heap pairs) heap pairs j pair hj
    rw [resize_of_length _ _ _ (TwoFlipMoveGenerator.two_flip_setup_length _ heap pairs)]
      at b1 b2
    refine ⟨f1, ?_, ?_, ?_⟩
    · rw [a2]
      rfl
    · rw [b1, f1]
      rfl
    · rw [b2]
      simp only [Move.set_alteration_value, TwoFlipMoveGenerator.first_move, f1]
      rfl
  · rw [TwoFlipMoveGenerator.two_flip_setup_length,
      TwoFlipMoveGenerator.two_flip_setup_length]
  · intro j binomial hj r hr
    have a1 := AggregationMoveGenerator.aggregation_setup_slots AbstractMoveGenerator.fresh
      heap binomials j binomial hj
    have hempty : (resize AbstractMoveGenerator.fresh.m_moves (4 * binomials.length)
        Move.empty).getD (4 * j) Move.empty = Move.empty := by
      show (resize ([] : List Move) _ _).getD _ _ = _
      rw [resize_nil, getD_replicate_self]
    rw [hempty] at a1
    have f0 := a1 0 (by omega)
    rw [Nat.add_zero] at f0
    have b1 := AggregationMoveGenerator.aggregation_setup_slots
      (AggregationMoveGenerator.setup AbstractMoveGenerator.fresh heap binomials) heap
      binomials j binomial hj r hr
    rw [resize_of_length _ _ _
      (AggregationMoveGenerator.aggregation_setup_length _ heap binomials), f0] at b1
    refine ⟨?_, ?_⟩
    · rw [a1 r hr]
      rfl
    · rw [b1]
      rfl
  · rw [AggregationMoveGenerator.aggregation_setup_length,
      AggregationMoveGenerator.aggregation_setup_length]

/-- C38 fails as stated: for the pair of the variables at 64 and 128, the slot 0 has the
alterations `(64, 1), (128, 0)` after one call of `setup` and
`(64, 1), (128, 0), (64, 1), (128, 0)` after two calls. -/
theorem TwoFlipMoveGenerator.second_setup_differs :
    ((TwoFlipMoveGenerator.setup AbstractMoveGenerator.fresh examples.heap_of_ones
      [(64, 128)]).m_moves.getD 0 Move.empty).alterations = [(64, 1), (128, 0)] ∧
    ((TwoFlipMoveGenerator.setup
      (TwoFlipMoveGenerator.setup AbstractMoveGenerator.fresh examples.heap_of_ones
        [(64, 128)]) examples.heap_of_ones [(64, 128)]).m_moves.getD 0
          Move.empty).alterations = [(64, 1), (128, 0), (64, 1), (128, 0)] ∧
    (TwoFlipMoveGenerator.setup
      (TwoFlipMoveGenerator.setup AbstractMoveGenerator.fresh examples.heap_of_ones
        [(64, 128)]) examples.heap_of_ones [(64, 128)]).m_moves.map (fun move =>
          move.alterations.length) ≠
      (TwoFlipMoveGenerator.setup AbstractMoveGenerator.fresh examples.heap_of_ones
        [(64, 128)]).m_moves.map (fun move => move.alterations.length) := by
  decide

end neighborhood
end printemps

namespace cppmh
namespace model

open printemps.model_component

/-- C32 fails on the code: `import_variable_values` verifies the selection variables and
the integer variables, the latter twice, and never the binary variables: it returns
exactly when the verification of the selections returns and no variable of sense
`Integer` is outside of its bounds.  For one binary variable that is not fixed and the imported
value 2 it returns with the value 2, which
`verify_and_correct_binary_variables_initial_values` rejects. -/
theorem import_variable_values_skips_binary_verification :
    (∀ (a_PROXIES : Nat → ℤ) (variable_ptrs : List Nat) (selections : List (List Nat))
        (heap : VariableHeap),
      import_variable_values a_PROXIES variable_ptrs selections heap =
        (verify_and_correct_selection_variables_initial_values false selections
          (import_values a_PROXIES variable_ptrs heap)).bind
          (verify_and_correct_integer_variables_initial_values false variable_ptrs) ∧
      ((import_variable_values a_PROXIES variable_ptrs selections heap).isSome = true ↔
        ∃ verified, verify_and_correct_selection_variables_initial_values false selections
            (import_values a_PROXIES variable_ptrs heap) = some verified ∧
          ∀ ptr ∈ variable_ptrs, (verified ptr).sense = VariableSense.Integer →
            (verified ptr).lower_bound ≤ (verified ptr).value ∧
              (verified ptr).value ≤ (verified ptr).upper_bound)) ∧
    (printemps.examples.heap_of_binaries 64).sense = VariableSense.Binary ∧
    (printemps.examples.heap_of_binaries 64).is_fixed = false ∧
    (import_variable_values printemps.examples.proxies_of_twos [64] []
      printemps.examples.heap_of_binaries).isSome = true ∧
    (import_variable_values printemps.examples.proxies_of_twos [64] []
      printemps.examples.heap_of_binaries).map (fun imported => (imported 64).value) =
        some 2 ∧
    ((import_variable_values printemps.examples.proxies_of_twos [64] []
      printemps.examples.heap_of_binaries).bind
        (verify_and_correct_binary_variables_initial_values false [64])).isSome = false := by
  refine ⟨?_, by decide, by decide, by decide, by decide, by decide⟩
  intro a_PROXIES variable_ptrs selections heap
  have he := import_variable_values_eq a_PROXIES variable_ptrs selections heap
  refine ⟨he, ?_⟩
  rw [he]
  cases hs : verify_and_correct_selection_variables_initial_values false selections
      (import_values a_PROXIES variable_ptrs heap) with
  | none => simp
  | some verified =>
    simp only [Option.some_bind, verify_integer_isSome_iff, Option.some.injEq,
      exists_eq_left']

end model
end cppmh

namespace printemps
namespace model

open model_component mps opb

/-- C36: whenever `import_mps` or `import_opb` returns, `is_minimization()` is true and
`sign()` is `+1`, whatever the flag `is_minimization` of the objective of the data is:
the members of the objective are those that the final call of `minimize` writes.  The
result of `import_mps` does not depend on the flag, and every coefficient of the imported
objective is a coefficient of the objective of the MPS data, not negated.  Both
methods return on data whose flag is false. -/
theorem Model.import_leaves_minimization :
    (∀ (self : ModelDefinitions) (a_MPS : MPS) (a_ACCEPT_CONTINUOUS : Bool)
        (a_DEFAULT : Variable) (address : Nat → Nat) (imported : ImportedModel),
      Model.import_mps self a_MPS a_ACCEPT_CONTINUOUS a_DEFAULT address = some imported →
      imported.m_is_minimization = true ∧
      imported.m_is_defined_objective = true ∧
      (∃ variable_ptrs : List (String × Nat),
        ({ m_objective := imported.m_objective
           m_is_defined_objective := imported.m_is_defined_objective
           m_is_minimization := imported.m_is_minimization } : ObjectiveMembers) =
          ObjectiveMembers.minimize
            (Expression.set_sensitivities Expression.initialize_
              (Model.import_mps_sensitivities variable_ptrs
                a_MPS.objective.sensitivities))) ∧
      (∀ s ∈ imported.m_objective.m_expression.m_sensitivities,
        ∃ t ∈ a_MPS.objective.sensitivities, s.2 = t.2) ∧
      ∀ flag : Bool,
        Model.import_mps self
          { a_MPS with objective := { a_MPS.objective with is_minimization := flag } }
          a_ACCEPT_CONTINUOUS a_DEFAULT address = some imported) ∧
    (∀ (self : ModelDefinitions) (a_OPB : OPB) (address : Nat → Nat → Nat)
        (imported : ImportedOPB),
      Model.import_opb self a_OPB address = some imported →
      imported.objective_members.is_minimization = true ∧
      imported.objective_members.sign = 1 ∧
      imported.objective_members.m_is_defined_objective = true) ∧
    (examples.mps_maximization.objective.is_minimization = false ∧
      (Model.import_mps examples.empty_definitions examples.mps_maximization true
        (examples.plain_variable 0 0 0) examples.mps_address).map
          (fun imported => imported.m_is_minimization) = some true) ∧
    (examples.opb_maximization.objective.is_minimization = false ∧
      (Model.import_opb examples.empty_definitions examples.opb_maximization
        examples.opb_address).map
          (fun imported => imported.objective_members.is_minimization) = some true) := by
  refine ⟨?_, ?_, ⟨rfl, by decide⟩, ⟨rfl, by decide⟩⟩
  · intro self a_MPS a_ACCEPT_CONTINUOUS a_DEFAULT address imported h
    obtain ⟨variable_ptrs, hm⟩ := Model.import_mps_objective_members self a_MPS
      a_ACCEPT_CONTINUOUS a_DEFAULT address imported h
    have h1 : imported.m_is_minimization = true := congrArg ObjectiveMembers.m_is_minimization hm
    have h2 : imported.m_is_defined_objective = true :=
      congrArg ObjectiveMembers.m_is_defined_objective hm
    have h3 : imported.m_objective = Objective.create_instance
        (Expression.set_sensitivities Expression.initialize_
          (Model.import_mps_sensitivities variable_ptrs a_MPS.objective.sensitivities)) :=
      congrArg ObjectiveMembers.m_objective hm
    refine ⟨h1, h2, ⟨variable_ptrs, hm⟩, ?_, fun flag => by
      rw [Model.import_mps_flag_independent]; exact h⟩
    intro s hs
    rw [h3] at hs
    rcases Model.import_mps_sensitivities_mem variable_ptrs a_MPS.objective.sensitivities []
      s hs with h4 | ⟨t, ht, e⟩
    · simp at h4
    · exact ⟨t, ht, by rw [e]⟩
  · intro self a_OPB address imported h
    obtain ⟨objective, hm⟩ := Model.import_opb_objective_members self a_OPB address imported h
    rw [hm]
    exact ⟨rfl, rfl, rfl⟩

end model
end printemps

namespace cppmh
namespace solver
namespace lagrange_dual

open model utility

/-- C31 fails on the code: the test of the convergence of `solve` asks for more than
`queue_size` values in the queue, which never holds more than `queue_size` values, so the
test fails at every iteration, and with a clock within the time limits `solve` returns
after `iteration_max` iterations whatever the values of the Lagrangian are.  With a
Lagrangian that is always 0, a queue of 2 values and the tolerance `1 / 10`, the queue
is full and `lagrangian_incumbent - queue_average` is below `max(1, |queue_average|) *
tolerance` at the iteration 1, the test fails there, and `solve` returns after the 10
iterations of `iteration_max`. -/
theorem solve_never_converges :
    (∀ (queue : FixedSizeQueue) (lagrangian_incumbent : ℚ) (option : Option),
      queue.size ≤ option.lagrange_dual.queue_size →
      is_converged queue lagrangian_incumbent option = false) ∧
    (∀ (queue : FixedSizeQueue) (a_VALUE : ℚ), 1 ≤ queue.m_max_size →
      queue.size ≤ queue.m_max_size → (queue.push a_VALUE).size ≤ queue.m_max_size) ∧
    (∀ (M H S : Type) (methods : SolveMethods M H S) (option : Option) (fuel : Nat)
        (a_model imported : M) (a_INCUMBENT_HOLDER : H),
      methods.import_variable_values a_model = some imported →
      1 ≤ option.lagrange_dual.queue_size →
      (∀ n, methods.clock n ≤ option.lagrange_dual.time_max ∧
        methods.clock n + option.lagrange_dual.time_offset ≤ option.time_max) →
      0 ≤ option.lagrange_dual.iteration_max →
      option.lagrange_dual.iteration_max < (fuel : ℤ) →
      ∃ result, solve methods option fuel a_model a_INCUMBENT_HOLDER = some result ∧
        result.number_of_iterations = option.lagrange_dual.iteration_max) ∧
    ((solve_initial printemps.examples.counter_methods printemps.examples.queue_option 0
        ()).map
      (fun initial =>
        let first := (solve_iteration printemps.examples.counter_methods
          printemps.examples.queue_option initial).1
        let second := solve_iteration printemps.examples.counter_methods
          printemps.examples.queue_option { first with iteration := first.iteration + 1 }
        (second.1.iteration, second.1.queue.size,
          decide (second.2 - second.1.queue.average <
            max 1 |second.1.queue.average| *
              printemps.examples.queue_option.lagrange_dual.tolerance),
          is_converged second.1.queue second.2 printemps.examples.queue_option)) =
      some (1, 2, true, false)) ∧
    (solve printemps.examples.counter_methods printemps.examples.queue_option 11 0 ()).map
      (fun result => result.number_of_iterations) = some 10 := by
  refine ⟨is_converged_of_size_le, ?_, ?_, ?_, ?_⟩
  · intro queue a_VALUE h1 h
    have := FixedSizeQueue.push_size_le queue a_VALUE h1 h
    rw [this.2] at this
    exact this.1
  · intro M H S methods option fuel a_model imported a_INCUMBENT_HOLDER hi hsize htime hmax
      hfuel
    exact solve_number_of_iterations methods option fuel a_model a_INCUMBENT_HOLDER imported
      hi hsize htime hmax hfuel
  · decide!
  · decide!

/-- C37: whenever `solve` returns, the primal solution of its result is the solution that
`export_solution` gives right after the import of the initial values and the update of
the model, before the first iteration, whatever the iterations do; and `solve` returns
when the import returns and the passes are more than `iteration_max`.  In the example
the first iteration improves the Lagrangian incumbent and changes the model, whose
solution is 1 then, and the primal solution of the result is the solution 0 of the
start. -/
theorem solve_keeps_initial_primal_solution :
    (∀ (M H S : Type) (methods : SolveMethods M H S) (option : Option) (fuel : Nat)
        (a_model : M) (a_INCUMBENT_HOLDER : H),
      (∀ result, solve methods option fuel a_model a_INCUMBENT_HOLDER = some result →
        ∃ imported, methods.import_variable_values a_model = some imported ∧
          result.primal_solution = methods.export_solution (methods.update imported)) ∧
      (∀ imported, methods.import_variable_values a_model = some imported → 0 < fuel →
        option.lagrange_dual.iteration_max < (fuel : ℤ) →
        ∃ result, solve methods option fuel a_model a_INCUMBENT_HOLDER = some result)) ∧
    (∀ (M H S : Type) (methods : SolveMethods M H S) (option : Option)
        (state : SolveState M H S),
      (solve_iteration methods option state).1.primal_incumbent = state.primal_incumbent) ∧
    ((solve_initial printemps.examples.counter_methods printemps.examples.queue_option 0
        ()).map
      (fun initial =>
        let first := (solve_iteration printemps.examples.counter_methods
          printemps.examples.queue_option initial).1
        (initial.lagrangian_incumbent, first.lagrangian_incumbent,
          printemps.examples.counter_methods.export_solution first.model,
          first.primal_incumbent)) =
      some (none, some 0, 1, 0)) ∧
    (solve printemps.examples.counter_methods printemps.examples.queue_option 11 0 ()).map
      (fun result => (result.primal_solution, result.lagrangian,
        result.number_of_iterations)) = some (0, some 0, 10) := by
  refine ⟨?_, ?_, ?_, ?_⟩
  · intro M H S methods option fuel a_model a_INCUMBENT_HOLDER
    exact solve_primal_solution methods option fuel a_model a_INCUMBENT_HOLDER
  · intro M H S methods option state
    rfl
  · decide!
  · decide!

end lagrange_dual
end solver
end cppmh

namespace printemps
namespace model

open model_component utility utility.sparse linear_programming

/-- C35: `export_lp_instance`, for a model whose exported variables are pairwise
distinct, whose exported constraints are pairwise distinct, and where every variable of
an exported constraint that is not fixed is among the exported variables, returns an instance
with one row for every exported constraint and one column for every exported variable.
For every row `i`, built from the constraint `c` with the expression `g`, and
every assignment `x` of the columns, the product of the row and `x` minus
`dual_objective_coefficients[i]` is `-g(x)` if `c` has the sense `Less` and `g(x)`
otherwise, where `g(x)` has the constant and the terms of the fixed variables at their
values; so `c` holds if and only if the product is at least
`dual_objective_coefficients[i]`, equal to it for the sense `Equal`.  The less, equal and
greater ranges are contiguous, pairwise disjoint and cover the rows, the dual lower bound
is 0 exactly on the less and on the greater range, and the rows of each range are built
from constraints of the sense of the range when the lists of the model hold constraints
of their sense. -/
theorem ReferencedModel.export_lp_instance_rows_equivalent (self : ReferencedModel)
    (INT_HALF_MIN INT_HALF_MAX : ℤ)
    (hcolumns : self.mutable_variable_index_map.keys.Nodup)
    (hrows : self.enabled_constraint_index_map.keys.Nodup)
    (hknown : self.ColumnsKnown) :
    ∃ lp, self.export_lp_instance INT_HALF_MIN INT_HALF_MAX = some lp ∧
      lp.number_of_rows = self.enabled_constraint_index_map.size ∧
      lp.number_of_columns = self.mutable_variable_index_map.size ∧
      (∀ i j constraint_ptr : Nat,
        self.enabled_constraint_index_map.reverse_at i = some constraint_ptr →
        self.enabled_constraint_index_map.reverse_at j = some constraint_ptr → i = j) ∧
      (∀ j variable_ptr : Nat,
        self.mutable_variable_index_map.reverse_at j = some variable_ptr →
        self.mutable_variable_index_map.forward_at variable_ptr = some j ∧
          self.mutable_variable_index_map.keys.indexOf variable_ptr = j) ∧
      (∀ i, i < lp.number_of_rows → lp.RowEquivalent self i) ∧
      lp.RangesPartitionRows ∧
      lp.DualLowerBoundsZeroOnRanges ∧
      (self.Categorized → lp.RangesMatchSenses self) := by
  obtain ⟨records, hrecords, -, hdot⟩ :=
    ReferencedModel.records_loop_spec self self.enabled_constraint_index_map.keys hknown 0
  obtain ⟨lp, hlp, hnumber, hmatrix, hcoefficients, hbounds, hless, hequal, hgreater⟩ :=
    ReferencedModel.export_lp_instance_of_records self INT_HALF_MIN INT_HALF_MAX records hrecords
  have hcolumns_number : lp.number_of_columns = self.mutable_variable_index_map.size := by
    simp only [ReferencedModel.export_lp_instance, hrecords, Option.some.injEq] at hlp
    rw [← hlp]
  refine ⟨lp, hlp, hnumber, hcolumns_number, ?_, ?_, ?_, ?_, ?_, ?_⟩
  · intro i j constraint_ptr hi hj
    exact BidirectionalMap.reverse_at_injective _ hrows i j constraint_ptr hi hj
  · intro j variable_ptr hj
    have hforward := BidirectionalMap.forward_at_reverse_at _ hcolumns j variable_ptr hj
    refine ⟨hforward, ?_⟩
    have hmem : variable_ptr ∈ self.mutable_variable_index_map.keys :=
      List.getElem?_mem (by simpa [BidirectionalMap.reverse_at] using hj)
    rw [BidirectionalMap.forward_at_of_mem _ _ hmem] at hforward
    exact Option.some.inj hforward
  · intro i hi
    rw [hnumber] at hi
    exact ReferencedModel.export_row_equivalent self records lp hmatrix hcoefficients hdot i hi
  · exact ReferencedModel.export_ranges_partition_rows lp _ _ _
      (ReferencedModel.less_size_le_equal_size self)
      (ReferencedModel.equal_size_le_enabled_size self) hnumber hless hequal hgreater
  · exact ReferencedModel.export_dual_lower_bounds self lp hnumber hbounds hless hgreater
  · intro hcategorized
    exact ReferencedModel.export_ranges_match_senses self lp hcategorized hless hequal hgreater

/-- The model of three enabled constraints, one of each sense, and of one selection, with
one fixed variable: the exported variables are 256, 128 and 64, the exported constraints
are 0, 3, 1 and 2. -/
theorem ReferencedModel.export_lp_instance_rows_equivalent_witness :
    (examples.lp_model.mutable_variable_index_map.keys.Nodup ∧
      examples.lp_model.enabled_constraint_index_map.keys.Nodup ∧
      examples.lp_model.ColumnsKnown) ∧
    examples.lp_model.mutable_variable_index_map.keys = [256, 128, 64] ∧
    examples.lp_model.enabled_constraint_index_map.keys = [0, 3, 1, 2] ∧
    ∃ lp, examples.lp_model.export_lp_instance (-1073741824) 1073741823 = some lp ∧
      lp.number_of_rows = examples.lp_model.enabled_constraint_index_map.size ∧
      lp.number_of_columns = examples.lp_model.mutable_variable_index_map.size ∧
      (∀ i j constraint_ptr : Nat,
        examples.lp_model.enabled_constraint_index_map.reverse_at i = some constraint_ptr →
        examples.lp_model.enabled_constraint_index_map.reverse_at j = some constraint_ptr →
        i = j) ∧
      (∀ j variable_ptr : Nat,
        examples.lp_model.mutable_variable_index_map.reverse_at j = some variable_ptr →
        examples.lp_model.mutable_variable_index_map.forward_at variable_ptr = some j ∧
          examples.lp_model.mutable_variable_index_map.keys.indexOf variable_ptr = j) ∧
      (∀ i, i < lp.number_of_rows → lp.RowEquivalent examples.lp_model i) ∧
      lp.RangesPartitionRows ∧
      lp.DualLowerBoundsZeroOnRanges ∧
      (examples.lp_model.Categorized → lp.RangesMatchSenses examples.lp_model) :=
  ⟨⟨by decide, by decide, by unfold ReferencedModel.ColumnsKnown; decide⟩, by decide, by decide,
    ReferencedModel.export_lp_instance_rows_equivalent examples.lp_model (-1073741824)
      1073741823 (by decide) (by decide) (by unfold ReferencedModel.ColumnsKnown; decide)⟩

end model
end printemps
